import Mathlib

/-! # Ren-C core: memory pools, series and the scanner

A shallow embedding of `src/core/m-pools.c` and `src/core/l-scan.c`.

* Pointers are natural numbers (addresses); `NULL` is `none`.
* `REBCNT` values are naturals reduced modulo `2^32` wherever the C code computes them.
* A C function that mutates global state takes the state and returns it; a `fail`,
  a `panic`, a violated `assert` and an access outside allocated memory are results
  of their own (`Fault`), and the state reached when they happen is kept.
-/

namespace RenC

/-! ## Machine integers -/

/-- The value of an expression of type `REBCNT` (32-bit unsigned). -/
def u32 (n : Nat) : Nat := n % 4294967296

/-- The constant `MAX_I32`. -/
def MAX_I32 : Nat := 2147483647

/-! ## Build and platform constants -/

/-- Constants the sources take from the compiler and from headers that are not part of
`src/`: whether `NDEBUG` is defined, and the `sizeof` of the structures involved. -/
structure Config where
  /-- Release build: `NDEBUG` is defined. -/
  NDEBUG : Bool
  /-- The C expression `sizeof(REBVAL)`, also `MEM_MIN_SIZE`. -/
  sizeof_REBVAL : Nat
  /-- The C expression `sizeof(REBSER)`. -/
  sizeof_REBSER : Nat
  /-- The C expression `sizeof(REBSEG)`. -/
  sizeof_REBSEG : Nat
  /-- The C expression `sizeof(REBGOB)`. -/
  sizeof_REBGOB : Nat
  /-- The C expression `sizeof(REBUPT)`: a pointer, also the header word of a cell. -/
  sizeof_REBUPT : Nat
deriving DecidableEq, Repr

/-- A 32-bit release build: cells of 16 bytes. -/
def config32 : Config :=
  { NDEBUG := true, sizeof_REBVAL := 16, sizeof_REBSER := 32, sizeof_REBSEG := 8,
    sizeof_REBGOB := 64, sizeof_REBUPT := 4 }

/-- A 64-bit release build: cells of 32 bytes. -/
def config64 : Config :=
  { NDEBUG := true, sizeof_REBVAL := 32, sizeof_REBSER := 64, sizeof_REBSEG := 16,
    sizeof_REBGOB := 96, sizeof_REBUPT := 8 }

/-- A 64-bit debug build (`NDEBUG` not defined). -/
def config64_debug : Config := { config64 with NDEBUG := false }

/-! ## Pool layout (`mem-pools.h`) -/

/-- Modelled from the spec: `mem-pools.h` is not among the sources. `MEM_MIN_SIZE` is
`sizeof(REBVAL)`, the 16 or 32 bytes of a cell. -/
def MEM_MIN_SIZE (c : Config) : Nat := c.sizeof_REBVAL

/-- Modelled from the spec: `mem-pools.h` is not among the sources. `MEM_BIG_SIZE` is the
unit of the large pools, 1024 bytes (the table comments them "1K", "2K", "3K", "4K"). -/
def MEM_BIG_SIZE : Nat := 1024

/-- Modelled from the spec: index of the first tiny pool (16 of them). -/
def MEM_TINY_POOL : Nat := 0

/-- Modelled from the spec: index of the first small pool (4 of them). -/
def MEM_SMALL_POOLS : Nat := MEM_TINY_POOL + 16

/-- Modelled from the spec: index of the first mid-size pool (4 of them). -/
def MEM_MID_POOLS : Nat := MEM_SMALL_POOLS + 4

/-- Modelled from the spec: index one past the pools for series data. -/
def MEM_BIG_POOLS : Nat := MEM_MID_POOLS + 4

/-- Modelled from the spec: the dedicated pool of series headers. -/
def SER_POOL : Nat := MEM_BIG_POOLS

/-- Modelled from the spec: the pool of gobs. -/
def GOB_POOL : Nat := SER_POOL + 1

/-- Modelled from the spec: the pseudo pool that tracks allocations made outside the pools. -/
def SYSTEM_POOL : Nat := GOB_POOL + 1

/-- Modelled from the spec: number of entries of `Mem_Pool_Spec`. -/
def MAX_POOLS : Nat := SYSTEM_POOL + 1

/-- An entry of `Mem_Pool_Spec`: node width in bytes and nodes per segment. -/
structure REBPOOLSPEC where
  wide : Nat
  units : Nat
deriving DecidableEq, Repr

/-- Modelled from the spec: `DEF_POOL(size, count)` is the entry `{size, count}`. -/
def DEF_POOL (size count : Nat) : REBPOOLSPEC := ⟨size, count⟩

/-- Modelled from the spec: `MOD_POOL(size, count)` is `{size * MEM_MIN_SIZE, count}`. -/
def MOD_POOL (c : Config) (size count : Nat) : REBPOOLSPEC := ⟨size * MEM_MIN_SIZE c, count⟩

/-- The table `Mem_Pool_Spec` (m-pools.c:203). -/
def Mem_Pool_Spec (c : Config) : List REBPOOLSPEC :=
  [ MOD_POOL c 1 256, MOD_POOL c 2 512, MOD_POOL c 3 1024, MOD_POOL c 4 512,
    MOD_POOL c 5 256, MOD_POOL c 6 128, MOD_POOL c 7 128, MOD_POOL c 8 64,
    MOD_POOL c 9 64, MOD_POOL c 10 64, MOD_POOL c 11 32, MOD_POOL c 12 32,
    MOD_POOL c 13 32, MOD_POOL c 14 32, MOD_POOL c 15 32, MOD_POOL c 16 64,
    MOD_POOL c 20 32, MOD_POOL c 24 16, MOD_POOL c 28 16, MOD_POOL c 32 8,
    DEF_POOL MEM_BIG_SIZE 16, DEF_POOL (MEM_BIG_SIZE * 2) 8,
    DEF_POOL (MEM_BIG_SIZE * 3) 4, DEF_POOL (MEM_BIG_SIZE * 4) 4,
    DEF_POOL c.sizeof_REBSER 4096, DEF_POOL c.sizeof_REBGOB 128, DEF_POOL 8 1 ]

/-! ## Nodes, segments, pools -/

/-- The part of a node the pools use: `header.bits` and, while free, `next_if_free`. -/
structure REBNOD where
  header : Nat
  next_if_free : Option Nat
deriving DecidableEq, Repr

/-- A segment: one system allocation sliced into nodes. `addr` is where it starts;
`next` of the C structure is the rest of the list `REBPOL.segs`. -/
structure REBSEG where
  addr : Nat
  size : Nat
deriving DecidableEq, Repr

/-- A pool header (`REBPOL`). -/
structure REBPOL where
  segs : List REBSEG
  first : Option Nat
  last : Option Nat
  wide : Nat
  units : Nat
  free : Nat
  has : Nat
deriving DecidableEq, Repr

/-! ## Series nodes -/

/-- A series node (`REBSER`). The flags of `header.bits` and `info.bits` are fields of
their own. The elements live in `mem`, the bytes of the memory block that starts at address
`base`: for a dynamic series the block `Series_Data_Alloc` obtained (which starts
`bias` elements before `data`), otherwise the `content` union inside the node. -/
structure REBSER where
  /-- Address of the node in the series pool. -/
  node : Nat
  /-- Header flag `NODE_FLAG_VALID`. -/
  valid : Bool
  /-- Header flag `NODE_FLAG_MANAGED`. -/
  managed : Bool
  /-- Header flag `SERIES_FLAG_ARRAY`. -/
  is_array : Bool
  /-- Header flag `SERIES_FLAG_FIXED_SIZE`. -/
  fixed_size : Bool
  /-- Width of an element in bytes, kept in `info` (`SER_WIDE`). -/
  wide : Nat
  /-- Info flag `SERIES_INFO_HAS_DYNAMIC`. -/
  has_dynamic : Bool
  /-- Info flag `SERIES_INFO_POWER_OF_2`. -/
  power_of_2 : Bool
  /-- Length of a series that is not dynamic, a byte of `info`. -/
  info_len : Nat
  /-- Info bit `NODE_FLAG_END`, set by `Init_Endlike_Header`: the info word lies where the
  header of the cell `content.values[1]` would be, and ends an array held in the node. -/
  info_end : Bool
  /-- The field `content.dynamic.data`. -/
  data : Option Nat
  /-- The field `content.dynamic.len`. -/
  len : Nat
  /-- The field `content.dynamic.rest`. -/
  rest : Nat
  /-- The field `content.dynamic.bias`. -/
  bias : Nat
  base : Nat
  mem : List Nat
deriving DecidableEq, Repr

/-- How a call can end other than by returning. -/
inductive Fault where
  /-- The C statement `fail (Error_No_Memory(n))`. -/
  | no_memory (bytes : Nat)
  /-- The C statement `fail (Error(RE_PAST_END))`. -/
  | past_end
  /-- The C statement `fail (Error(RE_LOCKED_SERIES))`. -/
  | locked_series
  /-- The memory security policy refused (`Check_Security`). -/
  | security
  /-- A `panic (...)`. -/
  | panic
  /-- A violated `assert`, or a read or write outside allocated memory. -/
  | undefined
  /-- A loop that does not end. -/
  | diverges
deriving DecidableEq, Repr

/-- The global state of the memory manager. -/
structure Memory where
  cfg : Config
  /-- Debug builds only: set from the environment variable `R3_ALWAYS_MALLOC`. -/
  PG_Always_Malloc : Bool
  Mem_Pools : List REBPOL
  PG_Pool_Map : List Nat
  /-- Node memory, by address. -/
  nodes : Nat → REBNOD
  /-- The system allocator: the next address `malloc` hands out. -/
  brk : Nat
  /-- The system allocator: the end of the memory `malloc` can hand out. -/
  heap_end : Nat
  /-- The system allocator: size of each live block, by address. -/
  blocks : Nat → Option Nat
  PG_Mem_Usage : Nat
  PG_Mem_Limit : Nat
  GC_Ballast : Int
  /-- The signal `SIG_RECYCLE`. -/
  SIG_RECYCLE : Bool
  /-- The series that lists the manually managed series. -/
  GC_Manuals : REBSER
  /-- The table of recently expanded series: pointer values, `0` is `NULL`. -/
  Prior_Expand : List Nat
  /-- What a byte of memory holds before anything is stored in it. -/
  junk : Nat → Nat

/-- Result of a call: the value returned, or the fault, and the state reached. -/
inductive Result (α : Type) where
  | ok (a : α) (m : Memory)
  | fault (f : Fault) (m : Memory)

/-- The state a call ends in. -/
def Result.mem {α : Type} : Result α → Memory
  | .ok _ m => m
  | .fault _ m => m

/-- The pool `Mem_Pools[pool_id]`. -/
def Memory.pool (m : Memory) (pool_id : Nat) : Option REBPOL := m.Mem_Pools[pool_id]?

/-- The assignment `Mem_Pools[pool_id] = p`. -/
def Memory.set_pool (m : Memory) (pool_id : Nat) (p : REBPOL) : Memory :=
  { m with Mem_Pools := m.Mem_Pools.set pool_id p }

/-- The assignment `*node = n`. -/
def Memory.set_node (m : Memory) (node : Nat) (n : REBNOD) : Memory :=
  { m with nodes := Function.update m.nodes node n }

/-! ## The system allocator -/

/-- The C library `malloc`: a block of `size` bytes at the next free 8-byte aligned address,
or `NULL` when the memory is used up. Blocks are never handed out twice. -/
def malloc (m : Memory) (size : Nat) : Option Nat × Memory :=
  if m.brk + size ≤ m.heap_end then
    (some m.brk,
      { m with brk := m.brk + (size + 7) / 8 * 8,
               blocks := Function.update m.blocks m.brk (some size) })
  else (none, m)

/-- Alloc_Mem (m-pools.c:103). `Check_Security` is not among the sources: it is taken to
refuse, as the memory policy allows. In a debug build the size is stamped in the 8 bytes
before the block, without a test of what `malloc` returned. -/
def Alloc_Mem (m : Memory) (size : Nat) : Result (Option Nat) :=
  let m1 := { m with PG_Mem_Usage := m.PG_Mem_Usage + size }
  if m1.PG_Mem_Limit ≠ 0 ∧ m1.PG_Mem_Usage > m1.PG_Mem_Limit then .fault .security m1
  else if m1.cfg.NDEBUG then
    match malloc m1 size with
    | (p, m2) => .ok p m2
  else
    match malloc m1 (size + 8) with
    | (none, m2) => .fault .undefined m2
    | (some p, m2) =>
      .ok (some (p + 8)) { m2 with blocks := Function.update m2.blocks (p + 8) (some size) }

/-- Free_Mem (m-pools.c:157). A debug build checks the stamped size. -/
def Free_Mem (m : Memory) (mem size : Nat) : Result Unit :=
  if ¬ m.cfg.NDEBUG ∧ m.blocks mem ≠ some size then .fault .undefined m
  else
    .ok () { m with blocks := Function.update m.blocks mem none,
                    PG_Mem_Usage := m.PG_Mem_Usage - size }

/-! ## Pools: Fill_Pool, Make_Node, Free_Node -/

/-- The macro `FIND_POOL(n)` (m-pools.c:177 and 182). -/
def FIND_POOL (m : Memory) (n : Nat) : Nat :=
  if m.cfg.NDEBUG then
    if n ≤ 4 * MEM_BIG_SIZE then m.PG_Pool_Map.getD n 0 else SYSTEM_POOL
  else
    if ¬ m.PG_Always_Malloc ∧ n ≤ 4 * MEM_BIG_SIZE then m.PG_Pool_Map.getD n 0
    else SYSTEM_POOL

/-- The loop `while (TRUE)` of Fill_Pool (m-pools.c:457): `k` is the value of `units`
after the decrement, `node` the node being set up. Returns the node memory and the last
node. -/
def Fill_Pool_loop (wide : Nat) : Nat → Nat → (Nat → REBNOD) → (Nat → REBNOD) × Nat
  | 0, node, nodes => (Function.update nodes node ⟨0, none⟩, node)
  | k + 1, node, nodes =>
    Fill_Pool_loop wide k (node + wide) (Function.update nodes node ⟨0, some (node + wide)⟩)

/-- Fill_Pool (m-pools.c:420), on the pool `Mem_Pools[pool_id]`. -/
def Fill_Pool (m : Memory) (pool_id : Nat) : Result Unit :=
  match m.pool pool_id with
  | none => .fault .undefined m
  | some pool =>
    let units := pool.units
    let mem_size := u32 (pool.wide * units + m.cfg.sizeof_REBSEG)
    match Alloc_Mem m mem_size with
    | .fault f m1 => .fault f m1
    | .ok none m1 => .fault .panic m1
    | .ok (some seg) m1 =>
      let pool1 := { pool with segs := ⟨seg, mem_size⟩ :: pool.segs,
                               has := u32 (pool.has + units),
                               free := u32 (pool.free + units) }
      let node := seg + m.cfg.sizeof_REBSEG
      -- Add new nodes to the end of free list
      let linked : Option (REBPOL × Memory) :=
        match pool1.first with
        | none =>
          if ¬ m.cfg.NDEBUG ∧ pool1.last ≠ none then none
          else some ({ pool1 with first := some node }, m1)
        | some _ =>
          match pool1.last with
          | none => none
          | some last =>
            some (pool1, m1.set_node last { m1.nodes last with next_if_free := some node })
      match linked with
      | none => .fault .undefined (m1.set_pool pool_id pool1)
      | some (pool2, m2) =>
        match units with
        | 0 => .fault .undefined (m2.set_pool pool_id pool2)
        | k + 1 =>
          match Fill_Pool_loop pool.wide k node m2.nodes with
          | (nodes3, last3) =>
            .ok () ({ m2 with nodes := nodes3 }.set_pool pool_id { pool2 with last := some last3 })

/-- Make_Node (m-pools.c:490). -/
def Make_Node (m : Memory) (pool_id : Nat) : Result Nat :=
  match m.pool pool_id with
  | none => .fault .undefined m
  | some pool =>
    let filled : Result Unit := if pool.first = none then Fill_Pool m pool_id else .ok () m
    match filled with
    | .fault f m1 => .fault f m1
    | .ok _ m1 =>
      match m1.pool pool_id with
      | none => .fault .undefined m1
      | some pool1 =>
        match pool1.first with
        | none => .fault .undefined m1
        | some node =>
          let pool2 := { pool1 with first := (m1.nodes node).next_if_free,
                                    last := if some node = pool1.last then none else pool1.last,
                                    free := u32 (pool1.free + 4294967295) }
          let m2 := m1.set_pool pool_id pool2
          if ¬ m.cfg.NDEBUG ∧ (node % 8 ≠ 0 ∨ (m1.nodes node).header ≠ 0) then
            .fault .undefined m2
          else .ok node m2

/-- Free_Node (m-pools.c:518). -/
def Free_Node (m : Memory) (pool_id : Nat) (pv : Nat) : Result Unit :=
  let node := pv
  if ¬ m.cfg.NDEBUG ∧ (m.nodes node).header = 0 then .fault .undefined m
  else
    let m1 := m.set_node node { m.nodes node with header := 0 }
    match m1.pool pool_id with
    | none => .fault .undefined m1
    | some pool =>
      if m.cfg.NDEBUG then
        let m2 := m1.set_node node { m1.nodes node with next_if_free := pool.first }
        .ok () (m2.set_pool pool_id { pool with first := some node, free := u32 (pool.free + 1) })
      else
        let filled : Result Unit := if pool.last = none then Fill_Pool m1 pool_id else .ok () m1
        match filled with
        | .fault f m2 => .fault f m2
        | .ok _ m2 =>
          match m2.pool pool_id with
          | none => .fault .undefined m2
          | some pool2 =>
            match pool2.last with
            | none => .fault .undefined m2
            | some last =>
              let m3 := m2.set_node last { m2.nodes last with next_if_free := some node }
              let m4 := m3.set_node node { m3.nodes node with next_if_free := none }
              .ok () (m4.set_pool pool_id
                { pool2 with last := some node, free := u32 (pool2.free + 1) })

/-- Free_Unbiased_Series_Data (m-pools.c:1087). -/
def Free_Unbiased_Series_Data (m : Memory) (unbiased : Nat) (size_unpooled : Nat) :
    Result Unit :=
  let pool_num := FIND_POOL m size_unpooled
  if pool_num < SYSTEM_POOL then
    let node := unbiased
    match m.pool pool_num with
    | none => .fault .undefined m
    | some pool =>
      if ¬ m.cfg.NDEBUG ∧ ¬ (pool.wide ≥ size_unpooled) then .fault .undefined m
      else
        let m1 := m.set_node node { m.nodes node with next_if_free := pool.first }
        let m2 := m1.set_pool pool_num { pool with first := some node, free := u32 (pool.free + 1) }
        .ok () (m2.set_node node { m2.nodes node with header := 0 })
  else
    match Free_Mem m unbiased size_unpooled with
    | .fault f m1 => .fault f m1
    | .ok _ m1 =>
      match m1.pool SYSTEM_POOL with
      | none => .fault .undefined m1
      | some pool =>
        .ok () (m1.set_pool SYSTEM_POOL
          { pool with has := u32 (pool.has + 4294967296 - size_unpooled % 4294967296),
                      free := u32 (pool.free + 1) })

/-! ## Init_Pools: the pool table and the size map -/

/-- The value Init_Pools stores in `PG_Pool_Map[n]` (m-pools.c:311 to 317), a `REBYTE`. -/
def Pool_Map_Entry (c : Config) (n : Nat) : Nat :=
  if n ≤ 8 then 0
  else if n ≤ 16 * MEM_MIN_SIZE c then (MEM_TINY_POOL + ((n - 1) / MEM_MIN_SIZE c)) % 256
  else if n ≤ 32 * MEM_MIN_SIZE c then
    (MEM_SMALL_POOLS - 4 + ((n - 1) / (MEM_MIN_SIZE c * 4))) % 256
  else (MEM_MID_POOLS + ((n - 1) / MEM_BIG_SIZE)) % 256

/-- The table `PG_Pool_Map` as Init_Pools leaves it: entries `0` to `4 * MEM_BIG_SIZE`. -/
def Init_Pool_Map (c : Config) : List Nat :=
  (List.range (4 * MEM_BIG_SIZE + 1)).map (Pool_Map_Entry c)

/-- The pool header Init_Pools makes of a table entry (m-pools.c:284 to 304). -/
def Init_Pool (spec : REBPOOLSPEC) (scale unscale : Nat) : REBPOL :=
  let units := u32 (spec.units * scale) / unscale
  { segs := [], first := none, last := none, wide := spec.wide,
    units := if units < 2 then 2 else units, free := 0, has := 0 }

/-! ## Series: accessors (`sys-series.h`) -/

/-- Flags of Make_Series, Remake_Series and Series_Data_Alloc (`MKS_ARRAY`,
`MKS_POWER_OF_2`, `MKS_PRESERVE`, `MKS_GC_MANUALS`). -/
structure MKS where
  ARRAY : Bool
  POWER_OF_2 : Bool
  PRESERVE : Bool
  GC_MANUALS : Bool
deriving DecidableEq, Repr

/-- The flags `MKS_NONE`. -/
def MKS_NONE : MKS := ⟨false, false, false, false⟩

/-- Modelled from the spec: `sys-series.h` is not among the sources. The `content` union of
a node holds one cell, so `sizeof(s->content)` is `sizeof(REBVAL)`. -/
def sizeof_content (c : Config) : Nat := c.sizeof_REBVAL

/-- Modelled from the spec: address of the `content` union inside the node. -/
def content_addr (c : Config) (node : Nat) : Nat := node + c.sizeof_REBUPT

/-- Modelled from the spec: `SER_LEN(s)`, the dynamic length or the length byte of `info`. -/
def SER_LEN (s : REBSER) : Nat := if s.has_dynamic then s.len else s.info_len

/-- Modelled from the spec: `SET_SERIES_LEN(s, len)`. -/
def SET_SERIES_LEN (s : REBSER) (len : Nat) : REBSER :=
  if s.has_dynamic then { s with len := len } else { s with info_len := len % 256 }

/-- Modelled from the spec: `SER_REST(s)`, the capacity in elements; an array that is not
dynamic has one cell and the implicit terminator. -/
def SER_REST (c : Config) (s : REBSER) : Nat :=
  if s.has_dynamic then s.rest
  else if s.is_array then 2
  else sizeof_content c / s.wide

/-- Modelled from the spec: `SER_BIAS(s)`. -/
def SER_BIAS (s : REBSER) : Nat := s.bias

/-- Modelled from the spec: `SER_TOTAL(s)`, the bytes of the allocation,
`(rest + bias) * wide` as a `REBCNT`. -/
def SER_TOTAL (s : REBSER) : Nat := u32 ((s.rest + SER_BIAS s) * s.wide)

/-- Modelled from the spec: `SER_FULL(s)`, no room for one more element and a terminator. -/
def SER_FULL (c : Config) (s : REBSER) : Bool := decide (SER_LEN s + 1 ≥ SER_REST c s)

/-- Modelled from the spec: `SER_DATA_RAW(s)`, the dynamic data pointer or the address of
the `content` union. -/
def SER_DATA_RAW (c : Config) (s : REBSER) : Option Nat :=
  if s.has_dynamic then s.data else some (content_addr c s.node)

/-- Read `n` bytes at address `addr` of the memory of `s`; `none` outside of it. -/
def REBSER.read (s : REBSER) (addr n : Nat) : Option (List Nat) :=
  if s.base ≤ addr ∧ addr + n ≤ s.base + s.mem.length then
    some ((s.mem.drop (addr - s.base)).take n)
  else none

/-- Store `bytes` at address `addr` of the memory of `s`; `none` outside of it. -/
def REBSER.write (s : REBSER) (addr : Nat) (bytes : List Nat) : Option REBSER :=
  if s.base ≤ addr ∧ addr + bytes.length ≤ s.base + s.mem.length then
    some { s with mem := s.mem.take (addr - s.base) ++ bytes
                          ++ s.mem.drop (addr - s.base + bytes.length) }
  else none

/-- The C library `memmove(dst, src, n)` inside the memory of `s`. -/
def REBSER.memmove (s : REBSER) (dst src n : Nat) : Option REBSER :=
  match s.read src n with
  | none => none
  | some bytes => s.write dst bytes

/-- Element `i` of the series: the `wide` bytes at `SER_DATA_RAW(s) + i * wide`. -/
def SER_AT (c : Config) (s : REBSER) (i : Nat) : Option (List Nat) :=
  match SER_DATA_RAW c s with
  | none => none
  | some data => s.read (data + i * s.wide) s.wide

/-- Modelled from the spec: the flag `NODE_FLAG_END` sits in the first byte of a header. -/
def NODE_FLAG_END : Nat := 64

/-- The bytes of a header word whose bits are `bits` (flags in the first byte). -/
def header_bytes (c : Config) (bits : Nat) : List Nat :=
  (List.range c.sizeof_REBUPT).map (fun i => bits / 256 ^ i % 256)

/-- Whether the cell at address `addr` of the memory of `s` has the END flag. -/
def IS_END_AT (s : REBSER) (addr : Nat) : Option Bool :=
  match s.read addr 1 with
  | some [b] => some (Nat.testBit b 6)
  | _ => none

/-- Modelled from the spec: `TERM_ARRAY_LEN(a, len)` sets the length and puts an END in the
cell at `len`, unless that cell is the last of the capacity, which is an END already. -/
def TERM_ARRAY_LEN (c : Config) (s : REBSER) (len : Nat) : Option REBSER :=
  let rest := SER_REST c s
  if ¬ c.NDEBUG ∧ ¬ (len < rest) then none
  else
    let s1 := SET_SERIES_LEN s len
    if len + 1 = rest then some s1
    else
      match SER_DATA_RAW c s1 with
      | none => none
      | some data => s1.write (data + len * c.sizeof_REBVAL) (header_bytes c NODE_FLAG_END)

/-- Modelled from the spec: `TERM_SEQUENCE(s)` zeroes the element at the tail,
`memset(SER_AT_RAW(wide, s, len), 0, wide)`, the offset `wide * len` being a `REBCNT`. -/
def TERM_SEQUENCE (c : Config) (s : REBSER) : Option REBSER :=
  match SER_DATA_RAW c s with
  | none => none
  | some data => s.write (data + u32 (s.wide * SER_LEN s)) (List.replicate s.wide 0)

/-- Modelled from the spec: `TERM_SERIES(s)`. -/
def TERM_SERIES (c : Config) (s : REBSER) : Option REBSER :=
  if s.is_array then TERM_ARRAY_LEN c s (SER_LEN s) else TERM_SEQUENCE c s

/-- The memory a fresh block of `size` bytes at `addr` holds. -/
def fresh_mem (m : Memory) (addr size : Nat) : List Nat :=
  (List.range size).map (fun i => m.junk (addr + i))

/-- The value of an expression of type `REBINT` (32-bit signed, wrapping). -/
def i32 (z : Int) : Int := (z + 2147483648) % 4294967296 - 2147483648

/-- The statement `if ((GC_Ballast -= size) <= 0) SET_SIGNAL(SIG_RECYCLE);`. -/
def Memory.sub_ballast (m : Memory) (size : Nat) : Memory :=
  let b := i32 (m.GC_Ballast - size)
  { m with GC_Ballast := b, SIG_RECYCLE := if b ≤ 0 then true else m.SIG_RECYCLE }

/-! ## Series: allocation -/

/-- The loop `len = 2048; while (len < size) len *= 2;` with `len` a `REBCNT`; `none` when
it has not ended after `fuel` turns. -/
def pow2_loop (size : Nat) : Nat → Nat → Option Nat
  | 0, _ => none
  | fuel + 1, len => if len < size then pow2_loop size fuel (u32 (len * 2)) else some len

/-- Series_Allocation_Unpooled (m-pools.c:836); `none` when the loop does not end. -/
def Series_Allocation_Unpooled (s : REBSER) : Option Nat :=
  let total := SER_TOTAL s
  if s.power_of_2 then pow2_loop total 64 2048 else some total

/-- The allocation of the block in Series_Data_Alloc (m-pools.c:583 to 625): a node of the
pool for the size, or memory of the system. The result is the size of the block (`none`
when there is no memory) and the series with its data pointer and power-of-2 flag set. -/
def Series_Data_Alloc_block (m : Memory) (s : REBSER) (length wide : Nat) (flags : MKS) :
    Result (Option Nat × REBSER) :=
  let pool_num := FIND_POOL m (u32 (length * wide))
  if pool_num < SYSTEM_POOL then
    match Make_Node m pool_num with
    | .fault f m1 => .fault f m1
    | .ok node m1 =>
      match m1.pool pool_num with
      | none => .fault .undefined m1
      | some pool =>
        let size := pool.wide
        if ¬ m.cfg.NDEBUG ∧ ¬ (size ≥ u32 (length * wide)) then .fault .undefined m1
        else
          .ok (some size, { s with data := some node, base := node,
                                   mem := fresh_mem m1 node size,
                                   power_of_2 := false }) m1
  else
    let size0 := u32 (length * wide)
    let rounded : Option (Nat × Bool) :=
      if flags.POWER_OF_2 then
        match pow2_loop size0 64 2048 with
        | none => none
        | some len => some (len, decide (len % wide ≠ 0))
      else some (size0, false)
    match rounded with
    | none => .fault .diverges m
    | some (size, p2) =>
      if flags.POWER_OF_2 ∧ wide = 0 then .fault .undefined m
      else
        let s1 := { s with power_of_2 := p2 }
        match Alloc_Mem m size with
        | .fault f m1 => .fault f m1
        | .ok none m1 => .ok (none, s1) m1
        | .ok (some data) m1 =>
          match m1.pool SYSTEM_POOL with
          | none => .fault .undefined m1
          | some pool =>
            .ok (some size, { s1 with data := some data, base := data,
                                      mem := fresh_mem m1 data size })
              (m1.set_pool SYSTEM_POOL
                { pool with has := u32 (pool.has + size), free := u32 (pool.free + 1) })

/-- The rest of Series_Data_Alloc, once the block of `size` bytes is there (m-pools.c:627
to 724): width, bias, capacity and length are set, the ballast is charged, and an array
gets the END in its last cell. `m` is the state at the call of Series_Data_Alloc. -/
def Series_Data_Alloc_setup (m : Memory) (length wide : Nat) (flags : MKS) (size : Nat)
    (s1 : REBSER) (m1 : Memory) : Result (Bool × REBSER) :=
  let pool_num := FIND_POOL m (u32 (length * wide))
  if ¬ m.cfg.NDEBUG ∧ flags.ARRAY ∧ wide ≠ m.cfg.sizeof_REBVAL then .fault .undefined m1
  else if wide = 0 then .fault .undefined m1
  else
    let s2 := { s1 with wide := wide, bias := 0, is_array := flags.ARRAY,
                        rest := size / wide, len := 0, has_dynamic := true }
    let m2 := m1.sub_ballast size
    if ¬ m.cfg.NDEBUG ∧ ¬ pool_num < SYSTEM_POOL ∧
        Series_Allocation_Unpooled s2 ≠ some size then .fault .undefined m2
    else if flags.ARRAY then
      match s2.data with
      | none => .fault .undefined m2
      | some data =>
        if s2.rest = 0 then .fault .undefined m2
        else
          match s2.write (data + (s2.rest - 1) * m.cfg.sizeof_REBVAL)
              (header_bytes m.cfg NODE_FLAG_END) with
          | none => .fault .undefined m2
          | some s3 => .ok (true, s3) m2
    else .ok (true, s2) m2

/-- Series_Data_Alloc (m-pools.c:563). The result is the `REBOOL` returned and the series.
The trash a debug build writes into fresh cells is not modelled. -/
def Series_Data_Alloc (m : Memory) (s : REBSER) (length wide : Nat) (flags : MKS) :
    Result (Bool × REBSER) :=
  if ¬ m.cfg.NDEBUG ∧ (s.data ≠ none ∨ ¬ (wide = 1 ∨ wide % 2 ≠ 1)) then .fault .undefined m
  else
    match Series_Data_Alloc_block m s length wide flags with
    | .fault f m1 => .fault f m1
    | .ok (none, s1) m1 => .ok (false, s1) m1
    | .ok (some size, s1) m1 => Series_Data_Alloc_setup m length wide flags size s1 m1

/-! ## Series: Expand_Series -/

/-- Modelled from the spec: `MAX_EXPAND_LIST`, the size of the table `Prior_Expand`. -/
def MAX_EXPAND_LIST : Nat := 5

/-- The loop over `Prior_Expand` (m-pools.c:1272): `ns` are the values `n_found` still has
to take, `avail` is `n_available`. Returns the `n_found` at which the series `s` was met,
if it was, and `n_available`. -/
def Prior_Expand_loop (prior : List Nat) (s : Nat) : List Nat → Nat → Option Nat × Nat
  | [], avail => (none, avail)
  | n :: ns, avail =>
    if prior.getD n 0 = s then (some n, avail)
    else Prior_Expand_loop prior s ns (if prior.getD n 0 = 0 then n else avail)

/-- The head insertion of Expand_Series (m-pools.c:1170 to 1194): the bias region takes the
new elements. -/
def Expand_Series_head (m : Memory) (s : REBSER) (delta : Nat) : Result REBSER :=
  match s.data with
  | none => .fault .undefined m
  | some data =>
    if u32 (s.wide * delta) > data then .fault .undefined m
    else
      .ok { s with data := some (data - u32 (s.wide * delta)),
                   len := u32 (s.len + delta),
                   rest := u32 (s.rest + delta),
                   bias := s.bias - delta } m

/-- Expand_Series where no expansion is needed (m-pools.c:1204 to 1247): the data after
`index` slides down. -/
def Expand_Series_slide (m : Memory) (s : REBSER) (index delta : Nat) : Result REBSER :=
  let c := m.cfg
  let len_old := SER_LEN s
  let wide := s.wide
  let was_dynamic := s.has_dynamic
  let start := u32 (index * wide)
  let extra := u32 (delta * wide)
  let size := u32 (SER_LEN s * wide)
  match SER_DATA_RAW c s with
  | none => .fault .undefined m
  | some data =>
    match s.memmove (data + start + extra) (data + start) (u32 (size + 4294967296 - start)) with
    | none => .fault .undefined m
    | some s1 =>
      let s2 := SET_SERIES_LEN s1 (u32 (len_old + delta))
      if ¬ c.NDEBUG ∧ was_dynamic ∧
          ¬ (u32 ((SER_LEN s2 + SER_BIAS s2) * wide) < SER_TOTAL s2) then
        .fault .undefined m
      else
        match TERM_SERIES c s2 with
        | none => .fault .undefined m
        | some s3 => .ok s3 m

/-- Expand_Series where a new allocation is required (m-pools.c:1267 to 1349). -/
def Expand_Series_move (m : Memory) (s : REBSER) (index delta : Nat) : Result REBSER :=
  let c := m.cfg
  let len_old := SER_LEN s
  let wide := s.wide
  let is_array := s.is_array
  let was_dynamic := s.has_dynamic
  let start := u32 (index * wide)
  let extra := u32 (delta * wide)
  let size := u32 (SER_LEN s * wide)
  -- have we recently expanded the same series?
  let found := Prior_Expand_loop m.Prior_Expand s.node (List.range MAX_EXPAND_LIST) 0
  let x := if found.1.isSome then u32 (SER_LEN s + delta + 1) else 1
  let n_available := found.2
  let size_old : Option Nat := if was_dynamic then Series_Allocation_Unpooled s else some 0
  match size_old, SER_DATA_RAW c s with
  | none, _ => .fault .diverges m
  | some _, none => .fault .undefined m
  | some size_old, some data_old =>
    let bias_old := SER_BIAS s
    match Series_Data_Alloc m { s with data := none } (u32 (len_old + delta + x)) wide
        { ARRAY := is_array, POWER_OF_2 := true, PRESERVE := false,
          GC_MANUALS := false } with
    | .fault f m1 => .fault f m1
    | .ok (false, _) m1 => .fault (.no_memory (u32 (u32 (len_old + delta + x) * wide))) m1
    | .ok (true, s1) m1 =>
      let m2 :=
        if found.1.isSome then m1
        else { m1 with Prior_Expand := m1.Prior_Expand.set n_available s.node }
      -- copy the series up to the expansion point, then after it
      match s1.data, s.read data_old start,
          s.read (data_old + start) (u32 (size + 4294967296 - start)) with
      | some data, some head, some tail =>
        match s1.write data head with
        | none => .fault .undefined m2
        | some s2 =>
          match s2.write (data + start + extra) tail with
          | none => .fault .undefined m2
          | some s3 =>
            match TERM_SERIES c { s3 with len := u32 (len_old + delta) } with
            | none => .fault .undefined m2
            | some s4 =>
              if was_dynamic then
                if (¬ c.NDEBUG ∧ SER_BIAS s4 ≠ 0) ∨ wide * bias_old > data_old then
                  .fault .undefined m2
                else
                  match Free_Unbiased_Series_Data m2 (data_old - wide * bias_old)
                      size_old with
                  | .fault f m3 => .fault f m3
                  | .ok _ m3 => .ok s4 m3
              else .ok s4 m2
      | _, _, _ => .fault .undefined m2

/-- Expand_Series (m-pools.c:1156). -/
def Expand_Series (m : Memory) (s : REBSER) (index delta : Nat) : Result REBSER :=
  let c := m.cfg
  if ¬ c.NDEBUG ∧ ¬ (index ≤ SER_LEN s) then .fault .undefined m
  else if delta % 4294967296 ≥ 2147483648 then .fault .past_end m
  else if delta = 0 then .ok s m
  else if s.has_dynamic ∧ index = 0 ∧ SER_BIAS s ≥ delta then
    -- head insertion optimization
    Expand_Series_head m s delta
  else if u32 (u32 (SER_LEN s * s.wide) + u32 (delta * s.wide) + s.wide)
      ≤ u32 (SER_REST c s * s.wide) then
    -- no expansion was needed: slide data down if necessary
    Expand_Series_slide m s index delta
  else if s.fixed_size then .fault .locked_series m
  else Expand_Series_move m s index delta

/-- Modelled from the spec: Extend_Series is not among the sources. It makes room for
`delta` more elements at the tail (`EXPAND_SERIES_TAIL`) and keeps the length. -/
def Extend_Series (m : Memory) (s : REBSER) (delta : Nat) : Result REBSER :=
  let len_old := SER_LEN s
  if u32 (SER_LEN s + delta + 1) < SER_REST m.cfg s then .ok s m
  else
    match Expand_Series m s (SER_LEN s) delta with
    | .fault f m1 => .fault f m1
    | .ok s1 m1 => .ok (SET_SERIES_LEN s1 len_old) m1

/-! ## Series: Make_Series -/

/-- Modelled from the spec: the bits `NODE_FLAG_VALID` of a node header. -/
def NODE_FLAG_VALID : Nat := 128

/-- The node as Make_Series has it before the data is allocated (m-pools.c:878 to 905):
the node is not zero-filled; the info bits are reset and end the `content`, the data
pointer is nulled. -/
def Make_Series_node (m3 : Memory) (node : Nat) : REBSER :=
  let c := m3.cfg
  { node := node, valid := true, managed := false, is_array := false,
    fixed_size := false, wide := 0, has_dynamic := false, power_of_2 := false,
    info_len := 0, info_end := true, data := none, len := m3.junk node,
    rest := m3.junk (node + 1),
    bias := m3.junk (node + 2), base := content_addr c node,
    mem := List.replicate c.sizeof_REBUPT 0 ++
      fresh_mem m3 (content_addr c node + c.sizeof_REBUPT)
        (sizeof_content c - c.sizeof_REBUPT) }

/-- The choice of the place of the data in Make_Series (m-pools.c:907 to 934): in the node
for an array of at most 2 cells and for data that fits the `content`, else a block of
Series_Data_Alloc. -/
def Make_Series_data (m3 : Memory) (s0 : REBSER) (capacity wide : Nat) (flags : MKS) :
    Result REBSER :=
  let c := m3.cfg
  if flags.ARRAY ∧ capacity ≤ 2 then .ok { s0 with wide := wide, is_array := true } m3
  else if u32 (capacity * wide) ≤ sizeof_content c then .ok { s0 with wide := wide } m3
  else
    match Series_Data_Alloc m3 s0 capacity wide flags with
    | .fault f m4 => .fault f m4
    | .ok (true, s1) m4 => .ok s1 m4
    | .ok (false, _) m4 =>
      match Free_Node m4 SER_POOL s0.node with
      | .fault f m5 => .fault f m5
      | .ok _ m5 => .fault (.no_memory (u32 (capacity * wide))) m5

/-- The end of Make_Series (m-pools.c:936 to 961): the series `s1` is put at the tail of
the manuals list, unless it is the manuals list itself. -/
def Make_Series_manual (m4 : Memory) (s1 : REBSER) (flags : MKS) : Result REBSER :=
  let c := m4.cfg
  if flags.GC_MANUALS then
    if ¬ c.NDEBUG ∧ SER_LEN s1 ≠ 0 then .fault .undefined m4 else .ok s1 m4
  else if ¬ c.NDEBUG ∧ ¬ m4.GC_Manuals.has_dynamic then .fault .undefined m4
  else
    let extended : Result REBSER :=
      if SER_FULL c m4.GC_Manuals then Extend_Series m4 m4.GC_Manuals 8
      else .ok m4.GC_Manuals m4
    match extended with
    | .fault f m5 => .fault f m5
    | .ok manuals m5 =>
      match manuals.data with
      | none => .fault .undefined { m5 with GC_Manuals := manuals }
      | some data =>
        match manuals.write (data + manuals.len * c.sizeof_REBUPT)
            (header_bytes c s1.node) with
        | none => .fault .undefined { m5 with GC_Manuals := manuals }
        | some manuals1 =>
          let m6 := { m5 with GC_Manuals := { manuals1 with len := u32 (manuals.len + 1) } }
          if ¬ c.NDEBUG ∧ SER_LEN s1 ≠ 0 then .fault .undefined m6 else .ok s1 m6

/-- Make_Series (m-pools.c:860). -/
def Make_Series (m : Memory) (capacity wide : Nat) (flags : MKS) : Result REBSER :=
  let c := m.cfg
  if ¬ c.NDEBUG ∧ (flags.PRESERVE ∨ ¬ (wide ≠ 0 ∧ capacity ≠ 0)) then .fault .undefined m
  else if capacity * wide > MAX_I32 then .fault (.no_memory (capacity * wide)) m
  else
    match Make_Node m SER_POOL with
    | .fault f m1 => .fault f m1
    | .ok node m1 =>
      let m2 := m1.set_node node { m1.nodes node with header := NODE_FLAG_VALID }
      let m3 := m2.sub_ballast c.sizeof_REBSER
      match Make_Series_data m3 (Make_Series_node m3 node) capacity wide flags with
      | .fault f m4 => .fault f m4
      | .ok s1 m4 => Make_Series_manual m4 s1 flags

/-! ## Init_Pools -/

/-- The pool headers Init_Pools makes (m-pools.c:283); `none` is the panic on a pool
width that is not 64-bit aligned. -/
def Init_Pool_Table (c : Config) (scale unscale : Nat) : Option (List REBPOL) :=
  if (Mem_Pool_Spec c).all (fun spec => spec.wide % 8 = 0) then
    some ((Mem_Pool_Spec c).map (fun spec => Init_Pool spec scale unscale))
  else none

/-- The state Init_Pools builds before it makes its first series (m-pools.c:283 to 317):
the pools of the table, all empty, and the size map. -/
def Init_Pools_Tables (m : Memory) (scale unscale : Nat) : Option Memory :=
  match Init_Pool_Table m.cfg scale unscale with
  | none => none
  | some pools => some { m with Mem_Pools := pools, PG_Pool_Map := Init_Pool_Map m.cfg }

/-- Init_Pools (m-pools.c:254), from the state `m` the process starts in.
`env_always_malloc` tells whether the environment sets `R3_ALWAYS_MALLOC`. The memory
of the tables themselves is not modelled. -/
def Init_Pools (m : Memory) (env_always_malloc : Bool) (scale : Int) : Result Unit :=
  let m1 :=
    if ¬ m.cfg.NDEBUG ∧ env_always_malloc then { m with PG_Always_Malloc := true } else m
  let scale1 : Nat := if scale ≤ 0 then 1 else scale.toNat
  let unscale : Nat := if scale < 0 then (- scale).toNat else 1
  match Init_Pools_Tables m1 scale1 unscale with
  | none => .fault .panic m1
  | some m2 =>
    match Make_Series m2 15 m.cfg.sizeof_REBUPT
        { ARRAY := false, POWER_OF_2 := false, PRESERVE := false, GC_MANUALS := true } with
    | .fault f m3 => .fault f m3
    | .ok manuals m3 =>
      .ok () { m3 with GC_Manuals := manuals,
                       Prior_Expand := 1 :: List.replicate (MAX_EXPAND_LIST - 1) 0 }

/-- The state of a process before Init_Pools: no pools, `heap` bytes of memory for the
system allocator starting at address `4096`, a ballast of `ballast` bytes. -/
def boot (c : Config) (heap : Nat) (ballast : Int) : Memory :=
  { cfg := c, PG_Always_Malloc := false, Mem_Pools := [], PG_Pool_Map := [],
    nodes := fun _ => ⟨170, none⟩, brk := 4096, heap_end := 4096 + heap,
    blocks := fun _ => none, PG_Mem_Usage := 0, PG_Mem_Limit := 0, GC_Ballast := ballast,
    SIG_RECYCLE := false,
    GC_Manuals :=
      { node := 0, valid := false, managed := false, is_array := false, fixed_size := false,
        wide := 0, has_dynamic := false, power_of_2 := false, info_len := 0,
        info_end := false, data := none, len := 0, rest := 0, bias := 0, base := 0, mem := [] },
    Prior_Expand := [], junk := fun _ => 170 }

/-! ## Well-formed pools -/

/-- The addresses of `n` consecutive nodes of width `wide`, the first at `node`. -/
def node_run (wide : Nat) : Nat → Nat → List Nat
  | 0, _ => []
  | n + 1, node => node :: node_run wide n (node + wide)

/-- The nodes Fill_Pool carves out of a segment: they start after the segment header. -/
def seg_nodes (c : Config) (pool : REBPOL) (seg : REBSEG) : List Nat :=
  node_run pool.wide pool.units (seg.addr + c.sizeof_REBSEG)

/-- All the nodes of a pool, free or not. -/
def pool_nodes (c : Config) (pool : REBPOL) : List Nat :=
  pool.segs.flatMap (seg_nodes c pool)

/-- Following `next_if_free` from the pointer `p` visits the nodes `l`, in this order, and
then reaches `NULL`. -/
def IsFreeList (nodes : Nat → REBNOD) : Option Nat → List Nat → Prop
  | p, [] => p = none
  | p, a :: l => p = some a ∧ IsFreeList nodes (nodes a).next_if_free l

/-- The nodes of a pool that are not on the free list `fl`: the live nodes. -/
def live_nodes (c : Config) (pool : REBPOL) (fl : List Nat) : List Nat :=
  (pool_nodes c pool).filter (fun a => decide (a ∉ fl))

/-- The node `a` is a node of the pool that is handed out: it is not on the free list. -/
def Live (m : Memory) (pool : REBPOL) (a : Nat) : Prop :=
  a ∈ pool_nodes m.cfg pool ∧ ¬ ∃ fl, IsFreeList m.nodes pool.first fl ∧ a ∈ fl

/-- The pool `pool` is well formed in the state `m`, with free list `fl`. -/
structure Pool_OK (m : Memory) (pool : REBPOL) (fl : List Nat) : Prop where
  chain : IsFreeList m.nodes pool.first fl
  zero : ∀ a ∈ fl, (m.nodes a).header = 0
  free_eq : pool.free = fl.length
  has_eq : pool.has = (pool_nodes m.cfg pool).length
  sub : ∀ a ∈ fl, a ∈ pool_nodes m.cfg pool
  nodup : fl.Nodup
  nodes_nodup : (pool_nodes m.cfg pool).Nodup
  last_ok : ∀ l, pool.last = some l → fl.getLast? = some l
  segs_ok : ∀ seg ∈ pool.segs,
    seg.addr % 8 = 0 ∧ seg.addr + m.cfg.sizeof_REBSEG + pool.units * pool.wide ≤ m.brk
  wide_pos : 0 < pool.wide
  wide_al : pool.wide % 8 = 0
  units_pos : 0 < pool.units
  size_ok : pool.wide * pool.units + m.cfg.sizeof_REBSEG < 4294967296
  has_le : pool.has * pool.wide ≤ m.brk

/-- The pools below `SYSTEM_POOL` are well formed and share no node; the system allocator
works inside a 32-bit address range. -/
structure Pools_OK (m : Memory) : Prop where
  seg_al : m.cfg.sizeof_REBSEG % 8 = 0
  brk_al : m.brk % 8 = 0
  brk_le : m.brk ≤ m.heap_end + 8
  heap : m.heap_end + 8 ≤ 4294967296
  pools : ∀ id pool, id < SYSTEM_POOL → m.pool id = some pool → ∃ fl, Pool_OK m pool fl
  disjoint : ∀ i j pi pj a, i < SYSTEM_POOL → j < SYSTEM_POOL →
    m.pool i = some pi → m.pool j = some pj →
    a ∈ pool_nodes m.cfg pi → a ∈ pool_nodes m.cfg pj → i = j

/-- One step of a client of the pools: a call of Fill_Pool, Make_Node, Free_Node or
Free_Unbiased_Series_Data that returns, or a store into a node the client holds.
Only nodes that are handed out are freed. The last two steps are those of an allocation
outside the pools: a call of Alloc_Mem, and the update of the counters kept in
`Mem_Pools[SYSTEM_POOL]`. -/
inductive Pool_Step : Memory → Memory → Prop where
  | fill {m m1 : Memory} (id : Nat) :
      id < SYSTEM_POOL → Fill_Pool m id = .ok () m1 → Pool_Step m m1
  | make {m m1 : Memory} (id node : Nat) :
      id < SYSTEM_POOL → Make_Node m id = .ok node m1 → Pool_Step m m1
  | free {m m1 : Memory} (id node : Nat) (pool : REBPOL) :
      id < SYSTEM_POOL → m.pool id = some pool → Live m pool node →
      Free_Node m id node = .ok () m1 → Pool_Step m m1
  | free_data {m m1 : Memory} (node size : Nat) :
      (FIND_POOL m size < SYSTEM_POOL →
        ∃ pool, m.pool (FIND_POOL m size) = some pool ∧ Live m pool node) →
      Free_Unbiased_Series_Data m node size = .ok () m1 → Pool_Step m m1
  | store {m : Memory} (id node : Nat) (pool : REBPOL) (n : REBNOD) :
      id < SYSTEM_POOL → m.pool id = some pool → Live m pool node →
      Pool_Step m (m.set_node node n)
  | alloc {m m1 : Memory} (size : Nat) (p : Option Nat) :
      Alloc_Mem m size = .ok p m1 → Pool_Step m m1
  | system {m : Memory} (p : REBPOL) : Pool_Step m (m.set_pool SYSTEM_POOL p)

/-- What the machine has to provide for Init_Pools with the scale `scale / unscale`:
aligned segment headers, an aligned heap inside a 32-bit address range, and segments
whose size fits a `REBCNT`. -/
structure Machine_OK (m : Memory) (scale unscale : Nat) : Prop where
  seg_al : m.cfg.sizeof_REBSEG % 8 = 0
  brk_al : m.brk % 8 = 0
  brk_le : m.brk ≤ m.heap_end + 8
  heap : m.heap_end + 8 ≤ 4294967296
  sizes : ∀ spec ∈ Mem_Pool_Spec m.cfg, 0 < spec.wide ∧
    spec.wide * (Init_Pool spec scale unscale).units + m.cfg.sizeof_REBSEG < 4294967296

/-- The states reached from `m0` by steps of clients of the pools. -/
inductive Pool_Reach (m0 : Memory) : Memory → Prop where
  | start : Pool_Reach m0 m0
  | step {m m1 : Memory} : Pool_Reach m0 m → Pool_Step m m1 → Pool_Reach m0 m1

/-- One step of the code that uses the pools, with the pool numbers its call sites pass.
Make_Node is called on the series pool (m-pools.c:875) and on the pool FIND_POOL gives for
a size (m-pools.c:584): any pool below `SYSTEM_POOL`. Fill_Pool is called by Make_Node on a
pool without a free node (m-pools.c:494). Free_Node is called on the series pool only
(m-pools.c:936, 1055 and 1508): here on any pool that holds no series data, from `SER_POOL`
on. Free_Unbiased_Series_Data puts the block of a series back into the pool FIND_POOL gives
for its size. The other steps are a store into a node that is handed out, a call of
Alloc_Mem, and the update of the counters `has` and `free` of the system pool
(m-pools.c:611). Only nodes that are handed out are freed. -/
inductive Call_Step : Memory → Memory → Prop where
  | fill {m m1 : Memory} (id : Nat) (pool : REBPOL) :
      id < SYSTEM_POOL → m.pool id = some pool → pool.first = none →
      Fill_Pool m id = .ok () m1 → Call_Step m m1
  | make {m m1 : Memory} (id node : Nat) :
      id < SYSTEM_POOL → Make_Node m id = .ok node m1 → Call_Step m m1
  | free {m m1 : Memory} (id node : Nat) (pool : REBPOL) :
      SER_POOL ≤ id → id < SYSTEM_POOL → m.pool id = some pool → Live m pool node →
      Free_Node m id node = .ok () m1 → Call_Step m m1
  | free_data {m m1 : Memory} (node size : Nat) :
      (FIND_POOL m size < SYSTEM_POOL →
        ∃ pool, m.pool (FIND_POOL m size) = some pool ∧ Live m pool node) →
      Free_Unbiased_Series_Data m node size = .ok () m1 → Call_Step m m1
  | store {m : Memory} (id node : Nat) (pool : REBPOL) (n : REBNOD) :
      id < SYSTEM_POOL → m.pool id = some pool → Live m pool node →
      Call_Step m (m.set_node node n)
  | alloc {m m1 : Memory} (size : Nat) (p : Option Nat) :
      Alloc_Mem m size = .ok p m1 → Call_Step m m1
  | system {m : Memory} (pool : REBPOL) (has free : Nat) :
      m.pool SYSTEM_POOL = some pool →
      Call_Step m (m.set_pool SYSTEM_POOL { pool with has := has, free := free })

/-- The states reached from `m0` by steps of the code that uses the pools. -/
inductive Call_Reach (m0 : Memory) : Memory → Prop where
  | start : Call_Reach m0 m0
  | step {m m1 : Memory} : Call_Reach m0 m → Call_Step m m1 → Call_Reach m0 m1

/-- In a debug build, where Free_Node puts nodes at the tail of the free list, a pool that
holds no series data and has no `last` node has no free node at all. -/
def Tail_OK (m : Memory) : Prop :=
  m.cfg.NDEBUG = false → ∀ id pool, SER_POOL ≤ id → id < SYSTEM_POOL →
    m.pool id = some pool → pool.last = none → pool.first = none

/-! ## Example states -/

/-- A 64-bit release build with a heap of one megabyte, before Init_Pools. -/
def demo_boot : Memory := boot config64 1000000 3000000

/-- The state `demo_boot` after Init_Pools has built its tables with `scale = -4096`:
every pool has 2 nodes per segment. -/
def demo_tables : Memory := (Init_Pools_Tables demo_boot 1 4096).getD demo_boot

/-- The state `demo_tables` after `Make_Node(3)`: pool 3 has one segment of two nodes,
the first handed out. -/
def demo_made : Memory := (Make_Node demo_tables 3).mem

/-- The header bits of a node in use, and the link it had when it was handed out. -/
def used_node (m : Memory) (node : Nat) : REBNOD := { m.nodes node with header := 128 }

/-- The state `demo_made` after the client has stored non-zero header bits in its node. -/
def demo_used : Memory := demo_made.set_node 4112 (used_node demo_made 4112)

/-- A 64-bit debug build with a heap of one megabyte, before Init_Pools. -/
def debug_boot : Memory := boot config64_debug 1000000 3000000

/-- The state `debug_boot` after Init_Pools has built its tables with `scale = -4096`. -/
def debug_tables : Memory := (Init_Pools_Tables debug_boot 1 4096).getD debug_boot

/-- The state `debug_tables` after two calls `Make_Node(3)`, the client having stored
non-zero header bits in the first node: both nodes of pool 3 are handed out. -/
def debug_made2 : Memory :=
  let m1 := (Make_Node debug_tables 3).mem
  let m2 := (Make_Node m1 3).mem
  m2.set_node 4120 (used_node m2 4120)

/-- The state `debug_tables` after two calls `Make_Node(SER_POOL)`, the client having stored
non-zero header bits in the first node: both nodes of the series pool are handed out. -/
def debug_series2 : Memory :=
  let m1 := (Make_Node debug_tables SER_POOL).mem
  let m2 := (Make_Node m1 SER_POOL).mem
  m2.set_node 4120 (used_node m2 4120)

/-- A series node whose data has not been allocated yet, as Make_Series hands it to
Series_Data_Alloc. -/
def blank_series : REBSER :=
  { node := 0, valid := true, managed := false, is_array := false, fixed_size := false,
    wide := 0, has_dynamic := false, power_of_2 := false, info_len := 0, info_end := true,
    data := none, len := 0, rest := 0, bias := 0, base := 0, mem := [] }

/-- The flags `MKS_POWER_OF_2`. -/
def MKS_POWER_OF_2 : MKS := ⟨false, true, false, false⟩

/-- A 64-bit release build with a heap of only 1000 bytes, after Init_Pools has built its
tables with `scale = -4096`. -/
def small_tables : Memory :=
  (Init_Pools_Tables (boot config64 1000 3000000) 1 4096).getD (boot config64 1000 3000000)

/-- A dynamic series of 4-byte elements as `Make_Series(16, 4, MKS_NONE)` sets it up
(64 bytes from the pool of that width, so `rest = 16`), holding the one element
`[1, 2, 3, 4]` and its terminator. -/
def overflow_series : REBSER :=
  { node := 4112, valid := true, managed := false, is_array := false, fixed_size := false,
    wide := 4, has_dynamic := true, power_of_2 := false, info_len := 0, info_end := true,
    data := some 8192, len := 1, rest := 16, bias := 0, base := 8192,
    mem := [1, 2, 3, 4] ++ List.replicate 60 0 }

/-! ## Scanner: lexical classes (`sys-scan.h`) -/

/-- Modelled from the spec: `sys-scan.h` is not among the sources. The class of a byte is
in bits 5 and 6 of its `Lex_Map` entry (`LEX_SHIFT`), the value in the low 5 bits
(`LEX_VALUE`). -/
def LEX_SHIFT : Nat := 5

/-- Modelled from the spec: mask of the value bits of a `Lex_Map` entry. -/
def LEX_VALUE : Nat := 31

/-- Modelled from the spec: mask of the class bits of a `Lex_Map` entry. -/
def LEX_CLASS : Nat := 3 <<< LEX_SHIFT

/-- Modelled from the spec: `LEX_CLASS_DELIMIT`. -/
def LEX_CLASS_DELIMIT : Nat := 0

/-- Modelled from the spec: `LEX_CLASS_SPECIAL`. -/
def LEX_CLASS_SPECIAL : Nat := 1

/-- Modelled from the spec: `LEX_CLASS_WORD`. -/
def LEX_CLASS_WORD : Nat := 2

/-- Modelled from the spec: `LEX_CLASS_NUMBER`. -/
def LEX_CLASS_NUMBER : Nat := 3

/-- Modelled from the spec: `LEX_DELIMIT`, the class bits of a delimiter. -/
def LEX_DELIMIT : Nat := LEX_CLASS_DELIMIT <<< LEX_SHIFT

/-- Modelled from the spec: `LEX_SPECIAL`, the class bits of a special character. -/
def LEX_SPECIAL : Nat := LEX_CLASS_SPECIAL <<< LEX_SHIFT

/-- Modelled from the spec: `LEX_WORD`, the class bits of a word character. -/
def LEX_WORD : Nat := LEX_CLASS_WORD <<< LEX_SHIFT

/-- Modelled from the spec: `LEX_NUMBER`, the class bits of a digit. -/
def LEX_NUMBER : Nat := LEX_CLASS_NUMBER <<< LEX_SHIFT

/-- Modelled from the spec: `enum LEX_DELIMIT_ENUM`, in the order of the header. -/
def LEX_DELIMIT_SPACE : Nat := 0
/-- Modelled from the spec: end of input (the NUL byte). -/
def LEX_DELIMIT_END : Nat := 1
/-- Modelled from the spec: line feed. -/
def LEX_DELIMIT_LINEFEED : Nat := 2
/-- Modelled from the spec: carriage return. -/
def LEX_DELIMIT_RETURN : Nat := 3
/-- Modelled from the spec: `(`. -/
def LEX_DELIMIT_LEFT_PAREN : Nat := 4
/-- Modelled from the spec: `)`. -/
def LEX_DELIMIT_RIGHT_PAREN : Nat := 5
/-- Modelled from the spec: `[`. -/
def LEX_DELIMIT_LEFT_BRACKET : Nat := 6
/-- Modelled from the spec: `]`. -/
def LEX_DELIMIT_RIGHT_BRACKET : Nat := 7
/-- Modelled from the spec: the opening brace. -/
def LEX_DELIMIT_LEFT_BRACE : Nat := 8
/-- Modelled from the spec: the closing brace. -/
def LEX_DELIMIT_RIGHT_BRACE : Nat := 9
/-- Modelled from the spec: the double quote. -/
def LEX_DELIMIT_DOUBLE_QUOTE : Nat := 10
/-- Modelled from the spec: `/`. -/
def LEX_DELIMIT_SLASH : Nat := 11
/-- Modelled from the spec: `;`. -/
def LEX_DELIMIT_SEMICOLON : Nat := 12
/-- Modelled from the spec: a byte that cannot occur in UTF-8. -/
def LEX_DELIMIT_UTF8_ERROR : Nat := 13

/-- Modelled from the spec: `LEX_DEFAULT`, the entry of a byte that counts as a space. -/
def LEX_DEFAULT : Nat := LEX_DELIMIT ||| LEX_DELIMIT_SPACE

/-- Modelled from the spec: `LEX_UTFE`, the entry of the bytes C0, C1, F5 and FF. -/
def LEX_UTFE : Nat := LEX_DEFAULT

/-- Modelled from the spec: `enum LEX_SPECIAL_ENUM`, in the order of the header. -/
def LEX_SPECIAL_AT : Nat := 0
/-- Modelled from the spec: `%`. -/
def LEX_SPECIAL_PERCENT : Nat := 1
/-- Modelled from the spec: the backslash. -/
def LEX_SPECIAL_BACKSLASH : Nat := 2
/-- Modelled from the spec: `:`. -/
def LEX_SPECIAL_COLON : Nat := 3
/-- Modelled from the spec: the apostrophe. -/
def LEX_SPECIAL_APOSTROPHE : Nat := 4
/-- Modelled from the spec: `<`. -/
def LEX_SPECIAL_LESSER : Nat := 5
/-- Modelled from the spec: `>`. -/
def LEX_SPECIAL_GREATER : Nat := 6
/-- Modelled from the spec: `+`. -/
def LEX_SPECIAL_PLUS : Nat := 7
/-- Modelled from the spec: `-`. -/
def LEX_SPECIAL_MINUS : Nat := 8
/-- Modelled from the spec: `~` (no byte has this value in `Lex_Map`). -/
def LEX_SPECIAL_TILDE : Nat := 9
/-- Modelled from the spec: `|`. -/
def LEX_SPECIAL_BAR : Nat := 10
/-- Modelled from the spec: `_`. -/
def LEX_SPECIAL_BLANK : Nat := 11
/-- Modelled from the spec: `.`; this and the values after it may follow a sign. -/
def LEX_SPECIAL_PERIOD : Nat := 12
/-- Modelled from the spec: `,`. -/
def LEX_SPECIAL_COMMA : Nat := 13
/-- Modelled from the spec: `#`. -/
def LEX_SPECIAL_POUND : Nat := 14
/-- Modelled from the spec: `$`. -/
def LEX_SPECIAL_DOLLAR : Nat := 15
/-- Modelled from the spec: not the value of a byte; the flag Prescan_Token sets when it
has seen word characters. -/
def LEX_SPECIAL_WORD : Nat := 16

/-- The table `Lex_Map` (l-scan.c:59), entry by entry. -/
def Lex_Map_table : List Nat := [
  LEX_DELIMIT ||| LEX_DELIMIT_END, LEX_DEFAULT, LEX_DEFAULT, LEX_DEFAULT,
  LEX_DEFAULT, LEX_DEFAULT, LEX_DEFAULT, LEX_DEFAULT,
  LEX_DEFAULT, LEX_DEFAULT, LEX_DELIMIT ||| LEX_DELIMIT_LINEFEED, LEX_DEFAULT,
  LEX_DEFAULT, LEX_DELIMIT ||| LEX_DELIMIT_RETURN, LEX_DEFAULT, LEX_DEFAULT,
  LEX_DEFAULT, LEX_DEFAULT, LEX_DEFAULT, LEX_DEFAULT,
  LEX_DEFAULT, LEX_DEFAULT, LEX_DEFAULT, LEX_DEFAULT,
  LEX_DEFAULT, LEX_DEFAULT, LEX_DEFAULT, LEX_DEFAULT,
  LEX_DEFAULT, LEX_DEFAULT, LEX_DEFAULT, LEX_DEFAULT,
  LEX_DELIMIT ||| LEX_DELIMIT_SPACE, LEX_WORD, LEX_DELIMIT ||| LEX_DELIMIT_DOUBLE_QUOTE, LEX_SPECIAL ||| LEX_SPECIAL_POUND,
  LEX_SPECIAL ||| LEX_SPECIAL_DOLLAR, LEX_SPECIAL ||| LEX_SPECIAL_PERCENT, LEX_WORD, LEX_SPECIAL ||| LEX_SPECIAL_APOSTROPHE,
  LEX_DELIMIT ||| LEX_DELIMIT_LEFT_PAREN, LEX_DELIMIT ||| LEX_DELIMIT_RIGHT_PAREN, LEX_WORD, LEX_SPECIAL ||| LEX_SPECIAL_PLUS,
  LEX_SPECIAL ||| LEX_SPECIAL_COMMA, LEX_SPECIAL ||| LEX_SPECIAL_MINUS, LEX_SPECIAL ||| LEX_SPECIAL_PERIOD, LEX_DELIMIT ||| LEX_DELIMIT_SLASH,
  LEX_NUMBER ||| 0, LEX_NUMBER ||| 1, LEX_NUMBER ||| 2, LEX_NUMBER ||| 3,
  LEX_NUMBER ||| 4, LEX_NUMBER ||| 5, LEX_NUMBER ||| 6, LEX_NUMBER ||| 7,
  LEX_NUMBER ||| 8, LEX_NUMBER ||| 9, LEX_SPECIAL ||| LEX_SPECIAL_COLON, LEX_DELIMIT ||| LEX_DELIMIT_SEMICOLON,
  LEX_SPECIAL ||| LEX_SPECIAL_LESSER, LEX_WORD, LEX_SPECIAL ||| LEX_SPECIAL_GREATER, LEX_WORD,
  LEX_SPECIAL ||| LEX_SPECIAL_AT, LEX_WORD ||| 10, LEX_WORD ||| 11, LEX_WORD ||| 12,
  LEX_WORD ||| 13, LEX_WORD ||| 14, LEX_WORD ||| 15, LEX_WORD,
  LEX_WORD, LEX_WORD, LEX_WORD, LEX_WORD,
  LEX_WORD, LEX_WORD, LEX_WORD, LEX_WORD,
  LEX_WORD, LEX_WORD, LEX_WORD, LEX_WORD,
  LEX_WORD, LEX_WORD, LEX_WORD, LEX_WORD,
  LEX_WORD, LEX_WORD, LEX_WORD, LEX_DELIMIT ||| LEX_DELIMIT_LEFT_BRACKET,
  LEX_SPECIAL ||| LEX_SPECIAL_BACKSLASH, LEX_DELIMIT ||| LEX_DELIMIT_RIGHT_BRACKET, LEX_WORD, LEX_SPECIAL ||| LEX_SPECIAL_BLANK,
  LEX_WORD, LEX_WORD ||| 10, LEX_WORD ||| 11, LEX_WORD ||| 12,
  LEX_WORD ||| 13, LEX_WORD ||| 14, LEX_WORD ||| 15, LEX_WORD,
  LEX_WORD, LEX_WORD, LEX_WORD, LEX_WORD,
  LEX_WORD, LEX_WORD, LEX_WORD, LEX_WORD,
  LEX_WORD, LEX_WORD, LEX_WORD, LEX_WORD,
  LEX_WORD, LEX_WORD, LEX_WORD, LEX_WORD,
  LEX_WORD, LEX_WORD, LEX_WORD, LEX_DELIMIT ||| LEX_DELIMIT_LEFT_BRACE,
  LEX_SPECIAL ||| LEX_SPECIAL_BAR, LEX_DELIMIT ||| LEX_DELIMIT_RIGHT_BRACE, LEX_WORD, LEX_DEFAULT,
  LEX_WORD, LEX_WORD, LEX_WORD, LEX_WORD,
  LEX_WORD, LEX_WORD, LEX_WORD, LEX_WORD,
  LEX_WORD, LEX_WORD, LEX_WORD, LEX_WORD,
  LEX_WORD, LEX_WORD, LEX_WORD, LEX_WORD,
  LEX_WORD, LEX_WORD, LEX_WORD, LEX_WORD,
  LEX_WORD, LEX_WORD, LEX_WORD, LEX_WORD,
  LEX_WORD, LEX_WORD, LEX_WORD, LEX_WORD,
  LEX_WORD, LEX_WORD, LEX_WORD, LEX_WORD,
  LEX_WORD, LEX_WORD, LEX_WORD, LEX_WORD,
  LEX_WORD, LEX_WORD, LEX_WORD, LEX_WORD,
  LEX_WORD, LEX_WORD, LEX_WORD, LEX_WORD,
  LEX_WORD, LEX_WORD, LEX_WORD, LEX_WORD,
  LEX_WORD, LEX_WORD, LEX_WORD, LEX_WORD,
  LEX_WORD, LEX_WORD, LEX_WORD, LEX_WORD,
  LEX_WORD, LEX_WORD, LEX_WORD, LEX_WORD,
  LEX_WORD, LEX_WORD, LEX_WORD, LEX_WORD,
  LEX_UTFE, LEX_UTFE, LEX_WORD, LEX_WORD,
  LEX_WORD, LEX_WORD, LEX_WORD, LEX_WORD,
  LEX_WORD, LEX_WORD, LEX_WORD, LEX_WORD,
  LEX_WORD, LEX_WORD, LEX_WORD, LEX_WORD,
  LEX_WORD, LEX_WORD, LEX_WORD, LEX_WORD,
  LEX_WORD, LEX_WORD, LEX_WORD, LEX_WORD,
  LEX_WORD, LEX_WORD, LEX_WORD, LEX_WORD,
  LEX_WORD, LEX_WORD, LEX_WORD, LEX_WORD,
  LEX_WORD, LEX_WORD, LEX_WORD, LEX_WORD,
  LEX_WORD, LEX_WORD, LEX_WORD, LEX_WORD,
  LEX_WORD, LEX_WORD, LEX_WORD, LEX_WORD,
  LEX_WORD, LEX_WORD, LEX_WORD, LEX_WORD,
  LEX_WORD, LEX_WORD, LEX_WORD, LEX_WORD,
  LEX_WORD, LEX_UTFE, LEX_WORD, LEX_WORD,
  LEX_WORD, LEX_WORD, LEX_WORD, LEX_WORD,
  LEX_WORD, LEX_WORD, LEX_WORD, LEX_UTFE]

/-- The entry `Lex_Map[c]` of a byte. -/
def Lex_Map (c : Nat) : Nat := Lex_Map_table.getD c 0

/-- Modelled from the spec: `GET_LEX_CLASS(c)`. -/
def GET_LEX_CLASS (c : Nat) : Nat := Lex_Map c >>> LEX_SHIFT

/-- Modelled from the spec: `GET_LEX_VALUE(c)`. -/
def GET_LEX_VALUE (c : Nat) : Nat := Lex_Map c &&& LEX_VALUE

/-- Modelled from the spec: `IS_LEX_SPACE(c)`, `!Lex_Map[c]`. -/
def IS_LEX_SPACE (c : Nat) : Bool := Lex_Map c == 0

/-- Modelled from the spec: `IS_LEX_ANY_SPACE(c)`: space, end of input, LF or CR. -/
def IS_LEX_ANY_SPACE (c : Nat) : Bool := decide (Lex_Map c ≤ LEX_DELIMIT_RETURN)

/-- Modelled from the spec: `IS_LEX_DELIMIT(c)`. -/
def IS_LEX_DELIMIT (c : Nat) : Bool := Lex_Map c &&& LEX_CLASS == LEX_DELIMIT

/-- Modelled from the spec: `IS_LEX_SPECIAL(c)`. -/
def IS_LEX_SPECIAL (c : Nat) : Bool := Lex_Map c &&& LEX_CLASS == LEX_SPECIAL

/-- Modelled from the spec: `IS_LEX_WORD(c)`. -/
def IS_LEX_WORD (c : Nat) : Bool := Lex_Map c &&& LEX_CLASS == LEX_WORD

/-- Modelled from the spec: `IS_LEX_NUMBER(c)`. -/
def IS_LEX_NUMBER (c : Nat) : Bool := decide (Lex_Map c ≥ LEX_NUMBER)

/-- Modelled from the spec: `IS_LEX_NOT_DELIMIT(c)`. -/
def IS_LEX_NOT_DELIMIT (c : Nat) : Bool := decide (Lex_Map c ≥ LEX_SPECIAL)

/-- Modelled from the spec: `IS_LEX_WORD_OR_NUMBER(c)`. -/
def IS_LEX_WORD_OR_NUMBER (c : Nat) : Bool := decide (Lex_Map c ≥ LEX_WORD)

/-- Modelled from the spec: `LEX_FLAG(n)`, the bit of a special value in a fingerprint. -/
def LEX_FLAG (n : Nat) : Nat := 1 <<< n

/-- Modelled from the spec: `SET_LEX_FLAG(f, l)`, on the 32-bit fingerprint. -/
def SET_LEX_FLAG (f l : Nat) : Nat := u32 (f ||| LEX_FLAG l)

/-- Modelled from the spec: `HAS_LEX_FLAGS(f, l)`, `f & l` as a truth value. -/
def HAS_LEX_FLAGS (f l : Nat) : Bool := f &&& l != 0

/-- Modelled from the spec: `HAS_LEX_FLAG(f, l)`. -/
def HAS_LEX_FLAG (f l : Nat) : Bool := f &&& LEX_FLAG l != 0

/-- Modelled from the spec: `ONLY_LEX_FLAG(f, l)`. -/
def ONLY_LEX_FLAG (f l : Nat) : Bool := f == LEX_FLAG l

/-- Modelled from the spec: `LEX_WORD_FLAGS`, the special characters a word cannot hold. -/
def LEX_WORD_FLAGS : Nat :=
  LEX_FLAG LEX_SPECIAL_AT ||| LEX_FLAG LEX_SPECIAL_PERCENT ||| LEX_FLAG LEX_SPECIAL_BACKSLASH
    ||| LEX_FLAG LEX_SPECIAL_COMMA ||| LEX_FLAG LEX_SPECIAL_POUND
    ||| LEX_FLAG LEX_SPECIAL_DOLLAR ||| LEX_FLAG LEX_SPECIAL_COLON

/-- The C operator `~` on a 32-bit value. -/
def not32 (x : Nat) : Nat := 4294967295 - u32 x

/-- Modelled from the spec: `ANY_CR_LF_END(c)`. -/
def ANY_CR_LF_END (c : Nat) : Bool := c == 0 || c == 13 || c == 10

/-! ## Scanner: source text, cells and errors -/

/-- Modelled from the spec: the error numbers the scanner uses (`RE_INVALID`, `RE_MISSING`,
`RE_MALCONSTRUCT`), made from the error table, which is not among the sources. -/
inductive Scan_Error_Id where
  | RE_INVALID
  | RE_MISSING
  | RE_MALCONSTRUCT
deriving DecidableEq, Repr

/-- The error Error_Bad_Scan makes (l-scan.c:582): the error number, the token (index of
its name in `Token_Names`), the offending bytes, and the NEAR information: the line count
and the text of the line `head_line` points into, without its indentation. -/
structure Scan_Error where
  errnum : Scan_Error_Id
  token : Nat
  arg : List Nat
  near_line : Nat
  near_text : List Nat
deriving DecidableEq, Repr

/-- How a run of the scanner ends without a result: the C statement `fail (error)`; a read
outside the source text or a failed `assert`; or the model ran out of fuel. -/
inductive Scan_Exit where
  | raised (e : Scan_Error)
  | undefined
  | diverges
deriving DecidableEq, Repr

/-- A computation of the scanner. -/
abbrev Scan (α : Type) : Type := Except Scan_Exit α

/-- The byte `p[i]` of a NUL-terminated source text whose bytes before the terminator are
`src`: index `src.length` holds the terminator, and a read past it is outside the text. -/
def byteAt (src : List Nat) (i : Nat) : Scan Nat :=
  if i < src.length then .ok (src.getD i 0)
  else if i = src.length then .ok 0
  else .error .undefined

/-- The loop `while (p(*cp)) cp++;` from `cp`: the first position at or after `cp` whose
byte does not satisfy `p`. Every `p` it is used with is false of the NUL byte, so the loop
ends at the terminator at the latest; it starts outside the text if `cp` is past the
terminator. -/
def skip_while (p : Nat → Bool) (src : List Nat) (cp : Nat) : Scan Nat :=
  if cp ≤ src.length then .ok (cp + ((src.drop cp).takeWhile p).length)
  else .error .undefined

/-! ## Scanner: characters and quoted strings -/

/-- Modelled from the spec: `UP_CASE(c)` on a byte below 128, where it is the ASCII upper
case. Scan_UTF8_Char_Escapable only asks whether the result is in `'@'..'_'` or is `'~'`,
which is false of the upper case of every byte from 128 on. -/
def UP_CASE (c : Nat) : Nat := if 97 ≤ c ∧ c ≤ 122 then c - 32 else c

/-- Modelled from the spec: `LO_CASE(c)` on a byte below 128. -/
def LO_CASE (c : Nat) : Nat := if 65 ≤ c ∧ c ≤ 90 then c + 32 else c

/-- Modelled from the spec: Match_Bytes is not among the sources. It compares the text
with the pattern without regard to case and returns the position after the pattern, or
NULL. Here the text is given by its bytes from the position on, and the result is the
number of bytes matched. -/
def Match_Bytes : List Nat → List Nat → Option Nat
  | _, [] => some 0
  | [], _ :: _ => none
  | s :: ss, p :: ps =>
    if s = 0 then none
    else if LO_CASE s ≠ LO_CASE p then none
    else (Match_Bytes ss ps).map (· + 1)

/-- Modelled from the spec: the tables `Esc_Names` and `Esc_Codes` of the named escapes,
which are not among the sources: `line`, `tab`, `page`, `escape`, `esc`, `back`, `del`,
`null`, each with its code point. -/
def Esc_Names : List (List Nat × Nat) :=
  [([108, 105, 110, 101], 10), ([116, 97, 98], 9), ([112, 97, 103, 101], 12),
   ([101, 115, 99, 97, 112, 101], 27), ([101, 115, 99], 27), ([98, 97, 99, 107], 8),
   ([100, 101, 108], 127), ([110, 117, 108, 108], 0)]

/-- Modelled from the spec: Back_Scan_UTF8_Char is not among the sources. It decodes the
UTF-8 sequence that starts at `bp` into a 16-bit code point and returns the position of the
last byte of the sequence, or NULL if the sequence is not legal or the code point is above
`0xFFFF`. -/
def Back_Scan_UTF8_Char (src : List Nat) (bp : Nat) : Scan (Option (Nat × Nat)) := do
  let b0 ← byteAt src bp
  if 194 ≤ b0 ∧ b0 ≤ 223 then
    let b1 ← byteAt src (bp + 1)
    if 128 ≤ b1 ∧ b1 ≤ 191 then
      return some ((b0 - 192) * 64 + (b1 - 128), bp + 1)
    else return none
  else if 224 ≤ b0 ∧ b0 ≤ 239 then
    let b1 ← byteAt src (bp + 1)
    if 128 ≤ b1 ∧ b1 ≤ 191 ∧ (b0 = 224 → 160 ≤ b1) ∧ (b0 = 237 → b1 ≤ 159) then
      let b2 ← byteAt src (bp + 2)
      if 128 ≤ b2 ∧ b2 ≤ 191 then
        return some ((b0 - 224) * 4096 + (b1 - 128) * 64 + (b2 - 128), bp + 2)
      else return none
    else return none
  else return none

/-- The loop of the hex escape in Scan_UTF8_Char_Escapable (l-scan.c:359),
`while ((lex = Lex_Map[*cp]) > LEX_WORD) …`, over the bytes from `cp` on: the value of
`*out` (a 16-bit `REBUNI`) and the number of bytes passed. -/
def Scan_Hex_Digits : List Nat → Nat → Nat × Nat
  | [], out => (out, 0)
  | b :: rest, out =>
    let lex := Lex_Map b
    if lex > LEX_WORD then
      let c := lex &&& LEX_VALUE
      if c = 0 ∧ lex < LEX_NUMBER then (out, 0)
      else
        let r := Scan_Hex_Digits rest (((out <<< 4) + c) % 65536)
        (r.1, r.2 + 1)
    else (out, 0)

/-- The loop over `Esc_Names` in Scan_UTF8_Char_Escapable (l-scan.c:371): the first name
that matches the text and is followed by `)`. -/
def Scan_Esc_Name (text : List Nat) : List (List Nat × Nat) → Option (Nat × Nat)
  | [] => none
  | (name, code) :: names =>
    match Match_Bytes text name with
    | some n => if text.getD n 0 = 41 then some (code, n + 1) else Scan_Esc_Name text names
    | none => Scan_Esc_Name text names

/-- Scan_UTF8_Char_Escapable (l-scan.c:312): the code point stored in `*out` and the
position returned, or `none` for NULL. -/
def Scan_UTF8_Char_Escapable (src : List Nat) (bp : Nat) : Scan (Option (Nat × Nat)) := do
  let c ← byteAt src bp
  if c ≥ 128 then
    match ← Back_Scan_UTF8_Char src bp with
    | none => return none
    | some (out, bp1) => return some (out, bp1 + 1)
  else
    let bp := bp + 1
    if c ≠ 94 then return some (c, bp)
    else
      -- must be ^ escaped char
      let c ← byteAt src bp
      let bp := bp + 1
      if c = 0 then return some (0, bp)
      else if c = 47 then return some (10, bp)
      else if c = 94 then return some (c, bp)
      else if c = 45 then return some (9, bp)
      else if c = 33 then return some (30, bp)
      else if c = 40 then
        -- check for hex integers ^(1234)
        let r := Scan_Hex_Digits (src.drop bp) 0
        let cp := bp + r.2
        if cp - bp > 4 then return none
        else
          let e ← byteAt src cp
          if e = 41 then return some (r.1, cp + 1)
          else
            -- check for identifiers
            match Scan_Esc_Name (src.drop bp) Esc_Names with
            | some (code, n) => return some (code, bp + n)
            | none => return none
      else
        let u := UP_CASE c
        if 64 ≤ u ∧ u ≤ 95 then return some (u - 64, bp)
        else if u = 126 then return some (127, bp)
        else return some (c, bp)

/-- What Scan_Quote_Push_Mold leaves: the pointer it returns (`none` for NULL), the code
points it has put into the mold buffer, and the line count of the scan state. -/
structure Quote_Result where
  ptr : Option Nat
  mold : List Nat
  line_count : Nat
deriving DecidableEq, Repr

/-- The loop of Scan_Quote_Push_Mold (l-scan.c:424), `while (*src != term || nest > 0)`,
for at most `fuel` turns. `lines` is the line count once the lines of the string are
added. The counters `nest` and `lines` are taken not to overflow. -/
def Scan_Quote_loop (text : List Nat) (term : Nat) :
    Nat → Nat → Nat → List Nat → Nat → Scan Quote_Result
  | 0, _, _, _, _ => .error .diverges
  | fuel + 1, nest, lines, mold, src => do
    let chr ← byteAt text src
    if chr ≠ term ∨ nest > 0 then
      if chr = 0 then return ⟨none, mold, lines⟩
      else if chr = 94 then
        match ← Scan_UTF8_Char_Escapable text src with
        | none => return ⟨none, mold, lines⟩
        | some (chr1, src1) =>
          Scan_Quote_loop text term fuel nest lines (mold ++ [chr1]) (src1 - 1 + 1)
      else if chr = 123 then
        Scan_Quote_loop text term fuel (if term ≠ 34 then nest + 1 else nest) lines
          (mold ++ [chr]) (src + 1)
      else if chr = 125 then
        Scan_Quote_loop text term fuel (if term ≠ 34 ∧ nest > 0 then nest - 1 else nest) lines
          (mold ++ [chr]) (src + 1)
      else if chr = 13 ∨ chr = 10 then do
        let src1 ←
          if chr = 13 then do
            let n ← byteAt text (src + 1)
            pure (if n = 10 then src + 1 else src)
          else pure src
        if term = 34 then return ⟨none, mold, lines⟩
        else Scan_Quote_loop text term fuel nest (lines + 1) (mold ++ [10]) (src1 + 1)
      else if chr ≥ 128 then
        match ← Back_Scan_UTF8_Char text src with
        | none => return ⟨none, mold, lines⟩
        | some (chr1, src1) => Scan_Quote_loop text term fuel nest lines (mold ++ [chr1]) (src1 + 1)
      else Scan_Quote_loop text term fuel nest lines (mold ++ [chr]) (src + 1)
    else return ⟨some (src + 1), mold, lines⟩

/-- Scan_Quote_Push_Mold (l-scan.c:409) on the text at `src`, with the line count of the
scan state; the lines of the string are added to it only when the scan succeeds. -/
def Scan_Quote_Push_Mold (text : List Nat) (fuel : Nat) (src : Nat) (line_count : Nat) :
    Scan Quote_Result := do
  let c ← byteAt text src
  let term := if c = 123 then 125 else 34
  let r ← Scan_Quote_loop text term fuel 0 0 [] (src + 1)
  match r.ptr with
  | none => return ⟨none, r.mold, line_count⟩
  | some p => return ⟨some p, r.mold, line_count + r.line_count⟩

/-! ## Scanner: tokens and the scan state (`sys-scan.h`) -/

/-- Modelled from the spec: `enum Value_Types`, the tokens, in the order of the header. A
malformed token is reported as the negated value. -/
def TOKEN_END : Int := 0
/-- Modelled from the spec: a line end outside of a string, or a comment. -/
def TOKEN_NEWLINE : Int := 1
/-- Modelled from the spec: `]`. -/
def TOKEN_BLOCK_END : Int := 2
/-- Modelled from the spec: `)`. -/
def TOKEN_GROUP_END : Int := 3
/-- Modelled from the spec: a word. -/
def TOKEN_WORD : Int := 4
/-- Modelled from the spec: a set-word. -/
def TOKEN_SET : Int := 5
/-- Modelled from the spec: a get-word. -/
def TOKEN_GET : Int := 6
/-- Modelled from the spec: a lit-word. -/
def TOKEN_LIT : Int := 7
/-- Modelled from the spec: `_`. -/
def TOKEN_BLANK : Int := 8
/-- Modelled from the spec: `|`. -/
def TOKEN_BAR : Int := 9
/-- Modelled from the spec: the lit-bar. -/
def TOKEN_LIT_BAR : Int := 10
/-- Modelled from the spec: a logic value. -/
def TOKEN_LOGIC : Int := 11
/-- Modelled from the spec: an integer. -/
def TOKEN_INTEGER : Int := 12
/-- Modelled from the spec: a decimal. -/
def TOKEN_DECIMAL : Int := 13
/-- Modelled from the spec: a percent. -/
def TOKEN_PERCENT : Int := 14
/-- Modelled from the spec: a money value. -/
def TOKEN_MONEY : Int := 15
/-- Modelled from the spec: a time. -/
def TOKEN_TIME : Int := 16
/-- Modelled from the spec: a date. -/
def TOKEN_DATE : Int := 17
/-- Modelled from the spec: a character. -/
def TOKEN_CHAR : Int := 18
/-- Modelled from the spec: `[`. -/
def TOKEN_BLOCK_BEGIN : Int := 19
/-- Modelled from the spec: `(`. -/
def TOKEN_GROUP_BEGIN : Int := 20
/-- Modelled from the spec: a string. -/
def TOKEN_STRING : Int := 21
/-- Modelled from the spec: a binary. -/
def TOKEN_BINARY : Int := 22
/-- Modelled from the spec: a pair. -/
def TOKEN_PAIR : Int := 23
/-- Modelled from the spec: a tuple. -/
def TOKEN_TUPLE : Int := 24
/-- Modelled from the spec: a file name. -/
def TOKEN_FILE : Int := 25
/-- Modelled from the spec: an email address. -/
def TOKEN_EMAIL : Int := 26
/-- Modelled from the spec: a URL. -/
def TOKEN_URL : Int := 27
/-- Modelled from the spec: an issue. -/
def TOKEN_ISSUE : Int := 28
/-- Modelled from the spec: a tag. -/
def TOKEN_TAG : Int := 29
/-- Modelled from the spec: a path. -/
def TOKEN_PATH : Int := 30
/-- Modelled from the spec: a refinement. -/
def TOKEN_REFINE : Int := 31
/-- Modelled from the spec: the construction syntax `#[`. -/
def TOKEN_CONSTRUCT : Int := 32

/-- Modelled from the spec: the option bits of a scan state, `SCAN_NEXT`, `SCAN_ONLY` and
`SCAN_RELAX`. -/
structure Scan_Opts where
  SCAN_NEXT : Bool
  SCAN_ONLY : Bool
  SCAN_RELAX : Bool
deriving DecidableEq, Repr

/-- Modelled from the spec: `SCAN_STATE`. Pointers into the source text are positions; the
field `end` of the C structure is `end_`. -/
structure SCAN_STATE where
  begin : Nat
  end_ : Nat
  limit : Nat
  line_count : Nat
  head_line : Nat
  opts : Scan_Opts
  errors : Nat
deriving DecidableEq, Repr

/-- Modelled from the spec: Skip_To_Byte is not among the sources. It looks for the byte
`b` from `cp` up to `ep` (the byte at `ep` included) and returns its position or NULL. -/
def Skip_To_Byte (src : List Nat) (cp ep b : Nat) : Scan (Option Nat) :=
  if cp ≤ ep ∧ ep ≤ src.length then
    let n := (((src.drop cp).take (ep - cp)).takeWhile (fun c => c != b)).length
    if src.getD (cp + n) 0 = b then .ok (some (cp + n)) else .ok none
  else .error .undefined

/-- The main loop of Prescan_Token (l-scan.c:671), `while (TRUE) switch (…)`, for at most
`fuel` turns: the fingerprint and the end position. -/
def Prescan_loop (src : List Nat) (begin : Nat) : Nat → Nat → Nat → Scan (Nat × Nat)
  | 0, _, _ => .error .diverges
  | fuel + 1, flags, cp => do
    let c ← byteAt src cp
    if GET_LEX_CLASS c = LEX_CLASS_DELIMIT then
      if cp = begin then return (flags, cp + 1) else return (flags, cp)
    else if GET_LEX_CLASS c = LEX_CLASS_SPECIAL then
      Prescan_loop src begin fuel
        (if cp ≠ begin then SET_LEX_FLAG flags (GET_LEX_VALUE c) else flags) (cp + 1)
    else if GET_LEX_CLASS c = LEX_CLASS_WORD then do
      let cp1 ← skip_while IS_LEX_WORD_OR_NUMBER src cp
      Prescan_loop src begin fuel (SET_LEX_FLAG flags LEX_SPECIAL_WORD) cp1
    else do
      let cp1 ← skip_while IS_LEX_NUMBER src cp
      Prescan_loop src begin fuel flags cp1

/-- Prescan_Token (l-scan.c:660): the fingerprint it returns and the scan state with
`begin` and `end` updated. -/
def Prescan_Token (src : List Nat) (fuel : Nat) (ss : SCAN_STATE) : Scan (Nat × SCAN_STATE) := do
  let cp ← skip_while IS_LEX_SPACE src ss.begin
  let r ← Prescan_loop src cp fuel 0 cp
  return (r.1, { ss with begin := cp, end_ := r.2 })

/-! ## Scanner: Locate_Token_May_Push_Mold -/

/-- What Locate_Token_May_Push_Mold leaves: the token it returns (negated if malformed),
the scan state, and the content of the mold buffer if it was pushed. -/
structure Located where
  token : Int
  ss : SCAN_STATE
  mold : Option (List Nat)
deriving DecidableEq, Repr

/-- The loop of Skip_Tag (l-scan.c:566), `while (*cp && *cp != '>')`, for at most `fuel`
turns. -/
def Skip_Tag_loop (src : List Nat) : Nat → Nat → Scan (Option Nat)
  | 0, _ => .error .diverges
  | fuel + 1, cp => do
    let c ← byteAt src cp
    if c ≠ 0 ∧ c ≠ 62 then
      if c = 34 then do
        let cp1 ← skip_while (fun b => b != 0 && b != 34) src (cp + 1)
        let e ← byteAt src cp1
        if e = 0 then return none else Skip_Tag_loop src fuel (cp1 + 1)
      else Skip_Tag_loop src fuel (cp + 1)
    else if c ≠ 0 then return some (cp + 1)
    else return none

/-- Skip_Tag (l-scan.c:563). -/
def Skip_Tag (src : List Nat) (fuel : Nat) (cp : Nat) : Scan (Option Nat) := do
  let c ← byteAt src cp
  Skip_Tag_loop src fuel (if c = 60 then cp + 1 else cp)

/-- The loops `while (*cp == '/') { cp++; while (…) cp++; }` that extend a file name
(`with_slash` false, l-scan.c:922) or a URL (`with_slash` true, l-scan.c:1233) over path
delimiters, for at most `fuel` turns. -/
def Skip_Path_Parts (src : List Nat) (with_slash : Bool) : Nat → Nat → Scan Nat
  | 0, _ => .error .diverges
  | fuel + 1, cp => do
    let c ← byteAt src cp
    if c = 47 then do
      let cp1 ← skip_while (fun b => IS_LEX_NOT_DELIMIT b || (with_slash && b == 47)) src (cp + 1)
      Skip_Path_Parts src with_slash fuel cp1
    else return cp

/-- The label `scanword` of Locate_Token_May_Push_Mold (l-scan.c:1212). -/
def Locate_scanword (src : List Nat) (fuel : Nat) (flags : Nat) (type : Int) (cp : Nat)
    (ss : SCAN_STATE) : Scan Located := do
  if HAS_LEX_FLAG flags LEX_SPECIAL_COLON then
    if type ≠ TOKEN_WORD then return ⟨type, ss, none⟩
    else
      match ← Skip_To_Byte src cp ss.end_ 58 with
      | none => .error .undefined
      | some cp1 =>
        let c1 ← byteAt src (cp1 + 1)
        if c1 ≠ 47 ∧ Lex_Map c1 < LEX_SPECIAL then
          if HAS_LEX_FLAGS flags (not32 (LEX_FLAG LEX_SPECIAL_COLON) &&& LEX_WORD_FLAGS) then
            return ⟨-TOKEN_WORD, ss, none⟩
          else return ⟨TOKEN_SET, ss, none⟩
        else
          let cp2 ← Skip_Path_Parts src true fuel ss.end_
          return ⟨TOKEN_URL, { ss with end_ := cp2 }, none⟩
  else if HAS_LEX_FLAG flags LEX_SPECIAL_AT then return ⟨TOKEN_EMAIL, ss, none⟩
  else if HAS_LEX_FLAG flags LEX_SPECIAL_DOLLAR then return ⟨TOKEN_MONEY, ss, none⟩
  else if HAS_LEX_FLAGS flags LEX_WORD_FLAGS then return ⟨-type, ss, none⟩
  else if HAS_LEX_FLAG flags LEX_SPECIAL_LESSER then
    match ← Skip_To_Byte src cp ss.end_ 60 with
    | none => .error .undefined
    | some cp1 =>
      let c1 ← byteAt src (cp1 + 1)
      if c1 = 60 ∨ c1 = 62 ∨ c1 = 61 ∨ IS_LEX_SPACE c1 ∨ (c1 ≠ 47 ∧ IS_LEX_DELIMIT c1) then
        return ⟨-type, ss, none⟩
      else return ⟨type, { ss with end_ := cp1 }, none⟩
  else if HAS_LEX_FLAG flags LEX_SPECIAL_GREATER then return ⟨-type, ss, none⟩
  else return ⟨type, ss, none⟩

/-- The recovery `cp = scan_state->begin + 1; while (!ANY_CR_LF_END(*cp)) cp++;` after a
malformed string, character or binary: the end of the line. -/
def Skip_To_Line_End (src : List Nat) (ss : SCAN_STATE) : Scan Nat :=
  skip_while (fun b => !ANY_CR_LF_END b) src (ss.begin + 1)

/-- The label `pound` of Locate_Token_May_Push_Mold (l-scan.c:1081). -/
def Locate_pound (src : List Nat) (fuel : Nat) (cp0 : Nat) (ss : SCAN_STATE) :
    Scan Located := do
  let cp := cp0 + 1
  let c ← byteAt src cp
  if c = 91 then return ⟨TOKEN_CONSTRUCT, { ss with end_ := cp + 1 }, none⟩
  else if c = 34 then
    let r ← Scan_UTF8_Char_Escapable src (cp + 1)
    let closed ←
      match r with
      | none => pure none
      | some (_, cp1) => do
        let e ← byteAt src cp1
        pure (if e = 34 then some cp1 else none)
    match closed with
    | some cp1 => return ⟨TOKEN_CHAR, { ss with end_ := cp1 + 1 }, none⟩
    | none =>
      let cp2 ← Skip_To_Line_End src ss
      return ⟨-TOKEN_CHAR, { ss with end_ := cp2 }, none⟩
  else if c = 123 then
    let q ← Scan_Quote_Push_Mold src fuel cp ss.line_count
    let ss1 := { ss with line_count := q.line_count }
    match q.ptr with
    | some cp1 => return ⟨TOKEN_BINARY, { ss1 with end_ := cp1 }, some q.mold⟩
    | none =>
      let cp2 ← Skip_To_Line_End src ss1
      return ⟨-TOKEN_BINARY, { ss1 with end_ := cp2 }, some q.mold⟩
  else if cp - 1 = ss.begin then return ⟨TOKEN_ISSUE, ss, none⟩
  else return ⟨-TOKEN_INTEGER, ss, none⟩

/-- The loop `for (; cp != scan_state->end; cp++)` at the end of the label `num`
(l-scan.c:1193), over the bytes from `cp` to the end of the token: the token it returns,
if it returns. -/
def Locate_num_loop (src : List Nat) (ep : Nat) : Nat → Nat → Scan (Option Int)
  | 0, _ => .ok none
  | n + 1, cp => do
    let c ← byteAt src cp
    if c = 45 then return some TOKEN_DATE
    else if c = 120 ∨ c = 88 then return some TOKEN_PAIR
    else if c = 69 ∨ c = 101 then
      match ← Skip_To_Byte src cp ep 120 with
      | some _ => return some TOKEN_PAIR
      | none => return some TOKEN_DECIMAL
    else if c = 37 then return some TOKEN_PERCENT
    else Locate_num_loop src ep n (cp + 1)

/-- The label `num` of Locate_Token_May_Push_Mold (l-scan.c:1131). -/
def Locate_num (src : List Nat) (fuel : Nat) (flags : Nat) (cp : Nat) (ss : SCAN_STATE) :
    Scan Located := do
  if flags = 0 then return ⟨TOKEN_INTEGER, ss, none⟩
  else if HAS_LEX_FLAG flags LEX_SPECIAL_AT then return ⟨TOKEN_EMAIL, ss, none⟩
  else if HAS_LEX_FLAG flags LEX_SPECIAL_POUND then
    if cp = ss.begin then
      let c0 ← byteAt src cp
      let c1 ← byteAt src (cp + 1)
      let base64 ←
        if c0 = 54 ∧ c1 = 52 ∨ c0 = 49 ∧ c1 = 54 then do
          let c2 ← byteAt src (cp + 2)
          if c2 = 35 then do
            let c3 ← byteAt src (cp + 3)
            pure (decide (c3 = 123))
          else pure false
        else pure false
      if base64 then Locate_pound src fuel (cp + 2) ss
      else
        let base2 ←
          if c0 = 50 ∧ c1 = 35 then do
            let c2 ← byteAt src (cp + 2)
            pure (decide (c2 = 123))
          else pure false
        if base2 then Locate_pound src fuel (cp + 1) ss
        else return ⟨-TOKEN_INTEGER, ss, none⟩
    else return ⟨-TOKEN_INTEGER, ss, none⟩
  else if HAS_LEX_FLAG flags LEX_SPECIAL_COLON then return ⟨TOKEN_TIME, ss, none⟩
  else if HAS_LEX_FLAG flags LEX_SPECIAL_PERIOD then
    match ← Skip_To_Byte src cp ss.end_ 120 with
    | some _ => return ⟨TOKEN_PAIR, ss, none⟩
    | none =>
      match ← Skip_To_Byte src cp ss.end_ 46 with
      | none =>
        if HAS_LEX_FLAG flags LEX_SPECIAL_COMMA then return ⟨TOKEN_DECIMAL, ss, none⟩
        else .error .undefined
      | some cp1 =>
        if HAS_LEX_FLAG flags LEX_SPECIAL_COMMA then return ⟨TOKEN_DECIMAL, ss, none⟩
        else
          match ← Skip_To_Byte src (cp1 + 1) ss.end_ 46 with
          | some _ => return ⟨TOKEN_TUPLE, ss, none⟩
          | none => return ⟨TOKEN_DECIMAL, ss, none⟩
  else if HAS_LEX_FLAG flags LEX_SPECIAL_COMMA then
    match ← Skip_To_Byte src cp ss.end_ 120 with
    | some _ => return ⟨TOKEN_PAIR, ss, none⟩
    | none => return ⟨TOKEN_DECIMAL, ss, none⟩
  else if HAS_LEX_FLAG flags LEX_SPECIAL_POUND then
    if HAS_LEX_FLAGS flags (not32 (LEX_FLAG LEX_SPECIAL_POUND ||| LEX_FLAG LEX_SPECIAL_PERIOD
        ||| LEX_FLAG LEX_SPECIAL_APOSTROPHE)) then return ⟨-TOKEN_INTEGER, ss, none⟩
    else if HAS_LEX_FLAG flags LEX_SPECIAL_PERIOD then return ⟨TOKEN_TUPLE, ss, none⟩
    else return ⟨TOKEN_INTEGER, ss, none⟩
  else if cp ≤ ss.end_ then
    match ← Locate_num_loop src ss.end_ (ss.end_ - cp) cp with
    | some t => return ⟨t, ss, none⟩
    | none =>
      if HAS_LEX_FLAG flags LEX_SPECIAL_APOSTROPHE then return ⟨TOKEN_INTEGER, ss, none⟩
      else return ⟨-TOKEN_INTEGER, ss, none⟩
  else .error .undefined

/-- The cases `LEX_SPECIAL_PERIOD` to `LEX_SPECIAL_DOLLAR` and `default` of the switch at
the label `next_ls` (l-scan.c:1004, 1081, 1119): the ones a `goto next_ls` after a sign
can reach. -/
def Locate_next_ls_late (src : List Nat) (fuel : Nat) (flags : Nat) (cp : Nat)
    (ss : SCAN_STATE) : Scan Located := do
  let c ← byteAt src cp
  let v := GET_LEX_VALUE c
  if v = LEX_SPECIAL_COMMA ∨ v = LEX_SPECIAL_PERIOD then
    let flags1 := SET_LEX_FLAG flags v
    let c1 ← byteAt src (cp + 1)
    if IS_LEX_NUMBER c1 then Locate_num src fuel flags1 cp ss
    else if v ≠ LEX_SPECIAL_PERIOD then return ⟨-TOKEN_WORD, ss, none⟩
    else Locate_scanword src fuel flags1 TOKEN_WORD cp ss
  else if v = LEX_SPECIAL_POUND then Locate_pound src fuel cp ss
  else if v = LEX_SPECIAL_DOLLAR then
    if HAS_LEX_FLAG flags LEX_SPECIAL_AT then return ⟨TOKEN_EMAIL, ss, none⟩
    else return ⟨TOKEN_MONEY, ss, none⟩
  else return ⟨-TOKEN_WORD, ss, none⟩

/-- The special cases `< << <> >> > >= <=` after `:` or an apostrophe (l-scan.c:935 and
962): `cp` is at the character before the `<` or `>`; `type` is the token returned. -/
def Locate_angle (src : List Nat) (type : Int) (cp : Nat) (ss : SCAN_STATE) :
    Scan Located := do
  let cp1 := cp + 1
  let c1 ← byteAt src (cp1 + 1)
  let cp2 := if c1 = 60 ∨ c1 = 62 ∨ c1 = 61 then cp1 + 1 else cp1
  let c2 ← byteAt src (cp2 + 1)
  if !IS_LEX_DELIMIT c2 then return ⟨-type, ss, none⟩
  else return ⟨type, { ss with end_ := cp2 + 1 }, none⟩

/-- Whether `IS_LEX_DELIMIT(cp[i]) || IS_LEX_ANY_SPACE(cp[i])` holds of a byte. -/
def IS_LEX_DELIMIT_OR_SPACE (c : Nat) : Bool := IS_LEX_DELIMIT c || IS_LEX_ANY_SPACE c

/-- The switch at the label `next_ls` of Locate_Token_May_Push_Mold (l-scan.c:908), for a
first byte of the special class. -/
def Locate_next_ls (src : List Nat) (fuel : Nat) (flags : Nat) (cp : Nat) (ss : SCAN_STATE) :
    Scan Located := do
  let c ← byteAt src cp
  let v := GET_LEX_VALUE c
  if v = LEX_SPECIAL_AT then return ⟨-TOKEN_EMAIL, ss, none⟩
  else if v = LEX_SPECIAL_PERCENT then
    let cp1 := ss.end_
    let e ← byteAt src cp1
    if e = 34 then
      let q ← Scan_Quote_Push_Mold src fuel cp1 ss.line_count
      let ss1 := { ss with line_count := q.line_count }
      match q.ptr with
      | none => return ⟨-TOKEN_FILE, ss1, some q.mold⟩
      | some cp2 => return ⟨TOKEN_FILE, { ss1 with end_ := cp2 }, some q.mold⟩
    else
      let cp2 ← Skip_Path_Parts src false fuel cp1
      return ⟨TOKEN_FILE, { ss with end_ := cp2 }, none⟩
  else if v = LEX_SPECIAL_COLON then
    let c1 ← byteAt src (cp + 1)
    if IS_LEX_NUMBER c1 then return ⟨TOKEN_TIME, ss, none⟩
    else if ONLY_LEX_FLAG flags LEX_SPECIAL_WORD then return ⟨TOKEN_GET, ss, none⟩
    else if c1 = 39 then return ⟨-TOKEN_WORD, ss, none⟩
    else if c1 = 60 ∨ c1 = 62 then Locate_angle src TOKEN_GET cp ss
    else Locate_scanword src fuel flags TOKEN_GET (cp + 1) ss
  else if v = LEX_SPECIAL_APOSTROPHE then
    let c1 ← byteAt src (cp + 1)
    if IS_LEX_NUMBER c1 then return ⟨-TOKEN_LIT, ss, none⟩
    else if c1 = 58 then return ⟨-TOKEN_LIT, ss, none⟩
    else
      let lit_bar ←
        if c1 = 124 then do
          let c2 ← byteAt src (cp + 2)
          pure (IS_LEX_DELIMIT_OR_SPACE c2)
        else pure false
      if lit_bar then return ⟨TOKEN_LIT_BAR, ss, none⟩
      else if ONLY_LEX_FLAG flags LEX_SPECIAL_WORD then return ⟨TOKEN_LIT, ss, none⟩
      else
        let signed_number ←
          if !IS_LEX_WORD c1 ∧ (c1 = 45 ∨ c1 = 43) then do
            let c2 ← byteAt src (cp + 2)
            pure (IS_LEX_NUMBER c2)
          else pure false
        if signed_number then return ⟨-TOKEN_WORD, ss, none⟩
        else if !IS_LEX_WORD c1 ∧ (c1 = 60 ∨ c1 = 62) then Locate_angle src TOKEN_LIT cp ss
        else if c1 = 39 then return ⟨-TOKEN_WORD, ss, none⟩
        else Locate_scanword src fuel flags TOKEN_LIT cp ss
  else if v = LEX_SPECIAL_COMMA ∨ v = LEX_SPECIAL_PERIOD then
    Locate_next_ls_late src fuel flags cp ss
  else if v = LEX_SPECIAL_GREATER ∨ v = LEX_SPECIAL_LESSER then
    let c1 ← byteAt src (cp + 1)
    -- case LEX_SPECIAL_GREATER, which may fall through
    let greater : Option Int ←
      if v = LEX_SPECIAL_GREATER then
        if IS_LEX_DELIMIT c1 then pure (some TOKEN_WORD)
        else if c1 = 62 then do
          let c2 ← byteAt src (cp + 2)
          pure (some (if IS_LEX_DELIMIT c2 then TOKEN_WORD else -TOKEN_WORD))
        else pure none
      else pure none
    match greater with
    | some t => return ⟨t, ss, none⟩
    | none =>
      -- case LEX_SPECIAL_LESSER
      if IS_LEX_ANY_SPACE c1 ∨ c1 = 93 ∨ c1 = 0 then return ⟨TOKEN_WORD, ss, none⟩
      else if (c = 60 ∧ c1 = 60) ∨ c1 = 61 ∨ c1 = 62 then
        let c2 ← byteAt src (cp + 2)
        if IS_LEX_DELIMIT c2 then return ⟨TOKEN_WORD, ss, none⟩
        else return ⟨-TOKEN_WORD, ss, none⟩
      else
        let arrow ←
          if c = 60 ∧ (c1 = 45 ∨ c1 = 124) then do
            let c2 ← byteAt src (cp + 2)
            pure (IS_LEX_DELIMIT_OR_SPACE c2)
          else pure false
        if arrow then return ⟨TOKEN_WORD, ss, none⟩
        else if v = LEX_SPECIAL_GREATER then return ⟨-TOKEN_WORD, ss, none⟩
        else
          match ← Skip_Tag src fuel cp with
          | none => return ⟨-TOKEN_TAG, ss, none⟩
          | some cp1 => return ⟨TOKEN_TAG, { ss with end_ := cp1 }, none⟩
  else if v = LEX_SPECIAL_PLUS ∨ v = LEX_SPECIAL_MINUS then
    if HAS_LEX_FLAG flags LEX_SPECIAL_AT then return ⟨TOKEN_EMAIL, ss, none⟩
    else if HAS_LEX_FLAG flags LEX_SPECIAL_DOLLAR then return ⟨TOKEN_MONEY, ss, none⟩
    else
      -- the test for a time `+12:34` or a word `+:`; `some` is the exit taken
      let colon : Option (Option Nat) ←
        if HAS_LEX_FLAG flags LEX_SPECIAL_COLON then do
          let found ← Skip_To_Byte src cp ss.end_ 58
          let is_time := match found with
            | some cp1 => decide (cp1 + 1 ≠ ss.end_)
            | none => false
          if is_time then pure (some none)
          else do
            let b1 ← byteAt src (ss.begin + 1)
            pure (if b1 = 58 then some (some ss.begin) else none)
        else pure none
      match colon with
      | some none => return ⟨TOKEN_TIME, ss, none⟩
      | some (some cpb) => Locate_scanword src fuel flags TOKEN_WORD cpb ss
      | none =>
        let cp0 := if HAS_LEX_FLAG flags LEX_SPECIAL_COLON then ss.begin else cp
        let cp1 := cp0 + 1
        let d ← byteAt src cp1
        if IS_LEX_NUMBER d then Locate_num src fuel flags cp1 ss
        else if IS_LEX_SPECIAL d then
          if GET_LEX_VALUE d ≥ LEX_SPECIAL_PERIOD then Locate_next_ls_late src fuel flags cp1 ss
          else if d = 43 ∨ d = 45 then Locate_scanword src fuel flags TOKEN_WORD cp1 ss
          else
            let arrow ←
              if d = 62 then do
                let d1 ← byteAt src (cp1 + 1)
                pure (IS_LEX_DELIMIT_OR_SPACE d1)
              else pure false
            if arrow then return ⟨TOKEN_WORD, ss, none⟩
            else return ⟨-TOKEN_WORD, ss, none⟩
        else Locate_scanword src fuel flags TOKEN_WORD cp1 ss
  else if v = LEX_SPECIAL_BAR then
    let c1 ← byteAt src (cp + 1)
    if IS_LEX_DELIMIT_OR_SPACE c1 then return ⟨TOKEN_BAR, ss, none⟩
    else
      let pipe ←
        if c1 = 62 then do
          let c2 ← byteAt src (cp + 2)
          pure (IS_LEX_DELIMIT_OR_SPACE c2)
        else pure false
      if pipe then return ⟨TOKEN_WORD, ss, none⟩
      else Locate_scanword src fuel flags TOKEN_WORD cp ss
  else if v = LEX_SPECIAL_BLANK then
    let c1 ← byteAt src (cp + 1)
    if IS_LEX_DELIMIT_OR_SPACE c1 then return ⟨TOKEN_BLANK, ss, none⟩
    else Locate_scanword src fuel flags TOKEN_WORD cp ss
  else Locate_next_ls_late src fuel flags cp ss

/-- The label `line_feed` of Locate_Token_May_Push_Mold (l-scan.c:823). -/
def Locate_line_feed (cp : Nat) (ss : SCAN_STATE) : Located :=
  ⟨TOKEN_NEWLINE, { ss with line_count := ss.line_count + 1, end_ := cp + 1 }, none⟩

/-- The case `LEX_DELIMIT_RETURN` of Locate_Token_May_Push_Mold (l-scan.c:819), which the
case of a comment falls into. -/
def Locate_return (src : List Nat) (cp : Nat) (ss : SCAN_STATE) : Scan Located := do
  let c1 ← byteAt src (cp + 1)
  return Locate_line_feed (if c1 = 10 then cp + 1 else cp) ss

/-- The label `check_str` of Locate_Token_May_Push_Mold (l-scan.c:849), after
Scan_Quote_Push_Mold was called at `cp`. -/
def Locate_check_str (src : List Nat) (fuel : Nat) (cp : Nat) (ss : SCAN_STATE) :
    Scan Located := do
  let q ← Scan_Quote_Push_Mold src fuel cp ss.line_count
  let ss1 := { ss with line_count := q.line_count }
  match q.ptr with
  | some cp1 => return ⟨TOKEN_STRING, { ss1 with end_ := cp1 }, some q.mold⟩
  | none =>
    -- try to recover at next new line
    let cp2 ← Skip_To_Line_End src ss1
    return ⟨-TOKEN_STRING, { ss1 with end_ := cp2 }, some q.mold⟩

/-- The switch on the value of a first byte of the delimiter class in
Locate_Token_May_Push_Mold (l-scan.c:809). -/
def Locate_delimit (src : List Nat) (fuel : Nat) (cp : Nat) (ss : SCAN_STATE) :
    Scan Located := do
  let c ← byteAt src cp
  let v := GET_LEX_VALUE c
  if v = LEX_DELIMIT_SPACE then .error .undefined
  else if v = LEX_DELIMIT_SEMICOLON then
    let cp1 ← skip_while (fun b => !ANY_CR_LF_END b) src cp
    let e ← byteAt src cp1
    let cp2 := if e = 0 then cp1 - 1 else cp1
    let e2 ← byteAt src cp2
    if e2 = 10 then return Locate_line_feed cp2 ss
    else Locate_return src cp2 ss
  else if v = LEX_DELIMIT_RETURN then Locate_return src cp ss
  else if v = LEX_DELIMIT_LINEFEED then return Locate_line_feed cp ss
  else if v = LEX_DELIMIT_LEFT_BRACKET then return ⟨TOKEN_BLOCK_BEGIN, ss, none⟩
  else if v = LEX_DELIMIT_RIGHT_BRACKET then return ⟨TOKEN_BLOCK_END, ss, none⟩
  else if v = LEX_DELIMIT_LEFT_PAREN then return ⟨TOKEN_GROUP_BEGIN, ss, none⟩
  else if v = LEX_DELIMIT_RIGHT_PAREN then return ⟨TOKEN_GROUP_END, ss, none⟩
  else if v = LEX_DELIMIT_DOUBLE_QUOTE then Locate_check_str src fuel cp ss
  else if v = LEX_DELIMIT_LEFT_BRACE then Locate_check_str src fuel cp ss
  else if v = LEX_DELIMIT_RIGHT_BRACE then return ⟨-TOKEN_STRING, ss, none⟩
  else if v = LEX_DELIMIT_SLASH then
    let cp1 ← skip_while (fun b => b != 0 && b == 47) src cp
    let d ← byteAt src cp1
    if IS_LEX_WORD_OR_NUMBER d ∨ d = 43 ∨ d = 45 ∨ d = 46 ∨ d = 124 ∨ d = 95 then
      -- ///refine not allowed
      if ss.begin + 1 ≠ cp1 then return ⟨-TOKEN_REFINE, { ss with end_ := cp1 }, none⟩
      else
        let r ← Prescan_Token src fuel { ss with begin := cp1 }
        let ss1 := { r.2 with begin := r.2.begin - 1 }
        if ONLY_LEX_FLAG r.1 LEX_SPECIAL_WORD then return ⟨TOKEN_REFINE, ss1, none⟩
        else Locate_scanword src fuel r.1 TOKEN_REFINE cp1 ss1
    else if d = 60 ∨ d = 62 then return ⟨-TOKEN_REFINE, { ss with end_ := cp1 + 1 }, none⟩
    else return ⟨TOKEN_WORD, { ss with end_ := cp1 }, none⟩
  else if v = LEX_DELIMIT_END then
    -- Prescan_Token spans the terminator: collapse end to begin
    if ss.end_ - 1 ≠ ss.begin then .error .undefined
    else return ⟨TOKEN_END, { ss with end_ := ss.end_ - 1 }, none⟩
  else return ⟨-TOKEN_WORD, ss, none⟩

/-- Locate_Token_May_Push_Mold (l-scan.c:799). The `assert`s are checked in every build:
they hold whenever Prescan_Token has returned. -/
def Locate_Token_May_Push_Mold (src : List Nat) (fuel : Nat) (ss0 : SCAN_STATE) :
    Scan Located := do
  let r ← Prescan_Token src fuel ss0
  let flags := r.1
  let ss := r.2
  let cp := ss.begin
  let c ← byteAt src cp
  if GET_LEX_CLASS c = LEX_CLASS_DELIMIT then Locate_delimit src fuel cp ss
  else if GET_LEX_CLASS c = LEX_CLASS_SPECIAL then
    if HAS_LEX_FLAG flags LEX_SPECIAL_AT ∧ c ≠ 60 then return ⟨TOKEN_EMAIL, ss, none⟩
    else Locate_next_ls src fuel flags cp ss
  else if GET_LEX_CLASS c = LEX_CLASS_WORD then
    if ONLY_LEX_FLAG flags LEX_SPECIAL_WORD then return ⟨TOKEN_WORD, ss, none⟩
    else Locate_scanword src fuel flags TOKEN_WORD cp ss
  else if GET_LEX_CLASS c = LEX_CLASS_NUMBER then Locate_num src fuel flags cp ss
  else return ⟨-TOKEN_WORD, ss, none⟩

/-! ## Scanner: cells -/

/-- Modelled from the spec: the kinds of cell the scanner makes (`enum Reb_Kind`), and
`REB_TRASH` for a cell that `DS_PUSH_TRASH` has pushed and nothing has filled. -/
inductive Reb_Kind where
  | REB_TRASH
  | REB_BLANK
  | REB_BAR
  | REB_LIT_BAR
  | REB_LOGIC
  | REB_INTEGER
  | REB_DECIMAL
  | REB_PERCENT
  | REB_MONEY
  | REB_CHAR
  | REB_PAIR
  | REB_TUPLE
  | REB_TIME
  | REB_DATE
  | REB_BINARY
  | REB_STRING
  | REB_FILE
  | REB_EMAIL
  | REB_URL
  | REB_TAG
  | REB_ISSUE
  | REB_BLOCK
  | REB_GROUP
  | REB_PATH
  | REB_SET_PATH
  | REB_GET_PATH
  | REB_LIT_PATH
  | REB_WORD
  | REB_SET_WORD
  | REB_GET_WORD
  | REB_LIT_WORD
  | REB_REFINEMENT
  | REB_ERROR
deriving DecidableEq, Repr

/-- Modelled from the spec: a cell, `REBVAL`: the kind in its header, the flag
`VALUE_FLAG_LINE`, and its payload: bytes or code points (the spelling of a word, the
content of a string, what a converter made of a literal), the array of an ANY-ARRAY!
value, the error of an ERROR! value. -/
inductive REBVAL where
  | cell (kind : Reb_Kind) (line : Bool) (text : List Nat) (array : List REBVAL)
      (error : Option Scan_Error)
deriving Repr

/-- The kind of a cell. -/
def REBVAL.kind : REBVAL → Reb_Kind
  | .cell k _ _ _ _ => k

/-- The flag `VALUE_FLAG_LINE` of a cell. -/
def REBVAL.line : REBVAL → Bool
  | .cell _ l _ _ _ => l

/-- The bytes or code points of a cell. -/
def REBVAL.text : REBVAL → List Nat
  | .cell _ _ t _ _ => t

/-- The array of a cell. -/
def REBVAL.array : REBVAL → List REBVAL
  | .cell _ _ _ a _ => a

/-- Modelled from the spec: `VAL_RESET_HEADER(v, kind)` sets the kind and clears the flags
of the header; the payload stays. -/
def VAL_RESET_HEADER : REBVAL → Reb_Kind → REBVAL
  | .cell _ _ t a e, k => .cell k false t a e

/-- Modelled from the spec: `SET_VAL_FLAG(v, VALUE_FLAG_LINE)`. -/
def SET_VAL_FLAG_LINE : REBVAL → REBVAL
  | .cell k _ t a e => .cell k true t a e

/-- A cell of kind `k` with the bytes `t`. -/
def Init_Text (k : Reb_Kind) (t : List Nat) : REBVAL := .cell k false t [] none

/-- Modelled from the spec: `Init_Any_Array(out, kind, array)`. -/
def Init_Any_Array (k : Reb_Kind) (a : List REBVAL) : REBVAL := .cell k false [] a none

/-- Modelled from the spec: `Init_Error(out, error)`. -/
def Init_Error (e : Scan_Error) : REBVAL := .cell .REB_ERROR false [] [] (some e)

/-- The cell `DS_PUSH_TRASH` pushes. -/
def TRASH : REBVAL := .cell .REB_TRASH false [] [] none

/-- Modelled from the spec: `KIND_OF_WORD_FROM_TOKEN(t)`, which is
`REB_WORD + (t - TOKEN_WORD)` for the tokens of a word, set-word, get-word and lit-word. -/
def KIND_OF_WORD_FROM_TOKEN (t : Int) : Reb_Kind :=
  if t = TOKEN_SET then .REB_SET_WORD
  else if t = TOKEN_GET then .REB_GET_WORD
  else if t = TOKEN_LIT then .REB_LIT_WORD
  else .REB_WORD

/-- Modelled from the spec: the converters of literals and the construction syntax are
not among the sources; they are parameters of the scanner. A converter gets the bytes of
the token and gives the payload of the cell, or nothing for its error result; Scan_Date and
Scan_Time also give the number of bytes they have read, for the pointer they return.
`Construct` stands for what the case `TOKEN_CONSTRUCT` does with the array scanned
(binding, the `MAKE` dispatcher or the literals `#[true]` and `#[false]`); nothing is
`fail (Error(RE_MALCONSTRUCT))`. -/
structure Converters where
  Scan_Integer : List Nat → Option (List Nat)
  Scan_Decimal : List Nat → Option (List Nat)
  Scan_Date : List Nat → Option (List Nat × Nat)
  Scan_Money : List Nat → Option (List Nat)
  Scan_Time : List Nat → Option (List Nat × Nat)
  Scan_Binary : List Nat → Option (List Nat)
  Scan_Pair : List Nat → Option (List Nat)
  Scan_Tuple : List Nat → Option (List Nat)
  Scan_File : List Nat → Option (List Nat)
  Scan_Email : List Nat → Option (List Nat)
  Scan_URL : List Nat → Option (List Nat)
  Scan_Any : List Nat → Option (List Nat)
  Construct : List REBVAL → Option REBVAL

/-- The `len` bytes at `bp` of the source text; the terminator may be among them, a byte
past it may not. -/
def bytesAt (src : List Nat) (bp len : Nat) : Scan (List Nat) :=
  if bp + len ≤ src.length + 1 then .ok (((src ++ [0]).drop bp).take len)
  else .error .undefined

/-- Modelled from the spec: Intern_UTF8_Managed is not among the sources; the spelling it
interns is the `len` bytes at `bp`. -/
def Intern_UTF8_Managed (src : List Nat) (bp len : Nat) : Scan (List Nat) := bytesAt src bp len

/-- Error_Bad_Scan (l-scan.c:582): the error and the scan state with `errors` counted up.
`arg` is the bytes of the second argument. The text of NEAR is kept apart from the line
count it is formatted with. -/
def Error_Bad_Scan (src : List Nat) (errnum : Scan_Error_Id) (ss : SCAN_STATE) (tkn : Nat)
    (arg : List Nat) : Scan (Scan_Error × SCAN_STATE) := do
  let cp ← skip_while IS_LEX_SPACE src ss.head_line
  let ep ← skip_while (fun b => !ANY_CR_LF_END b) src cp
  let near ← bytesAt src cp (ep - cp)
  return (⟨errnum, tkn, arg, ss.line_count, near⟩, { ss with errors := ss.errors + 1 })

/-- The loop of Scan_Issue (l-scan.c:2046), `while (l > 0)`, over the bytes from `bp` on:
whether it ends without finding a byte an issue cannot hold. A read past the terminator
cannot happen, since the terminator is of the delimiter class. -/
def Scan_Issue_loop : List Nat → Nat → Bool
  | _, 0 => true
  | [], _ + 1 => false
  | b :: rest, l + 1 =>
    if GET_LEX_CLASS b = LEX_CLASS_DELIMIT then false
    else if GET_LEX_CLASS b = LEX_CLASS_SPECIAL then
      let c := GET_LEX_VALUE b
      if ¬ (LEX_SPECIAL_APOSTROPHE = c ∨ LEX_SPECIAL_COMMA = c ∨ LEX_SPECIAL_PERIOD = c
          ∨ LEX_SPECIAL_PLUS = c ∨ LEX_SPECIAL_MINUS = c ∨ LEX_SPECIAL_TILDE = c
          ∨ LEX_SPECIAL_BAR = c ∨ LEX_SPECIAL_BLANK = c) then false
      else Scan_Issue_loop rest l
    else Scan_Issue_loop rest l

/-- Scan_Issue (l-scan.c:2036): the spelling interned, or nothing for NULL. -/
def Scan_Issue (src : List Nat) (cp len : Nat) : Scan (Option (List Nat)) := do
  if len = 0 then return none
  else
    let cp1 ← skip_while IS_LEX_SPACE src cp
    if Scan_Issue_loop (src.drop cp1) len then do
      let name ← Intern_UTF8_Managed src cp1 len
      return some name
    else return none

/-! ## Scanner: Scan_Array -/

/-- The label `exit_block` of Scan_Array (l-scan.c:1806): the array popped from the data
stack (`stack` holds the cells pushed since `dsp_orig`, the last one first) and the scan
state. -/
def Scan_exit_block (stack : List REBVAL) (line : Bool) (ss : SCAN_STATE) :
    List REBVAL × SCAN_STATE :=
  match stack with
  | top :: rest => (((if line then SET_VAL_FLAG_LINE top else top) :: rest).reverse, ss)
  | [] => ([], ss)

/-- The label `syntax_error` of Scan_Array (l-scan.c:1775) for the token `token` and the
bytes from `bp` to `ep`. -/
def Scan_syntax_error (src : List Nat) (stack : List REBVAL) (line : Bool) (ss : SCAN_STATE)
    (token : Int) (bp ep : Nat) : Scan (List REBVAL × SCAN_STATE) := do
  if ep < bp then .error .undefined
  else
    let arg ← bytesAt src bp (ep - bp)
    let r ← Error_Bad_Scan src .RE_INVALID ss token.toNat arg
    if r.2.opts.SCAN_RELAX then return Scan_exit_block (Init_Error r.1 :: stack) line r.2
    else .error (.raised r.1)

/-- The label `extra_error` of Scan_Array (l-scan.c:1842), with the character put into
`tmp_buf`. -/
def Scan_extra_error (src : List Nat) (stack : List REBVAL) (line : Bool) (ss : SCAN_STATE)
    (token : Int) (mode_char : Nat) : Scan (List REBVAL × SCAN_STATE) := do
  let r ← Error_Bad_Scan src .RE_MISSING ss token.toNat [mode_char]
  if r.2.opts.SCAN_RELAX then return Scan_exit_block (Init_Error r.1 :: stack) line r.2
  else .error (.raised r.1)

/-- The label `missing_error` of Scan_Array (l-scan.c:1837). -/
def Scan_missing_error (src : List Nat) (stack : List REBVAL) (line : Bool) (ss : SCAN_STATE)
    (token : Int) (mode_char start start_line : Nat) : Scan (List REBVAL × SCAN_STATE) :=
  Scan_extra_error src stack line { ss with line_count := start, head_line := start_line }
    token mode_char

/-- What a case of the switch of Scan_Array does next. -/
inductive Scan_Step where
  /-- The statement `break`: the cell was pushed; `bp` and `ep` may have moved. -/
  | pushed (stack : List REBVAL) (ss : SCAN_STATE) (bp ep : Nat)
  /-- The statement `goto syntax_error`. -/
  | syntax_error (stack : List REBVAL) (ss : SCAN_STATE) (token : Int) (bp ep : Nat)
  /-- The statement `continue` after a line end. -/
  | again (ss : SCAN_STATE)
  /-- The function has come to `exit_block` with this array. -/
  | done (result : List REBVAL × SCAN_STATE)

/-- The loops of the cases `TOKEN_INTEGER` and `TOKEN_DATE` that extend a date over `/`
(l-scan.c:1570 and 1619). For an integer followed by `/`, `ep` runs over every `/` and
every byte that is not a delimiter. -/
def Scan_Date_extent (src : List Nat) (ep : Nat) : Scan Nat :=
  skip_while (fun b => b == 47 || IS_LEX_NOT_DELIMIT b) src ep

/-- The loop `while (*ep == '/' && mode_char != '/')` of the case `TOKEN_DATE`
(l-scan.c:1619), for at most `fuel` turns: `ep`, `len` and `scan_state->begin`. -/
def Scan_Date_time (src : List Nat) (mode_char bp : Nat) :
    Nat → Nat → Nat → Nat → Scan (Nat × Nat × Nat)
  | 0, _, _, _ => .error .diverges
  | fuel + 1, ep, len, begin => do
    let c ← byteAt src ep
    if c = 47 ∧ mode_char ≠ 47 then
      let ep1 ← skip_while IS_LEX_NOT_DELIMIT src (ep + 1)
      let len1 := u32 (ep1 - bp)
      if len1 > 50 then return (ep1, len1, begin)
      else Scan_Date_time src mode_char bp fuel ep1 len1 ep1
    else return (ep, len, begin)

/-- The cases of the switch of Scan_Array (l-scan.c:1459) that push one cell made from the
bytes of the token, for a token that is not a word, an array or a delimiter. `mold` is the
content of the mold buffer. The division of a percent value by 100 is left to the payload
the converter gives. -/
def Scan_Value (cv : Converters) (src : List Nat) (fuel : Nat) (mode_char : Nat)
    (token : Int) (mold : Option (List Nat)) (stack : List REBVAL) (ss : SCAN_STATE)
    (bp ep len : Nat) : Scan Scan_Step := do
  if token = TOKEN_BAR then return .pushed (Init_Text .REB_BAR [] :: stack) ss (bp + 1) ep
  else if token = TOKEN_LIT_BAR then return .pushed (Init_Text .REB_LIT_BAR [] :: stack) ss (bp + 1) ep
  else if token = TOKEN_BLANK then return .pushed (Init_Text .REB_BLANK [] :: stack) ss (bp + 1) ep
  else if token = TOKEN_REFINE then
    let spelling ← Intern_UTF8_Managed src (bp + 1) (u32 (len + 4294967295))
    return .pushed (Init_Text .REB_REFINEMENT spelling :: stack) ss bp ep
  else if token = TOKEN_ISSUE then
    if len = 1 then
      let c1 ← byteAt src (bp + 1)
      if c1 = 40 then return .syntax_error stack ss TOKEN_CONSTRUCT bp ep
      else return .pushed (Init_Text .REB_BLANK [] :: stack) ss bp ep
    else
      match ← Scan_Issue src (bp + 1) (u32 (len + 4294967295)) with
      | none => return .syntax_error stack ss token bp ep
      | some name => return .pushed (Init_Text .REB_ISSUE name :: stack) ss bp ep
  else if token = TOKEN_INTEGER then
    let e ← byteAt src ep
    if e ≠ 47 ∨ mode_char = 47 then
      let bytes ← bytesAt src bp len
      match cv.Scan_Integer bytes with
      | none => return .syntax_error (TRASH :: stack) ss token bp ep
      | some v => return .pushed (Init_Text .REB_INTEGER v :: stack) ss bp ep
    else
      -- a / and not in block: a date
      let ep1 ← Scan_Date_extent src ep
      let len1 := u32 (ep1 - bp)
      let ss1 := { ss with begin := ep1 }
      let bytes ← bytesAt src bp len1
      match cv.Scan_Date bytes with
      | some (v, n) =>
        if bp + n = ep1 then return .pushed (Init_Text .REB_DATE v :: stack) ss1 bp ep1
        else return .syntax_error (TRASH :: stack) ss1 TOKEN_DATE bp ep1
      | none => return .syntax_error (TRASH :: stack) ss1 TOKEN_DATE bp ep1
  else if token = TOKEN_DECIMAL ∨ token = TOKEN_PERCENT then
    let e ← byteAt src ep
    -- do not allow 1.2/abc
    if e = 47 then return .syntax_error stack ss token bp ep
    else
      let bytes ← bytesAt src bp len
      match cv.Scan_Decimal bytes with
      | none => return .syntax_error (TRASH :: stack) ss token bp ep
      | some v =>
        if len = 0 then .error .undefined
        else
          let last ← byteAt src (bp + len - 1)
          if last = 37 then return .pushed (Init_Text .REB_PERCENT v :: stack) ss bp ep
          else return .pushed (Init_Text .REB_DECIMAL v :: stack) ss bp ep
  else if token = TOKEN_MONEY then
    let e ← byteAt src ep
    -- do not allow $1/$2
    if e = 47 then return .syntax_error stack ss token bp (ep + 1)
    else
      let bytes ← bytesAt src bp len
      match cv.Scan_Money bytes with
      | none => return .syntax_error (TRASH :: stack) ss token bp ep
      | some v => return .pushed (Init_Text .REB_MONEY v :: stack) ss bp ep
  else if token = TOKEN_TIME then
    if len = 0 then .error .undefined
    else
      let last ← byteAt src (bp + len - 1)
      if last = 58 ∧ mode_char = 47 then
        -- could be path/10: set
        let bytes ← bytesAt src bp (len - 1)
        match cv.Scan_Integer bytes with
        | none => return .syntax_error (TRASH :: stack) ss token bp ep
        | some v =>
          return .pushed (Init_Text .REB_INTEGER v :: stack) { ss with end_ := ss.end_ - 1 } bp ep
      else
        let bytes ← bytesAt src bp len
        match cv.Scan_Time bytes with
        | some (v, n) =>
          if bp + n = ep then return .pushed (Init_Text .REB_TIME v :: stack) ss bp ep
          else return .syntax_error (TRASH :: stack) ss token bp ep
        | none => return .syntax_error (TRASH :: stack) ss token bp ep
  else if token = TOKEN_DATE then
    let r ← Scan_Date_time src mode_char bp fuel ep len ss.begin
    let ss1 := { ss with begin := r.2.2 }
    let bytes ← bytesAt src bp r.2.1
    match cv.Scan_Date bytes with
    | some (v, n) =>
      if bp + n = r.1 then return .pushed (Init_Text .REB_DATE v :: stack) ss1 bp r.1
      else return .syntax_error (TRASH :: stack) ss1 token bp r.1
    | none => return .syntax_error (TRASH :: stack) ss1 token bp r.1
  else if token = TOKEN_CHAR then
    -- skip #"
    match ← Scan_UTF8_Char_Escapable src (bp + 2) with
    | none => return .syntax_error (TRASH :: stack) ss token (bp + 2) ep
    | some (c, _) => return .pushed (Init_Text .REB_CHAR [c] :: stack) ss (bp + 2) ep
  else if token = TOKEN_STRING then
    match mold with
    | none => .error .undefined
    | some s => return .pushed (Init_Text .REB_STRING s :: stack) ss bp ep
  else if token = TOKEN_BINARY then
    let bytes ← bytesAt src bp len
    match cv.Scan_Binary bytes with
    | none => return .syntax_error (TRASH :: stack) ss token bp ep
    | some v => return .pushed (Init_Text .REB_BINARY v :: stack) ss bp ep
  else if token = TOKEN_PAIR then
    let bytes ← bytesAt src bp len
    match cv.Scan_Pair bytes with
    | none => return .pushed (TRASH :: stack) ss bp ep
    | some v => return .pushed (Init_Text .REB_PAIR v :: stack) ss bp ep
  else if token = TOKEN_TUPLE then
    let bytes ← bytesAt src bp len
    match cv.Scan_Tuple bytes with
    | none => return .syntax_error (TRASH :: stack) ss token bp ep
    | some v => return .pushed (Init_Text .REB_TUPLE v :: stack) ss bp ep
  else if token = TOKEN_FILE then
    let bytes ← bytesAt src bp len
    match cv.Scan_File bytes with
    | none => return .pushed (TRASH :: stack) ss bp ep
    | some v => return .pushed (Init_Text .REB_FILE v :: stack) ss bp ep
  else if token = TOKEN_EMAIL then
    let bytes ← bytesAt src bp len
    match cv.Scan_Email bytes with
    | none => return .pushed (TRASH :: stack) ss bp ep
    | some v => return .pushed (Init_Text .REB_EMAIL v :: stack) ss bp ep
  else if token = TOKEN_URL then
    let bytes ← bytesAt src bp len
    match cv.Scan_URL bytes with
    | none => return .pushed (TRASH :: stack) ss bp ep
    | some v => return .pushed (Init_Text .REB_URL v :: stack) ss bp ep
  else if token = TOKEN_TAG then
    if len < 2 then .error .undefined
    else
      let bytes ← bytesAt src (bp + 1) (len - 2)
      match cv.Scan_Any bytes with
      | none => return .pushed (TRASH :: stack) ss bp ep
      | some v => return .pushed (Init_Text .REB_TAG v :: stack) ss bp ep
  else return .syntax_error stack ss token bp ep

/-- The cases `TOKEN_LIT`, `TOKEN_GET`, `TOKEN_SET` and `TOKEN_WORD` of the switch of
Scan_Array (l-scan.c:1486), which fall into one another. -/
def Scan_Any_Word (src : List Nat) (mode_char : Nat) (token : Int) (stack : List REBVAL)
    (ss : SCAN_STATE) (bp ep len : Nat) : Scan Scan_Step := do
  -- case TOKEN_LIT, case TOKEN_GET
  let colon ←
    if token = TOKEN_LIT ∨ token = TOKEN_GET then
      if ep = 0 then .error .undefined
      else do
        let last ← byteAt src (ep - 1)
        pure (decide (last = 58))
    else pure false
  if colon ∧ (len = 1 ∨ mode_char ≠ 47) then return .syntax_error stack ss token bp ep
  else
    let len1 := if colon then u32 (len + 4294967295) else len
    let ss1 := if colon then { ss with end_ := ss.end_ - 1 } else ss
    let bp1 := if token = TOKEN_LIT ∨ token = TOKEN_GET then bp + 1 else bp
    -- case TOKEN_SET
    let len2 := if token = TOKEN_WORD then len1 else u32 (len1 + 4294967295)
    let to_word := decide (mode_char = 47 ∧ token = TOKEN_SET)
    let token1 := if to_word then TOKEN_WORD else token
    let ss2 := if to_word then { ss1 with end_ := ss1.end_ - 1 } else ss1
    -- case TOKEN_WORD
    if len2 = 0 then
      if bp1 = 0 then .error .undefined
      else return .syntax_error stack ss2 token1 (bp1 - 1) ep
    else
      let spelling ← Intern_UTF8_Managed src bp1 len2
      return .pushed (Init_Text (KIND_OF_WORD_FROM_TOKEN token1) spelling :: stack) ss2 bp1 ep

/-- The scan state a nested call of Scan_Array starts with: `SCAN_NEXT` is cleared, since
`just_once` has taken it. -/
def Scan_enter (ss : SCAN_STATE) : SCAN_STATE :=
  { ss with opts := { ss.opts with SCAN_NEXT := false } }

/-- The test `token == TOKEN_PATH || ((token == TOKEN_WORD || token == TOKEN_LIT ||
token == TOKEN_GET) && *ep == '/')` of Scan_Array (l-scan.c:1405). -/
def Opens_Path (token : Int) (e : Nat) : Bool :=
  decide (token = TOKEN_PATH
    ∨ ((token = TOKEN_WORD ∨ token = TOKEN_LIT ∨ token = TOKEN_GET) ∧ e = 47))

/-- What the body of the loop of Scan_Array does at its end. -/
inductive Scan_Next where
  /-- The next turn of the loop, with the scan state, the cells pushed and `line`. -/
  | turn (ss : SCAN_STATE) (stack : List REBVAL) (line : Bool)
  /-- The function returns this array. -/
  | exit (result : List REBVAL × SCAN_STATE)

/-- The opening of a path in Scan_Array (l-scan.c:1419), after the nested call
`Scan_Array(scan_state, '/')` has returned `sub`. -/
def Scan_Array_path (src : List Nat) (token : Int) (stack : List REBVAL)
    (sub : List REBVAL × SCAN_STATE) (bp ep : Nat) : Scan Scan_Step := do
  let ss1 := sub.2
  let e1 ← byteAt src ss1.end_
  match sub.1 with
  | [] =>
    if token = TOKEN_LIT then .error .undefined
    else if e1 = 58 then
      pure (.pushed (Init_Any_Array .REB_SET_PATH [] :: stack)
        { ss1 with begin := ss1.end_ + 1, end_ := ss1.end_ + 1 } bp ep)
    else pure (.pushed (Init_Any_Array .REB_PATH [] :: stack) ss1 bp ep)
  | head :: tail =>
    if token = TOKEN_LIT then
      pure (.pushed (Init_Any_Array .REB_LIT_PATH
        (VAL_RESET_HEADER head .REB_WORD :: tail) :: stack) ss1 bp ep)
    else if head.kind = .REB_GET_WORD then
      if e1 = 58 then pure (.syntax_error (TRASH :: stack) ss1 token bp ep)
      else
        pure (.pushed (Init_Any_Array .REB_GET_PATH
          (VAL_RESET_HEADER head .REB_WORD :: tail) :: stack) ss1 bp ep)
    else if e1 = 58 then
      pure (.pushed (Init_Any_Array .REB_SET_PATH (head :: tail) :: stack)
        { ss1 with begin := ss1.end_ + 1, end_ := ss1.end_ + 1 } bp ep)
    else pure (.pushed (Init_Any_Array .REB_PATH (head :: tail) :: stack) ss1 bp ep)

/-- The cases `TOKEN_BLOCK_END` and `TOKEN_GROUP_END` of the switch of Scan_Array
(l-scan.c:1552): `closer` is the character that closes the array (`]` or `)`), `opener`
the one put into the error for an extra closer. -/
def Scan_Array_close (src : List Nat) (mode_char start start_line : Nat) (token : Int)
    (closer opener : Nat) (stack : List REBVAL) (line : Bool) (ss : SCAN_STATE) :
    Scan Scan_Step :=
  if mode_char = 0 then do
    let r ← Scan_extra_error src stack line ss token opener
    pure (.done r)
  else if mode_char ≠ closer then do
    let r ← Scan_missing_error src stack line ss token mode_char start start_line
    pure (.done r)
  else pure (.done (Scan_exit_block stack line ss))

/-- The cases `TOKEN_BLOCK_BEGIN` and `TOKEN_GROUP_BEGIN` of the switch of Scan_Array
(l-scan.c:1529), after the nested call has returned `sub`. -/
def Scan_Array_open (token : Int) (stack : List REBVAL) (line : Bool)
    (sub : List REBVAL × SCAN_STATE) (bp : Nat) : Scan Scan_Step :=
  if sub.2.errors ≠ 0 then
    -- copy the error
    match sub.1.getLast? with
    | none => .error .undefined
    | some last => pure (.done (Scan_exit_block (last :: stack) line sub.2))
  else
    pure (.pushed (Init_Any_Array
      (if token = TOKEN_BLOCK_BEGIN then .REB_BLOCK else .REB_GROUP) sub.1 :: stack)
      sub.2 bp sub.2.end_)

/-- The case `TOKEN_CONSTRUCT` of the switch of Scan_Array (l-scan.c:1690), after
Scan_Full_Array has returned `sub`; `saved_only` is the flag `SCAN_ONLY` it has saved. -/
def Scan_Array_construct (cv : Converters) (token : Int) (saved_only : Bool)
    (stack : List REBVAL) (sub : List REBVAL × SCAN_STATE) (bp ep : Nat) : Scan Scan_Step :=
  let ss2 :=
    if saved_only then { sub.2 with opts := { sub.2.opts with SCAN_ONLY := true } } else sub.2
  match cv.Construct sub.1 with
  | none => .error (.raised ⟨.RE_MALCONSTRUCT, token.toNat, [], ss2.line_count, []⟩)
  | some v => pure (.pushed (v :: stack) ss2 bp ep)

/-- The body of the loop of Scan_Array from the test for a new path to the end of the
switch (l-scan.c:1403 to 1787), for a token that is not malformed. `nested m ss` is the
call `Scan_Array(scan_state, m)` in the state `ss`. -/
def Scan_Array_token (cv : Converters) (src : List Nat)
    (nested : Nat → SCAN_STATE → Scan (List REBVAL × SCAN_STATE)) (fuel : Nat)
    (mode_char start start_line : Nat) (l : Located) (stack : List REBVAL) (line : Bool)
    (e0 : Nat) : Scan Scan_Step :=
  let ss := l.ss
  let bp := ss.begin
  let ep := ss.end_
  let len := u32 (ep + 4294967296 - bp)
  if Opens_Path l.token e0 ∧ mode_char ≠ 47 then do
    -- new path: /word or word/word
    let sub ← nested 47 ss
    Scan_Array_path src l.token stack sub bp ep
  else
    -- accept token
    let ss1 := { ss with begin := ss.end_ }
    if l.token = TOKEN_NEWLINE then pure (.again { ss1 with head_line := ep })
    else if l.token = TOKEN_LIT ∨ l.token = TOKEN_GET ∨ l.token = TOKEN_SET
        ∨ l.token = TOKEN_WORD then
      Scan_Any_Word src mode_char l.token stack ss1 bp ep len
    else if l.token = TOKEN_BLOCK_BEGIN ∨ l.token = TOKEN_GROUP_BEGIN then do
      let sub ← nested (if l.token = TOKEN_BLOCK_BEGIN then 93 else 41) ss1
      Scan_Array_open l.token stack line sub bp
    else if l.token = TOKEN_BLOCK_END then
      Scan_Array_close src mode_char start start_line l.token 93 91 stack line ss1
    else if l.token = TOKEN_GROUP_END then
      Scan_Array_close src mode_char start start_line l.token 41 40 stack line ss1
    else if l.token = TOKEN_CONSTRUCT then do
      -- Scan_Full_Array
      let sub ← nested 93 { ss1 with opts := { ss1.opts with SCAN_ONLY := false } }
      Scan_Array_construct cv l.token ss1.opts.SCAN_ONLY stack sub bp ep
    else Scan_Value cv src fuel mode_char l.token l.mold stack ss1 bp ep len

/-- The end of the body of the loop of Scan_Array (l-scan.c:1789): the line flag, the
check for the end of a path, and the flags that end the scan after one value. -/
def Scan_Array_after (src : List Nat) (mode_char : Nat) (just_once : Bool)
    (stack : List REBVAL) (line : Bool) : Scan_Step → Scan Scan_Next
  | .done r => pure (.exit r)
  | .again ss1 => pure (.turn ss1 stack true)
  | .syntax_error stack1 ss1 token1 bp1 ep1 => do
    let r ← Scan_syntax_error src stack1 line ss1 token1 bp1 ep1
    pure (.exit r)
  | .pushed stack1 ss1 bp1 ep1 =>
    let stack2 :=
      if line then
        match stack1 with
        | top :: rest => SET_VAL_FLAG_LINE top :: rest
        | [] => stack1
      else stack1
    -- check for end of path
    if mode_char = 47 then do
      let e ← byteAt src ep1
      if e = 47 then
        let ep2 := ep1 + 1
        let ss2 := { ss1 with begin := ep2 }
        let e2 ← byteAt src ep2
        if e2 ≠ 40 ∧ IS_LEX_DELIMIT e2 then do
          let r ← Scan_syntax_error src stack2 false ss2 TOKEN_PATH bp1 ep2
          pure (.exit r)
        else if ss2.opts.SCAN_ONLY ∨ just_once then pure (.exit (Scan_exit_block stack2 false ss2))
        else pure (.turn ss2 stack2 false)
      else pure (.exit (Scan_exit_block stack2 false ss1))
    else if ss1.opts.SCAN_ONLY ∨ just_once then pure (.exit (Scan_exit_block stack2 false ss1))
    else pure (.turn ss1 stack2 false)

/-- The body of the loop of Scan_Array (l-scan.c:1392) for the token located. -/
def Scan_Array_body (cv : Converters) (src : List Nat)
    (nested : Nat → SCAN_STATE → Scan (List REBVAL × SCAN_STATE)) (fuel : Nat)
    (mode_char : Nat) (just_once : Bool) (start start_line : Nat) (l : Located)
    (stack : List REBVAL) (line : Bool) : Scan Scan_Next := do
  let ss := l.ss
  if l.token = TOKEN_END then
    if mode_char = 93 ∨ mode_char = 41 then do
      let r ← Scan_missing_error src stack line ss l.token mode_char start start_line
      pure (.exit r)
    else pure (.exit (Scan_exit_block stack line ss))
  else
    let bp := ss.begin
    let ep := ss.end_
    if l.token < 0 then do
      -- skip malformed token
      let r ← Scan_syntax_error src stack line { ss with begin := ss.end_ } (-l.token) bp ep
      pure (.exit r)
    else
      let b0 ← byteAt src bp
      if mode_char = 47 ∧ b0 = 47 then
        -- start of path /word or word//word
        pure (.turn { ss with begin := bp + 1 } (Init_Text .REB_BLANK [] :: stack) line)
      else
        let e0 ← byteAt src ep
        let step ← Scan_Array_token cv src nested fuel mode_char start start_line l stack line e0
        Scan_Array_after src mode_char just_once stack line step

/-- Scan_Array (l-scan.c:1361) from its loop on, for at most `fuel` turns of the loop and
nested calls together. `mode_char`, `just_once`, `start` and `start_line` are the locals
set on entry; `stack` holds the cells pushed since `dsp_orig`, the last one first. The
result is the array and the scan state. The test of the C stack depth is not modelled. -/
def Scan_Array_loop (cv : Converters) (src : List Nat) (mode_char : Nat) (just_once : Bool)
    (start start_line : Nat) :
    Nat → SCAN_STATE → List REBVAL → Bool → Scan (List REBVAL × SCAN_STATE)
  | 0, _, _, _ => .error .diverges
  | fuel + 1, ss0, stack, line => do
    let l ← Locate_Token_May_Push_Mold src fuel ss0
    let next ← Scan_Array_body cv src
      (fun m ss => Scan_Array_loop cv src m ss.opts.SCAN_NEXT ss.line_count ss.head_line fuel
        (Scan_enter ss) [] false)
      fuel mode_char just_once start start_line l stack line
    match next with
    | .exit r => return r
    | .turn ss1 stack1 line1 =>
      Scan_Array_loop cv src mode_char just_once start start_line fuel ss1 stack1 line1

/-- Scan_Array (l-scan.c:1361). -/
def Scan_Array (cv : Converters) (src : List Nat) (fuel : Nat) (ss : SCAN_STATE)
    (mode_char : Nat) : Scan (List REBVAL × SCAN_STATE) :=
  Scan_Array_loop cv src mode_char ss.opts.SCAN_NEXT ss.line_count ss.head_line fuel
    (Scan_enter ss) [] false

/-- Init_Scan_State (l-scan.c:1273) for the text at position 0. -/
def Init_Scan_State (limit : Nat) : SCAN_STATE :=
  { begin := 0, end_ := 0, limit := limit, line_count := 1, head_line := 0,
    opts := ⟨false, false, false⟩, errors := 0 }

/-- Scan_UTF8_Managed (l-scan.c:1908): the array scanned. -/
def Scan_UTF8_Managed (cv : Converters) (src : List Nat) (fuel : Nat) (len : Nat) :
    Scan (List REBVAL) := do
  let r ← Scan_Array cv src fuel (Init_Scan_State len) 0
  return r.1

/-- Converters for the examples: an integer is a run of digits, a decimal is digits with one
period among them, and every other literal is taken as it is written; the payload is the
text. The construction syntax is refused. -/
def text_converters : Converters :=
  { Scan_Integer := fun b =>
      if b ≠ [] ∧ b.all (fun c => decide (48 ≤ c ∧ c ≤ 57)) then some b else none,
    Scan_Decimal := fun b =>
      if b.count 46 = 1 ∧ b.all (fun c => decide (48 ≤ c ∧ c ≤ 57 ∨ c = 46)) then some b
      else none,
    Scan_Date := fun b => some (b, b.length),
    Scan_Money := fun b => some b,
    Scan_Time := fun b => some (b, b.length),
    Scan_Binary := fun b => some b,
    Scan_Pair := fun b => some b,
    Scan_Tuple := fun b => some b,
    Scan_File := fun b => some b,
    Scan_Email := fun b => some b,
    Scan_URL := fun b => some b,
    Scan_Any := fun b => some b,
    Construct := fun _ => none }

/-- The bytes of a source text written in ASCII characters. -/
def ascii (s : String) : List Nat := s.data.map Char.toNat

/-- A piece of the content of a braced string, for the statement about
Scan_Quote_Push_Mold: a plain character, a caret escape of `len` bytes that stands for the
code point `chr`, a line end (CR, LF or CR LF), or a UTF-8 sequence of `len` bytes for
`chr`. -/
inductive Quote_Piece where
  | plain (b : Nat)
  | escape (len chr : Nat)
  | line_end (len : Nat)
  | utf8 (len chr : Nat)
deriving DecidableEq, Repr

/-- The number of bytes of a piece in the source text. -/
def Quote_Piece.len : Quote_Piece → Nat
  | .plain _ => 1
  | .escape len _ => len
  | .line_end len => len
  | .utf8 len _ => len

/-- The code point a piece stands for. -/
def Quote_Piece.chr : Quote_Piece → Nat
  | .plain b => b
  | .escape _ chr => chr
  | .line_end _ => 10
  | .utf8 _ chr => chr

/-- The lines a piece adds to the line count. -/
def Quote_Piece.lines : Quote_Piece → Nat
  | .line_end _ => 1
  | _ => 0

/-- The piece `p` is what the text holds at `src`: a plain character is a byte below 128
other than NUL, caret, the braces, CR and LF; an escape starts with a caret and
Scan_UTF8_Char_Escapable decodes it to `chr`, ending after `len` bytes; a UTF-8 sequence
starts with a byte from 128 on and Back_Scan_UTF8_Char decodes it to `chr`, ending at its
last byte. -/
def Piece_At (text : List Nat) (src : Nat) : Quote_Piece → Prop
  | .plain b =>
    byteAt text src = .ok b ∧ b ≠ 0 ∧ b ≠ 94 ∧ b ≠ 123 ∧ b ≠ 125 ∧ b ≠ 13 ∧ b ≠ 10 ∧ b < 128
  | .escape len chr =>
    byteAt text src = .ok 94 ∧ 0 < len ∧
      Scan_UTF8_Char_Escapable text src = .ok (some (chr, src + len))
  | .line_end len =>
    (byteAt text src = .ok 10 ∧ len = 1) ∨
    (byteAt text src = .ok 13 ∧ byteAt text (src + 1) = .ok 10 ∧ len = 2) ∨
    (byteAt text src = .ok 13 ∧ (∃ n, byteAt text (src + 1) = .ok n ∧ n ≠ 10) ∧ len = 1)
  | .utf8 len chr =>
    (∃ b, byteAt text src = .ok b ∧ 128 ≤ b) ∧ 0 < len ∧
      Back_Scan_UTF8_Char text src = .ok (some (chr, src + len - 1))

/-- The pieces `ps` are what the text holds from `src` on, one after the other. -/
def Pieces_At (text : List Nat) : Nat → List Quote_Piece → Prop
  | _, [] => True
  | src, p :: ps => Piece_At text src p ∧ Pieces_At text (src + p.len) ps

/-! ## Texts of words and blocks -/

/-- A text of words and blocks, for the statement about Scan_Array: a word, or a bracket
pair around a sequence of such texts. -/
inductive Word_Tree where
  | word (w : List Nat)
  | block (items : List Word_Tree)

mutual
/-- The source text of a tree: the word, or its items between `[` and `]`. -/
def Word_Tree.render : Word_Tree → List Nat
  | .word w => w
  | .block items => [91] ++ render_items items ++ [93]
/-- The source text of a sequence of trees: each one after a space. -/
def render_items : List Word_Tree → List Nat
  | [] => []
  | t :: ts => [32] ++ t.render ++ render_items ts
end

mutual
/-- The cell a tree stands for: a WORD cell with the spelling of the word, or a BLOCK cell
with the array of the cells of its items. -/
def Word_Tree.cell : Word_Tree → REBVAL
  | .word w => Init_Text .REB_WORD w
  | .block items => Init_Any_Array .REB_BLOCK (cells_of items)
/-- The cells a sequence of trees stands for, in the order of the source. -/
def cells_of : List Word_Tree → List REBVAL
  | [] => []
  | t :: ts => t.cell :: cells_of ts
end

mutual
/-- Every word of the tree is a non-empty run of lower case letters. -/
def Word_Tree.OK : Word_Tree → Prop
  | .word w => w ≠ [] ∧ ∀ c ∈ w, 97 ≤ c ∧ c ≤ 122
  | .block items => Items_OK items
/-- Every word of the trees is a non-empty run of lower case letters. -/
def Items_OK : List Word_Tree → Prop
  | [] => True
  | t :: ts => t.OK ∧ Items_OK ts
end

mutual
/-- The fuel the nested calls of Scan_Array take for a tree. -/
def Word_Tree.weight : Word_Tree → Nat
  | .word _ => 0
  | .block items => items.length + 2 + weight_items items
/-- The fuel the nested calls of Scan_Array take for a sequence of trees. -/
def weight_items : List Word_Tree → Nat
  | [] => 0
  | t :: ts => t.weight + weight_items ts
end

/-- The scan state `ss` with `begin` and `end` both at position `p`, as Scan_Array leaves
it after a token it has accepted. -/
def Scan_at (ss : SCAN_STATE) (p : Nat) : SCAN_STATE := { ss with begin := p, end_ := p }

/-- The bytes that may follow an item: nothing, a space or `]`. -/
def Item_End (rest : List Nat) : Prop := rest = [] ∨ ∃ d r, rest = d :: r ∧ (d = 32 ∨ d = 93)

/-! ## Series: what the allocator leaves alone, and well-formed series -/

/-- The widths of the pools, in the order of the table. -/
def Memory.widths (m : Memory) : List Nat := m.Mem_Pools.map (fun p => p.wide)

/-- The part of the state that Alloc_Mem and the pool functions never write: the build,
the size map, the manuals list, the table of expanded series, the junk, and the widths of
the pools. -/
structure Same_Tables (m m1 : Memory) : Prop where
  cfg : m1.cfg = m.cfg
  always : m1.PG_Always_Malloc = m.PG_Always_Malloc
  map : m1.PG_Pool_Map = m.PG_Pool_Map
  manuals : m1.GC_Manuals = m.GC_Manuals
  prior : m1.Prior_Expand = m.Prior_Expand
  junk : m1.junk = m.junk
  widths : m1.widths = m.widths

/-- The state has the size map Init_Pools builds and pools of the widths of
`Mem_Pool_Spec`, for cells of at least 8 bytes. -/
structure Tables_OK (m : Memory) : Prop where
  min : 8 ≤ MEM_MIN_SIZE m.cfg
  map : m.PG_Pool_Map = Init_Pool_Map m.cfg
  widths : m.widths = (Mem_Pool_Spec m.cfg).map (fun spec => spec.wide)

/-- Whether the cell `i` of the array `s` has the END flag, `IS_END(ARR_AT(s, i))`. In an
array that is not dynamic the cell 0 is the `content` of the node and the header of the
cell 1 is the info word. -/
def IS_END_ARR_AT (c : Config) (s : REBSER) (i : Nat) : Option Bool :=
  if s.has_dynamic then
    match s.data with
    | none => none
    | some data => IS_END_AT s (data + i * c.sizeof_REBVAL)
  else if i = 0 then IS_END_AT s (content_addr c s.node)
  else if i = 1 then some s.info_end
  else none

/-- A dynamic series whose block holds its capacity: the data pointer lies `bias` elements
after the start of the block, the `rest` elements after it fit in the block, which is of
at most `2^31` bytes, and the length leaves room for a terminator. -/
structure Series_OK (s : REBSER) : Prop where
  dynamic : s.has_dynamic = true
  wide_pos : 0 < s.wide
  data : s.data = some (s.base + s.bias * s.wide)
  fits : (s.bias + s.rest) * s.wide ≤ s.mem.length
  small : s.mem.length ≤ 2147483648
  room : s.len < s.rest

/-- The manuals list is a well-formed series of pointers without bias, and is not an
array. -/
structure Manuals_OK (m : Memory) : Prop where
  series : Series_OK m.GC_Manuals
  wide : m.GC_Manuals.wide = m.cfg.sizeof_REBUPT
  bias : m.GC_Manuals.bias = 0
  not_array : m.GC_Manuals.is_array = false

/-- What Series_Data_Alloc has done when it returns `TRUE` with the series `r`, called on
the series `s` in the state `m` and returning in the state `m1`: the series is dynamic,
without bias and empty, its data is a block of its own of `r.mem.length` bytes, and its
capacity is the size of the block divided by the width. The block is a node of the pool
for the size asked, or memory of the system of that size (rounded up to a power of two
with the flag `MKS_POWER_OF_2`). The other fields of the node are as they were. -/
structure Alloc_Post (m m1 : Memory) (s r : REBSER) (length wide : Nat) (flags : MKS) :
    Prop where
  same : Same_Tables m m1
  wide_ne : wide ≠ 0
  fields : r = { s with wide := wide, bias := 0, is_array := flags.ARRAY,
                        rest := r.mem.length / wide, len := 0, has_dynamic := true,
                        data := some r.base, base := r.base, mem := r.mem,
                        power_of_2 := r.power_of_2 }
  size : (FIND_POOL m (u32 (length * wide)) < SYSTEM_POOL ∧
        (∃ pool, m1.pool (FIND_POOL m (u32 (length * wide))) = some pool ∧
          r.mem.length = pool.wide) ∧
        (m.cfg.NDEBUG = false → u32 (length * wide) ≤ r.mem.length)) ∨
      (¬ FIND_POOL m (u32 (length * wide)) < SYSTEM_POOL ∧
        (flags.POWER_OF_2 = true →
          pow2_loop (u32 (length * wide)) 64 2048 = some r.mem.length) ∧
        (flags.POWER_OF_2 = false → r.mem.length = u32 (length * wide)))
  last : flags.ARRAY = true → 0 < r.mem.length / wide ∧
    (0 < m.cfg.sizeof_REBUPT →
      IS_END_AT r (r.base + (r.mem.length / wide - 1) * m.cfg.sizeof_REBVAL) = some true)

/-- The state `demo_tables` with an empty manuals list of capacity 16, as Init_Pools makes
it: 16 pointers in a block of 128 bytes at address 8192. The node of the list itself is
outside the pools of this state. -/
def demo_manuals : Memory :=
  { demo_tables with
    GC_Manuals :=
      { node := 64, valid := true, managed := false, is_array := false, fixed_size := false,
        wide := 8, has_dynamic := true, power_of_2 := false, info_len := 0, info_end := true,
        data := some 8192, len := 0, rest := 16, bias := 0, base := 8192,
        mem := List.replicate 128 170 } }

/-- The state `demo_manuals` after `Make_Series(100, 1, MKS_NONE)`: the series pool and the
pool of 128 bytes have one segment of two nodes each, the first handed out, and the manuals
list has one entry. -/
def demo_series_made : Memory := (Make_Series demo_manuals 100 1 MKS_NONE).mem

/-- The flags `MKS_ARRAY`. -/
def MKS_ARRAY : MKS := ⟨true, false, false, false⟩

/-- The series `overflow_series` with the flag `SERIES_FLAG_FIXED_SIZE`: one element of 4
bytes in a capacity of 16. -/
def fixed_series : REBSER := { overflow_series with fixed_size := true }

/-- The series `fixed_series` after two elements were taken from its head: a bias of 2, the
data pointer 8 bytes into the block, and a capacity of 14. -/
def fixed_biased_series : REBSER :=
  { fixed_series with bias := 2, data := some 8200, rest := 14 }

/-! ## Series: Remake_Series -/

/-- Remake_Series (m-pools.c:1365). The old data is read before the fresh block takes its
place in the model of the series. -/
def Remake_Series (m : Memory) (s : REBSER) (units wide : Nat) (flags : MKS) :
    Result REBSER :=
  let c := m.cfg
  let is_array := s.is_array
  let len_old := SER_LEN s
  let wide_old := s.wide
  if ¬ c.NDEBUG ∧ (is_array ≠ flags.ARRAY ∨ (flags.PRESERVE ∧ wide ≠ wide_old)) then
    .fault .undefined m
  else if ¬ c.NDEBUG ∧ s.fixed_size then .fault .undefined m
  else
    let was_dynamic := s.has_dynamic
    if ¬ c.NDEBUG ∧ was_dynamic ∧ s.data = none then .fault .undefined m
    else
      let size_old : Option Nat := if was_dynamic then Series_Allocation_Unpooled s else some 0
      match size_old, SER_DATA_RAW c s with
      | none, _ => .fault .diverges m
      | some _, none => .fault .undefined m
      | some size_old, some data_old =>
        let bias_old := SER_BIAS s
        match Series_Data_Alloc m { s with data := none } (u32 (units + 1)) wide
            { flags with ARRAY := is_array || flags.ARRAY } with
        | .fault f m1 => .fault f m1
        | .ok (false, _) m1 => .fault (.no_memory (u32 (u32 (units + 1) * wide))) m1
        | .ok (true, s1) m1 =>
          -- preserve as much data as possible
          let kept : Option REBSER :=
            if flags.PRESERVE then
              let len := min len_old units
              match s1.data, s.read data_old (u32 (len * wide)) with
              | some data, some bytes => ({ s1 with len := len }).write data bytes
              | _, _ => none
            else some { s1 with len := 0 }
          match kept with
          | none => .fault .undefined m1
          | some s2 =>
            let termed : Option REBSER :=
              if flags.ARRAY then TERM_ARRAY_LEN c s2 (SER_LEN s2) else TERM_SEQUENCE c s2
            match termed with
            | none => .fault .undefined m1
            | some s3 =>
              if was_dynamic then
                if wide_old * bias_old > data_old then .fault .undefined m1
                else
                  match Free_Unbiased_Series_Data m1 (data_old - wide_old * bias_old)
                      size_old with
                  | .fault f m2 => .fault f m2
                  | .ok _ m2 => .ok s3 m2
              else .ok s3 m1

/-- A series of 4-byte elements with 12 elements, in a block of 64 bytes. -/
def long_series : REBSER :=
  { overflow_series with
    len := 12,
    mem := ((List.range 48).map (fun i => i + 1) ++ List.replicate 16 0) }

/-- The flags `MKS_PRESERVE`. -/
def MKS_PRESERVE : MKS := ⟨false, false, true, false⟩

/-! ## Series: the manuals list, Manage_Series and Free_Series -/

/-- Modelled from the spec: the bit `NODE_FLAG_CELL` of a node header. -/
def NODE_FLAG_CELL : Nat := 32

/-- Modelled from the spec: the bit `NODE_FLAG_MANAGED` of a node header. -/
def NODE_FLAG_MANAGED : Nat := 16

/-- Modelled from the spec: `IS_FREE_NODE(n)`, the header bits of a free node are 0. -/
def IS_FREE_NODE (m : Memory) (node : Nat) : Bool := (m.nodes node).header == 0

/-- The value of the bytes of a pointer or header word, the inverse of `header_bytes`. -/
def word_of_bytes (bytes : List Nat) : Nat := bytes.foldr (fun b acc => b + 256 * acc) 0

/-- The bytes of the entry `i` of the manuals list `M`, the pointer
`cast(REBSER**, M->content.dynamic.data)[i]`; `none` outside its block. -/
def Manual_Bytes (c : Config) (M : REBSER) (i : Nat) : Option (List Nat) :=
  match M.data with
  | none => none
  | some data => M.read (data + i * c.sizeof_REBUPT) c.sizeof_REBUPT

/-- The entry `i` of the manuals list `M`, as a pointer value. -/
def Manual_At (c : Config) (M : REBSER) (i : Nat) : Option Nat :=
  (Manual_Bytes c M i).map word_of_bytes

/-- The first `n` entries of the manuals list `M`; `none` if one lies outside its block. -/
def Manual_entries (c : Config) (M : REBSER) : Nat → Option (List Nat)
  | 0 => some []
  | n + 1 =>
    match Manual_entries c M n, Manual_At c M n with
    | some l, some p => some (l ++ [p])
    | _, _ => none

/-- The entries of the manuals list `M`, in the order of the list. -/
def Manuals_list (c : Config) (M : REBSER) : Option (List Nat) := Manual_entries c M M.len

/-- The loop `while (*current_ptr != s)` of Drop_Manual_Series (m-pools.c:1541), with
`current_ptr` one entry below the entry `k`: the index where `s` is found. A debug build
panics when the head of the list is reached without a match; a release build goes on
below the list. -/
def Drop_Manual_loop (c : Config) (M : REBSER) (s : Nat) : Nat → Except Fault Nat
  | 0 => .error .undefined
  | k + 1 =>
    match Manual_At c M k with
    | none => .error .undefined
    | some p =>
      if p ≠ s then
        if ¬ c.NDEBUG ∧ k = 0 then .error .panic
        else Drop_Manual_loop c M s k
      else .ok k

/-- Drop_Manual_Series (m-pools.c:1523) for the series at the address `s`. -/
def Drop_Manual_Series (m : Memory) (s : Nat) : Result Unit :=
  let c := m.cfg
  let M := m.GC_Manuals
  let last_i := u32 (M.len + 4294967295)
  if ¬ c.NDEBUG ∧ ¬ (M.len ≥ 1) then .fault .undefined m
  else
    match Manual_Bytes c M last_i with
    | none => .fault .undefined m
    | some last =>
      if word_of_bytes last ≠ s then
        -- move the last manually added series to the place of `s`
        match Drop_Manual_loop c M s last_i, M.data with
        | .error f, _ => .fault f m
        | .ok _, none => .fault .undefined m
        | .ok j, some data =>
          match M.write (data + j * c.sizeof_REBUPT) last with
          | none => .fault .undefined m
          | some M1 => .ok () { m with GC_Manuals := { M1 with len := u32 (M.len + 4294967295) } }
      else .ok () { m with GC_Manuals := { M with len := u32 (M.len + 4294967295) } }

/-- Manage_Series (m-pools.c:1678): the series with its MANAGED flag set. -/
def Manage_Series (m : Memory) (s : REBSER) : Result REBSER :=
  if ¬ m.cfg.NDEBUG ∧ s.managed then .fault .panic m
  else
    let m1 := m.set_node s.node
      { m.nodes s.node with header := (m.nodes s.node).header ||| NODE_FLAG_MANAGED }
    match Drop_Manual_Series m1 s.node with
    | .fault f m2 => .fault f m2
    | .ok _ m2 => .ok { s with managed := true } m2

/-- The statement `if (REB_I32_ADD_OF(GC_Ballast, size, &GC_Ballast)) GC_Ballast = MAX_I32;`
of GC_Kill_Series, `size` being a `REBCNT` taken as a 32-bit signed value. -/
def Memory.add_ballast (m : Memory) (size : Nat) : Memory :=
  let sum := m.GC_Ballast + i32 (size : Int)
  { m with GC_Ballast := if sum > 2147483647 ∨ sum < -2147483648 then 2147483647 else sum }

/-- The part of GC_Kill_Series (m-pools.c:1445) that frees the data of a dynamic series
and credits its size to `GC_Ballast`. The cleaner of a handle, which is code of the
client, lies outside the model. -/
def GC_Kill_Series_data (m1 : Memory) (s : REBSER) : Result Unit :=
  if s.has_dynamic then
    let size := SER_TOTAL s
    match s.data, Series_Allocation_Unpooled s with
    | none, _ => .fault .undefined m1
    | some _, none => .fault .diverges m1
    | some data, some unpooled =>
      if u32 (s.wide * SER_BIAS s) > data then .fault .undefined m1
      else
        match Free_Unbiased_Series_Data m1 (data - u32 (s.wide * SER_BIAS s)) unpooled with
        | .fault f m2 => .fault f m2
        | .ok _ m2 => .ok () (m2.add_ballast size)
  else .ok () m1

/-- The end of GC_Kill_Series: the node goes back to the series pool, and the recycle
signal is dropped if there is ballast again. -/
def GC_Kill_Series_node (m2 : Memory) (s : REBSER) : Result Unit :=
  match Free_Node m2 SER_POOL s.node with
  | .fault f m3 => .fault f m3
  | .ok _ m3 =>
    -- GC may no longer be necessary
    .ok () (if m3.GC_Ballast > 0 then { m3 with SIG_RECYCLE := false } else m3)

/-- GC_Kill_Series (m-pools.c:1445). What GC_Kill_Interning does to the spellings of a
UTF-8 string lies outside the model: it is taken to leave the state of the memory manager
alone. -/
def GC_Kill_Series (m : Memory) (s : REBSER) : Result Unit :=
  let c := m.cfg
  if ¬ c.NDEBUG ∧ (IS_FREE_NODE m s.node ∨ (m.nodes s.node).header &&& NODE_FLAG_CELL ≠ 0) then
    .fault .undefined m
  else
    -- remove series from expansion list, if found
    let m1 := { m with Prior_Expand := ((List.zip (List.range m.Prior_Expand.length)
      m.Prior_Expand).map
        (fun np => if 1 ≤ np.1 ∧ np.1 < MAX_EXPAND_LIST ∧ np.2 = s.node then 0 else np.2)) }
    match GC_Kill_Series_data m1 s with
    | .fault f m2 => .fault f m2
    | .ok _ m2 => GC_Kill_Series_node m2 s

/-- Free_Series (m-pools.c:1566). -/
def Free_Series (m : Memory) (s : REBSER) : Result Unit :=
  if ¬ m.cfg.NDEBUG ∧ (IS_FREE_NODE m s.node ∨ s.managed) then .fault .panic m
  else
    match Drop_Manual_Series m s.node with
    | .fault f m1 => .fault f m1
    | .ok _ m1 => GC_Kill_Series m1 s

/-- The first of the two series of 100 bytes made in the state `demo_manuals`; it is held
in the node 4112. -/
def demo_first_series : REBSER :=
  match Make_Series demo_manuals 100 1 MKS_NONE with
  | .ok s _ => s
  | .fault _ _ => blank_series

/-- The state `demo_manuals` after two series of 100 bytes have been made in it: the
manuals list holds their two nodes. -/
def demo_two_manuals : Memory :=
  (Make_Series (Make_Series demo_manuals 100 1 MKS_NONE).mem 100 1 MKS_NONE).mem

/-! ## Frames: cells and thrown values (`sys-frame.h`) -/

/-- Modelled from the spec: a cell as the frame code sees it. Of its header the kind, the
END flag, the flag `VALUE_FLAG_THROWN` and, for a blank of a debug build, the mark
`BLANK_FLAG_UNREADABLE_DEBUG`; `payload` stands for the payload and the extra word. -/
structure RELVAL where
  kind : Reb_Kind
  is_end : Bool
  thrown : Bool
  unreadable : Bool
  payload : Int
deriving DecidableEq, Repr

/-- The cells of the evaluator by address; `TG_Thrown_Arg` is the address of the global
cell of this name, the stash of the argument of a throw. -/
structure Cells where
  val : Nat → RELVAL
  TG_Thrown_Arg : Nat

/-- The C assignment `*addr = v`. -/
def Cells.set (cs : Cells) (addr : Nat) (v : RELVAL) : Cells :=
  { cs with val := fun a => if a = addr then v else cs.val a }

/-- The macro `THROWN(v)` (sys-frame.h:79). -/
def THROWN (v : RELVAL) : Bool := v.thrown

/-- Modelled from the spec: `IS_UNREADABLE_IF_DEBUG(v)`, whether a cell is a blank with the
unreadable mark; a release build has no such mark and answers `FALSE`. -/
def IS_UNREADABLE_IF_DEBUG (c : Config) (v : RELVAL) : Bool :=
  if c.NDEBUG then false else v.kind == .REB_BLANK && v.unreadable

/-- Modelled from the spec: `SET_UNREADABLE_BLANK(v)` resets the header of the cell to a
blank, with the unreadable mark in a debug build. -/
def SET_UNREADABLE_BLANK (c : Config) (v : RELVAL) : RELVAL :=
  { v with kind := .REB_BLANK, is_end := false, thrown := false, unreadable := !c.NDEBUG }

/-- CONVERT_NAME_TO_THROWN (sys-frame.h:82), on the cells at the addresses `name` and
`arg`. -/
def CONVERT_NAME_TO_THROWN (c : Config) (cs : Cells) (name arg : Nat) : Except Fault Cells :=
  if ¬ c.NDEBUG ∧ THROWN (cs.val name) then .error .undefined
  else
    let cs1 := cs.set name { cs.val name with thrown := true }
    if ¬ c.NDEBUG ∧ ¬ IS_UNREADABLE_IF_DEBUG c (cs1.val cs1.TG_Thrown_Arg) then
      .error .undefined
    else .ok (cs1.set cs1.TG_Thrown_Arg (cs1.val arg))

/-- CATCH_THROWN (sys-frame.h:92), on the cells at the addresses `arg_out` and `thrown`,
which may be the same. -/
def CATCH_THROWN (c : Config) (cs : Cells) (arg_out thrown : Nat) : Except Fault Cells :=
  if ¬ c.NDEBUG ∧ ((cs.val thrown).is_end ∨ ¬ THROWN (cs.val thrown)) then .error .undefined
  else
    let cs1 := cs.set thrown { cs.val thrown with thrown := false }
    if ¬ c.NDEBUG ∧ IS_UNREADABLE_IF_DEBUG c (cs1.val cs1.TG_Thrown_Arg) then .error .undefined
    else
      let cs2 := cs1.set arg_out (cs1.val cs1.TG_Thrown_Arg)
      .ok (cs2.set cs2.TG_Thrown_Arg (SET_UNREADABLE_BLANK c (cs2.val cs2.TG_Thrown_Arg)))

/-- The cells of `catch [throw 42]` at the time of the throw, in a debug build: the name
of the throw, a blank, at address 1, the integer 42 at address 2, the output cell of the
catch, still an END, at address 3, and the stash, unreadable, at address 0. -/
def demo_throw : Cells :=
  { val := fun a =>
      if a = 2 then ⟨.REB_INTEGER, false, false, false, 42⟩
      else if a = 3 then ⟨.REB_TRASH, true, false, false, 0⟩
      else if a = 0 then ⟨.REB_BLANK, false, false, true, 0⟩
      else ⟨.REB_BLANK, false, false, false, 0⟩,
    TG_Thrown_Arg := 0 }

/-! ## Frames: argument storage (`sys-frame.h`) -/

/-- A pointer of the frame code to a frame or to an array: `NULL`, the address of the
object, or the trash that `TRASH_POINTER_IF_DEBUG` leaves. -/
inductive Ptr where
  | NULL
  | to (addr : Nat)
  | trash
deriving DecidableEq, Repr

/-- Where a pointer to the cells of the arguments of a frame points: at the shared
`END_CELL`, at the cell `f->cell` of the frame itself, at the values of the chunk `id` of
the chunk stack, at the cell `i` of the array of the node `node`, or nowhere (trash). -/
inductive Cell_Ptr where
  | END_CELL
  | frame_cell
  | chunk (id : Nat)
  | array (node : Nat) (i : Nat)
  | trash
deriving DecidableEq, Repr

/-- An array as the frame code sees it: the series of the pool layer and, modelled from
the spec, the bits of its node that the pool layer does not read: the flags
`ARRAY_FLAG_VARLIST` and `CONTEXT_FLAG_STACK`, the info bits `SERIES_INFO_INACCESSIBLE`
and `SERIES_INFO_RUNNING`, and the link `misc.f` to a frame. -/
structure REBARR where
  ser : REBSER
  ARRAY_FLAG_VARLIST : Bool
  CONTEXT_FLAG_STACK : Bool
  SERIES_INFO_INACCESSIBLE : Bool
  SERIES_INFO_RUNNING : Bool
  misc_f : Ptr

/-- Modelled from the spec: what the frame code reads of a function `REBFUN`: the number of
its parameters `FUNC_NUM_PARAMS`, `IS_FUNC_DURABLE`, whether its dispatcher is the one of a
specialization, a chain or an adaptation, the link `misc.underlying` of its paramlist and,
for a specialization, the node of the varlist of its exemplar frame. -/
structure REBFUN where
  num_params : Nat
  durable : Bool
  specializer : Bool
  chainer : Bool
  adapter : Bool
  underlying : Nat
  exemplar : Nat
deriving DecidableEq, Repr

/-- Modelled from the spec: a function value, the cell `f->gotten`: whether it is a
FUNCTION!, its function `VAL_FUNC` and its binding `VAL_BINDING`. -/
structure Func_Value where
  is_function : Bool
  func : Nat
  binding : Nat
deriving DecidableEq, Repr

/-- The state the frame code works on: the memory manager, the functions and the arrays by
address, and, modelled from the spec, the chunk stack as the lengths of its chunks, the
top chunk last. -/
structure Heap where
  mem : Memory
  funcs : Nat → REBFUN
  arrays : Nat → Option REBARR
  chunks : List Nat

/-- The fields of a frame `REBFRM` that the argument storage is about; `id` is the address
of the frame. -/
structure REBFRM where
  id : Nat
  gotten : Func_Value
  underlying : Nat
  func : Nat
  binding : Nat
  varlist : Ptr
  args_head : Cell_Ptr
  special : Cell_Ptr
  cell : RELVAL
  flags_bits : Nat

/-- Modelled from the spec: the bit `DO_FLAG_NATIVE_HOLD` of `f->flags.bits`. -/
def DO_FLAG_NATIVE_HOLD : Nat := 1024

/-- The C expression `bits & ~flag`. -/
def clear_bits (bits flag : Nat) : Nat := bits ^^^ (bits &&& flag)

/-- The C assignment `arrays[a.ser.node] = a`. -/
def Heap.set_array (hp : Heap) (a : REBARR) : Heap :=
  { hp with arrays := fun n => if n = a.ser.node then some a else hp.arrays n }

/-- Enter_Native (sys-frame.h:406). -/
def Enter_Native (hp : Heap) (f : REBFRM) : REBFRM × Heap :=
  let f1 := { f with flags_bits := f.flags_bits ||| DO_FLAG_NATIVE_HOLD }
  match f.varlist with
  | .to n =>
    match hp.arrays n with
    | some a => (f1, hp.set_array { a with SERIES_INFO_RUNNING := true })
    | none => (f1, hp)
  | _ => (f1, hp)

/-- Underlying_Function (sys-frame.h:432): the specializer, or `NULL`, and the underlying
function. The comparison with Underlying_Function_Debug of a debug build is outside of
the model. -/
def Underlying_Function (c : Config) (funcs : Nat → REBFUN) (value : Func_Value) :
    Except Fault (Ptr × Nat) :=
  let found : Ptr × Nat :=
    if (funcs value.func).specializer then (.to value.func, (funcs value.func).underlying)
    else
      let underlying := (funcs value.func).underlying
      if ¬ (funcs underlying).specializer then (.NULL, underlying)
      else (.to underlying, (funcs underlying).underlying)
  let underlying := found.2
  if ¬ c.NDEBUG ∧ ¬ (underlying = (funcs underlying).underlying ∧
      (funcs underlying).specializer = false ∧ (funcs underlying).chainer = false ∧
      (funcs underlying).adapter = false) then .error .undefined
  else .ok found

/-- Modelled from the spec: `Make_Array(capacity)`, an empty array with room for
`capacity` cells and the terminator. -/
def Make_Array (m : Memory) (capacity : Nat) : Result REBSER :=
  match Make_Series m (u32 (capacity + 1)) m.cfg.sizeof_REBVAL MKS_ARRAY with
  | .fault f m1 => .fault f m1
  | .ok s m1 =>
    match TERM_ARRAY_LEN m.cfg s 0 with
    | none => .fault .undefined m1
    | some s1 => .ok s1 m1

/-- Modelled from the spec: `SET_TRASH_IF_DEBUG(ARR_AT(a, i))`, a debug build writes the
header of a trash cell, which is not an END. -/
def SET_TRASH_IF_DEBUG_AT (c : Config) (s : REBSER) (i : Nat) : Option REBSER :=
  if c.NDEBUG then some s
  else
    match SER_DATA_RAW c s with
    | none => none
    | some data =>
      s.write (data + i * c.sizeof_REBVAL) (header_bytes c (NODE_FLAG_VALID ||| NODE_FLAG_CELL))

/-- Modelled from the spec: `Push_Value_Chunk_Of_Length(n)` pushes a chunk of `n` cells on
the chunk stack and returns its values. -/
def Push_Value_Chunk_Of_Length (hp : Heap) (n : Nat) : Cell_Ptr × Heap :=
  (.chunk hp.chunks.length, { hp with chunks := hp.chunks ++ [n] })

/-- Modelled from the spec: `CHUNK_LEN_FROM_VALUES(head)`, the number of cells of the chunk
whose values are at `head`. -/
def CHUNK_LEN_FROM_VALUES (hp : Heap) (head : Cell_Ptr) : Option Nat :=
  match head with
  | .chunk id => hp.chunks[id]?
  | _ => none

/-- Modelled from the spec: `Drop_Chunk_Of_Values(head)` pops the top chunk, which a debug
build checks to be the one of `head`. -/
def Drop_Chunk_Of_Values (hp : Heap) (head : Cell_Ptr) : Except Fault Heap :=
  if ¬ hp.mem.cfg.NDEBUG ∧ ¬ (hp.chunks ≠ [] ∧ head = .chunk (hp.chunks.length - 1)) then
    .error .undefined
  else .ok { hp with chunks := hp.chunks.dropLast }

/-- The varlist of a durable function in Push_Or_Alloc_Args_For_Underlying_Func
(sys-frame.h:552 to 565): an array of `num_args + 1` cells of fixed size, whose slot 0 is
trash and whose link `misc.f` is trash in a debug build (in a release build it is what
the node held). -/
def Alloc_Durable_Varlist (m : Memory) (num_args : Nat) : Result REBARR :=
  let c := m.cfg
  match Make_Array m (u32 (num_args + 1)) with
  | .fault e m1 => .fault e m1
  | .ok s m1 =>
    match TERM_ARRAY_LEN c s (u32 (num_args + 1)) with
    | none => .fault .undefined m1
    | some s1 =>
      match SET_TRASH_IF_DEBUG_AT c { s1 with fixed_size := true } 0 with
      | none => .fault .undefined m1
      | some s2 =>
        .ok { ser := s2, ARRAY_FLAG_VARLIST := false, CONTEXT_FLAG_STACK := false,
              SERIES_INFO_INACCESSIBLE := false, SERIES_INFO_RUNNING := false,
              misc_f := if c.NDEBUG then .to (m1.junk (s2.node + 3)) else .trash } m1

/-- The choice of the storage in Push_Or_Alloc_Args_For_Underlying_Func (sys-frame.h:544
to 607), for the frame `f0` whose underlying function takes `num_args` parameters. -/
def Push_Or_Alloc_Args_store (hp : Heap) (f0 : REBFRM) (num_args : Nat) (durable : Bool) :
    Except Fault (REBFRM × Heap) :=
  let c := hp.mem.cfg
  if durable then
    match Alloc_Durable_Varlist hp.mem num_args with
    | .fault e _ => .error e
    | .ok a m1 =>
      .ok ({ f0 with varlist := .to a.ser.node, args_head := .array a.ser.node 1 },
        { hp with mem := m1 }.set_array a)
  else if num_args = 0 then
    .ok ({ f0 with args_head := .END_CELL, varlist := .NULL }, hp)
  else if num_args = 1 then
    .ok ({ f0 with args_head := .frame_cell, varlist := .NULL }, hp)
  else
    let pushed := Push_Value_Chunk_Of_Length hp num_args
    if ¬ c.NDEBUG ∧ CHUNK_LEN_FROM_VALUES pushed.2 pushed.1 ≠ some num_args then
      .error .undefined
    else .ok ({ f0 with varlist := .NULL, args_head := pushed.1 }, pushed.2)

/-- Push_Or_Alloc_Args_For_Underlying_Func (sys-frame.h:524). -/
def Push_Or_Alloc_Args_For_Underlying_Func (hp : Heap) (f : REBFRM) :
    Except Fault (REBFRM × Heap) :=
  let c := hp.mem.cfg
  if ¬ c.NDEBUG ∧ ¬ f.gotten.is_function then .error .undefined
  else
    match Underlying_Function c hp.funcs f.gotten with
    | .error e => .error e
    | .ok (specializer, underlying) =>
      match Push_Or_Alloc_Args_store hp { f with underlying := underlying }
          (hp.funcs underlying).num_params (hp.funcs underlying).durable with
      | .error e => .error e
      | .ok (f1, hp1) =>
        .ok ({ f1 with
                special :=
                  match specializer with
                  | .to sp => .array (hp.funcs sp).exemplar 1
                  | _ => .END_CELL,
                func := f.gotten.func,
                binding := f.gotten.binding,
                cell := { f1.cell with is_end := true } }, hp1)

/-- Modelled from the spec: `Free_Array(a)` frees the series of the array. -/
def Free_Array (hp : Heap) (a : REBARR) : Except Fault Heap :=
  match Free_Series hp.mem a.ser with
  | .fault e _ => .error e
  | .ok _ m1 =>
    .ok { hp with mem := m1, arrays := fun n => if n = a.ser.node then none else hp.arrays n }

/-- The part of Drop_Function_Args_For_Frame_Core (sys-frame.h:672 to 715) that deals with
the varlist `a` of the frame `f`. -/
def Drop_Function_Args_varlist (hp : Heap) (f : REBFRM) (a : REBARR) : Except Fault Heap :=
  let c := hp.mem.cfg
  if ¬ c.NDEBUG ∧ ¬ a.ser.is_array then .error .undefined
  else if ¬ a.ser.managed then
    if ¬ c.NDEBUG ∧ a.misc_f ≠ .trash then .error .undefined
    else Free_Array hp a
  else if ¬ c.NDEBUG ∧ a.misc_f ≠ .to f.id then .error .undefined
  else
    let a1 := { a with misc_f := .NULL }
    if ¬ a1.CONTEXT_FLAG_STACK then
      if ¬ c.NDEBUG ∧ ¬ a1.ser.has_dynamic then .error .undefined
      else .ok (hp.set_array a1)
    else if ¬ c.NDEBUG ∧ ¬ (a1.ARRAY_FLAG_VARLIST ∧ ¬ a1.ser.has_dynamic ∧
        ¬ a1.SERIES_INFO_INACCESSIBLE) then .error .undefined
    else .ok (hp.set_array { a1 with SERIES_INFO_INACCESSIBLE := true })

/-- The label `finished:` of Drop_Function_Args_For_Frame_Core: a debug build trashes the
pointers of the frame. -/
def Drop_Function_Args_finished (c : Config) (f : REBFRM) : REBFRM :=
  if c.NDEBUG then f else { f with args_head := .trash, varlist := .trash }

/-- Drop_Function_Args_For_Frame_Core (sys-frame.h:638). -/
def Drop_Function_Args_For_Frame_Core (hp : Heap) (f : REBFRM) (drop_chunks : Bool) :
    Except Fault (REBFRM × Heap) :=
  let c := hp.mem.cfg
  let f1 := { f with flags_bits := clear_bits f.flags_bits DO_FLAG_NATIVE_HOLD }
  let drop (hp : Heap) : Except Fault Heap :=
    if f1.args_head ≠ .END_CELL ∧ f1.args_head ≠ .frame_cell then
      Drop_Chunk_Of_Values hp f1.args_head
    else .ok hp
  match f1.varlist with
  | .NULL =>
    if drop_chunks then
      match drop hp with
      | .error e => .error e
      | .ok hp1 => .ok (Drop_Function_Args_finished c f1, hp1)
    else .ok (Drop_Function_Args_finished c f1, hp)
  | .trash => .error .undefined
  | .to n =>
    match hp.arrays n with
    | none => .error .undefined
    | some a =>
      match (if drop_chunks ∧ SER_LEN a.ser = 1 then drop hp else .ok hp) with
      | .error e => .error e
      | .ok hp1 =>
        match Drop_Function_Args_varlist hp1 f1 a with
        | .error e => .error e
        | .ok hp2 => .ok (Drop_Function_Args_finished c f1, hp2)

/-- The functions of the demo state `demo_heap`: 1 takes no parameter, 2 takes one, 3
takes three, 4 is durable and takes two, and 5 is a specialization of 3 that leaves one
parameter, with its exemplar frame in the array of the node 4500. -/
def demo_funcs (n : Nat) : REBFUN :=
  if n = 2 then ⟨1, false, false, false, false, 2, 0⟩
  else if n = 3 then ⟨3, false, false, false, false, 3, 0⟩
  else if n = 4 then ⟨2, true, false, false, false, 4, 0⟩
  else if n = 5 then ⟨1, false, true, false, false, 3, 4500⟩
  else ⟨0, false, false, false, false, n, 0⟩

/-- A state of the frame code over the memory `demo_manuals`: the functions `demo_funcs`,
no array, and one chunk of 4 cells on the chunk stack. -/
def demo_heap : Heap :=
  { mem := demo_manuals, funcs := demo_funcs, arrays := fun _ => none, chunks := [4] }

/-- A frame at the address 900 that is about to call the function `func`: nothing of its
argument storage is set yet, and its cell holds a blank. -/
def demo_frame (func : Nat) : REBFRM :=
  { id := 900, gotten := ⟨true, func, 0⟩, underlying := 0, func := 0, binding := 0,
    varlist := .trash, args_head := .trash, special := .trash,
    cell := ⟨.REB_BLANK, false, false, false, 0⟩, flags_bits := 0 }

/-- The varlist of a durable function after the frame 900 has been reified: an array of
three cells in memory of its own, managed, marked as a varlist and linked to the frame.
It does not carry `CONTEXT_FLAG_STACK`. -/
def demo_durable_varlist : REBARR :=
  { ser := { node := 4112, valid := true, managed := true, is_array := true,
             fixed_size := true, wide := 32, has_dynamic := true, power_of_2 := false,
             info_len := 0, info_end := true, data := some 8192, len := 3, rest := 4,
             bias := 0, base := 8192, mem := List.replicate 128 0 },
    ARRAY_FLAG_VARLIST := true, CONTEXT_FLAG_STACK := false,
    SERIES_INFO_INACCESSIBLE := false, SERIES_INFO_RUNNING := false, misc_f := .to 900 }

/-- The stub that stands for the variables of the frame 900 after it has been reified while
its arguments are in the chunk 0 of the chunk stack: a managed array of length 1 without
memory of its own, with `CONTEXT_FLAG_STACK`. -/
def demo_stack_varlist : REBARR :=
  { ser := { node := 4176, valid := true, managed := true, is_array := true,
             fixed_size := false, wide := 32, has_dynamic := false, power_of_2 := false,
             info_len := 1, info_end := true, data := none, len := 0, rest := 0,
             bias := 0, base := 4184, mem := List.replicate 32 0 },
    ARRAY_FLAG_VARLIST := true, CONTEXT_FLAG_STACK := true,
    SERIES_INFO_INACCESSIBLE := false, SERIES_INFO_RUNNING := false, misc_f := .to 900 }

/-- A debug build in which the two arrays `demo_durable_varlist` and `demo_stack_varlist`
exist, with one chunk of 3 cells on the chunk stack. -/
def demo_reified_heap : Heap :=
  { mem := debug_tables, funcs := demo_funcs,
    arrays := fun n =>
      if n = 4112 then some demo_durable_varlist
      else if n = 4176 then some demo_stack_varlist
      else none,
    chunks := [3] }

/-- The frame 900 while a native of the durable function 4 runs, its varlist reified. -/
def demo_durable_frame : REBFRM :=
  { id := 900, gotten := ⟨true, 4, 0⟩, underlying := 4, func := 4, binding := 0,
    varlist := .to 4112, args_head := .array 4112 1, special := .END_CELL,
    cell := ⟨.REB_BLANK, true, false, false, 0⟩, flags_bits := DO_FLAG_NATIVE_HOLD }

/-- The frame 900 while a native of the function 3 runs, its arguments in the chunk 0 and
its varlist reified as a stub. -/
def demo_stack_frame : REBFRM :=
  { id := 900, gotten := ⟨true, 3, 0⟩, underlying := 3, func := 3, binding := 0,
    varlist := .to 4176, args_head := .chunk 0, special := .END_CELL,
    cell := ⟨.REB_BLANK, true, false, false, 0⟩, flags_bits := DO_FLAG_NATIVE_HOLD }

/-! ## FFI: marshalling of integers (`t-routine.c`) -/

/-- The integer schemas of the FFI: the symbol of the WORD! that names the C type. -/
inductive FFI_Sym where
  | SYM_UINT8
  | SYM_INT8
  | SYM_UINT16
  | SYM_INT16
  | SYM_UINT32
  | SYM_INT32
  | SYM_UINT64
  | SYM_INT64
deriving DecidableEq, Repr

/-- The C expression `sizeof(T)` of the C type of an integer schema. -/
def FFI_Sym.size : FFI_Sym → Nat
  | .SYM_UINT8 | .SYM_INT8 => 1
  | .SYM_UINT16 | .SYM_INT16 => 2
  | .SYM_UINT32 | .SYM_INT32 => 4
  | .SYM_UINT64 | .SYM_INT64 => 8

/-- Whether the C type of an integer schema is signed. -/
def FFI_Sym.signed : FFI_Sym → Bool
  | .SYM_INT8 | .SYM_INT16 | .SYM_INT32 | .SYM_INT64 => true
  | _ => false

/-- The values the C type of an integer schema can hold. -/
def FFI_Sym.holds (sym : FFI_Sym) (v : Int) : Prop :=
  if sym.signed then -(2 ^ (8 * sym.size - 1) : Int) ≤ v ∧ v < 2 ^ (8 * sym.size - 1)
  else 0 ≤ v ∧ v < 2 ^ (8 * sym.size)

instance (sym : FFI_Sym) (v : Int) : Decidable (sym.holds v) := by
  unfold FFI_Sym.holds; exact inferInstance

/-- The conversion of an integer to the signed C type of `n` bytes, `cast(iN, v)`, wrapping
as the compilers in use do. -/
def cast_signed (n : Nat) (v : Int) : Int :=
  (v + 2 ^ (8 * n - 1)) % 2 ^ (8 * n) - 2 ^ (8 * n - 1)

/-- The conversion of an integer to the unsigned C type of `n` bytes, `cast(uN, v)`. -/
def cast_unsigned (n : Nat) (v : Int) : Int := v % 2 ^ (8 * n)

/-- The `n` bytes that hold the integer `v` in memory (two's complement), in the byte order
of the machine. -/
def int_bytes (big_endian : Bool) (n : Nat) (v : Int) : List Nat :=
  let le := (List.range n).map (fun i => (v / 256 ^ i % 256).toNat)
  if big_endian then le.reverse else le

/-- The unsigned integer that `bytes` hold, in the byte order of the machine. -/
def bytes_unsigned (big_endian : Bool) (bytes : List Nat) : Int :=
  ((if big_endian then bytes.reverse else bytes).foldr (fun b acc => b + 256 * acc) 0 : Nat)

/-- The value of `*cast(T*, p)` for the C type `T` of the schema `sym`, `bytes` being the
`sizeof(T)` bytes at `p`. -/
def FFI_Sym.load (sym : FFI_Sym) (big_endian : Bool) (bytes : List Nat) : Int :=
  if sym.signed then cast_signed sym.size (bytes_unsigned big_endian bytes)
  else bytes_unsigned big_endian bytes

/-- Modelled from the spec: `VAL_INT64(v)`, the payload of an INTEGER! cell, a `REBI64`. -/
def VAL_INT64 (v : RELVAL) : Int := cast_signed 8 v.payload

/-- Modelled from the spec: `SET_INTEGER(out, n)` resets the header of the cell to an
INTEGER! and stores `n` as a `REBI64`. -/
def SET_INTEGER (out : RELVAL) (n : Int) : RELVAL :=
  { out with kind := .REB_INTEGER, is_end := false, thrown := false, unreadable := false,
             payload := cast_signed 8 n }

/-- Modelled from the spec: `EXPAND_SERIES_TAIL(s, delta)` is
`Expand_Series(s, SER_LEN(s), delta)`. -/
def EXPAND_SERIES_TAIL (m : Memory) (s : REBSER) (delta : Nat) : Result REBSER :=
  Expand_Series m s (SER_LEN s) delta

/-- A series held in its node: it is not dynamic, its memory is the `content` union of the
node, of at most 255 bytes, and its length leaves room for a terminator. -/
structure Inline_OK (c : Config) (s : REBSER) : Prop where
  not_dynamic : s.has_dynamic = false
  base : s.base = content_addr c s.node
  size : s.mem.length = sizeof_content c
  small : sizeof_content c ≤ 255
  room : s.info_len < sizeof_content c

/-- A store of arguments that is well formed: a series of bytes, not an array, which is
dynamic with its block or is held in its node. -/
def Store_OK (c : Config) (s : REBSER) : Prop :=
  s.wide = 1 ∧ s.is_array = false ∧ (Series_OK s ∨ Inline_OK c s)

/-- How arg_to_ffi fails. -/
inductive FFI_Error where
  /-- The C statement `fail (Error_Arg_Type(D_LABEL_SYM, param, VAL_TYPE(arg)))`. -/
  | arg_type (kind : Reb_Kind)
  /-- A failure or fault of EXPAND_SERIES_TAIL, when the store is grown. -/
  | expand (f : Fault)
  /-- A violated `assert`, or a write outside of the destination. -/
  | undefined
deriving DecidableEq, Repr

/-- Where arg_to_ffi writes: at the tail of the series `store`, or at the pointer `dest`,
which is modelled as the bytes `mem` of the object pointed into and an offset into them. -/
inductive FFI_Target where
  | store (s : REBSER)
  | dest (mem : List Nat) (at_ : Nat)
deriving DecidableEq, Repr

/-- Expand_And_Align_Core (t-routine.c:321). `align` and `size` are values of type `REBCNT`,
and so are `padding` and the sums `SER_LEN(store) + padding` and `padding + size`, which
wrap at `2^32`. A remainder by `align = 0` is undefined. The result is `*offset_out` and the
series `store` after `EXPAND_SERIES_TAIL`; the pointer returned is
`SER_DATA_RAW(store) + *offset_out` in this series. -/
def Expand_And_Align_Core (m : Memory) (align : Nat) (store : REBSER) (size : Nat) :
    Result (Nat × REBSER) :=
  if align = 0 then .fault .undefined m
  else
    let padding := SER_LEN store % align
    let padding := if padding ≠ 0 then align - padding else padding
    let offset_out := u32 (SER_LEN store + padding)
    match EXPAND_SERIES_TAIL m store (u32 (padding + size)) with
    | .fault f m1 => .fault f m1
    | .ok store1 m1 => .ok (offset_out, store1) m1

/-- Expand_And_Align (t-routine.c:336). -/
def Expand_And_Align (m : Memory) (store : REBSER) (size : Nat) : Result (Nat × REBSER) :=
  Expand_And_Align_Core m size store size

/-- The C call `memcpy(mem + dest, bytes, bytes.length)`. -/
def memcpy_at (mem : List Nat) (dest : Nat) (bytes : List Nat) : Option (List Nat) :=
  if dest + bytes.length ≤ mem.length then
    some (mem.take dest ++ bytes ++ mem.drop (dest + bytes.length))
  else none

/-- The object of type `T` that arg_to_ffi copies for the schema `sym`: `cast(T,
VAL_INT64(arg))`, and the `REBI64` itself for the two types of 64 bits. -/
def FFI_Sym.converted (sym : FFI_Sym) (arg : RELVAL) : Int :=
  match sym with
  | .SYM_UINT64 | .SYM_INT64 => VAL_INT64 arg
  | _ => if sym.signed then cast_signed sym.size (VAL_INT64 arg)
         else cast_unsigned sym.size (VAL_INT64 arg)

/-- The cases of arg_to_ffi (t-routine.c:350) for the integer schemas; `arg` is `NULL` for a
return value. With a store, `dest` is what Expand_And_Align returns: the address
`SER_DATA_RAW(store) + offset` in the store as it is after the expansion. The result is the
offset returned (not initialized if `dest` is given), the store or the bytes of the
destination after the `memcpy`, and the state. -/
def arg_to_ffi (big_endian : Bool) (m : Memory) (target : FFI_Target) (arg : Option RELVAL)
    (schema : FFI_Sym) : Except FFI_Error (Option Nat × FFI_Target × Memory) :=
  match target with
  | .store store =>
    match Expand_And_Align m store schema.size with
    | .fault f _ => .error (.expand f)
    | .ok (offset, store1) m1 =>
      match arg with
      | none => .ok (some offset, .store store1, m1)
      | some arg =>
        if arg.kind ≠ .REB_INTEGER then .error (.arg_type arg.kind)
        else
          match SER_DATA_RAW m.cfg store1 with
          | none => .error .undefined
          | some data =>
            match store1.write (data + offset)
                (int_bytes big_endian schema.size (schema.converted arg)) with
            | none => .error .undefined
            | some store2 => .ok (some offset, .store store2, m1)
  | .dest mem p =>
    match arg with
    | none => .ok (none, .dest mem p, m)
    | some arg =>
      if arg.kind ≠ .REB_INTEGER then .error (.arg_type arg.kind)
      else
        match memcpy_at mem p (int_bytes big_endian schema.size (schema.converted arg)) with
        | none => .error .undefined
        | some mem1 => .ok (none, .dest mem1 p, m)

/-- The cases of ffi_to_rebol (t-routine.c:657) for the integer schemas, `ffi_rvalue`
pointing at the offset `p` of `mem`; `none` is a read outside of the memory. -/
def ffi_to_rebol (big_endian : Bool) (out : RELVAL) (schema : FFI_Sym) (mem : List Nat)
    (p : Nat) : Option RELVAL :=
  if p + schema.size ≤ mem.length then
    some (SET_INTEGER out (schema.load big_endian ((mem.drop p).take schema.size)))
  else none

/-- An INTEGER! cell of the value `v`. -/
def integer_cell (v : Int) : RELVAL := ⟨.REB_INTEGER, false, false, false, v⟩

/-- A store that holds 5 bytes of arguments and has a capacity of 16 bytes: a dynamic
series of bytes, not an array, in a block of 16 bytes at the address 8192. -/
def demo_store : REBSER :=
  { node := 4112, valid := true, managed := false, is_array := false, fixed_size := false,
    wide := 1, has_dynamic := true, power_of_2 := false, info_len := 0, info_end := true,
    data := some 8192, len := 5, rest := 16, bias := 0, base := 8192,
    mem := [1, 2, 3, 4, 5] ++ List.replicate 11 170 }

/-- The store Routine_Dispatcher starts with (t-routine.c:807), made in the state
`demo_manuals`: the series `Make_Series(1, sizeof(REBYTE), MKS_NONE)` and the state after
the call. The series is held in its node. -/
def demo_routine_store : REBSER × Memory :=
  match Make_Series demo_manuals 1 1 MKS_NONE with
  | .ok s m => (s, m)
  | .fault _ m => (blank_series, m)

/-! ## Host API: the tables of RL_Init (`a-lib.c`) -/

/-- The datatypes that RL_Init (a-lib.c:107) names: each `X` stands for the constant
`REB_X` of `enum Reb_Kind` and for the constant `RXT_X` of the host API. -/
inductive Exported where
  | WORD | SET_WORD | GET_WORD | LIT_WORD | REFINEMENT | ISSUE | PATH | SET_PATH
  | GET_PATH | LIT_PATH | GROUP | BLOCK | BINARY | STRING | FILE | EMAIL | URL | BITSET
  | IMAGE | VECTOR | BLANK | LOGIC | INTEGER | DECIMAL | PERCENT | CHAR | PAIR | TUPLE
  | TIME | DATE | OBJECT | MODULE | GOB | HANDLE
deriving DecidableEq, Repr

/-- Modelled from the spec: the values of the constants that RL_Init names; the headers
that define `enum Reb_Kind` and the `RXT_` constants are not among the sources. `REB x`
is the value of `REB_x`, `RXT x` the value of `RXT_x`. -/
structure Lib_Enums where
  REB_MAX : Nat
  REB : Exported → Nat
  RXT : Exported → Nat

/-- The C assignment `table[i] = v`. -/
def table_set (table : Nat → Nat) (i v : Nat) : Nat → Nat :=
  fun j => if j = i then v else table j

/-- The assignments `Reb_To_RXT[REB_X] = RXT_Y;` of RL_Init (a-lib.c:123 to 166), in the
order of the source. -/
def RL_Init_exports : List (Exported × Exported) :=
  [(.WORD, .WORD), (.SET_WORD, .SET_WORD), (.GET_WORD, .GET_WORD), (.LIT_WORD, .GET_WORD),
   (.REFINEMENT, .REFINEMENT), (.ISSUE, .ISSUE), (.PATH, .PATH), (.SET_PATH, .SET_PATH),
   (.GET_PATH, .GET_PATH), (.LIT_PATH, .LIT_PATH), (.GROUP, .GROUP), (.BLOCK, .BLOCK),
   (.BINARY, .BINARY), (.STRING, .STRING), (.FILE, .FILE), (.EMAIL, .EMAIL), (.URL, .URL),
   (.BITSET, .BITSET), (.IMAGE, .IMAGE), (.VECTOR, .VECTOR), (.BLANK, .BLANK),
   (.LOGIC, .LOGIC), (.INTEGER, .INTEGER), (.DECIMAL, .DECIMAL), (.PERCENT, .PERCENT),
   (.CHAR, .CHAR), (.PAIR, .PAIR), (.TUPLE, .TUPLE), (.TIME, .TIME), (.DATE, .DATE),
   (.OBJECT, .OBJECT), (.MODULE, .MODULE), (.GOB, .GOB), (.HANDLE, .HANDLE)]

/-- The table `Reb_To_RXT` after RL_Init: every entry is zeroed, then the exported kinds are
assigned. -/
def RL_Init_Reb_To_RXT (e : Lib_Enums) : Nat → Nat :=
  RL_Init_exports.foldl (fun table kv => table_set table (e.REB kv.1) (e.RXT kv.2))
    (fun _ => 0)

/-- The table `RXT_To_Reb` after the loop `for (n = 0; n < REB_MAX; ++n)
RXT_To_Reb[Reb_To_RXT[n]] = n;` of RL_Init, `old` being what the static array held. -/
def RL_Init_RXT_To_Reb (e : Lib_Enums) (old : Nat → Nat) : Nat → Nat :=
  (List.range e.REB_MAX).foldl (fun table n => table_set table (RL_Init_Reb_To_RXT e n) n) old

/-- RL_Val_Type (a-lib.c:1196), for a value of the kind `kind`, or void. -/
def RL_Val_Type (e : Lib_Enums) (kind : Option Nat) : Nat :=
  match kind with
  | none => 0
  | some k => RL_Init_Reb_To_RXT e k

/-- RL_Val_Reset (a-lib.c:1206): the kind the header of the value is reset to, or void. -/
def RL_Val_Reset (e : Lib_Enums) (old : Nat → Nat) (rxt : Nat) : Option Nat :=
  if rxt = 0 then none else some (RL_Init_RXT_To_Reb e old rxt)

/-- An example of a numbering: the kinds of RL_Init_exports are numbered from 1 in the
order of the source, `REB_MAX` is 40, and `RXT_X` has the value of `REB_X`. -/
def demo_enums : Lib_Enums :=
  { REB_MAX := 40,
    REB := fun x => (RL_Init_exports.map Prod.fst).indexOf x + 1,
    RXT := fun x => (RL_Init_exports.map Prod.fst).indexOf x + 1 }

/-! ## Host API: RL_Shutdown and RL_Set_Char (`a-lib.c`) -/

/-- What RL_Shutdown (a-lib.c:242) does: whether it calls Shutdown_Core, which releases the
memory accrued since initialization. -/
def RL_Shutdown (c : Config) (clean : Bool) : Bool :=
  if clean then
    if c.NDEBUG then false  -- `return;`
    else true  -- `Shutdown_Core();`
  else true  -- `Shutdown_Core();`

/-- Modelled from the spec: `SET_ANY_CHAR(s, n, chr)` stores `chr` in the element `n` of a
string of bytes or of 16-bit code units; `none` is a write outside of the series. -/
def SET_ANY_CHAR (c : Config) (s : REBSER) (n chr : Nat) : Option REBSER :=
  match SER_DATA_RAW c s with
  | none => none
  | some data =>
    s.write (data + n * s.wide) ((List.range s.wide).map (fun i => chr / 256 ^ i % 256))

/-- RL_Set_Char (a-lib.c:898): the index returned and the series. -/
def RL_Set_Char (m : Memory) (series : REBSER) (index chr : Nat) : Result (Nat × REBSER) :=
  let grown : Result (Nat × REBSER) :=
    if index ≥ SER_LEN series then
      match EXPAND_SERIES_TAIL m series 1 with
      | .fault f m1 => .fault f m1
      | .ok s1 m1 => .ok (SER_LEN series, s1) m1
    else .ok (index, series) m
  match grown with
  | .fault f m1 => .fault f m1
  | .ok (index, s1) m1 =>
    match SET_ANY_CHAR m.cfg s1 index chr with
    | none => .fault .undefined m1
    | some s2 => .ok (index, s2) m1

/-- A string of bytes that holds `abc` in a capacity of 16. -/
def demo_string : REBSER :=
  { node := 4112, valid := true, managed := false, is_array := false, fixed_size := false,
    wide := 1, has_dynamic := true, power_of_2 := false, info_len := 0, info_end := true,
    data := some 8192, len := 3, rest := 16, bias := 0, base := 8192,
    mem := [97, 98, 99, 0] ++ List.replicate 12 170 }

/-- What the fingerprint of Prescan_Token is said to be, for a token that begins at `b`
and whose bytes up to `cp` have been seen: the bit `v` is set if and only if a byte of
the special class with the value `v` lies strictly after the first byte, or `v` is
`LEX_SPECIAL_WORD` and a byte of the word class lies in the token, the first byte
included. -/
def Is_Fingerprint (src : List Nat) (b cp flags : Nat) : Prop :=
  ∀ v, flags.testBit v = true ↔
    ((∃ i, b < i ∧ i < cp ∧ GET_LEX_CLASS (src.getD i 0) = LEX_CLASS_SPECIAL ∧
        GET_LEX_VALUE (src.getD i 0) = v) ∨
     (v = LEX_SPECIAL_WORD ∧
        ∃ i, b ≤ i ∧ i < cp ∧ GET_LEX_CLASS (src.getD i 0) = LEX_CLASS_WORD))

/-- The example tokens of the scanner with the token Locate_Token_May_Push_Mold is to
return for each: `+12.3e-4`, `1.2.3`, `1x2`, `12:34`, `10%`, `user@host`, `$10.50`, `foo:`,
`:foo`, `'foo` and `/foo`. -/
def example_tokens : List (List Nat × Int) :=
  [
   ([43, 49, 50, 46, 51, 101, 45, 52], TOKEN_DECIMAL),
   ([49, 46, 50, 46, 51], TOKEN_TUPLE),
   ([49, 120, 50], TOKEN_PAIR),
   ([49, 50, 58, 51, 52], TOKEN_TIME),
   ([49, 48, 37], TOKEN_PERCENT),
   ([117, 115, 101, 114, 64, 104, 111, 115, 116], TOKEN_EMAIL),
   ([36, 49, 48, 46, 53, 48], TOKEN_MONEY),
   ([102, 111, 111, 58], TOKEN_SET),
   ([58, 102, 111, 111], TOKEN_GET),
   ([39, 102, 111, 111], TOKEN_LIT),
   ([47, 102, 111, 111], TOKEN_REFINE)]

/-- Whether Locate_Token_May_Push_Mold, on the text `tok` followed by `rest`, returns the
token `token` with `begin` at 0 and `end` just past `tok`. -/
def Locates_As (tok rest : List Nat) (token : Int) : Bool :=
  match Locate_Token_May_Push_Mold (tok ++ rest) (tok.length + rest.length + 4)
      (Init_Scan_State (tok.length + rest.length)) with
  | .ok l => l.token == token && l.ss.begin == 0 && l.ss.end_ == tok.length
  | .error _ => false

/-- The bytes of the delimiter class of `Lex_Map`. -/
def delimiter_bytes : List Nat :=
  [0, 1, 2, 3, 4, 5, 6, 7, 8, 9, 10, 11, 12, 13, 14, 15, 16, 17, 18, 19, 20, 21, 22, 23, 24,
   25, 26, 27, 28, 29, 30, 31, 32, 34, 40, 41, 47, 59, 91, 93, 123, 125, 127, 192, 193, 245,
   255]

/-- The table of the one-character caret escapes as the spec words it: what `^c` stands
for. `^/` is LF, `^-` is TAB, `^!` is RS, `^^` is the caret, `^~` is DEL, `^X` for `X` in
`'@'..'_'` or a lower case letter is the control character of `X`, and every other
character stands for itself. -/
def Caret_Escape (c : Nat) : Nat :=
  if c = 47 then 10
  else if c = 45 then 9
  else if c = 33 then 30
  else if c = 94 then 94
  else if c = 126 then 127
  else if 64 ≤ c ∧ c ≤ 95 then c - 64
  else if 97 ≤ c ∧ c ≤ 122 then c - 96
  else c

/-- Whether a byte is a hexadecimal digit, of either case. -/
def Is_Hex_Digit (c : Nat) : Bool :=
  (48 ≤ c && c ≤ 57) || (65 ≤ c && c ≤ 70) || (97 ≤ c && c ≤ 102)

/-- The value of a hexadecimal digit. -/
def Hex_Digit_Value (c : Nat) : Nat :=
  if c ≤ 57 then c - 48 else if c ≤ 70 then c - 55 else c - 87

/-- The number that a sequence of hexadecimal digits denotes in base 16. -/
def Hex_Value (digits : List Nat) : Nat :=
  digits.foldl (fun acc d => acc * 16 + Hex_Digit_Value d) 0

/-! ## Scanner: Scan_Head and Scan_Header -/

/-- The string `Str_REBOL`. -/
def Str_REBOL : List Nat := [82, 69, 66, 79, 76]

/-- The label `skipline` of Scan_Head (l-scan.c:1333): the position after the end of the
line of `cp`. -/
def Scan_Head_skipline (src : List Nat) (cp : Nat) : Scan Nat := do
  let cp1 ← skip_while (fun b => !ANY_CR_LF_END b) src cp
  let c ← byteAt src cp1
  let cp2 ←
    if c = 13 then do
      let n ← byteAt src (cp1 + 1)
      pure (if n = 10 then cp1 + 1 else cp1)
    else pure cp1
  let e ← byteAt src cp2
  return (if e ≠ 0 then cp2 + 1 else cp2)

/-- The loop of Scan_Head (l-scan.c:1305), for at most `fuel` turns: `rp` points at the
word REBOL and `bp` at a `[` just before it, `none` being the null pointer. The result is
the value returned and the scan state. -/
def Scan_Head_loop (src : List Nat) (ss : SCAN_STATE) :
    Nat → Option Nat → Option Nat → Nat → Nat → Scan (Int × SCAN_STATE)
  | 0, _, _, _, _ => .error .diverges
  | fuel + 1, rp, bp, cp, count => do
    let cp ← skip_while IS_LEX_SPACE src cp
    let c ← byteAt src cp
    if c = 91 then
      if rp.isSome then
        return (if bp.isSome then -1 else 1, { ss with begin := cp + 1, line_count := count })
      else Scan_Head_loop src ss fuel rp (some cp) (cp + 1) count
    else if (c = 82 ∨ c = 114) ∧ (Match_Bytes (src.drop cp) Str_REBOL).isSome then
      Scan_Head_loop src ss fuel (some cp) bp (cp + 5) count
    else if c = 82 ∨ c = 114 then do
      -- prior '[' was a red herring
      let cp1 ← Scan_Head_skipline src (cp + 1)
      Scan_Head_loop src ss fuel rp none cp1 (count + 1)
    else if c = 59 then do
      let cp1 ← Scan_Head_skipline src cp
      Scan_Head_loop src ss fuel rp bp cp1 (count + 1)
    else if c = 0 then return (0, ss)
    else do
      let cp1 ← Scan_Head_skipline src cp
      if !ANY_CR_LF_END c then Scan_Head_loop src ss fuel none none cp1 (count + 1)
      else Scan_Head_loop src ss fuel rp bp cp1 (count + 1)

/-- Scan_Head (l-scan.c:1298). -/
def Scan_Head (src : List Nat) (fuel : Nat) (ss : SCAN_STATE) : Scan (Int × SCAN_STATE) :=
  Scan_Head_loop src ss fuel none none ss.begin ss.line_count

/-- The loops `while (cp != src && !p(*cp)) cp--;` of Scan_Header. -/
def Scan_Header_back (p : Nat → Bool) (src : List Nat) : Nat → Nat
  | 0 => 0
  | cp + 1 => if p (src.getD (cp + 1) 0) then cp + 1 else Scan_Header_back p src cp

/-- Scan_Header (l-scan.c:1922), for the text at position 0. -/
def Scan_Header (src : List Nat) (fuel : Nat) (len : Nat) : Scan Int := do
  let r ← Scan_Head src fuel (Init_Scan_State len)
  if r.1 = 0 then return -1
  else
    let cp := r.2.begin - 2
    -- backup to start of it
    if r.1 > 0 then return (Scan_Header_back (fun c => c == 114 || c == 82) src cp : Nat)
    else return (Scan_Header_back (fun c => c == 91) src cp : Nat)

/-- A scan state for a text of `len` bytes with the option `SCAN_RELAX` set. -/
def demo_relax_state (len : Nat) : SCAN_STATE :=
  { Init_Scan_State len with opts := ⟨false, false, true⟩ }

/-- Scan_Word (l-scan.c:2022) for the text `cp` points to, whose bytes before the
terminator are `src`: the spelling interned, or nothing for NULL. The token is located from
`cp` on with no regard to `len`; the spelling interned is the `len` bytes at `cp`. -/
def Scan_Word (src : List Nat) (fuel : Nat) (len : Nat) : Scan (Option (List Nat)) := do
  let l ← Locate_Token_May_Push_Mold src fuel (Init_Scan_State len)
  if l.token = TOKEN_WORD then do
    let name ← Intern_UTF8_Managed src 0 len
    return some name
  else return none

/-- Modelled from the spec: the result the specification gives Scan_Word, for comparison
with the code: the symbol of the `len` bytes at `cp` if the token located there is a WORD
token that spans all `len` bytes, and NULL otherwise. -/
def Scan_Word_spec (src : List Nat) (fuel : Nat) (len : Nat) : Scan (Option (List Nat)) := do
  let l ← Locate_Token_May_Push_Mold src fuel (Init_Scan_State len)
  if l.token = TOKEN_WORD ∧ l.ss.begin = 0 ∧ l.ss.end_ = len then do
    let name ← Intern_UTF8_Managed src 0 len
    return some name
  else return none

/-! ## Typesets (`t-typeset.c`) -/

/-- Modelled from the spec: `FLAGIT_KIND(n)`, the bit of the kind `n` in the 64 bits of a
typeset, `(REBU64)1 << n` for `n` below 64 (`sys-typeset.h` is not among the sources). -/
def FLAGIT_KIND (n : Nat) : Nat := (1 <<< n) % 18446744073709551616

/-- Modelled from the spec: `TYPE_CHECK(v, n)`, whether the bit of the kind `n` is set in
the bits of the typeset. -/
def TYPE_CHECK (bits n : Nat) : Bool := bits &&& FLAGIT_KIND n != 0

/-- A cell Typeset_To_Array stores: the blank of `SET_BLANK`, or the datatype of
`Val_Init_Datatype` for a kind. -/
inductive Typeset_Cell where
  | blank
  | datatype (kind : Nat)
deriving DecidableEq, Repr

/-- The first loop of Typeset_To_Array (t-typeset.c:276): `size` after the kinds `ns`. -/
def Typeset_To_Array_size (bits : Nat) (ns : List Nat) : Nat :=
  ns.foldl (fun size n => if TYPE_CHECK bits n then size + 1 else size) 0

/-- The second loop of Typeset_To_Array (t-typeset.c:283): the cells Alloc_Tail_Array has
appended to `block` after the kinds `ns`. -/
def Typeset_To_Array_cells (bits : Nat) (ns : List Nat) (block : List Typeset_Cell) :
    List Typeset_Cell :=
  ns.foldl (fun block n =>
    if TYPE_CHECK bits n then block ++ [if n = 0 then .blank else .datatype n] else block)
    block

/-- Typeset_To_Array (t-typeset.c:269) for a typeset with the bits `bits`: the capacity
asked of Make_Array and the cells of the array. `REB_MAX`, the number of kinds, comes from
a generated header that is not among the sources. -/
def Typeset_To_Array (REB_MAX : Nat) (bits : Nat) : Nat × List Typeset_Cell :=
  (Typeset_To_Array_size bits (List.range REB_MAX),
    Typeset_To_Array_cells bits (List.range REB_MAX) [])

/-- The actions the dispatcher of typesets tells apart. -/
inductive Typeset_Action where
  | SYM_FIND
  | SYM_AND_T
  | SYM_OR_T
  | SYM_XOR_T
  | SYM_COMPLEMENT
  | other
deriving DecidableEq, Repr

/-- The second argument of an action on a typeset: a typeset with its bits, a datatype with
the kind it stands for, or a value of another kind. -/
inductive Typeset_Arg where
  | typeset (bits : Nat)
  | datatype (kind : Nat)
  | other
deriving DecidableEq, Repr

/-- The 64-bit complement `~bits`. -/
def complement64 (bits : Nat) : Nat := 18446744073709551615 - bits % 18446744073709551616

/-- The dispatcher `REBTYPE(Typeset)` (t-typeset.c:306) for the actions that give a
typeset: the bits of the result, or nothing for `fail`. For a datatype argument the source
takes `FLAGIT_KIND(VAL_TYPE(arg))`, the bit of the kind of the cell, which is
`REB_DATATYPE`, whatever kind the datatype stands for. -/
def T_Typeset (REB_DATATYPE : Nat) (action : Typeset_Action) (val : Nat)
    (arg : Typeset_Arg) : Option Nat :=
  match action with
  | .SYM_AND_T | .SYM_OR_T | .SYM_XOR_T =>
    let arg_bits : Option Nat :=
      match arg with
      | .datatype _ => some (FLAGIT_KIND REB_DATATYPE)
      | .typeset bits => some bits
      | .other => none
    match arg_bits with
    | none => none
    | some b =>
      if action = .SYM_OR_T then some (val ||| b)
      else if action = .SYM_AND_T then some (val &&& b)
      else some (val ^^^ b)
  | .SYM_COMPLEMENT => some (complement64 val)
  | _ => none

/-- The state a 64-bit release build is in after `Init_Pools(-4096)`: the tables, the
manuals list and the table `Prior_Expand` with the mark 1 in slot 0. -/
def demo_init : Memory := (Init_Pools demo_boot false (-4096)).mem

/-- The call `Make_Series(4, 1, MKS_NONE)` in the state `m`: the series and the state. -/
def demo_make (m : Memory) : REBSER × Memory :=
  match Make_Series m 4 1 MKS_NONE with
  | .ok s m1 => (s, m1)
  | .fault _ m1 => (blank_series, m1)

/-- The call `Expand_Series(s, 0, 200)` in the state `m`: the series and the state. -/
def demo_expand (m : Memory) (s : REBSER) : REBSER × Memory :=
  match Expand_Series m s 0 200 with
  | .ok s1 m1 => (s1, m1)
  | .fault _ m1 => (blank_series, m1)

/-- Five series made in the state `demo_init`. -/
def demo_five_made : List REBSER × Memory :=
  let a := demo_make demo_init
  let b := demo_make a.2
  let c := demo_make b.2
  let d := demo_make c.2
  let e := demo_make d.2
  ([a.1, b.1, c.1, d.1, e.1], e.2)

/-- The state `demo_five_made` after the first four of its series were expanded by 200
bytes each, in the order in which they were made. -/
def demo_four_expanded : Memory :=
  let a := demo_expand demo_five_made.2 (demo_five_made.1.getD 0 blank_series)
  let b := demo_expand a.2 (demo_five_made.1.getD 1 blank_series)
  let c := demo_expand b.2 (demo_five_made.1.getD 2 blank_series)
  let d := demo_expand c.2 (demo_five_made.1.getD 3 blank_series)
  d.2

/-- The fifth series of `demo_five_made`, which has not been expanded. -/
def demo_fifth : REBSER := demo_five_made.1.getD 4 blank_series

/-! # Theorems -/

/-! ## The size map -/

theorem Init_Pool_Map_getD (c : Config) (n : Nat) (hn : n ≤ 4 * MEM_BIG_SIZE) :
    (Init_Pool_Map c).getD n 0 = Pool_Map_Entry c n := by
  unfold Init_Pool_Map
  rw [List.getD_eq_getElem?_getD, List.getElem?_map, List.getElem?_range (by omega)]
  rfl

theorem Pool_Map_Entry_spec (c : Config) (n : Nat) (hmin : 8 ≤ MEM_MIN_SIZE c)
    (hn : n ≤ 4 * MEM_BIG_SIZE) :
    Pool_Map_Entry c n < SER_POOL ∧
      ∃ spec, (Mem_Pool_Spec c)[Pool_Map_Entry c n]? = some spec ∧ n ≤ spec.wide := by
  have hbig : MEM_BIG_SIZE = 1024 := rfl
  rw [hbig] at hn
  unfold Pool_Map_Entry
  generalize hw : MEM_MIN_SIZE c = w at hmin ⊢
  have hw0 : 0 < w := by omega
  by_cases h8 : n ≤ 8
  · rw [if_pos h8]
    refine ⟨by decide, ⟨w, 256⟩, ?_, by show n ≤ w; omega⟩
    simp [Mem_Pool_Spec, MOD_POOL, hw]
  rw [if_neg h8]
  by_cases h16 : n ≤ 16 * w
  · rw [if_pos h16]
    have hq : (n - 1) / w < 16 := (Nat.div_lt_iff_lt_mul hw0).2 (by omega)
    have h1 := Nat.div_add_mod (n - 1) w
    have h2 := Nat.mod_lt (n - 1) hw0
    generalize (n - 1) / w = q at hq h1
    generalize (n - 1) % w = r at h1 h2
    simp only [MEM_TINY_POOL, Nat.zero_add]
    interval_cases q <;>
      refine ⟨by decide, ⟨_, _⟩,
        by simp [Mem_Pool_Spec, MOD_POOL, hw]; exact ⟨rfl, rfl⟩, ?_⟩ <;>
      dsimp only <;> omega
  rw [if_neg h16]
  by_cases h32 : n ≤ 32 * w
  · rw [if_pos h32]
    have hw4 : 0 < w * 4 := by omega
    have hq : (n - 1) / (w * 4) < 8 := (Nat.div_lt_iff_lt_mul hw4).2 (by omega)
    have hq4 : 4 ≤ (n - 1) / (w * 4) := (Nat.le_div_iff_mul_le hw4).2 (by omega)
    have h1 := Nat.div_add_mod (n - 1) (w * 4)
    have h2 := Nat.mod_lt (n - 1) hw4
    generalize (n - 1) / (w * 4) = q at hq hq4 h1
    generalize (n - 1) % (w * 4) = r at h1 h2
    simp only [MEM_SMALL_POOLS, MEM_TINY_POOL, Nat.zero_add]
    interval_cases q <;>
      refine ⟨by decide, ⟨_, _⟩,
        by simp [Mem_Pool_Spec, MOD_POOL, hw]; exact ⟨rfl, rfl⟩, ?_⟩ <;>
      dsimp only <;> omega
  rw [if_neg h32]
  have hq : (n - 1) / MEM_BIG_SIZE < 4 := by rw [hbig]; omega
  have h1 := Nat.div_add_mod (n - 1) MEM_BIG_SIZE
  have h2 := Nat.mod_lt (n - 1) (show 0 < MEM_BIG_SIZE by decide)
  generalize (n - 1) / MEM_BIG_SIZE = q at hq h1
  generalize (n - 1) % MEM_BIG_SIZE = r at h1 h2
  rw [hbig] at h1 h2
  simp only [MEM_MID_POOLS, MEM_SMALL_POOLS, MEM_TINY_POOL, Nat.zero_add]
  interval_cases q <;>
    refine ⟨by decide, ⟨_, _⟩,
      by simp [Mem_Pool_Spec, DEF_POOL]; exact ⟨rfl, rfl⟩, ?_⟩ <;>
    simp only [MEM_BIG_SIZE] <;> omega

/-! ## Pools: the free list invariant -/

theorem pool_set_pool (m : Memory) (id j : Nat) (p : REBPOL) :
    (m.set_pool id p).pool j =
      if id = j ∧ id < m.Mem_Pools.length then some p else m.pool j := by
  unfold Memory.set_pool Memory.pool
  simp only [List.getElem?_set]
  by_cases h : id = j
  · subst h
    by_cases h2 : id < m.Mem_Pools.length
    · simp [h2]
    · simp [h2]
      omega
  · simp [h]

theorem pool_set_pool_same (m : Memory) (id : Nat) (p q : REBPOL) (h : m.pool id = some q) :
    (m.set_pool id p).pool id = some p := by
  rw [pool_set_pool]
  have : id < m.Mem_Pools.length := by
    unfold Memory.pool at h
    exact (List.getElem?_eq_some_iff.1 h).1
  simp [this]

theorem pool_set_pool_ne (m : Memory) (id j : Nat) (p : REBPOL) (h : id ≠ j) :
    (m.set_pool id p).pool j = m.pool j := by
  rw [pool_set_pool]; simp [h]

theorem mem_node_run {wide : Nat} : ∀ {n node a : Nat}, a ∈ node_run wide n node →
    node ≤ a ∧ a + wide ≤ node + n * wide
  | 0, _, _, h => by simp [node_run] at h
  | n + 1, node, a, h => by
    simp only [node_run, List.mem_cons] at h
    rcases h with h | h
    · subst h
      refine ⟨le_refl _, ?_⟩
      rw [Nat.succ_mul]; omega
    · have := mem_node_run h
      rw [Nat.succ_mul]; omega

theorem node_run_nodup {wide : Nat} (hw : 0 < wide) : ∀ (n node : Nat),
    (node_run wide n node).Nodup
  | 0, _ => by simp [node_run]
  | n + 1, node => by
    simp only [node_run, List.nodup_cons]
    refine ⟨fun h => ?_, node_run_nodup hw n _⟩
    have := mem_node_run h
    omega

theorem node_run_length {wide : Nat} : ∀ (n node : Nat), (node_run wide n node).length = n
  | 0, _ => rfl
  | n + 1, node => by simp [node_run, node_run_length n]

theorem node_run_aligned {wide : Nat} (hw : wide % 8 = 0) : ∀ {n node a : Nat},
    node % 8 = 0 → a ∈ node_run wide n node → a % 8 = 0
  | 0, _, _, _, h => by simp [node_run] at h
  | n + 1, node, a, hn, h => by
    simp only [node_run, List.mem_cons] at h
    rcases h with h | h
    · subst h; exact hn
    · exact node_run_aligned hw (by omega) h

theorem IsFreeList.congr {nodes nodes1 : Nat → REBNOD} : ∀ {l : List Nat} {p : Option Nat},
    IsFreeList nodes p l →
    (∀ a ∈ l, (nodes1 a).next_if_free = (nodes a).next_if_free) → IsFreeList nodes1 p l
  | [], _, h, _ => h
  | a :: l, _, h, hn => by
    refine ⟨h.1, ?_⟩
    rw [hn a (List.mem_cons_self _ _)]
    exact IsFreeList.congr h.2 (fun b hb => hn b (List.mem_cons_of_mem _ hb))

theorem IsFreeList.snoc {nodes nodes1 : Nat → REBNOD} (last : Nat) {q : Option Nat}
    {l2 : List Nat} (hlast : (nodes1 last).next_if_free = q) (h2 : IsFreeList nodes1 q l2) :
    ∀ {l : List Nat} {p : Option Nat}, IsFreeList nodes p l → l.getLast? = some last →
    l.Nodup → (∀ a ∈ l, a ≠ last → (nodes1 a).next_if_free = (nodes a).next_if_free) →
    IsFreeList nodes1 p (l ++ l2)
  | [], _, _, hl, _, _ => by simp at hl
  | [a], _, h, hl, _, _ => by
    simp at hl
    subst hl
    exact ⟨h.1, by rw [hlast]; exact h2⟩
  | a :: b :: t, _, h, hl, hnd, hs => by
    have hl1 : (b :: t).getLast? = some last := by
      rw [← hl]; simp [List.getLast?_cons_cons]
    have hmem : last ∈ b :: t := List.mem_of_getLast?_eq_some hl1
    have hne : a ≠ last := fun e => by
      subst e; exact (List.nodup_cons.1 hnd).1 hmem
    refine ⟨h.1, ?_⟩
    rw [hs a (List.mem_cons_self _ _) hne]
    exact IsFreeList.snoc last hlast h2 h.2 hl1 (List.nodup_cons.1 hnd).2
      (fun c hc hcl => hs c (List.mem_cons_of_mem _ hc) hcl)

theorem Fill_Pool_loop_spec {wide : Nat} (hw : 0 < wide) : ∀ (k node : Nat)
    (nodes : Nat → REBNOD),
    (Fill_Pool_loop wide k node nodes).2 = node + k * wide ∧
    IsFreeList (Fill_Pool_loop wide k node nodes).1 (some node) (node_run wide (k + 1) node) ∧
    (∀ a ∈ node_run wide (k + 1) node, ((Fill_Pool_loop wide k node nodes).1 a).header = 0) ∧
    (∀ a, a ∉ node_run wide (k + 1) node → (Fill_Pool_loop wide k node nodes).1 a = nodes a) ∧
    (node_run wide (k + 1) node).getLast? = some (node + k * wide)
  | 0, node, nodes => by
    simp [Fill_Pool_loop, node_run, IsFreeList]
    intro a ha
    exact Function.update_noteq ha _ _
  | k + 1, node, nodes => by
    obtain ⟨h1, h2, h3, h4, h5⟩ :=
      Fill_Pool_loop_spec hw k (node + wide) (Function.update nodes node ⟨0, some (node + wide)⟩)
    have hnot : node ∉ node_run wide (k + 1) (node + wide) := fun h => by
      have := mem_node_run h; omega
    have hnode := h4 node hnot
    rw [Function.update_same] at hnode
    have e : node + wide + k * wide = node + (k + 1) * wide := by rw [Nat.succ_mul]; omega
    refine ⟨?_, ?_, ?_, ?_, ?_⟩
    · simp only [Fill_Pool_loop]; rw [h1, e]
    · simp only [Fill_Pool_loop]
      rw [node_run]
      refine ⟨rfl, ?_⟩
      rw [hnode]; exact h2
    · intro a ha
      simp only [Fill_Pool_loop]
      rw [node_run, List.mem_cons] at ha
      rcases ha with ha | ha
      · subst ha; rw [hnode]
      · exact h3 a ha
    · intro a ha
      simp only [Fill_Pool_loop]
      rw [node_run, List.mem_cons, not_or] at ha
      rw [h4 a ha.2, Function.update_noteq ha.1]
    · rw [node_run, ← e, ← h5]
      rw [node_run]
      simp [List.getLast?_cons_cons]

theorem Alloc_Mem_spec {m : Memory} {size seg : Nat} {m1 : Memory}
    (h : Alloc_Mem m size = .ok (some seg) m1) :
    m1.cfg = m.cfg ∧ m1.Mem_Pools = m.Mem_Pools ∧ m1.nodes = m.nodes ∧
    m1.heap_end = m.heap_end ∧
    m.brk ≤ seg ∧ seg + size ≤ m1.brk ∧ m.brk ≤ m1.brk ∧ m1.brk ≤ m1.heap_end + 8 ∧
    (m.brk % 8 = 0 → seg % 8 = 0 ∧ m1.brk % 8 = 0) := by
  unfold Alloc_Mem malloc at h
  simp only [] at h
  split_ifs at h with h1 h2 h3 h4
  · simp only [Result.ok.injEq, Option.some.injEq] at h
    obtain ⟨rfl, rfl⟩ := h
    refine ⟨rfl, rfl, rfl, rfl, ?_, ?_, ?_, ?_, ?_⟩ <;> dsimp only <;> omega
  · simp at h
  · simp only [Result.ok.injEq, Option.some.injEq] at h
    obtain ⟨rfl, rfl⟩ := h
    refine ⟨rfl, rfl, rfl, rfl, ?_, ?_, ?_, ?_, ?_⟩ <;> dsimp only <;> omega

theorem mem_pool_nodes_lt {m : Memory} {pool : REBPOL} {fl : List Nat} (h : Pool_OK m pool fl)
    {a : Nat} (ha : a ∈ pool_nodes m.cfg pool) : a < m.brk := by
  unfold pool_nodes at ha
  rw [List.mem_flatMap] at ha
  obtain ⟨seg, hseg, ha⟩ := ha
  have h1 := mem_node_run ha
  have h2 := (h.segs_ok seg hseg).2
  have h3 := h.wide_pos
  omega

theorem Pool_OK.frame {m m1 : Memory} {pool : REBPOL} {fl : List Nat} (h : Pool_OK m pool fl)
    (hcfg : m1.cfg = m.cfg) (hbrk : m.brk ≤ m1.brk)
    (hn : ∀ a ∈ fl, m1.nodes a = m.nodes a) : Pool_OK m1 pool fl where
  chain := h.chain.congr (fun a ha => by rw [hn a ha])
  zero := fun a ha => by rw [hn a ha]; exact h.zero a ha
  free_eq := h.free_eq
  has_eq := by rw [hcfg]; exact h.has_eq
  sub := by rw [hcfg]; exact h.sub
  nodup := h.nodup
  nodes_nodup := by rw [hcfg]; exact h.nodes_nodup
  last_ok := h.last_ok
  segs_ok := fun seg hs => by
    rw [hcfg]
    exact ⟨(h.segs_ok seg hs).1, le_trans (h.segs_ok seg hs).2 hbrk⟩
  wide_pos := h.wide_pos
  wide_al := h.wide_al
  units_pos := h.units_pos
  size_ok := by rw [hcfg]; exact h.size_ok
  has_le := le_trans h.has_le hbrk

theorem Pools_OK.update {m m1 : Memory} (h : Pools_OK m) {id : Nat} {pool pool1 : REBPOL}
    {fl1 : List Nat} (hid : id < SYSTEM_POOL) (hp : m.pool id = some pool)
    (hcfg : m1.cfg = m.cfg) (hheap : m1.heap_end = m.heap_end)
    (hbrk : m.brk ≤ m1.brk) (hal : m1.brk % 8 = 0) (hle : m1.brk ≤ m1.heap_end + 8)
    (hpools : ∀ j, m1.pool j = if id = j then some pool1 else m.pool j)
    (hnodes : ∀ a, a ∉ pool_nodes m.cfg pool → a < m.brk → m1.nodes a = m.nodes a)
    (hok : Pool_OK m1 pool1 fl1)
    (hnew : ∀ a ∈ pool_nodes m.cfg pool1, a ∈ pool_nodes m.cfg pool ∨ m.brk ≤ a) :
    Pools_OK m1 where
  seg_al := by rw [hcfg]; exact h.seg_al
  brk_al := hal
  brk_le := hle
  heap := by rw [hheap]; exact h.heap
  pools := fun j pj hj hpj => by
    rw [hpools j] at hpj
    by_cases e : id = j
    · rw [if_pos e] at hpj
      cases hpj
      exact ⟨fl1, hok⟩
    · rw [if_neg e] at hpj
      obtain ⟨fl, hfl⟩ := h.pools j pj hj hpj
      refine ⟨fl, hfl.frame hcfg hbrk (fun a ha => hnodes a (fun hin => ?_) ?_)⟩
      · exact e (h.disjoint id j pool pj a hid hj hp hpj hin (hfl.sub a ha))
      · exact mem_pool_nodes_lt hfl (hfl.sub a ha)
  disjoint := fun i j pi pj a hi hj hpi hpj hai haj => by
    rw [hpools i] at hpi
    rw [hpools j] at hpj
    rw [hcfg] at hai haj
    by_cases ei : id = i <;> by_cases ej : id = j
    · omega
    · rw [if_pos ei] at hpi; rw [if_neg ej] at hpj
      cases hpi
      obtain ⟨fl, hfl⟩ := h.pools j pj hj hpj
      have hlt := mem_pool_nodes_lt hfl haj
      rcases hnew a hai with h1 | h1
      · exact ei ▸ h.disjoint id j pool pj a hid hj hp hpj h1 haj
      · omega
    · rw [if_neg ei] at hpi; rw [if_pos ej] at hpj
      cases hpj
      obtain ⟨fl, hfl⟩ := h.pools i pi hi hpi
      have hlt := mem_pool_nodes_lt hfl hai
      rcases hnew a haj with h1 | h1
      · exact ej ▸ (h.disjoint id i pool pi a hid hi hp hpi h1 hai).symm
      · omega
    · rw [if_neg ei] at hpi; rw [if_neg ej] at hpj
      exact h.disjoint i j pi pj a hi hj hpi hpj hai haj

theorem Pool_OK.free_le_has {m : Memory} {pool : REBPOL} {fl : List Nat}
    (h : Pool_OK m pool fl) : pool.free ≤ pool.has := by
  rw [h.free_eq, h.has_eq]
  exact (List.subperm_of_subset h.nodup h.sub).length_le

theorem pool_nodes_cons (c : Config) (pool pool1 : REBPOL) (seg : REBSEG)
    (hs : pool1.segs = seg :: pool.segs) (hw : pool1.wide = pool.wide)
    (hu : pool1.units = pool.units) :
    pool_nodes c pool1 = seg_nodes c pool seg ++ pool_nodes c pool := by
  have e : seg_nodes c pool1 = seg_nodes c pool := by
    funext s; simp [seg_nodes, hw, hu]
  simp [pool_nodes, hs, e]

theorem pool_nodes_congr (c : Config) (pool pool1 : REBPOL)
    (hs : pool1.segs = pool.segs) (hw : pool1.wide = pool.wide)
    (hu : pool1.units = pool.units) : pool_nodes c pool1 = pool_nodes c pool := by
  have e : seg_nodes c pool1 = seg_nodes c pool := by
    funext s; simp [seg_nodes, hw, hu]
  simp [pool_nodes, hs, e]

theorem Fill_Pool_core {m m1 : Memory} (h : Pools_OK m) {id : Nat} (hid : id < SYSTEM_POOL)
    {pool pool1 : REBPOL} {fl : List Nat} (hp : m.pool id = some pool) (hfl : Pool_OK m pool fl)
    {seg : REBSEG} {k : Nat} (hk : pool.units = k + 1)
    (hseg : m.brk ≤ seg.addr) (hseg8 : seg.addr % 8 = 0)
    (hend : seg.addr + (pool.wide * pool.units + m.cfg.sizeof_REBSEG) ≤ m1.brk)
    (hal : m1.brk % 8 = 0) (hle : m1.brk ≤ m1.heap_end + 8)
    (hcfg : m1.cfg = m.cfg) (hheap : m1.heap_end = m.heap_end)
    (hm1pool : ∀ j, m1.pool j = if id = j then some pool1 else m.pool j)
    (hsegs : pool1.segs = seg :: pool.segs) (hwide : pool1.wide = pool.wide)
    (hunits : pool1.units = pool.units)
    (hlast : pool1.last = some (seg.addr + m.cfg.sizeof_REBSEG + k * pool.wide))
    (hfree : pool1.free = u32 (pool.free + pool.units))
    (hhas : pool1.has = u32 (pool.has + pool.units))
    (hchain : IsFreeList m1.nodes pool1.first (fl ++ seg_nodes m.cfg pool seg))
    (hzero : ∀ a ∈ fl ++ seg_nodes m.cfg pool seg, (m1.nodes a).header = 0)
    (hlastn : (seg_nodes m.cfg pool seg).getLast? =
      some (seg.addr + m.cfg.sizeof_REBSEG + k * pool.wide))
    (hnodes : ∀ a, a ∉ seg_nodes m.cfg pool seg → (∀ l, pool.last = some l → a ≠ l) →
      m1.nodes a = m.nodes a) :
    Pool_OK m1 pool1 (fl ++ seg_nodes m.cfg pool seg) ∧ Pools_OK m1 ∧
      (∀ a ∈ seg_nodes m.cfg pool seg, m.brk ≤ a) ∧
      pool1.has = pool.has + pool.units ∧ pool1.free = pool.free + pool.units := by
  have hge : ∀ a ∈ seg_nodes m.cfg pool seg, m.brk ≤ a := fun a ha => by
    have := (mem_node_run ha).1; omega
  have hlt : ∀ a ∈ pool_nodes m.cfg pool, a < m.brk := fun a ha => mem_pool_nodes_lt hfl ha
  have hbrk : m.brk ≤ m1.brk := by omega
  have hsz := hfl.size_ok
  have hw8 : 8 ≤ pool.wide := by have := hfl.wide_pos; have := hfl.wide_al; omega
  have hhw := hfl.has_le
  have hfh := hfl.free_le_has
  have hheap2 := h.heap
  have hmul : (pool.has + pool.units) * 8 ≤ (pool.has + pool.units) * pool.wide :=
    Nat.mul_le_mul_left _ hw8
  have hmul2 : (pool.has + pool.units) * pool.wide =
      pool.has * pool.wide + pool.wide * pool.units := by ring
  have hhas1 : pool1.has = pool.has + pool.units := by
    rw [hhas]; unfold u32; apply Nat.mod_eq_of_lt; omega
  have hfree1 : pool1.free = pool.free + pool.units := by
    rw [hfree]; unfold u32; apply Nat.mod_eq_of_lt; omega
  have hpn := pool_nodes_cons m.cfg pool pool1 seg hsegs hwide hunits
  have hnlen : (seg_nodes m.cfg pool seg).length = pool.units := node_run_length _ _
  have hok : Pool_OK m1 pool1 (fl ++ seg_nodes m.cfg pool seg) :=
    { chain := hchain
      zero := hzero
      free_eq := by rw [hfree1, List.length_append, hnlen, hfl.free_eq]
      has_eq := by
        rw [hcfg, hpn, List.length_append, hnlen, hhas1, hfl.has_eq]; omega
      sub := fun a ha => by
        rw [hcfg, hpn]
        rcases List.mem_append.1 ha with ha | ha
        · exact List.mem_append_right _ (hfl.sub a ha)
        · exact List.mem_append_left _ ha
      nodup := by
        refine List.nodup_append.2 ⟨hfl.nodup, node_run_nodup hfl.wide_pos _ _, ?_⟩
        intro a ha hb
        have := hlt a (hfl.sub a ha); have := hge a hb; omega
      nodes_nodup := by
        rw [hcfg, hpn]
        refine List.nodup_append.2 ⟨node_run_nodup hfl.wide_pos _ _, hfl.nodes_nodup, ?_⟩
        intro a ha hb
        have := hlt a hb; have := hge a ha; omega
      last_ok := fun l hl => by
        rw [hlast] at hl
        rw [List.getLast?_append, hlastn, ← hl]; rfl
      segs_ok := fun s hs => by
        rw [hsegs] at hs
        rw [hcfg, hwide, hunits]
        rcases List.mem_cons.1 hs with hs | hs
        · subst hs
          refine ⟨hseg8, ?_⟩
          have : pool.units * pool.wide = pool.wide * pool.units := Nat.mul_comm _ _
          omega
        · exact ⟨(hfl.segs_ok s hs).1, le_trans (hfl.segs_ok s hs).2 hbrk⟩
      wide_pos := by rw [hwide]; exact hfl.wide_pos
      wide_al := by rw [hwide]; exact hfl.wide_al
      units_pos := by rw [hunits]; exact hfl.units_pos
      size_ok := by rw [hcfg, hwide, hunits]; exact hsz
      has_le := by rw [hhas1, hwide, hmul2]; omega }
  refine ⟨hok, ?_, hge, hhas1, hfree1⟩
  refine h.update hid hp hcfg hheap hbrk hal hle hm1pool ?_ hok ?_
  · intro a ha halt
    refine hnodes a (fun hin => ?_) (fun l hl e => ?_)
    · have := hge a hin; omega
    · subst e
      exact ha (hfl.sub a (List.mem_of_getLast?_eq_some (hfl.last_ok a hl)))
  · intro a ha
    rw [hpn] at ha
    rcases List.mem_append.1 ha with ha | ha
    · exact Or.inr (hge a ha)
    · exact Or.inl ha

theorem pool_lt_length {m : Memory} {id : Nat} {pool : REBPOL} (h : m.pool id = some pool) :
    id < m.Mem_Pools.length := by
  unfold Memory.pool at h
  exact (List.getElem?_eq_some_iff.1 h).1

theorem pool_set_pool_of {m m0 : Memory} {id : Nat} {pool p : REBPOL}
    (h : m0.pool id = some pool) (hm : m.Mem_Pools = m0.Mem_Pools) (j : Nat) :
    (m.set_pool id p).pool j = if id = j then some p else m0.pool j := by
  rw [pool_set_pool]
  have := pool_lt_length h
  rw [hm]
  by_cases e : id = j
  · simp [e, e ▸ this]
  · simp [e, Memory.pool, hm]

theorem pool_set_pool_self {m m0 : Memory} {id : Nat} {pool p : REBPOL}
    (h : m0.pool id = some pool) (hm : m.Mem_Pools = m0.Mem_Pools) :
    (m.set_pool id p).pool id = some p := by
  rw [pool_set_pool_of h hm]; simp

theorem Fill_Pool_spec {m m1 : Memory} {id : Nat} (h : Pools_OK m) (hid : id < SYSTEM_POOL)
    (hf : Fill_Pool m id = .ok () m1) {pool : REBPOL} {fl : List Nat}
    (hp : m.pool id = some pool) (hfl : Pool_OK m pool fl) :
    ∃ pool1 seg, m1.pool id = some pool1 ∧
      pool1.segs = seg :: pool.segs ∧ pool1.wide = pool.wide ∧ pool1.units = pool.units ∧
      (∀ a, a ∉ seg_nodes m.cfg pool seg → (∀ l, pool.last = some l → a ≠ l) →
        m1.nodes a = m.nodes a) ∧ m1.cfg = m.cfg ∧ pool1.last ≠ none ∧
      (Pool_OK m1 pool1 (fl ++ seg_nodes m.cfg pool seg) ∧ Pools_OK m1 ∧
        (∀ a ∈ seg_nodes m.cfg pool seg, m.brk ≤ a) ∧
        pool1.has = pool.has + pool.units ∧ pool1.free = pool.free + pool.units) := by
  unfold Fill_Pool at hf
  rw [hp] at hf
  simp only [] at hf
  split at hf
  · simp at hf
  · simp at hf
  · rename_i seg m2 halloc
    obtain ⟨hcfg, hpools, hnodes, hheap, hseg, hsegend, hbrk, hle, hal⟩ := Alloc_Mem_spec halloc
    obtain ⟨hseg8, hal1⟩ := hal h.brk_al
    have hsz : u32 (pool.wide * pool.units + m.cfg.sizeof_REBSEG) =
        pool.wide * pool.units + m.cfg.sizeof_REBSEG := Nat.mod_eq_of_lt hfl.size_ok
    rw [hsz] at hsegend
    split at hf
    · simp at hf
    · rename_i pool2 m3 hlinked
      split at hf
      · simp at hf
      · rename_i k hk
        simp only [Result.ok.injEq, true_and] at hf
        obtain ⟨L1, L2, L3, L4, L5⟩ := Fill_Pool_loop_spec hfl.wide_pos k
          (seg + m.cfg.sizeof_REBSEG) m3.nodes
        have hk1 : pool.units = k + 1 := hk
        have hsn : seg_nodes m.cfg pool ⟨seg, u32 (pool.wide * pool.units + m.cfg.sizeof_REBSEG)⟩
            = node_run pool.wide (k + 1) (seg + m.cfg.sizeof_REBSEG) := by
          simp [seg_nodes, hk1]
        have hfllt : ∀ a ∈ fl, a < m.brk := fun a ha => mem_pool_nodes_lt hfl (hfl.sub a ha)
        have hnewge : ∀ a ∈ node_run pool.wide (k + 1) (seg + m.cfg.sizeof_REBSEG), m.brk ≤ a :=
          fun a ha => by have := (mem_node_run ha).1; omega
        cases hfirst : pool.first with
        | none =>
          rw [hfirst] at hlinked
          simp only [] at hlinked
          split_ifs at hlinked with hdbg
          simp only [Option.some.injEq, Prod.mk.injEq] at hlinked
          obtain ⟨rfl, rfl⟩ := hlinked
          have hflnil : fl = [] := by
            have := hfl.chain
            rw [hfirst] at this
            cases fl with
            | nil => rfl
            | cons a l => exact absurd this.1 (by simp)
          subst hflnil
          subst hf
          have hfr : ∀ a, a ∉ node_run pool.wide (k + 1) (seg + m.cfg.sizeof_REBSEG) →
              (Fill_Pool_loop pool.wide k (seg + m.cfg.sizeof_REBSEG) m2.nodes).1 a = m.nodes a :=
            fun a ha => by rw [L4 a ha, hnodes]
          refine ⟨_, ⟨seg, _⟩, pool_set_pool_self hp hpools, rfl, rfl, rfl, ?_, hcfg,
            by simp, ?_⟩
          · rw [hsn]; intro a ha _
            exact hfr a ha
          · exact Fill_Pool_core h hid hp hfl hk1 hseg hseg8 hsegend hal1 hle hcfg hheap
              (pool_set_pool_of hp hpools) rfl rfl rfl (by rw [L1]) rfl rfl
              (by rw [hsn]; exact L2) (by rw [hsn]; simpa using L3) (by rw [hsn]; exact L5)
              (by rw [hsn]; intro a ha _; exact hfr a ha)
        | some f =>
          rw [hfirst] at hlinked
          simp only [] at hlinked
          split at hlinked
          · simp at hlinked
          · rename_i last hlast
            simp only [Option.some.injEq, Prod.mk.injEq] at hlinked
            obtain ⟨rfl, rfl⟩ := hlinked
            subst hf
            have hlastfl : fl.getLast? = some last := hfl.last_ok last hlast
            have hlastmem : last ∈ fl := List.mem_of_getLast?_eq_some hlastfl
            have hlastnot : last ∉ node_run pool.wide (k + 1) (seg + m.cfg.sizeof_REBSEG) :=
              fun hin => by have := hnewge last hin; have := hfllt last hlastmem; omega
            have hN : ∀ a, a ∉ node_run pool.wide (k + 1) (seg + m.cfg.sizeof_REBSEG) →
                a ≠ last →
                (Fill_Pool_loop pool.wide k (seg + m.cfg.sizeof_REBSEG)
                  (m2.set_node last { m2.nodes last with
                    next_if_free := some (seg + m.cfg.sizeof_REBSEG) }).nodes).1 a = m.nodes a := by
              intro a ha hne
              rw [L4 a ha]
              simp only [Memory.set_node]
              rw [Function.update_noteq hne, hnodes]
            have hNlast : (Fill_Pool_loop pool.wide k (seg + m.cfg.sizeof_REBSEG)
                  (m2.set_node last { m2.nodes last with
                    next_if_free := some (seg + m.cfg.sizeof_REBSEG) }).nodes).1 last =
                { m.nodes last with next_if_free := some (seg + m.cfg.sizeof_REBSEG) } := by
              rw [L4 last hlastnot]
              simp only [Memory.set_node]
              rw [Function.update_same, hnodes]
            have hchain : IsFreeList (Fill_Pool_loop pool.wide k (seg + m.cfg.sizeof_REBSEG)
                  (m2.set_node last { m2.nodes last with
                    next_if_free := some (seg + m.cfg.sizeof_REBSEG) }).nodes).1 (some f)
                (fl ++ node_run pool.wide (k + 1) (seg + m.cfg.sizeof_REBSEG)) := by
              refine IsFreeList.snoc last ?_ L2 (hfirst ▸ hfl.chain) hlastfl
                hfl.nodup ?_
              · rw [hNlast]
              · intro a ha hne
                rw [hN a (fun hin => ?_) hne]
                have := hnewge a hin; have := hfllt a ha; omega
            have hzero : ∀ a ∈ fl ++ node_run pool.wide (k + 1) (seg + m.cfg.sizeof_REBSEG),
                ((Fill_Pool_loop pool.wide k (seg + m.cfg.sizeof_REBSEG)
                  (m2.set_node last { m2.nodes last with
                    next_if_free := some (seg + m.cfg.sizeof_REBSEG) }).nodes).1 a).header = 0 := by
              intro a ha
              rcases List.mem_append.1 ha with ha | ha
              · by_cases e : a = last
                · subst e; rw [hNlast]; exact hfl.zero a ha
                · rw [hN a (fun hin => ?_) e]
                  · exact hfl.zero a ha
                  · have := hnewge a hin; have := hfllt a ha; omega
              · exact L3 a ha
            refine ⟨_, ⟨seg, _⟩, pool_set_pool_self hp hpools, rfl, rfl, rfl, ?_, hcfg,
              by simp, ?_⟩
            · rw [hsn]; intro a ha hl
              exact hN a ha (hl last hlast)
            · exact Fill_Pool_core h hid hp hfl hk1 hseg hseg8 hsegend hal1 hle hcfg hheap
                (pool_set_pool_of hp hpools) rfl rfl rfl (by rw [L1]) rfl rfl
                (by rw [hsn]; exact hchain) (by rw [hsn]; exact hzero) (by rw [hsn]; exact L5)
                (by rw [hsn]; intro a ha hl; exact hN a ha (hl last hlast))

theorem mem_pool_nodes_aligned {m : Memory} (h : Pools_OK m) {pool : REBPOL} {fl : List Nat}
    (hfl : Pool_OK m pool fl) {a : Nat} (ha : a ∈ pool_nodes m.cfg pool) : a % 8 = 0 := by
  unfold pool_nodes at ha
  rw [List.mem_flatMap] at ha
  obtain ⟨seg, hseg, ha⟩ := ha
  have h1 := (hfl.segs_ok seg hseg).1
  have h2 := h.seg_al
  exact node_run_aligned hfl.wide_al (by omega) ha

theorem Pool_OK.has_le_u32 {m : Memory} (h : Pools_OK m) {pool : REBPOL} {fl : List Nat}
    (hfl : Pool_OK m pool fl) : pool.has * 8 ≤ 4294967296 := by
  have h1 := hfl.has_le
  have h2 := h.brk_le
  have h3 := h.heap
  have h5 : 8 ≤ pool.wide := by have := hfl.wide_pos; have := hfl.wide_al; omega
  have h4 : pool.has * 8 ≤ pool.has * pool.wide := Nat.mul_le_mul_left _ h5
  omega

theorem Make_Node_spec {m : Memory} {id : Nat} (h : Pools_OK m) (hid : id < SYSTEM_POOL)
    {pool : REBPOL} {fl : List Nat} (hp : m.pool id = some pool) (hfl : Pool_OK m pool fl)
    (hne : pool.first ≠ none) :
    ∃ node rest pool1 m1, Make_Node m id = .ok node m1 ∧ fl = node :: rest ∧
      (m.nodes node).header = 0 ∧ node % 8 = 0 ∧ m1.pool id = some pool1 ∧
      Pool_OK m1 pool1 rest ∧ Pools_OK m1 ∧ pool1.free + 1 = pool.free ∧
      pool1.has = pool.has ∧ pool1.segs = pool.segs ∧ pool1.wide = pool.wide ∧
      pool1.units = pool.units ∧ m1.nodes = m.nodes ∧ m1.cfg = m.cfg ∧
      (∀ j, j ≠ id → m1.pool j = m.pool j) := by
  cases hfl_eq : fl with
  | nil =>
    have := hfl.chain
    rw [hfl_eq] at this
    exact absurd this hne
  | cons node rest =>
    subst hfl_eq
    have hfirst : pool.first = some node := hfl.chain.1
    have hzero := hfl.zero node (List.mem_cons_self _ _)
    have hal := mem_pool_nodes_aligned h hfl (hfl.sub node (List.mem_cons_self _ _))
    have hfree := hfl.free_eq
    have hfh := hfl.free_le_has
    have hhu := hfl.has_le_u32 h
    simp only [List.length_cons] at hfree
    have hfree1 : u32 (pool.free + 4294967295) + 1 = pool.free := by
      unfold u32; omega
    obtain ⟨pool1, hdef⟩ : ∃ p : REBPOL, p =
        { pool with first := (m.nodes node).next_if_free,
                    last := if some node = pool.last then none else pool.last,
                    free := u32 (pool.free + 4294967295) } := ⟨_, rfl⟩
    have hpool1 : ∀ j, (m.set_pool id pool1).pool j = if id = j then some pool1 else m.pool j :=
      pool_set_pool_of hp rfl
    have hok : Pool_OK (m.set_pool id pool1) pool1 rest :=
      { chain := by rw [hdef]; exact hfl.chain.2
        zero := fun a ha => hfl.zero a (List.mem_cons_of_mem _ ha)
        free_eq := by rw [hdef]; show u32 (pool.free + 4294967295) = rest.length; omega
        has_eq := by rw [hdef]; exact hfl.has_eq
        sub := fun a ha => by rw [hdef]; exact hfl.sub a (List.mem_cons_of_mem _ ha)
        nodup := (List.nodup_cons.1 hfl.nodup).2
        nodes_nodup := by rw [hdef]; exact hfl.nodes_nodup
        last_ok := fun l hl => by
          rw [hdef] at hl
          simp only [] at hl
          split_ifs at hl with e
          have h1 := hfl.last_ok l hl
          cases rest with
          | nil =>
            simp at h1
            subst h1
            exact absurd hl.symm e
          | cons b t => simpa [List.getLast?_cons_cons] using h1
        segs_ok := by rw [hdef]; exact hfl.segs_ok
        wide_pos := by rw [hdef]; exact hfl.wide_pos
        wide_al := by rw [hdef]; exact hfl.wide_al
        units_pos := by rw [hdef]; exact hfl.units_pos
        size_ok := by rw [hdef]; exact hfl.size_ok
        has_le := by rw [hdef]; exact hfl.has_le }
    refine ⟨node, rest, pool1, m.set_pool id pool1, ?_, rfl, hzero, hal,
      pool_set_pool_self hp rfl, hok, ?_, by rw [hdef]; exact hfree1,
      by rw [hdef], by rw [hdef], by rw [hdef], by rw [hdef], rfl, rfl, fun j hj => ?_⟩
    · unfold Make_Node
      rw [hp]
      simp only [hfirst]
      simp only [reduceCtorEq, if_false, hp, hfirst]
      rw [if_neg]
      · rw [hdef]
      · simp only [hzero, hal]
        simp
    · exact h.update hid hp rfl rfl (le_refl _) h.brk_al h.brk_le hpool1 (fun _ _ _ => rfl) hok
        (fun a ha => Or.inl (by rw [hdef] at ha; exact ha))
    · rw [hpool1 j, if_neg (Ne.symm hj)]

theorem Make_Node_fill {m m1 : Memory} {id : Nat} {pool pool1 : REBPOL}
    (hp : m.pool id = some pool) (hfirst : pool.first = none)
    (hf : Fill_Pool m id = .ok () m1) (hcfg : m1.cfg = m.cfg)
    (hp1 : m1.pool id = some pool1) (hne : pool1.first ≠ none) :
    Make_Node m id = Make_Node m1 id := by
  unfold Make_Node
  rw [hp, hp1]
  simp only [hfirst, hf, if_true, if_neg hne, hp1, hcfg]

theorem Live.not_mem {m : Memory} {pool : REBPOL} {fl : List Nat} {a : Nat}
    (hl : Live m pool a) (hfl : Pool_OK m pool fl) : a ∉ fl :=
  fun hin => hl.2 ⟨fl, hfl.chain, hin⟩

theorem Pool_OK.free_lt_has {m : Memory} {pool : REBPOL} {fl : List Nat}
    (hfl : Pool_OK m pool fl) {a : Nat} (ha : a ∈ pool_nodes m.cfg pool) (hn : a ∉ fl) :
    pool.free < pool.has := by
  rw [hfl.free_eq, hfl.has_eq]
  have h1 : (a :: fl).Nodup := List.nodup_cons.2 ⟨hn, hfl.nodup⟩
  have h2 : a :: fl ⊆ pool_nodes m.cfg pool := by
    intro b hb
    rcases List.mem_cons.1 hb with hb | hb
    · subst hb; exact ha
    · exact hfl.sub b hb
  have := (List.subperm_of_subset h1 h2).length_le
  simpa using this

theorem Pools_OK.store {m : Memory} (h : Pools_OK m) {id : Nat} (hid : id < SYSTEM_POOL)
    {pool : REBPOL} {fl : List Nat} (hp : m.pool id = some pool) (hfl : Pool_OK m pool fl)
    {node : Nat} (hin : node ∈ pool_nodes m.cfg pool) (hn : node ∉ fl) (n : REBNOD) :
    Pool_OK (m.set_node node n) pool fl ∧ Pools_OK (m.set_node node n) := by
  have hok : Pool_OK (m.set_node node n) pool fl :=
    hfl.frame rfl (le_refl _) (fun a ha => by
      show Function.update m.nodes node n a = _
      rw [Function.update_noteq (fun (e : a = node) => hn (e ▸ ha))])
  refine ⟨hok, h.update hid hp rfl rfl (le_refl _) h.brk_al h.brk_le (fun j => ?_) ?_ hok
    (fun a ha => Or.inl ha)⟩
  · show m.pool j = _
    by_cases e : id = j
    · rw [if_pos e, ← e, hp]
    · rw [if_neg e]
  · intro a ha _
    show Function.update m.nodes node n a = _
    rw [Function.update_noteq (fun (e : a = node) => ha (e ▸ hin))]

theorem Pools_OK.push_front {m : Memory} (h : Pools_OK m) {id : Nat} (hid : id < SYSTEM_POOL)
    {pool : REBPOL} {fl : List Nat} (hp : m.pool id = some pool) (hfl : Pool_OK m pool fl)
    {node : Nat} (hin : node ∈ pool_nodes m.cfg pool) (hn : node ∉ fl)
    {m1 : Memory} {pool1 : REBPOL}
    (hm1 : ∀ j, m1.pool j = if id = j then some pool1 else m.pool j)
    (hcfg : m1.cfg = m.cfg) (hheap : m1.heap_end = m.heap_end) (hbrk : m1.brk = m.brk)
    (hnode : m1.nodes node = ⟨0, pool.first⟩)
    (hnodes : ∀ a, a ≠ node → m1.nodes a = m.nodes a)
    (hsegs : pool1.segs = pool.segs) (hwide : pool1.wide = pool.wide)
    (hunits : pool1.units = pool.units) (hhas : pool1.has = pool.has)
    (hfirst : pool1.first = some node) (hlast : pool1.last = pool.last)
    (hfree : pool1.free = u32 (pool.free + 1)) :
    Pool_OK m1 pool1 (node :: fl) ∧ Pools_OK m1 ∧ pool1.free = pool.free + 1 := by
  have hlt := hfl.free_lt_has hin hn
  have hhu := hfl.has_le_u32 h
  have hfree1 : pool1.free = pool.free + 1 := by rw [hfree]; unfold u32; omega
  have hpn := pool_nodes_congr m.cfg pool pool1 hsegs hwide hunits
  have hok : Pool_OK m1 pool1 (node :: fl) :=
    { chain := by
        refine ⟨hfirst, ?_⟩
        rw [hnode]
        exact hfl.chain.congr (fun a ha => by rw [hnodes a (fun e => hn (e ▸ ha))])
      zero := fun a ha => by
        rcases List.mem_cons.1 ha with ha | ha
        · subst ha; rw [hnode]
        · rw [hnodes a (fun e => hn (e ▸ ha))]; exact hfl.zero a ha
      free_eq := by rw [hfree1, hfl.free_eq]; rfl
      has_eq := by rw [hcfg, hpn, hhas]; exact hfl.has_eq
      sub := fun a ha => by
        rw [hcfg, hpn]
        rcases List.mem_cons.1 ha with ha | ha
        · subst ha; exact hin
        · exact hfl.sub a ha
      nodup := List.nodup_cons.2 ⟨hn, hfl.nodup⟩
      nodes_nodup := by rw [hcfg, hpn]; exact hfl.nodes_nodup
      last_ok := fun l hl => by
        rw [hlast] at hl
        have h1 := hfl.last_ok l hl
        cases fl with
        | nil => simp at h1
        | cons b t => simpa [List.getLast?_cons_cons] using h1
      segs_ok := by rw [hsegs, hcfg, hwide, hunits, hbrk]; exact hfl.segs_ok
      wide_pos := by rw [hwide]; exact hfl.wide_pos
      wide_al := by rw [hwide]; exact hfl.wide_al
      units_pos := by rw [hunits]; exact hfl.units_pos
      size_ok := by rw [hwide, hunits, hcfg]; exact hfl.size_ok
      has_le := by rw [hhas, hwide, hbrk]; exact hfl.has_le }
  refine ⟨hok, ?_, hfree1⟩
  refine h.update hid hp hcfg hheap (by omega) (by rw [hbrk]; exact h.brk_al)
    (by rw [hbrk, hheap]; exact h.brk_le) hm1 ?_ hok (fun a ha => Or.inl (by rw [← hpn]; exact ha))
  intro a ha _
  exact hnodes a (fun e => ha (e ▸ hin))

theorem Pools_OK.push_back {m : Memory} (h : Pools_OK m) {id : Nat} (hid : id < SYSTEM_POOL)
    {pool : REBPOL} {fl : List Nat} (hp : m.pool id = some pool) (hfl : Pool_OK m pool fl)
    {node last : Nat} (hin : node ∈ pool_nodes m.cfg pool) (hn : node ∉ fl)
    (hl : pool.last = some last)
    {m1 : Memory} {pool1 : REBPOL}
    (hm1 : ∀ j, m1.pool j = if id = j then some pool1 else m.pool j)
    (hcfg : m1.cfg = m.cfg) (hheap : m1.heap_end = m.heap_end) (hbrk : m1.brk = m.brk)
    (hnode : m1.nodes node = ⟨0, none⟩)
    (hnlast : m1.nodes last = { m.nodes last with next_if_free := some node })
    (hnodes : ∀ a, a ≠ node → a ≠ last → m1.nodes a = m.nodes a)
    (hsegs : pool1.segs = pool.segs) (hwide : pool1.wide = pool.wide)
    (hunits : pool1.units = pool.units) (hhas : pool1.has = pool.has)
    (hfirst : pool1.first = pool.first) (hlast : pool1.last = some node)
    (hfree : pool1.free = u32 (pool.free + 1)) :
    Pool_OK m1 pool1 (fl ++ [node]) ∧ Pools_OK m1 ∧ pool1.free = pool.free + 1 := by
  have hlt := hfl.free_lt_has hin hn
  have hhu := hfl.has_le_u32 h
  have hfree1 : pool1.free = pool.free + 1 := by rw [hfree]; unfold u32; omega
  have hpn := pool_nodes_congr m.cfg pool pool1 hsegs hwide hunits
  have hlfl := hfl.last_ok last hl
  have hlmem : last ∈ fl := List.mem_of_getLast?_eq_some hlfl
  have hne : last ≠ node := fun e => hn (e ▸ hlmem)
  have hok : Pool_OK m1 pool1 (fl ++ [node]) :=
    { chain := by
        rw [hfirst]
        have hone : IsFreeList m1.nodes (some node) [node] := ⟨rfl, by rw [hnode]; exact rfl⟩
        refine IsFreeList.snoc last (by rw [hnlast]) hone
          hfl.chain hlfl hfl.nodup (fun a ha hal => ?_)
        rw [hnodes a (fun e => hn (e ▸ ha)) hal]
      zero := fun a ha => by
        rcases List.mem_append.1 ha with ha | ha
        · by_cases e : a = last
          · subst e; rw [hnlast]; exact hfl.zero a ha
          · rw [hnodes a (fun e => hn (e ▸ ha)) e]; exact hfl.zero a ha
        · rw [List.mem_singleton] at ha; subst ha; rw [hnode]
      free_eq := by rw [hfree1, hfl.free_eq]; simp
      has_eq := by rw [hcfg, hpn, hhas]; exact hfl.has_eq
      sub := fun a ha => by
        rw [hcfg, hpn]
        rcases List.mem_append.1 ha with ha | ha
        · exact hfl.sub a ha
        · rw [List.mem_singleton] at ha; subst ha; exact hin
      nodup := by
        refine List.nodup_append.2 ⟨hfl.nodup, List.nodup_singleton _, ?_⟩
        intro a ha hb
        rw [List.mem_singleton] at hb
        exact hn (hb ▸ ha)
      nodes_nodup := by rw [hcfg, hpn]; exact hfl.nodes_nodup
      last_ok := fun l hl1 => by
        rw [hlast] at hl1
        rw [List.getLast?_concat]; exact hl1
      segs_ok := by rw [hsegs, hcfg, hwide, hunits, hbrk]; exact hfl.segs_ok
      wide_pos := by rw [hwide]; exact hfl.wide_pos
      wide_al := by rw [hwide]; exact hfl.wide_al
      units_pos := by rw [hunits]; exact hfl.units_pos
      size_ok := by rw [hwide, hunits, hcfg]; exact hfl.size_ok
      has_le := by rw [hhas, hwide, hbrk]; exact hfl.has_le }
  refine ⟨hok, ?_, hfree1⟩
  refine h.update hid hp hcfg hheap (by omega) (by rw [hbrk]; exact h.brk_al)
    (by rw [hbrk, hheap]; exact h.brk_le) hm1 ?_ hok (fun a ha => Or.inl (by rw [← hpn]; exact ha))
  intro a ha _
  exact hnodes a (fun e => ha (e ▸ hin)) (fun e => ha (e ▸ hfl.sub last hlmem))

theorem Free_Node_release {m : Memory} {id node : Nat} (h : Pools_OK m)
    (hid : id < SYSTEM_POOL) {pool : REBPOL} {fl : List Nat} (hp : m.pool id = some pool)
    (hfl : Pool_OK m pool fl) (hlive : Live m pool node) (hrel : m.cfg.NDEBUG = true) :
    ∃ m1 pool1, Free_Node m id node = .ok () m1 ∧ m1.pool id = some pool1 ∧
      Pool_OK m1 pool1 (node :: fl) ∧ Pools_OK m1 ∧ pool1.free = pool.free + 1 ∧
      pool1.has = pool.has ∧ (m1.nodes node).header = 0 ∧
      (∀ a, a ≠ node → m1.nodes a = m.nodes a) := by
  have hn := hlive.not_mem hfl
  obtain ⟨pool1, hdef⟩ : ∃ p : REBPOL, p =
      { pool with first := some node, free := u32 (pool.free + 1) } := ⟨_, rfl⟩
  obtain ⟨m1, hm1⟩ : ∃ x : Memory, x =
      ((m.set_node node { m.nodes node with header := 0 }).set_node node
        { (m.set_node node { m.nodes node with header := 0 }).nodes node with
          next_if_free := pool.first }).set_pool id pool1 := ⟨_, rfl⟩
  have hnode : m1.nodes node = ⟨0, pool.first⟩ := by
    rw [hm1]; simp [Memory.set_pool, Memory.set_node]
  have hnodes : ∀ a, a ≠ node → m1.nodes a = m.nodes a := fun a ha => by
    rw [hm1]; simp [Memory.set_pool, Memory.set_node, Function.update_noteq ha]
  have hm1pool : ∀ j, m1.pool j = if id = j then some pool1 else m.pool j := by
    rw [hm1]; exact pool_set_pool_of hp rfl
  have hpush := h.push_front hid hp hfl hlive.1 hn hm1pool
    (by rw [hm1]; rfl) (by rw [hm1]; rfl) (by rw [hm1]; rfl) hnode hnodes
    (by rw [hdef]) (by rw [hdef]) (by rw [hdef]) (by rw [hdef]) (by rw [hdef]) (by rw [hdef])
    (by rw [hdef])
  refine ⟨m1, pool1, ?_, by rw [hm1pool]; simp, hpush.1, hpush.2.1, hpush.2.2, by rw [hdef],
    by rw [hnode], hnodes⟩
  have : (m.set_node node { m.nodes node with header := 0 }).pool id = some pool := hp
  unfold Free_Node
  rw [hm1, hdef]
  simp [hrel, this]

theorem Free_Node_debug {m : Memory} {id node last : Nat} (h : Pools_OK m)
    (hid : id < SYSTEM_POOL) {pool : REBPOL} {fl : List Nat} (hp : m.pool id = some pool)
    (hfl : Pool_OK m pool fl) (hlive : Live m pool node) (hdbg : m.cfg.NDEBUG = false)
    (hhdr : (m.nodes node).header ≠ 0) (hlast : pool.last = some last) :
    ∃ m1 pool1, Free_Node m id node = .ok () m1 ∧ m1.pool id = some pool1 ∧
      Pool_OK m1 pool1 (fl ++ [node]) ∧ Pools_OK m1 ∧ pool1.free = pool.free + 1 ∧
      pool1.has = pool.has ∧ (m1.nodes node).header = 0 ∧
      m1.nodes last = { m.nodes last with next_if_free := some node } ∧
      (∀ a, a ≠ node → a ≠ last → m1.nodes a = m.nodes a) := by
  have hn := hlive.not_mem hfl
  have hlmem : last ∈ fl := List.mem_of_getLast?_eq_some (hfl.last_ok last hlast)
  have hne : last ≠ node := fun e => hn (e ▸ hlmem)
  obtain ⟨pool1, hdef⟩ : ∃ p : REBPOL, p =
      { pool with last := some node, free := u32 (pool.free + 1) } := ⟨_, rfl⟩
  obtain ⟨m0, hm0⟩ : ∃ x : Memory, x = m.set_node node { m.nodes node with header := 0 } :=
    ⟨_, rfl⟩
  obtain ⟨m3, hm3⟩ : ∃ x : Memory, x =
      m0.set_node last { m0.nodes last with next_if_free := some node } := ⟨_, rfl⟩
  obtain ⟨m1, hm1⟩ : ∃ x : Memory, x =
      (m3.set_node node { m3.nodes node with next_if_free := none }).set_pool id pool1 :=
    ⟨_, rfl⟩
  have hnode : m1.nodes node = ⟨0, none⟩ := by
    rw [hm1, hm3, hm0]
    simp [Memory.set_pool, Memory.set_node, Function.update_noteq hne.symm]
  have hnlast : m1.nodes last = { m.nodes last with next_if_free := some node } := by
    rw [hm1, hm3, hm0]
    simp [Memory.set_pool, Memory.set_node, Function.update_noteq hne]
  have hnodes : ∀ a, a ≠ node → a ≠ last → m1.nodes a = m.nodes a := fun a ha hb => by
    rw [hm1, hm3, hm0]
    simp [Memory.set_pool, Memory.set_node, Function.update_noteq ha, Function.update_noteq hb]
  have hm1pool : ∀ j, m1.pool j = if id = j then some pool1 else m.pool j := by
    rw [hm1]; exact pool_set_pool_of hp (by rw [hm3, hm0]; rfl)
  have hpush := h.push_back hid hp hfl hlive.1 hn hlast hm1pool
    (by rw [hm1, hm3, hm0]; rfl) (by rw [hm1, hm3, hm0]; rfl) (by rw [hm1, hm3, hm0]; rfl)
    hnode hnlast hnodes
    (by rw [hdef]) (by rw [hdef]) (by rw [hdef]) (by rw [hdef]) (by rw [hdef]) (by rw [hdef])
    (by rw [hdef])
  refine ⟨m1, pool1, ?_, by rw [hm1pool]; simp, hpush.1, hpush.2.1, hpush.2.2, by rw [hdef],
    by rw [hnode], hnlast, hnodes⟩
  have : (m.set_node node { m.nodes node with header := 0 }).pool id = some pool := hp
  unfold Free_Node
  rw [hm1, hm3, hm0, hdef]
  simp [hdbg, hhdr, this, hlast]

theorem Free_Node_debug_fill {m m2 : Memory} {id node : Nat} (h : Pools_OK m)
    (hid : id < SYSTEM_POOL) {pool : REBPOL} {fl : List Nat} (hp : m.pool id = some pool)
    (hfl : Pool_OK m pool fl) (hlive : Live m pool node) (hdbg : m.cfg.NDEBUG = false)
    (hhdr : (m.nodes node).header ≠ 0) (hlast : pool.last = none)
    (hfill : Fill_Pool (m.set_node node { m.nodes node with header := 0 }) id = .ok () m2) :
    ∃ m1 pool1 seg, Free_Node m id node = .ok () m1 ∧ m1.pool id = some pool1 ∧
      Pool_OK m1 pool1 (fl ++ seg_nodes m.cfg pool seg ++ [node]) ∧ Pools_OK m1 ∧
      pool1.free = pool.free + pool.units + 1 ∧ pool1.has = pool.has + pool.units ∧
      (m1.nodes node).header = 0 := by
  have hn := hlive.not_mem hfl
  obtain ⟨m0, hm0⟩ : ∃ x : Memory, x = m.set_node node { m.nodes node with header := 0 } :=
    ⟨_, rfl⟩
  rw [← hm0] at hfill
  have hp0 : m0.pool id = some pool := by rw [hm0]; exact hp
  have hcfg0 : m0.cfg = m.cfg := by rw [hm0]; rfl
  obtain ⟨hfl0, h0⟩ : Pool_OK m0 pool fl ∧ Pools_OK m0 := by
    rw [hm0]; exact h.store hid hp hfl hlive.1 hn _
  obtain ⟨pool2, seg, hp2, hsegs, hwide, hunits, hframe, hcfg2, hlast2, hfl2, h2, hge, hhas2,
    hfree2⟩ := Fill_Pool_spec h0 hid hfill hp0 hfl0
  rw [hcfg0] at hfl2 hge hframe
  obtain ⟨last2, hlast2⟩ := Option.ne_none_iff_exists'.1 hlast2
  have hnlt : node < m.brk := mem_pool_nodes_lt hfl hlive.1
  have hbrk0 : m0.brk = m.brk := by rw [hm0]; rfl
  have hnnew : node ∉ seg_nodes m.cfg pool seg := fun hin => by
    have := hge node hin; omega
  have hn2 : node ∉ fl ++ seg_nodes m.cfg pool seg := fun hin => by
    rcases List.mem_append.1 hin with hin | hin
    · exact hn hin
    · exact hnnew hin
  have hin2 : node ∈ pool_nodes m2.cfg pool2 := by
    rw [hcfg2, hcfg0, pool_nodes_cons m.cfg pool pool2 seg hsegs hwide hunits]
    exact List.mem_append_right _ hlive.1
  have hlmem : last2 ∈ fl ++ seg_nodes m.cfg pool seg :=
    List.mem_of_getLast?_eq_some (hfl2.last_ok last2 hlast2)
  have hne : last2 ≠ node := fun e => hn2 (e ▸ hlmem)
  have hhdr2 : (m2.nodes node).header = 0 := by
    rw [hframe node hnnew (fun l hl => by rw [hlast] at hl; cases hl), hm0]
    simp [Memory.set_node]
  obtain ⟨pool1, hdef⟩ : ∃ p : REBPOL, p =
      { pool2 with last := some node, free := u32 (pool2.free + 1) } := ⟨_, rfl⟩
  obtain ⟨m3, hm3⟩ : ∃ x : Memory, x =
      m2.set_node last2 { m2.nodes last2 with next_if_free := some node } := ⟨_, rfl⟩
  obtain ⟨m1, hm1⟩ : ∃ x : Memory, x =
      (m3.set_node node { m3.nodes node with next_if_free := none }).set_pool id pool1 :=
    ⟨_, rfl⟩
  have hnode : m1.nodes node = ⟨0, none⟩ := by
    rw [hm1, hm3]
    simp [Memory.set_pool, Memory.set_node, Function.update_noteq hne.symm, hhdr2]
  have hnlast : m1.nodes last2 = { m2.nodes last2 with next_if_free := some node } := by
    rw [hm1, hm3]
    simp [Memory.set_pool, Memory.set_node, Function.update_noteq hne]
  have hnodes : ∀ a, a ≠ node → a ≠ last2 → m1.nodes a = m2.nodes a := fun a ha hb => by
    rw [hm1, hm3]
    simp [Memory.set_pool, Memory.set_node, Function.update_noteq ha, Function.update_noteq hb]
  have hm1pool : ∀ j, m1.pool j = if id = j then some pool1 else m2.pool j := by
    rw [hm1]; exact pool_set_pool_of hp2 (by rw [hm3]; rfl)
  have hpush := h2.push_back hid hp2 hfl2 hin2 hn2 hlast2 hm1pool
    (by rw [hm1, hm3]; rfl) (by rw [hm1, hm3]; rfl) (by rw [hm1, hm3]; rfl)
    hnode hnlast hnodes
    (by rw [hdef]) (by rw [hdef]) (by rw [hdef]) (by rw [hdef]) (by rw [hdef]) (by rw [hdef])
    (by rw [hdef])
  refine ⟨m1, pool1, seg, ?_, by rw [hm1pool]; simp, hpush.1, hpush.2.1, ?_, ?_,
    by rw [hnode]⟩
  · have : (m.set_node node { m.nodes node with header := 0 }).pool id = some pool := hp
    unfold Free_Node
    rw [hm1, hm3, hdef]
    simp only [hdbg, hhdr, this, hlast, ← hm0, hfill, hp2, hlast2]
    simp [hp0, hlast, hp2, hlast2]
  · rw [hpush.2.2, hfree2]
  · rw [hdef]; exact hhas2

theorem Make_Node_preserves {m m1 : Memory} {id node : Nat} (h : Pools_OK m)
    (hid : id < SYSTEM_POOL) (hf : Make_Node m id = .ok node m1) : Pools_OK m1 := by
  cases hp : m.pool id with
  | none => unfold Make_Node at hf; rw [hp] at hf; simp at hf
  | some pool =>
    obtain ⟨fl, hfl⟩ := h.pools id pool hid hp
    by_cases hfirst : pool.first = none
    · cases hfill : Fill_Pool m id with
      | fault f m2 =>
        unfold Make_Node at hf
        rw [hp] at hf
        simp [hfirst, hfill] at hf
      | ok u m2 =>
        obtain ⟨pool2, seg, hp2, hsegs, hwide, hunits, hframe, hcfg2, hlast2, hfl2, h2, hge, hhas2,
          hfree2⟩ := Fill_Pool_spec h hid hfill hp hfl
        have hne : pool2.first ≠ none := by
          intro e
          have hc := hfl2.chain
          rw [e] at hc
          have hlen := hfl2.free_eq
          rw [hfree2] at hlen
          have := hfl.units_pos
          cases hl : fl ++ seg_nodes m.cfg pool seg with
          | nil => rw [hl] at hlen; simp at hlen; omega
          | cons a t => rw [hl] at hc; exact absurd hc.1 (by simp)
        rw [Make_Node_fill hp hfirst hfill hcfg2 hp2 hne] at hf
        obtain ⟨node1, rest, pool3, m3, hmk, _, _, _, _, _, h3, _⟩ :=
          Make_Node_spec h2 hid hp2 hfl2 hne
        rw [hmk] at hf
        simp only [Result.ok.injEq] at hf
        rw [← hf.2]; exact h3
    · obtain ⟨node1, rest, pool3, m3, hmk, _, _, _, _, _, h3, _⟩ :=
        Make_Node_spec h hid hp hfl hfirst
      rw [hmk] at hf
      simp only [Result.ok.injEq] at hf
      rw [← hf.2]; exact h3

theorem Free_Node_preserves {m m1 : Memory} {id node : Nat} (h : Pools_OK m)
    (hid : id < SYSTEM_POOL) {pool : REBPOL} (hp : m.pool id = some pool)
    (hlive : Live m pool node) (hf : Free_Node m id node = .ok () m1) : Pools_OK m1 := by
  obtain ⟨fl, hfl⟩ := h.pools id pool hid hp
  cases hnd : m.cfg.NDEBUG with
  | true =>
    obtain ⟨m2, pool2, hfree, _, _, h2, _⟩ := Free_Node_release h hid hp hfl hlive hnd
    rw [hfree] at hf
    simp only [Result.ok.injEq, true_and] at hf
    rw [← hf]; exact h2
  | false =>
    by_cases hhdr : (m.nodes node).header = 0
    · unfold Free_Node at hf
      simp [hnd, hhdr] at hf
    · cases hlast : pool.last with
      | some last =>
        obtain ⟨m2, pool2, hfree, _, _, h2, _⟩ :=
          Free_Node_debug h hid hp hfl hlive hnd hhdr hlast
        rw [hfree] at hf
        simp only [Result.ok.injEq, true_and] at hf
        rw [← hf]; exact h2
      | none =>
        have hp0 : (m.set_node node { m.nodes node with header := 0 }).pool id = some pool := hp
        cases hfill : Fill_Pool (m.set_node node { m.nodes node with header := 0 }) id with
        | fault f m2 =>
          unfold Free_Node at hf
          simp only [hnd, hhdr, hp0, hlast, hfill] at hf
          simp at hf
        | ok u m2 =>
          obtain ⟨m3, pool3, seg, hfree, _, _, h3, _⟩ :=
            Free_Node_debug_fill h hid hp hfl hlive hnd hhdr hlast hfill
          rw [hfree] at hf
          simp only [Result.ok.injEq, true_and] at hf
          rw [← hf]; exact h3

theorem Pools_OK.frame_other {m m1 : Memory} (h : Pools_OK m) (hcfg : m1.cfg = m.cfg)
    (hheap : m1.heap_end = m.heap_end) (hbrk : m1.brk = m.brk) (hnodes : m1.nodes = m.nodes)
    (hpools : ∀ j, j < SYSTEM_POOL → m1.pool j = m.pool j) : Pools_OK m1 where
  seg_al := by rw [hcfg]; exact h.seg_al
  brk_al := by rw [hbrk]; exact h.brk_al
  brk_le := by rw [hbrk, hheap]; exact h.brk_le
  heap := by rw [hheap]; exact h.heap
  pools := fun j pj hj hpj => by
    rw [hpools j hj] at hpj
    obtain ⟨fl, hfl⟩ := h.pools j pj hj hpj
    exact ⟨fl, hfl.frame hcfg (by rw [hbrk]) (fun a _ => by rw [hnodes])⟩
  disjoint := fun i j pi pj a hi hj hpi hpj hai haj => by
    rw [hpools i hi] at hpi
    rw [hpools j hj] at hpj
    rw [hcfg] at hai haj
    exact h.disjoint i j pi pj a hi hj hpi hpj hai haj

theorem Free_Unbiased_Series_Data_preserves {m m1 : Memory} {node size : Nat}
    (h : Pools_OK m)
    (hlive : FIND_POOL m size < SYSTEM_POOL →
      ∃ pool, m.pool (FIND_POOL m size) = some pool ∧ Live m pool node)
    (hf : Free_Unbiased_Series_Data m node size = .ok () m1) : Pools_OK m1 := by
  unfold Free_Unbiased_Series_Data at hf
  simp only [] at hf
  by_cases hid : FIND_POOL m size < SYSTEM_POOL
  · obtain ⟨pool, hp, hl⟩ := hlive hid
    obtain ⟨fl, hfl⟩ := h.pools _ pool hid hp
    rw [if_pos hid, hp] at hf
    simp only [] at hf
    split_ifs at hf with hass
    simp only [Result.ok.injEq, true_and] at hf
    have hn := hl.not_mem hfl
    have hm1pool : ∀ j, m1.pool j = if FIND_POOL m size = j
        then some { pool with first := some node, free := u32 (pool.free + 1) }
        else m.pool j := by
      rw [← hf]; intro j
      show (Memory.set_pool _ _ _).pool j = _
      exact pool_set_pool_of hp rfl j
    refine (h.push_front hid hp hfl hl.1 hn hm1pool ?_ ?_ ?_ ?_ ?_
      rfl rfl rfl rfl rfl rfl rfl).2.1
    · rw [← hf]; rfl
    · rw [← hf]; rfl
    · rw [← hf]; rfl
    · rw [← hf]; simp [Memory.set_pool, Memory.set_node]
    · rw [← hf]; intro a ha
      simp [Memory.set_pool, Memory.set_node, Function.update_noteq ha]
  · rw [if_neg hid] at hf
    unfold Free_Mem at hf
    split_ifs at hf with hchk
    simp only [] at hf
    split at hf
    · simp at hf
    · simp only [Result.ok.injEq, true_and] at hf
      refine h.frame_other ?_ ?_ ?_ ?_ ?_
      · rw [← hf]; rfl
      · rw [← hf]; rfl
      · rw [← hf]; rfl
      · rw [← hf]; rfl
      · intro j hj
        rw [← hf]
        exact pool_set_pool_ne _ _ _ _ (by omega)

theorem Alloc_Mem_frame {m : Memory} {size : Nat} {p : Option Nat} {m1 : Memory}
    (h : Alloc_Mem m size = .ok p m1) :
    m1.cfg = m.cfg ∧ m1.Mem_Pools = m.Mem_Pools ∧ m1.nodes = m.nodes ∧
    m1.heap_end = m.heap_end ∧ m.brk ≤ m1.brk ∧
    (m.brk ≤ m.heap_end + 8 → m1.brk ≤ m1.heap_end + 8) ∧
    (m.brk % 8 = 0 → m1.brk % 8 = 0) := by
  unfold Alloc_Mem malloc at h
  simp only [] at h
  split_ifs at h with h1 h2 h3 h4
  · simp only [Result.ok.injEq] at h
    obtain ⟨_, rfl⟩ := h
    refine ⟨rfl, rfl, rfl, rfl, ?_, ?_, ?_⟩ <;> dsimp only <;> omega
  · simp only [Result.ok.injEq] at h
    obtain ⟨_, rfl⟩ := h
    refine ⟨rfl, rfl, rfl, rfl, ?_, ?_, ?_⟩ <;> dsimp only <;> omega
  · simp only [Result.ok.injEq] at h
    obtain ⟨_, rfl⟩ := h
    refine ⟨rfl, rfl, rfl, rfl, ?_, ?_, ?_⟩ <;> dsimp only <;> omega

theorem Pools_OK.frame_grow {m m1 : Memory} (h : Pools_OK m) (hcfg : m1.cfg = m.cfg)
    (hheap : m1.heap_end = m.heap_end) (hbrk : m.brk ≤ m1.brk) (hal : m1.brk % 8 = 0)
    (hle : m1.brk ≤ m1.heap_end + 8) (hnodes : m1.nodes = m.nodes)
    (hpools : ∀ j, j < SYSTEM_POOL → m1.pool j = m.pool j) : Pools_OK m1 where
  seg_al := by rw [hcfg]; exact h.seg_al
  brk_al := hal
  brk_le := hle
  heap := by rw [hheap]; exact h.heap
  pools := fun j pj hj hpj => by
    rw [hpools j hj] at hpj
    obtain ⟨fl, hfl⟩ := h.pools j pj hj hpj
    exact ⟨fl, hfl.frame hcfg hbrk (fun a _ => by rw [hnodes])⟩
  disjoint := fun i j pi pj a hi hj hpi hpj hai haj => by
    rw [hpools i hi] at hpi
    rw [hpools j hj] at hpj
    rw [hcfg] at hai haj
    exact h.disjoint i j pi pj a hi hj hpi hpj hai haj

theorem Pool_Step_preserves {m m1 : Memory} (h : Pools_OK m) (hs : Pool_Step m m1) :
    Pools_OK m1 := by
  cases hs with
  | fill id hid hf =>
    cases hp : m.pool id with
    | none => unfold Fill_Pool at hf; rw [hp] at hf; simp at hf
    | some pool =>
      obtain ⟨fl, hfl⟩ := h.pools id pool hid hp
      obtain ⟨_, _, _, _, _, _, _, _, _, _, h2, _⟩ := Fill_Pool_spec h hid hf hp hfl
      exact h2
  | make id node hid hf => exact Make_Node_preserves h hid hf
  | free id node pool hid hp hl hf => exact Free_Node_preserves h hid hp hl hf
  | free_data node size hl hf => exact Free_Unbiased_Series_Data_preserves h hl hf
  | store id node pool n hid hp hl =>
    obtain ⟨fl, hfl⟩ := h.pools id pool hid hp
    exact (h.store hid hp hfl hl.1 (hl.not_mem hfl) n).2
  | alloc size p hf =>
    obtain ⟨hcfg, hpools, hnodes, hheap, hbrk, hle, hal⟩ := Alloc_Mem_frame hf
    exact h.frame_grow hcfg hheap hbrk (hal h.brk_al) (hle h.brk_le) hnodes
      (fun j _ => by unfold Memory.pool; rw [hpools])
  | system p =>
    exact h.frame_grow rfl rfl (le_refl _) h.brk_al h.brk_le rfl
      (fun j hj => pool_set_pool_ne _ _ _ _ (by omega))

theorem Pool_Reach_preserves {m0 m : Memory} (h : Pools_OK m0) (hr : Pool_Reach m0 m) :
    Pools_OK m := by
  induction hr with
  | start => exact h
  | step _ hs ih => exact Pool_Step_preserves ih hs

theorem IsFreeList.unique {nodes : Nat → REBNOD} : ∀ {l l1 : List Nat} {p : Option Nat},
    IsFreeList nodes p l → IsFreeList nodes p l1 → l = l1
  | [], [], _, _, _ => rfl
  | [], b :: _, _, h, h1 => by
    have h2 := h1.1
    rw [show _ = none from h] at h2
    cases h2
  | a :: _, [], _, h, h1 => by
    have h2 := h.1
    rw [show _ = none from h1] at h2
    cases h2
  | a :: l, b :: l1, _, h, h1 => by
    have e : a = b := by
      have h2 := h.1
      rw [h1.1] at h2
      cases h2; rfl
    subst e
    rw [IsFreeList.unique h.2 h1.2]

theorem live_count {l fl : List Nat} (hl : l.Nodup) (hfl : fl.Nodup)
    (hsub : ∀ a ∈ fl, a ∈ l) :
    l.length = fl.length + (l.filter (fun a => decide (a ∉ fl))).length := by
  have h1 := List.length_eq_countP_add_countP (fun a => decide (a ∈ fl)) l
  rw [List.countP_eq_length_filter, List.countP_eq_length_filter] at h1
  have h2 : (l.filter (fun a => decide (a ∈ fl))).Perm fl := by
    rw [List.perm_ext_iff_of_nodup (hl.filter _) hfl]
    intro a
    simp only [List.mem_filter, decide_eq_true_eq]
    exact ⟨fun h => h.2, fun h => ⟨hsub a h, h⟩⟩
  rw [h2.length_eq] at h1
  rw [h1]
  congr 2
  apply List.filter_congr
  intro a _
  simp

theorem Pools_OK_init {m m0 : Memory} {scale unscale : Nat} (hm : Machine_OK m scale unscale)
    (h : Init_Pools_Tables m scale unscale = some m0) : Pools_OK m0 := by
  unfold Init_Pools_Tables Init_Pool_Table at h
  split_ifs at h with hall
  simp only [Option.some.injEq] at h
  have hpool : ∀ id pool, m0.pool id = some pool →
      ∃ spec ∈ Mem_Pool_Spec m.cfg, pool = Init_Pool spec scale unscale := by
    intro id pool hp
    rw [← h] at hp
    simp only [Memory.pool, List.getElem?_map, Option.map_eq_some'] at hp
    obtain ⟨spec, hs, rfl⟩ := hp
    exact ⟨spec, List.getElem?_mem hs, rfl⟩
  have hcfg : m0.cfg = m.cfg := by rw [← h]
  have hbrk : m0.brk = m.brk := by rw [← h]
  have hheap : m0.heap_end = m.heap_end := by rw [← h]
  refine
    { seg_al := by rw [hcfg]; exact hm.seg_al
      brk_al := by rw [hbrk]; exact hm.brk_al
      brk_le := by rw [hbrk, hheap]; exact hm.brk_le
      heap := by rw [hheap]; exact hm.heap
      pools := fun id pool _ hp => ?_
      disjoint := fun i j pi pj a _ _ hpi _ hai _ => ?_ }
  · obtain ⟨spec, hs, rfl⟩ := hpool id pool hp
    have hsz := hm.sizes spec hs
    have hal : spec.wide % 8 = 0 := by
      have := List.all_eq_true.1 hall spec hs
      simpa using this
    refine ⟨[], ?_⟩
    exact
      { chain := rfl
        zero := fun a ha => by simp at ha
        free_eq := rfl
        has_eq := rfl
        sub := fun a ha => by simp at ha
        nodup := List.nodup_nil
        nodes_nodup := List.nodup_nil
        last_ok := fun l hl => by simp [Init_Pool] at hl
        segs_ok := fun seg hseg => by simp [Init_Pool] at hseg
        wide_pos := hsz.1
        wide_al := hal
        units_pos := by
          unfold Init_Pool
          dsimp only
          split_ifs <;> omega
        size_ok := by rw [hcfg]; exact hsz.2
        has_le := by show 0 * _ ≤ _; omega }
  · obtain ⟨spec, _, rfl⟩ := hpool i pi hpi
    simp [pool_nodes, Init_Pool] at hai

/-- C7: in every state reached from the tables Init_Pools builds by calls of Fill_Pool,
Make_Node, Free_Node and Free_Unbiased_Series_Data (and stores into nodes that are handed
out), each pool below `SYSTEM_POOL` has a free list of `pool.free` nodes, all with header
bits 0, and `pool.has = pool.free + (number of live nodes)`. -/
theorem pool_accounting (mb m0 m : Memory) (scale unscale : Nat)
    (hm : Machine_OK mb scale unscale) (hinit : Init_Pools_Tables mb scale unscale = some m0)
    (hr : Pool_Reach m0 m) (id : Nat) (pool : REBPOL) (hid : id < SYSTEM_POOL)
    (hp : m.pool id = some pool) :
    ∃ fl, IsFreeList m.nodes pool.first fl ∧ pool.free = fl.length ∧
      (∀ a ∈ fl, (m.nodes a).header = 0) ∧
      pool.has = pool.free + (live_nodes m.cfg pool fl).length := by
  have h := Pool_Reach_preserves (Pools_OK_init hm hinit) hr
  obtain ⟨fl, hfl⟩ := h.pools id pool hid hp
  refine ⟨fl, hfl.chain, hfl.free_eq, hfl.zero, ?_⟩
  rw [hfl.has_eq, hfl.free_eq]
  exact live_count hfl.nodes_nodup hfl.nodup hfl.sub

theorem demo_tables_OK : Pools_OK demo_tables :=
  Pools_OK_init (m := demo_boot) ⟨by decide, by decide, by decide, by decide, by decide⟩ rfl

theorem demo_made_OK : Pools_OK demo_made :=
  Make_Node_preserves demo_tables_OK (show 3 < SYSTEM_POOL by decide)
    (show Make_Node demo_tables 3 = .ok 4112 demo_made from rfl)

theorem Live.of_chain {m : Memory} {pool : REBPOL} {fl : List Nat} {a : Nat}
    (hfl : IsFreeList m.nodes pool.first fl) (hin : a ∈ pool_nodes m.cfg pool) (hn : a ∉ fl) :
    Live m pool a :=
  ⟨hin, fun ⟨_, h1, h2⟩ => hn (IsFreeList.unique hfl h1 ▸ h2)⟩

/-- Witness of C7: pool 3 of the state reached by one `Make_Node(3)` from the tables of a
64-bit build. -/
theorem pool_accounting_witness :
    Machine_OK demo_boot 1 4096 ∧ Init_Pools_Tables demo_boot 1 4096 = some demo_tables ∧
    Pool_Reach demo_tables demo_made ∧ 3 < SYSTEM_POOL ∧
    demo_made.pool 3 = some ⟨[⟨4096, 272⟩], some 4240, some 4240, 128, 2, 1, 2⟩ ∧
    ∃ fl, IsFreeList demo_made.nodes (some 4240) fl ∧ 1 = fl.length ∧
      (∀ a ∈ fl, (demo_made.nodes a).header = 0) ∧
      2 = 1 + (live_nodes demo_made.cfg ⟨[⟨4096, 272⟩], some 4240, some 4240, 128, 2, 1, 2⟩
        fl).length :=
  ⟨⟨by decide, by decide, by decide, by decide, by decide⟩, rfl,
    .step .start (.make 3 4112 (by decide) rfl), by decide, rfl,
    pool_accounting demo_boot demo_tables demo_made 1 4096
      ⟨by decide, by decide, by decide, by decide, by decide⟩ rfl
      (.step .start (.make 3 4112 (by decide) rfl)) 3 _ (by decide) rfl⟩

/-- C5: in a state whose pools are well formed, Make_Node on a pool with a non-empty free
list returns the first node of that list, whose header bits are 0, leaves the rest of the
list as the free list and decrements `pool.free` by one; on a pool with an empty free list
it first adds one segment of `pool.units` nodes (Fill_Pool) and then does the same. -/
theorem Make_Node_takes_first (m : Memory) (id : Nat) (pool : REBPOL) (fl : List Nat)
    (h : Pools_OK m) (hid : id < SYSTEM_POOL) (hp : m.pool id = some pool)
    (hfl : IsFreeList m.nodes pool.first fl) :
    (pool.first ≠ none →
      ∃ node rest pool1 m1, Make_Node m id = .ok node m1 ∧ fl = node :: rest ∧
        (m1.nodes node).header = 0 ∧ m1.pool id = some pool1 ∧
        IsFreeList m1.nodes pool1.first rest ∧ pool1.free + 1 = pool.free ∧
        pool1.has = pool.has) ∧
    (pool.first = none → ∀ m2, Fill_Pool m id = .ok () m2 →
      ∃ pool2 seg node rest pool1 m1, m2.pool id = some pool2 ∧
        pool2.segs = seg :: pool.segs ∧
        IsFreeList m2.nodes pool2.first (seg_nodes m.cfg pool seg) ∧
        (seg_nodes m.cfg pool seg).length = pool.units ∧
        pool2.has = pool.has + pool.units ∧ pool2.free = pool.free + pool.units ∧
        Make_Node m id = .ok node m1 ∧ seg_nodes m.cfg pool seg = node :: rest ∧
        (m1.nodes node).header = 0 ∧ m1.pool id = some pool1 ∧
        IsFreeList m1.nodes pool1.first rest ∧ pool1.free + 1 = pool2.free ∧
        pool1.has = pool2.has) := by
  obtain ⟨fl0, hfl0⟩ := h.pools id pool hid hp
  have e : fl0 = fl := IsFreeList.unique hfl0.chain hfl
  subst e
  constructor
  · intro hne
    obtain ⟨node, rest, pool1, m1, hmk, hfl1, hz, _, hp1, hok1, _, hfree, hhas, _, _, _, hn, _⟩ :=
      Make_Node_spec h hid hp hfl0 hne
    exact ⟨node, rest, pool1, m1, hmk, hfl1, by rw [hn]; exact hz, hp1, hok1.chain, hfree, hhas⟩
  · intro hfirst m2 hfill
    obtain ⟨pool2, seg, hp2, hsegs, hwide, hunits, hframe, hcfg2, hlast2, hfl2, h2, hge, hhas2,
      hfree2⟩ := Fill_Pool_spec h hid hfill hp hfl0
    have hnil : fl0 = [] := by
      cases fl0 with
      | nil => rfl
      | cons a t => have := hfl.1; rw [hfirst] at this; cases this
    subst hnil
    rw [List.nil_append] at hfl2
    have hlen : (seg_nodes m.cfg pool seg).length = pool.units := node_run_length _ _
    have hne : pool2.first ≠ none := by
      intro e
      have hc := hfl2.chain
      rw [e] at hc
      have := hfl0.units_pos
      cases hl : seg_nodes m.cfg pool seg with
      | nil => rw [hl] at hlen; simp at hlen; omega
      | cons a t => rw [hl] at hc; exact absurd hc.1 (by simp)
    obtain ⟨node, rest, pool1, m1, hmk, hfl1, hz, _, hp1, hok1, _, hfree, hhas, _, _, _, hn, _⟩ :=
      Make_Node_spec h2 hid hp2 hfl2 hne
    refine ⟨pool2, seg, node, rest, pool1, m1, hp2, hsegs, hfl2.chain, hlen, hhas2, hfree2, ?_,
      hfl1, by rw [hn]; exact hz, hp1, hok1.chain, hfree, hhas⟩
    rw [Make_Node_fill hp hfirst hfill hcfg2 hp2 hne]
    exact hmk

/-- Witness of C5: pool 3 of `demo_made`, whose free list holds the one node 4240. -/
theorem Make_Node_takes_first_witness :
    Pools_OK demo_made ∧ 3 < SYSTEM_POOL ∧
    demo_made.pool 3 = some ⟨[⟨4096, 272⟩], some 4240, some 4240, 128, 2, 1, 2⟩ ∧
    IsFreeList demo_made.nodes (some 4240) [4240] ∧
    ∃ node rest pool1 m1, Make_Node demo_made 3 = .ok node m1 ∧ [4240] = node :: rest ∧
        (m1.nodes node).header = 0 ∧ m1.pool 3 = some pool1 ∧
        IsFreeList m1.nodes pool1.first rest ∧ pool1.free + 1 = 1 ∧ pool1.has = 2 :=
  ⟨demo_made_OK, by decide, rfl, ⟨rfl, rfl⟩,
    (Make_Node_takes_first demo_made 3 ⟨[⟨4096, 272⟩], some 4240, some 4240, 128, 2, 1, 2⟩
      [4240] demo_made_OK (by decide) rfl ⟨rfl, rfl⟩).1 (by decide)⟩

theorem demo_made_live :
    Live demo_made ⟨[⟨4096, 272⟩], some 4240, some 4240, 128, 2, 1, 2⟩ 4112 :=
  Live.of_chain (show IsFreeList _ (some 4240) [4240] from ⟨rfl, rfl⟩) (by decide) (by decide)

theorem demo_used_OK : Pools_OK demo_used :=
  Pool_Step_preserves demo_made_OK
    (.store 3 4112 ⟨[⟨4096, 272⟩], some 4240, some 4240, 128, 2, 1, 2⟩ _ (by decide) rfl
      demo_made_live)

theorem demo_used_live :
    Live demo_used ⟨[⟨4096, 272⟩], some 4240, some 4240, 128, 2, 1, 2⟩ 4112 :=
  Live.of_chain (show IsFreeList _ (some 4240) [4240] from ⟨rfl, rfl⟩) (by decide) (by decide)

/-- Counterexample of C6 as stated: in a debug build, with both nodes of pool 3 handed
out (the pool has no last free node), Free_Node on the allocated node 4120 first fills the
pool: `pool.free` goes from 0 to 3 and `pool.has` from 2 to 4. -/
theorem Free_Node_debug_fills_pool :
    debug_made2.cfg.NDEBUG = false ∧
    debug_made2.pool 3 = some ⟨[⟨4104, 272⟩], none, none, 128, 2, 0, 2⟩ ∧
    4120 ∈ pool_nodes debug_made2.cfg ⟨[⟨4104, 272⟩], none, none, 128, 2, 0, 2⟩ ∧
    (debug_made2.nodes 4120).header ≠ 0 ∧
    ∃ m1, Free_Node debug_made2 3 4120 = .ok () m1 ∧
      (m1.pool 3).map (fun p => (p.free, p.has)) = some (3, 4) :=
  ⟨rfl, rfl, by decide, by decide, (Free_Node debug_made2 3 4120).mem, rfl, rfl⟩

/-- C6 (amended): Free_Node on a node that is handed out, with non-zero header bits, sets
the header bits to 0 and puts the node on the free list of its pool. In a release build
the node becomes the first of the list, `pool.free` grows by one, and `pool.has` and every
other node are unchanged. In a debug build the node becomes the last of the list: when the
pool has a last free node, `pool.free` grows by one, `pool.has` is unchanged and of the
other nodes only the link of the former last node changes; when it has none, Fill_Pool adds
a segment first, so that `pool.has` grows by `pool.units` and `pool.free` by
`pool.units + 1`. -/
theorem Free_Node_returns_node (m : Memory) (id node : Nat) (pool : REBPOL) (fl : List Nat)
    (h : Pools_OK m) (hid : id < SYSTEM_POOL) (hp : m.pool id = some pool)
    (hfl : IsFreeList m.nodes pool.first fl) (hlive : Live m pool node)
    (hhdr : (m.nodes node).header ≠ 0) :
    (m.cfg.NDEBUG = true →
      ∃ m1 pool1, Free_Node m id node = .ok () m1 ∧ m1.pool id = some pool1 ∧
        (m1.nodes node).header = 0 ∧ IsFreeList m1.nodes pool1.first (node :: fl) ∧
        pool1.free = pool.free + 1 ∧ pool1.has = pool.has ∧
        ∀ a, a ≠ node → m1.nodes a = m.nodes a) ∧
    (m.cfg.NDEBUG = false → ∀ last, pool.last = some last →
      ∃ m1 pool1, Free_Node m id node = .ok () m1 ∧ m1.pool id = some pool1 ∧
        (m1.nodes node).header = 0 ∧ IsFreeList m1.nodes pool1.first (fl ++ [node]) ∧
        pool1.free = pool.free + 1 ∧ pool1.has = pool.has ∧
        m1.nodes last = { m.nodes last with next_if_free := some node } ∧
        ∀ a, a ≠ node → a ≠ last → m1.nodes a = m.nodes a) ∧
    (m.cfg.NDEBUG = false → pool.last = none →
      ∀ m2, Fill_Pool (m.set_node node { m.nodes node with header := 0 }) id = .ok () m2 →
      ∃ m1 pool1 seg, Free_Node m id node = .ok () m1 ∧ m1.pool id = some pool1 ∧
        (m1.nodes node).header = 0 ∧
        IsFreeList m1.nodes pool1.first (fl ++ seg_nodes m.cfg pool seg ++ [node]) ∧
        pool1.free = pool.free + pool.units + 1 ∧ pool1.has = pool.has + pool.units) := by
  obtain ⟨fl0, hfl0⟩ := h.pools id pool hid hp
  have e : fl0 = fl := IsFreeList.unique hfl0.chain hfl
  subst e
  refine ⟨fun hrel => ?_, fun hdbg last hlast => ?_, fun hdbg hlast m2 hfill => ?_⟩
  · obtain ⟨m1, pool1, hf, hp1, hok, _, hfree, hhas, hz, hn⟩ :=
      Free_Node_release h hid hp hfl0 hlive hrel
    exact ⟨m1, pool1, hf, hp1, hz, hok.chain, hfree, hhas, hn⟩
  · obtain ⟨m1, pool1, hf, hp1, hok, _, hfree, hhas, hz, hl, hn⟩ :=
      Free_Node_debug h hid hp hfl0 hlive hdbg hhdr hlast
    exact ⟨m1, pool1, hf, hp1, hz, hok.chain, hfree, hhas, hl, hn⟩
  · obtain ⟨m1, pool1, seg, hf, hp1, hok, _, hfree, hhas, hz⟩ :=
      Free_Node_debug_fill h hid hp hfl0 hlive hdbg hhdr hlast hfill
    exact ⟨m1, pool1, seg, hf, hp1, hz, hok.chain, hfree, hhas⟩

/-- Witness of C6: the node 4112 of pool 3, handed out and marked in use, in a release
build. -/
theorem Free_Node_returns_node_witness :
    Pools_OK demo_used ∧ 3 < SYSTEM_POOL ∧
    demo_used.pool 3 = some ⟨[⟨4096, 272⟩], some 4240, some 4240, 128, 2, 1, 2⟩ ∧
    IsFreeList demo_used.nodes (some 4240) [4240] ∧
    Live demo_used ⟨[⟨4096, 272⟩], some 4240, some 4240, 128, 2, 1, 2⟩ 4112 ∧
    (demo_used.nodes 4112).header ≠ 0 ∧
    ∃ m1 pool1, Free_Node demo_used 3 4112 = .ok () m1 ∧ m1.pool 3 = some pool1 ∧
        (m1.nodes 4112).header = 0 ∧ IsFreeList m1.nodes pool1.first [4112, 4240] ∧
        pool1.free = 1 + 1 ∧ pool1.has = 2 ∧
        ∀ a, a ≠ 4112 → m1.nodes a = demo_used.nodes a :=
  ⟨demo_used_OK, by decide, rfl, ⟨rfl, rfl⟩, demo_used_live, by decide,
    (Free_Node_returns_node demo_used 3 4112
      ⟨[⟨4096, 272⟩], some 4240, some 4240, 128, 2, 1, 2⟩ [4240] demo_used_OK (by decide) rfl
      ⟨rfl, rfl⟩ demo_used_live (by decide)).1 rfl⟩

theorem Init_Pools_Tables_spec {m m0 : Memory} {scale unscale : Nat}
    (h : Init_Pools_Tables m scale unscale = some m0) :
    m0.PG_Pool_Map = Init_Pool_Map m0.cfg ∧
    ∀ i spec, (Mem_Pool_Spec m0.cfg)[i]? = some spec →
      ∃ pool, m0.pool i = some pool ∧ pool.wide = spec.wide := by
  unfold Init_Pools_Tables Init_Pool_Table at h
  split_ifs at h with hall
  simp only [Option.some.injEq] at h
  subst h
  refine ⟨by dsimp only, fun i spec hs => ⟨Init_Pool spec scale unscale, ?_, rfl⟩⟩
  simp only [Memory.pool, List.getElem?_map]
  rw [hs]; simp

/-- C9: for every request size `n <= 4 * MEM_BIG_SIZE` the entry Init_Pools stores in
`PG_Pool_Map[n]` is below `SYSTEM_POOL` and names a pool of `Mem_Pool_Spec` whose width is
at least `n`; hence, in a state that has this map and pools of these widths, the assertion
`size >= length * wide` of Series_Data_Alloc holds whenever the pooled branch is taken. -/
theorem PG_Pool_Map_wide_enough (c : Config) (n : Nat) (hmin : 8 ≤ MEM_MIN_SIZE c)
    (hn : n ≤ 4 * MEM_BIG_SIZE) :
    (Init_Pool_Map c).getD n 0 < SYSTEM_POOL ∧
    (∃ spec, (Mem_Pool_Spec c)[(Init_Pool_Map c).getD n 0]? = some spec ∧ n ≤ spec.wide) ∧
    ∀ m : Memory, m.cfg = c → m.PG_Pool_Map = Init_Pool_Map c →
      (∀ i spec, (Mem_Pool_Spec c)[i]? = some spec →
        ∃ pool, m.pool i = some pool ∧ pool.wide = spec.wide) →
      ∀ length wide, u32 (length * wide) = n →
        FIND_POOL m (u32 (length * wide)) < SYSTEM_POOL →
        ∃ pool, m.pool (FIND_POOL m (u32 (length * wide))) = some pool ∧
          pool.wide ≥ u32 (length * wide) := by
  obtain ⟨h1, spec, h2, h3⟩ := Pool_Map_Entry_spec c n hmin hn
  rw [← Init_Pool_Map_getD c n hn] at h1 h2
  refine ⟨lt_trans h1 (show SER_POOL < SYSTEM_POOL by decide), ⟨spec, h2, h3⟩, ?_⟩
  intro m _ hmap hwide length wide hlw hfind
  rw [hlw] at hfind ⊢
  have hf : FIND_POOL m n = (Init_Pool_Map c).getD n 0 := by
    unfold FIND_POOL at hfind ⊢
    rw [hmap] at hfind ⊢
    split_ifs at hfind ⊢
    · rfl
    · rfl
    · exact absurd hfind (Nat.lt_irrefl SYSTEM_POOL)
  rw [hf]
  obtain ⟨pool, hp, hw⟩ := hwide _ spec h2
  exact ⟨pool, hp, by rw [hw]; exact h3⟩

set_option maxRecDepth 100000 in
/-- Witness of C9: a request of 3000 bytes in a 64-bit build, where pool 22 of width
3072 serves it. -/
theorem PG_Pool_Map_wide_enough_witness :
    8 ≤ MEM_MIN_SIZE config64 ∧ 3000 ≤ 4 * MEM_BIG_SIZE ∧
    (Init_Pool_Map config64).getD 3000 0 < SYSTEM_POOL ∧
    (∃ spec, (Mem_Pool_Spec config64)[(Init_Pool_Map config64).getD 3000 0]? = some spec ∧
      3000 ≤ spec.wide) ∧
    ∃ pool, demo_tables.pool (FIND_POOL demo_tables (u32 (3000 * 1))) = some pool ∧
      pool.wide ≥ u32 (3000 * 1) :=
  ⟨by decide, by decide,
    (PG_Pool_Map_wide_enough config64 3000 (by decide) (by decide)).1,
    (PG_Pool_Map_wide_enough config64 3000 (by decide) (by decide)).2.1,
    (PG_Pool_Map_wide_enough config64 3000 (by decide) (by decide)).2.2 demo_tables rfl
      (Init_Pools_Tables_spec (m := demo_boot) rfl).1
      (Init_Pools_Tables_spec (m := demo_boot) rfl).2 3000 1 rfl (by decide)⟩

theorem FIND_POOL_big (m : Memory) {n : Nat} (h : 4 * MEM_BIG_SIZE < n) :
    FIND_POOL m n = SYSTEM_POOL := by
  unfold FIND_POOL
  have h1 : ¬ n ≤ 4 * MEM_BIG_SIZE := by omega
  simp [h1]

theorem pow2_loop_spec (size : Nat) (hsize : size ≤ 2147483648) :
    ∀ fuel j, 11 ≤ j → j ≤ 31 → (j = 11 ∨ 2 ^ (j - 1) < size) → 32 ≤ fuel + j →
      ∃ k, j ≤ k ∧ k ≤ 31 ∧ size ≤ 2 ^ k ∧ (k = 11 ∨ 2 ^ (k - 1) < size) ∧
        pow2_loop size fuel (2 ^ j) = some (2 ^ k) := by
  intro fuel
  induction fuel with
  | zero => intro j _ h2 _ h4; omega
  | succ fuel ih =>
    intro j h1 h2 h3 h4
    unfold pow2_loop
    by_cases hlt : 2 ^ j < size
    · have hj : j < 31 := by
        by_contra hge
        have : j = 31 := by omega
        subst this
        norm_num at hlt
        omega
      have hu : u32 (2 ^ j * 2) = 2 ^ (j + 1) := by
        unfold u32
        rw [← pow_succ]
        apply Nat.mod_eq_of_lt
        calc 2 ^ (j + 1) ≤ 2 ^ 31 := Nat.pow_le_pow_right (by decide) (by omega)
          _ < 4294967296 := by norm_num
      rw [if_pos hlt, hu]
      obtain ⟨k, hk1, hk2, hk3, hk4, hk5⟩ :=
        ih (j + 1) (by omega) (by omega) (Or.inr (by simpa using hlt)) (by omega)
      exact ⟨k, by omega, hk2, hk3, hk4, hk5⟩
    · rw [if_neg hlt]
      exact ⟨j, le_refl _, h2, by omega, h3, rfl⟩

theorem pow2_loop_unique {size k k1 : Nat} (h1 : size ≤ 2 ^ k) (h2 : 2 ^ (k - 1) < size)
    (hk : 12 ≤ k) (h3 : size ≤ 2 ^ k1) (h4 : k1 = 11 ∨ 2 ^ (k1 - 1) < size) : k1 = k := by
  have a : k - 1 < k1 := (Nat.pow_lt_pow_iff_right (by decide : 1 < 2)).1 (lt_of_lt_of_le h2 h3)
  rcases h4 with h4 | h4
  · omega
  · have b : k1 - 1 < k :=
      (Nat.pow_lt_pow_iff_right (by decide : 1 < 2)).1 (lt_of_lt_of_le h4 h1)
    omega

theorem REBSER.write_length {s s1 : REBSER} {addr : Nat} {bytes : List Nat}
    (h : s.write addr bytes = some s1) :
    s1.mem.length = s.mem.length ∧ s1.data = s.data ∧ s1.rest = s.rest ∧ s1.wide = s.wide ∧
      s1.len = s.len ∧ s1.bias = s.bias ∧ s1.base = s.base := by
  unfold REBSER.write at h
  split_ifs at h with hc
  simp only [Option.some.injEq] at h
  subst h
  refine ⟨?_, rfl, rfl, rfl, rfl, rfl, rfl⟩
  simp only [List.length_append, List.length_take, List.length_drop]
  omega

theorem fresh_mem_length (m : Memory) (addr size : Nat) :
    (fresh_mem m addr size).length = size := by
  simp [fresh_mem]

theorem not_pow2_3072 (k : Nat) : 2 ^ k ≠ 3072 := by
  intro h
  rcases Nat.lt_or_ge k 12 with h1 | h1
  · have : 2 ^ k ≤ 2 ^ 11 := Nat.pow_le_pow_right (by decide) (by omega)
    omega
  · have : 2 ^ 12 ≤ 2 ^ k := Nat.pow_le_pow_right (by decide) h1
    omega

theorem FIND_POOL_demo_3000 : FIND_POOL demo_tables (u32 (3000 * 1)) = 22 := by
  have h0 : u32 (3000 * 1) = 3000 := by decide
  have h1 : demo_tables.PG_Pool_Map = Init_Pool_Map config64 :=
    (Init_Pools_Tables_spec (m := demo_boot) rfl).1
  have h2 : demo_tables.cfg = config64 := rfl
  unfold FIND_POOL
  rw [h0, h1, h2, Init_Pool_Map_getD _ _ (by decide)]
  decide

theorem Series_Data_Alloc_pooled {m m1 : Memory} {s : REBSER} {length wide id node : Nat}
    {flags : MKS} {pool : REBPOL} (hrel : m.cfg.NDEBUG = true)
    (hfind : FIND_POOL m (u32 (length * wide)) = id) (hid : id < SYSTEM_POOL)
    (hmk : Make_Node m id = .ok node m1) (hp : m1.pool id = some pool) (hw : wide ≠ 0)
    (harr : flags.ARRAY = false) :
    ∃ r, Series_Data_Alloc m s length wide flags = .ok (true, r) (m1.sub_ballast pool.wide) ∧
      r.data = some node ∧ r.rest = pool.wide / wide ∧ r.mem.length = pool.wide ∧
      r.power_of_2 = false ∧ r.wide = wide ∧ r.len = 0 ∧ r.bias = 0 ∧ r.has_dynamic = true := by
  unfold Series_Data_Alloc Series_Data_Alloc_block Series_Data_Alloc_setup
  simp only [hfind, hmk, hp, hrel, hid, if_true, not_true_eq_false, false_and, if_false, hw,
    harr, Bool.false_eq_true]
  exact ⟨_, rfl, rfl, rfl, fresh_mem_length _ _ _, rfl, rfl, rfl, rfl, rfl⟩

/-- C8 is refuted: a request of 3000 bytes with the power-of-2 flag, which is more than
`MEM_BIG_SIZE` (and more than 256), is served by the pool of width 3072; the size allocated
is 3072, which is not a power of two, and the flag is cleared. -/
theorem Series_Data_Alloc_pooled_not_rounded :
    MEM_BIG_SIZE < u32 (3000 * 1) ∧ MKS_POWER_OF_2.POWER_OF_2 = true ∧
    ∃ r m1, Series_Data_Alloc demo_tables blank_series 3000 1 MKS_POWER_OF_2 = .ok (true, r) m1 ∧
      r.rest = 3072 ∧ r.mem.length = 3072 ∧ r.power_of_2 = false ∧
      (∀ k, 2 ^ k ≠ r.mem.length) := by
  have hmk : Make_Node demo_tables 22 = .ok 4112 (Make_Node demo_tables 22).mem := rfl
  have hpool : (Make_Node demo_tables 22).mem.pool 22 =
      some ⟨[⟨4096, 6160⟩], some 7184, some 7184, 3072, 2, 1, 2⟩ := rfl
  obtain ⟨r, h1, _, h3, h4, h5, _⟩ :=
    Series_Data_Alloc_pooled (s := blank_series) (show demo_tables.cfg.NDEBUG = true from rfl)
      FIND_POOL_demo_3000 (by decide) hmk hpool (show 1 ≠ 0 by decide)
      (show MKS_POWER_OF_2.ARRAY = false from rfl)
  exact ⟨by decide, rfl, r, _, h1, h3, h4, h5, fun k => by rw [h4]; exact not_pow2_3072 k⟩
/-- C8 (amended): when Series_Data_Alloc is called with the power-of-2 flag and a byte size
`length * wide` (a `REBCNT`) above `4 * MEM_BIG_SIZE` and at most `2^31`, the size it asks
Alloc_Mem for is `2 ^ k`, the least power of two at or above the byte size (so above 2048);
what Alloc_Mem answers decides the result, and on success the series owns `2 ^ k` bytes,
`rest` is `2 ^ k / wide` and the system pool has grown by `2 ^ k`. -/
theorem Series_Data_Alloc_power_of_2 (m : Memory) (s : REBSER) (length wide : Nat) (flags : MKS)
    (hflag : flags.POWER_OF_2 = true)
    (hbig : 4 * MEM_BIG_SIZE < u32 (length * wide))
    (hmax : u32 (length * wide) ≤ 2147483648)
    (hwide : 0 < wide) (hbyte : wide < 256)
    (hdebug : m.cfg.NDEBUG = false → s.data = none ∧ (wide = 1 ∨ wide % 2 ≠ 1))
    (harray : flags.ARRAY = true →
      wide = m.cfg.sizeof_REBVAL ∧ m.cfg.sizeof_REBUPT ≤ m.cfg.sizeof_REBVAL) :
    ∃ k, 11 ≤ k ∧ u32 (length * wide) ≤ 2 ^ k ∧ 2 ^ k < 2 * u32 (length * wide) ∧
      (∀ f m1, Alloc_Mem m (2 ^ k) = .fault f m1 →
        Series_Data_Alloc m s length wide flags = .fault f m1) ∧
      (∀ m1, Alloc_Mem m (2 ^ k) = .ok none m1 →
        ∃ r, Series_Data_Alloc m s length wide flags = .ok (false, r) m1) ∧
      ∀ data m1 pool, Alloc_Mem m (2 ^ k) = .ok (some data) m1 →
        m1.pool SYSTEM_POOL = some pool →
        ∃ r m2, Series_Data_Alloc m s length wide flags = .ok (true, r) m2 ∧
          r.data = some data ∧ r.mem.length = 2 ^ k ∧ r.rest = 2 ^ k / wide ∧
          m2.pool SYSTEM_POOL =
            some { pool with has := u32 (pool.has + 2 ^ k), free := u32 (pool.free + 1) } := by
  obtain ⟨k, hk1, hk2, hk3, hk4, hloop⟩ :=
    pow2_loop_spec (u32 (length * wide)) hmax 64 11 (le_refl _) (by omega) (Or.inl rfl)
      (by omega)
  norm_num at hloop
  have hk13 : 12 < k := by
    apply (Nat.pow_lt_pow_iff_right (by decide : 1 < 2)).1
    unfold MEM_BIG_SIZE at hbig
    omega
  have hk5 : 2 ^ (k - 1) < u32 (length * wide) := by omega
  have hk6 : 2 ^ k = 2 * 2 ^ (k - 1) := by
    rw [← pow_succ']; congr 1; omega
  have hfind := FIND_POOL_big m hbig
  have hpre : ¬ (¬ m.cfg.NDEBUG = true ∧ (s.data ≠ none ∨ ¬ (wide = 1 ∨ wide % 2 ≠ 1))) := by
    rintro ⟨h1, h2⟩
    have := hdebug (by simpa using h1)
    tauto
  have hw0 : wide ≠ 0 := by omega
  refine ⟨k, hk1, hk3, by omega, ?_, ?_, ?_⟩
  · intro f m1 ha
    unfold Series_Data_Alloc Series_Data_Alloc_block Series_Data_Alloc_setup
    simp only [hfind, lt_irrefl, if_false, hflag, hloop, if_true, hpre, ha, hw0, and_false]
  · intro m1 ha
    unfold Series_Data_Alloc Series_Data_Alloc_block Series_Data_Alloc_setup
    simp only [hfind, lt_irrefl, if_false, hflag, hloop, if_true, hpre, ha, hw0, and_false]
    exact ⟨_, rfl⟩
  · intro data m1 pool ha hp
    unfold Series_Data_Alloc Series_Data_Alloc_block Series_Data_Alloc_setup
    simp only [hfind, lt_irrefl, if_false, hflag, hloop, if_true, hpre, ha, hw0, and_false, hp]
    have hkw : wide ≤ 2 ^ k := by
      have : 2 ^ 12 < 2 ^ k := Nat.pow_lt_pow_right (by decide) hk13
      omega
    have hrest : 2 ^ k / wide ≠ 0 := by
      have := Nat.div_pos hkw hwide
      omega
    have hmul : 2 ^ k / wide * wide ≤ 2 ^ k := Nat.div_mul_le_self _ _
    have hmul2 : 2 ^ k < (2 ^ k / wide + 1) * wide := by
      have := Nat.lt_div_mul_add (a := 2 ^ k) hwide
      linarith
    have h1 : ¬ (¬ m.cfg.NDEBUG = true ∧ flags.ARRAY = true ∧ wide ≠ m.cfg.sizeof_REBVAL) := by
      rintro ⟨_, h2, h3⟩
      exact h3 (harray h2).1
    have hpool : ∀ q : REBPOL,
        ((m1.set_pool SYSTEM_POOL q).sub_ballast (2 ^ k)).pool SYSTEM_POOL = some q :=
      fun q => pool_set_pool_same m1 SYSTEM_POOL q pool hp
    have h2 : ∀ a mm, Series_Allocation_Unpooled
        { node := s.node, valid := s.valid, managed := s.managed, is_array := a,
          fixed_size := s.fixed_size, wide := wide, has_dynamic := true,
          power_of_2 := decide (2 ^ k % wide ≠ 0), info_len := s.info_len,
          info_end := s.info_end, data := some data,
          len := 0, rest := 2 ^ k / wide, bias := 0, base := data, mem := mm } =
        some (2 ^ k) := by
      intro a mm
      unfold Series_Allocation_Unpooled SER_TOTAL SER_BIAS
      have hlt : 2 ^ k / wide * wide < 4294967296 := by
        have : 2 ^ k ≤ 2 ^ 31 := Nat.pow_le_pow_right (by decide) hk2
        omega
      have hu : u32 ((2 ^ k / wide + 0) * wide) = 2 ^ k / wide * wide := by
        unfold u32; rw [Nat.add_zero]; exact Nat.mod_eq_of_lt hlt
      simp only [hu]
      by_cases hdiv : 2 ^ k % wide = 0
      · have : 2 ^ k / wide * wide = 2 ^ k := Nat.div_mul_cancel (Nat.dvd_of_mod_eq_zero hdiv)
        simp [hdiv, this]
      · simp only [ne_eq, hdiv, not_false_eq_true, decide_True, if_true]
        obtain ⟨k1, _, _, hb3, hb4, hb5⟩ :=
          pow2_loop_spec (2 ^ k / wide * wide) (by
            have : 2 ^ k ≤ 2 ^ 31 := Nat.pow_le_pow_right (by decide) hk2
            omega) 64 11 (le_refl _) (by omega) (Or.inl rfl) (by omega)
        norm_num at hb5
        have hhalf : 2 ^ (k - 1) < 2 ^ k / wide * wide := by
          have : 2 ^ 12 ≤ 2 ^ (k - 1) := Nat.pow_le_pow_right (by decide) (by omega)
          have h3 : (2 ^ k / wide + 1) * wide = 2 ^ k / wide * wide + wide := by ring
          omega
        have := pow2_loop_unique hmul hhalf (by omega) hb3 hb4
        rw [hb5, this]
    simp only [h1, if_false, h2, ne_eq, not_true_eq_false, and_false, hrest]
    by_cases ha : flags.ARRAY = true
    · obtain ⟨hv, hu⟩ := harray ha
      simp only [ha, if_true]
      have hlen : (header_bytes m.cfg NODE_FLAG_END).length = m.cfg.sizeof_REBUPT := by
        simp [header_bytes]
      have hin : (2 ^ k / wide - 1) * m.cfg.sizeof_REBVAL + m.cfg.sizeof_REBUPT ≤ 2 ^ k := by
        rw [← hv]
        have h3 : (2 ^ k / wide - 1) * wide + wide = 2 ^ k / wide * wide := by
          have : 2 ^ k / wide - 1 + 1 = 2 ^ k / wide :=
            Nat.sub_add_cancel (Nat.pos_of_ne_zero hrest)
          calc (2 ^ k / wide - 1) * wide + wide = (2 ^ k / wide - 1 + 1) * wide := by ring
            _ = _ := by rw [this]
        omega
      obtain ⟨s3, hs3⟩ : ∃ s3, REBSER.write
          { node := s.node, valid := s.valid, managed := s.managed, is_array := true,
            fixed_size := s.fixed_size, wide := wide, has_dynamic := true,
            power_of_2 := decide (2 ^ k % wide ≠ 0), info_len := s.info_len,
            info_end := s.info_end, data := some data,
            len := 0, rest := 2 ^ k / wide, bias := 0, base := data,
            mem := fresh_mem m1 data (2 ^ k) }
          (data + (2 ^ k / wide - 1) * m.cfg.sizeof_REBVAL)
          (header_bytes m.cfg NODE_FLAG_END) = some s3 := by
        unfold REBSER.write
        rw [if_pos]
        · exact ⟨_, rfl⟩
        · simp only [hlen, fresh_mem_length]
          omega
      have hw := REBSER.write_length hs3
      simp only [fresh_mem_length] at hw
      simp only [ne_eq] at hs3
      rw [hs3]
      exact ⟨s3, _, rfl, hw.2.1, hw.1, hw.2.2.1, hpool _⟩
    · simp only [ha, if_false]
      exact ⟨_, _, rfl, rfl, fresh_mem_length _ _ _, rfl, hpool _⟩

/-- Witness of C8 (amended): 5000 bytes in the 64-bit release state `demo_tables`. -/
theorem Series_Data_Alloc_power_of_2_witness :
    MKS_POWER_OF_2.POWER_OF_2 = true ∧ 4 * MEM_BIG_SIZE < u32 (5000 * 1) ∧
    u32 (5000 * 1) ≤ 2147483648 ∧
    ∃ k, 11 ≤ k ∧ u32 (5000 * 1) ≤ 2 ^ k ∧ 2 ^ k < 2 * u32 (5000 * 1) ∧
      (∀ f m1, Alloc_Mem demo_tables (2 ^ k) = .fault f m1 →
        Series_Data_Alloc demo_tables blank_series 5000 1 MKS_POWER_OF_2 = .fault f m1) ∧
      (∀ m1, Alloc_Mem demo_tables (2 ^ k) = .ok none m1 →
        ∃ r, Series_Data_Alloc demo_tables blank_series 5000 1 MKS_POWER_OF_2 =
          .ok (false, r) m1) ∧
      ∀ data m1 pool, Alloc_Mem demo_tables (2 ^ k) = .ok (some data) m1 →
        m1.pool SYSTEM_POOL = some pool →
        ∃ r m2, Series_Data_Alloc demo_tables blank_series 5000 1 MKS_POWER_OF_2 =
            .ok (true, r) m2 ∧
          r.data = some data ∧ r.mem.length = 2 ^ k ∧ r.rest = 2 ^ k / 1 ∧
          m2.pool SYSTEM_POOL =
            some { pool with has := u32 (pool.has + 2 ^ k), free := u32 (pool.free + 1) } :=
  ⟨rfl, by decide, by decide,
    Series_Data_Alloc_power_of_2 demo_tables blank_series 5000 1 MKS_POWER_OF_2 rfl
      (by decide) (by decide) (by decide) (by decide)
      (fun h => absurd (show demo_tables.cfg.NDEBUG = true from rfl) (by rw [h]; decide))
      (fun h => absurd h (by decide))⟩

/-- C10 is refuted: in a release build whose system allocator cannot serve 5000 bytes,
`Make_Series(5000, 1, MKS_NONE)` fails with the no-memory error although `5000 * 1` is
far below `2^31 - 1`; the failure comes after a node was taken from `SER_POOL` (which
made the pool fill) and the ballast was charged `sizeof(REBSER)`. -/
theorem Make_Series_fails_after_node :
    (5000 : Nat) ≠ 0 ∧ (1 : Nat) ≠ 0 ∧ 5000 * 1 ≤ MAX_I32 ∧
    ∃ m1, Make_Series small_tables 5000 1 MKS_NONE = .fault (.no_memory 5000) m1 ∧
      small_tables.GC_Ballast = 3000000 ∧ m1.GC_Ballast = 2999936 ∧
      (small_tables.pool SER_POOL).map (fun p => (p.free, p.has)) = some (0, 0) ∧
      (m1.pool SER_POOL).map (fun p => (p.free, p.has)) = some (2, 2) :=
  ⟨by decide, by decide, by decide, (Make_Series small_tables 5000 1 MKS_NONE).mem,
    rfl, rfl, rfl, rfl, rfl⟩

theorem Alloc_Mem_fault {m m1 : Memory} {size : Nat} {f : Fault}
    (h : Alloc_Mem m size = .fault f m1) : f = .security ∨ f = .undefined := by
  unfold Alloc_Mem at h
  simp only [] at h
  split_ifs at h
  · simp only [Result.fault.injEq] at h; exact Or.inl h.1.symm
  · split at h
    · first
        | exact Or.inr h.1.symm
        | (simp only [Result.fault.injEq] at h; exact Or.inr h.1.symm)
    · simp at h

theorem Fill_Pool_fault {m m1 : Memory} {id : Nat} {f : Fault}
    (h : Fill_Pool m id = .fault f m1) : f = .security ∨ f = .undefined ∨ f = .panic := by
  unfold Fill_Pool at h
  split at h
  · simp only [Result.fault.injEq] at h; exact Or.inr (Or.inl h.1.symm)
  · simp only [] at h
    split at h
    · rename_i f1 m2 ha
      simp only [Result.fault.injEq] at h
      rcases Alloc_Mem_fault ha with h1 | h1
      · exact Or.inl (h.1 ▸ h1)
      · exact Or.inr (Or.inl (h.1 ▸ h1))
    · simp only [Result.fault.injEq] at h; exact Or.inr (Or.inr h.1.symm)
    · split at h
      · simp only [Result.fault.injEq] at h; exact Or.inr (Or.inl h.1.symm)
      · split at h
        · simp only [Result.fault.injEq] at h; exact Or.inr (Or.inl h.1.symm)
        · simp at h

theorem Make_Node_fault {m m1 : Memory} {id : Nat} {f : Fault}
    (h : Make_Node m id = .fault f m1) : f = .security ∨ f = .undefined ∨ f = .panic := by
  unfold Make_Node at h
  split at h
  · simp only [Result.fault.injEq] at h; exact Or.inr (Or.inl h.1.symm)
  · simp only [] at h
    split at h
    · rename_i f1 m2 hf
      simp only [Result.fault.injEq] at h
      rw [← h.1]
      split_ifs at hf with h0
      · exact Fill_Pool_fault hf
    · split at h
      · simp only [Result.fault.injEq] at h; exact Or.inr (Or.inl h.1.symm)
      · split at h
        · simp only [Result.fault.injEq] at h; exact Or.inr (Or.inl h.1.symm)
        · split_ifs at h <;>
            (simp only [Result.fault.injEq] at h; exact Or.inr (Or.inl h.1.symm))

/-- C10 (amended): for a non-zero capacity and width, if `capacity * wide` (computed without
overflow) exceeds `2^31 - 1`, Make_Series fails with the no-memory error for that product
before anything is done: the state at the failure is the state at the call. If the product
is at most `2^31 - 1`, Make_Series can still fail with a no-memory error, but only after
Make_Node has handed out a node of `SER_POOL`. -/
theorem Make_Series_size_check (m : Memory) (capacity wide : Nat) (flags : MKS)
    (hc : capacity ≠ 0) (hw : wide ≠ 0) (hp : flags.PRESERVE = false) :
    (capacity * wide > MAX_I32 →
      Make_Series m capacity wide flags = .fault (.no_memory (capacity * wide)) m) ∧
    (capacity * wide ≤ MAX_I32 → ∀ bytes mf,
      Make_Series m capacity wide flags = .fault (.no_memory bytes) mf →
      ∃ node m1, Make_Node m SER_POOL = .ok node m1) := by
  have hpre : ¬ (¬ m.cfg.NDEBUG = true ∧
      (flags.PRESERVE = true ∨ ¬ (wide ≠ 0 ∧ capacity ≠ 0))) := by
    rintro ⟨_, h | h⟩
    · rw [hp] at h; exact Bool.noConfusion h
    · exact h ⟨hw, hc⟩
  constructor
  · intro h
    unfold Make_Series
    simp only [hpre, if_false, h, if_true]
  · intro h bytes mf hf
    have h1 : ¬ capacity * wide > MAX_I32 := by omega
    unfold Make_Series at hf
    simp only [hpre, if_false, h1] at hf
    split at hf
    · rename_i f m1 hmk
      simp only [Result.fault.injEq] at hf
      rcases Make_Node_fault hmk with e | e | e <;> rw [e] at hf <;> exact Fault.noConfusion hf.1
    · rename_i node m1 hmk
      exact ⟨node, m1, hmk⟩

/-- Witness of C10 (amended): a request of `2^31` bytes is refused at once, and the
failure of the request of 5000 bytes in `small_tables` came after a node was handed out. -/
theorem Make_Series_size_check_witness :
    Make_Series small_tables 2147483648 1 MKS_NONE =
      .fault (.no_memory (2147483648 * 1)) small_tables ∧
    ∃ node m1, Make_Node small_tables SER_POOL = .ok node m1 :=
  ⟨(Make_Series_size_check small_tables 2147483648 1 MKS_NONE (by decide) (by decide)
      rfl).1 (by decide),
    (Make_Series_size_check small_tables 5000 1 MKS_NONE (by decide) (by decide) rfl).2
      (by decide) 5000 (Make_Series small_tables 5000 1 MKS_NONE).mem rfl⟩

/-- C1 fails where `delta * wide` overflows 32 bits: expanding the 16-element-capacity
series `overflow_series` (one element of 4 bytes) at index 0 by `delta = 2^30` takes the
in-place path, because `extra = delta * wide` is 0 as a `REBCNT`; the call returns without
failing, the length is `1 + 2^30` while the capacity is still 16 elements (64 bytes), and
element `0 + delta` is not in the memory of the series. -/
theorem Expand_Series_overflow_in_place :
    0 ≤ SER_LEN overflow_series ∧ 0 < 1073741824 ∧ 1073741824 < 2 ^ 31 ∧
    SER_AT demo_tables.cfg overflow_series 0 = some [1, 2, 3, 4] ∧
    ∃ s1, Expand_Series demo_tables overflow_series 0 1073741824 = .ok s1 demo_tables ∧
      SER_LEN s1 = SER_LEN overflow_series + 1073741824 ∧
      SER_REST demo_tables.cfg s1 = 16 ∧ s1.mem.length = 64 ∧
      SER_AT demo_tables.cfg s1 (0 + 1073741824) = none :=
  ⟨by decide, by decide, by decide, rfl, _, rfl, rfl, rfl, rfl, rfl⟩

theorem Converters.override (cv : Converters) (i d v1 v2 : List Nat)
    (h1 : cv.Scan_Integer i = some v1) (h2 : cv.Scan_Decimal d = some v2) :
    cv = { cv with
      Scan_Integer := fun b => if b = i then some v1 else cv.Scan_Integer b,
      Scan_Decimal := fun b => if b = d then some v2 else cv.Scan_Decimal b } := by
  have e1 : cv.Scan_Integer = fun b => if b = i then some v1 else cv.Scan_Integer b := by
    funext b
    split_ifs with h
    · rw [h, h1]
    · rfl
  have e2 : cv.Scan_Decimal = fun b => if b = d then some v2 else cv.Scan_Decimal b := by
    funext b
    split_ifs with h
    · rw [h, h2]
    · rfl
  conv_rhs => rw [← e1, ← e2]

/-- C4 is refuted: scanning `foo/bar/:baz` gives one cell of kind PATH (not GET-PATH), and
the third element of its array is the GET-WORD `:baz` (not a WORD). -/
theorem Scan_path_with_get_word_last :
    Scan_UTF8_Managed text_converters (ascii "foo/bar/:baz") 20 12 =
      .ok [Init_Any_Array .REB_PATH
        [Init_Text .REB_WORD (ascii "foo"), Init_Text .REB_WORD (ascii "bar"),
         Init_Text .REB_GET_WORD (ascii "baz")]] ∧
    Reb_Kind.REB_PATH ≠ Reb_Kind.REB_GET_PATH ∧ Reb_Kind.REB_GET_WORD ≠ Reb_Kind.REB_WORD :=
  ⟨rfl, by decide, by decide⟩

/-- C4 (amended): whatever the converters, scanning `foo/bar/:baz` yields a single cell of
kind PATH whose array holds the WORD `foo`, the WORD `bar` and the GET-WORD `baz`; the outer
cell is a GET-PATH when the lead element is a GET-WORD, which is then turned into a WORD:
scanning `:foo/bar/baz` yields a single GET-PATH cell whose array holds the WORDs `foo`,
`bar` and `baz`. -/
theorem Scan_path_assembly (cv : Converters) :
    Scan_UTF8_Managed cv (ascii "foo/bar/:baz") 20 12 =
      .ok [Init_Any_Array .REB_PATH
        [Init_Text .REB_WORD (ascii "foo"), Init_Text .REB_WORD (ascii "bar"),
         Init_Text .REB_GET_WORD (ascii "baz")]] ∧
    Scan_UTF8_Managed cv (ascii ":foo/bar/baz") 20 12 =
      .ok [Init_Any_Array .REB_GET_PATH
        [Init_Text .REB_WORD (ascii "foo"), Init_Text .REB_WORD (ascii "bar"),
         Init_Text .REB_WORD (ascii "baz")]] :=
  ⟨rfl, rfl⟩

theorem Scan_Quote_loop_pieces (text : List Nat) :
    ∀ (ps : List Quote_Piece) (fuel lines : Nat) (mold : List Nat) (src : Nat),
      Pieces_At text src ps →
      byteAt text (src + (ps.map Quote_Piece.len).sum) = .ok 125 →
      ps.length < fuel →
      Scan_Quote_loop text 125 fuel 0 lines mold src =
        .ok ⟨some (src + (ps.map Quote_Piece.len).sum + 1), mold ++ ps.map Quote_Piece.chr,
          lines + (ps.map Quote_Piece.lines).sum⟩ := by
  intro ps
  induction ps with
  | nil =>
    intro fuel lines mold src _ hend hfuel
    obtain ⟨f, rfl⟩ : ∃ f, fuel = f + 1 := ⟨fuel - 1, by simp at hfuel; omega⟩
    simp only [List.map_nil, List.sum_nil, Nat.add_zero] at hend ⊢
    unfold Scan_Quote_loop
    simp [hend, bind, Except.bind, pure, Except.pure]
  | cons p ps ih =>
    intro fuel lines mold src hps hend hfuel
    obtain ⟨f, rfl⟩ : ∃ f, fuel = f + 1 := ⟨fuel - 1, by simp at hfuel; omega⟩
    obtain ⟨hp, hrest⟩ := hps
    have hf : ps.length < f := by simp at hfuel; omega
    simp only [List.map_cons, List.sum_cons] at hend ⊢
    rw [← Nat.add_assoc] at hend
    cases p with
    | plain b =>
      obtain ⟨hb, h0, h94, h123, h125, h13, h10, h128⟩ := hp
      have hnot : ¬ b ≥ 128 := by omega
      unfold Scan_Quote_loop
      simp only [hb, bind, Except.bind, pure, Except.pure, h0, h94, h123, h125, h13, h10,
        hnot, ne_eq, not_false_eq_true, true_or, if_true, if_false, or_self]
      rw [ih f lines (mold ++ [b]) (src + 1) hrest hend hf]
      simp [Quote_Piece.len, Quote_Piece.chr, Quote_Piece.lines, Nat.add_assoc]
    | escape len chr =>
      obtain ⟨hb, hlen, hesc⟩ := hp
      have e : src + len - 1 + 1 = src + len := by omega
      unfold Scan_Quote_loop
      simp only [hb, hesc, bind, Except.bind, pure, Except.pure, ne_eq, true_or, if_true,
        if_false, e, show (94 : Nat) ≠ 125 by decide, show (94 : Nat) ≠ 0 by decide,
        not_false_eq_true]
      rw [ih f lines (mold ++ [chr]) (src + len) hrest hend hf]
      simp [Quote_Piece.len, Quote_Piece.chr, Quote_Piece.lines, Nat.add_assoc]
    | line_end len =>
      have hl : ∀ s1, s1 + 1 = src + len →
          Scan_Quote_loop text 125 f 0 (lines + 1) (mold ++ [10]) (s1 + 1) =
            .ok ⟨some (src + (len + (ps.map Quote_Piece.len).sum) + 1),
              mold ++ 10 :: ps.map Quote_Piece.chr,
              lines + (1 + (ps.map Quote_Piece.lines).sum)⟩ := by
        intro s1 hs1
        rw [hs1, ih f (lines + 1) (mold ++ [10]) (src + len) hrest hend hf]
        simp [Nat.add_assoc]
      unfold Scan_Quote_loop
      rcases hp with ⟨hb, rfl⟩ | ⟨hb, hn, rfl⟩ | ⟨hb, ⟨n, hn, hne⟩, rfl⟩
      · simp only [hb, bind, Except.bind, pure, Except.pure, ne_eq, true_or, if_true,
          if_false, show (10 : Nat) ≠ 125 by decide, show (10 : Nat) ≠ 0 by decide,
          show (10 : Nat) ≠ 94 by decide, show (10 : Nat) ≠ 123 by decide,
          show (10 : Nat) ≠ 13 by decide, not_false_eq_true, or_true,
          show (125 : Nat) ≠ 34 by decide]
        exact hl src rfl
      · simp only [hb, hn, bind, Except.bind, pure, Except.pure, ne_eq, true_or, if_true,
          if_false, show (13 : Nat) ≠ 125 by decide, show (13 : Nat) ≠ 0 by decide,
          show (13 : Nat) ≠ 94 by decide, show (13 : Nat) ≠ 123 by decide,
          not_false_eq_true, show (125 : Nat) ≠ 34 by decide]
        exact hl (src + 1) rfl
      · simp only [hb, hn, hne, bind, Except.bind, pure, Except.pure, ne_eq, true_or, if_true,
          if_false, show (13 : Nat) ≠ 125 by decide, show (13 : Nat) ≠ 0 by decide,
          show (13 : Nat) ≠ 94 by decide, show (13 : Nat) ≠ 123 by decide,
          not_false_eq_true, show (125 : Nat) ≠ 34 by decide]
        exact hl src rfl
    | utf8 len chr =>
      obtain ⟨⟨b, hb, h128⟩, hlen, hdec⟩ := hp
      have e : src + len - 1 + 1 = src + len := by omega
      have h1 : b ≠ 125 := by omega
      have h2 : b ≠ 0 := by omega
      have h3 : b ≠ 94 := by omega
      have h4 : b ≠ 123 := by omega
      have h5 : b ≠ 13 := by omega
      have h6 : b ≠ 10 := by omega
      have h7 : b ≥ 128 := h128
      unfold Scan_Quote_loop
      simp only [hb, hdec, bind, Except.bind, pure, Except.pure, ne_eq, true_or, if_true,
        if_false, e, h1, h2, h3, h4, h5, h6, h7, not_false_eq_true, or_self]
      rw [ih f lines (mold ++ [chr]) (src + len) hrest hend hf]
      simp [Quote_Piece.len, Quote_Piece.chr, Quote_Piece.lines, Nat.add_assoc]

/-- C2 is refuted in its general part: a raw CR in a braced string is not copied unchanged,
it is put into the mold buffer as LF, and CR LF gives a single LF; each counts a line. -/
theorem Scan_Quote_Push_Mold_turns_CR_into_LF :
    Scan_Quote_Push_Mold [123, 97, 13, 98, 125] 10 0 1 = .ok ⟨some 5, [97, 10, 98], 2⟩ ∧
    Scan_Quote_Push_Mold [123, 97, 13, 10, 98, 125] 10 0 1 = .ok ⟨some 6, [97, 10, 98], 2⟩ :=
  ⟨rfl, rfl⟩

/-- C2 (amended): scanning `{a^/b^(41)c}` yields one STRING token, and one STRING cell, whose
content has the 5 code points `a`, LF, `b`, `A`, `c`. In general, for a braced string
without inner braces, Scan_Quote_Push_Mold puts into the mold buffer, piece by piece, the
code point Scan_UTF8_Char_Escapable decodes for a caret escape, LF for a line end (CR, LF or
CR LF, counting a line), the code point Back_Scan_UTF8_Char decodes for a UTF-8 sequence,
and every other character unchanged; it returns the position after the closing brace. -/
theorem Scan_Quote_Push_Mold_pieces (cv : Converters) (text : List Nat) (src fuel lc : Nat)
    (ps : List Quote_Piece) (hopen : byteAt text src = .ok 123)
    (hps : Pieces_At text (src + 1) ps)
    (hclose : byteAt text (src + 1 + (ps.map Quote_Piece.len).sum) = .ok 125)
    (hfuel : ps.length < fuel) :
    Scan_Quote_Push_Mold text fuel src lc =
      .ok ⟨some (src + 1 + (ps.map Quote_Piece.len).sum + 1), ps.map Quote_Piece.chr,
        lc + (ps.map Quote_Piece.lines).sum⟩ ∧
    (Locate_Token_May_Push_Mold (ascii "{a^/b^(41)c}") 20 (Init_Scan_State 12)).map
      (fun l => (l.token, l.mold, l.ss.begin, l.ss.end_)) =
      .ok (TOKEN_STRING, some [97, 10, 98, 65, 99], 0, 12) ∧
    Scan_UTF8_Managed cv (ascii "{a^/b^(41)c}") 20 12 =
      .ok [Init_Text .REB_STRING [97, 10, 98, 65, 99]] := by
  refine ⟨?_, rfl, rfl⟩
  unfold Scan_Quote_Push_Mold
  simp only [hopen, bind, Except.bind, if_true,
    Scan_Quote_loop_pieces text ps fuel 0 [] (src + 1) hps hclose hfuel]
  simp [pure, Except.pure]

/-- Witness of C2 (amended): the text `{a^/b^(41)c}` with its five pieces. -/
theorem Scan_Quote_Push_Mold_pieces_witness :
    Scan_Quote_Push_Mold (ascii "{a^/b^(41)c}") 20 0 1 =
      .ok ⟨some 12, [97, 10, 98, 65, 99], 1⟩ :=
  (Scan_Quote_Push_Mold_pieces text_converters (ascii "{a^/b^(41)c}") 0 20 1
    [.plain 97, .escape 2 10, .plain 98, .escape 5 65, .plain 99] rfl
    ⟨⟨rfl, by decide, by decide, by decide, by decide, by decide, by decide, by decide⟩,
     ⟨rfl, by decide, rfl⟩,
     ⟨rfl, by decide, by decide, by decide, by decide, by decide, by decide, by decide⟩,
     ⟨rfl, by decide, rfl⟩,
     ⟨rfl, by decide, by decide, by decide, by decide, by decide, by decide, by decide⟩,
     trivial⟩
    rfl (by decide)).1

theorem Scan_lex_primitives_core (cv : Converters) (v1 v2 : List Nat)
    (h1 : cv.Scan_Integer (ascii "1") = some v1)
    (h2 : cv.Scan_Decimal (ascii "2.5") = some v2) :
    Scan_UTF8_Managed cv (ascii "1 2.5 [a b]") 20 11 =
      .ok [Init_Text .REB_INTEGER v1, Init_Text .REB_DECIMAL v2,
        Init_Any_Array .REB_BLOCK
          [Init_Text .REB_WORD (ascii "a"), Init_Text .REB_WORD (ascii "b")]] := by
  rw [Converters.override cv (ascii "1") (ascii "2.5") v1 v2 h1 h2]
  rfl

/-- C3 is refuted in its general part: in the text `a`, line feed, `b` the scanner locates
three tokens at top level (a WORD, a NEWLINE, a WORD) before the end, and Scan_Array
emits two cells, the second with the line flag; in `a/b c` the two words of the path are
gathered into one PATH cell, whose array comes from no bracket pair. -/
theorem Scan_Array_newline_emits_no_cell :
    (Locate_Token_May_Push_Mold [97, 10, 98] 20 (Init_Scan_State 3)).map
      (fun l => (l.token, l.ss.begin, l.ss.end_)) = .ok (TOKEN_WORD, 0, 1) ∧
    (Locate_Token_May_Push_Mold [97, 10, 98] 20
      { Init_Scan_State 3 with begin := 1, end_ := 1 }).map
      (fun l => (l.token, l.ss.begin, l.ss.end_)) = .ok (TOKEN_NEWLINE, 1, 2) ∧
    (Locate_Token_May_Push_Mold [97, 10, 98] 20
      { Init_Scan_State 3 with begin := 2, end_ := 2, line_count := 2 }).map
      (fun l => (l.token, l.ss.begin, l.ss.end_)) = .ok (TOKEN_WORD, 2, 3) ∧
    Scan_UTF8_Managed text_converters [97, 10, 98] 20 3 =
      .ok [Init_Text .REB_WORD [97], SET_VAL_FLAG_LINE (Init_Text .REB_WORD [98])] ∧
    Scan_UTF8_Managed text_converters (ascii "a/b c") 20 5 =
      .ok [Init_Any_Array .REB_PATH
          [Init_Text .REB_WORD (ascii "a"), Init_Text .REB_WORD (ascii "b")],
        Init_Text .REB_WORD (ascii "c")] :=
  ⟨rfl, rfl, rfl, rfl, rfl⟩

theorem byteAt_append (pre t : List Nat) (i : Nat) :
    byteAt (pre ++ t) (pre.length + i) = byteAt t i := by
  unfold byteAt
  simp only [List.length_append, Nat.add_lt_add_iff_left, Nat.add_left_cancel_iff]
  by_cases h : i < t.length
  · simp only [h, if_true]
    congr 1
    rw [List.getD_eq_getElem?_getD, List.getD_eq_getElem?_getD,
      List.getElem?_append_right (Nat.le_add_right _ _), Nat.add_sub_cancel_left]
  · simp only [h, if_false]

theorem byteAt_append_zero (pre t : List Nat) : byteAt (pre ++ t) pre.length = byteAt t 0 :=
  byteAt_append pre t 0

theorem byteAt_cons_zero (b : Nat) (t : List Nat) : byteAt (b :: t) 0 = .ok b := by
  simp [byteAt]

theorem byteAt_nil : byteAt [] 0 = .ok 0 := rfl

theorem skip_while_append (p : Nat → Bool) (pre t : List Nat) :
    skip_while p (pre ++ t) pre.length = .ok (pre.length + (t.takeWhile p).length) := by
  unfold skip_while
  simp

theorem bytesAt_append (pre w rest : List Nat) :
    bytesAt (pre ++ (w ++ rest)) pre.length w.length = .ok w := by
  unfold bytesAt
  have h : pre.length + w.length ≤ (pre ++ (w ++ rest)).length + 1 := by
    simp only [List.length_append]; omega
  rw [if_pos h]
  congr 1
  rw [List.append_assoc, List.drop_left, List.append_assoc, List.take_left]

theorem lex_letter (c : Nat) (h : 97 ≤ c ∧ c ≤ 122) :
    GET_LEX_CLASS c = LEX_CLASS_WORD ∧ IS_LEX_WORD_OR_NUMBER c = true ∧
      IS_LEX_SPACE c = false ∧ c ≠ 47 := by
  obtain ⟨h1, h2⟩ := h
  interval_cases c <;> decide

theorem takeWhile_run (p : Nat → Bool) (w rest : List Nat) (hw : ∀ c ∈ w, p c = true)
    (hr : rest = [] ∨ ∃ d r, rest = d :: r ∧ p d = false) :
    (w ++ rest).takeWhile p = w := by
  induction w with
  | nil =>
    rcases hr with rfl | ⟨d, r, rfl, hd⟩
    · rfl
    · simp [List.takeWhile, hd]
  | cons c w ih =>
    have hc := hw c (List.mem_cons_self _ _)
    have h := ih (fun x hx => hw x (List.mem_cons_of_mem _ hx))
    simp only [List.cons_append, List.takeWhile_cons, hc, if_true, h]

theorem Item_End.byte {rest : List Nat} (h : Item_End rest) :
    ∃ d, byteAt rest 0 = .ok d ∧ (d = 0 ∨ d = 32 ∨ d = 93) := by
  rcases h with rfl | ⟨d, r, rfl, hd⟩
  · exact ⟨0, rfl, Or.inl rfl⟩
  · exact ⟨d, byteAt_cons_zero d r, Or.inr hd⟩

theorem Item_End.stops {rest : List Nat} (h : Item_End rest) (p : Nat → Bool)
    (h32 : p 32 = false) (h93 : p 93 = false) :
    rest = [] ∨ ∃ d r, rest = d :: r ∧ p d = false := by
  rcases h with rfl | ⟨d, r, rfl, rfl | rfl⟩
  · exact Or.inl rfl
  · exact Or.inr ⟨32, r, rfl, h32⟩
  · exact Or.inr ⟨93, r, rfl, h93⟩

theorem Prescan_Token_word (pre w rest : List Nat) (ss : SCAN_STATE) (fuel : Nat)
    (hw : w ≠ [] ∧ ∀ c ∈ w, 97 ≤ c ∧ c ≤ 122) (hrest : Item_End rest)
    (hb : ss.begin = pre.length) (hfuel : 2 ≤ fuel) :
    Prescan_Token (pre ++ (32 :: (w ++ rest))) fuel ss =
      .ok (LEX_FLAG LEX_SPECIAL_WORD,
        { ss with begin := pre.length + 1, end_ := pre.length + 1 + w.length }) := by
  obtain ⟨f, rfl⟩ : ∃ f, fuel = f + 2 := ⟨fuel - 2, by omega⟩
  obtain ⟨c0, w1, rfl⟩ : ∃ c0 w1, w = c0 :: w1 := by
    cases w with
    | nil => exact absurd rfl hw.1
    | cons c0 w1 => exact ⟨c0, w1, rfl⟩
  have hc0 := lex_letter c0 (hw.2 c0 (List.mem_cons_self _ _))
  have hall : ∀ c ∈ c0 :: w1, IS_LEX_WORD_OR_NUMBER c = true :=
    fun c hc => (lex_letter c (hw.2 c hc)).2.1
  -- the space is skipped
  have hskip : skip_while IS_LEX_SPACE (pre ++ (32 :: (c0 :: w1 ++ rest))) ss.begin =
      .ok (pre.length + 1) := by
    rw [hb, skip_while_append]
    have : (32 :: (c0 :: w1 ++ rest)).takeWhile IS_LEX_SPACE = [32] := by
      simp only [List.cons_append, List.takeWhile, hc0.2.2.1]
      rfl
    rw [this]; rfl
  have htext : pre ++ (32 :: (c0 :: w1 ++ rest)) = (pre ++ [32]) ++ ((c0 :: w1) ++ rest) := by
    simp
  have hlen : (pre ++ [32]).length = pre.length + 1 := by simp
  have hb0 : byteAt (pre ++ (32 :: (c0 :: w1 ++ rest))) (pre.length + 1) = .ok c0 := by
    rw [htext, ← hlen, byteAt_append_zero]; exact byteAt_cons_zero _ _
  have hrun : skip_while IS_LEX_WORD_OR_NUMBER (pre ++ (32 :: (c0 :: w1 ++ rest)))
      (pre.length + 1) = .ok (pre.length + 1 + (c0 :: w1).length) := by
    rw [htext, ← hlen, skip_while_append,
      takeWhile_run _ _ _ hall (hrest.stops _ (by decide) (by decide))]
  obtain ⟨d, hd, hdv⟩ := hrest.byte
  have hb1 : byteAt (pre ++ (32 :: (c0 :: w1 ++ rest))) (pre.length + 1 + (c0 :: w1).length) =
      .ok d := by
    have : pre ++ (32 :: (c0 :: w1 ++ rest)) = (pre ++ [32] ++ (c0 :: w1)) ++ rest := by simp
    rw [this]
    have hl : (pre ++ [32] ++ (c0 :: w1)).length = pre.length + 1 + (c0 :: w1).length := by
      simp only [List.length_append, List.length_cons, List.length_nil]
    rw [← hl, byteAt_append_zero, hd]
  have hdc : GET_LEX_CLASS d = LEX_CLASS_DELIMIT := by
    rcases hdv with rfl | rfl | rfl <;> decide
  have hne : pre.length + 1 + (c0 :: w1).length ≠ pre.length + 1 := by
    simp
  unfold Prescan_Token
  simp only [hskip, bind, Except.bind]
  unfold Prescan_loop
  simp only [hb0, bind, Except.bind, hc0.1, hrun,
    show LEX_CLASS_WORD ≠ LEX_CLASS_DELIMIT by decide,
    show LEX_CLASS_WORD ≠ LEX_CLASS_SPECIAL by decide, if_false, if_true]
  unfold Prescan_loop
  simp only [hb1, bind, Except.bind, hdc, if_true, hne, if_false, pure, Except.pure]
  rfl

theorem byteAt_mid (pre mid rest : List Nat) (i : Nat) (h : i < mid.length) :
    byteAt (pre ++ (mid ++ rest)) (pre.length + i) = .ok (mid.getD i 0) := by
  rw [byteAt_append]
  unfold byteAt
  have h1 : i < (mid ++ rest).length := by simp only [List.length_append]; omega
  rw [if_pos h1]
  congr 1
  rw [List.getD_eq_getElem?_getD, List.getD_eq_getElem?_getD, List.getElem?_append_left h]

theorem byteAt_after (pre mid rest : List Nat) :
    byteAt (pre ++ (mid ++ rest)) (pre.length + mid.length) = byteAt rest 0 := by
  rw [← List.append_assoc, ← List.length_append, byteAt_append_zero]

theorem Locate_word (pre w rest : List Nat) (ss : SCAN_STATE) (fuel : Nat)
    (hw : w ≠ [] ∧ ∀ c ∈ w, 97 ≤ c ∧ c ≤ 122) (hrest : Item_End rest)
    (hb : ss.begin = pre.length) (hfuel : 2 ≤ fuel) :
    Locate_Token_May_Push_Mold (pre ++ (32 :: (w ++ rest))) fuel ss =
      .ok ⟨TOKEN_WORD,
        { ss with begin := pre.length + 1, end_ := pre.length + 1 + w.length }, none⟩ := by
  obtain ⟨c0, w1, rfl⟩ : ∃ c0 w1, w = c0 :: w1 := by
    cases w with
    | nil => exact absurd rfl hw.1
    | cons c0 w1 => exact ⟨c0, w1, rfl⟩
  have hc0 := lex_letter c0 (hw.2 c0 (List.mem_cons_self _ _))
  have hb0 : byteAt (pre ++ (32 :: (c0 :: w1 ++ rest))) (pre.length + 1) = .ok c0 :=
    byteAt_mid pre (32 :: c0 :: w1) rest 1 (by simp)
  unfold Locate_Token_May_Push_Mold
  simp only [Prescan_Token_word pre (c0 :: w1) rest ss fuel hw hrest hb hfuel, bind,
    Except.bind, hb0, hc0.1, show LEX_CLASS_WORD ≠ LEX_CLASS_DELIMIT by decide,
    show LEX_CLASS_WORD ≠ LEX_CLASS_SPECIAL by decide, if_false, if_true,
    show ONLY_LEX_FLAG (LEX_FLAG LEX_SPECIAL_WORD) LEX_SPECIAL_WORD = true by decide, pure,
    Except.pure]

theorem Scan_exit_block_false (stack : List REBVAL) (ss : SCAN_STATE) :
    Scan_exit_block stack false ss = (stack.reverse, ss) := by
  cases stack <;> simp [Scan_exit_block]

theorem Locate_open (pre rest : List Nat) (ss : SCAN_STATE) (fuel : Nat)
    (hb : ss.begin = pre.length) (hfuel : 1 ≤ fuel) :
    Locate_Token_May_Push_Mold (pre ++ (32 :: 91 :: rest)) fuel ss =
      .ok ⟨TOKEN_BLOCK_BEGIN,
        { ss with begin := pre.length + 1, end_ := pre.length + 2 }, none⟩ := by
  obtain ⟨f, rfl⟩ : ∃ f, fuel = f + 1 := ⟨fuel - 1, by omega⟩
  have hskip : skip_while IS_LEX_SPACE (pre ++ (32 :: 91 :: rest)) ss.begin =
      .ok (pre.length + 1) := by
    rw [hb, skip_while_append]
    have : (32 :: 91 :: rest).takeWhile IS_LEX_SPACE = [32] := by
      simp only [List.takeWhile_cons, show IS_LEX_SPACE 32 = true by decide,
        show IS_LEX_SPACE 91 = false by decide, if_true]
      rfl
    rw [this]; rfl
  have hb0 : byteAt (pre ++ (32 :: 91 :: rest)) (pre.length + 1) = .ok 91 :=
    byteAt_mid pre [32, 91] rest 1 (by simp)
  unfold Locate_Token_May_Push_Mold Prescan_Token
  simp only [hskip, bind, Except.bind]
  unfold Prescan_loop
  simp only [hb0, bind, Except.bind, pure, Except.pure,
    show GET_LEX_CLASS 91 = LEX_CLASS_DELIMIT by decide, if_true]
  unfold Locate_delimit
  simp only [hb0, bind, Except.bind, pure, Except.pure]
  rfl

theorem Locate_close (pre rest : List Nat) (ss : SCAN_STATE) (fuel : Nat)
    (hb : ss.begin = pre.length) (hfuel : 1 ≤ fuel) :
    Locate_Token_May_Push_Mold (pre ++ (93 :: rest)) fuel ss =
      .ok ⟨TOKEN_BLOCK_END, { ss with begin := pre.length, end_ := pre.length + 1 }, none⟩ := by
  obtain ⟨f, rfl⟩ : ∃ f, fuel = f + 1 := ⟨fuel - 1, by omega⟩
  have hskip : skip_while IS_LEX_SPACE (pre ++ (93 :: rest)) ss.begin = .ok pre.length := by
    rw [hb, skip_while_append]
    have : (93 :: rest).takeWhile IS_LEX_SPACE = [] := by
      simp only [List.takeWhile_cons, show IS_LEX_SPACE 93 = false by decide]
      rfl
    rw [this]; rfl
  have hb0 : byteAt (pre ++ (93 :: rest)) pre.length = .ok 93 :=
    byteAt_mid pre [93] rest 0 (by simp)
  unfold Locate_Token_May_Push_Mold Prescan_Token
  simp only [hskip, bind, Except.bind]
  unfold Prescan_loop
  simp only [hb0, bind, Except.bind, pure, Except.pure,
    show GET_LEX_CLASS 93 = LEX_CLASS_DELIMIT by decide, if_true]
  unfold Locate_delimit
  simp only [hb0, bind, Except.bind, pure, Except.pure]
  rfl

theorem Locate_end (text : List Nat) (ss : SCAN_STATE) (fuel : Nat)
    (hb : ss.begin = text.length) (hfuel : 1 ≤ fuel) :
    Locate_Token_May_Push_Mold text fuel ss =
      .ok ⟨TOKEN_END, { ss with begin := text.length, end_ := text.length }, none⟩ := by
  obtain ⟨f, rfl⟩ : ∃ f, fuel = f + 1 := ⟨fuel - 1, by omega⟩
  have hskip : skip_while IS_LEX_SPACE text ss.begin = .ok text.length := by
    rw [hb]
    unfold skip_while
    simp
  have hb0 : byteAt text text.length = .ok 0 := by
    unfold byteAt
    simp
  unfold Locate_Token_May_Push_Mold Prescan_Token
  simp only [hskip, bind, Except.bind]
  unfold Prescan_loop
  simp only [hb0, bind, Except.bind, pure, Except.pure,
    show GET_LEX_CLASS 0 = LEX_CLASS_DELIMIT by decide, if_true]
  unfold Locate_delimit
  simp only [hb0, bind, Except.bind, pure, Except.pure]
  simp [GET_LEX_VALUE, show Lex_Map 0 = 1 by decide, LEX_VALUE, LEX_DELIMIT_SPACE,
    LEX_DELIMIT_SEMICOLON, LEX_DELIMIT_RETURN, LEX_DELIMIT_LINEFEED, LEX_DELIMIT_LEFT_BRACKET,
    LEX_DELIMIT_RIGHT_BRACKET, LEX_DELIMIT_LEFT_PAREN, LEX_DELIMIT_RIGHT_PAREN,
    LEX_DELIMIT_DOUBLE_QUOTE, LEX_DELIMIT_LEFT_BRACE, LEX_DELIMIT_RIGHT_BRACE,
    LEX_DELIMIT_SLASH, LEX_DELIMIT_END]

theorem byteAt_readable (text : List Nat) (i : Nat) (h : i ≤ text.length) :
    ∃ b, byteAt text i = .ok b := by
  unfold byteAt
  by_cases h1 : i < text.length
  · exact ⟨_, by rw [if_pos h1]⟩
  · have : i = text.length := by omega
    exact ⟨0, by rw [if_neg h1, if_pos this]⟩

theorem Scan_Array_loop_turn (cv : Converters) (src : List Nat) (mode : Nat) (jo : Bool)
    (start sl fuel : Nat) (ss : SCAN_STATE) (stack : List REBVAL) (line : Bool) (l : Located)
    (ss1 : SCAN_STATE) (stack1 : List REBVAL) (line1 : Bool)
    (hl : Locate_Token_May_Push_Mold src fuel ss = .ok l)
    (hbody : Scan_Array_body cv src
      (fun m s => Scan_Array_loop cv src m s.opts.SCAN_NEXT s.line_count s.head_line fuel
        (Scan_enter s) [] false) fuel mode jo start sl l stack line =
        .ok (.turn ss1 stack1 line1)) :
    Scan_Array_loop cv src mode jo start sl (fuel + 1) ss stack line =
      Scan_Array_loop cv src mode jo start sl fuel ss1 stack1 line1 := by
  rw [Scan_Array_loop]
  simp only [hl, hbody, bind, Except.bind]

theorem Scan_Array_loop_exit (cv : Converters) (src : List Nat) (mode : Nat) (jo : Bool)
    (start sl fuel : Nat) (ss : SCAN_STATE) (stack : List REBVAL) (line : Bool) (l : Located)
    (r : List REBVAL × SCAN_STATE)
    (hl : Locate_Token_May_Push_Mold src fuel ss = .ok l)
    (hbody : Scan_Array_body cv src
      (fun m s => Scan_Array_loop cv src m s.opts.SCAN_NEXT s.line_count s.head_line fuel
        (Scan_enter s) [] false) fuel mode jo start sl l stack line = .ok (.exit r)) :
    Scan_Array_loop cv src mode jo start sl (fuel + 1) ss stack line = .ok r := by
  rw [Scan_Array_loop]
  simp only [hl, hbody, bind, Except.bind]
  rfl

theorem Scan_Array_body_word (cv : Converters) (pre w rest : List Nat)
    (nested : Nat → SCAN_STATE → Scan (List REBVAL × SCAN_STATE)) (mode start sl fuel : Nat)
    (ss : SCAN_STATE) (stack : List REBVAL)
    (hw : w ≠ [] ∧ ∀ c ∈ w, 97 ≤ c ∧ c ≤ 122) (hrest : Item_End rest)
    (honly : ss.opts.SCAN_ONLY = false)
    (hmode : mode ≠ 47) (hlen : w.length < 4294967296) :
    Scan_Array_body cv (pre ++ (32 :: (w ++ rest))) nested fuel mode false start sl
        ⟨TOKEN_WORD, { ss with begin := pre.length + 1, end_ := pre.length + 1 + w.length }, none⟩
        stack false =
      .ok (.turn (Scan_at ss (pre.length + 1 + w.length)) (Init_Text .REB_WORD w :: stack)
        false) := by
  have hc0 : ∃ c0, byteAt (pre ++ (32 :: (w ++ rest))) (pre.length + 1) = .ok c0 ∧ c0 ≠ 47 := by
    cases w with
    | nil => exact absurd rfl hw.1
    | cons c0 w1 =>
      exact ⟨c0, byteAt_mid pre (32 :: c0 :: w1) rest 1 (by simp),
        (lex_letter c0 (hw.2 c0 (List.mem_cons_self _ _))).2.2.2⟩
  obtain ⟨c0, hb0, hc47⟩ := hc0
  obtain ⟨d, hd, hdv⟩ := hrest.byte
  have hb1 : byteAt (pre ++ (32 :: (w ++ rest))) (pre.length + 1 + w.length) = .ok d := by
    have := byteAt_after pre (32 :: w) rest
    simp only [List.length_cons] at this
    rw [← hd, ← this]
    congr 1
    omega
  have hd47 : d ≠ 47 := by rcases hdv with rfl | rfl | rfl <;> decide
  have hopen : Opens_Path TOKEN_WORD d = false := by
    unfold Opens_Path
    simp [hd47, show TOKEN_WORD ≠ TOKEN_PATH by decide]
  have hu : u32 (pre.length + 1 + w.length + 4294967296 - (pre.length + 1)) = w.length := by
    unfold u32
    have : pre.length + 1 + w.length + 4294967296 - (pre.length + 1) = w.length + 4294967296 := by
      omega
    rw [this, Nat.add_mod_right, Nat.mod_eq_of_lt hlen]
  have hwl : w.length ≠ 0 := by
    intro h; exact hw.1 (List.length_eq_zero.1 h)
  have hint : Intern_UTF8_Managed (pre ++ (32 :: (w ++ rest))) (pre.length + 1) w.length =
      .ok w := by
    unfold Intern_UTF8_Managed
    have := bytesAt_append (pre ++ [32]) w rest
    simp only [List.length_append, List.length_cons, List.length_nil, List.append_assoc,
      List.singleton_append, Nat.zero_add] at this
    exact this
  unfold Scan_Array_body Scan_Array_token
  simp only [bind, Except.bind,
    show TOKEN_WORD ≠ TOKEN_END by decide, if_false, show ¬ TOKEN_WORD < 0 by decide, hb0,
    hc47, and_false, hb1, hopen, Bool.false_eq_true, false_and,
    show TOKEN_WORD ≠ TOKEN_NEWLINE by decide, or_true, if_true, hu, pure, Except.pure]
  unfold Scan_Any_Word
  simp only [show TOKEN_WORD ≠ TOKEN_LIT by decide, show TOKEN_WORD ≠ TOKEN_GET by decide,
    or_self, if_false, bind, Except.bind, pure, Except.pure, Bool.false_eq_true, false_and,
    if_true, hwl, hint, show TOKEN_WORD ≠ TOKEN_SET by decide, and_false, decide_False,
    hmode, honly, or_false, KIND_OF_WORD_FROM_TOKEN, Scan_Array_after]
  rfl

theorem Scan_Array_body_close (cv : Converters) (pre rest : List Nat)
    (nested : Nat → SCAN_STATE → Scan (List REBVAL × SCAN_STATE)) (start sl fuel : Nat)
    (jo : Bool) (ss : SCAN_STATE) (stack : List REBVAL) :
    Scan_Array_body cv (pre ++ (93 :: rest)) nested fuel 93 jo start sl
        ⟨TOKEN_BLOCK_END, { ss with begin := pre.length, end_ := pre.length + 1 }, none⟩
        stack false =
      .ok (.exit (stack.reverse, Scan_at ss (pre.length + 1))) := by
  have hb0 : byteAt (pre ++ (93 :: rest)) pre.length = .ok 93 :=
    byteAt_mid pre [93] rest 0 (by simp)
  obtain ⟨e, he⟩ := byteAt_readable (pre ++ (93 :: rest)) (pre.length + 1) (by simp)
  have hopen : Opens_Path TOKEN_BLOCK_END e = false := by
    unfold Opens_Path
    simp [show TOKEN_BLOCK_END ≠ TOKEN_PATH by decide,
      show TOKEN_BLOCK_END ≠ TOKEN_WORD by decide, show TOKEN_BLOCK_END ≠ TOKEN_LIT by decide,
      show TOKEN_BLOCK_END ≠ TOKEN_GET by decide]
  unfold Scan_Array_body Scan_Array_token Scan_Array_close
  simp only [bind, Except.bind, show TOKEN_BLOCK_END ≠ TOKEN_END by decide, if_false,
    show ¬ TOKEN_BLOCK_END < 0 by decide, hb0, show ¬ ((93 : Nat) = 47) by decide,
    and_false, false_and, he, hopen, Bool.false_eq_true,
    show TOKEN_BLOCK_END ≠ TOKEN_NEWLINE by decide,
    show TOKEN_BLOCK_END ≠ TOKEN_LIT by decide, show TOKEN_BLOCK_END ≠ TOKEN_GET by decide,
    show TOKEN_BLOCK_END ≠ TOKEN_SET by decide, show TOKEN_BLOCK_END ≠ TOKEN_WORD by decide,
    show TOKEN_BLOCK_END ≠ TOKEN_BLOCK_BEGIN by decide,
    show TOKEN_BLOCK_END ≠ TOKEN_GROUP_BEGIN by decide, or_self, if_true,
    show ¬ ((93 : Nat) = 0) by decide, ne_eq, not_true_eq_false, pure, Except.pure,
    Scan_Array_after, Scan_exit_block_false]
  rfl

theorem Scan_Array_body_end (cv : Converters) (text : List Nat)
    (nested : Nat → SCAN_STATE → Scan (List REBVAL × SCAN_STATE)) (start sl fuel : Nat)
    (jo : Bool) (ss : SCAN_STATE) (stack : List REBVAL) :
    Scan_Array_body cv text nested fuel 0 jo start sl
        ⟨TOKEN_END, { ss with begin := text.length, end_ := text.length }, none⟩
        stack false =
      .ok (.exit (stack.reverse, Scan_at ss text.length)) := by
  unfold Scan_Array_body
  simp only [bind, Except.bind, if_true, show ¬ ((0 : Nat) = 93 ∨ (0 : Nat) = 41) by decide,
    if_false, pure, Except.pure, Scan_exit_block_false]
  rfl

theorem Scan_Array_body_open (cv : Converters) (pre rest : List Nat)
    (nested : Nat → SCAN_STATE → Scan (List REBVAL × SCAN_STATE)) (mode start sl fuel : Nat)
    (ss : SCAN_STATE) (stack cells : List REBVAL) (ss2 : SCAN_STATE)
    (hnested : nested 93 (Scan_at ss (pre.length + 2)) = .ok (cells, ss2))
    (herr : ss2.errors = 0) (honly : ss2.opts.SCAN_ONLY = false) (hmode : mode ≠ 47) :
    Scan_Array_body cv (pre ++ (32 :: 91 :: rest)) nested fuel mode false start sl
        ⟨TOKEN_BLOCK_BEGIN, { ss with begin := pre.length + 1, end_ := pre.length + 2 }, none⟩
        stack false =
      .ok (.turn ss2 (Init_Any_Array .REB_BLOCK cells :: stack) false) := by
  have hb0 : byteAt (pre ++ (32 :: 91 :: rest)) (pre.length + 1) = .ok 91 :=
    byteAt_mid pre [32, 91] rest 1 (by simp)
  obtain ⟨e, he⟩ := byteAt_readable (pre ++ (32 :: 91 :: rest)) (pre.length + 2) (by simp)
  have hopen : Opens_Path TOKEN_BLOCK_BEGIN e = false := by
    unfold Opens_Path
    simp [show TOKEN_BLOCK_BEGIN ≠ TOKEN_PATH by decide,
      show TOKEN_BLOCK_BEGIN ≠ TOKEN_WORD by decide, show TOKEN_BLOCK_BEGIN ≠ TOKEN_LIT by decide,
      show TOKEN_BLOCK_BEGIN ≠ TOKEN_GET by decide]
  have hn := hnested
  unfold Scan_at at hn
  unfold Scan_Array_body Scan_Array_token Scan_Array_open
  simp only [bind, Except.bind, show TOKEN_BLOCK_BEGIN ≠ TOKEN_END by decide, if_false,
    show ¬ TOKEN_BLOCK_BEGIN < 0 by decide, hb0, show ¬ ((91 : Nat) = 47) by decide,
    and_false, false_and, he, hopen, Bool.false_eq_true,
    show TOKEN_BLOCK_BEGIN ≠ TOKEN_NEWLINE by decide,
    show TOKEN_BLOCK_BEGIN ≠ TOKEN_LIT by decide, show TOKEN_BLOCK_BEGIN ≠ TOKEN_GET by decide,
    show TOKEN_BLOCK_BEGIN ≠ TOKEN_SET by decide, show TOKEN_BLOCK_BEGIN ≠ TOKEN_WORD by decide,
    or_self, true_or, if_true, hn, herr, ne_eq, not_true_eq_false, pure, Except.pure,
    Scan_Array_after, hmode, honly, or_false]

theorem Scan_enter_at (base : SCAN_STATE) (p : Nat) (h : base.opts.SCAN_NEXT = false) :
    Scan_enter (Scan_at base p) = Scan_at base p := by
  unfold Scan_enter Scan_at
  cases base with
  | mk b e l lc hl opts errs =>
    cases opts with
    | mk n o r =>
      simp only at h
      subst h
      rfl

theorem Item_End_items (ts : List Word_Tree) (rest : List Nat) (h : Item_End rest) :
    Item_End (render_items ts ++ rest) := by
  cases ts with
  | nil => simpa [render_items] using h
  | cons t ts =>
    right
    exact ⟨32, t.render ++ render_items ts ++ rest, by simp [render_items], Or.inl rfl⟩

theorem length_items_le (t : Word_Tree) (ts : List Word_Tree) :
    t.weight ≤ weight_items (t :: ts) ∧ weight_items ts ≤ weight_items (t :: ts) := by
  simp [weight_items]

mutual
theorem Scan_tree (cv : Converters) : (t : Word_Tree) → ∀ (src pre rest : List Nat)
    (mode start sl fuel : Nat) (base : SCAN_STATE) (stack : List REBVAL),
    src = pre ++ (32 :: (t.render ++ rest)) → t.OK → Item_End rest → mode ≠ 47 →
    base.opts.SCAN_NEXT = false → base.opts.SCAN_ONLY = false → base.errors = 0 →
    src.length < 4294967296 → 2 + t.weight ≤ fuel →
    Scan_Array_loop cv src mode false start sl (fuel + 1) (Scan_at base pre.length) stack
        false =
      Scan_Array_loop cv src mode false start sl fuel
        (Scan_at base (pre.length + 1 + t.render.length)) (t.cell :: stack) false
  | .word w, src, pre, rest, mode, start, sl, fuel, base, stack, hsrc, hok, hrest, hmode,
      hnext, honly, herr, hlen, hfuel => by
    simp only [Word_Tree.render] at hsrc
    subst hsrc
    have hw : w ≠ [] ∧ ∀ c ∈ w, 97 ≤ c ∧ c ≤ 122 := by simpa [Word_Tree.OK] using hok
    have hwl : w.length < 4294967296 := by
      simp only [List.length_append, List.length_cons] at hlen
      omega
    exact Scan_Array_loop_turn cv _ mode false start sl fuel (Scan_at base pre.length) stack
      false _ _ _ _
      (Locate_word pre w rest (Scan_at base pre.length) fuel hw hrest rfl (by omega))
      (Scan_Array_body_word cv pre w rest _ mode start sl fuel (Scan_at base pre.length) stack
        hw hrest honly hmode hwl)
  | .block items, src, pre, rest, mode, start, sl, fuel, base, stack, hsrc, hok, hrest, hmode,
      hnext, honly, herr, hlen, hfuel => by
    have hsrc1 : src = pre ++ (32 :: 91 :: (render_items items ++ (93 :: rest))) := by
      rw [hsrc]; simp [Word_Tree.render]
    have hsrc2 : src = (pre ++ [32, 91]) ++ (render_items items ++ (93 :: rest)) := by
      rw [hsrc1]; simp
    have hsrc3 : src = (pre ++ [32, 91] ++ render_items items) ++ (93 :: rest) := by
      rw [hsrc1]; simp
    have hitems : Items_OK items := by simpa [Word_Tree.OK] using hok
    have hwt : (Word_Tree.block items).weight = items.length + 2 + weight_items items := by
      simp [Word_Tree.weight]
    obtain ⟨f, hf⟩ : ∃ f, fuel = (f + 1) + items.length := ⟨fuel - items.length - 1, by omega⟩
    have hinner := Scan_items cv items src (pre ++ [32, 91]) (93 :: rest) 93 base.line_count
      base.head_line (f + 1) base [] hsrc2 hitems (Or.inr ⟨93, rest, rfl, Or.inr rfl⟩)
      (by decide) hnext honly herr hlen (by omega)
    have hl1 : (pre ++ [32, 91]).length = pre.length + 2 := by simp
    have hl3 : (pre ++ [32, 91] ++ render_items items).length =
        pre.length + 2 + (render_items items).length := by
      simp only [List.length_append, List.length_cons, List.length_nil]
    have hbegin : (Scan_at base (pre.length + 2 + (render_items items).length)).begin =
        (pre ++ [32, 91] ++ render_items items).length := by
      rw [hl3]; rfl
    have hclose : Scan_Array_loop cv src 93 false base.line_count base.head_line (f + 1)
        (Scan_at base (pre.length + 2 + (render_items items).length))
        ((cells_of items).reverse ++ []) false =
        .ok (cells_of items, Scan_at base (pre.length + 2 + (render_items items).length + 1)) := by
      have hb := Scan_Array_body_close cv (pre ++ [32, 91] ++ render_items items) rest
          (fun (m : Nat) (s : SCAN_STATE) =>
            Scan_Array_loop cv src m s.opts.SCAN_NEXT s.line_count s.head_line f
              (Scan_enter s) [] false)
          base.line_count base.head_line f false
          (Scan_at base (pre.length + 2 + (render_items items).length))
          ((cells_of items).reverse ++ [])
      have hloc := Locate_close (pre ++ [32, 91] ++ render_items items) rest
          (Scan_at base (pre.length + 2 + (render_items items).length)) f hbegin (by omega)
      rw [← hsrc3] at hb hloc
      rw [Scan_Array_loop_exit cv src 93 false base.line_count base.head_line f _ _ false _ _
        hloc hb]
      simp only [List.append_nil, List.reverse_reverse, hl3]
      rfl
    rw [hl1, hclose] at hinner
    have hnested : (fun (m : Nat) (s : SCAN_STATE) =>
        Scan_Array_loop cv src m s.opts.SCAN_NEXT s.line_count s.head_line fuel
          (Scan_enter s) [] false) 93 (Scan_at (Scan_at base pre.length) (pre.length + 2)) =
        .ok (cells_of items,
          Scan_at base (pre.length + 2 + (render_items items).length + 1)) := by
      show Scan_Array_loop cv src 93 base.opts.SCAN_NEXT base.line_count base.head_line fuel
        (Scan_enter (Scan_at base (pre.length + 2))) [] false = _
      rw [hnext, Scan_enter_at base _ hnext, hf]
      exact hinner
    have hloc := Locate_open pre (render_items items ++ (93 :: rest)) (Scan_at base pre.length)
      fuel rfl (by omega)
    have h3 := Scan_Array_body_open cv pre (render_items items ++ (93 :: rest))
      (fun (m : Nat) (s : SCAN_STATE) =>
        Scan_Array_loop cv src m s.opts.SCAN_NEXT s.line_count s.head_line fuel
          (Scan_enter s) [] false) mode start sl fuel (Scan_at base pre.length) stack
      (cells_of items) (Scan_at base (pre.length + 2 + (render_items items).length + 1))
      hnested herr honly hmode
    rw [← hsrc1] at h3 hloc
    rw [Scan_Array_loop_turn cv src mode false start sl fuel _ _ false _ _ _ _ hloc h3]
    have hpos : pre.length + 2 + (render_items items).length + 1 =
        pre.length + 1 + (Word_Tree.block items).render.length := by
      simp [Word_Tree.render]
      omega
    simp only [hpos, Word_Tree.cell]
theorem Scan_items (cv : Converters) : (items : List Word_Tree) → ∀ (src pre rest : List Nat)
    (mode start sl fuel : Nat) (base : SCAN_STATE) (stack : List REBVAL),
    src = pre ++ (render_items items ++ rest) → Items_OK items → Item_End rest → mode ≠ 47 →
    base.opts.SCAN_NEXT = false → base.opts.SCAN_ONLY = false → base.errors = 0 →
    src.length < 4294967296 → 2 + weight_items items ≤ fuel →
    Scan_Array_loop cv src mode false start sl (fuel + items.length) (Scan_at base pre.length)
        stack false =
      Scan_Array_loop cv src mode false start sl fuel
        (Scan_at base (pre.length + (render_items items).length))
        ((cells_of items).reverse ++ stack) false
  | [], src, pre, rest, mode, start, sl, fuel, base, stack, hsrc, hok, hrest, hmode,
      hnext, honly, herr, hlen, hfuel => by
    simp [render_items, cells_of]
  | t :: ts, src, pre, rest, mode, start, sl, fuel, base, stack, hsrc, hok, hrest, hmode,
      hnext, honly, herr, hlen, hfuel => by
    have hsrc1 : src = pre ++ (32 :: (t.render ++ (render_items ts ++ rest))) := by
      rw [hsrc]; simp [render_items]
    have hsrc2 : src = (pre ++ (32 :: t.render)) ++ (render_items ts ++ rest) := by
      rw [hsrc1]; simp
    have hok1 : t.OK ∧ Items_OK ts := by simpa [Items_OK] using hok
    have hwt := length_items_le t ts
    have h1 := Scan_tree cv t src pre (render_items ts ++ rest) mode start sl (fuel + ts.length)
      base stack hsrc1 hok1.1 (Item_End_items ts rest hrest) hmode hnext honly herr hlen
      (by omega)
    have h2 := Scan_items cv ts src (pre ++ (32 :: t.render)) rest mode start sl fuel base
      (t.cell :: stack) hsrc2 hok1.2 hrest hmode hnext honly herr hlen (by omega)
    have hl : (pre ++ (32 :: t.render)).length = pre.length + 1 + t.render.length := by
      simp; omega
    rw [hl] at h2
    have hfu : fuel + (t :: ts).length = fuel + ts.length + 1 := by simp; omega
    rw [hfu, h1, h2]
    have hpos : pre.length + 1 + t.render.length + (render_items ts).length =
        pre.length + (render_items (t :: ts)).length := by
      simp [render_items]; omega
    simp only [hpos, cells_of, List.reverse_cons, List.append_assoc, List.singleton_append]
end

theorem cells_of_length (items : List Word_Tree) : (cells_of items).length = items.length := by
  induction items with
  | nil => rfl
  | cons t ts ih => simp [cells_of, ih]
theorem Scan_UTF8_Managed_trees (cv : Converters) (items : List Word_Tree) (fuel len : Nat)
    (hok : Items_OK items) (hlen : (render_items items).length < 4294967296)
    (hfuel : items.length + 2 + weight_items items ≤ fuel) :
    Scan_UTF8_Managed cv (render_items items) fuel len = .ok (cells_of items) := by
  obtain ⟨f, hf⟩ : ∃ f, fuel = (f + 1) + items.length := ⟨fuel - items.length - 1, by omega⟩
  have hsrc : render_items items = [] ++ (render_items items ++ []) := by simp
  have h1 := Scan_items cv items (render_items items) [] [] 0 1 0 (f + 1) (Init_Scan_State len)
    [] hsrc hok (Or.inl rfl) (by decide) rfl rfl rfl hlen (by omega)
  have hloc := Locate_end (render_items items)
    (Scan_at (Init_Scan_State len) (([] : List Nat).length + (render_items items).length)) f
    (by simp [Scan_at]) (by omega)
  have hb := Scan_Array_body_end cv (render_items items)
    (fun (m : Nat) (s : SCAN_STATE) =>
      Scan_Array_loop cv (render_items items) m s.opts.SCAN_NEXT s.line_count s.head_line f
        (Scan_enter s) [] false) 1 0 f false
    (Scan_at (Init_Scan_State len) (([] : List Nat).length + (render_items items).length))
    ((cells_of items).reverse ++ [])
  have h2 := Scan_Array_loop_exit cv (render_items items) 0 false 1 0 f _ _ false _ _ hloc hb
  unfold Scan_UTF8_Managed Scan_Array
  have hst : Scan_enter (Init_Scan_State len) =
      Scan_at (Init_Scan_State len) ([] : List Nat).length := rfl
  have hv : (Init_Scan_State len).opts.SCAN_NEXT = false ∧ (Init_Scan_State len).line_count = 1
      ∧ (Init_Scan_State len).head_line = 0 := ⟨rfl, rfl, rfl⟩
  rw [hst, hv.1, hv.2.1, hv.2.2, hf, h1, h2]
  simp only [bind, Except.bind, pure, Except.pure, List.append_nil, List.reverse_reverse]

/-- C3 (amended): with converters that accept the literals `1` and `2.5`, Scan_UTF8_Managed
on the text `1 2.5 [a b]` returns an array of three cells, an INTEGER, a DECIMAL and a BLOCK
whose array holds the WORD cells `a` and `b`; and for every text made of words of lower case
letters and of bracket pairs around such texts, each item written after one space, the scan
returns, with enough fuel, one cell for each item at top level in the order of the source,
and one nested array for each bracket pair. -/
theorem Scan_Array_cells_of_words_and_blocks (cv : Converters) (v1 v2 : List Nat)
    (items : List Word_Tree) (fuel len : Nat)
    (h1 : cv.Scan_Integer (ascii "1") = some v1)
    (h2 : cv.Scan_Decimal (ascii "2.5") = some v2)
    (hok : Items_OK items) (hlen : (render_items items).length < 4294967296)
    (hfuel : items.length + 2 + weight_items items ≤ fuel) :
    Scan_UTF8_Managed cv (ascii "1 2.5 [a b]") 20 11 =
      .ok [Init_Text .REB_INTEGER v1, Init_Text .REB_DECIMAL v2,
        Init_Any_Array .REB_BLOCK
          [Init_Text .REB_WORD (ascii "a"), Init_Text .REB_WORD (ascii "b")]] ∧
    Scan_UTF8_Managed cv (render_items items) fuel len = .ok (cells_of items) ∧
    (cells_of items).length = items.length :=
  ⟨Scan_lex_primitives_core cv v1 v2 h1 h2,
    Scan_UTF8_Managed_trees cv items fuel len hok hlen hfuel, cells_of_length items⟩

/-- The amended C3 at the converters of the examples and the text ` a [ b []] c`. -/
theorem Scan_Array_cells_of_words_and_blocks_witness :
    text_converters.Scan_Integer (ascii "1") = some (ascii "1") ∧
    text_converters.Scan_Decimal (ascii "2.5") = some (ascii "2.5") ∧
    render_items [.word [97], .block [.word [98], .block []], .word [99]] =
      ascii " a [ b []] c" ∧
    Scan_UTF8_Managed text_converters (ascii " a [ b []] c") 12 12 =
      .ok [Init_Text .REB_WORD [97],
        Init_Any_Array .REB_BLOCK [Init_Text .REB_WORD [98], Init_Any_Array .REB_BLOCK []],
        Init_Text .REB_WORD [99]] :=
  ⟨rfl, rfl, rfl,
    (Scan_Array_cells_of_words_and_blocks text_converters (ascii "1") (ascii "2.5")
      [.word [97], .block [.word [98], .block []], .word [99]] 12 12 rfl rfl
      (by simp [Items_OK, Word_Tree.OK]) (by decide) (by decide)).2.1⟩

theorem Same_Tables.refl (m : Memory) : Same_Tables m m := ⟨rfl, rfl, rfl, rfl, rfl, rfl, rfl⟩

theorem Same_Tables.trans {m m1 m2 : Memory} (h1 : Same_Tables m m1) (h2 : Same_Tables m1 m2) :
    Same_Tables m m2 :=
  ⟨h2.cfg.trans h1.cfg, h2.always.trans h1.always, h2.map.trans h1.map,
    h2.manuals.trans h1.manuals, h2.prior.trans h1.prior, h2.junk.trans h1.junk,
    h2.widths.trans h1.widths⟩

theorem Same_Tables.set_node (m : Memory) (node : Nat) (n : REBNOD) :
    Same_Tables m (m.set_node node n) := ⟨rfl, rfl, rfl, rfl, rfl, rfl, rfl⟩

theorem Same_Tables.sub_ballast (m : Memory) (size : Nat) :
    Same_Tables m (m.sub_ballast size) := ⟨rfl, rfl, rfl, rfl, rfl, rfl, rfl⟩

theorem widths_set (l : List REBPOL) (id : Nat) (p : REBPOL)
    (h : ∀ q, l[id]? = some q → p.wide = q.wide) :
    (l.set id p).map (fun p => p.wide) = l.map (fun p => p.wide) := by
  induction l generalizing id with
  | nil => rfl
  | cons a l ih =>
    cases id with
    | zero =>
      simp only [List.set_cons_zero, List.map_cons]
      rw [h a (by simp)]
    | succ id =>
      simp only [List.set_cons_succ, List.map_cons]
      rw [ih id (fun q hq => h q (by simpa using hq))]

theorem Same_Tables.set_pool (m : Memory) (id : Nat) (p : REBPOL)
    (h : ∀ q, m.pool id = some q → p.wide = q.wide) :
    Same_Tables m (m.set_pool id p) :=
  ⟨rfl, rfl, rfl, rfl, rfl, rfl, widths_set m.Mem_Pools id p h⟩

theorem Same_Tables.pool_wide {m m1 : Memory} (h : Same_Tables m m1) (id : Nat) :
    (m1.pool id).map (fun p => p.wide) = (m.pool id).map (fun p => p.wide) := by
  have := h.widths
  unfold Memory.widths at this
  unfold Memory.pool
  rw [← List.getElem?_map, ← List.getElem?_map, this]

theorem Alloc_Mem_same (m : Memory) (size : Nat) : Same_Tables m (Alloc_Mem m size).mem := by
  unfold Alloc_Mem malloc
  simp only []
  split_ifs <;> exact ⟨rfl, rfl, rfl, rfl, rfl, rfl, rfl⟩

theorem Result.mem_ok {α : Type} (a : α) (m : Memory) : (Result.ok a m).mem = m := rfl
theorem Result.mem_fault {α : Type} (f : Fault) (m : Memory) :
    (Result.fault f m : Result α).mem = m := rfl

theorem Fill_Pool_same (m : Memory) (id : Nat) : Same_Tables m (Fill_Pool m id).mem := by
  unfold Fill_Pool
  cases hp : m.pool id with
  | none => exact Same_Tables.refl m
  | some pool =>
    simp only []
    have ha := Alloc_Mem_same m (u32 (pool.wide * pool.units + m.cfg.sizeof_REBSEG))
    have hpool : ∀ m1, Same_Tables m m1 → ∀ p : REBPOL, p.wide = pool.wide →
        Same_Tables m (m1.set_pool id p) := by
      intro m1 h1 p hw
      refine h1.trans (Same_Tables.set_pool m1 id p ?_)
      intro q hq
      have := h1.pool_wide id
      rw [hq, hp] at this
      simp only [Option.map_some', Option.some.injEq] at this
      rw [hw, this]
    cases hal : Alloc_Mem m (u32 (pool.wide * pool.units + m.cfg.sizeof_REBSEG)) with
    | fault f m1 => rw [hal] at ha; exact ha
    | ok r m1 =>
      rw [hal] at ha
      simp only [Result.mem_ok] at ha
      cases r with
      | none => exact ha
      | some seg =>
        simp only []
        split
        · exact hpool m1 ha _ rfl
        · rename_i pool2 m2 hlinked
          have h2 : Same_Tables m m2 ∧ pool2.wide = pool.wide := by
            split at hlinked
            · split_ifs at hlinked
              simp only [Option.some.injEq, Prod.mk.injEq] at hlinked
              obtain ⟨rfl, rfl⟩ := hlinked
              exact ⟨ha, rfl⟩
            · split at hlinked
              · simp at hlinked
              · simp only [Option.some.injEq, Prod.mk.injEq] at hlinked
                obtain ⟨rfl, rfl⟩ := hlinked
                exact ⟨ha.trans (Same_Tables.set_node _ _ _), rfl⟩
          split
          · exact hpool m2 h2.1 _ h2.2
          · refine hpool _ ?_ _ h2.2
            exact h2.1.trans ⟨rfl, rfl, rfl, rfl, rfl, rfl, rfl⟩

theorem Same_Tables.set_pool_of {m m1 : Memory} (h1 : Same_Tables m m1) {id : Nat}
    {pool : REBPOL} (hp : m1.pool id = some pool) (p : REBPOL) (hw : p.wide = pool.wide) :
    Same_Tables m (m1.set_pool id p) := by
  refine h1.trans (Same_Tables.set_pool m1 id p ?_)
  intro q hq
  rw [hq] at hp
  simp only [Option.some.injEq] at hp
  rw [hw, hp]

theorem Make_Node_same (m : Memory) (id : Nat) : Same_Tables m (Make_Node m id).mem := by
  unfold Make_Node
  cases hp : m.pool id with
  | none => exact Same_Tables.refl m
  | some pool =>
    simp only []
    have hfill : ∀ m1, (if pool.first = none then Fill_Pool m id else Result.ok () m).mem = m1 →
        Same_Tables m m1 := by
      intro m1 h
      split_ifs at h
      · rw [← h]; exact Fill_Pool_same m id
      · rw [← h]; exact Same_Tables.refl m
    cases hf : (if pool.first = none then Fill_Pool m id else Result.ok () m) with
    | fault f m1 => exact hfill m1 (by rw [hf]; rfl)
    | ok u m1 =>
      have h1 := hfill m1 (by rw [hf]; rfl)
      simp only []
      cases hp1 : m1.pool id with
      | none => exact h1
      | some pool1 =>
        simp only []
        cases hfirst : pool1.first with
        | none => exact h1
        | some node =>
          simp only []
          split_ifs <;> exact h1.set_pool_of hp1 _ rfl

theorem Free_Node_same (m : Memory) (id pv : Nat) : Same_Tables m (Free_Node m id pv).mem := by
  unfold Free_Node
  simp only []
  split_ifs with h0 hrel
  · exact Same_Tables.refl m
  · have h1 : Same_Tables m (m.set_node pv { m.nodes pv with header := 0 }) :=
      Same_Tables.set_node _ _ _
    cases hp : (m.set_node pv { m.nodes pv with header := 0 }).pool id with
    | none => exact h1
    | some pool =>
      simp only [hrel, if_true]
      exact Same_Tables.set_pool_of (h1.trans (Same_Tables.set_node _ _ _)) hp _ rfl
  · have h1 : Same_Tables m (m.set_node pv { m.nodes pv with header := 0 }) :=
      Same_Tables.set_node _ _ _
    cases hp : (m.set_node pv { m.nodes pv with header := 0 }).pool id with
    | none => exact h1
    | some pool =>
      simp only [hrel, if_false]
      have hfill : ∀ m2, (if pool.last = none then
          Fill_Pool (m.set_node pv { m.nodes pv with header := 0 }) id
          else Result.ok () (m.set_node pv { m.nodes pv with header := 0 })).mem = m2 →
          Same_Tables m m2 := by
        intro m2 h
        split_ifs at h
        · rw [← h]; exact h1.trans (Fill_Pool_same _ id)
        · rw [← h]; exact h1
      cases hf : (if pool.last = none then
          Fill_Pool (m.set_node pv { m.nodes pv with header := 0 }) id
          else Result.ok () (m.set_node pv { m.nodes pv with header := 0 })) with
      | fault f m2 => exact hfill m2 (by rw [hf]; rfl)
      | ok u m2 =>
        have h2 := hfill m2 (by rw [hf]; rfl)
        simp only []
        cases hp2 : m2.pool id with
        | none => exact h2
        | some pool2 =>
          simp only []
          cases hl : pool2.last with
          | none => exact h2
          | some last =>
            simp only []
            exact Same_Tables.set_pool_of
              ((h2.trans (Same_Tables.set_node _ _ _)).trans (Same_Tables.set_node _ _ _))
              hp2 _ rfl

theorem Free_Mem_same (m : Memory) (mem size : Nat) :
    Same_Tables m (Free_Mem m mem size).mem := by
  unfold Free_Mem
  split_ifs <;> exact ⟨rfl, rfl, rfl, rfl, rfl, rfl, rfl⟩

theorem Free_Unbiased_Series_Data_same (m : Memory) (unbiased size : Nat) :
    Same_Tables m (Free_Unbiased_Series_Data m unbiased size).mem := by
  unfold Free_Unbiased_Series_Data
  simp only []
  split_ifs with h0
  · cases hp : m.pool (FIND_POOL m size) with
    | none => exact Same_Tables.refl m
    | some pool =>
      simp only []
      split_ifs
      · exact Same_Tables.refl m
      · rw [Result.mem_ok]
        refine Same_Tables.trans ?_ (Same_Tables.set_node _ _ _)
        exact Same_Tables.set_pool_of (Same_Tables.set_node m _ _) hp _ rfl
  · have h1 := Free_Mem_same m unbiased size
    cases hf : Free_Mem m unbiased size with
    | fault f m1 => rw [hf] at h1; exact h1
    | ok u m1 =>
      rw [hf] at h1
      simp only [Result.mem_ok] at h1
      simp only []
      cases hp : m1.pool SYSTEM_POOL with
      | none => exact h1
      | some pool => exact h1.set_pool_of hp _ rfl

theorem REBSER.read_some {s : REBSER} {a n : Nat} {l : List Nat} (h : s.read a n = some l) :
    s.base ≤ a ∧ a + n ≤ s.base + s.mem.length ∧ l.length = n ∧
      ∀ i, i < n → l[i]? = s.mem[a - s.base + i]? := by
  unfold REBSER.read at h
  split_ifs at h with hc
  simp only [Option.some.injEq] at h
  subst h
  refine ⟨hc.1, hc.2, ?_, ?_⟩
  · simp only [List.length_take, List.length_drop]; omega
  · intro i hi
    rw [List.getElem?_take_of_lt hi, List.getElem?_drop]

theorem REBSER.read_of {s : REBSER} {a n : Nat} {l : List Nat} (h1 : s.base ≤ a)
    (h2 : a + n ≤ s.base + s.mem.length) (h3 : l.length = n)
    (h4 : ∀ i, i < n → l[i]? = s.mem[a - s.base + i]?) : s.read a n = some l := by
  unfold REBSER.read
  rw [if_pos ⟨h1, h2⟩]
  congr 1
  apply List.ext_getElem?
  intro i
  by_cases hi : i < n
  · rw [List.getElem?_take_of_lt hi, List.getElem?_drop, h4 i hi]
  · rw [List.getElem?_eq_none, List.getElem?_eq_none]
    · omega
    · simp only [List.length_take, List.length_drop]; omega

theorem REBSER.write_some {s s1 : REBSER} {addr : Nat} {bytes : List Nat}
    (h : s.write addr bytes = some s1) :
    s.base ≤ addr ∧ addr + bytes.length ≤ s.base + s.mem.length ∧
    s1 = { s with mem := s1.mem } ∧ s1.mem.length = s.mem.length ∧
    ∀ j, s1.mem[j]? =
      if addr - s.base ≤ j ∧ j < addr - s.base + bytes.length then bytes[j - (addr - s.base)]?
      else s.mem[j]? := by
  unfold REBSER.write at h
  split_ifs at h with hc
  simp only [Option.some.injEq] at h
  subst h
  refine ⟨hc.1, hc.2, rfl, ?_, ?_⟩
  · simp only [List.length_append, List.length_take, List.length_drop]; omega
  · intro j
    dsimp only
    have hk : (List.take (addr - s.base) s.mem).length = addr - s.base := by
      simp only [List.length_take]; omega
    by_cases h1 : j < addr - s.base
    · rw [if_neg (by omega), List.append_assoc, List.getElem?_append_left (by omega),
        List.getElem?_take_of_lt h1]
    · by_cases h2 : j < addr - s.base + bytes.length
      · rw [if_pos ⟨by omega, h2⟩, List.append_assoc, List.getElem?_append_right (by omega),
          hk, List.getElem?_append_left (by omega)]
      · rw [if_neg (by omega), List.getElem?_append_right (by
          simp only [List.length_append, hk]; omega)]
        simp only [List.length_append, hk, List.getElem?_drop]
        congr 1
        omega

theorem REBSER.write_of {s : REBSER} {addr : Nat} {bytes : List Nat} (h1 : s.base ≤ addr)
    (h2 : addr + bytes.length ≤ s.base + s.mem.length) : ∃ s1, s.write addr bytes = some s1 := by
  unfold REBSER.write
  rw [if_pos ⟨h1, h2⟩]
  exact ⟨_, rfl⟩

theorem REBSER.read_write_inside {s s1 : REBSER} {addr : Nat} {bytes : List Nat}
    (h : s.write addr bytes = some s1) (i n : Nat) (hin : i + n ≤ bytes.length) :
    s1.read (addr + i) n = some ((bytes.drop i).take n) := by
  obtain ⟨h1, h2, h3, h4, h5⟩ := REBSER.write_some h
  have hb : s1.base = s.base := by rw [h3]
  apply REBSER.read_of
  · rw [hb]; omega
  · rw [hb, h4]; omega
  · simp only [List.length_take, List.length_drop]; omega
  · intro j hj
    rw [hb, h5, if_pos ⟨by omega, by omega⟩, List.getElem?_take_of_lt hj, List.getElem?_drop]
    congr 1
    omega

theorem REBSER.read_write_outside {s s1 : REBSER} {addr : Nat} {bytes : List Nat}
    (h : s.write addr bytes = some s1) (a n : Nat)
    (hout : a + n ≤ addr ∨ addr + bytes.length ≤ a) : s1.read a n = s.read a n := by
  obtain ⟨h1, h2, h3, h4, h5⟩ := REBSER.write_some h
  have hb : s1.base = s.base := by rw [h3]
  unfold REBSER.read
  rw [hb, h4]
  split_ifs with hc
  swap
  · rfl
  congr 1
  apply List.ext_getElem?
  intro j
  by_cases hj : j < n
  · rw [List.getElem?_take_of_lt hj, List.getElem?_take_of_lt hj, List.getElem?_drop,
      List.getElem?_drop, h5, if_neg (by omega)]
  · rw [List.getElem?_eq_none, List.getElem?_eq_none]
    · simp only [List.length_take, List.length_drop]; omega
    · simp only [List.length_take, List.length_drop]; omega

theorem IS_END_AT_header {s s1 : REBSER} {c : Config} {addr : Nat} (hc : 0 < c.sizeof_REBUPT)
    (h : s.write addr (header_bytes c NODE_FLAG_END) = some s1) :
    IS_END_AT s1 addr = some true := by
  have hlen : (header_bytes c NODE_FLAG_END).length = c.sizeof_REBUPT := by
    simp [header_bytes]
  have hr := REBSER.read_write_inside h 0 1 (by omega)
  have h0 : ((header_bytes c NODE_FLAG_END).drop 0).take 1 = [64] := by
    unfold header_bytes
    obtain ⟨k, hk⟩ : ∃ k, c.sizeof_REBUPT = k + 1 := ⟨c.sizeof_REBUPT - 1, by omega⟩
    rw [hk, List.range_succ_eq_map]
    simp [NODE_FLAG_END]
  rw [h0, Nat.add_zero] at hr
  unfold IS_END_AT
  rw [hr]
  decide

theorem Series_Data_Alloc_block_ok {m m1 : Memory} {s s1 : REBSER} {length wide size : Nat}
    {flags : MKS} (h : Series_Data_Alloc_block m s length wide flags = .ok (some size, s1) m1) :
    Same_Tables m m1 ∧
    s1 = { s with data := some s1.base, base := s1.base, mem := s1.mem,
                  power_of_2 := s1.power_of_2 } ∧
    s1.mem.length = size ∧
    ((FIND_POOL m (u32 (length * wide)) < SYSTEM_POOL ∧
        (∃ pool, m1.pool (FIND_POOL m (u32 (length * wide))) = some pool ∧ size = pool.wide) ∧
        (m.cfg.NDEBUG = false → u32 (length * wide) ≤ size)) ∨
      (¬ FIND_POOL m (u32 (length * wide)) < SYSTEM_POOL ∧
        (flags.POWER_OF_2 = true → pow2_loop (u32 (length * wide)) 64 2048 = some size) ∧
        (flags.POWER_OF_2 = false → size = u32 (length * wide)))) := by
  unfold Series_Data_Alloc_block at h
  simp only [] at h
  by_cases hp : FIND_POOL m (u32 (length * wide)) < SYSTEM_POOL
  · rw [if_pos hp] at h
    have hs := Make_Node_same m (FIND_POOL m (u32 (length * wide)))
    cases hmk : Make_Node m (FIND_POOL m (u32 (length * wide))) with
    | fault f m2 => rw [hmk] at h; simp at h
    | ok node m2 =>
      rw [hmk] at h hs
      simp only [Result.mem_ok] at hs
      simp only [] at h
      cases hpool : m2.pool (FIND_POOL m (u32 (length * wide))) with
      | none => rw [hpool] at h; simp at h
      | some pool =>
        rw [hpool] at h
        simp only [] at h
        split_ifs at h with hd
        simp only [Result.ok.injEq, Prod.mk.injEq, Option.some.injEq] at h
        obtain ⟨⟨rfl, rfl⟩, rfl⟩ := h
        refine ⟨hs, rfl, fresh_mem_length _ _ _, Or.inl ⟨hp, ⟨pool, hpool, rfl⟩, ?_⟩⟩
        intro hdb
        by_contra hlt
        exact hd ⟨by rw [hdb]; decide, hlt⟩
  · rw [if_neg hp] at h
    cases hfl : flags.POWER_OF_2 with
    | false =>
      simp only [hfl, Bool.false_eq_true, if_false, false_and] at h
      have hs := Alloc_Mem_same m (u32 (length * wide))
      cases ha : Alloc_Mem m (u32 (length * wide)) with
      | fault f m2 => rw [ha] at h; simp at h
      | ok p m2 =>
        rw [ha] at h hs
        simp only [Result.mem_ok] at hs
        cases p with
        | none => simp at h
        | some data =>
          simp only [] at h
          cases hpool : m2.pool SYSTEM_POOL with
          | none => rw [hpool] at h; simp at h
          | some pool =>
            rw [hpool] at h
            simp only [Result.ok.injEq, Prod.mk.injEq, Option.some.injEq] at h
            obtain ⟨⟨rfl, rfl⟩, rfl⟩ := h
            refine ⟨hs.set_pool_of hpool _ rfl, rfl, fresh_mem_length _ _ _,
              Or.inr ⟨hp, fun h => Bool.noConfusion h, fun _ => rfl⟩⟩
    | true =>
      simp only [hfl, if_true, true_and] at h
      cases hl : pow2_loop (u32 (length * wide)) 64 2048 with
      | none => rw [hl] at h; simp at h
      | some len =>
        rw [hl] at h
        simp only [] at h
        split_ifs at h with hw0
        have hs := Alloc_Mem_same m len
        cases ha : Alloc_Mem m len with
        | fault f m2 => rw [ha] at h; simp at h
        | ok p m2 =>
          rw [ha] at h hs
          simp only [Result.mem_ok] at hs
          cases p with
          | none => simp at h
          | some data =>
            simp only [] at h
            cases hpool : m2.pool SYSTEM_POOL with
            | none => rw [hpool] at h; simp at h
            | some pool =>
              rw [hpool] at h
              simp only [Result.ok.injEq, Prod.mk.injEq, Option.some.injEq] at h
              obtain ⟨⟨rfl, rfl⟩, rfl⟩ := h
              refine ⟨hs.set_pool_of hpool _ rfl, rfl, fresh_mem_length _ _ _,
                Or.inr ⟨hp, fun _ => rfl, fun h => Bool.noConfusion h⟩⟩

theorem Series_Data_Alloc_block_none {m m1 : Memory} {s s1 : REBSER} {length wide : Nat}
    {flags : MKS} (h : Series_Data_Alloc_block m s length wide flags = .ok (none, s1) m1) :
    Same_Tables m m1 ∧ s1.node = s.node := by
  unfold Series_Data_Alloc_block at h
  simp only [] at h
  by_cases hp : FIND_POOL m (u32 (length * wide)) < SYSTEM_POOL
  · rw [if_pos hp] at h
    split at h
    · simp at h
    · split at h
      · simp at h
      · split_ifs at h
        simp at h
  · rw [if_neg hp] at h
    split at h
    · simp at h
    · split_ifs at h
      rename_i size p2 _ _
      have hs := Alloc_Mem_same m size
      split at h
      · simp at h
      · rename_i m2 ha
        rw [ha] at hs
        simp only [Result.ok.injEq, Prod.mk.injEq, true_and] at h
        obtain ⟨rfl, rfl⟩ := h
        exact ⟨hs, rfl⟩
      · split at h <;> simp at h

theorem Series_Data_Alloc_block_same (m : Memory) (s : REBSER) (length wide : Nat)
    (flags : MKS) : Same_Tables m (Series_Data_Alloc_block m s length wide flags).mem := by
  cases h : Series_Data_Alloc_block m s length wide flags with
  | ok r m1 =>
    obtain ⟨o, s1⟩ := r
    cases o with
    | none => exact (Series_Data_Alloc_block_none h).1
    | some size => exact (Series_Data_Alloc_block_ok h).1
  | fault f m1 =>
    rw [Result.mem_fault]
    unfold Series_Data_Alloc_block at h
    simp only [] at h
    by_cases hp : FIND_POOL m (u32 (length * wide)) < SYSTEM_POOL
    · rw [if_pos hp] at h
      have hs := Make_Node_same m (FIND_POOL m (u32 (length * wide)))
      split at h
      · rename_i f1 m2 hmk
        rw [hmk] at hs
        simp only [Result.fault.injEq] at h
        rw [← h.2]; exact hs
      · rename_i node m2 hmk
        rw [hmk] at hs
        split at h
        · simp only [Result.fault.injEq] at h
          rw [← h.2]; exact hs
        · split_ifs at h
          simp only [Result.fault.injEq] at h
          rw [← h.2]; exact hs
    · rw [if_neg hp] at h
      split at h
      · simp only [Result.fault.injEq] at h
        rw [← h.2]; exact Same_Tables.refl m
      · split_ifs at h
        · simp only [Result.fault.injEq] at h
          rw [← h.2]; exact Same_Tables.refl m
        · rename_i size p2 _ _
          have hs := Alloc_Mem_same m size
          split at h
          · rename_i f1 m2 ha
            rw [ha] at hs
            simp only [Result.fault.injEq] at h
            rw [← h.2]; exact hs
          · simp at h
          · rename_i data m2 ha
            rw [ha] at hs
            split at h
            · simp only [Result.fault.injEq] at h
              rw [← h.2]; exact hs
            · simp at h

theorem Series_Data_Alloc_setup_same (m : Memory) (length wide : Nat) (flags : MKS)
    (size : Nat) (s1 : REBSER) (m1 : Memory) :
    Same_Tables m1 (Series_Data_Alloc_setup m length wide flags size s1 m1).mem := by
  unfold Series_Data_Alloc_setup
  simp only []
  repeat (first | exact Same_Tables.refl _ | exact Same_Tables.sub_ballast _ _ | split)

theorem Series_Data_Alloc_setup_ok {m m1 m2 : Memory} {s1 r : REBSER}
    {length wide size : Nat} {flags : MKS} {b : Bool}
    (h : Series_Data_Alloc_setup m length wide flags size s1 m1 = .ok (b, r) m2) :
    b = true ∧ m2 = m1.sub_ballast size ∧ wide ≠ 0 ∧
    r = { s1 with wide := wide, bias := 0, is_array := flags.ARRAY, rest := size / wide,
                  len := 0, has_dynamic := true, mem := r.mem } ∧
    r.mem.length = s1.mem.length ∧
    (flags.ARRAY = false → r.mem = s1.mem) ∧
    (flags.ARRAY = true → 0 < size / wide ∧ ∃ data, s1.data = some data ∧
      { s1 with wide := wide, bias := 0, is_array := flags.ARRAY, rest := size / wide,
                len := 0, has_dynamic := true }.write
        (data + (size / wide - 1) * m.cfg.sizeof_REBVAL) (header_bytes m.cfg NODE_FLAG_END)
        = some r) := by
  unfold Series_Data_Alloc_setup at h
  simp only [] at h
  by_cases h1 : ¬ m.cfg.NDEBUG = true ∧ flags.ARRAY = true ∧ wide ≠ m.cfg.sizeof_REBVAL
  · rw [if_pos h1] at h; simp at h
  rw [if_neg h1] at h
  by_cases h2 : wide = 0
  · rw [if_pos h2] at h; simp at h
  rw [if_neg h2] at h
  split_ifs at h with h3 h4 h5
  · split at h <;> simp at h
  · split at h
    · simp at h
    · rename_i data hdata
      split at h
      · simp at h
      · rename_i s3 hw
        simp only [Result.ok.injEq, Prod.mk.injEq] at h
        obtain ⟨⟨rfl, rfl⟩, rfl⟩ := h
        obtain ⟨_, _, e3, e4, _⟩ := REBSER.write_some hw
        refine ⟨rfl, rfl, h2, ?_, e4, ?_, ?_⟩
        · exact e3
        · intro hf; rw [hf] at h4; exact absurd h4 (by decide)
        · intro _
          exact ⟨Nat.pos_of_ne_zero h5, data, hdata, hw⟩
  · simp only [Result.ok.injEq, Prod.mk.injEq] at h
    obtain ⟨⟨rfl, rfl⟩, rfl⟩ := h
    refine ⟨rfl, rfl, h2, rfl, rfl, fun _ => rfl, ?_⟩
    intro hf; exact absurd hf h4

theorem Series_Data_Alloc_ok {m m1 : Memory} {s r : REBSER} {length wide : Nat}
    {flags : MKS} (h : Series_Data_Alloc m s length wide flags = .ok (true, r) m1) :
    Alloc_Post m m1 s r length wide flags := by
  unfold Series_Data_Alloc at h
  split_ifs at h with hpre
  split at h
  · simp at h
  · simp at h
  · rename_i size s1 m2 hb
    obtain ⟨a1, a2, a3, a4⟩ := Series_Data_Alloc_block_ok hb
    obtain ⟨_, b2, b3, b4, b5, b6, b7⟩ := Series_Data_Alloc_setup_ok h
    have hbase : r.base = s1.base := by rw [b4]
    have hsame : Same_Tables m m1 := by
      rw [b2]; exact a1.trans (Same_Tables.sub_ballast _ _)
    have hlen : r.mem.length = size := by rw [b5, a3]
    have hpool : ∀ id, m1.pool id = m2.pool id := by
      intro id; rw [b2]; rfl
    refine ⟨hsame, b3, ?_, ?_, ?_⟩
    · rw [hlen, hbase]
      rw [b4]
      rw [a2]
    · rw [hlen]
      rcases a4 with ⟨c1, ⟨pool, c2, c3⟩, c4⟩ | ⟨c1, c2, c3⟩
      · exact Or.inl ⟨c1, ⟨pool, by rw [hpool]; exact c2, c3⟩, c4⟩
      · exact Or.inr ⟨c1, c2, c3⟩
    · intro ha
      obtain ⟨d1, data, d2, d3⟩ := b7 ha
      rw [hlen]
      refine ⟨d1, fun hc => ?_⟩
      have hd : data = s1.base := by
        rw [a2] at d2
        simp only [Option.some.injEq] at d2
        exact d2.symm
      rw [hbase, ← hd]
      exact IS_END_AT_header hc d3

theorem FIND_POOL_lt {m : Memory} {n : Nat} (h : FIND_POOL m n < SYSTEM_POOL) :
    n ≤ 4 * MEM_BIG_SIZE ∧ FIND_POOL m n = m.PG_Pool_Map.getD n 0 := by
  unfold FIND_POOL at h ⊢
  split_ifs at h ⊢ with h1 h2 h3
  · exact ⟨h2, rfl⟩
  · exact absurd h (Nat.lt_irrefl SYSTEM_POOL)
  · exact ⟨h3.2, rfl⟩
  · exact absurd h (Nat.lt_irrefl SYSTEM_POOL)

theorem pow2_loop_ge {size r : Nat} : ∀ (fuel len : Nat),
    pow2_loop size fuel len = some r → size ≤ r
  | 0, _, h => by simp [pow2_loop] at h
  | fuel + 1, len, h => by
    unfold pow2_loop at h
    split_ifs at h with hlt
    · exact pow2_loop_ge fuel _ h
    · simp only [Option.some.injEq] at h
      omega

theorem pow2_loop_le {size r : Nat} : ∀ (fuel len : Nat),
    (len = 0 ∨ ∃ j, j ≤ 31 ∧ len = 2 ^ j) →
    pow2_loop size fuel len = some r → r ≤ 2147483648
  | 0, _, _, h => by simp [pow2_loop] at h
  | fuel + 1, len, hl, h => by
    unfold pow2_loop at h
    split_ifs at h with hlt
    · refine pow2_loop_le fuel _ ?_ h
      rcases hl with rfl | ⟨j, hj, rfl⟩
      · left; rfl
      · rcases Nat.lt_or_ge j 31 with h31 | h31
        · right
          refine ⟨j + 1, by omega, ?_⟩
          unfold u32
          rw [← pow_succ]
          apply Nat.mod_eq_of_lt
          calc 2 ^ (j + 1) ≤ 2 ^ 31 := Nat.pow_le_pow_right (by decide) (by omega)
            _ < 4294967296 := by norm_num
        · left
          have : j = 31 := by omega
          subst this
          decide
    · simp only [Option.some.injEq] at h
      subst h
      rcases hl with rfl | ⟨j, hj, rfl⟩
      · omega
      · calc 2 ^ j ≤ 2 ^ 31 := Nat.pow_le_pow_right (by decide) hj
          _ = 2147483648 := by norm_num

theorem Tables_OK.pool_fits {m m1 : Memory} (ht : Tables_OK m) (hs : Same_Tables m m1)
    {n : Nat} (hf : FIND_POOL m n < SYSTEM_POOL) {pool : REBPOL}
    (hp : m1.pool (FIND_POOL m n) = some pool) : n ≤ pool.wide := by
  obtain ⟨hn, he⟩ := FIND_POOL_lt hf
  rw [he, ht.map, Init_Pool_Map_getD _ _ hn] at hp
  obtain ⟨_, spec, hspec, hle⟩ := Pool_Map_Entry_spec m.cfg n ht.min hn
  have h1 := hs.pool_wide (Pool_Map_Entry m.cfg n)
  rw [hp] at h1
  have h2 : (m.pool (Pool_Map_Entry m.cfg n)).map (fun p => p.wide) = some spec.wide := by
    have := ht.widths
    unfold Memory.widths at this
    unfold Memory.pool
    rw [← List.getElem?_map, this, List.getElem?_map, hspec]
    rfl
  rw [h2] at h1
  simp only [Option.map_some', Option.some.injEq] at h1
  omega

theorem Alloc_Post.enough {m m1 : Memory} {s r : REBSER} {length wide : Nat} {flags : MKS}
    (h : Alloc_Post m m1 s r length wide flags) (ht : Tables_OK m) :
    u32 (length * wide) ≤ r.mem.length := by
  rcases h.size with ⟨c1, ⟨pool, c2, c3⟩, _⟩ | ⟨_, c2, c3⟩
  · rw [c3]
    exact ht.pool_fits h.same c1 c2
  · cases hf : flags.POWER_OF_2 with
    | true => exact pow2_loop_ge _ _ (c2 hf)
    | false => rw [c3 hf]

theorem Alloc_Post.rest_ge {m m1 : Memory} {s r : REBSER} {length wide : Nat} {flags : MKS}
    (h : Alloc_Post m m1 s r length wide flags) (ht : Tables_OK m)
    (hsmall : length * wide < 4294967296) : length ≤ r.rest := by
  have h1 := h.enough ht
  have h2 : r.rest = r.mem.length / wide := by rw [h.fields]
  rw [h2]
  unfold u32 at h1
  rw [Nat.mod_eq_of_lt hsmall] at h1
  exact (Nat.le_div_iff_mul_le (Nat.pos_of_ne_zero h.wide_ne)).2 h1

theorem SER_AT_dynamic {c : Config} {s : REBSER} {d : Nat} (h1 : s.has_dynamic = true)
    (h2 : s.data = some d) (i : Nat) : SER_AT c s i = s.read (d + i * s.wide) s.wide := by
  unfold SER_AT SER_DATA_RAW
  rw [if_pos h1, h2]

theorem u32_of_lt {n : Nat} (h : n < 4294967296) : u32 n = n := Nat.mod_eq_of_lt h

theorem REBSER.write_nil {s s1 : REBSER} {addr : Nat} (h : s.write addr [] = some s1) :
    s1 = s := by
  obtain ⟨h1, h2, h3, h4, h5⟩ := REBSER.write_some h
  have : s1.mem = s.mem := by
    apply List.ext_getElem?
    intro j
    rw [h5, if_neg]
    simp only [List.length_nil]
    omega
  rw [h3, this]

theorem REBSER.read_zero {s : REBSER} {a : Nat} {l : List Nat} (h : s.read a 0 = some l) :
    l = [] := by
  have := (REBSER.read_some h).2.2.1
  exact List.length_eq_zero.1 this

theorem REBSER.memmove_zero {s s1 : REBSER} {dst src : Nat}
    (h : s.memmove dst src 0 = some s1) : s1 = s := by
  unfold REBSER.memmove at h
  split at h
  · simp at h
  · rename_i bytes hr
    have hb := REBSER.read_zero hr
    subst hb
    exact REBSER.write_nil h

theorem Expand_Series_slide_tail {m m1 : Memory} {s s1 : REBSER} {delta : Nat}
    (hs : Series_OK s) (hna : s.is_array = false) (hd : delta * s.wide < 2147483648)
    (h : Expand_Series_slide m s s.len delta = .ok s1 m1) :
    m1 = m ∧ s1 = { s with len := s.len + delta, mem := s1.mem } ∧
    s1.mem.length = s.mem.length ∧
    ∀ i, i < s.len → SER_AT m.cfg s1 i = SER_AT m.cfg s i := by
  have hlen : SER_LEN s = s.len := by unfold SER_LEN; rw [if_pos hs.dynamic]
  have hfit := hs.fits
  have hsm := hs.small
  have hroom := hs.room
  have hw := hs.wide_pos
  have hlw : s.len * s.wide < 2147483648 := by
    have : s.len * s.wide ≤ (s.bias + s.rest) * s.wide :=
      Nat.mul_le_mul_right _ (by omega)
    have h2 : s.len * s.wide + s.wide ≤ (s.bias + s.rest) * s.wide := by
      calc s.len * s.wide + s.wide = (s.len + 1) * s.wide := by ring
        _ ≤ (s.bias + s.rest) * s.wide := Nat.mul_le_mul_right _ (by omega)
    omega
  have hdl : s.len + delta < 4294967296 := by
    have h1 : s.len ≤ s.len * s.wide := Nat.le_mul_of_pos_right _ hw
    have h2 : delta ≤ delta * s.wide := Nat.le_mul_of_pos_right _ hw
    omega
  have hraw : SER_DATA_RAW m.cfg s = some (s.base + s.bias * s.wide) := by
    unfold SER_DATA_RAW; rw [if_pos hs.dynamic, hs.data]
  unfold Expand_Series_slide at h
  simp only [hlen, hraw] at h
  rw [u32_of_lt (show s.len * s.wide < 4294967296 by omega),
    u32_of_lt (show delta * s.wide < 4294967296 by omega), u32_of_lt hdl] at h
  have hz : u32 (s.len * s.wide + 4294967296 - s.len * s.wide) = 0 := by
    have : s.len * s.wide + 4294967296 - s.len * s.wide = 4294967296 := by omega
    rw [this]; rfl
  rw [hz] at h
  split at h
  · simp at h
  · rename_i s2 hw2
    · have e2 := REBSER.memmove_zero hw2
      subst e2
      have hset : SET_SERIES_LEN s2 (s2.len + delta) = { s2 with len := s2.len + delta } := by
        unfold SET_SERIES_LEN; rw [if_pos hs.dynamic]
      rw [hset] at h
      split_ifs at h with hdb
      split at h
      · simp at h
      · rename_i s3 ht
        simp only [Result.ok.injEq] at h
        obtain ⟨rfl, rfl⟩ := h
        unfold TERM_SERIES at ht
        simp only [hna, Bool.false_eq_true, if_false] at ht
        unfold TERM_SEQUENCE SER_DATA_RAW SER_LEN at ht
        simp only [hs.dynamic, if_true, hs.data] at ht
        have hmul : s2.wide * (s2.len + delta) < 4294967296 := by
          have : s2.wide * (s2.len + delta) = s2.len * s2.wide + delta * s2.wide := by ring
          omega
        rw [u32_of_lt hmul] at ht
        obtain ⟨w1, w2, w3, w4, w5⟩ := REBSER.write_some ht
        have hd3 : s3.data = some (s2.base + s2.bias * s2.wide) := by rw [w3]
        have hdy3 : s3.has_dynamic = true := by rw [w3]
        have hw3 : s3.wide = s2.wide := by rw [w3]
        refine ⟨rfl, ?_, w4, ?_⟩
        · conv_lhs => rw [w3]
          simp only [REBSER.mk.injEq, hna, hs.dynamic, hs.data, and_self]
        · intro i hi
          rw [SER_AT_dynamic hdy3 hd3, SER_AT_dynamic hs.dynamic hs.data, hw3]
          have := REBSER.read_write_outside ht (s2.base + s2.bias * s2.wide + i * s2.wide)
            s2.wide (Or.inl (by
              have h1 : i * s2.wide + s2.wide ≤ s2.len * s2.wide := by
                calc i * s2.wide + s2.wide = (i + 1) * s2.wide := by ring
                  _ ≤ s2.len * s2.wide := Nat.mul_le_mul_right _ (by omega)
              have h2 : s2.wide * (s2.len + delta) = s2.len * s2.wide + delta * s2.wide := by
                ring
              omega))
          rw [this]
          rfl

theorem REBSER.read_sub {s : REBSER} {a n : Nat} {l : List Nat} (h : s.read a n = some l)
    (i k : Nat) (hik : i + k ≤ n) : s.read (a + i) k = some ((l.drop i).take k) := by
  obtain ⟨h1, h2, h3, h4⟩ := REBSER.read_some h
  apply REBSER.read_of
  · omega
  · omega
  · simp only [List.length_take, List.length_drop]; omega
  · intro j hj
    rw [List.getElem?_take_of_lt hj, List.getElem?_drop, h4 (i + j) (by omega)]
    congr 1
    omega

theorem Result.same_of_ok {α : Type} {m m1 : Memory} {r : Result α} {a : α}
    (h : Same_Tables m r.mem) (hr : r = .ok a m1) : Same_Tables m m1 := by
  rw [hr] at h; exact h

theorem Expand_Series_move_tail {m m1 : Memory} {s s1 : REBSER} {delta : Nat}
    (hs : Series_OK s) (hna : s.is_array = false) (hd : delta * s.wide < 2147483648)
    (h : Expand_Series_move m s s.len delta = .ok s1 m1) :
    m1.cfg = m.cfg ∧ s1.has_dynamic = true ∧ s1.wide = s.wide ∧ s1.is_array = false ∧
    s1.len = s.len + delta ∧ s1.bias = 0 ∧ s1.data = some s1.base ∧
    s1.rest = s1.mem.length / s.wide ∧ s1.node = s.node ∧
    ∀ i, i < s.len → SER_AT m.cfg s1 i = SER_AT m.cfg s i := by
  have hlen : SER_LEN s = s.len := by unfold SER_LEN; rw [if_pos hs.dynamic]
  have hfit := hs.fits
  have hsm := hs.small
  have hroom := hs.room
  have hw := hs.wide_pos
  have hlw : s.len * s.wide < 2147483648 := by
    have h2 : s.len * s.wide + s.wide ≤ (s.bias + s.rest) * s.wide := by
      calc s.len * s.wide + s.wide = (s.len + 1) * s.wide := by ring
        _ ≤ (s.bias + s.rest) * s.wide := Nat.mul_le_mul_right _ (by omega)
    omega
  have hdl : s.len + delta < 4294967296 := by
    have h1 : s.len ≤ s.len * s.wide := Nat.le_mul_of_pos_right _ hw
    have h2 : delta ≤ delta * s.wide := Nat.le_mul_of_pos_right _ hw
    omega
  have hraw : SER_DATA_RAW m.cfg s = some (s.base + s.bias * s.wide) := by
    unfold SER_DATA_RAW; rw [if_pos hs.dynamic, hs.data]
  have hz : u32 (s.len * s.wide + 4294967296 - s.len * s.wide) = 0 := by
    have : s.len * s.wide + 4294967296 - s.len * s.wide = 4294967296 := by omega
    rw [this]; rfl
  unfold Expand_Series_move at h
  simp only [hlen, hraw] at h
  rw [u32_of_lt (show s.len * s.wide < 4294967296 by omega),
    u32_of_lt (show delta * s.wide < 4294967296 by omega), u32_of_lt hdl, hz] at h
  rw [if_pos hs.dynamic] at h
  cases hso : Series_Allocation_Unpooled s with
  | none => rw [hso] at h; simp at h
  | some size_old =>
    rw [hso] at h
    simp only [] at h
    split at h
    · simp at h
    · simp at h
    · rename_i r m2 hal
      have hp := Series_Data_Alloc_ok hal
      have hcfg2 : m2.cfg = m.cfg := hp.same.cfg
      obtain ⟨m2', hm2', hc2'⟩ : ∃ m2' : Memory,
          (if (Prior_Expand_loop m.Prior_Expand s.node (List.range MAX_EXPAND_LIST) 0).1.isSome
              = true then m2
            else { m2 with Prior_Expand := (List.set m2.Prior_Expand
              (Prior_Expand_loop m.Prior_Expand s.node (List.range MAX_EXPAND_LIST) 0).2
              s.node) }) = m2' ∧ m2'.cfg = m.cfg :=
        ⟨_, rfl, by split_ifs <;> exact hcfg2⟩
      simp only [hm2'] at h
      split at h
      swap
      · simp at h
      rename_i d1 d2 d3 data head tail hdata hhead htail
      have ht0 := REBSER.read_zero htail
      subst ht0
      split at h
      · simp at h
      rename_i s2 hw2
      split at h
      · simp at h
      rename_i s3 hw3
      have e3 := REBSER.write_nil hw3
      subst e3
      split at h
      · simp at h
      rename_i s4 hterm
      have hrf := hp.fields
      have a2 := REBSER.write_some hw2
      have hs3f : s3 = { r with mem := s3.mem } := a2.2.2.1
      have hna3 : s3.is_array = false := by rw [hs3f, hrf]; exact hna
      have hw3 : s3.wide = s.wide := by rw [hs3f, hrf]
      have hdy3 : s3.has_dynamic = true := by rw [hs3f, hrf]
      have hd3 : s3.data = some data := by rw [hs3f]; exact hdata
      have hdb : data = r.base := by
        rw [hrf] at hdata
        simp only [Option.some.injEq] at hdata
        exact hdata.symm
      unfold TERM_SERIES at hterm
      simp only [hna3, Bool.false_eq_true, if_false] at hterm
      unfold TERM_SEQUENCE SER_DATA_RAW SER_LEN at hterm
      simp only [hdy3, if_true, hd3, hw3] at hterm
      have hmul : s.wide * (s.len + delta) < 4294967296 := by
        have : s.wide * (s.len + delta) = s.len * s.wide + delta * s.wide := by ring
        omega
      rw [u32_of_lt hmul] at hterm
      obtain ⟨w1, w2, w3, w4, w5⟩ := REBSER.write_some hterm
      have hres : s1 = s4 ∧ m1.cfg = m.cfg := by
        split_ifs at h with hfree
        · split at h
          · simp at h
          · rename_i m3 hfr
            simp only [Result.ok.injEq] at h
            have := Result.same_of_ok (Free_Unbiased_Series_Data_same _ _ _) hfr
            refine ⟨h.1.symm, ?_⟩
            rw [← h.2, this.cfg]
            exact hc2'
        · exact absurd hs.dynamic hfree
      obtain ⟨rfl, hc1⟩ := hres
      have hs4 : s1.has_dynamic = true ∧ s1.wide = s.wide ∧ s1.is_array = false ∧
          s1.len = s.len + delta ∧ s1.bias = 0 ∧ s1.data = some s1.base ∧
          s1.rest = s1.mem.length / s.wide ∧ s1.node = s.node := by
        have hml : s1.mem.length = r.mem.length := by rw [w4]; exact a2.2.2.2.1
        have hb3 : s3.bias = 0 := by rw [hs3f, hrf]
        have hr3 : s3.rest = r.mem.length / s.wide := by rw [hs3f, hrf]
        have hn3 : s3.node = s.node := by rw [hs3f, hrf]
        have hbs3 : s3.base = r.base := by rw [hs3f]
        refine ⟨by rw [w3], by rw [w3], by rw [w3], by rw [w3], ?_, ?_, ?_, ?_⟩
        · rw [w3]; exact hb3
        · rw [w3]; dsimp only; rw [hdb, hbs3]
        · rw [hml, w3]; exact hr3
        · rw [w3]; exact hn3
      refine ⟨hc1, hs4.1, hs4.2.1, hs4.2.2.1, hs4.2.2.2.1, hs4.2.2.2.2.1, hs4.2.2.2.2.2.1,
        hs4.2.2.2.2.2.2.1, hs4.2.2.2.2.2.2.2, ?_⟩
      intro i hi
      have hd4 : s1.data = some data := by rw [w3]
      rw [SER_AT_dynamic hs4.1 hd4, SER_AT_dynamic hs.dynamic hs.data, hs4.2.1]
      have hiw : i * s.wide + s.wide ≤ s.len * s.wide := by
        calc i * s.wide + s.wide = (i + 1) * s.wide := by ring
          _ ≤ s.len * s.wide := Nat.mul_le_mul_right _ (by omega)
      have hhl : head.length = s.len * s.wide := (REBSER.read_some hhead).2.2.1
      have r1 := REBSER.read_write_outside hterm (data + i * s.wide) s.wide (Or.inl (by
        have h2 : s.wide * (s.len + delta) = s.len * s.wide + delta * s.wide := by ring
        omega))
      have r2 := REBSER.read_write_inside hw2 (i * s.wide) s.wide (by omega)
      have r3 := REBSER.read_sub hhead (i * s.wide) s.wide (by omega)
      rw [r1, r3, ← r2]
      rfl

theorem Expand_Series_tail {m m1 : Memory} {s s1 : REBSER} {delta : Nat}
    (hs : Series_OK s) (hna : s.is_array = false) (hd : delta * s.wide < 2147483648)
    (h : Expand_Series m s s.len delta = .ok s1 m1) :
    m1.cfg = m.cfg ∧ s1.has_dynamic = true ∧ s1.wide = s.wide ∧ s1.is_array = false ∧
    (∃ d, s1.data = some d) ∧ s1.node = s.node ∧
    ∀ i, i < s.len → SER_AT m.cfg s1 i = SER_AT m.cfg s i := by
  unfold Expand_Series at h
  simp only [] at h
  split_ifs at h with h1 h2 h3 h4 h5 h6
  · simp only [Result.ok.injEq] at h
    obtain ⟨rfl, rfl⟩ := h
    exact ⟨rfl, hs.dynamic, rfl, hna, ⟨_, hs.data⟩, rfl, fun _ _ => rfl⟩
  · unfold Expand_Series_head at h
    rw [hs.data] at h
    simp only [] at h
    split_ifs at h
    simp only [Result.ok.injEq] at h
    obtain ⟨rfl, rfl⟩ := h
    refine ⟨rfl, hs.dynamic, rfl, hna, ⟨_, rfl⟩, rfl, ?_⟩
    intro i hi
    omega
  · obtain ⟨e1, e2, _, e4⟩ := Expand_Series_slide_tail hs hna hd h
    subst e1
    refine ⟨rfl, ?_, ?_, ?_, ?_, ?_, e4⟩
    · rw [e2]; exact hs.dynamic
    · rw [e2]
    · rw [e2]; exact hna
    · exact ⟨_, by rw [e2]; exact hs.data⟩
    · rw [e2]
  · obtain ⟨e1, e2, e3, e4, _, _, e7, _, e9, e10⟩ := Expand_Series_move_tail hs hna hd h
    exact ⟨e1, e2, e3, e4, ⟨_, e7⟩, e9, e10⟩

theorem Extend_Series_keeps {m m1 : Memory} {s s1 : REBSER} {delta : Nat}
    (hs : Series_OK s) (hna : s.is_array = false) (hd : delta * s.wide < 2147483648)
    (h : Extend_Series m s delta = .ok s1 m1) :
    m1.cfg = m.cfg ∧ s1.has_dynamic = true ∧ s1.wide = s.wide ∧ s1.is_array = false ∧
    s1.len = s.len ∧ (∃ d, s1.data = some d) ∧ s1.node = s.node ∧
    ∀ i, i < s.len → SER_AT m.cfg s1 i = SER_AT m.cfg s i := by
  have hlen : SER_LEN s = s.len := by unfold SER_LEN; rw [if_pos hs.dynamic]
  unfold Extend_Series at h
  simp only [hlen] at h
  split_ifs at h with h1
  · simp only [Result.ok.injEq] at h
    obtain ⟨rfl, rfl⟩ := h
    exact ⟨rfl, hs.dynamic, rfl, hna, rfl, ⟨_, hs.data⟩, rfl, fun _ _ => rfl⟩
  · split at h
    · simp at h
    · rename_i s2 m2 he
      simp only [Result.ok.injEq] at h
      obtain ⟨rfl, rfl⟩ := h
      obtain ⟨e1, e2, e3, e4, ⟨d, e5⟩, e6, e7⟩ := Expand_Series_tail hs hna hd he
      have hset : SET_SERIES_LEN s2 s.len = { s2 with len := s.len } := by
        unfold SET_SERIES_LEN; rw [if_pos e2]
      rw [hset]
      refine ⟨e1, e2, e3, e4, rfl, ⟨d, e5⟩, e6, ?_⟩
      intro i hi
      rw [← e7 i hi]
      rfl

theorem Make_Series_manual_own {m4 m6 : Memory} {s1 s : REBSER} {flags : MKS}
    (hf : flags.GC_MANUALS = true) (h : Make_Series_manual m4 s1 flags = .ok s m6) :
    s = s1 ∧ m6 = m4 := by
  unfold Make_Series_manual at h
  simp only [hf, if_true] at h
  split_ifs at h
  simp only [Result.ok.injEq] at h
  exact ⟨h.1.symm, h.2.symm⟩

theorem header_bytes_length (c : Config) (n : Nat) :
    (header_bytes c n).length = c.sizeof_REBUPT := by
  simp [header_bytes]

theorem Make_Series_manual_ok {m4 m6 : Memory} {s1 s : REBSER} {flags : MKS}
    (hf : flags.GC_MANUALS = false) (hm : Manuals_OK m4)
    (hptr : 8 * m4.cfg.sizeof_REBUPT < 2147483648)
    (h : Make_Series_manual m4 s1 flags = .ok s m6) :
    s = s1 ∧ m6.cfg = m4.cfg ∧
    SER_LEN m6.GC_Manuals = SER_LEN m4.GC_Manuals + 1 ∧
    (∀ i, i < SER_LEN m4.GC_Manuals →
      SER_AT m4.cfg m6.GC_Manuals i = SER_AT m4.cfg m4.GC_Manuals i) ∧
    SER_AT m4.cfg m6.GC_Manuals (SER_LEN m4.GC_Manuals) =
      some (header_bytes m4.cfg s1.node) := by
  have hs := hm.series
  have hlen : SER_LEN m4.GC_Manuals = m4.GC_Manuals.len := by
    unfold SER_LEN; rw [if_pos hs.dynamic]
  have hwpos := hs.wide_pos
  have hl32 : m4.GC_Manuals.len + 1 < 4294967296 := by
    have h1 := hs.fits
    have h2 := hs.small
    have h3 := hs.room
    have h4 : m4.GC_Manuals.rest ≤ (m4.GC_Manuals.bias + m4.GC_Manuals.rest) * m4.GC_Manuals.wide :=
      le_trans (Nat.le_add_left _ _) (Nat.le_mul_of_pos_right _ hwpos)
    omega
  unfold Make_Series_manual at h
  simp only [hf, Bool.false_eq_true, if_false] at h
  rw [if_neg (by rw [hs.dynamic]; simp)] at h
  -- the manuals list after the extension
  generalize hext : (if SER_FULL m4.cfg m4.GC_Manuals = true then
      Extend_Series m4 m4.GC_Manuals 8 else Result.ok m4.GC_Manuals m4) = ext at h
  have hkeep : ∀ M m5, ext = .ok M m5 →
      m5.cfg = m4.cfg ∧ M.has_dynamic = true ∧ M.wide = m4.GC_Manuals.wide ∧
      M.len = m4.GC_Manuals.len ∧ (∃ d, M.data = some d) ∧
      ∀ i, i < m4.GC_Manuals.len → SER_AT m4.cfg M i = SER_AT m4.cfg m4.GC_Manuals i := by
    intro M m5 he
    rw [← hext] at he
    split_ifs at he
    · obtain ⟨e1, e2, e3, _, e5, e6, _, e8⟩ :=
        Extend_Series_keeps hs hm.not_array (by rw [hm.wide]; exact hptr) he
      exact ⟨e1, e2, e3, e5, e6, e8⟩
    · simp only [Result.ok.injEq] at he
      obtain ⟨rfl, rfl⟩ := he
      exact ⟨rfl, hs.dynamic, rfl, rfl, ⟨_, hs.data⟩, fun _ _ => rfl⟩
  cases ext with
  | fault f m5 => simp at h
  | ok M m5 =>
    obtain ⟨k1, k2, k3, k4, ⟨d, k5⟩, k6⟩ := hkeep M m5 rfl
    simp only [k5] at h
    split at h
    · simp at h
    · rename_i M1 hw
      split_ifs at h
      simp only [Result.ok.injEq] at h
      obtain ⟨rfl, rfl⟩ := h
      obtain ⟨w1, w2, w3, w4, w5⟩ := REBSER.write_some hw
      have hM1d : M1.has_dynamic = true := by rw [w3]; exact k2
      have hM1data : M1.data = some d := by rw [w3]; exact k5
      have hM1w : M1.wide = m4.cfg.sizeof_REBUPT := by rw [w3]; dsimp only; rw [k3, hm.wide]
      have hMw : M.wide = m4.cfg.sizeof_REBUPT := by rw [k3, hm.wide]
      refine ⟨rfl, k1, ?_, ?_, ?_⟩
      · dsimp only
        unfold SER_LEN
        dsimp only
        rw [if_pos hM1d, if_pos hs.dynamic, k4, u32_of_lt hl32]
      · intro i hi
        rw [hlen] at hi
        rw [← k6 i hi]
        have e1 : SER_AT m4.cfg { M1 with len := u32 (M.len + 1) } i =
            M1.read (d + i * m4.cfg.sizeof_REBUPT) m4.cfg.sizeof_REBUPT := by
          rw [SER_AT_dynamic (by exact hM1d) (by exact hM1data)]
          dsimp only
          rw [hM1w]
          rfl
        rw [e1, SER_AT_dynamic k2 k5, hMw]
        apply REBSER.read_write_outside hw
        left
        rw [k4]
        calc d + i * m4.cfg.sizeof_REBUPT + m4.cfg.sizeof_REBUPT
            = d + (i + 1) * m4.cfg.sizeof_REBUPT := by ring
          _ ≤ d + m4.GC_Manuals.len * m4.cfg.sizeof_REBUPT :=
            Nat.add_le_add_left (Nat.mul_le_mul_right _ (by omega)) _
      · rw [hlen]
        have e1 : SER_AT m4.cfg { M1 with len := u32 (M.len + 1) } m4.GC_Manuals.len =
            M1.read (d + m4.GC_Manuals.len * m4.cfg.sizeof_REBUPT) m4.cfg.sizeof_REBUPT := by
          rw [SER_AT_dynamic (by exact hM1d) (by exact hM1data)]
          dsimp only
          rw [hM1w]
          rfl
        rw [e1]
        have := REBSER.read_write_inside hw 0 m4.cfg.sizeof_REBUPT
          (by rw [header_bytes_length]; omega)
        rw [k4] at this
        rw [Nat.add_zero] at this
        rw [this, List.drop_zero, List.take_of_length_le (by rw [header_bytes_length])]

theorem Tables_OK.of_same {m m1 : Memory} (h : Tables_OK m) (hs : Same_Tables m m1) :
    Tables_OK m1 :=
  ⟨by rw [hs.cfg]; exact h.min, by rw [hs.map, hs.cfg]; exact h.map,
    by rw [hs.widths, hs.cfg]; exact h.widths⟩

theorem Manuals_OK.of_same_tables {m m1 : Memory} (h : Manuals_OK m) (hs : Same_Tables m m1) :
    Manuals_OK m1 :=
  ⟨by rw [hs.manuals]; exact h.series, by rw [hs.manuals, hs.cfg]; exact h.wide,
    by rw [hs.manuals]; exact h.bias, by rw [hs.manuals]; exact h.not_array⟩

theorem Alloc_Post.enough_debug {m m1 : Memory} {s r : REBSER} {length wide : Nat}
    {flags : MKS} (h : Alloc_Post m m1 s r length wide flags)
    (ht : Tables_OK m ∨ m.cfg.NDEBUG = false) : u32 (length * wide) ≤ r.mem.length := by
  rcases ht with ht | ht
  · exact h.enough ht
  · rcases h.size with ⟨_, _, c3⟩ | ⟨_, c2, c3⟩
    · exact c3 ht
    · cases hf : flags.POWER_OF_2 with
      | true => exact pow2_loop_ge _ _ (c2 hf)
      | false => rw [c3 hf]

theorem Make_Series_data_ok {m3 m4 : Memory} {s0 s1 : REBSER} {capacity wide : Nat}
    {flags : MKS} (h : Make_Series_data m3 s0 capacity wide flags = .ok s1 m4) :
    Same_Tables m3 m4 ∧
    (((flags.ARRAY = true ∧ capacity ≤ 2) ∧ m4 = m3 ∧
        s1 = { s0 with wide := wide, is_array := true }) ∨
      (¬ (flags.ARRAY = true ∧ capacity ≤ 2) ∧ u32 (capacity * wide) ≤ sizeof_content m3.cfg ∧
        m4 = m3 ∧ s1 = { s0 with wide := wide }) ∨
      (¬ (flags.ARRAY = true ∧ capacity ≤ 2) ∧
        ¬ u32 (capacity * wide) ≤ sizeof_content m3.cfg ∧
        Alloc_Post m3 m4 s0 s1 capacity wide flags)) := by
  unfold Make_Series_data at h
  simp only [] at h
  by_cases h1 : flags.ARRAY = true ∧ capacity ≤ 2
  · rw [if_pos h1] at h
    simp only [Result.ok.injEq] at h
    obtain ⟨rfl, rfl⟩ := h
    exact ⟨Same_Tables.refl _, Or.inl ⟨h1, rfl, rfl⟩⟩
  · rw [if_neg h1] at h
    by_cases h2 : u32 (capacity * wide) ≤ sizeof_content m3.cfg
    · rw [if_pos h2] at h
      simp only [Result.ok.injEq] at h
      obtain ⟨rfl, rfl⟩ := h
      exact ⟨Same_Tables.refl _, Or.inr (Or.inl ⟨h1, h2, rfl, rfl⟩)⟩
    · rw [if_neg h2] at h
      split at h
      · simp at h
      · rename_i r m5 hal
        simp only [Result.ok.injEq] at h
        obtain ⟨rfl, rfl⟩ := h
        have hp := Series_Data_Alloc_ok hal
        exact ⟨hp.same, Or.inr (Or.inr ⟨h1, h2, hp⟩)⟩
      · split at h <;> simp at h

theorem Make_Series_manual_series {m4 m6 : Memory} {s1 s : REBSER} {flags : MKS}
    (h : Make_Series_manual m4 s1 flags = .ok s m6) : s = s1 := by
  unfold Make_Series_manual at h
  simp only [] at h
  split_ifs at h
  · simp only [Result.ok.injEq] at h
    exact h.1.symm
  all_goals
    split at h
    · simp at h
    · split at h
      · simp at h
      · split at h
        · simp at h
        · first
            | (simp only [Result.ok.injEq] at h; exact h.1.symm)
            | simp at h

/-- What Make_Series has done when it returns the series `s`: `s` has length 0; with data
in a block of its own the series is dynamic, without bias, and its capacity is the size of
the block divided by the width; the manuals list is as it was with `MKS_GC_MANUALS` and one
entry longer without it. -/
theorem Make_Series_result_of_ok (m m1 : Memory) (capacity wide : Nat) (flags : MKS) (s : REBSER)
    (h : Make_Series m capacity wide flags = .ok s m1) :
    SER_LEN s = 0 ∧
    (¬ (flags.ARRAY = true ∧ capacity ≤ 2) → sizeof_content m.cfg < capacity * wide →
      s.has_dynamic = true ∧ s.bias = 0 ∧ s.wide = wide ∧ s.rest = s.mem.length / wide ∧
      (Tables_OK m ∨ m.cfg.NDEBUG = false → capacity ≤ s.rest)) ∧
    (flags.GC_MANUALS = true → m1.GC_Manuals = m.GC_Manuals) ∧
    (flags.GC_MANUALS = false → Manuals_OK m → 8 * m.cfg.sizeof_REBUPT < 2147483648 →
      SER_LEN m1.GC_Manuals = SER_LEN m.GC_Manuals + 1 ∧
      (∀ i, i < SER_LEN m.GC_Manuals →
        SER_AT m.cfg m1.GC_Manuals i = SER_AT m.cfg m.GC_Manuals i) ∧
      SER_AT m.cfg m1.GC_Manuals (SER_LEN m.GC_Manuals) = some (header_bytes m.cfg s.node)) := by
  unfold Make_Series at h
  simp only [] at h
  split_ifs at h with h1 h2
  have h2' : capacity * wide < 4294967296 := by unfold MAX_I32 at h2; omega
  split at h
  · simp at h
  rename_i node m2 hmk
  have hs2 := Result.same_of_ok (Make_Node_same m SER_POOL) hmk
  have hs3 : Same_Tables m ((m2.set_node node
      { m2.nodes node with header := NODE_FLAG_VALID }).sub_ballast m.cfg.sizeof_REBSER) :=
    (hs2.trans (Same_Tables.set_node _ _ _)).trans (Same_Tables.sub_ballast _ _)
  split at h
  · simp at h
  rename_i s1 m4 hdata
  obtain ⟨hs4, hcase⟩ := Make_Series_data_ok hdata
  have hs04 := hs3.trans hs4
  have hcfg3 : ((m2.set_node node
      { m2.nodes node with header := NODE_FLAG_VALID }).sub_ballast m.cfg.sizeof_REBSER).cfg
      = m.cfg := hs3.cfg
  -- what the manuals part does
  have hman : s = s1 ∧ (flags.GC_MANUALS = true → m1.GC_Manuals = m.GC_Manuals) ∧
      (flags.GC_MANUALS = false → Manuals_OK m → 8 * m.cfg.sizeof_REBUPT < 2147483648 →
        SER_LEN m1.GC_Manuals = SER_LEN m.GC_Manuals + 1 ∧
        (∀ i, i < SER_LEN m.GC_Manuals →
          SER_AT m.cfg m1.GC_Manuals i = SER_AT m.cfg m.GC_Manuals i) ∧
        SER_AT m.cfg m1.GC_Manuals (SER_LEN m.GC_Manuals) =
          some (header_bytes m.cfg s1.node)) := by
    cases hg : flags.GC_MANUALS with
    | true =>
      obtain ⟨e1, e2⟩ := Make_Series_manual_own hg h
      refine ⟨e1, fun _ => by rw [e2, hs04.manuals], fun hf => Bool.noConfusion hf⟩
    | false =>
      refine ⟨?_, fun hf => Bool.noConfusion hf, ?_⟩
      · exact Make_Series_manual_series h
      · intro _ hm hptr
        obtain ⟨_, _, e3, e4, e5⟩ := Make_Series_manual_ok hg (hm.of_same_tables hs04)
          (by rw [hs04.cfg]; exact hptr) h
        rw [hs04.manuals] at e3
        rw [hs04.cfg, hs04.manuals] at e4 e5
        exact ⟨e3, e4, e5⟩
  obtain ⟨rfl, hm1, hm2⟩ := hman
  refine ⟨?_, ?_, hm1, hm2⟩
  · rcases hcase with ⟨_, _, e⟩ | ⟨_, _, _, e⟩ | ⟨_, _, hp⟩
    · rw [e]; rfl
    · rw [e]; rfl
    · rw [hp.fields]; rfl
  · intro hna hbig
    rcases hcase with ⟨c, _, _⟩ | ⟨_, c, _, _⟩ | ⟨_, _, hp⟩
    · exact absurd c hna
    · rw [u32_of_lt h2', hcfg3] at c
      omega
    · have hf := hp.fields
      refine ⟨by rw [hf], by rw [hf], by rw [hf], by rw [hf], ?_⟩
      intro ht
      have hen := hp.enough_debug (by
        rcases ht with ht | ht
        · exact Or.inl (ht.of_same hs3)
        · exact Or.inr (by rw [hcfg3]; exact ht))
      rw [u32_of_lt h2'] at hen
      have hr : s.rest = s.mem.length / wide := by rw [hf]
      rw [hr]
      exact (Nat.le_div_iff_mul_le (Nat.pos_of_ne_zero hp.wide_ne)).2 hen

set_option maxRecDepth 100000 in
theorem demo_manuals_OK : Manuals_OK demo_manuals :=
  ⟨⟨rfl, by decide, rfl, by decide, by decide, by decide⟩, rfl, rfl, rfl⟩

theorem Make_Node_free_node {m : Memory} {id node : Nat} {pool : REBPOL}
    (hrel : m.cfg.NDEBUG = true) (hp : m.pool id = some pool) (hfirst : pool.first = some node) :
    Make_Node m id = .ok node (m.set_pool id
      { pool with first := (m.nodes node).next_if_free,
                  last := if some node = pool.last then none else pool.last,
                  free := u32 (pool.free + 4294967295) }) := by
  unfold Make_Node
  simp only [hp, hfirst, hrel, not_true_eq_false, false_and, if_false, reduceCtorEq]

theorem FIND_POOL_tables {m : Memory} (ht : Tables_OK m) (hrel : m.cfg.NDEBUG = true) {n : Nat}
    (hn : n ≤ 4 * MEM_BIG_SIZE) : FIND_POOL m n < SER_POOL := by
  unfold FIND_POOL
  rw [if_pos hrel, if_pos hn, ht.map, Init_Pool_Map_getD _ _ hn]
  exact (Pool_Map_Entry_spec _ _ ht.min hn).1

theorem Make_Series_data_pooled_returns {m3 : Memory} (s0 : REBSER) {capacity wide : Nat}
    {flags : MKS} {q : REBPOL} {dnode : Nat}
    (hrel : m3.cfg.NDEBUG = true) (harr : flags.ARRAY = false)
    (hbig : sizeof_content m3.cfg < u32 (capacity * wide))
    (hid : FIND_POOL m3 (u32 (capacity * wide)) < SYSTEM_POOL)
    (hq : m3.pool (FIND_POOL m3 (u32 (capacity * wide))) = some q)
    (hfirst : q.first = some dnode) :
    ∃ s1 m4, Make_Series_data m3 s0 capacity wide flags = .ok s1 m4 ∧
      s1.has_dynamic = true ∧ s1.data = some dnode ∧ s1.node = s0.node ∧
      s1.mem.length = q.wide := by
  have hw : wide ≠ 0 := by
    rintro rfl
    simp [u32] at hbig
  have hmk := Make_Node_free_node hrel hq hfirst
  obtain ⟨r, hr, hd, _, hl, _, _, _, _, hdyn⟩ :=
    Series_Data_Alloc_pooled (s := s0) hrel rfl hid hmk (pool_set_pool_same _ _ _ _ hq) hw harr
  have hnode : r.node = s0.node := by
    have h2 := hr
    unfold Series_Data_Alloc Series_Data_Alloc_block Series_Data_Alloc_setup at h2
    simp only [hmk, pool_set_pool_same _ _ _ _ hq, hrel, hid, if_true, not_true_eq_false,
      false_and, if_false, hw, harr, Bool.false_eq_true, Result.ok.injEq, Prod.mk.injEq,
      true_and] at h2
    rw [← h2.1]
  unfold Make_Series_data
  simp only [harr, Bool.false_eq_true, false_and, if_false, Nat.not_le.2 hbig, hr]
  exact ⟨_, _, rfl, hdyn, hd, hnode, hl⟩

theorem Alloc_Mem_release {m : Memory} {size : Nat} (hrel : m.cfg.NDEBUG = true)
    (hlim : m.PG_Mem_Limit = 0) (hroom : m.brk + size ≤ m.heap_end) :
    ∃ m1, Alloc_Mem m size = .ok (some m.brk) m1 ∧ m1.Mem_Pools = m.Mem_Pools := by
  unfold Alloc_Mem malloc
  simp only [hlim, ne_eq, not_true_eq_false, false_and, if_false, hrel, if_true, hroom]
  exact ⟨_, rfl, rfl⟩

theorem Make_Series_data_unpooled_returns {m3 : Memory} (s0 : REBSER) {capacity wide : Nat}
    {flags : MKS} {sp : REBPOL}
    (hrel : m3.cfg.NDEBUG = true) (harr : flags.ARRAY = false)
    (hp2 : flags.POWER_OF_2 = false)
    (hbig : sizeof_content m3.cfg < u32 (capacity * wide))
    (hid : ¬ FIND_POOL m3 (u32 (capacity * wide)) < SYSTEM_POOL)
    (hlim : m3.PG_Mem_Limit = 0) (hroom : m3.brk + u32 (capacity * wide) ≤ m3.heap_end)
    (hsp : m3.pool SYSTEM_POOL = some sp) :
    ∃ s1 m4, Make_Series_data m3 s0 capacity wide flags = .ok s1 m4 ∧
      s1.has_dynamic = true ∧ s1.data = some m3.brk ∧ s1.node = s0.node ∧
      s1.mem.length = u32 (capacity * wide) := by
  have hw : wide ≠ 0 := by
    rintro rfl
    simp [u32] at hbig
  obtain ⟨m1, ha, hpools⟩ := Alloc_Mem_release hrel hlim hroom
  have hsp1 : m1.pool SYSTEM_POOL = some sp := by
    unfold Memory.pool at hsp ⊢
    rw [hpools]
    exact hsp
  unfold Make_Series_data Series_Data_Alloc Series_Data_Alloc_block Series_Data_Alloc_setup
  simp only [harr, Bool.false_eq_true, false_and, if_false, Nat.not_le.2 hbig, hrel,
    not_true_eq_false, hid, hp2, ha, hsp1, hw]
  exact ⟨_, _, rfl, rfl, rfl, rfl, fresh_mem_length _ _ _⟩

theorem Make_Series_manual_returns (m4 : Memory) (s1 : REBSER) (flags : MKS)
    (hrel : m4.cfg.NDEBUG = true) (hf : flags.GC_MANUALS = false) (hm : Manuals_OK m4)
    (hroom : SER_FULL m4.cfg m4.GC_Manuals = false) :
    ∃ m6, Make_Series_manual m4 s1 flags = .ok s1 m6 := by
  have hs := hm.series
  have hfit := hs.fits
  have hr := hs.room
  have hw := hm.wide
  have hb := hm.bias
  have hlen : (header_bytes m4.cfg s1.node).length = m4.cfg.sizeof_REBUPT :=
    header_bytes_length _ _
  have hmul : (m4.GC_Manuals.len + 1) * m4.GC_Manuals.wide ≤
      (m4.GC_Manuals.bias + m4.GC_Manuals.rest) * m4.GC_Manuals.wide :=
    Nat.mul_le_mul_right _ (by omega)
  obtain ⟨M1, hM1⟩ : ∃ M1, m4.GC_Manuals.write
      (m4.GC_Manuals.base + m4.GC_Manuals.bias * m4.GC_Manuals.wide +
        m4.GC_Manuals.len * m4.cfg.sizeof_REBUPT) (header_bytes m4.cfg s1.node) = some M1 := by
    unfold REBSER.write
    rw [if_pos]
    · exact ⟨_, rfl⟩
    · rw [hlen, hb, ← hw]
      rw [hb] at hmul hfit
      constructor
      · omega
      · have : (m4.GC_Manuals.len + 1) * m4.GC_Manuals.wide =
            m4.GC_Manuals.len * m4.GC_Manuals.wide + m4.GC_Manuals.wide := by ring
        omega
  unfold Make_Series_manual
  simp only [hf, hrel, hroom, Bool.false_eq_true, if_false, not_true_eq_false, false_and,
    hs.data, hM1]
  exact ⟨_, rfl⟩

theorem Make_Series_returns {m : Memory} {capacity wide : Nat} {flags : MKS} {p : REBPOL}
    {node : Nat} (hrel : m.cfg.NDEBUG = true) (harr : flags.ARRAY = false)
    (hcap : capacity * wide ≤ MAX_I32) (hbig : sizeof_content m.cfg < capacity * wide)
    (hp : m.pool SER_POOL = some p) (hfirst : p.first = some node)
    (hdata : (capacity * wide ≤ 4 * MEM_BIG_SIZE ∧ Tables_OK m ∧
        ∃ q dnode, m.pool (FIND_POOL m (capacity * wide)) = some q ∧ q.first = some dnode) ∨
      (4 * MEM_BIG_SIZE < capacity * wide ∧ flags.POWER_OF_2 = false ∧ m.PG_Mem_Limit = 0 ∧
        m.brk + capacity * wide ≤ m.heap_end ∧ ∃ sp, m.pool SYSTEM_POOL = some sp))
    (hman : flags.GC_MANUALS = false → Manuals_OK m ∧ SER_FULL m.cfg m.GC_Manuals = false) :
    ∃ s m1, Make_Series m capacity wide flags = .ok s m1 ∧ s.has_dynamic = true ∧
      s.node = node := by
  have hu : u32 (capacity * wide) = capacity * wide :=
    u32_of_lt (by unfold MAX_I32 at hcap; omega)
  have hmk := Make_Node_free_node hrel hp hfirst
  obtain ⟨m1, hm1⟩ : ∃ m1, m1 = m.set_pool SER_POOL
      { p with first := (m.nodes node).next_if_free,
               last := if some node = p.last then none else p.last,
               free := u32 (p.free + 4294967295) } := ⟨_, rfl⟩
  rw [← hm1] at hmk
  obtain ⟨m3, hm3⟩ : ∃ m3, m3 = (m1.set_node node
      { m1.nodes node with header := NODE_FLAG_VALID }).sub_ballast m.cfg.sizeof_REBSER :=
    ⟨_, rfl⟩
  have hs3 : Same_Tables m m3 := by
    rw [hm3]
    exact ((Result.same_of_ok (Make_Node_same m SER_POOL) hmk).trans
      (Same_Tables.set_node _ _ _)).trans (Same_Tables.sub_ballast _ _)
  have hcfg3 : m3.cfg = m.cfg := hs3.cfg
  have hpool3 : ∀ j, j ≠ SER_POOL → m3.pool j = m.pool j := by
    intro j hj
    rw [hm3, hm1]
    exact pool_set_pool_ne m SER_POOL j _ (fun e => hj e.symm)
  have hfind3 : ∀ n, FIND_POOL m3 n = FIND_POOL m n := by
    intro n
    unfold FIND_POOL
    rw [hs3.cfg, hs3.map, hs3.always]
  have hrel3 : m3.cfg.NDEBUG = true := by rw [hcfg3]; exact hrel
  have hbig3 : sizeof_content m3.cfg < u32 (capacity * wide) := by rw [hcfg3, hu]; exact hbig
  obtain ⟨s1, m4, hd, hdyn, hnode⟩ : ∃ s1 m4,
      Make_Series_data m3 (Make_Series_node m3 node) capacity wide flags = .ok s1 m4 ∧
      s1.has_dynamic = true ∧ s1.node = node := by
    rcases hdata with ⟨hsmall, ht, q, dnode, hq, hqf⟩ | ⟨hlarge, hp2, hlim, hroom, sp, hsp⟩
    · have hlt := FIND_POOL_tables ht hrel hsmall
      have hid : FIND_POOL m3 (u32 (capacity * wide)) < SYSTEM_POOL := by
        rw [hfind3, hu]
        exact Nat.lt_trans hlt (by decide)
      have hq3 : m3.pool (FIND_POOL m3 (u32 (capacity * wide))) = some q := by
        rw [hfind3, hu, hpool3 _ (Nat.ne_of_lt hlt)]
        exact hq
      obtain ⟨s1, m4, h1, h2, _, h4, _⟩ :=
        Make_Series_data_pooled_returns (Make_Series_node m3 node) hrel3 harr hbig3 hid hq3 hqf
      exact ⟨s1, m4, h1, h2, h4⟩
    · have hid : ¬ FIND_POOL m3 (u32 (capacity * wide)) < SYSTEM_POOL := by
        rw [hfind3, hu]
        unfold FIND_POOL
        rw [if_pos hrel, if_neg (by omega)]
        exact Nat.lt_irrefl _
      have hlim3 : m3.PG_Mem_Limit = 0 := by rw [hm3, hm1]; exact hlim
      have hroom3 : m3.brk + u32 (capacity * wide) ≤ m3.heap_end := by
        rw [hu, hm3, hm1]; exact hroom
      have hsp3 : m3.pool SYSTEM_POOL = some sp := by
        rw [hpool3 _ (by decide)]
        exact hsp
      obtain ⟨s1, m4, h1, h2, _, h4, _⟩ :=
        Make_Series_data_unpooled_returns (Make_Series_node m3 node) hrel3 harr hp2 hbig3 hid
          hlim3 hroom3 hsp3
      exact ⟨s1, m4, h1, h2, h4⟩
  have hs4 : Same_Tables m m4 := hs3.trans (Make_Series_data_ok hd).1
  obtain ⟨m6, hm6⟩ : ∃ m6, Make_Series_manual m4 s1 flags = .ok s1 m6 := by
    cases hg : flags.GC_MANUALS with
    | true =>
      unfold Make_Series_manual
      simp only [hg, if_true, hs4.cfg, hrel, not_true_eq_false, false_and, if_false]
      exact ⟨_, rfl⟩
    | false =>
      obtain ⟨hm, hroom⟩ := hman hg
      exact Make_Series_manual_returns m4 s1 flags (by rw [hs4.cfg]; exact hrel) hg
        (hm.of_same_tables hs4) (by rw [hs4.cfg, hs4.manuals]; exact hroom)
  refine ⟨s1, m6, ?_, hdyn, hnode⟩
  unfold Make_Series
  simp only [hrel, not_true_eq_false, false_and, if_false, Nat.not_lt.2 hcap, gt_iff_lt, hmk,
    ← hm3, hd, hm6]

/-- C11: Make_Series returns an empty series, dynamic when the data has a block of its own,
and puts it on the manuals list. First part, for every call that returns the series `s`:
`s` has length 0; when the data is placed neither in the node as an array of at most 2 cells
nor in the `content` slot, the series is dynamic with bias 0, its capacity `rest` is the size
of its block divided by the width, and `rest` is at least the capacity asked for (in a state
with the size map and pool widths of Init_Pools, or in a debug build); without
`MKS_GC_MANUALS`, and with a well-formed manuals list of pointers, the manuals list is one
entry longer, its old entries are unchanged and the new last entry is the node of `s`.
Second part, the call does return such a series when the memory is there: in a release
build with the tables of Init_Pools, for data that is not an array and does not fit the
`content` slot, with a free node `node` in the series pool, with either a free node in the
pool of the size (a size of at most `4 * MEM_BIG_SIZE` bytes) or room in the heap for a
block of the size (a larger size, without `MKS_POWER_OF_2` and without a memory limit), and
with a manuals list that is not full, Make_Series returns a dynamic series in the node
`node`, of length 0, bias 0 and the width asked for, whose capacity is the size of its block
divided by the width and at least the capacity asked for, and which is the new last entry
of the manuals list. -/
theorem Make_Series_result (m : Memory) (capacity wide : Nat) (flags : MKS) :
    (∀ s m1, Make_Series m capacity wide flags = .ok s m1 →
      SER_LEN s = 0 ∧
      (¬ (flags.ARRAY = true ∧ capacity ≤ 2) → sizeof_content m.cfg < capacity * wide →
        s.has_dynamic = true ∧ s.bias = 0 ∧ s.wide = wide ∧ s.rest = s.mem.length / wide ∧
        (Tables_OK m ∨ m.cfg.NDEBUG = false → capacity ≤ s.rest)) ∧
      (flags.GC_MANUALS = true → m1.GC_Manuals = m.GC_Manuals) ∧
      (flags.GC_MANUALS = false → Manuals_OK m → 8 * m.cfg.sizeof_REBUPT < 2147483648 →
        SER_LEN m1.GC_Manuals = SER_LEN m.GC_Manuals + 1 ∧
        (∀ i, i < SER_LEN m.GC_Manuals →
          SER_AT m.cfg m1.GC_Manuals i = SER_AT m.cfg m.GC_Manuals i) ∧
        SER_AT m.cfg m1.GC_Manuals (SER_LEN m.GC_Manuals) =
          some (header_bytes m.cfg s.node))) ∧
    (∀ p node, m.cfg.NDEBUG = true → flags.ARRAY = false → capacity * wide ≤ MAX_I32 →
      sizeof_content m.cfg < capacity * wide → Tables_OK m →
      m.pool SER_POOL = some p → p.first = some node →
      ((capacity * wide ≤ 4 * MEM_BIG_SIZE ∧
          ∃ q dnode, m.pool (FIND_POOL m (capacity * wide)) = some q ∧
            q.first = some dnode) ∨
        (4 * MEM_BIG_SIZE < capacity * wide ∧ flags.POWER_OF_2 = false ∧
          m.PG_Mem_Limit = 0 ∧ m.brk + capacity * wide ≤ m.heap_end ∧
          ∃ sp, m.pool SYSTEM_POOL = some sp)) →
      (flags.GC_MANUALS = false → Manuals_OK m ∧ SER_FULL m.cfg m.GC_Manuals = false ∧
        8 * m.cfg.sizeof_REBUPT < 2147483648) →
      ∃ s m1, Make_Series m capacity wide flags = .ok s m1 ∧ s.node = node ∧
        SER_LEN s = 0 ∧ s.has_dynamic = true ∧ s.bias = 0 ∧ s.wide = wide ∧
        s.rest = s.mem.length / wide ∧ capacity ≤ s.rest ∧
        (flags.GC_MANUALS = true → m1.GC_Manuals = m.GC_Manuals) ∧
        (flags.GC_MANUALS = false →
          SER_LEN m1.GC_Manuals = SER_LEN m.GC_Manuals + 1 ∧
          SER_AT m.cfg m1.GC_Manuals (SER_LEN m.GC_Manuals) =
            some (header_bytes m.cfg node))) := by
  refine ⟨fun s m1 h => Make_Series_result_of_ok m m1 capacity wide flags s h, ?_⟩
  intro p node hrel harr hcap hbig ht hp hfirst hdata hman
  obtain ⟨s, m1, h, hdyn, hnode⟩ :=
    Make_Series_returns hrel harr hcap hbig hp hfirst
      (hdata.imp (fun hd => ⟨hd.1, ht, hd.2⟩) id) (fun hg => ⟨(hman hg).1, (hman hg).2.1⟩)
  obtain ⟨h1, h2, h3, h4⟩ := Make_Series_result_of_ok m m1 capacity wide flags s h
  obtain ⟨_, h5, h6, h7, h8⟩ := h2 (fun hc => by rw [harr] at hc; exact Bool.noConfusion hc.1)
    hbig
  refine ⟨s, m1, h, hnode, h1, hdyn, h5, h6, h7, h8 (Or.inl ht), h3, fun hg => ?_⟩
  obtain ⟨e1, _, e3⟩ := h4 hg (hman hg).1 (hman hg).2.2
  rw [hnode] at e3
  exact ⟨e1, e3⟩

set_option maxRecDepth 1000000 in
theorem demo_series_made_tables : Tables_OK demo_series_made := ⟨by decide, rfl, rfl⟩

set_option maxRecDepth 1000000 in
theorem demo_series_made_manuals : Manuals_OK demo_series_made :=
  ⟨⟨rfl, by decide, rfl, by decide, by decide, by decide⟩, rfl, rfl, rfl⟩

set_option maxRecDepth 1000000 in
/-- Witness of C11, in the state `demo_series_made`, where the series pool (pool 24) has the
free node 4176 and the pool of 128 bytes (pool 3) the free node 4384, and the manuals list
holds 1 entry of 16. A series of 100 bytes is asked for: the hypotheses of the second part
hold, so the call returns a dynamic series in the node 4176. By the first part the series
returned has its data in the node 4384 of pool 3, a capacity of 128 that is at least the 100
asked for, and is the entry 1 of the manuals list, which has 2 entries. In the state
`demo_manuals` a series of 4 bytes is held in its node 4112 and is the entry 0 of the
manuals list. -/
theorem Make_Series_result_witness :
    (demo_series_made.cfg.NDEBUG = true ∧ MKS_NONE.ARRAY = false ∧ 100 * 1 ≤ MAX_I32 ∧
      sizeof_content demo_series_made.cfg < 100 * 1 ∧
      demo_series_made.pool SER_POOL =
        some ⟨[⟨4096, 144⟩], some 4176, some 4176, 64, 2, 1, 2⟩ ∧
      100 * 1 ≤ 4 * MEM_BIG_SIZE ∧ Tables_OK demo_series_made ∧
      demo_series_made.pool (FIND_POOL demo_series_made (100 * 1)) =
        some ⟨[⟨4240, 272⟩], some 4384, some 4384, 128, 2, 1, 2⟩ ∧
      Manuals_OK demo_series_made ∧
      SER_FULL demo_series_made.cfg demo_series_made.GC_Manuals = false ∧
      8 * demo_series_made.cfg.sizeof_REBUPT < 2147483648) ∧
    (∃ s m1, Make_Series demo_series_made 100 1 MKS_NONE = .ok s m1 ∧ s.node = 4176 ∧
      SER_LEN s = 0 ∧ s.has_dynamic = true ∧ s.bias = 0 ∧ s.wide = 1 ∧
      s.rest = s.mem.length / 1 ∧ 100 ≤ s.rest ∧
      (MKS_NONE.GC_MANUALS = true → m1.GC_Manuals = demo_series_made.GC_Manuals) ∧
      (MKS_NONE.GC_MANUALS = false →
        SER_LEN m1.GC_Manuals = SER_LEN demo_series_made.GC_Manuals + 1 ∧
        SER_AT demo_series_made.cfg m1.GC_Manuals (SER_LEN demo_series_made.GC_Manuals) =
          some (header_bytes demo_series_made.cfg 4176))) ∧
    (∃ s m1, Make_Series demo_series_made 100 1 MKS_NONE = .ok s m1 ∧
      s.data = some 4384 ∧ s.rest = 128 ∧ 100 ≤ s.rest ∧ SER_LEN s = 0 ∧
      SER_LEN demo_series_made.GC_Manuals = 1 ∧ SER_LEN m1.GC_Manuals = 2 ∧
      SER_AT demo_series_made.cfg m1.GC_Manuals 1 =
        some (header_bytes demo_series_made.cfg 4176)) ∧
    (∃ s m1, Make_Series demo_manuals 4 1 MKS_NONE = .ok s m1 ∧ SER_LEN s = 0 ∧
      s.node = 4112 ∧ SER_LEN m1.GC_Manuals = SER_LEN demo_manuals.GC_Manuals + 1 ∧
      SER_AT demo_manuals.cfg m1.GC_Manuals (SER_LEN demo_manuals.GC_Manuals) =
        some (header_bytes demo_manuals.cfg s.node)) :=
  ⟨⟨rfl, rfl, by decide, by decide, rfl, by decide, demo_series_made_tables, rfl,
      demo_series_made_manuals, rfl, by decide⟩,
    (Make_Series_result demo_series_made 100 1 MKS_NONE).2
      ⟨[⟨4096, 144⟩], some 4176, some 4176, 64, 2, 1, 2⟩ 4176 rfl rfl (by decide) (by decide)
      demo_series_made_tables rfl rfl
      (Or.inl ⟨by decide, ⟨[⟨4240, 272⟩], some 4384, some 4384, 128, 2, 1, 2⟩, 4384, rfl, rfl⟩)
      (fun _ => ⟨demo_series_made_manuals, rfl, by decide⟩),
    ⟨_, _, rfl, rfl, rfl,
      (((Make_Series_result demo_series_made 100 1 MKS_NONE).1 _ _ rfl).2.1
        (by decide) (by decide)).2.2.2.2 (Or.inl demo_series_made_tables),
      ((Make_Series_result demo_series_made 100 1 MKS_NONE).1 _ _ rfl).1, rfl,
      (((Make_Series_result demo_series_made 100 1 MKS_NONE).1 _ _ rfl).2.2.2 rfl
        demo_series_made_manuals (by decide)).1,
      (((Make_Series_result demo_series_made 100 1 MKS_NONE).1 _ _ rfl).2.2.2 rfl
        demo_series_made_manuals (by decide)).2.2⟩,
    ⟨_, _, rfl,
      ((Make_Series_result demo_manuals 4 1 MKS_NONE).1 _ _ rfl).1, rfl,
      (((Make_Series_result demo_manuals 4 1 MKS_NONE).1 _ _ rfl).2.2.2 rfl demo_manuals_OK
        (by decide)).1,
      (((Make_Series_result demo_manuals 4 1 MKS_NONE).1 _ _ rfl).2.2.2 rfl demo_manuals_OK
        (by decide)).2.2⟩⟩

theorem Alloc_Post.last_cell {m m1 : Memory} {s r : REBSER} {length wide : Nat} {flags : MKS}
    (h : Alloc_Post m m1 s r length wide flags) (ha : flags.ARRAY = true)
    (hc : 0 < m.cfg.sizeof_REBUPT) :
    r.is_array = true ∧ SER_LEN r < SER_REST m.cfg r ∧
    IS_END_ARR_AT m.cfg r (SER_REST m.cfg r - 1) = some true := by
  have hf := h.fields
  have hdy : r.has_dynamic = true := by rw [hf]
  have hrest : r.rest = r.mem.length / wide := by rw [hf]
  have hdata : r.data = some r.base := by rw [hf]
  have hlen : r.len = 0 := by rw [hf]
  obtain ⟨l1, l2⟩ := h.last ha
  refine ⟨by rw [hf]; exact ha, ?_, ?_⟩
  · unfold SER_LEN SER_REST
    rw [if_pos hdy, if_pos hdy, hlen, hrest]
    exact l1
  · unfold IS_END_ARR_AT SER_REST
    rw [if_pos hdy, if_pos hdy, hdata, hrest]
    exact l2 hc

/-- C12: an array that Make_Series returns has the END flag in the last cell of its
capacity, the cell at offset `SER_REST - 1`, and its length is below the capacity. For a
dynamic array the capacity is the `rest` Series_Data_Alloc records, the size of the block in
cells, which can be more than the capacity asked for; for an array held in its node the
capacity is 2 and the header of the cell 1 is the info word. The same holds for every array
Series_Data_Alloc returns, as in an expansion or a remake. -/
theorem array_last_cell_is_END (m m1 : Memory) (capacity wide : Nat) (flags : MKS)
    (s : REBSER) (h : Make_Series m capacity wide flags = .ok s m1)
    (ha : s.is_array = true) (hc : 0 < m.cfg.sizeof_REBUPT) :
    (SER_LEN s < SER_REST m.cfg s ∧
      IS_END_ARR_AT m.cfg s (SER_REST m.cfg s - 1) = some true) ∧
    ∀ (m2 m3 : Memory) (s0 r : REBSER) (length : Nat) (fl : MKS),
      Series_Data_Alloc m2 s0 length wide fl = .ok (true, r) m3 → fl.ARRAY = true →
      0 < m2.cfg.sizeof_REBUPT →
      r.is_array = true ∧ SER_LEN r < SER_REST m2.cfg r ∧
        IS_END_ARR_AT m2.cfg r (SER_REST m2.cfg r - 1) = some true := by
  refine ⟨?_, fun m2 m3 s0 r length fl hal hfl hc2 =>
    (Series_Data_Alloc_ok hal).last_cell hfl hc2⟩
  unfold Make_Series at h
  simp only [] at h
  split_ifs at h with h1 h2
  split at h
  · simp at h
  rename_i node m2 hmk
  have hs2 := Result.same_of_ok (Make_Node_same m SER_POOL) hmk
  have hs3 : Same_Tables m ((m2.set_node node
      { m2.nodes node with header := NODE_FLAG_VALID }).sub_ballast m.cfg.sizeof_REBSER) :=
    (hs2.trans (Same_Tables.set_node _ _ _)).trans (Same_Tables.sub_ballast _ _)
  split at h
  · simp at h
  rename_i s1 m4 hdata
  obtain ⟨hs4, hcase⟩ := Make_Series_data_ok hdata
  have e := Make_Series_manual_series h
  subst e
  rcases hcase with ⟨_, _, e⟩ | ⟨_, _, _, e⟩ | ⟨c1, _, hp⟩
  · rw [e]
    exact ⟨by simp [SER_LEN, SER_REST, Make_Series_node], rfl⟩
  · rw [e] at ha
    exact absurd ha (by simp [Make_Series_node])
  · have hfl : flags.ARRAY = true := by
      have := hp.fields
      rw [this] at ha
      exact ha
    have := hp.last_cell hfl (by rw [hs3.cfg]; exact hc)
    rw [hs3.cfg] at this
    exact ⟨this.2.1, this.2.2⟩

set_option maxRecDepth 1000000 in
/-- Witness of C12: an array of capacity 17 made in the state `demo_manuals`: its block is
the pool node of 640 bytes, so the capacity recorded is 20 cells, and the cell 19 has the
END flag. -/
theorem array_last_cell_is_END_witness :
    ∃ s m1, Make_Series demo_manuals 17 32 MKS_ARRAY = .ok s m1 ∧ s.is_array = true ∧
      SER_REST demo_manuals.cfg s = 20 ∧ SER_LEN s < 20 ∧
      IS_END_ARR_AT demo_manuals.cfg s 19 = some true :=
  ⟨_, _, rfl, rfl, rfl,
    (array_last_cell_is_END demo_manuals _ 17 32 MKS_ARRAY _ rfl rfl (by decide)).1.1,
    (array_last_cell_is_END demo_manuals _ 17 32 MKS_ARRAY _ rfl rfl (by decide)).1.2⟩

/-- C13 is refuted: the series `fixed_series` carries FIXED_SIZE, and Expand_Series at its
tail by 1 returns, with the length 2, since the 16 elements of its capacity have room; at
the head of `fixed_biased_series` an expansion by 2 returns too, taking the bias; and an
expansion by `2^31` fails with the past-end error, not with locked-series. -/
theorem Expand_Series_fixed_size_expands :
    fixed_series.fixed_size = true ∧ fixed_biased_series.fixed_size = true ∧
    (∃ s1, Expand_Series demo_tables fixed_series 1 1 = .ok s1 demo_tables ∧ SER_LEN s1 = 2) ∧
    (∃ s1, Expand_Series demo_tables fixed_biased_series 0 2 = .ok s1 demo_tables ∧
      SER_LEN s1 = 3 ∧ s1.bias = 0) ∧
    Expand_Series demo_tables fixed_series 1 2147483648 = .fault .past_end demo_tables :=
  ⟨rfl, rfl, ⟨_, rfl, rfl⟩, ⟨_, rfl, rfl, rfl⟩, rfl⟩

theorem Expand_Series_head_not_locked (m m1 : Memory) (s : REBSER) (delta : Nat) :
    Expand_Series_head m s delta ≠ .fault .locked_series m1 := by
  unfold Expand_Series_head
  split
  · simp
  · split_ifs <;> simp

theorem Expand_Series_slide_not_locked (m m1 : Memory) (s : REBSER) (index delta : Nat) :
    Expand_Series_slide m s index delta ≠ .fault .locked_series m1 := by
  unfold Expand_Series_slide
  simp only []
  split
  · simp
  · split
    · simp
    · split_ifs
      · simp
      · split <;> simp

/-- C13 (amended): for a series with the flag FIXED_SIZE, an index within its length and a
non-zero `delta` below `2^31`, Expand_Series fails with the locked-series error exactly when
a new allocation would be required: when neither the bias takes the expansion (a dynamic
series expanded at index 0 by at most its bias) nor the capacity has room for it
(`len * wide + delta * wide + wide <= rest * wide` in `REBCNT` arithmetic). The state is
then the state at the call. In the two other cases the series is expanded in place. -/
theorem Expand_Series_fixed_size (m : Memory) (s : REBSER) (index delta : Nat)
    (hf : s.fixed_size = true) (hi : index ≤ SER_LEN s) (hd : delta ≠ 0)
    (hd31 : delta < 2147483648) :
    ((∃ m1, Expand_Series m s index delta = .fault .locked_series m1) ↔
      ¬ (s.has_dynamic = true ∧ index = 0 ∧ SER_BIAS s ≥ delta) ∧
      ¬ (u32 (u32 (SER_LEN s * s.wide) + u32 (delta * s.wide) + s.wide)
          ≤ u32 (SER_REST m.cfg s * s.wide))) ∧
    (¬ (s.has_dynamic = true ∧ index = 0 ∧ SER_BIAS s ≥ delta) →
      ¬ (u32 (u32 (SER_LEN s * s.wide) + u32 (delta * s.wide) + s.wide)
          ≤ u32 (SER_REST m.cfg s * s.wide)) →
      Expand_Series m s index delta = .fault .locked_series m) := by
  have h1 : ¬ (¬ m.cfg.NDEBUG = true ∧ ¬ index ≤ SER_LEN s) := fun h => h.2 hi
  have h2 : ¬ delta % 4294967296 ≥ 2147483648 := by
    rw [Nat.mod_eq_of_lt (by omega)]; omega
  have hE : Expand_Series m s index delta =
      if s.has_dynamic = true ∧ index = 0 ∧ SER_BIAS s ≥ delta then Expand_Series_head m s delta
      else if u32 (u32 (SER_LEN s * s.wide) + u32 (delta * s.wide) + s.wide)
          ≤ u32 (SER_REST m.cfg s * s.wide) then Expand_Series_slide m s index delta
      else .fault .locked_series m := by
    unfold Expand_Series
    simp only [if_neg h1, if_neg h2, if_neg hd, hf, if_true]
  constructor
  · constructor
    · rintro ⟨m1, h⟩
      rw [hE] at h
      split_ifs at h with c1 c2
      · exact absurd h (Expand_Series_head_not_locked _ _ _ _)
      · exact absurd h (Expand_Series_slide_not_locked _ _ _ _ _)
      · exact ⟨c1, c2⟩
    · rintro ⟨c1, c2⟩
      exact ⟨m, by rw [hE, if_neg c1, if_neg c2]⟩
  · intro c1 c2
    rw [hE, if_neg c1, if_neg c2]

/-- Witness of C13 (amended): the series `fixed_series` has no room for 16 more elements,
and the expansion fails with the locked-series error. -/
theorem Expand_Series_fixed_size_witness :
    Expand_Series demo_tables fixed_series 1 16 = .fault .locked_series demo_tables :=
  (Expand_Series_fixed_size demo_tables fixed_series 1 16 rfl (by decide) (by decide)
    (by decide)).2 (by decide) (by decide)

/-- C14: for a well-formed dynamic series, Expand_Series at index 0 by `delta <= bias`
returns without a change of the allocator state: the data pointer is `wide * delta` bytes
lower, `len` and `rest` are `delta` higher, the bias is `delta` lower, the sums
`len + bias` and `rest + bias` and the block are the same, and the old element `i` is the
new element `i + delta`. -/
theorem Expand_Series_head_insertion (m : Memory) (s : REBSER) (delta : Nat)
    (hs : Series_OK s) (hd : delta ≤ s.bias) :
    ∃ s1, Expand_Series m s 0 delta = .ok s1 m ∧
      s1.data = some (s.base + s.bias * s.wide - s.wide * delta) ∧
      s.data = some (s.base + s.bias * s.wide) ∧
      s1.len = s.len + delta ∧ s1.rest = s.rest + delta ∧ s1.bias + delta = s.bias ∧
      s1.len + s1.bias = s.len + s.bias ∧ s1.rest + s1.bias = s.rest + s.bias ∧
      s1.base = s.base ∧ s1.mem = s.mem ∧ s1.wide = s.wide ∧
      ∀ i, SER_AT m.cfg s1 (i + delta) = SER_AT m.cfg s i := by
  have hfit := hs.fits
  have hsm := hs.small
  have hroom := hs.room
  have hw := hs.wide_pos
  have hbw : (s.bias + s.rest) * s.wide = s.bias * s.wide + s.rest * s.wide := by ring
  have hrw : s.rest ≤ s.rest * s.wide := Nat.le_mul_of_pos_right _ hw
  have hbb : s.bias ≤ s.bias * s.wide := Nat.le_mul_of_pos_right _ hw
  have hdw : s.wide * delta ≤ s.bias * s.wide := by
    rw [Nat.mul_comm]; exact Nat.mul_le_mul_right _ hd
  by_cases hd0 : delta = 0
  · subst hd0
    refine ⟨s, ?_, ?_, hs.data, rfl, rfl, rfl, rfl, rfl, rfl, rfl, rfl, fun i => rfl⟩
    · unfold Expand_Series
      simp
    · rw [hs.data]; simp
  · have h1 : ¬ (¬ m.cfg.NDEBUG = true ∧ ¬ 0 ≤ SER_LEN s) := fun h => h.2 (Nat.zero_le _)
    have h2 : ¬ delta % 4294967296 ≥ 2147483648 := by
      rw [Nat.mod_eq_of_lt (by omega)]; omega
    refine ⟨{ s with data := some (s.base + s.bias * s.wide - s.wide * delta),
                     len := s.len + delta, rest := s.rest + delta,
                     bias := s.bias - delta }, ?_, rfl, hs.data, rfl, rfl, ?_, ?_, ?_, rfl,
      rfl, rfl, ?_⟩
    · unfold Expand_Series
      simp only [if_neg h1, if_neg h2, if_neg hd0, hs.dynamic, true_and, ge_iff_le,
        show SER_BIAS s = s.bias from rfl, hd, if_true]
      unfold Expand_Series_head
      rw [hs.data]
      simp only []
      rw [u32_of_lt (show s.wide * delta < 4294967296 by omega),
        u32_of_lt (show s.len + delta < 4294967296 by omega),
        u32_of_lt (show s.rest + delta < 4294967296 by omega),
        if_neg (show ¬ s.wide * delta > s.base + s.bias * s.wide by omega), hs.dynamic]
    · dsimp only; omega
    · dsimp only; omega
    · dsimp only; omega
    · intro i
      unfold SER_AT SER_DATA_RAW
      simp only [hs.dynamic, if_true, hs.data]
      have : s.base + s.bias * s.wide - s.wide * delta + (i + delta) * s.wide =
          s.base + s.bias * s.wide + i * s.wide := by
        have : (i + delta) * s.wide = i * s.wide + s.wide * delta := by ring
        omega
      rw [this]
      rfl

set_option maxRecDepth 100000 in
/-- Witness of C14: the series `fixed_biased_series` (bias 2, 4-byte elements) expanded at
its head by 2. -/
theorem Expand_Series_head_insertion_witness :
    ∃ s1, Expand_Series demo_tables fixed_biased_series 0 2 = .ok s1 demo_tables ∧
      s1.data = some 8192 ∧ fixed_biased_series.data = some 8200 ∧ s1.len = 3 ∧
      s1.rest = 16 ∧ s1.bias = 0 :=
  (Expand_Series_head_insertion demo_tables fixed_biased_series 2
    ⟨rfl, by decide, rfl, by decide, by decide, by decide⟩ (by decide)).imp
    (fun _ h => ⟨h.1, h.2.1, h.2.2.1, h.2.2.2.1, h.2.2.2.2.1, by
      have := h.2.2.2.2.2.1
      have h2 : fixed_biased_series.bias = 2 := rfl
      omega⟩)

set_option maxRecDepth 1000000 in
/-- C15 fails where `(units + 1) * wide` overflows 32 bits: for `units = 2^30 - 1` and
`wide = 4` the size Series_Data_Alloc computes is 0, the block is a node of 32 bytes of
pool 0, and Remake_Series returns a series whose capacity `rest` is 8, not `units + 1`
or more. With `MKS_PRESERVE` and the 12 elements of `long_series` the copy of
`min(12, units) * 4 = 48` bytes does not fit the block of 32 bytes: the write goes past the
end of the allocation. -/
theorem Remake_Series_overflow :
    (∃ s1 m1, Remake_Series demo_tables overflow_series 1073741823 4 MKS_NONE = .ok s1 m1 ∧
      s1.rest = 8 ∧ s1.mem.length = 32 ∧ s1.rest < 1073741823 + 1) ∧
    (∃ s1 m1, Remake_Series debug_tables overflow_series 1073741823 4 MKS_NONE = .ok s1 m1 ∧
      s1.rest = 8 ∧ s1.mem.length = 32) ∧
    SER_LEN long_series = 12 ∧
    ∃ m1, Remake_Series demo_tables long_series 1073741823 4 MKS_PRESERVE =
      .fault .undefined m1 :=
  ⟨⟨_, _, rfl, rfl, rfl, by decide⟩, ⟨_, _, rfl, rfl, rfl⟩, rfl, ⟨_, rfl⟩⟩

theorem Manual_entries_some (c : Config) (M : REBSER) (n : Nat) (l : List Nat)
    (h : Manual_entries c M n = some l) :
    l.length = n ∧ ∀ i, i < n → Manual_At c M i = l[i]? := by
  induction n generalizing l with
  | zero =>
    unfold Manual_entries at h
    simp only [Option.some.injEq] at h
    subst h
    exact ⟨rfl, fun i hi => absurd hi (Nat.not_lt_zero i)⟩
  | succ n ih =>
    unfold Manual_entries at h
    cases h1 : Manual_entries c M n with
    | none => rw [h1] at h; simp at h
    | some l0 =>
      cases h2 : Manual_At c M n with
      | none => rw [h1, h2] at h; simp at h
      | some p =>
        rw [h1, h2] at h
        simp only [Option.some.injEq] at h
        subst h
        obtain ⟨e1, e2⟩ := ih l0 h1
        refine ⟨by simp [e1], ?_⟩
        intro i hi
        by_cases hin : i < n
        · rw [e2 i hin, List.getElem?_append_left (by omega)]
        · have : i = n := by omega
          subst this
          rw [h2, List.getElem?_append_right (by omega)]
          simp [e1]

theorem Manual_entries_of (c : Config) (M : REBSER) (n : Nat) (l : List Nat)
    (h1 : l.length = n) (h2 : ∀ i, i < n → Manual_At c M i = l[i]?) :
    Manual_entries c M n = some l := by
  induction n generalizing l with
  | zero =>
    unfold Manual_entries
    rw [List.length_eq_zero.1 h1]
  | succ n ih =>
    unfold Manual_entries
    have e1 := ih (l.take n) (by simp; omega) (fun i hi => by
      rw [h2 i (by omega), List.getElem?_take_of_lt hi])
    have e2 := h2 n (by omega)
    rw [List.getElem?_eq_getElem (by omega)] at e2
    rw [e1, e2]
    simp only [Option.some.injEq]
    have := List.take_succ (l := l) (n := n)
    rw [List.getElem?_eq_getElem (by omega)] at this
    simp only [Option.toList_some] at this
    rw [← this, List.take_of_length_le (by omega)]

theorem Drop_Manual_loop_found (c : Config) (M : REBSER) (s k : Nat)
    (hr : ∀ i, i < k → ∃ p, Manual_At c M i = some p)
    (hs : ∃ i, i < k ∧ Manual_At c M i = some s) :
    ∃ j, Drop_Manual_loop c M s k = .ok j ∧ j < k ∧ Manual_At c M j = some s := by
  induction k with
  | zero => obtain ⟨i, hi, _⟩ := hs; exact absurd hi (Nat.not_lt_zero i)
  | succ k ih =>
    unfold Drop_Manual_loop
    obtain ⟨p, hp⟩ := hr k (by omega)
    rw [hp]
    simp only []
    by_cases hps : p = s
    · rw [if_neg (by simpa using hps)]
      exact ⟨k, rfl, by omega, by rw [hp, hps]⟩
    · rw [if_pos hps]
      obtain ⟨i, hi, hi2⟩ := hs
      have hik : i < k := by
        rcases Nat.lt_or_ge i k with h | h
        · exact h
        · have : i = k := by omega
          subst this
          rw [hp] at hi2
          simp only [Option.some.injEq] at hi2
          exact absurd hi2 hps
      rw [if_neg (by intro hh; omega)]
      obtain ⟨j, e1, e2, e3⟩ := ih (fun i hi => hr i (by omega)) ⟨i, hik, hi2⟩
      exact ⟨j, e1, by omega, e3⟩

theorem perm_set_swap (t : List Nat) (j s x : Nat) (h : t[j]? = some s) :
    (x :: t).Perm (s :: t.set j x) := by
  induction t generalizing j with
  | nil => simp at h
  | cons a t ih =>
    cases j with
    | zero =>
      simp only [List.getElem?_cons_zero, Option.some.injEq] at h
      subst h
      exact List.Perm.swap _ _ _
    | succ j =>
      simp only [List.getElem?_cons_succ] at h
      simp only [List.set_cons_succ]
      exact ((List.Perm.swap a x t).trans ((ih j h).cons a)).trans (List.Perm.swap s a _)

theorem Manual_At_some {c : Config} {M : REBSER} {i p : Nat} (h : Manual_At c M i = some p) :
    ∃ data bytes, M.data = some data ∧ M.read (data + i * c.sizeof_REBUPT) c.sizeof_REBUPT =
      some bytes ∧ Manual_Bytes c M i = some bytes ∧ word_of_bytes bytes = p := by
  unfold Manual_At at h
  cases hb : Manual_Bytes c M i with
  | none => rw [hb] at h; simp at h
  | some bytes =>
    rw [hb] at h
    simp only [Option.map_some', Option.some.injEq] at h
    unfold Manual_Bytes at hb
    cases hd : M.data with
    | none => rw [hd] at hb; simp at hb
    | some data =>
      rw [hd] at hb
      simp only [] at hb
      exact ⟨data, bytes, rfl, hb, rfl, h⟩

theorem Manual_At_len (c : Config) (M : REBSER) (n i : Nat) :
    Manual_At c { M with len := n } i = Manual_At c M i := rfl

theorem Manual_At_write {c : Config} {M M1 : REBSER} {data j : Nat} {last : List Nat}
    (hd : M.data = some data) (hw : M.write (data + j * c.sizeof_REBUPT) last = some M1)
    (hl : last.length = c.sizeof_REBUPT) (i : Nat) :
    Manual_At c M1 i = if i = j then some (word_of_bytes last) else Manual_At c M i := by
  have hd1 : M1.data = some data := by rw [(REBSER.write_length hw).2.1, hd]
  unfold Manual_At Manual_Bytes
  rw [hd, hd1]
  simp only []
  by_cases hij : i = j
  · subst hij
    rw [if_pos rfl]
    have := REBSER.read_write_inside hw 0 c.sizeof_REBUPT (by omega)
    rw [Nat.add_zero] at this
    rw [this]
    simp only [List.drop_zero, Option.map_some', Option.some.injEq]
    rw [List.take_of_length_le (by omega)]
  · rw [if_neg hij]
    rw [REBSER.read_write_outside hw]
    rcases Nat.lt_or_ge i j with h | h
    · left
      have : (i + 1) * c.sizeof_REBUPT ≤ j * c.sizeof_REBUPT := Nat.mul_le_mul_right _ h
      rw [Nat.add_mul] at this
      omega
    · right
      have h2 : j + 1 ≤ i := by omega
      have : (j + 1) * c.sizeof_REBUPT ≤ i * c.sizeof_REBUPT := Nat.mul_le_mul_right _ h2
      rw [Nat.add_mul] at this
      omega

theorem Drop_Manual_Series_entries (m : Memory) (s : Nat) (l : List Nat)
    (hl : Manuals_list m.cfg m.GC_Manuals = some l) (hs : s ∈ l)
    (hlen : m.GC_Manuals.len < 4294967296) :
    ∃ M1 l1, Drop_Manual_Series m s = .ok () { m with GC_Manuals := M1 } ∧
      Manuals_list m.cfg M1 = some l1 ∧ l.Perm (s :: l1) ∧
      M1.len + 1 = m.GC_Manuals.len := by
  obtain ⟨e1, e2⟩ := Manual_entries_some _ _ _ _ hl
  have hpos : 0 < l.length := List.length_pos_of_mem hs
  have hu : u32 (m.GC_Manuals.len + 4294967295) = m.GC_Manuals.len - 1 := by
    unfold u32; omega
  have hx := e2 (m.GC_Manuals.len - 1) (by omega)
  obtain ⟨x, hxl⟩ : ∃ x, l[m.GC_Manuals.len - 1]? = some x :=
    ⟨_, List.getElem?_eq_getElem (by omega)⟩
  rw [hxl] at hx
  obtain ⟨data, last, hd, hrd, hmb, hword⟩ := Manual_At_some hx
  have hlast : last.length = m.cfg.sizeof_REBUPT := (REBSER.read_some hrd).2.2.1
  have htake : ∀ i, i < m.GC_Manuals.len - 1 →
      Manual_At m.cfg m.GC_Manuals i = (l.take (m.GC_Manuals.len - 1))[i]? := by
    intro i hi
    rw [e2 i (by omega), List.getElem?_take_of_lt hi]
  have hsplit : l = l.take (m.GC_Manuals.len - 1) ++ [x] := by
    have := List.take_succ (l := l) (n := m.GC_Manuals.len - 1)
    rw [hxl] at this
    simp only [Option.toList_some] at this
    rw [← this, List.take_of_length_le (by omega)]
  unfold Drop_Manual_Series
  simp only []
  rw [if_neg (by intro hh; exact hh.2 (by omega)), hu, hmb]
  simp only []
  by_cases hws : word_of_bytes last = s
  · rw [if_neg (by simpa using hws)]
    refine ⟨_, l.take (m.GC_Manuals.len - 1), rfl, ?_, ?_, ?_⟩
    · unfold Manuals_list
      apply Manual_entries_of
      · simp only [List.length_take]; omega
      · intro i hi
        rw [Manual_At_len]
        exact htake i hi
    · rw [← hws, hword]
      nth_rewrite 1 [hsplit]
      exact List.perm_append_singleton _ _
    · show m.GC_Manuals.len - 1 + 1 = m.GC_Manuals.len
      omega
  · rw [if_pos hws]
    have hin : s ∈ l.take (m.GC_Manuals.len - 1) := by
      rw [hsplit] at hs
      rcases List.mem_append.1 hs with h | h
      · exact h
      · simp only [List.mem_singleton] at h
        rw [← hword] at h
        exact absurd h.symm hws
    obtain ⟨i, hi1, hi2⟩ := List.getElem_of_mem hin
    have hi3 : i < m.GC_Manuals.len - 1 := by
      simp only [List.length_take] at hi1; omega
    obtain ⟨j, j1, j2, j3⟩ := Drop_Manual_loop_found m.cfg m.GC_Manuals s (m.GC_Manuals.len - 1)
      (fun i hi => ⟨_, by rw [htake i hi, List.getElem?_eq_getElem (by
        simp only [List.length_take]; omega)]⟩)
      ⟨i, hi3, by rw [htake i hi3, List.getElem?_eq_getElem hi1, hi2]⟩
    rw [j1, hd]
    simp only []
    obtain ⟨d2, b2, hd2, hrd2, _, _⟩ := Manual_At_some j3
    rw [hd] at hd2
    simp only [Option.some.injEq] at hd2
    subst hd2
    obtain ⟨r1, r2, _, _⟩ := REBSER.read_some hrd2
    obtain ⟨M1, hM1⟩ := @REBSER.write_of m.GC_Manuals
      (data + j * m.cfg.sizeof_REBUPT) last r1 (by rw [hlast]; exact r2)
    rw [hM1]
    simp only []
    refine ⟨_, (l.take (m.GC_Manuals.len - 1)).set j (word_of_bytes last), rfl, ?_, ?_, ?_⟩
    · unfold Manuals_list
      apply Manual_entries_of
      · simp only [List.length_set, List.length_take]; omega
      · intro i hi
        rw [Manual_At_len, Manual_At_write hd hM1 hlast i]
        by_cases hij : i = j
        · subst hij
          rw [if_pos rfl, List.getElem?_set_self]
          simp only [List.length_take]; omega
        · rw [if_neg hij, List.getElem?_set_ne (fun h => hij h.symm)]
          exact htake i hi
    · have hj : (l.take (m.GC_Manuals.len - 1))[j]? = some s := by rw [← htake j j2, j3]
      nth_rewrite 1 [hsplit]
      rw [← hword]
      exact (List.perm_append_singleton _ _).trans (perm_set_swap _ j s _ hj)
    · show m.GC_Manuals.len - 1 + 1 = m.GC_Manuals.len
      omega

theorem Memory.add_ballast_same (m : Memory) (size : Nat) :
    Same_Tables m (m.add_ballast size) := ⟨rfl, rfl, rfl, rfl, rfl, rfl, rfl⟩

theorem GC_Kill_Series_data_same (m : Memory) (s : REBSER) :
    Same_Tables m (GC_Kill_Series_data m s).mem := by
  unfold GC_Kill_Series_data
  simp only []
  split
  · split
    · exact Same_Tables.refl m
    · exact Same_Tables.refl m
    · split
      · exact Same_Tables.refl m
      · rename_i data unpooled _ _ _
        have := Free_Unbiased_Series_Data_same m (data - u32 (s.wide * SER_BIAS s)) unpooled
        split
        · rename_i f m2 he
          rw [he] at this
          exact this
        · rename_i u m2 he
          rw [he] at this
          exact this.trans (Memory.add_ballast_same m2 _)
  · exact Same_Tables.refl m

theorem GC_Kill_Series_node_same (m : Memory) (s : REBSER) :
    Same_Tables m (GC_Kill_Series_node m s).mem := by
  unfold GC_Kill_Series_node
  have := Free_Node_same m SER_POOL s.node
  split
  · rename_i f m3 he
    rw [he] at this
    exact this
  · rename_i u m3 he
    rw [he] at this
    rw [Result.mem_ok]
    split
    · exact this.trans ⟨rfl, rfl, rfl, rfl, rfl, rfl, rfl⟩
    · exact this

theorem GC_Kill_Series_manuals (m : Memory) (s : REBSER) :
    (GC_Kill_Series m s).mem.GC_Manuals = m.GC_Manuals := by
  unfold GC_Kill_Series
  simp only []
  split
  · rfl
  · have h1 := GC_Kill_Series_data_same { m with Prior_Expand :=
      ((List.zip (List.range m.Prior_Expand.length) m.Prior_Expand).map
        (fun np => if 1 ≤ np.1 ∧ np.1 < MAX_EXPAND_LIST ∧ np.2 = s.node then 0 else np.2)) } s
    split
    · rename_i f m2 he
      rw [he] at h1
      exact h1.manuals
    · rename_i u m2 he
      rw [he] at h1
      exact ((GC_Kill_Series_node_same m2 s).manuals).trans h1.manuals

/-- C16: for a series `s` whose node is an entry of the manuals list (of entries `l`),
Manage_Series and Free_Series each leave a manuals list one entry shorter that holds the
other entries of `l`, as a multiset: `l` is a permutation of the node of `s` followed by
the new entries. Manage_Series returns `s` with the flag MANAGED set and nothing else
of it changed, and sets the bit in the header of its node; Free_Series goes on to
GC_Kill_Series, which leaves the manuals list alone whatever its outcome. A debug build
asks that `s` is not managed yet, and for Free_Series that its node is not free. -/
theorem Manage_and_Free_Series_manuals (m : Memory) (s : REBSER) (l : List Nat)
    (hl : Manuals_list m.cfg m.GC_Manuals = some l) (hs : s.node ∈ l)
    (hlen : m.GC_Manuals.len < 4294967296)
    (hdbg : m.cfg.NDEBUG = false → s.managed = false ∧ IS_FREE_NODE m s.node = false) :
    (∃ m1 l1, Manage_Series m s = .ok { s with managed := true } m1 ∧
      Manuals_list m1.cfg m1.GC_Manuals = some l1 ∧ l.Perm (s.node :: l1) ∧
      m1.GC_Manuals.len + 1 = m.GC_Manuals.len ∧
      (m1.nodes s.node).header = (m.nodes s.node).header ||| NODE_FLAG_MANAGED) ∧
    (∃ m1 l1, Drop_Manual_Series m s.node = .ok () m1 ∧
      Free_Series m s = GC_Kill_Series m1 s ∧
      Manuals_list m.cfg (Free_Series m s).mem.GC_Manuals = some l1 ∧ l.Perm (s.node :: l1) ∧
      (Free_Series m s).mem.GC_Manuals.len + 1 = m.GC_Manuals.len) := by
  constructor
  · obtain ⟨M1, l1, e1, e2, e3, e4⟩ := Drop_Manual_Series_entries
      (m.set_node s.node
        { m.nodes s.node with header := (m.nodes s.node).header ||| NODE_FLAG_MANAGED })
      s.node l hl hs hlen
    refine ⟨{ m.set_node s.node
        { m.nodes s.node with header := (m.nodes s.node).header ||| NODE_FLAG_MANAGED } with
        GC_Manuals := M1 }, l1, ?_, e2, e3, e4, ?_⟩
    rotate_left
    · simp [Memory.set_node]
    · unfold Manage_Series
      rw [if_neg]
      · simp only []
        rw [e1]
      · intro hh
        have := (hdbg (by simpa using hh.1)).1
        rw [this] at hh
        simp at hh
  · obtain ⟨M1, l1, e1, e2, e3, e4⟩ := Drop_Manual_Series_entries m s.node l hl hs hlen
    have hf : Free_Series m s = GC_Kill_Series { m with GC_Manuals := M1 } s := by
      unfold Free_Series
      rw [if_neg]
      · rw [e1]
      · intro hh
        have := hdbg (by simpa using hh.1)
        rw [this.1, this.2] at hh
        simp at hh
    refine ⟨_, l1, e1, hf, ?_, e3, ?_⟩
    · rw [hf, GC_Kill_Series_manuals]
      exact e2
    · rw [hf, GC_Kill_Series_manuals]
      exact e4

set_option maxRecDepth 1000000 in
/-- Witness of C16: in the state `demo_two_manuals`, whose manuals list holds the nodes
4112 and 4176, the series of the node 4112 is managed, and is freed: both calls return,
and leave the list with the one entry 4176. -/
theorem Manage_and_Free_Series_manuals_witness :
    Manuals_list demo_two_manuals.cfg demo_two_manuals.GC_Manuals = some [4112, 4176] ∧
    demo_first_series.node = 4112 ∧
    (∃ m1, Manage_Series demo_two_manuals demo_first_series =
        .ok { demo_first_series with managed := true } m1 ∧
      Manuals_list m1.cfg m1.GC_Manuals = some [4176]) ∧
    (∃ m1, Free_Series demo_two_manuals demo_first_series = .ok () m1 ∧
      Manuals_list m1.cfg m1.GC_Manuals = some [4176]) ∧
    ((∃ m1 l1, Manage_Series demo_two_manuals demo_first_series =
        .ok { demo_first_series with managed := true } m1 ∧
      Manuals_list m1.cfg m1.GC_Manuals = some l1 ∧
      [4112, 4176].Perm (demo_first_series.node :: l1) ∧
      m1.GC_Manuals.len + 1 = demo_two_manuals.GC_Manuals.len ∧
      (m1.nodes demo_first_series.node).header =
        (demo_two_manuals.nodes demo_first_series.node).header ||| NODE_FLAG_MANAGED) ∧
    (∃ m1 l1, Drop_Manual_Series demo_two_manuals demo_first_series.node = .ok () m1 ∧
      Free_Series demo_two_manuals demo_first_series = GC_Kill_Series m1 demo_first_series ∧
      Manuals_list demo_two_manuals.cfg
        (Free_Series demo_two_manuals demo_first_series).mem.GC_Manuals = some l1 ∧
      [4112, 4176].Perm (demo_first_series.node :: l1) ∧
      (Free_Series demo_two_manuals demo_first_series).mem.GC_Manuals.len + 1 =
        demo_two_manuals.GC_Manuals.len)) :=
  ⟨rfl, rfl, ⟨_, rfl, rfl⟩, ⟨_, rfl, rfl⟩,
    Manage_and_Free_Series_manuals demo_two_manuals demo_first_series [4112, 4176] rfl
      (List.mem_cons.2 (Or.inl rfl))
      (by decide) (fun h => absurd h (by decide))⟩

theorem Cells.set_same (cs : Cells) (a : Nat) (v : RELVAL) : (cs.set a v).val a = v := by
  simp [Cells.set]

theorem Cells.set_other {cs : Cells} {a b : Nat} {v : RELVAL} (h : b ≠ a) :
    (cs.set a v).val b = cs.val b := by
  simp [Cells.set, h]

theorem Cells.set_stash (cs : Cells) (a : Nat) (v : RELVAL) :
    (cs.set a v).TG_Thrown_Arg = cs.TG_Thrown_Arg := rfl

/-- C17: throw then catch is a round trip. For a name cell without the flag THROWN (and
not an END) and an argument cell holding the value `a = cs.val arg`, with the stash
unreadable and `a` readable in a debug build, CONVERT_NAME_TO_THROWN followed by
CATCH_THROWN both return; the cell `out` then holds `a`, the name cell has no flag THROWN,
and the stash is a blank again, unreadable in a debug build. The name and the output
cell are not the stash itself and the argument is not the name cell; where the output
cell is the name cell, `a` carries no flag THROWN. -/
theorem throw_then_catch (c : Config) (cs : Cells) (name arg out : Nat)
    (hname : THROWN (cs.val name) = false)
    (hend : c.NDEBUG = false → (cs.val name).is_end = false)
    (hstash : c.NDEBUG = false → IS_UNREADABLE_IF_DEBUG c (cs.val cs.TG_Thrown_Arg) = true)
    (ha : c.NDEBUG = false → IS_UNREADABLE_IF_DEBUG c (cs.val arg) = false)
    (h1 : name ≠ cs.TG_Thrown_Arg) (h2 : arg ≠ name) (h3 : out ≠ cs.TG_Thrown_Arg)
    (h4 : out = name → THROWN (cs.val arg) = false) :
    ∃ cs1 cs2, CONVERT_NAME_TO_THROWN c cs name arg = .ok cs1 ∧
      CATCH_THROWN c cs1 out name = .ok cs2 ∧
      cs2.val out = cs.val arg ∧
      THROWN (cs2.val name) = false ∧
      (cs2.val cs2.TG_Thrown_Arg).kind = .REB_BLANK ∧
      (c.NDEBUG = false → IS_UNREADABLE_IF_DEBUG c (cs2.val cs2.TG_Thrown_Arg) = true) ∧
      cs2.TG_Thrown_Arg = cs.TG_Thrown_Arg := by
  have e1 : CONVERT_NAME_TO_THROWN c cs name arg =
      .ok ((cs.set name { cs.val name with thrown := true }).set cs.TG_Thrown_Arg
        (cs.val arg)) := by
    unfold CONVERT_NAME_TO_THROWN
    rw [if_neg (by rw [hname]; simp)]
    simp only [Cells.set_stash]
    rw [Cells.set_other (Ne.symm h1), Cells.set_other h2, if_neg]
    intro hh
    have := hstash (by simpa using hh.1)
    rw [this] at hh
    simp at hh
  refine ⟨_, ((((cs.set name { cs.val name with thrown := true }).set cs.TG_Thrown_Arg
      (cs.val arg)).set name { cs.val name with thrown := false }).set out (cs.val arg)).set
        cs.TG_Thrown_Arg (SET_UNREADABLE_BLANK c (cs.val arg)), e1, ?_, ?_⟩
  · have hn1 : (((cs.set name { cs.val name with thrown := true }).set cs.TG_Thrown_Arg
        (cs.val arg)).val name) = { cs.val name with thrown := true } := by
      rw [Cells.set_other h1, Cells.set_same]
    unfold CATCH_THROWN
    rw [hn1, if_neg]
    · simp only [Cells.set_stash]
      rw [Cells.set_other (Ne.symm h1), Cells.set_same, if_neg]
      · rw [Cells.set_other (Ne.symm h3), Cells.set_other (Ne.symm h1),
          Cells.set_same]
      · intro hh
        have := ha (by simpa using hh.1)
        rw [this] at hh
        simp at hh
    · intro hh
      have := hend (by simpa using hh.1)
      simp [THROWN, this] at hh
  · refine ⟨?_, ?_, ?_, ?_, rfl⟩
    · rw [Cells.set_other h3, Cells.set_same]
    · rw [Cells.set_other h1]
      by_cases hon : out = name
      · subst hon
        rw [Cells.set_same]
        exact h4 rfl
      · rw [Cells.set_other (Ne.symm hon), Cells.set_same]
        rfl
    · simp only [Cells.set_stash]
      rw [Cells.set_same]
      rfl
    · intro hd
      simp only [Cells.set_stash]
      rw [Cells.set_same]
      simp [IS_UNREADABLE_IF_DEBUG, SET_UNREADABLE_BLANK, hd]

/-- Witness of C17: `catch [throw 42]` in a debug build. The throw marks the name cell
at address 1 and stashes the integer 42; the catch stores the integer 42 in the cell at
address 3 and leaves the stash unreadable. -/
theorem throw_then_catch_witness :
    (demo_throw.val 2).payload = 42 ∧
    ∃ cs1 cs2, CONVERT_NAME_TO_THROWN config64_debug demo_throw 1 2 = .ok cs1 ∧
      CATCH_THROWN config64_debug cs1 3 1 = .ok cs2 ∧
      cs2.val 3 = demo_throw.val 2 ∧
      THROWN (cs2.val 1) = false ∧
      (cs2.val cs2.TG_Thrown_Arg).kind = .REB_BLANK ∧
      (config64_debug.NDEBUG = false →
        IS_UNREADABLE_IF_DEBUG config64_debug (cs2.val cs2.TG_Thrown_Arg) = true) ∧
      cs2.TG_Thrown_Arg = demo_throw.TG_Thrown_Arg :=
  ⟨rfl, throw_then_catch config64_debug demo_throw 1 2 3 rfl (fun _ => rfl) (fun _ => rfl)
    (fun _ => rfl) (by decide) (by decide) (by decide) (fun h => absurd h (by decide))⟩

theorem Make_Series_array {m m1 : Memory} {capacity : Nat} {s : REBSER}
    (hw : 0 < m.cfg.sizeof_REBVAL)
    (h : Make_Series m capacity m.cfg.sizeof_REBVAL MKS_ARRAY = .ok s m1) :
    s.is_array = true ∧ s.fixed_size = false ∧
      ((capacity ≤ 2 ∧ s.has_dynamic = false ∧ s.info_len = 0) ∨
       (2 < capacity ∧ s.has_dynamic = true ∧ s.len = 0)) := by
  unfold Make_Series at h
  simp only [] at h
  split_ifs at h with h1 h2
  split at h
  · simp at h
  · rename_i node m2 hn
    split at h
    · simp at h
    · rename_i s1 m4 hd
      have hs := Make_Series_manual_series h
      subst hs
      obtain ⟨_, hc⟩ := Make_Series_data_ok hd
      rcases hc with ⟨⟨_, c1⟩, _, c3⟩ | ⟨c1, c2, _, _⟩ | ⟨c1, _, c3⟩
      · rw [c3]
        exact ⟨rfl, rfl, Or.inl ⟨c1, rfl, rfl⟩⟩
      · exfalso
        have hcap : 2 < capacity := by
          rcases Nat.lt_or_ge 2 capacity with h | h
          · exact h
          · exact absurd ⟨rfl, h⟩ c1
        have hsmall : capacity * m.cfg.sizeof_REBVAL < 4294967296 := by
          unfold MAX_I32 at h2; omega
        unfold u32 at c2
        rw [Nat.mod_eq_of_lt hsmall] at c2
        have hcfg : (sizeof_content
            ((m2.set_node node { m2.nodes node with header := NODE_FLAG_VALID }).sub_ballast
              m.cfg.sizeof_REBSER).cfg) ≤ sizeof_content m2.cfg := le_of_eq rfl
        have hm2 : m2.cfg = m.cfg := by
          have := (Make_Node_same m SER_POOL).cfg
          rw [hn] at this
          exact this
        have : sizeof_content m2.cfg = m.cfg.sizeof_REBVAL := by
          unfold sizeof_content; rw [hm2]
        have c4 := le_trans c2 hcfg
        rw [this] at c4
        have : 3 * m.cfg.sizeof_REBVAL ≤ capacity * m.cfg.sizeof_REBVAL :=
          Nat.mul_le_mul_right _ hcap
        omega
      · have hcap : 2 < capacity := by
          rcases Nat.lt_or_ge 2 capacity with h | h
          · exact h
          · exact absurd ⟨rfl, h⟩ c1
        have hf := c3.fields
        refine ⟨by rw [hf]; rfl, by rw [hf]; rfl, Or.inr ⟨hcap, by rw [hf], by rw [hf]⟩⟩

theorem TERM_ARRAY_LEN_fields {c : Config} {s s1 : REBSER} {len : Nat}
    (h : TERM_ARRAY_LEN c s len = some s1) :
    s1.is_array = s.is_array ∧ s1.fixed_size = s.fixed_size ∧ s1.node = s.node ∧
      s1.has_dynamic = s.has_dynamic ∧ s1.managed = s.managed ∧
      (s.has_dynamic = true → s1.len = len) ∧
      (s.has_dynamic = false → s1.info_len = len % 256) := by
  have hset : (SET_SERIES_LEN s len).is_array = s.is_array ∧
      (SET_SERIES_LEN s len).fixed_size = s.fixed_size ∧ (SET_SERIES_LEN s len).node = s.node ∧
      (SET_SERIES_LEN s len).has_dynamic = s.has_dynamic ∧
      (SET_SERIES_LEN s len).managed = s.managed ∧
      (s.has_dynamic = true → (SET_SERIES_LEN s len).len = len) ∧
      (s.has_dynamic = false → (SET_SERIES_LEN s len).info_len = len % 256) := by
    unfold SET_SERIES_LEN
    cases hd : s.has_dynamic <;> simp
  unfold TERM_ARRAY_LEN at h
  simp only [] at h
  split_ifs at h with h1 h2
  · simp only [Option.some.injEq] at h
    rw [← h]
    exact hset
  · split at h
    · simp at h
    · have hw := (REBSER.write_some h).2.2.1
      rw [hw]
      exact hset

theorem SET_TRASH_IF_DEBUG_AT_fields {c : Config} {s s1 : REBSER} {i : Nat}
    (h : SET_TRASH_IF_DEBUG_AT c s i = some s1) : s1 = { s with mem := s1.mem } := by
  unfold SET_TRASH_IF_DEBUG_AT at h
  split_ifs at h
  · simp only [Option.some.injEq] at h
    rw [← h]
  · split at h
    · simp at h
    · exact (REBSER.write_some h).2.2.1

theorem Alloc_Durable_Varlist_ok {m m1 : Memory} {num_args : Nat} {a : REBARR}
    (hw : 0 < m.cfg.sizeof_REBVAL) (hn : num_args + 2 < 4294967296)
    (h : Alloc_Durable_Varlist m num_args = .ok a m1) :
    a.ser.is_array = true ∧ a.ser.fixed_size = true ∧ SER_LEN a.ser = num_args + 1 ∧
      a.ARRAY_FLAG_VARLIST = false ∧ a.CONTEXT_FLAG_STACK = false ∧
      a.SERIES_INFO_INACCESSIBLE = false := by
  have hu1 : u32 (num_args + 1) = num_args + 1 := by unfold u32; omega
  have hu2 : u32 (num_args + 1 + 1) = num_args + 2 := by unfold u32; omega
  unfold Alloc_Durable_Varlist at h
  simp only [] at h
  split at h
  · simp at h
  · rename_i s m2 hma
    split at h
    · simp at h
    · rename_i s1 ht
      split at h
      · simp at h
      · rename_i s2 hs2
        simp only [Result.ok.injEq] at h
        obtain ⟨h, _⟩ := h
        subst h
        have f2 := SET_TRASH_IF_DEBUG_AT_fields hs2
        obtain ⟨f11, f12, f13, f14, f15, f16, f17⟩ := TERM_ARRAY_LEN_fields ht
        unfold Make_Array at hma
        split at hma
        · simp at hma
        · rename_i s0 m3 hms
          split at hma
          · simp at hma
          · rename_i s0t ht0
            simp only [Result.ok.injEq] at hma
            obtain ⟨hma, _⟩ := hma
            subst hma
            obtain ⟨f01, f02, f03, f04, f05, f06, f07⟩ := TERM_ARRAY_LEN_fields ht0
            rw [hu1, hu2] at hms
            obtain ⟨g1, g2, g3⟩ := Make_Series_array hw hms
            refine ⟨?_, ?_, ?_, rfl, rfl, rfl⟩
            · show s2.is_array = true
              rw [f2]; show s1.is_array = true
              rw [f11, f01, g1]
            · show s2.fixed_size = true
              rw [f2]
            · show SER_LEN s2 = num_args + 1
              rw [f2]
              show SER_LEN { s1 with fixed_size := true, mem := s2.mem } = num_args + 1
              unfold SER_LEN
              simp only []
              rw [f14, f04]
              rcases g3 with ⟨c1, c2, _⟩ | ⟨c1, c2, _⟩
              · have hd0 : s0t.has_dynamic = false := by rw [f04, c2]
                rw [c2, f17 hd0, hu1]
                have : num_args = 0 := by omega
                subst this
                rfl
              · have hd0 : s0t.has_dynamic = true := by rw [f04, c2]
                rw [c2, f16 hd0, hu1]
                rfl

theorem Push_Or_Alloc_Args_unfold (hp : Heap) (f : REBFRM) (sp : Ptr) (u : Nat)
    (hfun : hp.mem.cfg.NDEBUG = false → f.gotten.is_function = true)
    (hU : Underlying_Function hp.mem.cfg hp.funcs f.gotten = .ok (sp, u))
    (f1 : REBFRM) (hp1 : Heap)
    (hst : Push_Or_Alloc_Args_store hp { f with underlying := u } (hp.funcs u).num_params
      (hp.funcs u).durable = .ok (f1, hp1)) :
    ∃ f2, Push_Or_Alloc_Args_For_Underlying_Func hp f = .ok (f2, hp1) ∧
      f2.underlying = f1.underlying ∧ f2.varlist = f1.varlist ∧
      f2.args_head = f1.args_head ∧ f2.func = f.gotten.func ∧
      f2.binding = f.gotten.binding ∧ f2.cell.is_end = true := by
  unfold Push_Or_Alloc_Args_For_Underlying_Func
  rw [if_neg, hU]
  · simp only []
    rw [hst]
    exact ⟨_, rfl, rfl, rfl, rfl, rfl, rfl, rfl⟩
  · intro hh
    have := hfun (by simpa using hh.1)
    rw [this] at hh
    simp at hh

theorem Push_Or_Alloc_Args_durable (hp : Heap) (f : REBFRM) (sp : Ptr) (u : Nat)
    (hU : Underlying_Function hp.mem.cfg hp.funcs f.gotten = .ok (sp, u))
    (hd : (hp.funcs u).durable = true) (f1 : REBFRM) (hp1 : Heap)
    (h : Push_Or_Alloc_Args_For_Underlying_Func hp f = .ok (f1, hp1)) :
    ∃ a m1, Alloc_Durable_Varlist hp.mem (hp.funcs u).num_params = .ok a m1 ∧
      hp1 = { hp with mem := m1 }.set_array a ∧ f1.varlist = .to a.ser.node ∧
      f1.args_head = .array a.ser.node 1 := by
  unfold Push_Or_Alloc_Args_For_Underlying_Func at h
  simp only [] at h
  split at h
  · simp at h
  · rw [hU] at h
    simp only [] at h
    unfold Push_Or_Alloc_Args_store at h
    simp only [] at h
    rw [if_pos hd] at h
    cases ha : Alloc_Durable_Varlist hp.mem (hp.funcs u).num_params with
    | fault e m1 => rw [ha] at h; simp at h
    | ok a m1 =>
      rw [ha] at h
      simp only [Except.ok.injEq, Prod.mk.injEq] at h
      obtain ⟨h1, h2⟩ := h
      exact ⟨a, m1, rfl, h2.symm, by rw [← h1], by rw [← h1]⟩

/-- C18: what Push_Or_Alloc_Args_For_Underlying_Func leaves as the storage of the
arguments, `u` being the underlying function of `f->gotten` and `n` the number of its
parameters. If `u` is not durable the call returns, with `f->varlist = NULL`, and
`f->args_head` is `END_CELL` for `n = 0`, the cell of the frame for `n = 1`, and for
`n >= 2` the values of a chunk of exactly `n` cells pushed on the chunk stack. If `u` is
durable the call returns if the allocation of the varlist does, and then `f->varlist` is
an array of fixed size of length `n + 1` and `f->args_head` is its slot 1. -/
theorem Push_Or_Alloc_Args_storage (hp : Heap) (f : REBFRM) (sp : Ptr) (u : Nat)
    (hfun : hp.mem.cfg.NDEBUG = false → f.gotten.is_function = true)
    (hU : Underlying_Function hp.mem.cfg hp.funcs f.gotten = .ok (sp, u))
    (hw : 0 < hp.mem.cfg.sizeof_REBVAL) (hn : (hp.funcs u).num_params + 2 < 4294967296) :
    ((hp.funcs u).durable = false → (hp.funcs u).num_params = 0 →
      ∃ f1, Push_Or_Alloc_Args_For_Underlying_Func hp f = .ok (f1, hp) ∧
        f1.underlying = u ∧ f1.args_head = .END_CELL ∧ f1.varlist = .NULL) ∧
    ((hp.funcs u).durable = false → (hp.funcs u).num_params = 1 →
      ∃ f1, Push_Or_Alloc_Args_For_Underlying_Func hp f = .ok (f1, hp) ∧
        f1.underlying = u ∧ f1.args_head = .frame_cell ∧ f1.varlist = .NULL) ∧
    ((hp.funcs u).durable = false → 2 ≤ (hp.funcs u).num_params →
      ∃ f1 hp1, Push_Or_Alloc_Args_For_Underlying_Func hp f = .ok (f1, hp1) ∧
        f1.underlying = u ∧ f1.varlist = .NULL ∧ f1.args_head = .chunk hp.chunks.length ∧
        hp1.chunks = hp.chunks ++ [(hp.funcs u).num_params] ∧
        CHUNK_LEN_FROM_VALUES hp1 f1.args_head = some (hp.funcs u).num_params) ∧
    ((hp.funcs u).durable = true →
      (∀ f1 hp1, Push_Or_Alloc_Args_For_Underlying_Func hp f = .ok (f1, hp1) →
        ∃ a, hp1.arrays a.ser.node = some a ∧ f1.varlist = .to a.ser.node ∧
          f1.args_head = .array a.ser.node 1 ∧ a.ser.is_array = true ∧
          a.ser.fixed_size = true ∧ SER_LEN a.ser = (hp.funcs u).num_params + 1) ∧
      (∀ a m1, Alloc_Durable_Varlist hp.mem (hp.funcs u).num_params = .ok a m1 →
        ∃ f1, Push_Or_Alloc_Args_For_Underlying_Func hp f =
          .ok (f1, { hp with mem := m1 }.set_array a))) := by
  refine ⟨?_, ?_, ?_, ?_⟩
  · intro hd h0
    obtain ⟨f2, e, e1, e2, e3, _⟩ := Push_Or_Alloc_Args_unfold hp f sp u hfun hU
      { f with underlying := u, args_head := .END_CELL, varlist := .NULL } hp (by
        unfold Push_Or_Alloc_Args_store
        simp only []
        rw [if_neg (by rw [hd]; simp), if_pos h0])
    exact ⟨f2, e, e1, e3, e2⟩
  · intro hd h1
    obtain ⟨f2, e, e1, e2, e3, _⟩ := Push_Or_Alloc_Args_unfold hp f sp u hfun hU
      { f with underlying := u, args_head := .frame_cell, varlist := .NULL } hp (by
        unfold Push_Or_Alloc_Args_store
        simp only []
        rw [if_neg (by rw [hd]; simp), if_neg (by omega), if_pos h1])
    exact ⟨f2, e, e1, e3, e2⟩
  · intro hd h2
    have hlen : CHUNK_LEN_FROM_VALUES (Push_Value_Chunk_Of_Length hp (hp.funcs u).num_params).2
        (Push_Value_Chunk_Of_Length hp (hp.funcs u).num_params).1 =
        some (hp.funcs u).num_params := by
      simp [CHUNK_LEN_FROM_VALUES, Push_Value_Chunk_Of_Length]
    obtain ⟨f2, e, e1, e2, e3, _⟩ := Push_Or_Alloc_Args_unfold hp f sp u hfun hU
      { f with underlying := u, varlist := .NULL,
               args_head := (Push_Value_Chunk_Of_Length hp (hp.funcs u).num_params).1 }
      (Push_Value_Chunk_Of_Length hp (hp.funcs u).num_params).2 (by
        unfold Push_Or_Alloc_Args_store
        simp only []
        rw [if_neg (by rw [hd]; simp), if_neg (by omega), if_neg (by omega), if_neg]
        rw [hlen]; simp)
    refine ⟨f2, _, e, e1, e2, e3, rfl, ?_⟩
    rw [e3]
    exact hlen
  · intro hd
    constructor
    · intro f1 hp1 h
      obtain ⟨a, m1, e1, e2, e3, e4⟩ := Push_Or_Alloc_Args_durable hp f sp u hU hd f1 hp1 h
      obtain ⟨g1, g2, g3, _⟩ := Alloc_Durable_Varlist_ok hw hn e1
      refine ⟨a, ?_, e3, e4, g1, g2, g3⟩
      rw [e2]
      simp [Heap.set_array]
    · intro a m1 ha
      obtain ⟨f2, e, _⟩ := Push_Or_Alloc_Args_unfold hp f sp u hfun hU
        { f with underlying := u, varlist := .to a.ser.node, args_head := .array a.ser.node 1 }
        ({ hp with mem := m1 }.set_array a) (by
          unfold Push_Or_Alloc_Args_store
          simp only []
          rw [if_pos hd, ha])
      exact ⟨f2, e⟩

set_option maxRecDepth 1000000 in
/-- Witness of C18: in the state `demo_heap` the call of the function 3, of three
parameters, pushes a chunk of three cells as the chunk 1 of the chunk stack; the call of
the durable function 4, of two parameters, returns with a varlist of fixed size of length
3 and the arguments at its slot 1. -/
theorem Push_Or_Alloc_Args_storage_witness :
    Underlying_Function demo_heap.mem.cfg demo_heap.funcs (demo_frame 3).gotten =
      .ok (.NULL, 3) ∧
    (∃ f1 hp1, Push_Or_Alloc_Args_For_Underlying_Func demo_heap (demo_frame 3) =
        .ok (f1, hp1) ∧
      f1.underlying = 3 ∧ f1.varlist = .NULL ∧ f1.args_head = .chunk 1 ∧
      hp1.chunks = [4] ++ [3] ∧ CHUNK_LEN_FROM_VALUES hp1 f1.args_head = some 3) ∧
    (∃ f1 hp1, Push_Or_Alloc_Args_For_Underlying_Func demo_heap (demo_frame 4) =
        .ok (f1, hp1) ∧
      ∃ a, hp1.arrays a.ser.node = some a ∧ f1.varlist = .to a.ser.node ∧
        f1.args_head = .array a.ser.node 1 ∧ a.ser.is_array = true ∧
        a.ser.fixed_size = true ∧ SER_LEN a.ser = 2 + 1) :=
  ⟨rfl,
    (Push_Or_Alloc_Args_storage demo_heap (demo_frame 3) .NULL 3 (fun _ => rfl) rfl
      (by decide) (by decide)).2.2.1 rfl (by decide),
    ⟨_, _, rfl,
      ((Push_Or_Alloc_Args_storage demo_heap (demo_frame 4) .NULL 4 (fun _ => rfl) rfl
        (by decide) (by decide)).2.2.2 rfl).1 _ _ rfl⟩⟩

theorem clear_bits_and (bits flag : Nat) : clear_bits bits flag &&& flag = 0 := by
  apply Nat.eq_of_testBit_eq
  intro i
  simp only [clear_bits, Nat.testBit_and, Nat.testBit_xor, Nat.zero_testBit]
  cases Nat.testBit bits i <;> cases Nat.testBit flag i <;> rfl

set_option maxRecDepth 100000 in
/-- C19 fails for a reified varlist that has memory of its own: the frame 900 of a durable
function, whose managed varlist is linked to it, exits in a debug build. Every assertion
holds, the link `misc.f` is nulled and `DO_FLAG_NATIVE_HOLD` is cleared, but the varlist
is not marked INACCESSIBLE. -/
theorem Drop_Function_Args_stays_accessible :
    demo_durable_varlist.ser.managed = true ∧ demo_durable_varlist.misc_f = .to 900 ∧
    ∃ f1 hp1, Drop_Function_Args_For_Frame_Core demo_reified_heap demo_durable_frame true =
        .ok (f1, hp1) ∧
      hp1.arrays 4112 = some { demo_durable_varlist with misc_f := .NULL } ∧
      (hp1.arrays 4112).map (fun a => a.SERIES_INFO_INACCESSIBLE) = some false ∧
      f1.flags_bits &&& DO_FLAG_NATIVE_HOLD = 0 :=
  ⟨rfl, rfl, _, _, rfl, rfl, rfl, rfl⟩

theorem Drop_Function_Args_finished_bits (c : Config) (f : REBFRM) :
    (Drop_Function_Args_finished c f).flags_bits = f.flags_bits := by
  unfold Drop_Function_Args_finished
  split <;> rfl

theorem Drop_Function_Args_bits (hp : Heap) (f : REBFRM) (drop_chunks : Bool)
    (f1 : REBFRM) (hp1 : Heap)
    (h : Drop_Function_Args_For_Frame_Core hp f drop_chunks = .ok (f1, hp1)) :
    f1.flags_bits = clear_bits f.flags_bits DO_FLAG_NATIVE_HOLD := by
  unfold Drop_Function_Args_For_Frame_Core at h
  simp only [] at h
  split at h
  · split at h
    · split at h
      · simp at h
      · simp only [Except.ok.injEq, Prod.mk.injEq] at h
        rw [← h.1, Drop_Function_Args_finished_bits]
    · simp only [Except.ok.injEq, Prod.mk.injEq] at h
      rw [← h.1, Drop_Function_Args_finished_bits]
  · simp at h
  · split at h
    · simp at h
    · split at h
      · simp at h
      · split at h
        · simp at h
        · simp only [Except.ok.injEq, Prod.mk.injEq] at h
          rw [← h.1, Drop_Function_Args_finished_bits]

theorem Drop_Function_Args_varlist_managed (hp : Heap) (f : REBFRM) (a : REBARR)
    (hm : a.ser.managed = true)
    (hdbg : hp.mem.cfg.NDEBUG = false →
      a.ser.is_array = true ∧ a.misc_f = .to f.id ∧
      (a.CONTEXT_FLAG_STACK = false → a.ser.has_dynamic = true) ∧
      (a.CONTEXT_FLAG_STACK = true → a.ARRAY_FLAG_VARLIST = true ∧
        a.ser.has_dynamic = false ∧ a.SERIES_INFO_INACCESSIBLE = false)) :
    Drop_Function_Args_varlist hp f a =
      .ok (hp.set_array (if a.CONTEXT_FLAG_STACK = true then
        { a with misc_f := .NULL, SERIES_INFO_INACCESSIBLE := true }
        else { a with misc_f := .NULL })) := by
  unfold Drop_Function_Args_varlist
  simp only []
  rw [if_neg, if_neg (by rw [hm]; simp), if_neg]
  · by_cases hs : a.CONTEXT_FLAG_STACK = true
    · rw [if_neg (by rw [hs]; simp), if_neg, if_pos hs]
      intro hh
      obtain ⟨_, _, _, g⟩ := hdbg (by simpa using hh.1)
      obtain ⟨g1, g2, g3⟩ := g hs
      rw [g1, g2, g3] at hh
      simp at hh
    · rw [if_pos (by simpa using hs), if_neg, if_neg hs]
      intro hh
      obtain ⟨_, _, g, _⟩ := hdbg (by simpa using hh.1)
      rw [g (by simpa using hs)] at hh
      simp at hh
  · intro hh
    obtain ⟨_, g, _⟩ := hdbg (by simpa using hh.1)
    exact hh.2 g
  · intro hh
    obtain ⟨g, _⟩ := hdbg (by simpa using hh.1)
    rw [g] at hh
    simp at hh

/-- C19, amended: when a frame `f` whose varlist `a` is managed exits through
Drop_Function_Args_For_Frame_Core, the call returns, the link `misc.f` of the varlist is
`NULL`, and the varlist is marked INACCESSIBLE if it carries `CONTEXT_FLAG_STACK`, while
a varlist without this flag keeps its info bits. (A debug build asserts what is assumed
here of the varlist, and that a chunk to drop is the top chunk.) In every case in which
the call returns, `DO_FLAG_NATIVE_HOLD` is cleared in the flags of the frame. -/
theorem Drop_Function_Args_reified (hp : Heap) (f : REBFRM) (a : REBARR) (n : Nat)
    (drop_chunks : Bool) (hv : f.varlist = .to n) (ha : hp.arrays n = some a)
    (hnode : a.ser.node = n) (hm : a.ser.managed = true)
    (hdbg : hp.mem.cfg.NDEBUG = false →
      a.ser.is_array = true ∧ a.misc_f = .to f.id ∧
      (a.CONTEXT_FLAG_STACK = false → a.ser.has_dynamic = true) ∧
      (a.CONTEXT_FLAG_STACK = true → a.ARRAY_FLAG_VARLIST = true ∧
        a.ser.has_dynamic = false ∧ a.SERIES_INFO_INACCESSIBLE = false))
    (htop : hp.mem.cfg.NDEBUG = false → drop_chunks = true → SER_LEN a.ser = 1 →
      f.args_head = .END_CELL ∨ f.args_head = .frame_cell ∨
        (hp.chunks ≠ [] ∧ f.args_head = .chunk (hp.chunks.length - 1))) :
    (∃ f1 hp1 a1, Drop_Function_Args_For_Frame_Core hp f drop_chunks = .ok (f1, hp1) ∧
      hp1.arrays n = some a1 ∧ a1.misc_f = .NULL ∧ a1.ser = a.ser ∧
      (a.CONTEXT_FLAG_STACK = true → a1.SERIES_INFO_INACCESSIBLE = true) ∧
      (a.CONTEXT_FLAG_STACK = false →
        a1.SERIES_INFO_INACCESSIBLE = a.SERIES_INFO_INACCESSIBLE) ∧
      f1.flags_bits &&& DO_FLAG_NATIVE_HOLD = 0) ∧
    ∀ (hp0 : Heap) (f0 f1 : REBFRM) (d : Bool) (hp1 : Heap),
      Drop_Function_Args_For_Frame_Core hp0 f0 d = .ok (f1, hp1) →
      f1.flags_bits &&& DO_FLAG_NATIVE_HOLD = 0 := by
  have hall : ∀ (hp0 : Heap) (f0 f1 : REBFRM) (d : Bool) (hp1 : Heap),
      Drop_Function_Args_For_Frame_Core hp0 f0 d = .ok (f1, hp1) →
      f1.flags_bits &&& DO_FLAG_NATIVE_HOLD = 0 := by
    intro hp0 f0 f1 d hp1 h
    rw [Drop_Function_Args_bits hp0 f0 d f1 hp1 h]
    exact clear_bits_and _ _
  refine ⟨?_, hall⟩
  -- the chunk is dropped, if any
  obtain ⟨hp1, hdrop, hcfg, harr⟩ : ∃ hp1,
      (if drop_chunks = true ∧ SER_LEN a.ser = 1 then
        (if f.args_head ≠ .END_CELL ∧ f.args_head ≠ .frame_cell then
          Drop_Chunk_Of_Values hp f.args_head
        else .ok hp)
      else .ok hp) = .ok hp1 ∧ hp1.mem = hp.mem ∧ hp1.arrays = hp.arrays := by
    by_cases h1 : drop_chunks = true ∧ SER_LEN a.ser = 1
    · rw [if_pos h1]
      by_cases h2 : f.args_head ≠ .END_CELL ∧ f.args_head ≠ .frame_cell
      · rw [if_pos h2]
        unfold Drop_Chunk_Of_Values
        rw [if_neg]
        · exact ⟨_, rfl, rfl, rfl⟩
        · intro hh
          rcases htop (by simpa using hh.1) h1.1 h1.2 with g | g | g
          · exact h2.1 g
          · exact h2.2 g
          · exact hh.2 g
      · rw [if_neg h2]
        exact ⟨_, rfl, rfl, rfl⟩
    · rw [if_neg h1]
      exact ⟨_, rfl, rfl, rfl⟩
  have hvl : ∀ f0 : REBFRM, f0.id = f.id → Drop_Function_Args_varlist hp1 f0 a =
      .ok (hp1.set_array (if a.CONTEXT_FLAG_STACK = true then
        { a with misc_f := .NULL, SERIES_INFO_INACCESSIBLE := true }
        else { a with misc_f := .NULL })) := fun f0 hid =>
    Drop_Function_Args_varlist_managed hp1 f0 a hm (by rw [hcfg, hid]; exact hdbg)
  have hd : Drop_Function_Args_For_Frame_Core hp f drop_chunks =
      .ok (Drop_Function_Args_finished hp.mem.cfg
        { f with flags_bits := clear_bits f.flags_bits DO_FLAG_NATIVE_HOLD },
        hp1.set_array (if a.CONTEXT_FLAG_STACK = true then
          { a with misc_f := .NULL, SERIES_INFO_INACCESSIBLE := true }
          else { a with misc_f := .NULL })) := by
    unfold Drop_Function_Args_For_Frame_Core
    simp only []
    rw [hv]
    simp only []
    rw [ha]
    simp only []
    rw [hdrop]
    simp only []
    rw [hvl { f with varlist := Ptr.to n,
                     flags_bits := clear_bits f.flags_bits DO_FLAG_NATIVE_HOLD } rfl]
  refine ⟨_, _, (if a.CONTEXT_FLAG_STACK = true then
      { a with misc_f := .NULL, SERIES_INFO_INACCESSIBLE := true }
      else { a with misc_f := .NULL }), hd, ?_, ?_, ?_, ?_, ?_, hall _ _ _ _ _ hd⟩
  · unfold Heap.set_array
    simp only []
    rw [if_pos]
    split <;> exact hnode.symm
  · split <;> rfl
  · split <;> rfl
  · intro hs
    rw [if_pos hs]
  · intro hs
    rw [if_neg (by rw [hs]; simp)]

set_option maxRecDepth 100000 in
/-- Witness of C19, amended: the frame 900 exits in a debug build with its arguments in the
top chunk and its varlist reified as a stub with `CONTEXT_FLAG_STACK`: the stub is marked
INACCESSIBLE and its link `misc.f` is nulled. -/
theorem Drop_Function_Args_reified_witness :
    demo_stack_varlist.CONTEXT_FLAG_STACK = true ∧
    ∃ f1 hp1 a1, Drop_Function_Args_For_Frame_Core demo_reified_heap demo_stack_frame true =
        .ok (f1, hp1) ∧
      hp1.arrays 4176 = some a1 ∧ a1.misc_f = .NULL ∧ a1.ser = demo_stack_varlist.ser ∧
      (demo_stack_varlist.CONTEXT_FLAG_STACK = true → a1.SERIES_INFO_INACCESSIBLE = true) ∧
      (demo_stack_varlist.CONTEXT_FLAG_STACK = false →
        a1.SERIES_INFO_INACCESSIBLE = demo_stack_varlist.SERIES_INFO_INACCESSIBLE) ∧
      f1.flags_bits &&& DO_FLAG_NATIVE_HOLD = 0 :=
  ⟨rfl, (Drop_Function_Args_reified demo_reified_heap demo_stack_frame demo_stack_varlist
    4176 true rfl rfl rfl rfl
    (fun _ => ⟨rfl, rfl, fun h => absurd h (by decide), fun _ => ⟨rfl, rfl, rfl⟩⟩)
    (fun _ _ _ => Or.inr (Or.inr ⟨by decide, rfl⟩))).1⟩

theorem ediv_emod_mul_256 (v m : Int) (hm : 0 < m) :
    v / (256 * m) = v / 256 / m ∧ v % (256 * m) = v % 256 + 256 * (v / 256 % m) := by
  have h1 : v = 256 * (v / 256) + v % 256 := (Int.ediv_add_emod v 256).symm
  have h2 : v / 256 = m * (v / 256 / m) + v / 256 % m := (Int.ediv_add_emod (v / 256) m).symm
  have h3 : 0 ≤ v % 256 := Int.emod_nonneg _ (by decide)
  have h4 : v % 256 < 256 := Int.emod_lt_of_pos _ (by decide)
  have h5 : 0 ≤ v / 256 % m := Int.emod_nonneg _ (ne_of_gt hm)
  have h6 : v / 256 % m < m := Int.emod_lt_of_pos _ hm
  apply (Int.ediv_emod_unique (by omega)).2
  generalize v / 256 % m = X at *
  generalize v / 256 / m = Y at *
  generalize v % 256 = r at *
  generalize v / 256 = q at *
  refine ⟨?_, by omega, ?_⟩
  · rw [h1, h2]; ring
  · have : 256 * X + 256 ≤ 256 * m := by omega
    omega

theorem emod_mul_256 (v m : Int) (hm : 0 < m) :
    v % (256 * m) = v % 256 + 256 * (v / 256 % m) := (ediv_emod_mul_256 v m hm).2

theorem digits_value (v : Int) (n : Nat) :
    (((List.range n).map (fun i => (v / 256 ^ i % 256).toNat)).foldr
      (fun b acc => b + 256 * acc) 0 : Nat) = (v % 256 ^ n).toNat := by
  induction n generalizing v with
  | zero => simp
  | succ n ih =>
    rw [List.range_succ_eq_map, List.map_cons, List.map_map, List.foldr_cons]
    have hcomp : ((fun i => (v / 256 ^ i % 256).toNat) ∘ Nat.succ) =
        (fun i => (v / 256 / 256 ^ i % 256).toNat) := by
      funext i
      simp only [Function.comp, Nat.succ_eq_add_one]
      rw [pow_succ, mul_comm, (ediv_emod_mul_256 v (256 ^ i) (by positivity)).1]
    rw [hcomp, ih (v / 256)]
    have hm : (0 : Int) < 256 ^ n := by positivity
    have := emod_mul_256 v (256 ^ n) hm
    have e : (256 : Int) ^ (n + 1) = 256 * 256 ^ n := by rw [pow_succ, mul_comm]
    rw [e, this]
    have h3 : 0 ≤ v % 256 := Int.emod_nonneg _ (by decide)
    have h5 : 0 ≤ v / 256 % 256 ^ n := Int.emod_nonneg _ (ne_of_gt hm)
    simp only [pow_zero, Int.ediv_one]
    generalize v / 256 % 256 ^ n = X at *
    generalize v % 256 = r at *
    omega

theorem bytes_unsigned_int_bytes (big_endian : Bool) (n : Nat) (v : Int) :
    bytes_unsigned big_endian (int_bytes big_endian n v) = v % 2 ^ (8 * n) := by
  have hr : ∀ l : List Nat, (if big_endian = true then
      (if big_endian = true then l.reverse else l).reverse
      else (if big_endian = true then l.reverse else l)) = l := by
    intro l; cases big_endian <;> simp
  unfold bytes_unsigned int_bytes
  simp only []
  rw [hr, digits_value]
  have : (256 : Int) ^ n = 2 ^ (8 * n) := by
    rw [pow_mul]; norm_num
  rw [this, Int.toNat_of_nonneg (Int.emod_nonneg _ (by positivity))]

theorem int_bytes_length (big_endian : Bool) (n : Nat) (v : Int) :
    (int_bytes big_endian n v).length = n := by
  unfold int_bytes
  cases big_endian <;> simp

theorem memcpy_at_read {mem mem1 : List Nat} {p : Nat} {bytes : List Nat}
    (h : memcpy_at mem p bytes = some mem1) :
    mem1.length = mem.length ∧ (mem1.drop p).take bytes.length = bytes := by
  unfold memcpy_at at h
  split_ifs at h with hc
  simp only [Option.some.injEq] at h
  subst h
  have hp : (mem.take p).length = p := by simp; omega
  constructor
  · simp only [List.length_append, List.length_take, List.length_drop]; omega
  · rw [List.append_assoc, List.drop_append_of_le_length (by omega),
      List.drop_of_length_le (by omega), List.nil_append, List.take_left']
    rfl

theorem memcpy_at_fits {mem : List Nat} {p : Nat} {bytes : List Nat}
    (h : p + bytes.length ≤ mem.length) : ∃ mem1, memcpy_at mem p bytes = some mem1 := by
  unfold memcpy_at
  rw [if_pos h]
  exact ⟨_, rfl⟩

theorem cast_signed_of_range (n : Nat) (v : Int) (hn : 0 < n)
    (h : -(2 ^ (8 * n - 1) : Int) ≤ v ∧ v < 2 ^ (8 * n - 1)) : cast_signed n v = v := by
  unfold cast_signed
  have e : (2 : Int) ^ (8 * n) = 2 * 2 ^ (8 * n - 1) := by
    rw [← pow_succ']
    congr 1
    omega
  rw [e]
  generalize (2 : Int) ^ (8 * n - 1) = P at *
  rw [Int.emod_eq_of_lt (by omega) (by omega)]
  omega

theorem cast_signed_emod (n : Nat) (v : Int) (hn : 0 < n)
    (h : -(2 ^ (8 * n - 1) : Int) ≤ v ∧ v < 2 ^ (8 * n - 1)) :
    cast_signed n (v % 2 ^ (8 * n)) = v := by
  have := cast_signed_of_range n v hn h
  unfold cast_signed at this ⊢
  rw [Int.emod_add_emod]
  exact this

theorem FFI_Sym.size_pos (sym : FFI_Sym) : 0 < sym.size := by
  cases sym <;> decide

theorem FFI_Sym.load_converted (sym : FFI_Sym) (big_endian : Bool) (arg : RELVAL) (v : Int)
    (hp : arg.payload = v) (hv : sym.holds v)
    (hi : -(2 ^ 63 : Int) ≤ v ∧ v < 2 ^ 63) :
    cast_signed 8 (sym.load big_endian (int_bytes big_endian sym.size (sym.converted arg)))
      = v := by
  have h64 : VAL_INT64 arg = v := by
    unfold VAL_INT64
    rw [hp]
    exact cast_signed_of_range 8 v (by decide) (by norm_num; exact hi)
  have hout : cast_signed 8 v = v :=
    cast_signed_of_range 8 v (by decide) (by norm_num; exact hi)
  unfold FFI_Sym.load
  rw [bytes_unsigned_int_bytes]
  cases sym <;>
    simp only [FFI_Sym.converted, FFI_Sym.signed, FFI_Sym.size, h64, if_true, if_false,
      Bool.false_eq_true] <;>
    simp only [FFI_Sym.holds, FFI_Sym.signed, FFI_Sym.size, if_true, if_false,
      Bool.false_eq_true] at hv
  · -- uint8
    unfold cast_unsigned
    rw [Int.emod_emod_of_dvd _ (dvd_refl _), Int.emod_eq_of_lt hv.1 hv.2]
    exact hout
  · rw [cast_signed_of_range 1 v (by decide) hv, cast_signed_emod 1 v (by decide) hv]
    exact hout
  · unfold cast_unsigned
    rw [Int.emod_emod_of_dvd _ (dvd_refl _), Int.emod_eq_of_lt hv.1 hv.2]
    exact hout
  · rw [cast_signed_of_range 2 v (by decide) hv, cast_signed_emod 2 v (by decide) hv]
    exact hout
  · unfold cast_unsigned
    rw [Int.emod_emod_of_dvd _ (dvd_refl _), Int.emod_eq_of_lt hv.1 hv.2]
    exact hout
  · rw [cast_signed_of_range 4 v (by decide) hv, cast_signed_emod 4 v (by decide) hv]
    exact hout
  · rw [Int.emod_eq_of_lt hv.1 hv.2]
    exact hout
  · rw [cast_signed_emod 8 v (by decide) hv]
    exact hout

theorem ffi_to_rebol_read (big_endian : Bool) (out : RELVAL) (sym : FFI_Sym)
    (mem mem1 : List Nat) (p : Nat) (x : Int)
    (h : memcpy_at mem p (int_bytes big_endian sym.size x) = some mem1) :
    ffi_to_rebol big_endian out sym mem1 p =
      some (SET_INTEGER out (sym.load big_endian (int_bytes big_endian sym.size x))) := by
  obtain ⟨h1, h2⟩ := memcpy_at_read h
  rw [int_bytes_length] at h2
  unfold ffi_to_rebol
  rw [if_pos, h2]
  unfold memcpy_at at h
  split_ifs at h with hc
  rw [int_bytes_length] at hc
  omega

theorem table_foldl_not_mem (l : List (Nat × Nat)) (t : Nat → Nat) (k : Nat)
    (h : k ∉ l.map Prod.fst) :
    (l.foldl (fun table kv => table_set table kv.1 kv.2) t) k = t k := by
  induction l generalizing t with
  | nil => rfl
  | cons a l ih =>
    simp only [List.map_cons, List.mem_cons, not_or] at h
    rw [List.foldl_cons, ih _ h.2]
    unfold table_set
    rw [if_neg h.1]

theorem table_foldl_mem (l : List (Nat × Nat)) (t : Nat → Nat) (k v : Nat)
    (hn : (l.map Prod.fst).Nodup) (h : (k, v) ∈ l) :
    (l.foldl (fun table kv => table_set table kv.1 kv.2) t) k = v := by
  induction l generalizing t with
  | nil => simp at h
  | cons a l ih =>
    simp only [List.map_cons, List.nodup_cons] at hn
    rw [List.foldl_cons]
    rcases List.mem_cons.1 h with h1 | h1
    · subst h1
      rw [table_foldl_not_mem l _ _ hn.1]
      simp [table_set]
    · exact ih _ hn.2 h1

theorem RL_Init_Reb_To_RXT_eq (e : Lib_Enums) :
    RL_Init_Reb_To_RXT e =
      (RL_Init_exports.map (fun kv => (e.REB kv.1, e.RXT kv.2))).foldl
        (fun table kv => table_set table kv.1 kv.2) (fun _ => 0) := by
  unfold RL_Init_Reb_To_RXT
  rw [List.foldl_map]

theorem RL_Init_Reb_To_RXT_export (e : Lib_Enums) (hinj : Function.Injective e.REB)
    (x y : Exported) (h : (x, y) ∈ RL_Init_exports) :
    RL_Init_Reb_To_RXT e (e.REB x) = e.RXT y := by
  rw [RL_Init_Reb_To_RXT_eq]
  apply table_foldl_mem
  · rw [List.map_map]
    have : (Prod.fst ∘ fun kv : Exported × Exported => (e.REB kv.1, e.RXT kv.2)) =
        e.REB ∘ Prod.fst := rfl
    rw [this, ← List.map_map]
    exact List.Nodup.map hinj (by decide)
  · exact List.mem_map.2 ⟨(x, y), h, rfl⟩

/-- C22 fails: RL_Init assigns `RXT_GET_WORD` to both `REB_GET_WORD` and `REB_LIT_WORD`
(a-lib.c:125 and 126). Whatever the values of the enum constants are, as long as the
kinds are distinct and `RXT_GET_WORD` is not 0, both kinds are exported with the same
number, so that `RXT_To_Reb` cannot restore both: for one of them `RL_Val_Type`
followed by `RL_Val_Reset` gives another kind. With the numbering `demo_enums` a
GET-WORD! comes back as a LIT-WORD!. -/
theorem RXT_To_Reb_not_reverse :
    (∀ (e : Lib_Enums) (old : Nat → Nat), Function.Injective e.REB →
      e.RXT .GET_WORD ≠ 0 →
      RL_Init_Reb_To_RXT e (e.REB .GET_WORD) = e.RXT .GET_WORD ∧
      RL_Init_Reb_To_RXT e (e.REB .LIT_WORD) = e.RXT .GET_WORD ∧
      ∃ k, (k = e.REB .GET_WORD ∨ k = e.REB .LIT_WORD) ∧ RL_Init_Reb_To_RXT e k ≠ 0 ∧
        RL_Init_RXT_To_Reb e old (RL_Init_Reb_To_RXT e k) ≠ k ∧
        RL_Val_Reset e old (RL_Val_Type e (some k)) ≠ some k) ∧
    demo_enums.REB .GET_WORD = 3 ∧ demo_enums.REB .LIT_WORD = 4 ∧
    RL_Init_Reb_To_RXT demo_enums 3 = 3 ∧
    RL_Init_RXT_To_Reb demo_enums (fun _ => 0) 3 = 4 ∧
    RL_Val_Reset demo_enums (fun _ => 0) (RL_Val_Type demo_enums (some 3)) = some 4 := by
  refine ⟨?_, by decide, by decide, by decide, by decide, by decide⟩
  intro e old hinj h0
  have hg := RL_Init_Reb_To_RXT_export e hinj .GET_WORD .GET_WORD (by decide)
  have hl := RL_Init_Reb_To_RXT_export e hinj .LIT_WORD .GET_WORD (by decide)
  refine ⟨hg, hl, ?_⟩
  have hne : e.REB .GET_WORD ≠ e.REB .LIT_WORD := fun h => by
    have := hinj h
    exact absurd this (by decide)
  by_cases hx : RL_Init_RXT_To_Reb e old (e.RXT .GET_WORD) = e.REB .GET_WORD
  · refine ⟨e.REB .LIT_WORD, Or.inr rfl, by rw [hl]; exact h0, ?_, ?_⟩
    · rw [hl, hx]; exact hne
    · unfold RL_Val_Reset RL_Val_Type
      simp only []
      rw [hl, if_neg h0, hx]
      intro h
      exact hne (Option.some.inj h)
  · refine ⟨e.REB .GET_WORD, Or.inl rfl, by rw [hg]; exact h0, ?_, ?_⟩
    · rw [hg]; exact hx
    · unfold RL_Val_Reset RL_Val_Type
      simp only []
      rw [hg, if_neg h0]
      intro h
      exact hx (Option.some.inj h)

/-- C23 fails: RL_Shutdown does the opposite of what its comment says in a release build.
With `clean` true a release build returns at once and does not run Shutdown_Core, so no
memory is released; with `clean` false every build runs Shutdown_Core. Only a debug build
runs Shutdown_Core when `clean` is true. -/
theorem RL_Shutdown_clean_skips :
    RL_Shutdown config64 true = false ∧ RL_Shutdown config32 true = false ∧
    RL_Shutdown config64 false = true ∧ RL_Shutdown config64_debug true = true ∧
    ∀ c : Config, RL_Shutdown c false = true ∧ RL_Shutdown c true = !c.NDEBUG := by
  refine ⟨rfl, rfl, rfl, rfl, ?_⟩
  intro c
  unfold RL_Shutdown
  cases c.NDEBUG <;> simp

set_option maxRecDepth 1000000 in
/-- C24 (code bug): the comment of RL_Set_Char says that it returns the index passed as an
argument. On the string `abc` with the index 10 the code sets `index` to the length,
appends the character at the tail and returns 3, the length of the string before the call,
not the index 10 that was passed. -/
theorem RL_Set_Char_past_tail :
    SER_LEN demo_string = 3 ∧
    ∃ s1 m1, RL_Set_Char demo_tables demo_string 10 65 = .ok (3, s1) m1 ∧
      SER_LEN s1 = 4 ∧ SER_AT demo_tables.cfg s1 3 = some [65] :=
  ⟨rfl, _, _, rfl, rfl, rfl⟩

theorem RL_Set_Char_index (m m1 : Memory) (s s1 : REBSER) (index chr r : Nat)
    (h : RL_Set_Char m s index chr = .ok (r, s1) m1) : r = min index (SER_LEN s) := by
  unfold RL_Set_Char at h
  simp only [] at h
  by_cases hi : index ≥ SER_LEN s
  · rw [if_pos hi] at h
    cases he : EXPAND_SERIES_TAIL m s 1 with
    | fault f m2 => rw [he] at h; simp at h
    | ok s2 m2 =>
      rw [he] at h
      simp only [] at h
      split at h
      · simp at h
      · simp only [Result.ok.injEq, Prod.mk.injEq] at h
        rw [← h.1.1]
        omega
  · rw [if_neg hi] at h
    simp only [] at h
    split at h
    · simp at h
    · simp only [Result.ok.injEq, Prod.mk.injEq] at h
      rw [← h.1.1]
      omega

/-- What the code of RL_Set_Char returns is the index at which the character is stored. For
an index below the length of the string this is the index passed, and the call returns with
the character stored there; for an index at or past the tail it is the length the string
had before the call, whenever the call returns. -/
theorem RL_Set_Char_returns_stored_index (m : Memory) (s : REBSER) (index chr : Nat)
    (hs : Series_OK s) :
    (index < SER_LEN s →
      ∃ s1, RL_Set_Char m s index chr = .ok (index, s1) m ∧
        SER_AT m.cfg s1 index = some ((List.range s.wide).map (fun i => chr / 256 ^ i % 256)) ∧
        SER_LEN s1 = SER_LEN s) ∧
    (∀ r s1 m1, RL_Set_Char m s index chr = .ok (r, s1) m1 → r = min index (SER_LEN s)) ∧
    (SER_LEN s ≤ index → ∀ r s1 m1, RL_Set_Char m s index chr = .ok (r, s1) m1 →
      r = SER_LEN s) := by
  refine ⟨?_, fun r s1 m1 h => RL_Set_Char_index m m1 s s1 index chr r h, ?_⟩
  · intro hi
    have hlen : SER_LEN s = s.len := by unfold SER_LEN; rw [if_pos hs.dynamic]
    rw [hlen] at hi
    have hroom := hs.room
    have hfits := hs.fits
    have hmul : (index + 1) * s.wide ≤ s.rest * s.wide :=
      Nat.mul_le_mul_right _ (by omega)
    have hmul2 : s.rest * s.wide ≤ (s.bias + s.rest) * s.wide :=
      Nat.mul_le_mul_right _ (by omega)
    rw [Nat.add_mul] at hmul
    obtain ⟨s1, hw⟩ := @REBSER.write_of s (s.base + s.bias * s.wide + index * s.wide)
      ((List.range s.wide).map (fun i => chr / 256 ^ i % 256)) (by omega) (by
        simp only [List.length_map, List.length_range]
        have : s.bias * s.wide + s.rest * s.wide = (s.bias + s.rest) * s.wide := by
          rw [Nat.add_mul]
        omega)
    have hset : SET_ANY_CHAR m.cfg s index chr = some s1 := by
      unfold SET_ANY_CHAR SER_DATA_RAW
      rw [if_pos hs.dynamic, hs.data]
      exact hw
    obtain ⟨_, _, w3, _, _⟩ := REBSER.write_some hw
    refine ⟨s1, ?_, ?_, ?_⟩
    · unfold RL_Set_Char
      simp only []
      rw [if_neg (by rw [hlen]; omega)]
      simp only []
      rw [hset]
    · have hd1 : s1.has_dynamic = true := by rw [w3]; exact hs.dynamic
      have hda : s1.data = some (s.base + s.bias * s.wide) := by rw [w3]; exact hs.data
      have hw1 : s1.wide = s.wide := by rw [w3]
      rw [SER_AT_dynamic hd1 hda, hw1]
      have := REBSER.read_write_inside hw 0 s.wide (by simp)
      rw [Nat.add_zero] at this
      rw [this]
      simp
    · unfold SER_LEN
      rw [w3]
  · intro hi r s1 m1 h
    rw [RL_Set_Char_index m m1 s s1 index chr r h]
    omega

set_option maxRecDepth 1000000 in
/-- On the string `abc`, the index 1 is returned as it is, with the character stored at 1,
and the index 3, the tail, is returned after the string has grown by one. -/
theorem RL_Set_Char_returns_stored_index_witness :
    SER_LEN demo_string = 3 ∧
    (∃ s1, RL_Set_Char demo_tables demo_string 1 65 = .ok (1, s1) demo_tables ∧
      SER_AT demo_tables.cfg s1 1 =
        some ((List.range demo_string.wide).map (fun i => 65 / 256 ^ i % 256)) ∧
      SER_LEN s1 = SER_LEN demo_string) ∧
    ∃ s1 m1, RL_Set_Char demo_tables demo_string 3 65 = .ok (3, s1) m1 ∧ SER_LEN s1 = 4 :=
  ⟨rfl,
    (RL_Set_Char_returns_stored_index demo_tables demo_string 1 65
      ⟨rfl, by decide, rfl, by decide, by decide, by decide⟩).1 (by decide),
    ⟨_, _, rfl, rfl⟩⟩

set_option maxRecDepth 100000 in
theorem Lex_Map_table_small :
    Lex_Map_table.all (fun L => decide (L < 128) &&
      !(decide (L >>> LEX_SHIFT = LEX_CLASS_SPECIAL) &&
        decide (L &&& LEX_VALUE = LEX_SPECIAL_WORD))) = true := by
  decide

theorem Lex_Map_small (c : Nat) :
    Lex_Map c < 128 ∧
      ¬ (GET_LEX_CLASS c = LEX_CLASS_SPECIAL ∧ GET_LEX_VALUE c = LEX_SPECIAL_WORD) := by
  unfold GET_LEX_CLASS GET_LEX_VALUE Lex_Map
  by_cases h : c < Lex_Map_table.length
  · have hm : Lex_Map_table.getD c 0 ∈ Lex_Map_table := by
      rw [List.getD_eq_getElem?_getD, List.getElem?_eq_getElem h]
      exact List.getElem_mem _
    have := List.all_eq_true.1 Lex_Map_table_small _ hm
    simp only [Bool.and_eq_true, decide_eq_true_eq, Bool.not_eq_true', Bool.and_eq_false_iff,
      decide_eq_false_iff_not] at this
    refine ⟨this.1, ?_⟩
    rintro ⟨h1, h2⟩
    rcases this.2 with h3 | h3
    · exact h3 h1
    · exact h3 h2
  · rw [List.getD_eq_getElem?_getD, List.getElem?_eq_none (by omega)]
    exact ⟨by decide, by decide⟩

theorem lex_arith : ∀ L, L < 128 →
    L >>> LEX_SHIFT ≤ 3 ∧ L &&& LEX_VALUE < 32 ∧
    (decide (L ≥ LEX_WORD) = decide (2 ≤ L >>> LEX_SHIFT)) ∧
    (decide (L ≥ LEX_NUMBER) = decide (L >>> LEX_SHIFT = 3)) ∧
    (L = 0 → L >>> LEX_SHIFT = 0) := by
  decide

theorem lex_byte_facts (c : Nat) :
    GET_LEX_CLASS c ≤ 3 ∧ GET_LEX_VALUE c < 32 ∧
    (IS_LEX_WORD_OR_NUMBER c = decide (2 ≤ GET_LEX_CLASS c)) ∧
    (IS_LEX_NUMBER c = decide (GET_LEX_CLASS c = 3)) ∧
    (IS_LEX_SPACE c = true → GET_LEX_CLASS c = 0) := by
  obtain ⟨h1, h2, h3, h4, h5⟩ := lex_arith (Lex_Map c) (Lex_Map_small c).1
  refine ⟨h1, h2, h3, h4, ?_⟩
  intro hs
  unfold IS_LEX_SPACE at hs
  exact h5 (by simpa using hs)

theorem byteAt_getD (src : List Nat) (i : Nat) (h : i ≤ src.length) :
    byteAt src i = .ok (src.getD i 0) := by
  unfold byteAt
  by_cases h1 : i < src.length
  · rw [if_pos h1]
  · have : i = src.length := by omega
    rw [if_neg h1, if_pos this]
    congr 1
    rw [List.getD_eq_getElem?_getD, List.getElem?_eq_none (by omega)]
    rfl

theorem takeWhile_spec (p : Nat → Bool) (l : List Nat) :
    (l.takeWhile p).length ≤ l.length ∧
    (∀ i, i < (l.takeWhile p).length → p (l.getD i 0) = true) ∧
    ((l.takeWhile p).length < l.length → p (l.getD (l.takeWhile p).length 0) = false) := by
  induction l with
  | nil => simp
  | cons a l ih =>
    by_cases ha : p a = true
    · rw [List.takeWhile_cons_of_pos ha]
      obtain ⟨i1, i2, i3⟩ := ih
      refine ⟨by simp only [List.length_cons]; omega, ?_, ?_⟩
      · intro i hi
        cases i with
        | zero => simpa using ha
        | succ i =>
          simp only [List.length_cons, Nat.add_lt_add_iff_right] at hi
          simpa using i2 i hi
      · intro hlt
        simp only [List.length_cons, Nat.add_lt_add_iff_right] at hlt
        simpa using i3 hlt
    · rw [List.takeWhile_cons_of_neg ha]
      refine ⟨by simp, by simp, ?_⟩
      intro _
      simpa using ha

theorem skip_while_spec (p : Nat → Bool) (src : List Nat) (cp : Nat) (h : cp ≤ src.length) :
    ∃ cp1, skip_while p src cp = .ok cp1 ∧ cp ≤ cp1 ∧ cp1 ≤ src.length ∧
      (∀ i, cp ≤ i → i < cp1 → p (src.getD i 0) = true) ∧
      (cp1 < src.length → p (src.getD cp1 0) = false) := by
  obtain ⟨t1, t2, t3⟩ := takeWhile_spec p (src.drop cp)
  have hget : ∀ i, (src.drop cp).getD i 0 = src.getD (cp + i) 0 := by
    intro i
    rw [List.getD_eq_getElem?_getD, List.getD_eq_getElem?_getD, List.getElem?_drop]
  rw [List.length_drop] at t1 t3
  refine ⟨cp + ((src.drop cp).takeWhile p).length, ?_, by omega, by omega, ?_, ?_⟩
  · unfold skip_while
    rw [if_pos h]
  · intro i h1 h2
    have := t2 (i - cp) (by omega)
    rw [hget] at this
    rw [← this]
    congr 2
    omega
  · intro hlt
    have := t3 (by omega)
    rw [hget] at this
    exact this

theorem testBit_SET_LEX_FLAG (flags l v : Nat) (hf : flags < 4294967296) (hl : l < 32) :
    SET_LEX_FLAG flags l < 4294967296 ∧
    ((SET_LEX_FLAG flags l).testBit v = true ↔ (flags.testBit v = true ∨ v = l)) := by
  unfold SET_LEX_FLAG u32 LEX_FLAG
  have h1 : (1 <<< l : Nat) < 4294967296 := by
    rw [Nat.one_shiftLeft]
    calc 2 ^ l < 2 ^ 32 := Nat.pow_lt_pow_right (by decide) hl
      _ = 4294967296 := by norm_num
  have h2 : flags ||| 1 <<< l < 2 ^ 32 := Nat.or_lt_two_pow (by simpa using hf) (by simpa using h1)
  have h3 : (flags ||| 1 <<< l) % 4294967296 = flags ||| 1 <<< l :=
    Nat.mod_eq_of_lt (by simpa using h2)
  rw [h3]
  refine ⟨by simpa using h2, ?_⟩
  rw [Nat.testBit_or, Nat.one_shiftLeft, Nat.testBit_two_pow]
  simp only [Bool.or_eq_true, decide_eq_true_eq]
  constructor
  · rintro (h | h)
    · exact Or.inl h
    · exact Or.inr h.symm
  · rintro (h | h)
    · exact Or.inl h
    · exact Or.inr h.symm

theorem Is_Fingerprint.skip {src : List Nat} {b cp cp1 flags : Nat}
    (h : Is_Fingerprint src b cp flags) (hle : cp ≤ cp1)
    (hs : ∀ i, cp ≤ i → i < cp1 → b < i →
      GET_LEX_CLASS (src.getD i 0) ≠ LEX_CLASS_SPECIAL)
    (hw : ∀ i, cp ≤ i → i < cp1 → GET_LEX_CLASS (src.getD i 0) ≠ LEX_CLASS_WORD) :
    Is_Fingerprint src b cp1 flags := by
  intro v
  rw [h v]
  constructor
  · rintro (⟨i, i1, i2, i3, i4⟩ | ⟨hv, i, i1, i2, i3⟩)
    · exact Or.inl ⟨i, i1, by omega, i3, i4⟩
    · exact Or.inr ⟨hv, i, i1, by omega, i3⟩
  · rintro (⟨i, i1, i2, i3, i4⟩ | ⟨hv, i, i1, i2, i3⟩)
    · rcases Nat.lt_or_ge i cp with g | g
      · exact Or.inl ⟨i, i1, g, i3, i4⟩
      · exact absurd i3 (hs i g i2 i1)
    · rcases Nat.lt_or_ge i cp with g | g
      · exact Or.inr ⟨hv, i, i1, g, i3⟩
      · exact absurd i3 (hw i g i2)

theorem Is_Fingerprint.special {src : List Nat} {b cp flags : Nat}
    (h : Is_Fingerprint src b cp flags) (hf : flags < 4294967296) (hb : b < cp)
    (hc : GET_LEX_CLASS (src.getD cp 0) = LEX_CLASS_SPECIAL) :
    Is_Fingerprint src b (cp + 1) (SET_LEX_FLAG flags (GET_LEX_VALUE (src.getD cp 0))) := by
  intro v
  rw [(testBit_SET_LEX_FLAG flags _ v hf (lex_byte_facts _).2.1).2, h v]
  constructor
  · rintro ((⟨i, i1, i2, i3, i4⟩ | ⟨hv, i, i1, i2, i3⟩) | hv)
    · exact Or.inl ⟨i, i1, by omega, i3, i4⟩
    · exact Or.inr ⟨hv, i, i1, by omega, i3⟩
    · exact Or.inl ⟨cp, hb, by omega, hc, hv.symm⟩
  · rintro (⟨i, i1, i2, i3, i4⟩ | ⟨hv, i, i1, i2, i3⟩)
    · rcases Nat.lt_or_ge i cp with g | g
      · exact Or.inl (Or.inl ⟨i, i1, g, i3, i4⟩)
      · have : i = cp := by omega
        subst this
        exact Or.inr i4.symm
    · rcases Nat.lt_or_ge i cp with g | g
      · exact Or.inl (Or.inr ⟨hv, i, i1, g, i3⟩)
      · have : i = cp := by omega
        subst this
        rw [hc] at i3
        exact absurd i3 (by decide)

theorem Is_Fingerprint.word {src : List Nat} {b cp cp1 flags : Nat}
    (h : Is_Fingerprint src b cp flags) (hf : flags < 4294967296) (hb : b ≤ cp)
    (hlt : cp < cp1) (hc : GET_LEX_CLASS (src.getD cp 0) = LEX_CLASS_WORD)
    (hs : ∀ i, cp ≤ i → i < cp1 → GET_LEX_CLASS (src.getD i 0) ≠ LEX_CLASS_SPECIAL) :
    Is_Fingerprint src b cp1 (SET_LEX_FLAG flags LEX_SPECIAL_WORD) := by
  intro v
  rw [(testBit_SET_LEX_FLAG flags _ v hf (by decide)).2, h v]
  constructor
  · rintro ((⟨i, i1, i2, i3, i4⟩ | ⟨hv, i, i1, i2, i3⟩) | hv)
    · exact Or.inl ⟨i, i1, by omega, i3, i4⟩
    · exact Or.inr ⟨hv, i, i1, by omega, i3⟩
    · exact Or.inr ⟨hv, cp, hb, hlt, hc⟩
  · rintro (⟨i, i1, i2, i3, i4⟩ | ⟨hv, i, i1, i2, i3⟩)
    · rcases Nat.lt_or_ge i cp with g | g
      · exact Or.inl (Or.inl ⟨i, i1, g, i3, i4⟩)
      · exact absurd i3 (hs i g i2)
    · exact Or.inr hv

theorem Prescan_loop_spec (src : List Nat) (b e : Nat) (he : e ≤ src.length)
    (hnd : ∀ i, b ≤ i → i < e → GET_LEX_CLASS (src.getD i 0) ≠ LEX_CLASS_DELIMIT)
    (hd : GET_LEX_CLASS (src.getD e 0) = LEX_CLASS_DELIMIT) :
    ∀ (n fuel flags cp : Nat), e - cp ≤ n → n < fuel → b ≤ cp → cp ≤ e →
      Is_Fingerprint src b cp flags → flags < 4294967296 →
      ∃ flags1, Prescan_loop src b fuel flags cp = .ok (flags1, if e = b then e + 1 else e) ∧
        Is_Fingerprint src b e flags1 := by
  intro n
  induction n with
  | zero =>
    intro fuel flags cp h1 h2 h3 h4 h5 h6
    obtain ⟨f, rfl⟩ : ∃ f, fuel = f + 1 := ⟨fuel - 1, by omega⟩
    have hcp : cp = e := by omega
    subst hcp
    unfold Prescan_loop
    rw [byteAt_getD src cp he]
    simp only [bind, Except.bind, pure, Except.pure]
    rw [if_pos hd]
    by_cases hb : cp = b
    · rw [if_pos hb, if_pos hb]
      exact ⟨flags, rfl, h5⟩
    · rw [if_neg hb, if_neg hb]
      exact ⟨flags, rfl, h5⟩
  | succ n ih =>
    intro fuel flags cp h1 h2 h3 h4 h5 h6
    obtain ⟨f, rfl⟩ : ∃ f, fuel = f + 1 := ⟨fuel - 1, by omega⟩
    rcases Nat.eq_or_lt_of_le h4 with hcp | hcp
    · subst hcp
      unfold Prescan_loop
      rw [byteAt_getD src cp he]
      simp only [bind, Except.bind, pure, Except.pure]
      rw [if_pos hd]
      by_cases hb : cp = b
      · rw [if_pos hb, if_pos hb]
        exact ⟨flags, rfl, h5⟩
      · rw [if_neg hb, if_neg hb]
        exact ⟨flags, rfl, h5⟩
    · have hcls := hnd cp h3 hcp
      obtain ⟨f1, f2, f3, f4, f5⟩ := lex_byte_facts (src.getD cp 0)
      unfold Prescan_loop
      rw [byteAt_getD src cp (by omega)]
      simp only [bind, Except.bind, pure, Except.pure]
      rw [if_neg hcls]
      by_cases hsp : GET_LEX_CLASS (src.getD cp 0) = LEX_CLASS_SPECIAL
      · rw [if_pos hsp]
        by_cases hb : cp = b
        · rw [if_neg (by simpa using hb)]
          apply ih f flags (cp + 1) (by omega) (by omega) (by omega) (by omega) _ h6
          apply h5.skip (by omega)
          · intro i i1 i2 i3; omega
          · intro i i1 i2
            have : i = cp := by omega
            subst this
            rw [hsp]; decide
        · rw [if_pos (by simpa using hb)]
          have hbl : b < cp := by omega
          apply ih f _ (cp + 1) (by omega) (by omega) (by omega) (by omega)
            (h5.special h6 hbl hsp)
          exact (testBit_SET_LEX_FLAG flags _ 0 h6 f2).1
      · rw [if_neg hsp]
        by_cases hwd : GET_LEX_CLASS (src.getD cp 0) = LEX_CLASS_WORD
        · rw [if_pos hwd]
          obtain ⟨cp1, s1, s2, s3, s4, s5⟩ :=
            skip_while_spec IS_LEX_WORD_OR_NUMBER src cp (by omega)
          rw [s1]
          simp only []
          have hp : IS_LEX_WORD_OR_NUMBER (src.getD cp 0) = true := by
            rw [f3, hwd]; decide
          have hlt : cp < cp1 := by
            rcases Nat.eq_or_lt_of_le s2 with g | g
            · rw [← g] at s5
              rw [s5 (by omega)] at hp
              exact absurd hp (by decide)
            · exact g
          have hle : cp1 ≤ e := by
            rcases Nat.lt_or_ge e cp1 with g | g
            · have := s4 e (by omega) g
              rw [(lex_byte_facts _).2.2.1, hd] at this
              exact absurd this (by decide)
            · exact g
          apply ih f _ cp1 (by omega) (by omega) (by omega) hle
            (h5.word h6 h3 hlt hwd ?_)
          · exact (testBit_SET_LEX_FLAG flags _ 0 h6 (by decide)).1
          · intro i i1 i2 hc
            have := s4 i i1 i2
            rw [(lex_byte_facts _).2.2.1, hc] at this
            exact absurd this (by decide)
        · rw [if_neg hwd]
          have hnum : GET_LEX_CLASS (src.getD cp 0) = 3 := by
            unfold LEX_CLASS_DELIMIT at hcls
            unfold LEX_CLASS_SPECIAL at hsp
            unfold LEX_CLASS_WORD at hwd
            omega
          obtain ⟨cp1, s1, s2, s3, s4, s5⟩ := skip_while_spec IS_LEX_NUMBER src cp (by omega)
          rw [s1]
          simp only []
          have hp : IS_LEX_NUMBER (src.getD cp 0) = true := by
            rw [f4, hnum]; decide
          have hlt : cp < cp1 := by
            rcases Nat.eq_or_lt_of_le s2 with g | g
            · rw [← g] at s5
              rw [s5 (by omega)] at hp
              exact absurd hp (by decide)
            · exact g
          have hle : cp1 ≤ e := by
            rcases Nat.lt_or_ge e cp1 with g | g
            · have := s4 e (by omega) g
              rw [(lex_byte_facts _).2.2.2.1, hd] at this
              exact absurd this (by decide)
            · exact g
          have hcl : ∀ i, cp ≤ i → i < cp1 → GET_LEX_CLASS (src.getD i 0) = 3 := by
            intro i i1 i2
            have := s4 i i1 i2
            rw [(lex_byte_facts _).2.2.2.1] at this
            simpa using this
          apply ih f flags cp1 (by omega) (by omega) (by omega) hle _ h6
          apply h5.skip (by omega)
          · intro i i1 i2 _
            rw [hcl i i1 i2]; decide
          · intro i i1 i2
            rw [hcl i i1 i2]; decide

theorem Is_Fingerprint.init (src : List Nat) (b : Nat) : Is_Fingerprint src b b 0 := by
  intro v
  simp only [Nat.zero_testBit, Bool.false_eq_true, false_iff, not_or, not_exists, not_and]
  exact ⟨fun i h1 h2 => by omega, fun _ i h1 h2 => by omega⟩

theorem Prescan_Token_span (src : List Nat) (ss : SCAN_STATE) (fuel : Nat)
    (hb : ss.begin ≤ src.length) (hf : src.length + 2 ≤ fuel) :
    ∃ b e flags, Prescan_Token src fuel ss =
        .ok (flags, { ss with begin := b, end_ := if e = b then b + 1 else e }) ∧
      ss.begin ≤ b ∧ b ≤ e ∧ e ≤ src.length ∧
      (∀ i, ss.begin ≤ i → i < b → IS_LEX_SPACE (src.getD i 0) = true) ∧
      IS_LEX_SPACE (src.getD b 0) = false ∧
      (∀ i, b ≤ i → i < e → GET_LEX_CLASS (src.getD i 0) ≠ LEX_CLASS_DELIMIT) ∧
      GET_LEX_CLASS (src.getD e 0) = LEX_CLASS_DELIMIT ∧
      Is_Fingerprint src b e flags := by
  have hnul : src.getD src.length 0 = 0 := by
    rw [List.getD_eq_getElem?_getD, List.getElem?_eq_none (by omega)]; rfl
  obtain ⟨b, s1, s2, s3, s4, s5⟩ := skip_while_spec IS_LEX_SPACE src ss.begin hb
  obtain ⟨e, t1, t2, t3, t4, t5⟩ :=
    skip_while_spec (fun c => GET_LEX_CLASS c != LEX_CLASS_DELIMIT) src b s3
  have hsp : IS_LEX_SPACE (src.getD b 0) = false := by
    rcases Nat.eq_or_lt_of_le s3 with g | g
    · rw [g, hnul]; decide
    · exact s5 g
  have hd : GET_LEX_CLASS (src.getD e 0) = LEX_CLASS_DELIMIT := by
    rcases Nat.eq_or_lt_of_le t3 with g | g
    · rw [g, hnul]; decide
    · simpa using t5 g
  have hnd : ∀ i, b ≤ i → i < e → GET_LEX_CLASS (src.getD i 0) ≠ LEX_CLASS_DELIMIT := by
    intro i i1 i2
    simpa using t4 i i1 i2
  obtain ⟨flags, l1, l2⟩ := Prescan_loop_spec src b e t3 hnd hd (e - b) fuel 0 b
    (le_refl _) (by omega) (le_refl _) t2 (Is_Fingerprint.init src b) (by decide)
  refine ⟨b, e, flags, ?_, s2, t2, t3, s4, hsp, hnd, hd, l2⟩
  unfold Prescan_Token
  rw [s1]
  simp only [bind, Except.bind, pure, Except.pure]
  rw [l1]
  by_cases heb : e = b
  · rw [if_pos heb, if_pos heb, heb]
  · rw [if_neg heb, if_neg heb]

/-- C25, amended: Prescan_Token returns on every text, with `begin` moved past the leading
bytes of the space class and `end` at the first byte of the delimiter class at or after
`begin` (the terminator at the latest), or at `begin + 1` if that byte is the first one.
The fingerprint has the bit of each byte of the special class that lies strictly after
the first byte and before that delimiter, and the bit `LEX_SPECIAL_WORD` if and only if a
byte of the word class lies in the token, the first byte included; no other bit. -/
theorem Prescan_Token_fingerprint (src : List Nat) (ss : SCAN_STATE) (fuel : Nat)
    (hb : ss.begin ≤ src.length) (hf : src.length + 2 ≤ fuel) :
    ∃ b e flags, Prescan_Token src fuel ss =
        .ok (flags, { ss with begin := b, end_ := if e = b then b + 1 else e }) ∧
      ss.begin ≤ b ∧ b ≤ e ∧ e ≤ src.length ∧
      (∀ i, ss.begin ≤ i → i < b → IS_LEX_SPACE (src.getD i 0) = true) ∧
      IS_LEX_SPACE (src.getD b 0) = false ∧
      (∀ i, b ≤ i → i < e → GET_LEX_CLASS (src.getD i 0) ≠ LEX_CLASS_DELIMIT) ∧
      GET_LEX_CLASS (src.getD e 0) = LEX_CLASS_DELIMIT ∧
      Is_Fingerprint src b e flags := by
  have hnul : src.getD src.length 0 = 0 := by
    rw [List.getD_eq_getElem?_getD, List.getElem?_eq_none (by omega)]; rfl
  obtain ⟨b, s1, s2, s3, s4, s5⟩ := skip_while_spec IS_LEX_SPACE src ss.begin hb
  obtain ⟨e, t1, t2, t3, t4, t5⟩ :=
    skip_while_spec (fun c => GET_LEX_CLASS c != LEX_CLASS_DELIMIT) src b s3
  have hsp : IS_LEX_SPACE (src.getD b 0) = false := by
    rcases Nat.eq_or_lt_of_le s3 with g | g
    · rw [g, hnul]; decide
    · exact s5 g
  have hd : GET_LEX_CLASS (src.getD e 0) = LEX_CLASS_DELIMIT := by
    rcases Nat.eq_or_lt_of_le t3 with g | g
    · rw [g, hnul]; decide
    · simpa using t5 g
  have hnd : ∀ i, b ≤ i → i < e → GET_LEX_CLASS (src.getD i 0) ≠ LEX_CLASS_DELIMIT := by
    intro i i1 i2
    simpa using t4 i i1 i2
  obtain ⟨flags, l1, l2⟩ := Prescan_loop_spec src b e t3 hnd hd (e - b) fuel 0 b
    (le_refl _) (by omega) (le_refl _) t2 (Is_Fingerprint.init src b) (by decide)
  refine ⟨b, e, flags, ?_, s2, t2, t3, s4, hsp, hnd, hd, l2⟩
  unfold Prescan_Token
  rw [s1]
  simp only [bind, Except.bind, pure, Except.pure]
  rw [l1]
  by_cases heb : e = b
  · rw [if_pos heb, if_pos heb, heb]
  · rw [if_neg heb, if_neg heb]

set_option maxRecDepth 100000 in
/-- Witness of C25, amended: on the text `$#foobar[@` the fingerprint is exactly
`LEX_SPECIAL_POUND` and `LEX_SPECIAL_WORD`, with `begin` at 0 and `end` at 8, the
bracket. -/
theorem Prescan_Token_fingerprint_witness :
    Prescan_Token [36, 35, 102, 111, 111, 98, 97, 114, 91, 64] 12 (Init_Scan_State 10) =
      .ok (LEX_FLAG LEX_SPECIAL_POUND ||| LEX_FLAG LEX_SPECIAL_WORD,
        { Init_Scan_State 10 with begin := 0, end_ := 8 }) ∧
    ∃ b e flags, Prescan_Token [36, 35, 102, 111, 111, 98, 97, 114, 91, 64] 12
        (Init_Scan_State 10) =
        .ok (flags, { Init_Scan_State 10 with begin := b, end_ := if e = b then b + 1 else e }) ∧
      (Init_Scan_State 10).begin ≤ b ∧ b ≤ e ∧
      e ≤ [36, 35, 102, 111, 111, 98, 97, 114, 91, 64].length ∧
      (∀ i, (Init_Scan_State 10).begin ≤ i → i < b →
        IS_LEX_SPACE ([36, 35, 102, 111, 111, 98, 97, 114, 91, 64].getD i 0) = true) ∧
      IS_LEX_SPACE ([36, 35, 102, 111, 111, 98, 97, 114, 91, 64].getD b 0) = false ∧
      (∀ i, b ≤ i → i < e →
        GET_LEX_CLASS ([36, 35, 102, 111, 111, 98, 97, 114, 91, 64].getD i 0) ≠
          LEX_CLASS_DELIMIT) ∧
      GET_LEX_CLASS ([36, 35, 102, 111, 111, 98, 97, 114, 91, 64].getD e 0) =
        LEX_CLASS_DELIMIT ∧
      Is_Fingerprint [36, 35, 102, 111, 111, 98, 97, 114, 91, 64] b e flags :=
  ⟨rfl, Prescan_Token_fingerprint [36, 35, 102, 111, 111, 98, 97, 114, 91, 64]
    (Init_Scan_State 10) 12 (by decide) (by decide)⟩

set_option maxRecDepth 100000 in
/-- C25 fails for the word class: on the text `a` the fingerprint is `LEX_SPECIAL_WORD`,
although no byte of the word class lies strictly after the first byte and before the
delimiter (the terminator at 1). The first byte counts for this bit. -/
theorem Prescan_Token_counts_first_word_byte :
    Prescan_Token [97] 3 (Init_Scan_State 1) =
      .ok (LEX_FLAG LEX_SPECIAL_WORD, { Init_Scan_State 1 with begin := 0, end_ := 1 }) ∧
    GET_LEX_CLASS ([97].getD 1 0) = LEX_CLASS_DELIMIT ∧
    ¬ ∃ i, 0 < i ∧ i < 1 ∧ GET_LEX_CLASS ([97].getD i 0) = LEX_CLASS_WORD := by
  refine ⟨rfl, by decide, ?_⟩
  rintro ⟨i, h1, h2, _⟩
  omega

set_option maxRecDepth 1000000 in
theorem delimiter_bytes_eq :
    (List.range 256).filter (fun c => GET_LEX_CLASS c == LEX_CLASS_DELIMIT) =
      delimiter_bytes := by decide

set_option maxRecDepth 1000000 in
theorem example_tokens_located :
    delimiter_bytes.all (fun d => example_tokens.all (fun t =>
      (d == 47 && t.2 == TOKEN_SET) || Locates_As t.1 [d, 120] t.2)) = true := by decide

/-- C26 (amended): Locate_Token_May_Push_Mold classifies each of the example tokens as stated, with
`begin` at the first and `end` just past the last byte of the token, when the token is
followed by a byte `d` of the delimiter class and more text, or by the end of the text.
The one exception is `foo:` followed by a slash, which begins a URL. -/
theorem Locate_Token_examples (d : Nat) (hb : d < 256)
    (hd : GET_LEX_CLASS d = LEX_CLASS_DELIMIT) :
    (∀ t ∈ example_tokens, ¬ (d = 47 ∧ t.2 = TOKEN_SET) →
      Locates_As t.1 [d, 120] t.2 = true) ∧
    ∀ t ∈ example_tokens, Locates_As t.1 [] t.2 = true := by
  constructor
  · intro t ht hex
    have hm : d ∈ delimiter_bytes := by
      rw [← delimiter_bytes_eq]
      exact List.mem_filter.2 ⟨List.mem_range.2 hb, by simpa using hd⟩
    have h1 := List.all_eq_true.1 (List.all_eq_true.1 example_tokens_located d hm) t ht
    simp only [Bool.or_eq_true, Bool.and_eq_true, beq_iff_eq] at h1
    rcases h1 with h1 | h1
    · exact absurd h1 hex
    · exact h1
  · have : example_tokens.all (fun t => Locates_As t.1 [] t.2) = true := by decide
    exact fun t ht => List.all_eq_true.1 this t ht

set_option maxRecDepth 1000000 in
/-- Witness of C26: the tokens followed by a space (and by the end of the text);
`+12.3e-4 x` is located as a DECIMAL from 0 to 8. -/
theorem Locate_Token_examples_witness :
    GET_LEX_CLASS 32 = LEX_CLASS_DELIMIT ∧
    Locates_As [43, 49, 50, 46, 51, 101, 45, 52] [32, 120] TOKEN_DECIMAL = true ∧
    ((∀ t ∈ example_tokens, ¬ (32 = 47 ∧ t.2 = TOKEN_SET) →
      Locates_As t.1 [32, 120] t.2 = true) ∧
    ∀ t ∈ example_tokens, Locates_As t.1 [] t.2 = true) :=
  ⟨by decide, by decide, Locate_Token_examples 32 (by decide) (by decide)⟩

theorem Locate_next_ls_dollar (src : List Nat) (fuel flags cp : Nat) (ss : SCAN_STATE)
    (hc : byteAt src cp = .ok 36) :
    Locate_next_ls src fuel flags cp ss =
      .ok ⟨if HAS_LEX_FLAG flags LEX_SPECIAL_AT = true then TOKEN_EMAIL else TOKEN_MONEY,
        ss, none⟩ := by
  unfold Locate_next_ls
  rw [hc]
  simp only [bind, Except.bind]
  rw [if_neg (by decide), if_neg (by decide), if_neg (by decide), if_neg (by decide),
    if_neg (by decide), if_neg (by decide), if_neg (by decide), if_neg (by decide),
    if_neg (by decide)]
  unfold Locate_next_ls_late
  rw [hc]
  simp only [bind, Except.bind]
  rw [if_neg (by decide), if_neg (by decide), if_pos (by decide)]
  split <;> rfl

/-- A token that begins with `$` is never reported as malformed by
Locate_Token_May_Push_Mold. If the first byte after the leading spaces is `$`, at the
position `b`, the call returns TOKEN_EMAIL if the token holds an `@` and TOKEN_MONEY
otherwise, not negated, with `begin` at the `$` and `end` at the first byte of the
delimiter class after it. -/
theorem Locate_Token_dollar (src : List Nat) (ss : SCAN_STATE) (fuel b : Nat)
    (hb : ss.begin ≤ b) (hf : src.length + 2 ≤ fuel)
    (hsp : ∀ i, ss.begin ≤ i → i < b → IS_LEX_SPACE (src.getD i 0) = true)
    (hd : src.getD b 0 = 36) :
    ∃ e flags, Locate_Token_May_Push_Mold src fuel ss =
        .ok ⟨if HAS_LEX_FLAG flags LEX_SPECIAL_AT = true then TOKEN_EMAIL else TOKEN_MONEY,
          { ss with begin := b, end_ := e }, none⟩ ∧
      b < e ∧ e ≤ src.length ∧
      (∀ i, b ≤ i → i < e → GET_LEX_CLASS (src.getD i 0) ≠ LEX_CLASS_DELIMIT) ∧
      GET_LEX_CLASS (src.getD e 0) = LEX_CLASS_DELIMIT ∧
      Is_Fingerprint src b e flags := by
  have hbl : b < src.length := by
    rcases Nat.lt_or_ge b src.length with g | g
    · exact g
    · rw [List.getD_eq_getElem?_getD, List.getElem?_eq_none g] at hd
      exact absurd hd (by decide)
  obtain ⟨b1, e, flags, p1, p2, p3, p4, p5, p6, p7, p8, p9⟩ :=
    Prescan_Token_span src ss fuel (by omega) hf
  have hbb : b1 = b := by
    rcases Nat.lt_trichotomy b1 b with g | g | g
    · have := hsp b1 p2 g
      rw [p6] at this
      exact absurd this (by decide)
    · exact g
    · have := p5 b hb g
      rw [hd] at this
      exact absurd this (by decide)
  subst hbb
  have hne : e ≠ b1 := by
    intro h
    rw [h, hd] at p8
    exact absurd p8 (by decide)
  rw [if_neg hne] at p1
  refine ⟨e, flags, ?_, by omega, p4, p7, p8, p9⟩
  unfold Locate_Token_May_Push_Mold
  rw [p1]
  simp only [bind, Except.bind]
  have hbyte : byteAt src b1 = .ok 36 := by rw [byteAt_getD src b1 (by omega), hd]
  rw [hbyte]
  simp only []
  rw [if_neg (by decide), if_pos (by decide)]
  by_cases hat : HAS_LEX_FLAG flags LEX_SPECIAL_AT = true
  · rw [if_pos ⟨hat, by decide⟩, if_pos hat]
    rfl
  · rw [if_neg (fun h => hat h.1)]
    exact Locate_next_ls_dollar src fuel flags b1 _ hbyte

set_option maxRecDepth 1000000 in
/-- C27 (code bug): the comment of Locate_Token_May_Push_Mold gives `-TOKEN_MONEY` (negative,
malformed) as the result for `$10AE.20 sent`. On this text the code returns TOKEN_MONEY,
not negated, with `begin` at the `$` and `end` at 8, just past `$10AE.20`: the case
`LEX_SPECIAL_DOLLAR` has no test of the amount. -/
theorem Locate_Token_money_not_negated :
    ∃ l, Locate_Token_May_Push_Mold [36, 49, 48, 65, 69, 46, 50, 48, 32, 115, 101, 110, 116]
        15 (Init_Scan_State 13) = .ok l ∧
      l.token = TOKEN_MONEY ∧ l.token ≠ -TOKEN_MONEY ∧ l.ss.begin = 0 ∧ l.ss.end_ = 8 :=
  ⟨_, rfl, rfl, by decide, rfl, rfl⟩

set_option maxRecDepth 1000000 in
/-- The text `$10AE.20 sent`, and a malformation that is reported by a negated token: `'1`
gives `-TOKEN_LIT`. -/
theorem Locate_Token_dollar_witness :
    (∃ l, Locate_Token_May_Push_Mold [39, 49] 4 (Init_Scan_State 2) = .ok l ∧
      l.token = -TOKEN_LIT) ∧
    ∃ e flags, Locate_Token_May_Push_Mold
        [36, 49, 48, 65, 69, 46, 50, 48, 32, 115, 101, 110, 116] 15 (Init_Scan_State 13) =
        .ok ⟨if HAS_LEX_FLAG flags LEX_SPECIAL_AT = true then TOKEN_EMAIL else TOKEN_MONEY,
          { Init_Scan_State 13 with begin := 0, end_ := e }, none⟩ ∧
      0 < e ∧ e ≤ [36, 49, 48, 65, 69, 46, 50, 48, 32, 115, 101, 110, 116].length ∧
      (∀ i, 0 ≤ i → i < e →
        GET_LEX_CLASS ([36, 49, 48, 65, 69, 46, 50, 48, 32, 115, 101, 110, 116].getD i 0) ≠
          LEX_CLASS_DELIMIT) ∧
      GET_LEX_CLASS ([36, 49, 48, 65, 69, 46, 50, 48, 32, 115, 101, 110, 116].getD e 0) =
        LEX_CLASS_DELIMIT ∧
      Is_Fingerprint [36, 49, 48, 65, 69, 46, 50, 48, 32, 115, 101, 110, 116] 0 e flags :=
  ⟨⟨_, rfl, rfl⟩,
    Locate_Token_dollar [36, 49, 48, 65, 69, 46, 50, 48, 32, 115, 101, 110, 116]
      (Init_Scan_State 13) 15 0 (by decide) (by decide) (fun i h1 h2 => by omega) rfl⟩

theorem Caret_Escape_spec : ∀ c, c < 128 → c ≠ 40 →
    (if c = 0 then 0
     else if c = 47 then 10
     else if c = 94 then c
     else if c = 45 then 9
     else if c = 33 then 30
     else if 64 ≤ UP_CASE c ∧ UP_CASE c ≤ 95 then UP_CASE c - 64
     else if UP_CASE c = 126 then 127
     else c) = Caret_Escape c := by
  decide

/-- C28: Scan_UTF8_Char_Escapable decodes a byte below 0x80 that is not `^` to itself
and advances one byte; and it decodes `^c`, for every ASCII character `c` other than the
`(` that opens a long escape, by the table `Caret_Escape` and advances exactly two
bytes. -/
theorem Scan_UTF8_Char_Escapable_caret (src : List Nat) (bp c : Nat) :
    (byteAt src bp = .ok c → c < 128 → c ≠ 94 →
      Scan_UTF8_Char_Escapable src bp = .ok (some (c, bp + 1))) ∧
    (byteAt src bp = .ok 94 → byteAt src (bp + 1) = .ok c → c < 128 → c ≠ 40 →
      Scan_UTF8_Char_Escapable src bp = .ok (some (Caret_Escape c, bp + 2))) := by
  constructor
  · intro h1 h2 h3
    unfold Scan_UTF8_Char_Escapable
    rw [h1]
    simp only [bind, Except.bind, pure, Except.pure]
    rw [if_neg (by omega), if_pos h3]
  · intro h1 h2 h3 h4
    have hspec := Caret_Escape_spec c h3 h4
    unfold Scan_UTF8_Char_Escapable
    rw [h1]
    simp only [bind, Except.bind, pure, Except.pure]
    rw [if_neg (by decide), if_neg (by decide), h2]
    simp only []
    rw [← hspec]
    by_cases c0 : c = 0
    · rw [if_pos c0, if_pos c0]
    rw [if_neg c0, if_neg c0]
    by_cases c1 : c = 47
    · rw [if_pos c1, if_pos c1]
    rw [if_neg c1, if_neg c1]
    by_cases c2 : c = 94
    · rw [if_pos c2, if_pos c2]
    rw [if_neg c2, if_neg c2]
    by_cases c3 : c = 45
    · rw [if_pos c3, if_pos c3]
    rw [if_neg c3, if_neg c3]
    by_cases c4 : c = 33
    · rw [if_pos c4, if_pos c4]
    rw [if_neg c4, if_neg c4, if_neg h4]
    by_cases c5 : 64 ≤ UP_CASE c ∧ UP_CASE c ≤ 95
    · rw [if_pos c5, if_pos c5]
    rw [if_neg c5, if_neg c5]
    by_cases c6 : UP_CASE c = 126
    · rw [if_pos c6, if_pos c6]
    rw [if_neg c6, if_neg c6]

/-- Witness of C28: in the text `a^M^/`, the byte `a` decodes to itself, `^M` to the
code point 13 and `^/` to the code point 10. -/
theorem Scan_UTF8_Char_Escapable_caret_witness :
    Scan_UTF8_Char_Escapable [97, 94, 77, 94, 47] 0 = .ok (some (97, 0 + 1)) ∧
    Scan_UTF8_Char_Escapable [97, 94, 77, 94, 47] 1 = .ok (some (Caret_Escape 77, 1 + 2)) ∧
    Caret_Escape 77 = 13 ∧
    Scan_UTF8_Char_Escapable [97, 94, 77, 94, 47] 3 = .ok (some (Caret_Escape 47, 3 + 2)) ∧
    Caret_Escape 47 = 10 :=
  ⟨(Scan_UTF8_Char_Escapable_caret [97, 94, 77, 94, 47] 0 97).1 rfl (by decide) (by decide),
    (Scan_UTF8_Char_Escapable_caret [97, 94, 77, 94, 47] 1 77).2 rfl rfl (by decide)
      (by decide), rfl,
    (Scan_UTF8_Char_Escapable_caret [97, 94, 77, 94, 47] 3 47).2 rfl rfl (by decide)
      (by decide), rfl⟩

set_option maxRecDepth 100000 in
theorem Lex_Map_hex : ∀ c, c < 256 →
    ((Lex_Map c > LEX_WORD ∧ ¬ (Lex_Map c &&& LEX_VALUE = 0 ∧ Lex_Map c < LEX_NUMBER)) ↔
      Is_Hex_Digit c = true) ∧
    (Is_Hex_Digit c = true → Lex_Map c &&& LEX_VALUE = Hex_Digit_Value c ∧
      Hex_Digit_Value c < 16) := by
  decide

theorem Scan_Hex_Digits_run (digits rest : List Nat) (out : Nat)
    (hd : ∀ d ∈ digits, Is_Hex_Digit d = true) :
    (Scan_Hex_Digits (digits ++ rest) out).2 =
      digits.length + (Scan_Hex_Digits rest
        (digits.foldl (fun acc d => (acc * 16 + Hex_Digit_Value d) % 65536) out)).2 ∧
    (Scan_Hex_Digits (digits ++ rest) out).1 =
      (Scan_Hex_Digits rest
        (digits.foldl (fun acc d => (acc * 16 + Hex_Digit_Value d) % 65536) out)).1 := by
  induction digits generalizing out with
  | nil => simp
  | cons d ds ih =>
    have hdh := hd d (List.mem_cons_self _ _)
    have hlt : d < 256 := by
      unfold Is_Hex_Digit at hdh
      simp only [Bool.or_eq_true, Bool.and_eq_true, decide_eq_true_eq] at hdh
      omega
    obtain ⟨h1, h2⟩ := Lex_Map_hex d hlt
    have h3 := h1.2 hdh
    obtain ⟨h4, _⟩ := h2 hdh
    obtain ⟨i1, i2⟩ := ih ((out * 16 + Hex_Digit_Value d) % 65536)
      (fun x hx => hd x (List.mem_cons_of_mem _ hx))
    have hstep : Scan_Hex_Digits (d :: ds ++ rest) out =
        ((Scan_Hex_Digits (ds ++ rest) ((out * 16 + Hex_Digit_Value d) % 65536)).1,
         (Scan_Hex_Digits (ds ++ rest) ((out * 16 + Hex_Digit_Value d) % 65536)).2 + 1) := by
      rw [List.cons_append]
      conv_lhs => rw [Scan_Hex_Digits]
      simp only []
      rw [if_pos h3.1, if_neg h3.2, h4, Nat.shiftLeft_eq]
    rw [hstep]
    simp only [List.foldl_cons, List.length_cons]
    exact ⟨by rw [i1]; omega, i2⟩

theorem Scan_Hex_Digits_stop (rest : List Nat) (out : Nat)
    (h : rest = [] ∨ ∃ d r, rest = d :: r ∧ d < 256 ∧ Is_Hex_Digit d = false) :
    Scan_Hex_Digits rest out = (out, 0) := by
  rcases h with rfl | ⟨d, r, rfl, hlt, hd⟩
  · rfl
  · unfold Scan_Hex_Digits
    simp only []
    have h1 := (Lex_Map_hex d hlt).1
    by_cases hw : Lex_Map d > LEX_WORD
    · rw [if_pos hw]
      by_cases hz : Lex_Map d &&& LEX_VALUE = 0 ∧ Lex_Map d < LEX_NUMBER
      · rw [if_pos hz]
      · have := h1.1 ⟨hw, hz⟩
        rw [hd] at this
        exact absurd this (by decide)
    · rw [if_neg hw]

theorem Hex_fold_lt (digits : List Nat) (out : Nat)
    (hd : ∀ d ∈ digits, Is_Hex_Digit d = true) :
    digits.foldl (fun acc d => acc * 16 + Hex_Digit_Value d) out <
      (out + 1) * 16 ^ digits.length := by
  induction digits generalizing out with
  | nil => simp
  | cons d ds ih =>
    have hdh := hd d (List.mem_cons_self _ _)
    have hlt : d < 256 := by
      unfold Is_Hex_Digit at hdh
      simp only [Bool.or_eq_true, Bool.and_eq_true, decide_eq_true_eq] at hdh
      omega
    have h16 := ((Lex_Map_hex d hlt).2 hdh).2
    have := ih (out * 16 + Hex_Digit_Value d) (fun x hx => hd x (List.mem_cons_of_mem _ hx))
    simp only [List.foldl_cons, List.length_cons]
    calc _ < (out * 16 + Hex_Digit_Value d + 1) * 16 ^ ds.length := this
      _ ≤ ((out + 1) * 16) * 16 ^ ds.length := Nat.mul_le_mul_right _ (by omega)
      _ = (out + 1) * 16 ^ (ds.length + 1) := by rw [pow_succ]; ring

theorem Hex_fold_mod (digits : List Nat) (out : Nat)
    (hd : ∀ d ∈ digits, Is_Hex_Digit d = true)
    (hs : (out + 1) * 16 ^ digits.length ≤ 65536) :
    digits.foldl (fun acc d => (acc * 16 + Hex_Digit_Value d) % 65536) out =
      digits.foldl (fun acc d => acc * 16 + Hex_Digit_Value d) out := by
  induction digits generalizing out with
  | nil => rfl
  | cons d ds ih =>
    have hdh := hd d (List.mem_cons_self _ _)
    have hlt : d < 256 := by
      unfold Is_Hex_Digit at hdh
      simp only [Bool.or_eq_true, Bool.and_eq_true, decide_eq_true_eq] at hdh
      omega
    have h16 := ((Lex_Map_hex d hlt).2 hdh).2
    simp only [List.foldl_cons, List.length_cons] at hs ⊢
    have hb : (out * 16 + Hex_Digit_Value d + 1) * 16 ^ ds.length ≤ 65536 := by
      calc _ ≤ ((out + 1) * 16) * 16 ^ ds.length := Nat.mul_le_mul_right _ (by omega)
        _ = (out + 1) * 16 ^ (ds.length + 1) := by rw [pow_succ]; ring
        _ ≤ 65536 := hs
    have hpos : 0 < 16 ^ ds.length := by positivity
    have hsmall : out * 16 + Hex_Digit_Value d < 65536 := by
      have : (out * 16 + Hex_Digit_Value d + 1) * 1 ≤
          (out * 16 + Hex_Digit_Value d + 1) * 16 ^ ds.length :=
        Nat.mul_le_mul_left _ hpos
      omega
    rw [Nat.mod_eq_of_lt hsmall]
    exact ih _ (fun x hx => hd x (List.mem_cons_of_mem _ hx)) hb

theorem Scan_UTF8_Char_Escapable_paren (src : List Nat) (bp : Nat)
    (h1 : byteAt src bp = .ok 94) (h2 : byteAt src (bp + 1) = .ok 40) :
    Scan_UTF8_Char_Escapable src bp =
      (if (Scan_Hex_Digits (src.drop (bp + 1 + 1)) 0).2 > 4 then .ok none
       else
        match byteAt src (bp + 1 + 1 + (Scan_Hex_Digits (src.drop (bp + 1 + 1)) 0).2) with
        | .error e => .error e
        | .ok e =>
          if e = 41 then
            .ok (some ((Scan_Hex_Digits (src.drop (bp + 1 + 1)) 0).1,
              bp + 1 + 1 + (Scan_Hex_Digits (src.drop (bp + 1 + 1)) 0).2 + 1))
          else
            match Scan_Esc_Name (src.drop (bp + 1 + 1)) Esc_Names with
            | some (code, n) => .ok (some (code, bp + 1 + 1 + n))
            | none => .ok none) := by
  unfold Scan_UTF8_Char_Escapable
  rw [h1]
  simp only [bind, Except.bind, pure, Except.pure]
  rw [if_neg (by decide), if_neg (by decide), h2]
  simp only []
  rw [if_neg (by decide), if_neg (by decide), if_neg (by decide), if_neg (by decide),
    if_neg (by decide), if_pos trivial]
  simp only [Nat.add_sub_cancel_left]
  generalize Scan_Hex_Digits (List.drop (bp + 1 + 1) src) 0 = r
  by_cases hgt : r.2 > 4
  · rw [if_pos hgt, if_pos hgt]
  · rw [if_neg hgt, if_neg hgt]
    cases byteAt src (bp + 1 + 1 + r.2) with
    | error e => rfl
    | ok e => rfl

/-- C29: the hex escape of Scan_UTF8_Char_Escapable. In a text that holds `^(`, then the
hexadecimal digits `digits` of either case, then `)`, the escape at `^` is accepted if
there are at most 4 digits: the code point is the number the digits denote in base 16
(0 if there is no digit) and the position returned is just past the `)`. If 5 or more
hexadecimal digits follow `^(`, the result is NULL whatever comes after them. -/
theorem Scan_UTF8_Char_Escapable_hex (pre digits rest : List Nat)
    (hd : ∀ d ∈ digits, Is_Hex_Digit d = true) :
    (digits.length ≤ 4 →
      Scan_UTF8_Char_Escapable (pre ++ (94 :: 40 :: (digits ++ 41 :: rest))) pre.length =
        .ok (some (Hex_Value digits, pre.length + 2 + digits.length + 1))) ∧
    (5 ≤ digits.length →
      Scan_UTF8_Char_Escapable (pre ++ (94 :: 40 :: (digits ++ rest))) pre.length =
        .ok none) := by
  have hb1 : ∀ t, byteAt (pre ++ (94 :: 40 :: t)) pre.length = .ok 94 := fun t => by
    rw [byteAt_append_zero, byteAt_cons_zero]
  have hb2 : ∀ t, byteAt (pre ++ (94 :: 40 :: t)) (pre.length + 1) = .ok 40 := fun t => by
    rw [byteAt_append]; simp [byteAt]
  have hdrop : ∀ t, (pre ++ (94 :: 40 :: t)).drop (pre.length + 1 + 1) = t := fun t => by
    rw [Nat.add_assoc, List.drop_append]
    rfl
  constructor
  · intro hlen
    obtain ⟨r1, r2⟩ := Scan_Hex_Digits_run digits (41 :: rest) 0 hd
    have hstop := Scan_Hex_Digits_stop (41 :: rest)
      (digits.foldl (fun acc d => (acc * 16 + Hex_Digit_Value d) % 65536) 0)
      (Or.inr ⟨41, rest, rfl, by decide, by decide⟩)
    rw [hstop] at r1 r2
    have hmod := Hex_fold_mod digits 0 hd (by
      calc (0 + 1) * 16 ^ digits.length = 16 ^ digits.length := by ring
        _ ≤ 16 ^ 4 := Nat.pow_le_pow_right (by decide) hlen
        _ = 65536 := by norm_num)
    rw [Scan_UTF8_Char_Escapable_paren _ _ (hb1 _) (hb2 _), hdrop, r1, r2]
    simp only [Nat.add_zero]
    rw [if_neg (by omega)]
    have hbyte : byteAt (pre ++ (94 :: 40 :: (digits ++ 41 :: rest)))
        (pre.length + 1 + 1 + digits.length) = .ok 41 := by
      have : pre ++ (94 :: 40 :: (digits ++ 41 :: rest)) =
          (pre ++ 94 :: 40 :: digits) ++ (41 :: rest) := by simp
      rw [this]
      have hl : pre.length + 1 + 1 + digits.length = (pre ++ 94 :: 40 :: digits).length := by
        simp only [List.length_append, List.length_cons]; omega
      rw [hl, byteAt_append_zero, byteAt_cons_zero]
    rw [hbyte]
    simp only []
    rw [if_pos trivial, hmod]
    rfl
  · intro hlen
    obtain ⟨r1, _⟩ := Scan_Hex_Digits_run digits rest 0 hd
    rw [Scan_UTF8_Char_Escapable_paren _ _ (hb1 _) (hb2 _), hdrop, if_pos (by omega)]

/-- Witness of C29: `^(4F)` is the code point 79 and ends at 5; `^(12345)` is refused. -/
theorem Scan_UTF8_Char_Escapable_hex_witness :
    (Scan_UTF8_Char_Escapable ([] ++ (94 :: 40 :: ([52, 70] ++ 41 :: [120]))) 0 =
        .ok (some (Hex_Value [52, 70], 0 + 2 + 2 + 1)) ∧ Hex_Value [52, 70] = 79) ∧
    Scan_UTF8_Char_Escapable ([] ++ (94 :: 40 :: ([49, 50, 51, 52, 53] ++ [41]))) 0 =
      .ok none :=
  ⟨⟨(Scan_UTF8_Char_Escapable_hex [] [52, 70] [120] (by decide)).1 (by decide), rfl⟩,
    (Scan_UTF8_Char_Escapable_hex [] [49, 50, 51, 52, 53] [41] (by decide)).2 (by decide)⟩

set_option maxRecDepth 100000 in
/-- C30 fails where the NUL follows a caret: Scan_UTF8_Char_Escapable takes the terminator
as the escaped character, and Scan_Quote_Push_Mold goes on after it. On the texts `{a^`
and `"a^` the next byte read lies after the terminator, outside of the text. If the
memory after the terminator holds `b}`, the scan returns the position after that brace,
with the code points of `a`, NUL and `b` in the mold buffer, instead of failing. A NUL
that does not follow a caret makes the scan fail, as in `"a`. -/
theorem Scan_Quote_Push_Mold_caret_NUL :
    Scan_Quote_Push_Mold [123, 97, 94] 10 0 1 = .error .undefined ∧
    Scan_Quote_Push_Mold [34, 97, 94] 10 0 1 = .error .undefined ∧
    Scan_Quote_Push_Mold [123, 97, 94, 0, 98, 125] 10 0 1 = .ok ⟨some 6, [97, 0, 98], 1⟩ ∧
    Scan_Quote_Push_Mold [34, 97] 10 0 1 = .ok ⟨none, [97], 1⟩ :=
  ⟨rfl, rfl, rfl, rfl⟩

set_option maxRecDepth 100000 in
/-- C31 fails with a comment between REBOL and its bracket. On the text `REBOL ;r` with
the bracket on the next line, Scan_Head finds the header (the word REBOL at the offset 0),
but Scan_Header returns 7, the offset of the `r` in the comment, where its search
backwards stops. On `[REBOL ;[` with the bracket on the next line, an embedded header
whose first bracket is at 0, it returns 8, the offset of the bracket in the comment. With
the comment `;c` the offset returned is 0. -/
theorem Scan_Header_comment_offset :
    (∃ ss, Scan_Head [82, 69, 66, 79, 76, 32, 59, 114, 10, 91] 20 (Init_Scan_State 10) =
      .ok (1, ss) ∧ ss.begin = 10) ∧
    (Match_Bytes [82, 69, 66, 79, 76, 32, 59, 114, 10, 91] Str_REBOL).isSome = true ∧
    Scan_Header [82, 69, 66, 79, 76, 32, 59, 114, 10, 91] 20 10 = .ok 7 ∧
    (∃ ss, Scan_Head [91, 82, 69, 66, 79, 76, 32, 59, 91, 10, 91] 20 (Init_Scan_State 11) =
      .ok (-1, ss) ∧ ss.begin = 11) ∧
    Scan_Header [91, 82, 69, 66, 79, 76, 32, 59, 91, 10, 91] 20 11 = .ok 8 ∧
    Scan_Header [82, 69, 66, 79, 76, 32, 59, 99, 10, 91] 20 10 = .ok 0 :=
  ⟨⟨_, rfl, rfl⟩, rfl, rfl, ⟨_, rfl, rfl⟩, rfl, rfl⟩

theorem Error_Bad_Scan_ok (src : List Nat) (errnum : Scan_Error_Id) (ss : SCAN_STATE)
    (tkn : Nat) (arg : List Nat) (h : ss.head_line ≤ src.length) :
    ∃ near, Error_Bad_Scan src errnum ss tkn arg =
      .ok (⟨errnum, tkn, arg, ss.line_count, near⟩, { ss with errors := ss.errors + 1 }) := by
  obtain ⟨cp, h1, h2, h3, _, _⟩ := skip_while_spec IS_LEX_SPACE src ss.head_line h
  obtain ⟨ep, h4, h5, h6, _, _⟩ := skip_while_spec (fun b => !ANY_CR_LF_END b) src cp h3
  have h7 : bytesAt src cp (ep - cp) = .ok (((src ++ [0]).drop cp).take (ep - cp)) := by
    unfold bytesAt
    rw [if_pos (by omega)]
  refine ⟨((src ++ [0]).drop cp).take (ep - cp), ?_⟩
  unfold Error_Bad_Scan
  simp only [h1, h4, h7, bind, Except.bind, pure, Except.pure]

theorem Scan_Array_loop_fail (cv : Converters) (src : List Nat) (mode : Nat) (jo : Bool)
    (start sl fuel : Nat) (ss : SCAN_STATE) (stack : List REBVAL) (line : Bool) (l : Located)
    (e : Scan_Exit)
    (hl : Locate_Token_May_Push_Mold src fuel ss = .ok l)
    (hbody : Scan_Array_body cv src
      (fun m s => Scan_Array_loop cv src m s.opts.SCAN_NEXT s.line_count s.head_line fuel
        (Scan_enter s) [] false) fuel mode jo start sl l stack line = .error e) :
    Scan_Array_loop cv src mode jo start sl (fuel + 1) ss stack line = .error e := by
  rw [Scan_Array_loop]
  simp only [hl, hbody, bind, Except.bind]

/-- The array `exit_block` makes after an error cell was pushed: the cells pushed before,
in the order of the source, and the error cell with the line flag if `line` is set. -/
theorem Scan_exit_block_error (e : Scan_Error) (stack : List REBVAL) (line : Bool)
    (ss : SCAN_STATE) :
    Scan_exit_block (Init_Error e :: stack) line ss =
      (stack.reverse ++ [if line then SET_VAL_FLAG_LINE (Init_Error e) else Init_Error e],
        ss) := by
  unfold Scan_exit_block
  simp

theorem Scan_syntax_error_spec (src : List Nat) (stack : List REBVAL) (line : Bool)
    (ss : SCAN_STATE) (token : Int) (bp ep : Nat)
    (hbp : bp ≤ ep) (hep : ep ≤ src.length + 1) (hhead : ss.head_line ≤ src.length) :
    ∃ e : Scan_Error, e.errnum = .RE_INVALID ∧ e.token = token.toNat ∧
      e.near_line = ss.line_count ∧
      Scan_syntax_error src stack line ss token bp ep =
        if ss.opts.SCAN_RELAX then
          .ok (stack.reverse ++
            [if line then SET_VAL_FLAG_LINE (Init_Error e) else Init_Error e],
            { ss with errors := ss.errors + 1 })
        else .error (.raised e) := by
  have h7 : bytesAt src bp (ep - bp) = .ok (((src ++ [0]).drop bp).take (ep - bp)) := by
    unfold bytesAt
    rw [if_pos (by omega)]
  obtain ⟨near, hn⟩ := Error_Bad_Scan_ok src .RE_INVALID ss token.toNat
    (((src ++ [0]).drop bp).take (ep - bp)) hhead
  refine ⟨⟨.RE_INVALID, token.toNat, ((src ++ [0]).drop bp).take (ep - bp), ss.line_count,
    near⟩, rfl, rfl, rfl, ?_⟩
  unfold Scan_syntax_error
  rw [if_neg (by omega)]
  simp only [h7, hn, bind, Except.bind, pure, Except.pure]
  cases hr : ss.opts.SCAN_RELAX with
  | true => simp [Scan_exit_block_error]
  | false => simp

theorem Scan_extra_error_spec (src : List Nat) (stack : List REBVAL) (line : Bool)
    (ss : SCAN_STATE) (token : Int) (mode_char : Nat) (hhead : ss.head_line ≤ src.length) :
    ∃ e : Scan_Error, e.errnum = .RE_MISSING ∧ e.arg = [mode_char] ∧
      e.near_line = ss.line_count ∧
      Scan_extra_error src stack line ss token mode_char =
        if ss.opts.SCAN_RELAX then
          .ok (stack.reverse ++
            [if line then SET_VAL_FLAG_LINE (Init_Error e) else Init_Error e],
            { ss with errors := ss.errors + 1 })
        else .error (.raised e) := by
  obtain ⟨near, hn⟩ := Error_Bad_Scan_ok src .RE_MISSING ss token.toNat [mode_char] hhead
  refine ⟨⟨.RE_MISSING, token.toNat, [mode_char], ss.line_count, near⟩, rfl, rfl, rfl, ?_⟩
  unfold Scan_extra_error
  simp only [hn, bind, Except.bind, pure, Except.pure]
  cases hr : ss.opts.SCAN_RELAX with
  | true => simp [Scan_exit_block_error]
  | false => simp

theorem Scan_Array_body_malformed (cv : Converters) (src : List Nat)
    (nested : Nat → SCAN_STATE → Scan (List REBVAL × SCAN_STATE)) (fuel mode : Nat)
    (jo : Bool) (start sl : Nat) (l : Located) (stack : List REBVAL) (line : Bool)
    (htoken : l.token < 0) :
    Scan_Array_body cv src nested fuel mode jo start sl l stack line =
      (Scan_syntax_error src stack line { l.ss with begin := l.ss.end_ } (-l.token)
        l.ss.begin l.ss.end_).map Scan_Next.exit := by
  have h0 : l.token ≠ TOKEN_END := by
    intro h
    rw [h] at htoken
    exact absurd htoken (by decide)
  unfold Scan_Array_body
  simp only [bind, Except.bind, pure, Except.pure]
  rw [if_neg h0, if_pos htoken]
  cases Scan_syntax_error src stack line { l.ss with begin := l.ss.end_ } (-l.token)
      l.ss.begin l.ss.end_ with
  | error e => rfl
  | ok r => rfl

/-- When the token Locate_Token finds is malformed (a negative token), the call of
Scan_Array that located it makes the error RE_INVALID for that token at the line of
the scan state. With SCAN_RELAX set it does not raise: it returns the cells it has pushed
so far, in the order of the source, followed by one ERROR! cell holding that error, and
`errors` is one more than before. Without SCAN_RELAX it raises that error and returns no
array. -/
theorem Scan_Array_relax_malformed_token (cv : Converters) (src : List Nat) (mode : Nat)
    (jo : Bool) (start sl fuel : Nat) (ss : SCAN_STATE) (stack : List REBVAL) (line : Bool)
    (l : Located)
    (hl : Locate_Token_May_Push_Mold src fuel ss = .ok l) (htoken : l.token < 0)
    (hbp : l.ss.begin ≤ l.ss.end_) (hep : l.ss.end_ ≤ src.length + 1)
    (hhead : l.ss.head_line ≤ src.length) :
    ∃ e : Scan_Error, e.errnum = .RE_INVALID ∧ e.token = (-l.token).toNat ∧
      e.near_line = l.ss.line_count ∧
      Scan_Array_loop cv src mode jo start sl (fuel + 1) ss stack line =
        if l.ss.opts.SCAN_RELAX then
          .ok (stack.reverse ++
            [if line then SET_VAL_FLAG_LINE (Init_Error e) else Init_Error e],
            { l.ss with begin := l.ss.end_, errors := l.ss.errors + 1 })
        else .error (.raised e) := by
  obtain ⟨e, h1, h2, h3, h4⟩ := Scan_syntax_error_spec src stack line
    { l.ss with begin := l.ss.end_ } (-l.token) l.ss.begin l.ss.end_ hbp hep hhead
  refine ⟨e, h1, h2, h3, ?_⟩
  have hb := Scan_Array_body_malformed cv src
    (fun m s => Scan_Array_loop cv src m s.opts.SCAN_NEXT s.line_count s.head_line fuel
      (Scan_enter s) [] false) fuel mode jo start sl l stack line htoken
  rw [h4] at hb
  cases hr : l.ss.opts.SCAN_RELAX with
  | true =>
    simp only [hr, if_true] at hb ⊢
    exact Scan_Array_loop_exit cv src mode jo start sl fuel ss stack line l _ hl hb
  | false =>
    simp only [hr] at hb ⊢
    exact Scan_Array_loop_fail cv src mode jo start sl fuel ss stack line l _ hl hb

set_option maxRecDepth 1000000 in
/-- The text `x 12a y` after the word `x` was scanned, with and without SCAN_RELAX: the token `12a` is malformed; the array returned holds the word and the
ERROR! cell. -/
theorem Scan_Array_relax_malformed_token_witness :
    (∃ e : Scan_Error, e.errnum = .RE_INVALID ∧ e.token = 12 ∧ e.near_line = 1 ∧
      Scan_Array_loop text_converters (ascii "x 12a y") 0 false 1 0 (9 + 1)
          (Scan_at (demo_relax_state 7) 1) [Init_Text .REB_WORD (ascii "x")] false =
        .ok ([Init_Text .REB_WORD (ascii "x"), Init_Error e],
          { Scan_at (demo_relax_state 7) 5 with errors := 1 })) ∧
    (∃ e : Scan_Error, e.errnum = .RE_INVALID ∧
      Scan_Array_loop text_converters (ascii "x 12a y") 0 false 1 0 (9 + 1)
          (Scan_at (Init_Scan_State 7) 1) [Init_Text .REB_WORD (ascii "x")] false =
        .error (.raised e)) := by
  constructor
  · obtain ⟨e, h1, h2, h3, h4⟩ := Scan_Array_relax_malformed_token text_converters
      (ascii "x 12a y") 0 false 1 0 9 (Scan_at (demo_relax_state 7) 1)
      [Init_Text .REB_WORD (ascii "x")] false
      ⟨-TOKEN_INTEGER, { demo_relax_state 7 with begin := 2, end_ := 5 }, none⟩
      rfl (by decide) (by decide) (by decide) (by decide)
    exact ⟨e, h1, h2, h3, h4⟩
  · obtain ⟨e, h1, _, _, h4⟩ := Scan_Array_relax_malformed_token text_converters
      (ascii "x 12a y") 0 false 1 0 9 (Scan_at (Init_Scan_State 7) 1)
      [Init_Text .REB_WORD (ascii "x")] false
      ⟨-TOKEN_INTEGER, { Init_Scan_State 7 with begin := 2, end_ := 5 }, none⟩
      rfl (by decide) (by decide) (by decide) (by decide)
    exact ⟨e, h1, h4⟩

set_option maxRecDepth 1000000 in
/-- C32 (code bug): with SCAN_RELAX set, an error in a block ends the enclosing scan too:
the case of the block tests `scan_state->errors` and copies the error, so that `[12a] c`
gives an array whose last cell is the ERROR! value. The branch of the path has no such
test: the scan of `a/ c` meets the syntax error of a path that ends in `/` inside the
nested scan of the path, the ERROR! cell is the last cell of the path, the outer scan goes
on, and the last cell of the array returned is the word `c`, not an ERROR! value. -/
theorem Scan_Array_relax_error_in_path :
    (∃ e : Scan_Error, e.errnum = .RE_INVALID ∧
      Scan_Array text_converters (ascii "a/ c") 10 (demo_relax_state 4) 0 =
        .ok ([Init_Any_Array .REB_PATH [Init_Text .REB_WORD (ascii "a"), Init_Error e],
            Init_Text .REB_WORD (ascii "c")],
          { Scan_at (demo_relax_state 4) 4 with errors := 1 })) ∧
    ∃ e : Scan_Error, e.errnum = .RE_INVALID ∧
      Scan_Array text_converters (ascii "[12a] c") 10 (demo_relax_state 7) 0 =
        .ok ([Init_Error e], { Scan_at (demo_relax_state 7) 4 with errors := 1 }) :=
  ⟨⟨⟨.RE_INVALID, 30, ascii "a/", 1, ascii "a/ c"⟩, rfl, rfl⟩,
    ⟨.RE_INVALID, 12, ascii "12a", 1, ascii "[12a] c"⟩, rfl, rfl⟩

theorem Scan_Array_body_closer (cv : Converters) (src : List Nat)
    (nested : Nat → SCAN_STATE → Scan (List REBVAL × SCAN_STATE)) (fuel mode : Nat)
    (jo : Bool) (start sl : Nat) (l : Located) (stack : List REBVAL) (line : Bool)
    (closer opener : Nat)
    (hc : (l.token = TOKEN_BLOCK_END ∧ closer = 93 ∧ opener = 91) ∨
      (l.token = TOKEN_GROUP_END ∧ closer = 41 ∧ opener = 40))
    (hb : byteAt src l.ss.begin = .ok closer) (he : l.ss.end_ ≤ src.length) :
    Scan_Array_body cv src nested fuel mode jo start sl l stack line =
      (Scan_Array_close src mode start sl l.token closer opener stack line
        { l.ss with begin := l.ss.end_ }).bind
        (Scan_Array_after src mode jo stack line) := by
  obtain ⟨e, he⟩ := byteAt_readable src l.ss.end_ he
  have h47 : closer ≠ 47 := by
    rcases hc with ⟨_, h, _⟩ | ⟨_, h, _⟩ <;> rw [h] <;> decide
  unfold Scan_Array_body
  rcases hc with ⟨ht, hcl, hop⟩ | ⟨ht, hcl, hop⟩
  · have hopen : Opens_Path TOKEN_BLOCK_END e = false := by
      unfold Opens_Path
      simp [show TOKEN_BLOCK_END ≠ TOKEN_PATH by decide,
        show TOKEN_BLOCK_END ≠ TOKEN_WORD by decide, show TOKEN_BLOCK_END ≠ TOKEN_LIT by decide,
        show TOKEN_BLOCK_END ≠ TOKEN_GET by decide]
    subst hcl hop
    unfold Scan_Array_token
    simp only [ht, bind, Except.bind, show TOKEN_BLOCK_END ≠ TOKEN_END by decide, if_false,
      show ¬ TOKEN_BLOCK_END < 0 by decide, hb, show ¬ ((93 : Nat) = 47) by decide,
      and_false, false_and, he, hopen, Bool.false_eq_true,
      show TOKEN_BLOCK_END ≠ TOKEN_NEWLINE by decide,
      show TOKEN_BLOCK_END ≠ TOKEN_LIT by decide, show TOKEN_BLOCK_END ≠ TOKEN_GET by decide,
      show TOKEN_BLOCK_END ≠ TOKEN_SET by decide, show TOKEN_BLOCK_END ≠ TOKEN_WORD by decide,
      show TOKEN_BLOCK_END ≠ TOKEN_BLOCK_BEGIN by decide,
      show TOKEN_BLOCK_END ≠ TOKEN_GROUP_BEGIN by decide, or_self, if_true, pure, Except.pure]
  · have hopen : Opens_Path TOKEN_GROUP_END e = false := by
      unfold Opens_Path
      simp [show TOKEN_GROUP_END ≠ TOKEN_PATH by decide,
        show TOKEN_GROUP_END ≠ TOKEN_WORD by decide, show TOKEN_GROUP_END ≠ TOKEN_LIT by decide,
        show TOKEN_GROUP_END ≠ TOKEN_GET by decide]
    subst hcl hop
    unfold Scan_Array_token
    simp only [ht, bind, Except.bind, show TOKEN_GROUP_END ≠ TOKEN_END by decide, if_false,
      show ¬ TOKEN_GROUP_END < 0 by decide, hb, show ¬ ((41 : Nat) = 47) by decide,
      and_false, false_and, he, hopen, Bool.false_eq_true,
      show TOKEN_GROUP_END ≠ TOKEN_NEWLINE by decide,
      show TOKEN_GROUP_END ≠ TOKEN_LIT by decide, show TOKEN_GROUP_END ≠ TOKEN_GET by decide,
      show TOKEN_GROUP_END ≠ TOKEN_SET by decide, show TOKEN_GROUP_END ≠ TOKEN_WORD by decide,
      show TOKEN_GROUP_END ≠ TOKEN_BLOCK_BEGIN by decide,
      show TOKEN_GROUP_END ≠ TOKEN_GROUP_BEGIN by decide,
      show TOKEN_GROUP_END ≠ TOKEN_BLOCK_END by decide, or_self, if_true, pure, Except.pure]

theorem Scan_Array_body_unbalanced (cv : Converters) (src : List Nat)
    (nested : Nat → SCAN_STATE → Scan (List REBVAL × SCAN_STATE)) (fuel mode : Nat)
    (jo : Bool) (start sl : Nat) (l : Located) (stack : List REBVAL) (line : Bool)
    (hcase : (l.token = TOKEN_BLOCK_END ∧ byteAt src l.ss.begin = .ok 93 ∧ mode ≠ 93 ∧
        l.ss.end_ ≤ src.length) ∨
      (l.token = TOKEN_GROUP_END ∧ byteAt src l.ss.begin = .ok 41 ∧ mode ≠ 41 ∧
        l.ss.end_ ≤ src.length) ∨
      (l.token = TOKEN_END ∧ (mode = 93 ∨ mode = 41)))
    (hhead : l.ss.head_line ≤ src.length) (hsl : sl ≤ src.length) :
    ∃ e : Scan_Error, e.errnum = .RE_MISSING ∧
      e.near_line = (if mode = 0 then l.ss.line_count else start) ∧
      e.arg = [if mode = 0 then (if l.token = TOKEN_BLOCK_END then 91 else 40) else mode] ∧
      ∃ ss1 : SCAN_STATE, ss1.errors = l.ss.errors + 1 ∧
        Scan_Array_body cv src nested fuel mode jo start sl l stack line =
          if l.ss.opts.SCAN_RELAX then
            .ok (.exit (stack.reverse ++
              [if line then SET_VAL_FLAG_LINE (Init_Error e) else Init_Error e], ss1))
          else .error (.raised e) := by
  have hclose : ∀ closer opener : Nat,
      ((l.token = TOKEN_BLOCK_END ∧ closer = 93 ∧ opener = 91) ∨
        (l.token = TOKEN_GROUP_END ∧ closer = 41 ∧ opener = 40)) →
      byteAt src l.ss.begin = .ok closer → mode ≠ closer → l.ss.end_ ≤ src.length →
      ∃ e : Scan_Error, e.errnum = .RE_MISSING ∧
        e.near_line = (if mode = 0 then l.ss.line_count else start) ∧
        e.arg = [if mode = 0 then opener else mode] ∧
        ∃ ss1 : SCAN_STATE, ss1.errors = l.ss.errors + 1 ∧
          Scan_Array_body cv src nested fuel mode jo start sl l stack line =
            if l.ss.opts.SCAN_RELAX then
              .ok (.exit (stack.reverse ++
                [if line then SET_VAL_FLAG_LINE (Init_Error e) else Init_Error e], ss1))
            else .error (.raised e) := by
    intro closer opener hc hb hm he
    rw [Scan_Array_body_closer cv src nested fuel mode jo start sl l stack line closer opener
      hc hb he]
    unfold Scan_Array_close
    by_cases h0 : mode = 0
    · obtain ⟨e, h1, h2, h3, h4⟩ := Scan_extra_error_spec src stack line
        { l.ss with begin := l.ss.end_ } l.token opener hhead
      refine ⟨e, h1, ?_, ?_, { l.ss with begin := l.ss.end_, errors := l.ss.errors + 1 }, rfl,
        ?_⟩
      · rw [if_pos h0]; exact h3
      · rw [if_pos h0]; exact h2
      · rw [if_pos h0]
        simp only [bind, Except.bind, h4]
        cases hr : l.ss.opts.SCAN_RELAX with
        | true => simp [Scan_Array_after, Except.bind, pure, Except.pure]
        | false => simp [Except.bind]
    · obtain ⟨e, h1, h2, h3, h4⟩ := Scan_extra_error_spec src stack line
        { l.ss with begin := l.ss.end_, line_count := start, head_line := sl } l.token mode hsl
      refine ⟨e, h1, ?_, ?_,
        { l.ss with begin := l.ss.end_, line_count := start, head_line := sl,
                    errors := l.ss.errors + 1 }, rfl, ?_⟩
      · rw [if_neg h0]; exact h3
      · rw [if_neg h0]; exact h2
      · rw [if_neg h0, if_pos hm]
        unfold Scan_missing_error
        simp only [bind, Except.bind, h4]
        cases hr : l.ss.opts.SCAN_RELAX with
        | true => simp [Scan_Array_after, Except.bind, pure, Except.pure]
        | false => simp [Except.bind]
  rcases hcase with ⟨ht, hb, hm, he⟩ | ⟨ht, hb, hm, he⟩ | ⟨ht, hm⟩
  · have := hclose 93 91 (Or.inl ⟨ht, rfl, rfl⟩) hb hm he
    rw [if_pos ht]
    exact this
  · have := hclose 41 40 (Or.inr ⟨ht, rfl, rfl⟩) hb hm he
    have hne : ¬ l.token = TOKEN_BLOCK_END := by rw [ht]; decide
    rw [if_neg hne]
    exact this
  · have h0 : mode ≠ 0 := by rcases hm with h | h <;> rw [h] <;> decide
    obtain ⟨e, h1, h2, h3, h4⟩ := Scan_extra_error_spec src stack line
      { l.ss with line_count := start, head_line := sl } l.token mode hsl
    refine ⟨e, h1, ?_, ?_,
      { l.ss with line_count := start, head_line := sl, errors := l.ss.errors + 1 }, rfl, ?_⟩
    · rw [if_neg h0]; exact h3
    · rw [if_neg h0]; exact h2
    · unfold Scan_Array_body
      simp only [bind, Except.bind, pure, Except.pure]
      rw [if_pos ht, if_pos hm]
      unfold Scan_missing_error
      simp only [h4]
      cases hr : l.ss.opts.SCAN_RELAX with
      | true => simp
      | false => simp

/-- C33: Scan_Array rejects unbalanced brackets with the error RE_MISSING. When the token
located is `]` and the array being scanned was not opened by `[` (top level, or opened by
`(`), or it is `)` and the array was not opened by `(`, or it is the end of the input and
the array was opened by `[` or `(`, the call makes the error RE_MISSING: without SCAN_RELAX
it raises it, with SCAN_RELAX it returns the cells pushed so far followed by the ERROR!
cell and counts the error; it never returns the cells alone. The line of the error is the
line count `start` the call had on entry, where its bracket was opened, except for a closer
at top level (the current line); the character reported is the opener that is missing at
top level and else the closer the array waits for. -/
theorem Scan_Array_unbalanced_missing (cv : Converters) (src : List Nat) (mode : Nat)
    (jo : Bool) (start sl fuel : Nat) (ss : SCAN_STATE) (stack : List REBVAL) (line : Bool)
    (l : Located)
    (hl : Locate_Token_May_Push_Mold src fuel ss = .ok l)
    (hcase : (l.token = TOKEN_BLOCK_END ∧ byteAt src l.ss.begin = .ok 93 ∧ mode ≠ 93 ∧
        l.ss.end_ ≤ src.length) ∨
      (l.token = TOKEN_GROUP_END ∧ byteAt src l.ss.begin = .ok 41 ∧ mode ≠ 41 ∧
        l.ss.end_ ≤ src.length) ∨
      (l.token = TOKEN_END ∧ (mode = 93 ∨ mode = 41)))
    (hhead : l.ss.head_line ≤ src.length) (hsl : sl ≤ src.length) :
    ∃ e : Scan_Error, e.errnum = .RE_MISSING ∧
      e.near_line = (if mode = 0 then l.ss.line_count else start) ∧
      e.arg = [if mode = 0 then (if l.token = TOKEN_BLOCK_END then 91 else 40) else mode] ∧
      ∃ ss1 : SCAN_STATE, ss1.errors = l.ss.errors + 1 ∧
        Scan_Array_loop cv src mode jo start sl (fuel + 1) ss stack line =
          if l.ss.opts.SCAN_RELAX then
            .ok (stack.reverse ++
              [if line then SET_VAL_FLAG_LINE (Init_Error e) else Init_Error e], ss1)
          else .error (.raised e) := by
  obtain ⟨e, h1, h2, h3, ss1, h4, h5⟩ := Scan_Array_body_unbalanced cv src
    (fun m s => Scan_Array_loop cv src m s.opts.SCAN_NEXT s.line_count s.head_line fuel
      (Scan_enter s) [] false) fuel mode jo start sl l stack line hcase hhead hsl
  refine ⟨e, h1, h2, h3, ss1, h4, ?_⟩
  cases hr : l.ss.opts.SCAN_RELAX with
  | true =>
    simp only [hr, if_true] at h5 ⊢
    exact Scan_Array_loop_exit cv src mode jo start sl fuel ss stack line l _ hl h5
  | false =>
    simp only [hr] at h5 ⊢
    exact Scan_Array_loop_fail cv src mode jo start sl fuel ss stack line l _ hl h5

set_option maxRecDepth 1000000 in
/-- C33 at the text of three lines `a`, `[ b`, ` c`, whose bracket on line 2 is not closed:
the nested scan of the block, entered at line 2, meets the end of the input on line 3 and
raises RE_MISSING for line 2; so does the scan of the whole text. A closer at top level
and a closer of the other kind raise RE_MISSING too. -/
theorem Scan_Array_unbalanced_missing_witness :
    (∃ e : Scan_Error, e.errnum = .RE_MISSING ∧ e.near_line = 2 ∧ e.arg = [93] ∧
      Scan_Array_loop text_converters (ascii "a\n[ b\n c") 93 false 2 2 (9 + 1)
          { Init_Scan_State 8 with begin := 8, end_ := 8, line_count := 3, head_line := 6 }
          [Init_Text .REB_WORD (ascii "c"), Init_Text .REB_WORD (ascii "b")] false =
        .error (.raised e)) ∧
    Scan_UTF8_Managed text_converters (ascii "a\n[ b\n c") 20 8 =
      .error (.raised ⟨.RE_MISSING, 0, [93], 2, ascii "[ b"⟩) ∧
    Scan_UTF8_Managed text_converters (ascii "a ]") 10 3 =
      .error (.raised ⟨.RE_MISSING, 2, [91], 1, ascii "a ]"⟩) ∧
    Scan_UTF8_Managed text_converters (ascii "a )") 10 3 =
      .error (.raised ⟨.RE_MISSING, 3, [40], 1, ascii "a )"⟩) ∧
    Scan_UTF8_Managed text_converters (ascii "(a]") 10 3 =
      .error (.raised ⟨.RE_MISSING, 2, [41], 1, ascii "(a]"⟩) ∧
    Scan_UTF8_Managed text_converters (ascii "[a)") 10 3 =
      .error (.raised ⟨.RE_MISSING, 3, [93], 1, ascii "[a)"⟩) := by
  refine ⟨?_, rfl, rfl, rfl, rfl, rfl⟩
  obtain ⟨e, h1, h2, h3, _, _, h5⟩ := Scan_Array_unbalanced_missing text_converters
    (ascii "a\n[ b\n c") 93 false 2 2 9
    { Init_Scan_State 8 with begin := 8, end_ := 8, line_count := 3, head_line := 6 }
    [Init_Text .REB_WORD (ascii "c"), Init_Text .REB_WORD (ascii "b")] false
    ⟨TOKEN_END,
      { Init_Scan_State 8 with begin := 8, end_ := 8, line_count := 3, head_line := 6 }, none⟩
    rfl (Or.inr (Or.inr ⟨rfl, Or.inl rfl⟩)) (by decide) (by decide)
  exact ⟨e, h1, h2, h3, h5⟩

set_option maxRecDepth 1000000 in
/-- C34 (code bug): Scan_Word does not compare the extent of the token located with `len`.
On the three bytes `a b` the token located is the word `a`, which ends after one byte, and
Scan_Word returns the symbol of the spelling `a b`, where the scanner gives two words and the
specification NULL; on one word both agree; on
` a` it returns the symbol of ` a`, with the space the scanner skips; on `ab` with the
length 1 the token spans two bytes and the symbol is `a`. For `1` it returns NULL. -/
theorem Scan_Word_ignores_token_extent :
    Scan_Word (ascii "a b") 10 3 = .ok (some (ascii "a b")) ∧
    (Locate_Token_May_Push_Mold (ascii "a b") 10 (Init_Scan_State 3)).map
      (fun l => (l.token, l.ss.begin, l.ss.end_)) = .ok (TOKEN_WORD, 0, 1) ∧
    Scan_UTF8_Managed text_converters (ascii "a b") 10 3 =
      .ok [Init_Text .REB_WORD (ascii "a"), Init_Text .REB_WORD (ascii "b")] ∧
    Scan_Word_spec (ascii "a b") 10 3 = .ok none ∧
    Scan_Word (ascii "a") 10 1 = Scan_Word_spec (ascii "a") 10 1 ∧
    Scan_Word (ascii " a") 10 2 = .ok (some (ascii " a")) ∧
    Scan_Word (ascii "ab") 10 1 = .ok (some (ascii "a")) ∧
    Scan_Word (ascii "1") 10 1 = .ok none :=
  ⟨rfl, rfl, rfl, rfl, rfl, rfl, rfl, rfl⟩

theorem Series_Allocation_Unpooled_size (s : REBSER) (wide size : Nat) (hwide : 0 < wide)
    (hbyte : wide < 256)
    (hsz : (∃ k, 11 ≤ k ∧ k ≤ 31 ∧ size = 2 ^ k ∧ s.power_of_2 = decide (size % wide ≠ 0)) ∨
      (size % wide = 0 ∧ size < 4294967296 ∧ s.power_of_2 = false))
    (hw : s.wide = wide) (hb : s.bias = 0) (hr : s.rest = size / wide) :
    Series_Allocation_Unpooled s = some size := by
  have hmul : size / wide * wide ≤ size := Nat.div_mul_le_self _ _
  have hmul2 : size < size / wide * wide + wide := by
    have := Nat.lt_div_mul_add (a := size) hwide
    linarith
  have hlt : size < 4294967296 := by
    rcases hsz with ⟨k, _, hk, rfl, _⟩ | ⟨_, h, _⟩
    · have : 2 ^ k ≤ 2 ^ 31 := Nat.pow_le_pow_right (by decide) hk
      omega
    · exact h
  have hu : SER_TOTAL s = size / wide * wide := by
    unfold SER_TOTAL SER_BIAS u32
    rw [hw, hb, hr, Nat.add_zero]
    exact Nat.mod_eq_of_lt (by omega)
  unfold Series_Allocation_Unpooled
  simp only [hu]
  rcases hsz with ⟨k, hk1, hk2, rfl, hp⟩ | ⟨hdiv, _, hp⟩
  · by_cases hdiv : 2 ^ k % wide = 0
    · have : 2 ^ k / wide * wide = 2 ^ k := Nat.div_mul_cancel (Nat.dvd_of_mod_eq_zero hdiv)
      simp [hp, hdiv, this]
    · simp only [hp, ne_eq, hdiv, not_false_eq_true, decide_True, if_true]
      have h31 : 2 ^ k ≤ 2 ^ 31 := Nat.pow_le_pow_right (by decide) hk2
      obtain ⟨k1, hb1, _, hb3, hb4, hb5⟩ :=
        pow2_loop_spec (2 ^ k / wide * wide) (by omega) 64 11 (le_refl _) (by omega)
          (Or.inl rfl) (by omega)
      norm_num at hb5
      have hk : k1 = k := by
        by_cases h11 : k = 11
        · subst h11
          rcases hb4 with h | h
          · exact h
          · have : 2 ^ (k1 - 1) < 2 ^ 11 := by omega
            have := (Nat.pow_lt_pow_iff_right (by decide : 1 < 2)).1 this
            omega
        · have h12 : 2 ^ 11 ≤ 2 ^ (k - 1) := Nat.pow_le_pow_right (by decide) (by omega)
          have h6 : 2 ^ k = 2 * 2 ^ (k - 1) := by
            rw [← pow_succ']; congr 1; omega
          exact pow2_loop_unique hmul (by omega) (by omega) hb3 hb4
      rw [hb5, hk]
  · have : size / wide * wide = size := Nat.div_mul_cancel (Nat.dvd_of_mod_eq_zero hdiv)
    simp [hp, this]

theorem Alloc_Mem_blocks {m : Memory} {size data : Nat} {m1 : Memory}
    (h : Alloc_Mem m size = .ok (some data) m1) : m1.blocks data = some size := by
  unfold Alloc_Mem malloc at h
  simp only [] at h
  split_ifs at h with h1 h2 h3 h4
  · simp only [Result.ok.injEq, Option.some.injEq] at h
    obtain ⟨rfl, rfl⟩ := h
    simp
  · simp at h
  · simp only [Result.ok.injEq, Option.some.injEq] at h
    obtain ⟨rfl, rfl⟩ := h
    simp

theorem FIND_POOL_unpooled (m m2 : Memory) (n size : Nat)
    (hunpooled : (m.cfg.NDEBUG = false ∧ m.PG_Always_Malloc = true) ∨ 4 * MEM_BIG_SIZE < n)
    (hcfg : m2.cfg = m.cfg) (hal : m2.PG_Always_Malloc = m.PG_Always_Malloc) (hle : n ≤ size) :
    FIND_POOL m2 size = SYSTEM_POOL := by
  unfold FIND_POOL
  rw [hcfg, hal]
  rcases hunpooled with ⟨h1, h2⟩ | h
  · simp [h1, h2]
  · have h1 : ¬ size ≤ 4 * MEM_BIG_SIZE := by omega
    simp [h1]

theorem Free_Unbiased_Series_Data_unpooled (m : Memory) (data size : Nat) (pool : REBPOL)
    (hfind : FIND_POOL m size = SYSTEM_POOL) (hb : m.blocks data = some size)
    (hp : m.pool SYSTEM_POOL = some pool) :
    ∃ m3, Free_Unbiased_Series_Data m data size = .ok () m3 ∧ m3.blocks data = none := by
  unfold Free_Unbiased_Series_Data Free_Mem
  simp only [hfind, lt_irrefl, if_false, hb, ne_eq, not_true_eq_false, and_false]
  have hp1 : Memory.pool { m with blocks := (Function.update m.blocks data none),
                                    PG_Mem_Usage := (m.PG_Mem_Usage - size) } SYSTEM_POOL =
      some pool := hp
  simp only [hp1]
  exact ⟨_, rfl, by simp [Memory.set_pool]⟩

theorem Series_Data_Alloc_setup_unpooled (m : Memory) (s1 : REBSER) (length wide : Nat)
    (flags : MKS) (size data : Nat) (m1 : Memory)
    (hwide : 0 < wide) (hbyte : wide < 256)
    (hsz : (∃ k, 11 ≤ k ∧ k ≤ 31 ∧ size = 2 ^ k ∧ s1.power_of_2 = decide (size % wide ≠ 0)) ∨
      (size % wide = 0 ∧ size < 4294967296 ∧ s1.power_of_2 = false))
    (hdata : s1.data = some data) (hbase : s1.base = data) (hmem : s1.mem.length = size)
    (harray : flags.ARRAY = true →
      wide = m.cfg.sizeof_REBVAL ∧ m.cfg.sizeof_REBUPT ≤ m.cfg.sizeof_REBVAL ∧ wide ≤ size) :
    ∃ r, Series_Data_Alloc_setup m length wide flags size s1 m1 =
        .ok (true, r) (m1.sub_ballast size) ∧
      r.data = some data ∧ r.mem.length = size ∧ Series_Allocation_Unpooled r = some size := by
  have hw0 : wide ≠ 0 := by omega
  have h1 : ¬ (¬ m.cfg.NDEBUG = true ∧ flags.ARRAY = true ∧ wide ≠ m.cfg.sizeof_REBVAL) := by
    rintro ⟨_, h2, h3⟩
    exact h3 (harray h2).1
  have h2 : ∀ mm, Series_Allocation_Unpooled
      { s1 with wide := wide, bias := 0, is_array := flags.ARRAY, rest := size / wide,
                len := 0, has_dynamic := true, mem := mm } = some size := by
    intro mm
    exact Series_Allocation_Unpooled_size _ wide size hwide hbyte hsz rfl rfl rfl
  have h3 : Series_Allocation_Unpooled
      { s1 with wide := wide, bias := 0, is_array := flags.ARRAY, rest := size / wide,
                len := 0, has_dynamic := true } = some size :=
    Series_Allocation_Unpooled_size _ wide size hwide hbyte hsz rfl rfl rfl
  unfold Series_Data_Alloc_setup
  simp only [h1, if_false, hw0, h3, ne_eq, not_true_eq_false, and_false]
  by_cases ha : flags.ARRAY = true
  · obtain ⟨hv, hu, hle⟩ := harray ha
    have hrest : size / wide ≠ 0 := by
      have := Nat.div_pos hle hwide
      omega
    have hmul : size / wide * wide ≤ size := Nat.div_mul_le_self _ _
    simp only [ha, if_true, hdata, hrest, if_false]
    have hlen : (header_bytes m.cfg NODE_FLAG_END).length = m.cfg.sizeof_REBUPT := by
      simp [header_bytes]
    have hin : (size / wide - 1) * m.cfg.sizeof_REBVAL + m.cfg.sizeof_REBUPT ≤ size := by
      rw [← hv]
      have h3 : (size / wide - 1) * wide + wide = size / wide * wide := by
        have : size / wide - 1 + 1 = size / wide :=
          Nat.sub_add_cancel (Nat.pos_of_ne_zero hrest)
        calc (size / wide - 1) * wide + wide = (size / wide - 1 + 1) * wide := by ring
          _ = _ := by rw [this]
      omega
    obtain ⟨s3, hs3⟩ : ∃ s3, REBSER.write
        { s1 with wide := wide, bias := 0, is_array := true, rest := size / wide,
                  len := 0, has_dynamic := true, data := some data }
        (data + (size / wide - 1) * m.cfg.sizeof_REBVAL)
        (header_bytes m.cfg NODE_FLAG_END) = some s3 := by
      unfold REBSER.write
      rw [if_pos]
      · exact ⟨_, rfl⟩
      · simp only [hlen, hbase, hmem]
        omega
    have hw := REBSER.write_length hs3
    obtain ⟨_, _, e3, _, _⟩ := REBSER.write_some hs3
    rw [hs3]
    refine ⟨s3, rfl, ?_, ?_, ?_⟩
    · rw [hw.2.1]
    · rw [hw.1]; exact hmem
    · rw [e3]
      have := h2 s3.mem
      rw [ha] at this
      exact this
  · simp only [ha, if_false]
    exact ⟨_, rfl, hdata, hmem, h3⟩

/-- C35: for a series whose data Series_Data_Alloc takes from outside of the pools (a byte
size above 4 * MEM_BIG_SIZE, or a debug build that always uses the system allocator), with
or without the power-of-2 flag, a width from 1 to 255 and `length * wide` below 2^31 (an
array of cells has at least one element):
there is one size, `length * wide` or the result of the loop that doubles 2048 (which
ends), that is passed to Alloc_Mem; when the block is there, Series_Data_Alloc returns
(the debug assertion at its end holds), Series_Allocation_Unpooled of the series ends and
gives exactly that size, and Free_Unbiased_Series_Data with it frees the block with the
size it was allocated with. -/
theorem Series_Allocation_Unpooled_recomputes (m : Memory) (s : REBSER) (length wide : Nat)
    (flags : MKS)
    (hunpooled : (m.cfg.NDEBUG = false ∧ m.PG_Always_Malloc = true) ∨
      4 * MEM_BIG_SIZE < length * wide)
    (hmax : length * wide < 2147483648)
    (hwide : 0 < wide) (hbyte : wide < 256)
    (hdebug : m.cfg.NDEBUG = false → s.data = none ∧ (wide = 1 ∨ wide % 2 ≠ 1))
    (harray : flags.ARRAY = true →
      wide = m.cfg.sizeof_REBVAL ∧ m.cfg.sizeof_REBUPT ≤ m.cfg.sizeof_REBVAL ∧ 0 < length) :
    ∃ size, length * wide ≤ size ∧
      (flags.POWER_OF_2 = false → size = length * wide) ∧
      (flags.POWER_OF_2 = true → pow2_loop (length * wide) 64 2048 = some size) ∧
      (∀ f m1, Alloc_Mem m size = .fault f m1 →
        Series_Data_Alloc m s length wide flags = .fault f m1) ∧
      (∀ m1, Alloc_Mem m size = .ok none m1 →
        ∃ r, Series_Data_Alloc m s length wide flags = .ok (false, r) m1) ∧
      ∀ data m1 pool, Alloc_Mem m size = .ok (some data) m1 →
        m1.pool SYSTEM_POOL = some pool →
        ∃ r m2, Series_Data_Alloc m s length wide flags = .ok (true, r) m2 ∧
          r.data = some data ∧ r.mem.length = size ∧
          Series_Allocation_Unpooled r = some size ∧
          ∃ m3, Free_Unbiased_Series_Data m2 data size = .ok () m3 ∧
            m3.blocks data = none := by
  have hu : u32 (length * wide) = length * wide := by
    unfold u32
    exact Nat.mod_eq_of_lt (by omega)
  have hfind : FIND_POOL m (length * wide) = SYSTEM_POOL :=
    FIND_POOL_unpooled m m _ _ hunpooled rfl rfl (le_refl _)
  have hpre : ¬ (¬ m.cfg.NDEBUG = true ∧ (s.data ≠ none ∨ ¬ (wide = 1 ∨ wide % 2 ≠ 1))) := by
    rintro ⟨h1, h2⟩
    have := hdebug (by simpa using h1)
    tauto
  have hw0 : wide ≠ 0 := by omega
  have hfree : ∀ size data m1 pool, length * wide ≤ size →
      Alloc_Mem m size = .ok (some data) m1 → m1.pool SYSTEM_POOL = some pool →
      ∃ m3, Free_Unbiased_Series_Data
          ((m1.set_pool SYSTEM_POOL
            { pool with has := u32 (pool.has + size), free := u32 (pool.free + 1) }).sub_ballast
              size) data size = .ok () m3 ∧
        m3.blocks data = none := by
    intro size data m1 pool hle ha hp
    have hs := Alloc_Mem_same m size
    rw [ha] at hs
    exact Free_Unbiased_Series_Data_unpooled _ data size _
      (FIND_POOL_unpooled m _ _ _ hunpooled hs.cfg hs.always hle)
      (show m1.blocks data = some size from Alloc_Mem_blocks ha) (pool_set_pool_same m1 SYSTEM_POOL _ pool hp)
  cases hflag : flags.POWER_OF_2 with
  | true =>
    obtain ⟨k, hk1, hk2, hk3, hk4, hloop⟩ :=
      pow2_loop_spec (length * wide) (by omega) 64 11 (le_refl _) (by omega) (Or.inl rfl)
        (by omega)
    norm_num at hloop
    refine ⟨2 ^ k, hk3, fun h => absurd h (by decide), fun _ => hloop, ?_, ?_, ?_⟩
    · intro f m1 ha
      unfold Series_Data_Alloc Series_Data_Alloc_block
      simp only [hu, hfind, lt_irrefl, if_false, hflag, hloop, if_true, hpre, ha, hw0,
        and_false]
    · intro m1 ha
      unfold Series_Data_Alloc Series_Data_Alloc_block
      simp only [hu, hfind, lt_irrefl, if_false, hflag, hloop, if_true, hpre, ha, hw0,
        and_false]
      exact ⟨_, rfl⟩
    · intro data m1 pool ha hp
      have hkw : wide ≤ 2 ^ k := by
        have : 2 ^ 11 ≤ 2 ^ k := Nat.pow_le_pow_right (by decide) hk1
        omega
      obtain ⟨r, hr1, hr2, hr3, hr4⟩ := Series_Data_Alloc_setup_unpooled m
        { s with power_of_2 := decide (2 ^ k % wide ≠ 0), data := some data, base := data,
                 mem := fresh_mem m1 data (2 ^ k) }
        length wide flags (2 ^ k) data
        (m1.set_pool SYSTEM_POOL
          { pool with has := u32 (pool.has + 2 ^ k), free := u32 (pool.free + 1) })
        hwide hbyte (Or.inl ⟨k, hk1, hk2, rfl, rfl⟩) rfl rfl (fresh_mem_length _ _ _)
        (fun h => ⟨(harray h).1, (harray h).2.1, hkw⟩)
      refine ⟨r, _, ?_, hr2, hr3, hr4, hfree _ data m1 pool hk3 ha hp⟩
      unfold Series_Data_Alloc Series_Data_Alloc_block
      simp only [hu, hfind, lt_irrefl, if_false, hflag, hloop, if_true, hpre, ha, hw0,
        and_false, hp]
      exact hr1
  | false =>
    refine ⟨length * wide, le_refl _, fun _ => rfl, fun h => absurd h (by decide), ?_, ?_, ?_⟩
    · intro f m1 ha
      unfold Series_Data_Alloc Series_Data_Alloc_block
      simp only [hu, hfind, lt_irrefl, if_false, hflag, Bool.false_eq_true, hpre, ha, hw0,
        false_and]
    · intro m1 ha
      unfold Series_Data_Alloc Series_Data_Alloc_block
      simp only [hu, hfind, lt_irrefl, if_false, hflag, Bool.false_eq_true, hpre, ha, hw0,
        false_and]
      exact ⟨_, rfl⟩
    · intro data m1 pool ha hp
      obtain ⟨r, hr1, hr2, hr3, hr4⟩ := Series_Data_Alloc_setup_unpooled m
        { s with power_of_2 := false, data := some data, base := data,
                 mem := fresh_mem m1 data (length * wide) }
        length wide flags (length * wide) data
        (m1.set_pool SYSTEM_POOL
          { pool with has := u32 (pool.has + length * wide), free := u32 (pool.free + 1) })
        hwide hbyte (Or.inr ⟨Nat.mul_mod_left _ _, by omega, rfl⟩) rfl rfl
        (fresh_mem_length _ _ _)
        (fun h => ⟨(harray h).1, (harray h).2.1,
          Nat.le_mul_of_pos_left wide (harray h).2.2⟩)
      refine ⟨r, _, ?_, hr2, hr3, hr4, hfree _ data m1 pool (le_refl _) ha hp⟩
      unfold Series_Data_Alloc Series_Data_Alloc_block
      simp only [hu, hfind, lt_irrefl, if_false, hflag, Bool.false_eq_true, hpre, ha, hw0,
        false_and, hp]
      exact hr1

/-- Witness of C35: 1000 elements of 6 bytes with the power-of-2 flag in the 64-bit release
state `demo_tables`: 8192 bytes are allocated, 1365 elements fit, and the size is found
again from their 8190 bytes. -/
theorem Series_Allocation_Unpooled_recomputes_witness :
    4 * MEM_BIG_SIZE < 1000 * 6 ∧ pow2_loop (1000 * 6) 64 2048 = some 8192 ∧
    ∃ size, 1000 * 6 ≤ size ∧
      (MKS_POWER_OF_2.POWER_OF_2 = false → size = 1000 * 6) ∧
      (MKS_POWER_OF_2.POWER_OF_2 = true → pow2_loop (1000 * 6) 64 2048 = some size) ∧
      (∀ f m1, Alloc_Mem demo_tables size = .fault f m1 →
        Series_Data_Alloc demo_tables blank_series 1000 6 MKS_POWER_OF_2 = .fault f m1) ∧
      (∀ m1, Alloc_Mem demo_tables size = .ok none m1 →
        ∃ r, Series_Data_Alloc demo_tables blank_series 1000 6 MKS_POWER_OF_2 =
          .ok (false, r) m1) ∧
      ∀ data m1 pool, Alloc_Mem demo_tables size = .ok (some data) m1 →
        m1.pool SYSTEM_POOL = some pool →
        ∃ r m2, Series_Data_Alloc demo_tables blank_series 1000 6 MKS_POWER_OF_2 =
            .ok (true, r) m2 ∧
          r.data = some data ∧ r.mem.length = size ∧
          Series_Allocation_Unpooled r = some size ∧
          ∃ m3, Free_Unbiased_Series_Data m2 data size = .ok () m3 ∧
            m3.blocks data = none :=
  ⟨by decide, by decide,
    Series_Allocation_Unpooled_recomputes demo_tables blank_series 1000 6 MKS_POWER_OF_2
      (Or.inr (by decide)) (by decide) (by decide) (by decide)
      (fun h => absurd (show demo_tables.cfg.NDEBUG = true from rfl) (by rw [h]; decide))
      (fun h => absurd h (by decide))⟩

theorem Fill_Pool_first_assert {m : Memory} {id : Nat} {pool : REBPOL} {seg : Nat}
    {m1 : Memory} (hp : m.pool id = some pool) (hfirst : pool.first = none)
    (hlast : pool.last = none) (hunits : 0 < pool.units)
    (ha : Alloc_Mem m (u32 (pool.wide * pool.units + m.cfg.sizeof_REBSEG)) =
      .ok (some seg) m1) :
    ∃ m2, Fill_Pool m id = .ok () m2 := by
  obtain ⟨k, hk⟩ : ∃ k, pool.units = k + 1 := ⟨pool.units - 1, by omega⟩
  rw [hk] at ha
  unfold Fill_Pool
  simp only [hp, hk, ha, hfirst, hlast, ne_eq, not_true_eq_false, and_false, if_false]
  exact ⟨_, rfl⟩

theorem Alloc_Mem_pools (m : Memory) (size : Nat) :
    (Alloc_Mem m size).mem.Mem_Pools = m.Mem_Pools := by
  unfold Alloc_Mem malloc
  simp only []
  split_ifs <;> rfl

theorem pool_of_pools {m m1 : Memory} (h : m1.Mem_Pools = m.Mem_Pools) (j : Nat) :
    m1.pool j = m.pool j := by
  unfold Memory.pool
  rw [h]

theorem Fill_Pool_others (m : Memory) (id j : Nat) (hj : j ≠ id) :
    (Fill_Pool m id).mem.pool j = m.pool j := by
  have hne : id ≠ j := fun e => hj e.symm
  unfold Fill_Pool
  cases hp : m.pool id with
  | none => rfl
  | some pool =>
    simp only []
    have ha := Alloc_Mem_pools m (u32 (pool.wide * pool.units + m.cfg.sizeof_REBSEG))
    cases hal : Alloc_Mem m (u32 (pool.wide * pool.units + m.cfg.sizeof_REBSEG)) with
    | fault f m1 =>
      rw [hal] at ha
      exact pool_of_pools ha j
    | ok r m1 =>
      rw [hal] at ha
      have h1 : m1.pool j = m.pool j := pool_of_pools ha j
      cases r with
      | none => exact h1
      | some seg =>
        simp only []
        split
        · rw [Result.mem_fault, pool_set_pool_ne _ _ _ _ hne]; exact h1
        · rename_i pool2 m2 hl
          have h2 : m2.pool j = m.pool j := by
            split at hl
            · split_ifs at hl
              simp only [Option.some.injEq, Prod.mk.injEq] at hl
              rw [← hl.2]; exact h1
            · split at hl
              · exact Option.noConfusion hl
              · simp only [Option.some.injEq, Prod.mk.injEq] at hl
                rw [← hl.2]; exact h1
          split
          · rw [Result.mem_fault, pool_set_pool_ne _ _ _ _ hne]; exact h2
          · rw [Result.mem_ok, pool_set_pool_ne _ _ _ _ hne]; exact h2

theorem Make_Node_others (m : Memory) (id j : Nat) (hj : j ≠ id) :
    (Make_Node m id).mem.pool j = m.pool j := by
  have hne : id ≠ j := fun e => hj e.symm
  unfold Make_Node
  cases hp : m.pool id with
  | none => rfl
  | some pool =>
    simp only []
    have hfill : ∀ m1, (if pool.first = none then Fill_Pool m id else Result.ok () m).mem = m1 →
        m1.pool j = m.pool j := by
      intro m1 h
      split_ifs at h
      · rw [← h]; exact Fill_Pool_others m id j hj
      · rw [← h]; rfl
    cases hf : (if pool.first = none then Fill_Pool m id else Result.ok () m) with
    | fault f m1 => exact hfill m1 (by rw [hf]; rfl)
    | ok u m1 =>
      have h1 := hfill m1 (by rw [hf]; rfl)
      simp only []
      cases hp1 : m1.pool id with
      | none => exact h1
      | some pool1 =>
        simp only []
        cases hfirst : pool1.first with
        | none => exact h1
        | some node =>
          simp only []
          split_ifs <;> exact (pool_set_pool_ne _ _ _ _ hne).trans h1

theorem Free_Node_others (m : Memory) (id pv j : Nat) (hj : j ≠ id) :
    (Free_Node m id pv).mem.pool j = m.pool j := by
  have hne : id ≠ j := fun e => hj e.symm
  unfold Free_Node
  simp only []
  split_ifs with h0 hrel
  · rfl
  · cases hp : (m.set_node pv { m.nodes pv with header := 0 }).pool id with
    | none => rfl
    | some pool =>
      simp only [hrel, if_true]
      rw [Result.mem_ok, pool_set_pool_ne _ _ _ _ hne]; rfl
  · cases hp : (m.set_node pv { m.nodes pv with header := 0 }).pool id with
    | none => rfl
    | some pool =>
      simp only [hrel, if_false]
      have hfill : ∀ m2, (if pool.last = none then
          Fill_Pool (m.set_node pv { m.nodes pv with header := 0 }) id
          else Result.ok () (m.set_node pv { m.nodes pv with header := 0 })).mem = m2 →
          m2.pool j = m.pool j := by
        intro m2 h
        split_ifs at h
        · rw [← h, Fill_Pool_others _ id j hj]; rfl
        · rw [← h]; rfl
      cases hf : (if pool.last = none then
          Fill_Pool (m.set_node pv { m.nodes pv with header := 0 }) id
          else Result.ok () (m.set_node pv { m.nodes pv with header := 0 })) with
      | fault f m2 => exact hfill m2 (by rw [hf]; rfl)
      | ok u m2 =>
        have h2 := hfill m2 (by rw [hf]; rfl)
        simp only []
        cases hp2 : m2.pool id with
        | none => exact h2
        | some pool2 =>
          simp only []
          cases hl : pool2.last with
          | none => exact h2
          | some last =>
            simp only []
            rw [Result.mem_ok, pool_set_pool_ne _ _ _ _ hne]; exact h2

theorem Free_Mem_pools (m : Memory) (mem size : Nat) :
    (Free_Mem m mem size).mem.Mem_Pools = m.Mem_Pools := by
  unfold Free_Mem
  split_ifs <;> rfl

theorem Free_Unbiased_Series_Data_others (m : Memory) (unbiased size j : Nat)
    (hj : j ≠ FIND_POOL m size) (hs : j ≠ SYSTEM_POOL) :
    (Free_Unbiased_Series_Data m unbiased size).mem.pool j = m.pool j := by
  have hne : FIND_POOL m size ≠ j := fun e => hj e.symm
  have hns : SYSTEM_POOL ≠ j := fun e => hs e.symm
  unfold Free_Unbiased_Series_Data
  simp only []
  split_ifs with h0
  · cases hp : m.pool (FIND_POOL m size) with
    | none => rfl
    | some pool =>
      simp only []
      split_ifs
      · rfl
      · rw [Result.mem_ok]
        show ((m.set_node unbiased _).set_pool (FIND_POOL m size) _).pool j = m.pool j
        rw [pool_set_pool_ne _ _ _ _ hne]; rfl
  · have h1 := Free_Mem_pools m unbiased size
    cases hf : Free_Mem m unbiased size with
    | fault f m1 =>
      rw [hf] at h1
      exact pool_of_pools h1 j
    | ok u m1 =>
      rw [hf] at h1
      have h2 : m1.pool j = m.pool j := pool_of_pools h1 j
      simp only []
      cases hp : m1.pool SYSTEM_POOL with
      | none => exact h2
      | some pool =>
        simp only []
        rw [Result.mem_ok, pool_set_pool_ne _ _ _ _ hns]; exact h2

theorem Pool_Map_Entry_lt (c : Config) (n : Nat) (hn : n ≤ 4 * MEM_BIG_SIZE) :
    Pool_Map_Entry c n < SER_POOL := by
  have hbig : MEM_BIG_SIZE = 1024 := rfl
  have hser : SER_POOL = 24 := rfl
  have htiny : MEM_TINY_POOL = 0 := rfl
  have hsmall : MEM_SMALL_POOLS = 16 := rfl
  have hmid : MEM_MID_POOLS = 20 := rfl
  rw [hbig] at hn
  rw [hser]
  unfold Pool_Map_Entry
  rw [htiny, hsmall, hmid, hbig]
  generalize MEM_MIN_SIZE c = w
  split_ifs with h1 h2 h3
  · omega
  · have hw : 0 < w := by
      by_contra hc
      have : w = 0 := by omega
      subst this
      omega
    have : (n - 1) / w < 16 := (Nat.div_lt_iff_lt_mul hw).2 (by omega)
    generalize (n - 1) / w = d at this ⊢
    omega
  · have hw : 0 < w * 4 := by
      by_contra hc
      have : w = 0 := by omega
      subst this
      omega
    have : (n - 1) / (w * 4) < 8 := (Nat.div_lt_iff_lt_mul hw).2 (by omega)
    generalize (n - 1) / (w * 4) = d at this ⊢
    omega
  · have : (n - 1) / 1024 < 4 := (Nat.div_lt_iff_lt_mul (by decide)).2 (by omega)
    omega

theorem FIND_POOL_range {m : Memory} (hmap : m.PG_Pool_Map = Init_Pool_Map m.cfg) (n : Nat) :
    FIND_POOL m n < SER_POOL ∨ FIND_POOL m n = SYSTEM_POOL := by
  unfold FIND_POOL
  split_ifs with h1 h2 h3
  · left; rw [hmap, Init_Pool_Map_getD _ _ h2]; exact Pool_Map_Entry_lt _ _ h2
  · right; rfl
  · left; rw [hmap, Init_Pool_Map_getD _ _ h3.2]; exact Pool_Map_Entry_lt _ _ h3.2
  · right; rfl

theorem Call_Step.pool_step {m m1 : Memory} (h : Call_Step m m1) : Pool_Step m m1 := by
  cases h with
  | fill id pool hid hp hfirst hf => exact .fill id hid hf
  | make id node hid hf => exact .make id node hid hf
  | free id node pool hser hid hp hl hf => exact .free id node pool hid hp hl hf
  | free_data node size hl hf => exact .free_data node size hl hf
  | store id node pool n hid hp hl => exact .store id node pool n hid hp hl
  | alloc size p hf => exact .alloc size p hf
  | system pool has free hp => exact .system _

theorem Call_Reach.pool_reach {m0 m : Memory} (h : Call_Reach m0 m) : Pool_Reach m0 m := by
  induction h with
  | start => exact .start
  | step _ hs ih => exact .step ih hs.pool_step

theorem Call_Step.same {m m1 : Memory} (h : Call_Step m m1) : Same_Tables m m1 := by
  cases h with
  | fill id pool hid hp hfirst hf => exact Result.same_of_ok (Fill_Pool_same m id) hf
  | make id node hid hf => exact Result.same_of_ok (Make_Node_same m id) hf
  | free id node pool hser hid hp hl hf => exact Result.same_of_ok (Free_Node_same m id node) hf
  | free_data node size hl hf =>
    exact Result.same_of_ok (Free_Unbiased_Series_Data_same m node size) hf
  | store id node pool n hid hp hl => exact Same_Tables.set_node _ _ _
  | alloc size p hf => exact Result.same_of_ok (Alloc_Mem_same m size) hf
  | system pool has free hp =>
    refine Same_Tables.set_pool _ _ _ (fun q hq => ?_)
    rw [hp] at hq
    simp only [Option.some.injEq] at hq
    rw [← hq]

theorem getLast_head_nodup {a : Nat} {rest : List Nat} (hn : (a :: rest).Nodup)
    (hl : (a :: rest).getLast? = some a) : rest = [] := by
  cases rest with
  | nil => rfl
  | cons b r =>
    exfalso
    rw [List.getLast?_cons_cons] at hl
    exact (List.nodup_cons.1 hn).1 (List.mem_of_getLast?_eq_some hl)

theorem Make_Node_tail_free {m m1 : Memory} {id node : Nat} {pool : REBPOL} {fl : List Nat}
    (hp : m.pool id = some pool) (hfl : Pool_OK m pool fl) (hfirst : pool.first ≠ none)
    (hlast : pool.last ≠ none) (hf : Make_Node m id = .ok node m1) :
    ∃ pool1, m1.pool id = some pool1 ∧ (pool1.last = none → pool1.first = none) := by
  obtain ⟨a, ha⟩ := Option.ne_none_iff_exists'.1 hfirst
  obtain ⟨l, hl⟩ := Option.ne_none_iff_exists'.1 hlast
  unfold Make_Node at hf
  simp only [hp, ha, reduceCtorEq, if_false] at hf
  split_ifs at hf with hdbg hal
  · simp only [Result.ok.injEq] at hf
    rw [← hf.2]
    refine ⟨_, pool_set_pool_same _ _ _ _ hp, fun _ => ?_⟩
    rw [hl] at hal
    simp only [Option.some.injEq] at hal
    subst hal
    have hc := hfl.chain
    cases fl with
    | nil =>
      rw [ha] at hc
      exact absurd hc (by simp [IsFreeList])
    | cons b rest =>
      have hb : a = b := by
        have := hc.1
        rw [ha] at this
        exact Option.some.inj this
      subst hb
      have hr := getLast_head_nodup hfl.nodup (hfl.last_ok a hl)
      subst hr
      exact hc.2
  · simp only [Result.ok.injEq] at hf
    rw [← hf.2]
    refine ⟨_, pool_set_pool_same _ _ _ _ hp, fun hnone => ?_⟩
    exact absurd hnone hlast

theorem Make_Node_tail {m m1 : Memory} {id node : Nat} {pool : REBPOL} (h : Pools_OK m)
    (hid : id < SYSTEM_POOL) (hp : m.pool id = some pool)
    (hJ : pool.last = none → pool.first = none) (hf : Make_Node m id = .ok node m1) :
    ∃ pool1, m1.pool id = some pool1 ∧ (pool1.last = none → pool1.first = none) := by
  obtain ⟨fl, hfl⟩ := h.pools id pool hid hp
  by_cases hfirst : pool.first = none
  · cases hfill : Fill_Pool m id with
    | fault f m2 =>
      unfold Make_Node at hf
      rw [hp] at hf
      simp [hfirst, hfill] at hf
    | ok u m2 =>
      obtain ⟨pool2, seg, hp2, hsegs, hwide, hunits, hframe, hcfg2, hlast2, hfl2, h2, hge, hhas2,
        hfree2⟩ := Fill_Pool_spec h hid hfill hp hfl
      have hne : pool2.first ≠ none := by
        intro e
        have hc := hfl2.chain
        rw [e] at hc
        have hlen := hfl2.free_eq
        rw [hfree2] at hlen
        have := hfl.units_pos
        cases hl : fl ++ seg_nodes m.cfg pool seg with
        | nil => rw [hl] at hlen; simp at hlen; omega
        | cons a t => rw [hl] at hc; exact absurd hc.1 (by simp)
      rw [Make_Node_fill hp hfirst hfill hcfg2 hp2 hne] at hf
      exact Make_Node_tail_free hp2 hfl2 hne hlast2 hf
  · exact Make_Node_tail_free hp hfl hfirst (fun e => hfirst (hJ e)) hf

theorem Free_Node_tail {m m1 : Memory} {id node : Nat} (hdbg : m.cfg.NDEBUG = false)
    (hf : Free_Node m id node = .ok () m1) :
    ∃ pool1, m1.pool id = some pool1 ∧ pool1.last ≠ none := by
  unfold Free_Node at hf
  simp only [hdbg, Bool.false_eq_true, not_false_eq_true, true_and, if_false] at hf
  split_ifs at hf with h0
  split at hf
  · exact Result.noConfusion hf
  rename_i pool hp
  split at hf
  · exact Result.noConfusion hf
  rename_i u m2 hfill
  split at hf
  · exact Result.noConfusion hf
  rename_i pool2 hp2
  split at hf
  · exact Result.noConfusion hf
  rename_i last hl
  simp only [Result.ok.injEq, true_and] at hf
  rw [← hf]
  exact ⟨_, pool_set_pool_same _ _ _ pool2 hp2, fun e => Option.noConfusion e⟩

theorem Call_Step.tail {m m1 : Memory} (h : Pools_OK m)
    (hmap : m.PG_Pool_Map = Init_Pool_Map m.cfg) (ht : Tail_OK m) (hs : Call_Step m m1) :
    Tail_OK m1 := by
  have hsame := hs.same
  intro hdbg1 j pj hser hj hpj hlast
  have hdbg : m.cfg.NDEBUG = false := by rw [← hsame.cfg]; exact hdbg1
  have hframe : m1.pool j = m.pool j → pj.first = none := by
    intro e
    rw [e] at hpj
    exact ht hdbg j pj hser hj hpj hlast
  cases hs with
  | fill id pool hid hp hfirst hf =>
    by_cases e : j = id
    · subst e
      obtain ⟨fl, hfl⟩ := h.pools j pool hid hp
      obtain ⟨pool1, seg, hp1, _, _, _, _, _, hlast1, _⟩ := Fill_Pool_spec h hid hf hp hfl
      rw [hp1] at hpj
      simp only [Option.some.injEq] at hpj
      subst hpj
      exact absurd hlast hlast1
    · have := Fill_Pool_others m id j e
      rw [hf] at this
      exact hframe this
  | make id node hid hf =>
    by_cases e : j = id
    · subst e
      cases hp : m.pool j with
      | none =>
        unfold Make_Node at hf
        rw [hp] at hf
        exact Result.noConfusion hf
      | some pool =>
        obtain ⟨pool1, hp1, hJ1⟩ := Make_Node_tail h hid hp (ht hdbg j pool hser hj hp) hf
        rw [hp1] at hpj
        simp only [Option.some.injEq] at hpj
        subst hpj
        exact hJ1 hlast
    · have := Make_Node_others m id j e
      rw [hf] at this
      exact hframe this
  | free id node pool hser2 hid hp hl hf =>
    by_cases e : j = id
    · subst e
      obtain ⟨pool1, hp1, hl1⟩ := Free_Node_tail hdbg hf
      rw [hp1] at hpj
      simp only [Option.some.injEq] at hpj
      subst hpj
      exact absurd hlast hl1
    · have := Free_Node_others m id node j e
      rw [hf] at this
      exact hframe this
  | free_data node size hl hf =>
    have hne : j ≠ FIND_POOL m size := by
      rcases FIND_POOL_range hmap size with hlt | heq
      · omega
      · omega
    have := Free_Unbiased_Series_Data_others m node size j hne (by omega)
    rw [hf] at this
    exact hframe this
  | store id node pool n hid hp hl => exact hframe rfl
  | alloc size p hf => exact hframe (pool_of_pools (Alloc_Mem_frame hf).2.1 j)
  | system pool has free hp =>
    exact hframe (pool_set_pool_ne _ _ _ _ (by omega))

theorem Call_Reach.invariant {m0 m : Memory} (h0 : Pools_OK m0)
    (hmap : m0.PG_Pool_Map = Init_Pool_Map m0.cfg) (ht : Tail_OK m0) (hr : Call_Reach m0 m) :
    Pools_OK m ∧ m.PG_Pool_Map = Init_Pool_Map m.cfg ∧ Tail_OK m := by
  induction hr with
  | start => exact ⟨h0, hmap, ht⟩
  | step _ hs ih =>
    obtain ⟨h1, h2, h3⟩ := ih
    have hsame := hs.same
    exact ⟨Pool_Step_preserves h1 hs.pool_step, by rw [hsame.map, hsame.cfg]; exact h2,
      hs.tail h1 h2 h3⟩

theorem Tail_OK_init {m m0 : Memory} {scale unscale : Nat}
    (hinit : Init_Pools_Tables m scale unscale = some m0) : Tail_OK m0 := by
  intro _ id pool _ _ hp _
  unfold Init_Pools_Tables Init_Pool_Table at hinit
  split_ifs at hinit with hall
  simp only [Option.some.injEq] at hinit
  subst hinit
  simp only [Memory.pool, List.getElem?_map] at hp
  cases hs : (Mem_Pool_Spec m.cfg)[id]? with
  | none => rw [hs] at hp; exact Option.noConfusion hp
  | some spec =>
    rw [hs] at hp
    simp only [Option.map_some', Option.some.injEq] at hp
    rw [← hp]
    rfl

/-- C36: in every state reached from the tables Init_Pools builds by the calls the code
makes of Fill_Pool, Make_Node, Free_Node and Free_Unbiased_Series_Data (and by stores into
nodes that are handed out and allocations outside the pools), a pool whose `first` is NULL
has `last` NULL, and a `last` that is not NULL is the final node of the free list. Hence
the assertions of Fill_Pool hold at both of its calls, and the call returns when Alloc_Mem
gives the memory of the segment. Make_Node calls Fill_Pool when `first` is NULL: `last` is
NULL then, which is the assertion of the branch taken. Free_Node calls it in a debug build
when `last` is NULL, on a pool that holds no series data: `first` is NULL then, so the same
branch is taken and its assertion holds; the branch with the assertion `pool->last != NULL`
is not entered. -/
theorem pool_last_invariant (mb m0 m : Memory) (scale unscale : Nat)
    (hm : Machine_OK mb scale unscale) (hinit : Init_Pools_Tables mb scale unscale = some m0)
    (hr : Call_Reach m0 m) (id : Nat) (pool : REBPOL) (hid : id < SYSTEM_POOL)
    (hp : m.pool id = some pool) :
    (pool.first = none → pool.last = none) ∧
    (∀ l, pool.last = some l →
      ∃ fl, IsFreeList m.nodes pool.first fl ∧ fl.getLast? = some l) ∧
    (pool.first = none → ∀ seg m1,
      Alloc_Mem m (u32 (pool.wide * pool.units + m.cfg.sizeof_REBSEG)) = .ok (some seg) m1 →
      ∃ m2, Fill_Pool m id = .ok () m2) ∧
    (m.cfg.NDEBUG = false → SER_POOL ≤ id → pool.last = none →
      pool.first = none ∧ ∀ node seg m1,
        Alloc_Mem (m.set_node node { m.nodes node with header := 0 })
          (u32 (pool.wide * pool.units + m.cfg.sizeof_REBSEG)) = .ok (some seg) m1 →
        ∃ m2, Fill_Pool (m.set_node node { m.nodes node with header := 0 }) id =
          .ok () m2) := by
  obtain ⟨h, _, ht⟩ := Call_Reach.invariant (Pools_OK_init hm hinit)
    (Init_Pools_Tables_spec hinit).1 (Tail_OK_init hinit) hr
  obtain ⟨fl, hfl⟩ := h.pools id pool hid hp
  have h1 : pool.first = none → pool.last = none := by
    intro hf
    cases hl : pool.last with
    | none => rfl
    | some l =>
      have h2 := hfl.last_ok l hl
      have h3 := hfl.chain
      rw [hf] at h3
      cases fl with
      | nil => simp at h2
      | cons a fl1 => exact absurd h3.1 (by simp)
  refine ⟨h1, fun l hl => ⟨fl, hfl.chain, hfl.last_ok l hl⟩, ?_, ?_⟩
  · intro hf seg m1 ha
    exact Fill_Pool_first_assert hp hf (h1 hf) hfl.units_pos ha
  · intro hdbg hser hl
    have hf := ht hdbg id pool hser hid hp hl
    refine ⟨hf, fun node seg m1 ha => ?_⟩
    exact Fill_Pool_first_assert
      (show (m.set_node node { m.nodes node with header := 0 }).pool id = some pool from hp)
      hf hl hfl.units_pos ha

set_option maxRecDepth 1000000 in
theorem debug_series2_reach : Call_Reach debug_tables debug_series2 :=
  .step (.step (.step .start (.make SER_POOL 4120 (by decide) rfl))
    (.make SER_POOL 4184 (by decide) rfl))
    (.store SER_POOL 4120 ⟨[⟨4104, 144⟩], none, none, 64, 2, 0, 2⟩ _ (by decide) rfl
      (Live.of_chain (show IsFreeList _ none [] from rfl) (by decide) (by decide)))

set_option maxRecDepth 1000000 in
/-- Witness of C36. In the debug state `debug_series2` both nodes of the series pool are
handed out, `first` and `last` are NULL, and Free_Node on the node 4120 calls Fill_Pool,
which returns with the segment at 4256. In the release state `demo_made`, reached by one
`Make_Node(3)`, the last node 4240 of pool 3 is the final node of the free list. -/
theorem pool_last_invariant_witness :
    (Machine_OK debug_boot 1 4096 ∧ Init_Pools_Tables debug_boot 1 4096 = some debug_tables ∧
      Call_Reach debug_tables debug_series2 ∧ SER_POOL < SYSTEM_POOL ∧
      debug_series2.pool SER_POOL = some ⟨[⟨4104, 144⟩], none, none, 64, 2, 0, 2⟩ ∧
      debug_series2.cfg.NDEBUG = false ∧
      ∃ m2, Fill_Pool (debug_series2.set_node 4120
        { debug_series2.nodes 4120 with header := 0 }) SER_POOL = .ok () m2) ∧
    (Machine_OK demo_boot 1 4096 ∧ Init_Pools_Tables demo_boot 1 4096 = some demo_tables ∧
      Call_Reach demo_tables demo_made ∧ 3 < SYSTEM_POOL ∧
      demo_made.pool 3 = some ⟨[⟨4096, 272⟩], some 4240, some 4240, 128, 2, 1, 2⟩ ∧
      ∃ fl, IsFreeList demo_made.nodes (some 4240) fl ∧ fl.getLast? = some 4240) :=
  ⟨⟨⟨by decide, by decide, by decide, by decide, by decide⟩, rfl, debug_series2_reach,
      by decide, rfl, rfl,
      ((pool_last_invariant debug_boot debug_tables debug_series2 1 4096
        ⟨by decide, by decide, by decide, by decide, by decide⟩ rfl debug_series2_reach
        SER_POOL ⟨[⟨4104, 144⟩], none, none, 64, 2, 0, 2⟩ (by decide) rfl).2.2.2
        rfl (Nat.le_refl _) rfl).2 4120 4256 _ rfl⟩,
    ⟨⟨by decide, by decide, by decide, by decide, by decide⟩, rfl,
      .step .start (.make 3 4112 (by decide) rfl), by decide, rfl,
      (pool_last_invariant demo_boot demo_tables demo_made 1 4096
        ⟨by decide, by decide, by decide, by decide, by decide⟩ rfl
        (.step .start (.make 3 4112 (by decide) rfl)) 3
        ⟨[⟨4096, 272⟩], some 4240, some 4240, 128, 2, 1, 2⟩ (by decide) rfl).2.1 4240 rfl⟩⟩

theorem align_up_spec (n align : Nat) (h : 0 < align) :
    align ∣ n + (if n % align ≠ 0 then align - n % align else n % align) ∧
    n + (if n % align ≠ 0 then align - n % align else n % align) < n + align ∧
    ∀ k, align ∣ k → n ≤ k → n + (if n % align ≠ 0 then align - n % align else n % align) ≤ k := by
  have hlt : n % align < align := Nat.mod_lt n h
  have hdm : align * (n / align) + n % align = n := Nat.div_add_mod n align
  by_cases hp : n % align = 0
  · simp only [hp, ne_eq, not_true_eq_false, if_false, Nat.add_zero]
    exact ⟨Nat.dvd_of_mod_eq_zero hp, by omega, fun k _ hk => hk⟩
  · simp only [ne_eq, hp, not_false_eq_true, if_true]
    have he : n + (align - n % align) = align * (n / align + 1) := by
      rw [Nat.mul_add, Nat.mul_one]
      omega
    refine ⟨?_, by omega, ?_⟩
    · rw [he]; exact Nat.dvd_mul_right _ _
    · intro k hk hn
      obtain ⟨j, rfl⟩ := hk
      rw [he]
      apply Nat.mul_le_mul_left
      by_contra hc
      have hj : j ≤ n / align := by omega
      have : align * j ≤ align * (n / align) := Nat.mul_le_mul_left _ hj
      omega

theorem Expand_Series_slide_room {m m1 : Memory} {s s1 : REBSER} {delta : Nat}
    (hs : Series_OK s) (hna : s.is_array = false) (hd : delta * s.wide < 2147483648)
    (h : Expand_Series_slide m s s.len delta = .ok s1 m1) :
    s.bias * s.wide + (s.len + delta) * s.wide + s.wide ≤ s.mem.length := by
  have hlen : SER_LEN s = s.len := by unfold SER_LEN; rw [if_pos hs.dynamic]
  have hfit := hs.fits
  have hsm := hs.small
  have hroom := hs.room
  have hw := hs.wide_pos
  have hlw : s.len * s.wide < 2147483648 := by
    have h2 : s.len * s.wide + s.wide ≤ (s.bias + s.rest) * s.wide := by
      calc s.len * s.wide + s.wide = (s.len + 1) * s.wide := by ring
        _ ≤ (s.bias + s.rest) * s.wide := Nat.mul_le_mul_right _ (by omega)
    omega
  have hdl : s.len + delta < 4294967296 := by
    have h1 : s.len ≤ s.len * s.wide := Nat.le_mul_of_pos_right _ hw
    have h2 : delta ≤ delta * s.wide := Nat.le_mul_of_pos_right _ hw
    omega
  have hraw : SER_DATA_RAW m.cfg s = some (s.base + s.bias * s.wide) := by
    unfold SER_DATA_RAW; rw [if_pos hs.dynamic, hs.data]
  unfold Expand_Series_slide at h
  simp only [hlen, hraw] at h
  rw [u32_of_lt (show s.len * s.wide < 4294967296 by omega),
    u32_of_lt (show delta * s.wide < 4294967296 by omega), u32_of_lt hdl] at h
  have hz : u32 (s.len * s.wide + 4294967296 - s.len * s.wide) = 0 := by
    have : s.len * s.wide + 4294967296 - s.len * s.wide = 4294967296 := by omega
    rw [this]; rfl
  rw [hz] at h
  split at h
  · simp at h
  · rename_i s2 hw2
    have e2 := REBSER.memmove_zero hw2
    subst e2
    have hset : SET_SERIES_LEN s2 (s2.len + delta) = { s2 with len := s2.len + delta } := by
      unfold SET_SERIES_LEN; rw [if_pos hs.dynamic]
    rw [hset] at h
    split_ifs at h with hdb
    split at h
    · simp at h
    · rename_i s3 ht
      unfold TERM_SERIES at ht
      simp only [hna, Bool.false_eq_true, if_false] at ht
      unfold TERM_SEQUENCE SER_DATA_RAW SER_LEN at ht
      simp only [hs.dynamic, if_true, hs.data] at ht
      have hmul : s2.wide * (s2.len + delta) < 4294967296 := by
        have : s2.wide * (s2.len + delta) = s2.len * s2.wide + delta * s2.wide := by ring
        omega
      rw [u32_of_lt hmul] at ht
      obtain ⟨w1, w2, w3, w4, w5⟩ := REBSER.write_some ht
      simp only [List.length_replicate] at w2
      have : s2.wide * (s2.len + delta) = (s2.len + delta) * s2.wide := Nat.mul_comm _ _
      have hb : ({ s2 with len := s2.len + delta } : REBSER).base = s2.base := rfl
      have hm : ({ s2 with len := s2.len + delta } : REBSER).mem = s2.mem := rfl
      rw [hb, hm] at w2
      omega

theorem Expand_Series_move_room {m m1 : Memory} {s s1 : REBSER} {delta : Nat}
    (hs : Series_OK s) (hna : s.is_array = false) (hd : delta * s.wide < 2147483648)
    (h : Expand_Series_move m s s.len delta = .ok s1 m1) :
    (s.len + delta) * s.wide + s.wide ≤ s1.mem.length := by
  have hlen : SER_LEN s = s.len := by unfold SER_LEN; rw [if_pos hs.dynamic]
  have hfit := hs.fits
  have hsm := hs.small
  have hroom := hs.room
  have hw := hs.wide_pos
  have hlw : s.len * s.wide < 2147483648 := by
    have h2 : s.len * s.wide + s.wide ≤ (s.bias + s.rest) * s.wide := by
      calc s.len * s.wide + s.wide = (s.len + 1) * s.wide := by ring
        _ ≤ (s.bias + s.rest) * s.wide := Nat.mul_le_mul_right _ (by omega)
    omega
  have hdl : s.len + delta < 4294967296 := by
    have h1 : s.len ≤ s.len * s.wide := Nat.le_mul_of_pos_right _ hw
    have h2 : delta ≤ delta * s.wide := Nat.le_mul_of_pos_right _ hw
    omega
  have hraw : SER_DATA_RAW m.cfg s = some (s.base + s.bias * s.wide) := by
    unfold SER_DATA_RAW; rw [if_pos hs.dynamic, hs.data]
  have hz : u32 (s.len * s.wide + 4294967296 - s.len * s.wide) = 0 := by
    have : s.len * s.wide + 4294967296 - s.len * s.wide = 4294967296 := by omega
    rw [this]; rfl
  unfold Expand_Series_move at h
  simp only [hlen, hraw] at h
  rw [u32_of_lt (show s.len * s.wide < 4294967296 by omega),
    u32_of_lt (show delta * s.wide < 4294967296 by omega), u32_of_lt hdl, hz] at h
  rw [if_pos hs.dynamic] at h
  cases hso : Series_Allocation_Unpooled s with
  | none => rw [hso] at h; simp at h
  | some size_old =>
    rw [hso] at h
    simp only [] at h
    split at h
    · simp at h
    · simp at h
    · rename_i r m2 hal
      have hp := Series_Data_Alloc_ok hal
      obtain ⟨m2', hm2'⟩ : ∃ m2' : Memory,
          (if (Prior_Expand_loop m.Prior_Expand s.node (List.range MAX_EXPAND_LIST) 0).1.isSome
              = true then m2
            else { m2 with Prior_Expand := (List.set m2.Prior_Expand
              (Prior_Expand_loop m.Prior_Expand s.node (List.range MAX_EXPAND_LIST) 0).2
              s.node) }) = m2' := ⟨_, rfl⟩
      simp only [hm2'] at h
      split at h
      swap
      · simp at h
      rename_i d1 d2 d3 data head tail hdata hhead htail
      have ht0 := REBSER.read_zero htail
      subst ht0
      split at h
      · simp at h
      rename_i s2 hw2
      split at h
      · simp at h
      rename_i s3 hw3
      have e3 := REBSER.write_nil hw3
      subst e3
      split at h
      · simp at h
      rename_i s4 hterm
      have hrf := hp.fields
      have a2 := REBSER.write_some hw2
      have hs3f : s3 = { r with mem := s3.mem } := a2.2.2.1
      have hna3 : s3.is_array = false := by rw [hs3f, hrf]; exact hna
      have hw3 : s3.wide = s.wide := by rw [hs3f, hrf]
      have hdy3 : s3.has_dynamic = true := by rw [hs3f, hrf]
      have hd3 : s3.data = some data := by rw [hs3f]; exact hdata
      have hdb : data = r.base := by
        rw [hrf] at hdata
        simp only [Option.some.injEq] at hdata
        exact hdata.symm
      have hbs3 : s3.base = r.base := by rw [hs3f]
      unfold TERM_SERIES at hterm
      simp only [hna3, Bool.false_eq_true, if_false] at hterm
      unfold TERM_SEQUENCE SER_DATA_RAW SER_LEN at hterm
      simp only [hdy3, if_true, hd3, hw3] at hterm
      have hmul : s.wide * (s.len + delta) < 4294967296 := by
        have : s.wide * (s.len + delta) = s.len * s.wide + delta * s.wide := by ring
        omega
      rw [u32_of_lt hmul] at hterm
      obtain ⟨w1, w2, w3, w4, w5⟩ := REBSER.write_some hterm
      simp only [List.length_replicate] at w2
      have hb : ({ s3 with len := s.len + delta } : REBSER).base = s3.base := rfl
      have hm : ({ s3 with len := s.len + delta } : REBSER).mem = s3.mem := rfl
      have hm4 : ({ s3 with len := s.len + delta } : REBSER).mem.length = s3.mem.length := rfl
      rw [hb, hm, hbs3, hdb] at w2
      rw [hm4] at w4
      have hres : s1 = s4 := by
        split_ifs at h with hfree
        · split at h
          · simp at h
          · simp only [Result.ok.injEq] at h
            exact h.1.symm
        · exact absurd hs.dynamic hfree
      rw [hres, w4]
      have : s.wide * (s.len + delta) = (s.len + delta) * s.wide := Nat.mul_comm _ _
      omega

theorem Expand_Series_tail_room {m m1 : Memory} {s s1 : REBSER} {delta : Nat}
    (hs : Series_OK s) (hna : s.is_array = false) (hd : delta * s.wide < 2147483648)
    (h : Expand_Series m s s.len delta = .ok s1 m1) :
    s1.has_dynamic = true ∧ s1.wide = s.wide ∧ s1.len = s.len + delta ∧
    ∃ d, s1.data = some d ∧ s1.base ≤ d ∧
      d + (s.len + delta) * s.wide + s.wide ≤ s1.base + s1.mem.length := by
  have hfit := hs.fits
  have hroom := hs.room
  have hw := hs.wide_pos
  have hcap : s.bias * s.wide + s.len * s.wide + s.wide ≤ (s.bias + s.rest) * s.wide := by
    calc s.bias * s.wide + s.len * s.wide + s.wide = (s.bias + s.len + 1) * s.wide := by ring
      _ ≤ (s.bias + s.rest) * s.wide := Nat.mul_le_mul_right _ (by omega)
  have hdl : delta < 4294967296 := by
    have h2 : delta ≤ delta * s.wide := Nat.le_mul_of_pos_right _ hw
    omega
  unfold Expand_Series at h
  simp only [] at h
  split_ifs at h with h1 h2 h3 h4 h5 h6
  · simp only [Result.ok.injEq] at h
    obtain ⟨rfl, rfl⟩ := h
    subst h3
    refine ⟨hs.dynamic, rfl, rfl, _, hs.data, by omega, ?_⟩
    rw [Nat.add_zero]
    omega
  · unfold Expand_Series_head at h
    rw [hs.data] at h
    simp only [] at h
    split_ifs at h with h7
    simp only [Result.ok.injEq] at h
    obtain ⟨rfl, rfl⟩ := h
    obtain ⟨_, h42, h43⟩ := h4
    unfold SER_BIAS at h43
    have hmul : s.wide * delta = delta * s.wide := Nat.mul_comm _ _
    have hbd : delta * s.wide ≤ s.bias * s.wide := Nat.mul_le_mul_right _ h43
    refine ⟨hs.dynamic, rfl, ?_, _, rfl, ?_, ?_⟩
    · show u32 (s.len + delta) = s.len + delta
      rw [h42, Nat.zero_add]
      exact u32_of_lt hdl
    · show s.base ≤ s.base + s.bias * s.wide - u32 (s.wide * delta)
      rw [hmul, u32_of_lt (by omega)]
      omega
    · show s.base + s.bias * s.wide - u32 (s.wide * delta) + (s.len + delta) * s.wide + s.wide ≤
        s.base + s.mem.length
      rw [hmul, u32_of_lt (by omega), h42, Nat.zero_add]
      rw [h42] at hcap
      omega
  · obtain ⟨e1, e2, e3, _⟩ := Expand_Series_slide_tail hs hna hd h
    have hr := Expand_Series_slide_room hs hna hd h
    refine ⟨by rw [e2]; exact hs.dynamic, by rw [e2], by rw [e2], s.base + s.bias * s.wide,
      by rw [e2]; exact hs.data, ?_, ?_⟩
    · have : s1.base = s.base := by rw [e2]
      omega
    · have : s1.base = s.base := by rw [e2]
      omega
  · obtain ⟨_, e2, e3, _, e5, _, e7, _⟩ := Expand_Series_move_tail hs hna hd h
    have hr := Expand_Series_move_room hs hna hd h
    exact ⟨e2, e3, e5, s1.base, e7, Nat.le_refl _, by omega⟩

theorem Expand_Series_slide_returns {m : Memory} {s : REBSER} {delta : Nat}
    (hs : Series_OK s) (hna : s.is_array = false) (hcap : s.len + delta < s.rest) :
    ∃ s1, Expand_Series_slide m s s.len delta = .ok s1 m := by
  have hlen : SER_LEN s = s.len := by unfold SER_LEN; rw [if_pos hs.dynamic]
  have hfit := hs.fits
  have hsm := hs.small
  have hw := hs.wide_pos
  have hall : s.bias * s.wide + (s.len + delta) * s.wide + s.wide ≤
      (s.bias + s.rest) * s.wide := by
    calc s.bias * s.wide + (s.len + delta) * s.wide + s.wide
        = (s.bias + (s.len + delta) + 1) * s.wide := by ring
      _ ≤ (s.bias + s.rest) * s.wide := Nat.mul_le_mul_right _ (by omega)
  have hsplit : (s.len + delta) * s.wide = s.len * s.wide + delta * s.wide := by ring
  have hdl : s.len + delta < 4294967296 := by
    have h1 : s.len + delta ≤ (s.len + delta) * s.wide := Nat.le_mul_of_pos_right _ hw
    omega
  have hraw : SER_DATA_RAW m.cfg s = some (s.base + s.bias * s.wide) := by
    unfold SER_DATA_RAW; rw [if_pos hs.dynamic, hs.data]
  have hz : u32 (s.len * s.wide + 4294967296 - s.len * s.wide) = 0 := by
    have : s.len * s.wide + 4294967296 - s.len * s.wide = 4294967296 := by omega
    rw [this]; rfl
  have hmm : s.memmove (s.base + s.bias * s.wide + s.len * s.wide + delta * s.wide)
      (s.base + s.bias * s.wide + s.len * s.wide) 0 = some s := by
    unfold REBSER.memmove REBSER.read
    rw [if_pos ⟨by omega, by omega⟩]
    simp only [List.take_zero]
    unfold REBSER.write
    rw [if_pos ⟨by omega, by simp only [List.length_nil]; omega⟩]
    simp
  have hset : SET_SERIES_LEN s (s.len + delta) = { s with len := s.len + delta } := by
    unfold SET_SERIES_LEN; rw [if_pos hs.dynamic]
  have hmul : s.wide * (s.len + delta) < 4294967296 := by
    rw [Nat.mul_comm]; omega
  obtain ⟨s3, h3⟩ : ∃ s3, TERM_SERIES m.cfg { s with len := s.len + delta } = some s3 := by
    unfold TERM_SERIES
    simp only [hna, Bool.false_eq_true, if_false]
    unfold TERM_SEQUENCE SER_DATA_RAW SER_LEN
    simp only [hs.dynamic, if_true, hs.data]
    rw [u32_of_lt hmul]
    unfold REBSER.write
    rw [if_pos]
    · exact ⟨_, rfl⟩
    · simp only [List.length_replicate]
      have : s.wide * (s.len + delta) = (s.len + delta) * s.wide := Nat.mul_comm _ _
      constructor <;> omega
  have hdbg : ¬ (¬ m.cfg.NDEBUG = true ∧ s.has_dynamic = true ∧
      ¬ u32 ((SER_LEN { s with len := s.len + delta } +
        SER_BIAS { s with len := s.len + delta }) * s.wide) <
        SER_TOTAL { s with len := s.len + delta }) := by
    rintro ⟨_, _, h⟩
    apply h
    unfold SER_LEN SER_BIAS SER_TOTAL SER_BIAS
    simp only [hs.dynamic, if_true]
    have e1 : (s.len + delta + s.bias) * s.wide =
        s.bias * s.wide + (s.len + delta) * s.wide := by ring
    have e2 : (s.rest + s.bias) * s.wide = (s.bias + s.rest) * s.wide := by ring
    rw [u32_of_lt (by omega), u32_of_lt (by omega)]
    omega
  unfold Expand_Series_slide
  simp only [hlen, hraw]
  rw [u32_of_lt (show s.len * s.wide < 4294967296 by omega),
    u32_of_lt (show delta * s.wide < 4294967296 by omega), u32_of_lt hdl, hz, hmm]
  simp only [hset]
  rw [if_neg hdbg, h3]
  exact ⟨_, rfl⟩

theorem Expand_Series_tail_returns {m : Memory} {s : REBSER} {delta : Nat}
    (hs : Series_OK s) (hna : s.is_array = false) (hcap : s.len + delta < s.rest) :
    ∃ s1, Expand_Series m s s.len delta = .ok s1 m := by
  have hlen : SER_LEN s = s.len := by unfold SER_LEN; rw [if_pos hs.dynamic]
  have hfit := hs.fits
  have hsm := hs.small
  have hw := hs.wide_pos
  have hall : s.bias * s.wide + (s.len + delta) * s.wide + s.wide ≤
      (s.bias + s.rest) * s.wide := by
    calc s.bias * s.wide + (s.len + delta) * s.wide + s.wide
        = (s.bias + (s.len + delta) + 1) * s.wide := by ring
      _ ≤ (s.bias + s.rest) * s.wide := Nat.mul_le_mul_right _ (by omega)
  have hsplit : (s.len + delta) * s.wide = s.len * s.wide + delta * s.wide := by ring
  have hrw : s.rest * s.wide ≤ (s.bias + s.rest) * s.wide :=
    Nat.mul_le_mul_right _ (by omega)
  have hlr : (s.len + delta) * s.wide + s.wide ≤ s.rest * s.wide := by
    calc (s.len + delta) * s.wide + s.wide = (s.len + delta + 1) * s.wide := by ring
      _ ≤ s.rest * s.wide := Nat.mul_le_mul_right _ (by omega)
  have hdl : delta < 2147483648 := by
    have h1 : s.len + delta ≤ (s.len + delta) * s.wide := Nat.le_mul_of_pos_right _ hw
    omega
  unfold Expand_Series
  simp only [hlen]
  rw [if_neg (by simp), if_neg (by omega)]
  split_ifs with h3 h4 h5 h6
  · exact ⟨_, rfl⟩
  · unfold Expand_Series_head
    rw [hs.data]
    simp only []
    unfold SER_BIAS at h4
    have hbd : delta * s.wide ≤ s.bias * s.wide := Nat.mul_le_mul_right _ h4.2.2
    rw [if_neg]
    · exact ⟨_, rfl⟩
    · rw [Nat.mul_comm, u32_of_lt (by omega)]
      omega
  · exact Expand_Series_slide_returns hs hna hcap
  · exfalso
    apply h5
    unfold SER_REST
    rw [if_pos hs.dynamic]
    rw [u32_of_lt (show s.len * s.wide < 4294967296 by omega),
      u32_of_lt (show delta * s.wide < 4294967296 by omega),
      u32_of_lt (show s.rest * s.wide < 4294967296 by omega),
      u32_of_lt (by omega)]
    omega
  · exfalso
    apply h5
    unfold SER_REST
    rw [if_pos hs.dynamic]
    rw [u32_of_lt (show s.len * s.wide < 4294967296 by omega),
      u32_of_lt (show delta * s.wide < 4294967296 by omega),
      u32_of_lt (show s.rest * s.wide < 4294967296 by omega),
      u32_of_lt (by omega)]
    omega

theorem cast_signed_modEq (n : Nat) (y : Int) :
    cast_signed n y ≡ y [ZMOD 2 ^ (8 * n)] := by
  unfold cast_signed
  have h := (Int.mod_modEq (y + 2 ^ (8 * n - 1)) (2 ^ (8 * n))).sub_right (2 ^ (8 * n - 1))
  simpa using h

theorem cast_unsigned_modEq (n : Nat) (y : Int) :
    cast_unsigned n y ≡ y [ZMOD 2 ^ (8 * n)] := by
  unfold cast_unsigned
  exact Int.mod_modEq _ _

theorem FFI_Sym.converted_modEq (sym : FFI_Sym) (arg : RELVAL) :
    sym.converted arg ≡ arg.payload [ZMOD 2 ^ (8 * sym.size)] := by
  have h64 : VAL_INT64 arg ≡ arg.payload [ZMOD 2 ^ (8 * 8)] := cast_signed_modEq 8 _
  have hdvd : ∀ k, k ≤ 8 → VAL_INT64 arg ≡ arg.payload [ZMOD 2 ^ (8 * k)] := by
    intro k hk
    exact h64.of_dvd (pow_dvd_pow 2 (by omega))
  cases sym <;>
    simp only [FFI_Sym.converted, FFI_Sym.signed, FFI_Sym.size, if_true, if_false,
      Bool.false_eq_true]
  · exact (cast_unsigned_modEq 1 _).trans (hdvd 1 (by decide))
  · exact (cast_signed_modEq 1 _).trans (hdvd 1 (by decide))
  · exact (cast_unsigned_modEq 2 _).trans (hdvd 2 (by decide))
  · exact (cast_signed_modEq 2 _).trans (hdvd 2 (by decide))
  · exact (cast_unsigned_modEq 4 _).trans (hdvd 4 (by decide))
  · exact (cast_signed_modEq 4 _).trans (hdvd 4 (by decide))
  · exact h64
  · exact h64

theorem FFI_Sym.load_modEq (sym : FFI_Sym) (big_endian : Bool) (arg : RELVAL) :
    sym.load big_endian (int_bytes big_endian sym.size (sym.converted arg)) ≡
      arg.payload [ZMOD 2 ^ (8 * sym.size)] := by
  unfold FFI_Sym.load
  rw [bytes_unsigned_int_bytes]
  have h1 : sym.converted arg % 2 ^ (8 * sym.size) ≡ arg.payload [ZMOD 2 ^ (8 * sym.size)] :=
    (Int.mod_modEq _ _).trans (sym.converted_modEq arg)
  split_ifs
  · exact (cast_signed_modEq _ _).trans h1
  · exact h1

theorem cast_signed_holds (n : Nat) (hn : 0 < n) (y : Int) :
    -(2 ^ (8 * n - 1) : Int) ≤ cast_signed n y ∧ cast_signed n y < 2 ^ (8 * n - 1) := by
  unfold cast_signed
  have e : (2 : Int) ^ (8 * n) = 2 * 2 ^ (8 * n - 1) := by
    rw [← pow_succ']
    congr 1
    omega
  have hpos : (0 : Int) < 2 ^ (8 * n - 1) := by positivity
  rw [e]
  generalize (2 : Int) ^ (8 * n - 1) = P at *
  have h1 := Int.emod_nonneg (y + P) (show (2 * P) ≠ 0 by omega)
  have h2 := Int.emod_lt_of_pos (y + P) (show (0 : Int) < 2 * P by omega)
  omega

theorem FFI_Sym.load_holds (sym : FFI_Sym) (big_endian : Bool) (x : Int) :
    sym.holds (sym.load big_endian (int_bytes big_endian sym.size x)) := by
  unfold FFI_Sym.load FFI_Sym.holds
  rw [bytes_unsigned_int_bytes]
  split_ifs
  · exact cast_signed_holds _ sym.size_pos _
  · exact ⟨Int.emod_nonneg _ (by positivity), Int.emod_lt_of_pos _ (by positivity)⟩

theorem Expand_Series_slide_inline {m m1 : Memory} {s s1 : REBSER} {delta : Nat}
    (hs : Inline_OK m.cfg s) (hw : s.wide = 1) (hna : s.is_array = false)
    (hcap : s.info_len + delta + 1 ≤ sizeof_content m.cfg)
    (h : Expand_Series_slide m s s.info_len delta = .ok s1 m1) :
    m1 = m ∧ s1 = { s with info_len := s.info_len + delta, mem := s1.mem } ∧
    s1.mem.length = s.mem.length ∧
    ∀ i, i < s.info_len → SER_AT m.cfg s1 i = SER_AT m.cfg s i := by
  have hnd := hs.not_dynamic
  have hsm := hs.small
  have hlen : SER_LEN s = s.info_len := by
    unfold SER_LEN; rw [hnd]; rfl
  have hraw : SER_DATA_RAW m.cfg s = some s.base := by
    unfold SER_DATA_RAW; rw [hnd, hs.base]; rfl
  unfold Expand_Series_slide at h
  simp only [hlen, hraw, hw, Nat.mul_one] at h
  rw [u32_of_lt (show s.info_len < 4294967296 by omega),
    u32_of_lt (show delta < 4294967296 by omega),
    u32_of_lt (show s.info_len + delta < 4294967296 by omega)] at h
  have hz : u32 (s.info_len + 4294967296 - s.info_len) = 0 := by
    have : s.info_len + 4294967296 - s.info_len = 4294967296 := by omega
    rw [this]; rfl
  rw [hz] at h
  split at h
  · simp at h
  · rename_i s2 hw2
    have e2 := REBSER.memmove_zero hw2
    subst e2
    have hset : SET_SERIES_LEN s2 (s2.info_len + delta) =
        { s2 with info_len := s2.info_len + delta } := by
      unfold SET_SERIES_LEN
      rw [hnd]
      simp only [Bool.false_eq_true, if_false]
      rw [Nat.mod_eq_of_lt (by omega)]
    rw [hset] at h
    simp only [hnd, Bool.false_eq_true, false_and, and_false, if_false] at h
    split at h
    · simp at h
    · rename_i s3 ht
      simp only [Result.ok.injEq] at h
      obtain ⟨rfl, rfl⟩ := h
      unfold TERM_SERIES at ht
      simp only [hna, Bool.false_eq_true, if_false] at ht
      unfold TERM_SEQUENCE SER_DATA_RAW SER_LEN at ht
      simp only [hnd, Bool.false_eq_true, if_false, hw, Nat.one_mul] at ht
      rw [u32_of_lt (show s2.info_len + delta < 4294967296 by omega)] at ht
      obtain ⟨w1, w2, w3, w4, w5⟩ := REBSER.write_some ht
      have hnd3 : s3.has_dynamic = false := by rw [w3]
      have hw3 : s3.wide = 1 := by rw [w3]
      have hn3 : s3.node = s2.node := by rw [w3]
      refine ⟨rfl, ?_, w4, ?_⟩
      · conv_lhs => rw [w3]
        simp only [REBSER.mk.injEq, hna, hnd, hw, and_self]
      · intro i hi
        unfold SER_AT SER_DATA_RAW
        simp only [hnd3, hnd, Bool.false_eq_true, if_false, hw3, hw, hn3]
        have := REBSER.read_write_outside ht (content_addr m.cfg s2.node + i * 1) 1
          (Or.inl (by omega))
        rw [this]
        rfl

theorem Expand_Series_move_inline {m m1 : Memory} {s s1 : REBSER} {delta : Nat}
    (hs : Inline_OK m.cfg s) (hw : s.wide = 1) (hna : s.is_array = false)
    (hd : delta < 2147483648)
    (h : Expand_Series_move m s s.info_len delta = .ok s1 m1) :
    m1.cfg = m.cfg ∧ s1.has_dynamic = true ∧ s1.wide = 1 ∧ s1.is_array = false ∧
    s1.len = s.info_len + delta ∧ s1.data = some s1.base ∧
    s.info_len + delta + 1 ≤ s1.mem.length ∧
    ∀ i, i < s.info_len → SER_AT m.cfg s1 i = SER_AT m.cfg s i := by
  have hnd := hs.not_dynamic
  have hsm := hs.small
  have hroom := hs.room
  have hlen : SER_LEN s = s.info_len := by
    unfold SER_LEN; rw [hnd]; rfl
  have hraw : SER_DATA_RAW m.cfg s = some s.base := by
    unfold SER_DATA_RAW; rw [hnd, hs.base]; rfl
  have hz : u32 (s.info_len + 4294967296 - s.info_len) = 0 := by
    have : s.info_len + 4294967296 - s.info_len = 4294967296 := by omega
    rw [this]; rfl
  unfold Expand_Series_move at h
  simp only [hlen, hraw, hw, Nat.mul_one] at h
  rw [u32_of_lt (show s.info_len < 4294967296 by omega),
    u32_of_lt (show delta < 4294967296 by omega),
    u32_of_lt (show s.info_len + delta < 4294967296 by omega), hz] at h
  simp only [hnd, Bool.false_eq_true, if_false] at h
  split at h
  · simp at h
  · simp at h
  · rename_i r m2 hal
    have hp := Series_Data_Alloc_ok hal
    have hcfg2 : m2.cfg = m.cfg := hp.same.cfg
    obtain ⟨m2', hm2', hc2'⟩ : ∃ m2' : Memory,
        (if (Prior_Expand_loop m.Prior_Expand s.node (List.range MAX_EXPAND_LIST) 0).1.isSome
            = true then m2
          else { m2 with Prior_Expand := (List.set m2.Prior_Expand
            (Prior_Expand_loop m.Prior_Expand s.node (List.range MAX_EXPAND_LIST) 0).2
            s.node) }) = m2' ∧ m2'.cfg = m.cfg :=
      ⟨_, rfl, by split_ifs <;> exact hcfg2⟩
    simp only [hm2'] at h
    split at h
    swap
    · simp at h
    rename_i d1 d2 d3 data head tail hdata hhead htail
    have ht0 := REBSER.read_zero htail
    subst ht0
    split at h
    · simp at h
    rename_i s2 hw2
    split at h
    · simp at h
    rename_i s3 hw3
    have e3 := REBSER.write_nil hw3
    subst e3
    split at h
    · simp at h
    rename_i s4 hterm
    simp only [Result.ok.injEq] at h
    obtain ⟨rfl, rfl⟩ := h
    have hrf := hp.fields
    have a2 := REBSER.write_some hw2
    have hs3f : s3 = { r with mem := s3.mem } := a2.2.2.1
    have hna3 : s3.is_array = false := by rw [hs3f, hrf]; exact hna
    have hw3 : s3.wide = 1 := by rw [hs3f, hrf]
    have hdy3 : s3.has_dynamic = true := by rw [hs3f, hrf]
    have hd3 : s3.data = some data := by rw [hs3f]; exact hdata
    have hdb : data = r.base := by
      rw [hrf] at hdata
      simp only [Option.some.injEq] at hdata
      exact hdata.symm
    have hbs3 : s3.base = r.base := by rw [hs3f]
    unfold TERM_SERIES at hterm
    simp only [hna3, Bool.false_eq_true, if_false] at hterm
    unfold TERM_SEQUENCE SER_DATA_RAW SER_LEN at hterm
    simp only [hdy3, if_true, hd3, hw3, Nat.one_mul] at hterm
    rw [u32_of_lt (show s.info_len + delta < 4294967296 by omega)] at hterm
    obtain ⟨w1, w2, w3, w4, w5⟩ := REBSER.write_some hterm
    simp only [List.length_replicate] at w2
    have hb : ({ s3 with len := s.info_len + delta } : REBSER).base = s3.base := rfl
    have hm4 : ({ s3 with len := s.info_len + delta } : REBSER).mem = s3.mem := rfl
    rw [hb, hm4, hbs3, hdb] at w2
    rw [hm4] at w4
    have hdy4 : s4.has_dynamic = true := by rw [w3]
    have hd4 : s4.data = some data := by rw [w3]
    have hw4 : s4.wide = 1 := by rw [w3]
    have hb4 : s4.base = r.base := by rw [w3]; exact hbs3
    have hna4 : s4.is_array = false := by rw [w3]
    refine ⟨hc2', hdy4, hw4, hna4, by rw [w3], ?_, ?_, ?_⟩
    · rw [hd4, hdb, hb4]
    · rw [w4]; omega
    · intro i hi
      rw [SER_AT_dynamic hdy4 hd4, hw4]
      unfold SER_AT
      rw [hraw, hw]
      have hhl : head.length = s.info_len := (REBSER.read_some hhead).2.2.1
      have r1 := REBSER.read_write_outside hterm (data + i * 1) 1 (Or.inl (by omega))
      have r2 := REBSER.read_write_inside hw2 (i * 1) 1 (by omega)
      have r3 := REBSER.read_sub hhead (i * 1) 1 (by omega)
      show s4.read (data + i * 1) 1 = s.read (s.base + i * 1) 1
      rw [r1, r3, ← r2]
      rfl

theorem Expand_Series_inline_tail {m m1 : Memory} {s s1 : REBSER} {delta : Nat}
    (hs : Inline_OK m.cfg s) (hw : s.wide = 1) (hna : s.is_array = false)
    (hd : delta < 2147483648)
    (h : Expand_Series m s s.info_len delta = .ok s1 m1) :
    m1.cfg = m.cfg ∧ s1.wide = 1 ∧ s1.is_array = false ∧ SER_LEN s1 = s.info_len + delta ∧
    (∃ d, SER_DATA_RAW m.cfg s1 = some d ∧ s1.base ≤ d ∧
      d + (s.info_len + delta) + 1 ≤ s1.base + s1.mem.length) ∧
    ∀ i, i < s.info_len → SER_AT m.cfg s1 i = SER_AT m.cfg s i := by
  have hnd := hs.not_dynamic
  have hsm := hs.small
  have hroom := hs.room
  have hlen : SER_LEN s = s.info_len := by
    unfold SER_LEN; rw [hnd]; rfl
  have hraw : SER_DATA_RAW m.cfg s = some s.base := by
    unfold SER_DATA_RAW; rw [hnd, hs.base]; rfl
  unfold Expand_Series at h
  simp only [] at h
  split_ifs at h with h1 h2 h3 h4 h5 h6
  · simp only [Result.ok.injEq] at h
    obtain ⟨rfl, rfl⟩ := h
    subst h3
    have := hs.size
    exact ⟨rfl, hw, hna, hlen, ⟨_, hraw, Nat.le_refl _, by omega⟩, fun _ _ => rfl⟩
  · rw [hnd] at h4
    exact absurd h4.1 (by simp)
  · have hcap : s.info_len + delta + 1 ≤ sizeof_content m.cfg := by
      unfold SER_REST at h5
      simp only [hlen, hw, Nat.mul_one, hnd, Bool.false_eq_true, if_false, hna,
        Nat.div_one] at h5
      rw [u32_of_lt (show s.info_len < 4294967296 by omega),
        u32_of_lt (show delta < 4294967296 by omega),
        u32_of_lt (show sizeof_content m.cfg < 4294967296 by omega),
        u32_of_lt (show s.info_len + delta + 1 < 4294967296 by omega)] at h5
      exact h5
    obtain ⟨e1, e2, e3, e4⟩ := Expand_Series_slide_inline hs hw hna hcap h
    subst e1
    have hnd1 : s1.has_dynamic = false := by rw [e2]; exact hnd
    have hb1 : s1.base = s.base := by rw [e2]
    have hn1 : s1.node = s.node := by rw [e2]
    have hsz := hs.size
    refine ⟨rfl, by rw [e2]; exact hw, by rw [e2]; exact hna, ?_, ⟨s.base, ?_, by omega, by omega⟩,
      e4⟩
    · unfold SER_LEN
      rw [hnd1, e2]
      rfl
    · unfold SER_DATA_RAW
      rw [hnd1, hn1, hs.base]
      rfl
  · obtain ⟨e1, e2, e3, e4, e5, e6, e7, e8⟩ := Expand_Series_move_inline hs hw hna hd h
    refine ⟨e1, e3, e4, ?_, ⟨s1.base, ?_, Nat.le_refl _, by omega⟩, e8⟩
    · unfold SER_LEN; rw [if_pos e2, e5]
    · unfold SER_DATA_RAW; rw [if_pos e2, e6]

theorem Expand_Series_inline_returns {m : Memory} {s : REBSER} {delta : Nat}
    (hs : Inline_OK m.cfg s) (hw : s.wide = 1) (hna : s.is_array = false)
    (hcap : s.info_len + delta + 1 ≤ sizeof_content m.cfg) :
    ∃ s1, Expand_Series m s s.info_len delta = .ok s1 m := by
  have hnd := hs.not_dynamic
  have hsm := hs.small
  have hsz := hs.size
  have hlen : SER_LEN s = s.info_len := by
    unfold SER_LEN; rw [hnd]; rfl
  have hraw : SER_DATA_RAW m.cfg s = some s.base := by
    unfold SER_DATA_RAW; rw [hnd, hs.base]; rfl
  have hz : u32 (s.info_len + 4294967296 - s.info_len) = 0 := by
    have : s.info_len + 4294967296 - s.info_len = 4294967296 := by omega
    rw [this]; rfl
  have hmm : s.memmove (s.base + s.info_len + delta) (s.base + s.info_len) 0 = some s := by
    unfold REBSER.memmove REBSER.read
    rw [if_pos ⟨by omega, by omega⟩]
    simp only [List.take_zero]
    unfold REBSER.write
    rw [if_pos ⟨by omega, by simp only [List.length_nil]; omega⟩]
    simp
  have hset : SET_SERIES_LEN s (s.info_len + delta) =
      { s with info_len := s.info_len + delta } := by
    unfold SET_SERIES_LEN
    rw [hnd]
    simp only [Bool.false_eq_true, if_false]
    rw [Nat.mod_eq_of_lt (by omega)]
  obtain ⟨s3, h3⟩ : ∃ s3, TERM_SERIES m.cfg { s with info_len := s.info_len + delta } =
      some s3 := by
    unfold TERM_SERIES
    simp only [hna, Bool.false_eq_true, if_false]
    unfold TERM_SEQUENCE SER_DATA_RAW SER_LEN
    simp only [hnd, Bool.false_eq_true, if_false, hw, Nat.one_mul]
    rw [u32_of_lt (show s.info_len + delta < 4294967296 by omega)]
    unfold REBSER.write
    rw [if_pos]
    · exact ⟨_, rfl⟩
    · simp only [List.length_replicate]
      rw [← hs.base]
      constructor <;> omega
  unfold Expand_Series
  simp only [hlen]
  rw [if_neg (by simp), if_neg (by omega)]
  split_ifs with h3' h4 h5 h6
  · exact ⟨_, rfl⟩
  · rw [hnd] at h4
    exact absurd h4.1 (by simp)
  · unfold Expand_Series_slide
    simp only [hlen, hraw, hw, Nat.mul_one]
    rw [u32_of_lt (show s.info_len < 4294967296 by omega),
      u32_of_lt (show delta < 4294967296 by omega),
      u32_of_lt (show s.info_len + delta < 4294967296 by omega), hz, hmm]
    simp only [hset]
    rw [if_neg (by rw [hnd]; simp), h3]
    exact ⟨_, rfl⟩
  · exfalso
    apply h5
    unfold SER_REST
    simp only [hw, Nat.mul_one, hnd, Bool.false_eq_true, if_false, hna, Nat.div_one]
    rw [u32_of_lt (show s.info_len < 4294967296 by omega),
      u32_of_lt (show delta < 4294967296 by omega),
      u32_of_lt (show sizeof_content m.cfg < 4294967296 by omega),
      u32_of_lt (show s.info_len + delta + 1 < 4294967296 by omega)]
    exact hcap
  · exfalso
    apply h5
    unfold SER_REST
    simp only [hw, Nat.mul_one, hnd, Bool.false_eq_true, if_false, hna, Nat.div_one]
    rw [u32_of_lt (show s.info_len < 4294967296 by omega),
      u32_of_lt (show delta < 4294967296 by omega),
      u32_of_lt (show sizeof_content m.cfg < 4294967296 by omega),
      u32_of_lt (show s.info_len + delta + 1 < 4294967296 by omega)]
    exact hcap

theorem Expand_Series_store {m m1 : Memory} {s s1 : REBSER} {delta : Nat}
    (hs : Store_OK m.cfg s) (hd : delta < 2147483648)
    (h : Expand_Series m s (SER_LEN s) delta = .ok s1 m1) :
    m1.cfg = m.cfg ∧ s1.wide = 1 ∧ s1.is_array = false ∧ SER_LEN s1 = SER_LEN s + delta ∧
    (∃ d, SER_DATA_RAW m.cfg s1 = some d ∧ s1.base ≤ d ∧
      d + (SER_LEN s + delta) + 1 ≤ s1.base + s1.mem.length) ∧
    ∀ i, i < SER_LEN s → SER_AT m.cfg s1 i = SER_AT m.cfg s i := by
  obtain ⟨hw, hna, hs | hs⟩ := hs
  · have hlen : SER_LEN s = s.len := by unfold SER_LEN; rw [if_pos hs.dynamic]
    rw [hlen] at h ⊢
    have hd1 : delta * s.wide < 2147483648 := by rw [hw]; omega
    obtain ⟨r1, r2, r3, d, r4, r5, r6⟩ := Expand_Series_tail_room hs hna hd1 h
    obtain ⟨t1, _, _, t4, _, _, t7⟩ := Expand_Series_tail hs hna hd1 h
    rw [hw] at r6
    refine ⟨t1, by rw [r2, hw], t4, ?_, ⟨d, ?_, r5, by omega⟩, t7⟩
    · unfold SER_LEN; rw [if_pos r1, r3]
    · unfold SER_DATA_RAW; rw [if_pos r1, r4]
  · have hlen : SER_LEN s = s.info_len := by
      unfold SER_LEN; rw [hs.not_dynamic]; rfl
    rw [hlen] at h ⊢
    exact Expand_Series_inline_tail hs hw hna hd h

theorem Expand_Series_store_returns {m : Memory} {s : REBSER} {delta : Nat}
    (hs : Store_OK m.cfg s) (hcap : SER_LEN s + delta < SER_REST m.cfg s) :
    ∃ s1, Expand_Series m s (SER_LEN s) delta = .ok s1 m := by
  obtain ⟨hw, hna, hs | hs⟩ := hs
  · have hlen : SER_LEN s = s.len := by unfold SER_LEN; rw [if_pos hs.dynamic]
    unfold SER_REST at hcap
    rw [if_pos hs.dynamic, hlen] at hcap
    rw [hlen]
    exact Expand_Series_tail_returns hs hna hcap
  · have hlen : SER_LEN s = s.info_len := by
      unfold SER_LEN; rw [hs.not_dynamic]; rfl
    unfold SER_REST at hcap
    simp only [hs.not_dynamic, Bool.false_eq_true, if_false, hna, hw, Nat.div_one, hlen]
      at hcap
    rw [hlen]
    exact Expand_Series_inline_returns hs hw hna (by omega)

theorem Expand_And_Align_Core_spec {m m1 : Memory} {align size offset : Nat}
    {store s1 : REBSER} (hs : Store_OK m.cfg store) (ha : 0 < align)
    (hb : SER_LEN store + align + size < 2147483648)
    (h : Expand_And_Align_Core m align store size = .ok (offset, s1) m1) :
    (align ∣ offset ∧ SER_LEN store ≤ offset ∧ offset < SER_LEN store + align ∧
      ∀ k, align ∣ k → SER_LEN store ≤ k → offset ≤ k) ∧
    m1.cfg = m.cfg ∧ s1.wide = 1 ∧ s1.is_array = false ∧ SER_LEN s1 = offset + size ∧
    (∃ d, SER_DATA_RAW m.cfg s1 = some d ∧ s1.base ≤ d ∧
      d + offset + size + 1 ≤ s1.base + s1.mem.length) ∧
    ∀ i, i < SER_LEN store → SER_AT m.cfg s1 i = SER_AT m.cfg store i := by
  have hup := align_up_spec (SER_LEN store) align ha
  have hlt : SER_LEN store % align < align := Nat.mod_lt _ ha
  obtain ⟨p, hp⟩ : ∃ p, p = (if SER_LEN store % align ≠ 0 then align - SER_LEN store % align
      else SER_LEN store % align) := ⟨_, rfl⟩
  rw [← hp] at hup
  have hpl : p < align := by
    rw [hp]; split_ifs <;> omega
  unfold Expand_And_Align_Core EXPAND_SERIES_TAIL at h
  rw [if_neg (by omega)] at h
  simp only [← hp] at h
  rw [u32_of_lt (show SER_LEN store + p < 4294967296 by omega),
    u32_of_lt (show p + size < 4294967296 by omega)] at h
  split at h
  · exact Result.noConfusion h
  rename_i s2 m2 hex
  simp only [Result.ok.injEq, Prod.mk.injEq] at h
  obtain ⟨⟨rfl, rfl⟩, rfl⟩ := h
  obtain ⟨t1, t2, t3, t4, ⟨d, t5, t6, t7⟩, t8⟩ :=
    Expand_Series_store hs (show p + size < 2147483648 by omega) hex
  exact ⟨⟨hup.1, by omega, hup.2.1, hup.2.2⟩, t1, t2, t3, by omega, ⟨d, t5, t6, by omega⟩, t8⟩

theorem Expand_And_Align_Core_returns {m : Memory} {align size : Nat} {store : REBSER}
    (hs : Store_OK m.cfg store) (ha : 0 < align)
    (hb : SER_LEN store + align + size < 2147483648)
    (hcap : SER_LEN store + align + size ≤ SER_REST m.cfg store) :
    ∃ offset s1, Expand_And_Align_Core m align store size = .ok (offset, s1) m := by
  have hlt : SER_LEN store % align < align := Nat.mod_lt _ ha
  obtain ⟨p, hp⟩ : ∃ p, p = (if SER_LEN store % align ≠ 0 then align - SER_LEN store % align
      else SER_LEN store % align) := ⟨_, rfl⟩
  have hpl : p < align := by
    rw [hp]; split_ifs <;> omega
  unfold Expand_And_Align_Core EXPAND_SERIES_TAIL
  rw [if_neg (by omega)]
  simp only [← hp]
  rw [u32_of_lt (show p + size < 4294967296 by omega)]
  obtain ⟨s1, h1⟩ := @Expand_Series_store_returns m store (p + size) hs (by omega)
  rw [h1]
  exact ⟨_, _, rfl⟩

/-- C37 (amended): Expand_And_Align_Core computes in `REBCNT` arithmetic and grows the store
with `EXPAND_SERIES_TAIL`, which can fail. For a store of `n` bytes (a well-formed series of
bytes, dynamic or held in its node), `align > 0`, and sizes with `n + align + size < 2^31`,
so that no sum wraps and the expansion is not refused as past the end: whenever the call
returns, the offset is a multiple of `align`, at least `n`, below `n + align`, and the least
such multiple; the store then has `offset + size` bytes and its first `n` bytes are
unchanged; and the next argument, put into the store that results, gets an offset at or
after `offset + size`, so consecutive arguments do not overlap. The call does return, in
the same state, when the capacity of the store holds `n + align + size` bytes. -/
theorem Expand_And_Align_Core_offset (m : Memory) (align : Nat) (store : REBSER) (size : Nat)
    (hs : Store_OK m.cfg store) (ha : 0 < align)
    (hb : SER_LEN store + align + size < 2147483648) :
    (∀ offset s1 m1, Expand_And_Align_Core m align store size = .ok (offset, s1) m1 →
      align ∣ offset ∧ SER_LEN store ≤ offset ∧ offset < SER_LEN store + align ∧
      (∀ k, align ∣ k → SER_LEN store ≤ k → offset ≤ k) ∧
      SER_LEN s1 = offset + size ∧
      (∀ i, i < SER_LEN store → SER_AT m.cfg s1 i = SER_AT m.cfg store i) ∧
      (∀ align2 size2 offset2 s2 m2, 0 < align2 → offset + size + align2 ≤ 4294967296 →
        Expand_And_Align_Core m1 align2 s1 size2 = .ok (offset2, s2) m2 →
        offset + size ≤ offset2)) ∧
    (SER_LEN store + align + size ≤ SER_REST m.cfg store →
      ∃ offset s1, Expand_And_Align_Core m align store size = .ok (offset, s1) m) := by
  refine ⟨?_, fun hcap => Expand_And_Align_Core_returns hs ha hb hcap⟩
  intro offset s1 m1 h
  obtain ⟨⟨a1, a2, a3, a4⟩, _, _, _, hser, _, hpre⟩ := Expand_And_Align_Core_spec hs ha hb h
  refine ⟨a1, a2, a3, a4, hser, hpre, ?_⟩
  intro align2 size2 offset2 s2 m2 ha2 hb2 h2
  unfold Expand_And_Align_Core at h2
  rw [if_neg (by omega)] at h2
  simp only [hser] at h2
  split at h2
  · exact Result.noConfusion h2
  simp only [Result.ok.injEq, Prod.mk.injEq] at h2
  have hlt : (offset + size) % align2 < align2 := Nat.mod_lt _ ha2
  rw [← h2.1.1]
  split_ifs with hc
  · rw [u32_of_lt (by omega)]; omega
  · rw [u32_of_lt (by omega)]; omega

theorem demo_store_OK : Store_OK demo_tables.cfg demo_store :=
  ⟨rfl, rfl, Or.inl ⟨rfl, by decide, rfl, by decide, by decide, by decide⟩⟩

set_option maxRecDepth 1000000 in
theorem demo_routine_store_OK : Store_OK demo_routine_store.2.cfg demo_routine_store.1 :=
  ⟨rfl, rfl, Or.inr ⟨rfl, rfl, rfl, by decide, by decide⟩⟩

set_option maxRecDepth 1000000 in
/-- Witness of the amended C37. The store `demo_store` of 5 bytes with a capacity of 16, an
alignment of 4 and a size of 4: the call returns the offset 8, the least multiple of 4 that
is at least 5, and the store has 12 bytes. The store Routine_Dispatcher starts with, which
is empty and is held in its node: the call returns the offset 0 and the store has 4
bytes. -/
theorem Expand_And_Align_Core_offset_witness :
    (Store_OK demo_tables.cfg demo_store ∧ 0 < 4 ∧
      SER_LEN demo_store + 4 + 4 < 2147483648 ∧
      SER_LEN demo_store + 4 + 4 ≤ SER_REST demo_tables.cfg demo_store) ∧
    (∃ s1, Expand_And_Align_Core demo_tables 4 demo_store 4 = .ok (8, s1) demo_tables ∧
      4 ∣ 8 ∧ SER_LEN demo_store ≤ 8 ∧ 8 < SER_LEN demo_store + 4 ∧ SER_LEN s1 = 8 + 4) ∧
    (∃ offset s1, Expand_And_Align_Core demo_tables 4 demo_store 4 =
      .ok (offset, s1) demo_tables) ∧
    (Store_OK demo_routine_store.2.cfg demo_routine_store.1 ∧
      SER_LEN demo_routine_store.1 = 0 ∧
      ∃ s1, Expand_And_Align_Core demo_routine_store.2 4 demo_routine_store.1 4 =
          .ok (0, s1) demo_routine_store.2 ∧
        SER_LEN s1 = 0 + 4) :=
  ⟨⟨demo_store_OK, by decide, by decide, by decide⟩,
    ⟨_, rfl,
      ((Expand_And_Align_Core_offset demo_tables 4 demo_store 4 demo_store_OK
        (by decide) (by decide)).1 8 _ _ rfl).1,
      ((Expand_And_Align_Core_offset demo_tables 4 demo_store 4 demo_store_OK
        (by decide) (by decide)).1 8 _ _ rfl).2.1,
      ((Expand_And_Align_Core_offset demo_tables 4 demo_store 4 demo_store_OK
        (by decide) (by decide)).1 8 _ _ rfl).2.2.1,
      ((Expand_And_Align_Core_offset demo_tables 4 demo_store 4 demo_store_OK
        (by decide) (by decide)).1 8 _ _ rfl).2.2.2.2.1⟩,
    (Expand_And_Align_Core_offset demo_tables 4 demo_store 4 demo_store_OK
      (by decide) (by decide)).2 (by decide),
    ⟨demo_routine_store_OK, rfl, _, rfl,
      ((Expand_And_Align_Core_offset demo_routine_store.2 4 demo_routine_store.1 4
        demo_routine_store_OK (by decide) (by decide)).1 0 _ _ rfl).2.2.2.2.1⟩⟩

set_option maxRecDepth 1000000 in
/-- C37 (counterexample): the property does not hold for every size. The store `demo_store`
has 5 bytes; with the alignment 4 the padding is 3. For the size `2^32 - 3` the sum
`padding + size` wraps to 0 in `REBCNT` arithmetic: the call returns the offset 8 and the
store as it was, with 5 bytes and not `offset + size`, so the pointer returned lies past the
tail of the store. For the size `2^31` the expansion is refused as past the end, and a store
of fixed size that is full is refused as locked: the call does not return. -/
theorem Expand_And_Align_Core_wraps :
    Store_OK demo_tables.cfg demo_store ∧ SER_LEN demo_store = 5 ∧
    Expand_And_Align_Core demo_tables 4 demo_store 4294967293 =
      .ok (8, demo_store) demo_tables ∧
    SER_LEN demo_store ≠ 8 + 4294967293 ∧
    Expand_And_Align_Core demo_tables 4 demo_store 2147483648 =
      .fault .past_end demo_tables ∧
    Expand_And_Align_Core demo_tables 4 { demo_store with fixed_size := true } 16 =
      .fault .locked_series demo_tables :=
  ⟨demo_store_OK, rfl, rfl, by decide, rfl, rfl⟩

theorem REBSER.write_read_back {s s1 : REBSER} {addr : Nat} {bytes : List Nat}
    (h : s.write addr bytes = some s1) :
    addr - s1.base + bytes.length ≤ s1.mem.length ∧
    (s1.mem.drop (addr - s1.base)).take bytes.length = bytes ∧
    s1 = { s with mem := s1.mem } := by
  obtain ⟨h1, h2, h3, h4, _⟩ := REBSER.write_some h
  have hb : s1.base = s.base := by rw [h3]
  have hr := REBSER.read_write_inside h 0 bytes.length (by omega)
  rw [Nat.add_zero, List.drop_zero, List.take_length] at hr
  unfold REBSER.read at hr
  split_ifs at hr with hc
  simp only [Option.some.injEq] at hr
  exact ⟨by rw [hb, h4]; omega, hr, h3⟩

theorem arg_to_ffi_store_ok {big_endian : Bool} {m m1 : Memory} {store store2 : REBSER}
    {arg : RELVAL} {sym : FFI_Sym} {offset : Nat}
    (h : arg_to_ffi big_endian m (.store store) (some arg) sym =
      .ok (some offset, .store store2, m1)) :
    arg.kind = .REB_INTEGER ∧
    ∃ store1 data, Expand_And_Align m store sym.size = .ok (offset, store1) m1 ∧
      SER_DATA_RAW m.cfg store1 = some data ∧ SER_DATA_RAW m.cfg store2 = some data ∧
      store1.write (data + offset) (int_bytes big_endian sym.size (sym.converted arg)) =
        some store2 := by
  unfold arg_to_ffi at h
  simp only [] at h
  split at h
  · exact Except.noConfusion h
  rename_i off store1 m2 hex
  split_ifs at h with hk
  split at h
  · exact Except.noConfusion h
  rename_i data hd
  split at h
  · exact Except.noConfusion h
  rename_i s2 hwr
  simp only [Except.ok.injEq, Prod.mk.injEq, Option.some.injEq, FFI_Target.store.injEq] at h
  obtain ⟨rfl, rfl, rfl⟩ := h
  refine ⟨by simpa using hk, store1, data, hex, hd, ?_, hwr⟩
  have h3 := (REBSER.write_some hwr).2.2.1
  unfold SER_DATA_RAW at hd ⊢
  rw [h3]
  exact hd

theorem arg_to_ffi_store_returns {big_endian : Bool} {m m1 : Memory} {store store1 : REBSER}
    {arg : RELVAL} {sym : FFI_Sym} {offset : Nat} (hk : arg.kind = .REB_INTEGER)
    (hs : Store_OK m.cfg store) (hb : SER_LEN store + 16 < 2147483648)
    (h : Expand_And_Align m store sym.size = .ok (offset, store1) m1) :
    ∃ store2, arg_to_ffi big_endian m (.store store) (some arg) sym =
      .ok (some offset, .store store2, m1) := by
  have hsz : sym.size ≤ 8 := by cases sym <;> decide
  have hex := h
  unfold Expand_And_Align at hex
  obtain ⟨_, _, _, _, _, ⟨d, hraw, hbase, hroom⟩, _⟩ :=
    Expand_And_Align_Core_spec hs sym.size_pos (by omega) hex
  obtain ⟨store2, hwr⟩ := @REBSER.write_of store1 (d + offset)
    (int_bytes big_endian sym.size (sym.converted arg)) (by omega)
    (by rw [int_bytes_length]; omega)
  refine ⟨store2, ?_⟩
  unfold arg_to_ffi
  simp only [h, hk, ne_eq, not_true_eq_false, if_false, hraw, hwr]

theorem arg_to_ffi_store_room {big_endian : Bool} {m : Memory} {store : REBSER}
    {arg : RELVAL} {sym : FFI_Sym} (hk : arg.kind = .REB_INTEGER)
    (hs : Store_OK m.cfg store) (hb : SER_LEN store + 16 < 2147483648)
    (hcap : SER_LEN store + 2 * sym.size ≤ SER_REST m.cfg store) :
    ∃ offset store2, arg_to_ffi big_endian m (.store store) (some arg) sym =
      .ok (some offset, .store store2, m) := by
  have hsz : sym.size ≤ 8 := by cases sym <;> decide
  obtain ⟨offset, store1, h⟩ := @Expand_And_Align_Core_returns m sym.size sym.size store
    hs sym.size_pos (by omega) (by omega)
  obtain ⟨store2, h2⟩ := @arg_to_ffi_store_returns big_endian m m store store1 arg sym offset
    hk hs hb h
  exact ⟨offset, store2, h2⟩

/-- C20: the marshalling of an integer is a round trip inside the range of the C type, for
every integer schema `sym` and every INTEGER! cell `arg` whose value `v` the C type of `sym`
can hold, in either byte order. With a store: whenever arg_to_ffi returns, ffi_to_rebol
applied to the bytes it has written, at the offset it returns in the data of the store,
makes `out` an INTEGER! of the value `v`; and arg_to_ffi does return, for a store that is a
well-formed series of bytes (dynamic or held in its node), whenever the expansion of the
store returns, which it does when the capacity of the store holds the padding and the
object. With a destination
of sufficient size arg_to_ffi returns, and ffi_to_rebol applied to the bytes written makes
`out` an INTEGER! of the value `v`. -/
theorem ffi_round_trip (big_endian : Bool) (m : Memory) (sym : FFI_Sym)
    (arg out : RELVAL) (v : Int)
    (hk : arg.kind = .REB_INTEGER) (hp : arg.payload = v) (hv : sym.holds v)
    (hi : -(2 ^ 63 : Int) ≤ v ∧ v < 2 ^ 63) :
    (∀ store offset store2 m1,
      arg_to_ffi big_endian m (.store store) (some arg) sym =
        .ok (some offset, .store store2, m1) →
      ∃ data r, SER_DATA_RAW m.cfg store2 = some data ∧
        ffi_to_rebol big_endian out sym store2.mem (data + offset - store2.base) = some r ∧
        r.kind = .REB_INTEGER ∧ r.payload = v) ∧
    (∀ store, Store_OK m.cfg store → SER_LEN store + 16 < 2147483648 →
      (∀ offset store1 m1, Expand_And_Align m store sym.size = .ok (offset, store1) m1 →
        ∃ store2, arg_to_ffi big_endian m (.store store) (some arg) sym =
          .ok (some offset, .store store2, m1)) ∧
      (SER_LEN store + 2 * sym.size ≤ SER_REST m.cfg store →
        ∃ offset store2, arg_to_ffi big_endian m (.store store) (some arg) sym =
          .ok (some offset, .store store2, m))) ∧
    (∀ mem p, p + sym.size ≤ mem.length → ∃ mem1,
      arg_to_ffi big_endian m (.dest mem p) (some arg) sym = .ok (none, .dest mem1 p, m) ∧
      ∃ r, ffi_to_rebol big_endian out sym mem1 p = some r ∧
        r.kind = .REB_INTEGER ∧ r.payload = v) := by
  have hval := FFI_Sym.load_converted sym big_endian arg v hp hv hi
  refine ⟨?_, ?_, ?_⟩
  · intro store offset store2 m1 h
    obtain ⟨_, store1, data, _, _, hd2, hwr⟩ := arg_to_ffi_store_ok h
    obtain ⟨r1, r2, _⟩ := REBSER.write_read_back hwr
    rw [int_bytes_length] at r1 r2
    refine ⟨data, SET_INTEGER out (sym.load big_endian
      (int_bytes big_endian sym.size (sym.converted arg))), hd2, ?_, rfl, hval⟩
    unfold ffi_to_rebol
    rw [if_pos r1, r2]
  · intro store hs hb
    exact ⟨fun offset store1 m1 h => arg_to_ffi_store_returns hk hs hb h,
      fun hcap => arg_to_ffi_store_room hk hs hb hcap⟩
  · intro mem p hpl
    obtain ⟨mem1, hm⟩ := @memcpy_at_fits mem p
      (int_bytes big_endian sym.size (sym.converted arg)) (by
        rw [int_bytes_length]; exact hpl)
    refine ⟨mem1, ?_, _, ffi_to_rebol_read big_endian out sym _ mem1 _ _ hm, rfl, hval⟩
    unfold arg_to_ffi
    simp only [hk, ne_eq, not_true_eq_false, if_false, hm]

set_option maxRecDepth 1000000 in
/-- Witness of C20: the INTEGER! 2147483647 passed for an `int32`, on a little-endian
machine. With the store `demo_store` of 5 bytes, 3 bytes of padding are added, the bytes
FF FF FF 7F are written at the offset 8, and ffi_to_rebol reads the INTEGER! 2147483647
back. The same holds for the store Routine_Dispatcher starts with, the series
`Make_Series(1, sizeof(REBYTE), MKS_NONE)`, which is held in its node: the offset is 0. -/
theorem ffi_round_trip_witness :
    FFI_Sym.SYM_INT32.holds 2147483647 ∧
    (∃ store2,
      arg_to_ffi false demo_tables (.store demo_store) (some (integer_cell 2147483647))
        .SYM_INT32 = .ok (some 8, .store store2, demo_tables) ∧
      ∃ data r, SER_DATA_RAW demo_tables.cfg store2 = some data ∧
        ffi_to_rebol false (integer_cell 0) .SYM_INT32 store2.mem (data + 8 - store2.base) =
          some r ∧
        r.kind = .REB_INTEGER ∧ r.payload = 2147483647) ∧
    (Store_OK demo_tables.cfg demo_store ∧ SER_LEN demo_store + 16 < 2147483648 ∧
      SER_LEN demo_store + 2 * FFI_Sym.SYM_INT32.size ≤ SER_REST demo_tables.cfg demo_store ∧
      ∃ offset store2,
        arg_to_ffi false demo_tables (.store demo_store) (some (integer_cell 2147483647))
          .SYM_INT32 = .ok (some offset, .store store2, demo_tables)) ∧
    (Make_Series demo_manuals 1 1 MKS_NONE =
        .ok demo_routine_store.1 demo_routine_store.2 ∧
      demo_routine_store.1.has_dynamic = false ∧
      Store_OK demo_routine_store.2.cfg demo_routine_store.1 ∧
      ∃ store2,
        arg_to_ffi false demo_routine_store.2 (.store demo_routine_store.1)
          (some (integer_cell 2147483647)) .SYM_INT32 =
          .ok (some 0, .store store2, demo_routine_store.2) ∧
        ∃ data r, SER_DATA_RAW demo_routine_store.2.cfg store2 = some data ∧
          ffi_to_rebol false (integer_cell 0) .SYM_INT32 store2.mem
            (data + 0 - store2.base) = some r ∧
          r.kind = .REB_INTEGER ∧ r.payload = 2147483647) :=
  ⟨by decide,
    ⟨_, rfl, (ffi_round_trip false demo_tables .SYM_INT32 (integer_cell 2147483647)
      (integer_cell 0) 2147483647 rfl rfl (by decide) (by decide)).1 demo_store 8 _
      demo_tables rfl⟩,
    ⟨demo_store_OK, by decide, by decide,
      ((ffi_round_trip false demo_tables .SYM_INT32 (integer_cell 2147483647)
        (integer_cell 0) 2147483647 rfl rfl (by decide) (by decide)).2.1 demo_store
        demo_store_OK (by decide)).2 (by decide)⟩,
    ⟨rfl, rfl, demo_routine_store_OK, _, rfl,
      (ffi_round_trip false demo_routine_store.2 .SYM_INT32 (integer_cell 2147483647)
        (integer_cell 0) 2147483647 rfl rfl (by decide) (by decide)).1 demo_routine_store.1 0 _
        demo_routine_store.2 rfl⟩⟩

set_option maxRecDepth 1000000 in
/-- C21 (counterexample): arg_to_ffi has no range check. The INTEGER! 2147483648, which an
`int32` cannot hold, is accepted for the schema `int32`: with a destination of 4 bytes, and
with the store `demo_store`, the call returns and the bytes 00 00 00 80 are written, which
the foreign function reads as -2147483648. The INTEGER! -1 passed for a `uint8` is written
as the byte FF. -/
theorem arg_to_ffi_no_range_check :
    ¬ FFI_Sym.SYM_INT32.holds 2147483648 ∧
    arg_to_ffi false demo_tables (.dest [0, 0, 0, 0] 0) (some (integer_cell 2147483648))
      .SYM_INT32 = .ok (none, .dest [0, 0, 0, 128] 0, demo_tables) ∧
    arg_to_ffi false demo_tables (.store demo_store) (some (integer_cell 2147483648))
      .SYM_INT32 =
      .ok (some 8, .store { demo_store with
          len := 12,
          mem := [1, 2, 3, 4, 5, 170, 170, 170, 0, 0, 0, 128, 0, 170, 170, 170] },
        demo_tables) ∧
    ffi_to_rebol false (integer_cell 0) .SYM_INT32 [0, 0, 0, 128] 0 =
      some (integer_cell (-2147483648)) ∧
    ¬ FFI_Sym.SYM_UINT8.holds (-1) ∧
    arg_to_ffi false demo_tables (.dest [7, 7] 1) (some (integer_cell (-1))) .SYM_UINT8 =
      .ok (none, .dest [7, 255] 1, demo_tables) :=
  ⟨by decide, rfl, rfl, by decide, by decide, rfl⟩

/-- C21 (amended): arg_to_ffi does not check the range of an integer, it converts it with
a C cast. For every integer schema `sym` and every INTEGER! argument, of any value, the call
does not fail with the type error. With a destination of sufficient size it returns, and
with a store it returns whenever the expansion of the store does (a well-formed series of
bytes; the expansion returns when the capacity holds the padding and the object). The bytes
written are those of the object `cast(T, VAL_INT64(arg))`: the value the foreign function
reads from them is a value of the C type and is congruent to the argument modulo
`2^(8 * sizeof(T))`. Only an argument that is not an INTEGER! is refused, with the error
`Error_Arg_Type`. -/
theorem arg_to_ffi_converts (big_endian : Bool) (m : Memory) (sym : FFI_Sym) (arg : RELVAL) :
    (arg.kind = .REB_INTEGER →
      (∀ target k, arg_to_ffi big_endian m target (some arg) sym ≠ .error (.arg_type k)) ∧
      (∀ mem p, p + sym.size ≤ mem.length → ∃ mem1,
        arg_to_ffi big_endian m (.dest mem p) (some arg) sym = .ok (none, .dest mem1 p, m) ∧
        (mem1.drop p).take sym.size =
          int_bytes big_endian sym.size (sym.converted arg)) ∧
      (∀ store offset store2 m1,
        arg_to_ffi big_endian m (.store store) (some arg) sym =
          .ok (some offset, .store store2, m1) →
        ∃ data, SER_DATA_RAW m.cfg store2 = some data ∧
          (store2.mem.drop (data + offset - store2.base)).take sym.size =
            int_bytes big_endian sym.size (sym.converted arg)) ∧
      (∀ store, Store_OK m.cfg store → SER_LEN store + 16 < 2147483648 →
        (∀ offset store1 m1, Expand_And_Align m store sym.size = .ok (offset, store1) m1 →
          ∃ store2, arg_to_ffi big_endian m (.store store) (some arg) sym =
            .ok (some offset, .store store2, m1)) ∧
        (SER_LEN store + 2 * sym.size ≤ SER_REST m.cfg store →
          ∃ offset store2, arg_to_ffi big_endian m (.store store) (some arg) sym =
            .ok (some offset, .store store2, m)))) ∧
    (sym.holds (sym.load big_endian (int_bytes big_endian sym.size (sym.converted arg))) ∧
      sym.load big_endian (int_bytes big_endian sym.size (sym.converted arg)) %
          2 ^ (8 * sym.size) = arg.payload % 2 ^ (8 * sym.size)) ∧
    (arg.kind ≠ .REB_INTEGER →
      (∀ mem p, arg_to_ffi big_endian m (.dest mem p) (some arg) sym =
        .error (.arg_type arg.kind)) ∧
      (∀ store offset store1 m1, Expand_And_Align m store sym.size = .ok (offset, store1) m1 →
        arg_to_ffi big_endian m (.store store) (some arg) sym =
          .error (.arg_type arg.kind))) := by
  refine ⟨fun hk => ⟨?_, ?_, ?_, ?_⟩, ⟨sym.load_holds big_endian _, sym.load_modEq big_endian arg⟩,
    fun hk => ⟨?_, ?_⟩⟩
  · intro target k h
    unfold arg_to_ffi at h
    cases target with
    | store store =>
      simp only [hk, ne_eq, not_true_eq_false, if_false] at h
      split at h
      · simp at h
      · split at h
        · simp at h
        · split at h <;> simp at h
    | dest mem p =>
      simp only [hk, ne_eq, not_true_eq_false, if_false] at h
      split at h <;> simp at h
  · intro mem p hpl
    obtain ⟨mem1, hm⟩ := @memcpy_at_fits mem p
      (int_bytes big_endian sym.size (sym.converted arg)) (by
        rw [int_bytes_length]; exact hpl)
    refine ⟨mem1, ?_, ?_⟩
    · unfold arg_to_ffi
      simp only [hk, ne_eq, not_true_eq_false, if_false, hm]
    · have := (memcpy_at_read hm).2
      rw [int_bytes_length] at this
      exact this
  · intro store offset store2 m1 h
    obtain ⟨_, store1, data, _, _, hd2, hwr⟩ := arg_to_ffi_store_ok h
    obtain ⟨_, r2, _⟩ := REBSER.write_read_back hwr
    rw [int_bytes_length] at r2
    exact ⟨data, hd2, r2⟩
  · intro store hs hb
    exact ⟨fun offset store1 m1 h => arg_to_ffi_store_returns hk hs hb h,
      fun hcap => arg_to_ffi_store_room hk hs hb hcap⟩
  · intro mem p
    unfold arg_to_ffi
    simp only [hk, ne_eq, not_false_eq_true, if_true]
  · intro store offset store1 m1 h
    unfold arg_to_ffi
    simp only [h, hk, ne_eq, not_false_eq_true, if_true]

set_option maxRecDepth 1000000 in
/-- Witness of the amended C21: the INTEGER! 2147483648 passed for an `int32` to a
destination of 4 bytes, on a little-endian machine. The call returns, the bytes written are
00 00 00 80, and the value read from them, -2147483648, is congruent to 2147483648 modulo
`2^32`. -/
theorem arg_to_ffi_converts_witness :
    (integer_cell 2147483648).kind = .REB_INTEGER ∧ 0 + FFI_Sym.SYM_INT32.size ≤ 4 ∧
    (∃ mem1, arg_to_ffi false demo_tables (.dest [0, 0, 0, 0] 0)
        (some (integer_cell 2147483648)) .SYM_INT32 = .ok (none, .dest mem1 0, demo_tables) ∧
      (mem1.drop 0).take FFI_Sym.SYM_INT32.size =
        int_bytes false FFI_Sym.SYM_INT32.size
          (FFI_Sym.SYM_INT32.converted (integer_cell 2147483648))) ∧
    int_bytes false FFI_Sym.SYM_INT32.size
      (FFI_Sym.SYM_INT32.converted (integer_cell 2147483648)) = [0, 0, 0, 128] ∧
    FFI_Sym.SYM_INT32.load false [0, 0, 0, 128] = -2147483648 :=
  ⟨rfl, by decide,
    ((arg_to_ffi_converts false demo_tables .SYM_INT32 (integer_cell 2147483648)).1 rfl).2.1
      [0, 0, 0, 0] 0 (by decide),
    by decide, by decide⟩

theorem Typeset_To_Array_size_eq (bits : Nat) (ns : List Nat) (k : Nat) :
    ns.foldl (fun size n => if TYPE_CHECK bits n then size + 1 else size) k =
      k + (ns.filter (TYPE_CHECK bits)).length := by
  induction ns generalizing k with
  | nil => simp
  | cons n ns ih =>
    rw [List.foldl_cons, ih]
    by_cases h : TYPE_CHECK bits n = true
    · simp [h]; omega
    · simp [h]

theorem Typeset_To_Array_cells_eq (bits : Nat) (ns : List Nat) (block : List Typeset_Cell) :
    Typeset_To_Array_cells bits ns block =
      block ++ (ns.filter (TYPE_CHECK bits)).map
        (fun n => if n = 0 then Typeset_Cell.blank else Typeset_Cell.datatype n) := by
  unfold Typeset_To_Array_cells
  induction ns generalizing block with
  | nil => simp
  | cons n ns ih =>
    rw [List.foldl_cons, ih]
    by_cases h : TYPE_CHECK bits n = true
    · simp [h]
    · simp [h]

theorem complement64_lt (bits : Nat) : complement64 bits < 18446744073709551616 := by
  unfold complement64
  omega

theorem complement64_involution (bits : Nat) (h : bits < 18446744073709551616) :
    complement64 (complement64 bits) = bits := by
  unfold complement64
  rw [Nat.mod_eq_of_lt h, Nat.mod_eq_of_lt (by omega)]
  omega

theorem complement64_testBit (bits i : Nat) (h : bits < 18446744073709551616) (hi : i < 64) :
    (complement64 bits).testBit i = !bits.testBit i := by
  unfold complement64
  rw [Nat.mod_eq_of_lt h]
  have : 18446744073709551615 - bits = 2 ^ 64 - (bits + 1) := by norm_num; omega
  rw [this, Nat.testBit_two_pow_sub_succ (by norm_num; omega)]
  simp [hi]

theorem TYPE_CHECK_testBit (bits n : Nat) (hn : n < 64) :
    TYPE_CHECK bits n = bits.testBit n := by
  have hf : FLAGIT_KIND n = 2 ^ n := by
    unfold FLAGIT_KIND
    rw [Nat.one_shiftLeft]
    exact Nat.mod_eq_of_lt (by
      have : 2 ^ n < 2 ^ 64 := Nat.pow_lt_pow_right (by decide) hn
      simpa using this)
  unfold TYPE_CHECK
  rw [hf, Nat.and_two_pow]
  cases h : bits.testBit n with
  | true =>
    have : 2 ^ n ≠ 0 := by positivity
    simp [this]
  | false => simp

theorem range_filter_sorted (p : Nat → Bool) (k : Nat) :
    ((List.range k).filter p).Sorted (· < ·) :=
  List.Sorted.filter p (List.sorted_lt_range k)

/-- C38: for a typeset with the 64 bits `bits` and at most 64 kinds, the array of
Typeset_To_Array holds, for the kinds `n` below `REB_MAX` whose bit is set, in increasing
order of `n`, one cell each: a blank for `n = 0` and the datatype of the kind `n`
otherwise; its length is the number of those kinds, which is also the capacity asked of
Make_Array. The action COMPLEMENT inverts each of the 64 bits, and applied twice gives the
bits back; the actions AND, OR and XOR with a typeset combine the two words bit by bit. -/
theorem Typeset_To_Array_cells_and_actions (REB_MAX REB_DATATYPE bits arg : Nat)
    (hmax : REB_MAX ≤ 64) (hb : bits < 18446744073709551616) :
    (Typeset_To_Array REB_MAX bits).2 =
      ((List.range REB_MAX).filter (fun n => bits.testBit n)).map
        (fun n => if n = 0 then Typeset_Cell.blank else Typeset_Cell.datatype n) ∧
    (Typeset_To_Array REB_MAX bits).2.length =
      ((List.range REB_MAX).filter (fun n => bits.testBit n)).length ∧
    (Typeset_To_Array REB_MAX bits).1 = (Typeset_To_Array REB_MAX bits).2.length ∧
    ((List.range REB_MAX).filter (fun n => bits.testBit n)).Sorted (· < ·) ∧
    (∀ n, n ∈ (List.range REB_MAX).filter (fun n => bits.testBit n) ↔
      n < REB_MAX ∧ bits.testBit n = true) ∧
    (∃ c, T_Typeset REB_DATATYPE .SYM_COMPLEMENT bits .other = some c ∧
      c < 18446744073709551616 ∧ (∀ i, i < 64 → c.testBit i = !bits.testBit i) ∧
      T_Typeset REB_DATATYPE .SYM_COMPLEMENT c .other = some bits) ∧
    (∃ r, T_Typeset REB_DATATYPE .SYM_AND_T bits (.typeset arg) = some r ∧
      ∀ i, r.testBit i = (bits.testBit i && arg.testBit i)) ∧
    (∃ r, T_Typeset REB_DATATYPE .SYM_OR_T bits (.typeset arg) = some r ∧
      ∀ i, r.testBit i = (bits.testBit i || arg.testBit i)) ∧
    (∃ r, T_Typeset REB_DATATYPE .SYM_XOR_T bits (.typeset arg) = some r ∧
      ∀ i, r.testBit i = (bits.testBit i ^^ arg.testBit i)) := by
  have hf : (List.range REB_MAX).filter (TYPE_CHECK bits) =
      (List.range REB_MAX).filter (fun n => bits.testBit n) := by
    apply List.filter_congr
    intro n hn
    exact TYPE_CHECK_testBit bits n (by have := List.mem_range.1 hn; omega)
  have hcells : (Typeset_To_Array REB_MAX bits).2 =
      ((List.range REB_MAX).filter (fun n => bits.testBit n)).map
        (fun n => if n = 0 then Typeset_Cell.blank else Typeset_Cell.datatype n) := by
    unfold Typeset_To_Array
    rw [Typeset_To_Array_cells_eq, hf]
    simp
  have hsize : (Typeset_To_Array REB_MAX bits).1 =
      ((List.range REB_MAX).filter (fun n => bits.testBit n)).length := by
    unfold Typeset_To_Array Typeset_To_Array_size
    rw [Typeset_To_Array_size_eq, hf]
    simp
  refine ⟨hcells, ?_, ?_, range_filter_sorted _ _, ?_, ?_, ?_, ?_, ?_⟩
  · rw [hcells, List.length_map]
  · rw [hsize, hcells, List.length_map]
  · intro n
    simp [List.mem_filter]
  · exact ⟨complement64 bits, rfl, complement64_lt bits,
      fun i hi => complement64_testBit bits i hb hi, by
        show some (complement64 (complement64 bits)) = some bits
        rw [complement64_involution bits hb]⟩
  · exact ⟨bits &&& arg, rfl, fun i => Nat.testBit_and _ _ _⟩
  · exact ⟨bits ||| arg, rfl, fun i => Nat.testBit_or _ _ _⟩
  · exact ⟨bits ^^^ arg, rfl, fun i => Nat.testBit_xor _ _ _⟩

/-- C38 at the typeset with the bits of the kinds 0, 2 and 5 among 40 kinds. -/
theorem Typeset_To_Array_cells_and_actions_witness :
    (40 : Nat) ≤ 64 ∧ (37 : Nat) < 18446744073709551616 ∧
    Typeset_To_Array 40 37 = (3, [.blank, .datatype 2, .datatype 5]) ∧
    (Typeset_To_Array 40 37).2 =
      ((List.range 40).filter (fun n => (37 : Nat).testBit n)).map
        (fun n => if n = 0 then Typeset_Cell.blank else Typeset_Cell.datatype n) ∧
    T_Typeset 38 .SYM_COMPLEMENT 37 .other = some 18446744073709551578 ∧
    T_Typeset 38 .SYM_XOR_T 37 (.typeset 7) = some 34 :=
  ⟨by decide, by decide, by decide,
    (Typeset_To_Array_cells_and_actions 40 38 37 7 (by decide) (by decide)).1,
    by decide, by decide⟩

set_option maxRecDepth 1000000 in
/-- C39 (code bug): Init_Pools leaves the table as 1, 0, 0, 0, 0. After four series were
expanded, slots 4 down to 1 hold them and no slot is NULL, so that Expand_Series of a fifth
series `s` leaves `n_available` at 0 and records `s` in slot 0, over the mark.
GC_Kill_Series(s), and Free_Series(s), look at the slots 1 to 4 only: both return and slot
0 still holds the node of `s`. -/
theorem GC_Kill_Series_keeps_slot_0 :
    Init_Pools demo_boot false (-4096) = .ok () demo_init ∧
    demo_init.Prior_Expand = [1, 0, 0, 0, 0] ∧
    demo_five_made.1.map (fun s => s.node) = [4176, 4528, 4592, 4672, 4736] ∧
    demo_four_expanded.Prior_Expand = [1, 4672, 4592, 4528, 4176] ∧
    demo_fifth.node = 4736 ∧
    ∃ s1 m5, Expand_Series demo_four_expanded demo_fifth 0 200 = .ok s1 m5 ∧
      s1.node = 4736 ∧ m5.Prior_Expand = [4736, 4672, 4592, 4528, 4176] ∧
      (∃ m6, GC_Kill_Series m5 s1 = .ok () m6 ∧
        m6.Prior_Expand = [4736, 4672, 4592, 4528, 4176]) ∧
      ∃ m7, Free_Series m5 s1 = .ok () m7 ∧
        m7.Prior_Expand = [4736, 4672, 4592, 4528, 4176] :=
  ⟨rfl, rfl, rfl, rfl, rfl,
    (demo_expand demo_four_expanded demo_fifth).1,
    (demo_expand demo_four_expanded demo_fifth).2, rfl, rfl, rfl,
    ⟨(GC_Kill_Series (demo_expand demo_four_expanded demo_fifth).2
        (demo_expand demo_four_expanded demo_fifth).1).mem, rfl, rfl⟩,
    (Free_Series (demo_expand demo_four_expanded demo_fifth).2
        (demo_expand demo_four_expanded demo_fifth).1).mem, rfl, rfl⟩

theorem getD_length_zero (src : List Nat) : src.getD src.length 0 = 0 := by
  rw [List.getD_eq_getElem?_getD, List.getElem?_eq_none (by omega)]; rfl

theorem byteAt_ext (src rest : List Nat) (i : Nat) (h : i ≤ src.length) :
    byteAt (src ++ 0 :: rest) i = byteAt src i := by
  rw [byteAt_getD src i h, byteAt_getD (src ++ 0 :: rest) i (by simp; omega)]
  congr 1
  rcases Nat.eq_or_lt_of_le h with g | g
  · subst g
    rw [getD_length_zero, List.getD_eq_getElem?_getD,
      List.getElem?_append_right (le_refl _), Nat.sub_self]
    simp
  · rw [List.getD_append _ _ _ _ g]

theorem takeWhile_ext (p : Nat → Bool) (hp : p 0 = false) (l rest : List Nat) :
    (l ++ 0 :: rest).takeWhile p = l.takeWhile p := by
  induction l with
  | nil => simp [List.takeWhile, hp]
  | cons a l ih =>
    by_cases ha : p a = true
    · simp [List.takeWhile_cons_of_pos ha, ih]
    · simp [List.takeWhile_cons_of_neg ha]

theorem skip_while_ext (p : Nat → Bool) (hp : p 0 = false) (src rest : List Nat) (cp : Nat)
    (h : cp ≤ src.length) :
    skip_while p (src ++ 0 :: rest) cp = skip_while p src cp := by
  unfold skip_while
  rw [if_pos h, if_pos (by simp; omega), List.drop_append_of_le_length h,
    takeWhile_ext p hp]

theorem Prescan_loop_ext (src rest : List Nat) (b : Nat) :
    ∀ (fuel flags cp : Nat), cp ≤ src.length →
      Prescan_loop (src ++ 0 :: rest) b fuel flags cp = Prescan_loop src b fuel flags cp := by
  intro fuel
  induction fuel with
  | zero => intro flags cp _; rfl
  | succ f ih =>
    intro flags cp hcp
    have hlt : GET_LEX_CLASS (src.getD cp 0) ≠ LEX_CLASS_DELIMIT → cp < src.length := by
      intro hc
      rcases Nat.eq_or_lt_of_le hcp with g | g
      · rw [g, getD_length_zero] at hc
        exact absurd (by decide) hc
      · exact g
    unfold Prescan_loop
    rw [byteAt_ext src rest cp hcp, byteAt_getD src cp hcp]
    simp only [bind, Except.bind, pure, Except.pure]
    by_cases hd : GET_LEX_CLASS (src.getD cp 0) = LEX_CLASS_DELIMIT
    · rw [if_pos hd, if_pos hd]
    · rw [if_neg hd, if_neg hd]
      have hcl := hlt hd
      by_cases hs : GET_LEX_CLASS (src.getD cp 0) = LEX_CLASS_SPECIAL
      · rw [if_pos hs, if_pos hs]
        exact ih _ _ (by omega)
      · rw [if_neg hs, if_neg hs]
        by_cases hw : GET_LEX_CLASS (src.getD cp 0) = LEX_CLASS_WORD
        · rw [if_pos hw, if_pos hw,
            skip_while_ext IS_LEX_WORD_OR_NUMBER (by decide) src rest cp hcp]
          obtain ⟨cp1, s1, _, s3, _, _⟩ := skip_while_spec IS_LEX_WORD_OR_NUMBER src cp hcp
          rw [s1]
          exact ih _ _ s3
        · rw [if_neg hw, if_neg hw, skip_while_ext IS_LEX_NUMBER (by decide) src rest cp hcp]
          obtain ⟨cp1, s1, _, s3, _, _⟩ := skip_while_spec IS_LEX_NUMBER src cp hcp
          rw [s1]
          exact ih _ _ s3

theorem Prescan_Token_ext (src rest : List Nat) (fuel : Nat) (ss : SCAN_STATE)
    (h : ss.begin ≤ src.length) :
    Prescan_Token (src ++ 0 :: rest) fuel ss = Prescan_Token src fuel ss := by
  unfold Prescan_Token
  rw [skip_while_ext IS_LEX_SPACE (by decide) src rest ss.begin h]
  obtain ⟨cp, s1, _, s3, _, _⟩ := skip_while_spec IS_LEX_SPACE src ss.begin h
  rw [s1]
  simp only [bind, Except.bind]
  rw [Prescan_loop_ext src rest cp fuel 0 cp s3]

theorem Prescan_loop_progress (src : List Nat) (b f flags cp : Nat) (hcp : cp ≤ src.length) :
    (GET_LEX_CLASS (src.getD cp 0) = LEX_CLASS_DELIMIT ∧
      Prescan_loop src b (f + 1) flags cp = .ok (flags, if cp = b then cp + 1 else cp)) ∨
    (GET_LEX_CLASS (src.getD cp 0) ≠ LEX_CLASS_DELIMIT ∧
      ∃ flags1 cp1, cp < cp1 ∧ cp1 ≤ src.length ∧
        Prescan_loop src b (f + 1) flags cp = Prescan_loop src b f flags1 cp1) := by
  obtain ⟨f1, f2, f3, f4, f5⟩ := lex_byte_facts (src.getD cp 0)
  by_cases hd : GET_LEX_CLASS (src.getD cp 0) = LEX_CLASS_DELIMIT
  · left
    refine ⟨hd, ?_⟩
    unfold Prescan_loop
    rw [byteAt_getD src cp hcp]
    simp only [bind, Except.bind, pure, Except.pure]
    rw [if_pos hd]
    by_cases hb : cp = b
    · rw [if_pos hb, if_pos hb]
    · rw [if_neg hb, if_neg hb]
  · right
    refine ⟨hd, ?_⟩
    have hcl : cp < src.length := by
      rcases Nat.eq_or_lt_of_le hcp with g | g
      · rw [g, getD_length_zero] at hd
        exact absurd (by decide) hd
      · exact g
    by_cases hs : GET_LEX_CLASS (src.getD cp 0) = LEX_CLASS_SPECIAL
    · refine ⟨(if cp ≠ b then SET_LEX_FLAG flags (GET_LEX_VALUE (src.getD cp 0)) else flags),
        cp + 1, by omega, by omega, ?_⟩
      conv_lhs => rw [Prescan_loop]
      rw [byteAt_getD src cp hcp]
      simp only [bind, Except.bind, pure, Except.pure]
      rw [if_neg hd, if_pos hs]
    · by_cases hw : GET_LEX_CLASS (src.getD cp 0) = LEX_CLASS_WORD
      · obtain ⟨cp1, s1, s2, s3, _, s5⟩ := skip_while_spec IS_LEX_WORD_OR_NUMBER src cp hcp
        have hp : IS_LEX_WORD_OR_NUMBER (src.getD cp 0) = true := by
          rw [f3, hw]; decide
        have hlt : cp < cp1 := by
          rcases Nat.eq_or_lt_of_le s2 with g | g
          · rw [← g] at s5
            rw [s5 hcl] at hp
            exact absurd hp (by decide)
          · exact g
        refine ⟨SET_LEX_FLAG flags LEX_SPECIAL_WORD, cp1, hlt, s3, ?_⟩
        conv_lhs => rw [Prescan_loop]
        rw [byteAt_getD src cp hcp]
        simp only [bind, Except.bind, pure, Except.pure]
        rw [if_neg hd, if_neg hs, if_pos hw, s1]
      · obtain ⟨cp1, s1, s2, s3, _, s5⟩ := skip_while_spec IS_LEX_NUMBER src cp hcp
        have h3 : GET_LEX_CLASS (src.getD cp 0) = 3 := by
          have e0 : LEX_CLASS_DELIMIT = 0 := rfl
          have e1 : LEX_CLASS_SPECIAL = 1 := rfl
          have e2 : LEX_CLASS_WORD = 2 := rfl
          rw [e0] at hd; rw [e1] at hs; rw [e2] at hw
          omega
        have hp : IS_LEX_NUMBER (src.getD cp 0) = true := by
          rw [f4, h3]; decide
        have hlt : cp < cp1 := by
          rcases Nat.eq_or_lt_of_le s2 with g | g
          · rw [← g] at s5
            rw [s5 hcl] at hp
            exact absurd hp (by decide)
          · exact g
        refine ⟨flags, cp1, hlt, s3, ?_⟩
        conv_lhs => rw [Prescan_loop]
        rw [byteAt_getD src cp hcp]
        simp only [bind, Except.bind, pure, Except.pure]
        rw [if_neg hd, if_neg hs, if_neg hw, s1]

/-- C40: on every text `src` that ends with a NUL, from a position inside it, Prescan_Token
returns when the fuel is at least the length of the text plus 2: the loop comes to an end.
On return `begin <= end` and `end - begin >= 1`, `begin` is at most the position of the
NUL, `end` at most one past it, and no byte after the first in `[begin, end)` is of the
delimiter class. The bytes after the NUL do not matter to the result, they are not read. A
turn of the loop either returns (at a byte of the delimiter class) or goes on at a cursor
that is at least one byte further and not past the NUL. -/
theorem Prescan_Token_terminates (src : List Nat) (ss : SCAN_STATE) (fuel : Nat)
    (hb : ss.begin ≤ src.length) (hf : src.length + 2 ≤ fuel) :
    (∃ flags ss1, Prescan_Token src fuel ss = .ok (flags, ss1) ∧
      ss.begin ≤ ss1.begin ∧ ss1.begin ≤ src.length ∧ ss1.begin ≤ ss1.end_ ∧
      1 ≤ ss1.end_ - ss1.begin ∧ ss1.end_ ≤ src.length + 1 ∧
      ∀ i, ss1.begin < i → i < ss1.end_ →
        GET_LEX_CLASS (src.getD i 0) ≠ LEX_CLASS_DELIMIT) ∧
    (∀ rest, Prescan_Token (src ++ 0 :: rest) fuel ss = Prescan_Token src fuel ss) ∧
    ∀ b f flags cp, cp ≤ src.length →
      (GET_LEX_CLASS (src.getD cp 0) = LEX_CLASS_DELIMIT ∧
        Prescan_loop src b (f + 1) flags cp = .ok (flags, if cp = b then cp + 1 else cp)) ∨
      (GET_LEX_CLASS (src.getD cp 0) ≠ LEX_CLASS_DELIMIT ∧
        ∃ flags1 cp1, cp < cp1 ∧ cp1 ≤ src.length ∧
          Prescan_loop src b (f + 1) flags cp = Prescan_loop src b f flags1 cp1) := by
  refine ⟨?_, fun rest => Prescan_Token_ext src rest fuel ss hb,
    fun b f flags cp hcp => Prescan_loop_progress src b f flags cp hcp⟩
  have hnul := getD_length_zero src
  obtain ⟨b, s1, s2, s3, s4, s5⟩ := skip_while_spec IS_LEX_SPACE src ss.begin hb
  obtain ⟨e, t1, t2, t3, t4, t5⟩ :=
    skip_while_spec (fun c => GET_LEX_CLASS c != LEX_CLASS_DELIMIT) src b s3
  have hd : GET_LEX_CLASS (src.getD e 0) = LEX_CLASS_DELIMIT := by
    rcases Nat.eq_or_lt_of_le t3 with g | g
    · rw [g, hnul]; decide
    · simpa using t5 g
  have hnd : ∀ i, b ≤ i → i < e → GET_LEX_CLASS (src.getD i 0) ≠ LEX_CLASS_DELIMIT := by
    intro i i1 i2
    simpa using t4 i i1 i2
  obtain ⟨flags, l1, _⟩ := Prescan_loop_spec src b e t3 hnd hd (e - b) fuel 0 b
    (le_refl _) (by omega) (le_refl _) t2 (Is_Fingerprint.init src b) (by decide)
  refine ⟨flags, { ss with begin := b, end_ := if e = b then e + 1 else e }, ?_, s2, s3, ?_, ?_,
    ?_, ?_⟩
  · unfold Prescan_Token
    rw [s1]
    simp only [bind, Except.bind, pure, Except.pure]
    rw [l1]
  · show b ≤ if e = b then e + 1 else e
    split_ifs <;> omega
  · show 1 ≤ (if e = b then e + 1 else e) - b
    split_ifs <;> omega
  · show (if e = b then e + 1 else e) ≤ src.length + 1
    split_ifs <;> omega
  · intro i i1 i2
    have i3 : i < if e = b then e + 1 else e := i2
    have i4 : b < i := i1
    by_cases heb : e = b
    · rw [if_pos heb] at i3
      omega
    · rw [if_neg heb] at i3
      exact hnd i (by omega) i3

set_option maxRecDepth 100000 in
/-- C40 at the text `ab cd` from its start, and at the end of a text: the token `ab` ends
at the space, and at the terminator `end` is one past `begin`. -/
theorem Prescan_Token_terminates_witness :
    (Init_Scan_State 5).begin ≤ (ascii "ab cd").length ∧ (ascii "ab cd").length + 2 ≤ 7 ∧
    (∃ flags ss1, Prescan_Token (ascii "ab cd") 7 (Init_Scan_State 5) = .ok (flags, ss1) ∧
      (Init_Scan_State 5).begin ≤ ss1.begin ∧ ss1.begin ≤ (ascii "ab cd").length ∧
      ss1.begin ≤ ss1.end_ ∧ 1 ≤ ss1.end_ - ss1.begin ∧
      ss1.end_ ≤ (ascii "ab cd").length + 1 ∧
      ∀ i, ss1.begin < i → i < ss1.end_ →
        GET_LEX_CLASS ((ascii "ab cd").getD i 0) ≠ LEX_CLASS_DELIMIT) ∧
    Prescan_Token (ascii "ab cd") 7 (Init_Scan_State 5) =
      .ok (LEX_FLAG LEX_SPECIAL_WORD, { Init_Scan_State 5 with begin := 0, end_ := 2 }) ∧
    Prescan_Token (ascii "ab") 4 (Scan_at (Init_Scan_State 2) 2) =
      .ok (0, { Init_Scan_State 2 with begin := 2, end_ := 3 }) :=
  ⟨by decide, by decide,
    (Prescan_Token_terminates (ascii "ab cd") (Init_Scan_State 5) 7 (by decide)
      (by decide)).1, rfl, rfl⟩

set_option maxRecDepth 1000000 in
/-- C26 (counterexample): `foo:` followed by the delimiter `/` is not located as a SET
token. On the text `foo:/x` Locate_Token_May_Push_Mold returns TOKEN_URL with `end` at 6,
past the slash and what follows it, and on `foo:/` it returns TOKEN_URL with `end` at 5:
a colon before a slash begins a URL. -/
theorem Locate_Token_set_word_before_slash :
    GET_LEX_CLASS 47 = LEX_CLASS_DELIMIT ∧
    Locates_As (ascii "foo:") [47, 120] TOKEN_SET = false ∧
    Locate_Token_May_Push_Mold (ascii "foo:/x") 12 (Init_Scan_State 6) =
      .ok ⟨TOKEN_URL, { Init_Scan_State 6 with begin := 0, end_ := 6 }, none⟩ ∧
    Locate_Token_May_Push_Mold (ascii "foo:/") 12 (Init_Scan_State 5) =
      .ok ⟨TOKEN_URL, { Init_Scan_State 5 with begin := 0, end_ := 5 }, none⟩ :=
  ⟨by decide, by decide, rfl, rfl⟩

end RenC
